import Mathlib

/-!
The linker aslink-gb: a verification development.

Shallow embedding of parts of the generic SDCC linker (modules `codesequence`,
`area`, `symbol`, `module`, `codeoutput`, `library`, with the containers
`set`, `list`, `map`, `multimap` they rest on) and theorems about them.

Conventions of the embedding:

* C records reached through pointers live in lists that serve as heaps; a
  pointer is the index of the record in its heap, `NULL` is `none`.
* `Target_Address` and `UINT16` are `unsigned int` in `globdefs.h`; their
  width depends on the compiler, so every operation on them is taken modulo
  a word modulus `M` that is a parameter of the definitions.
* `UINT8` arithmetic is taken modulo 256.
* `Error_raise` with criticality `warning` appends to a list of messages;
  a fatal error ends the run, which is the result `none`.
-/

namespace Aslink

/-! ## codesequence.h / codesequence.c : relocation kinds -/

/-- Type `CodeSequence_RelocationKind` of codesequence.h: ten one-bit
fields; the first two are declared but never written or read. -/
structure CodeSequence_RelocationKind where
  msbByteIsUsed : Bool
  isThreeByteAddress : Bool
  mostSignificantByteIsUsed : Bool
  pageIsReferenced : Bool
  zeroPageIsReferenced : Bool
  dataIsSigned : Bool
  slotWidthIsTwo : Bool
  isRelocatedPCRelative : Bool
  isSymbol : Bool
  elementsAreBytes : Bool
  deriving DecidableEq, Repr, Inhabited

/-- Routine `CodeSequence_makeKindFromInteger` (codesequence.c 455-466):
`kind` is an out parameter of which eight fields are assigned from the bits
of the `UINT8` parameter `value`; the two reserved fields keep what the
caller's record held. -/
def CodeSequence_makeKindFromInteger (kind : CodeSequence_RelocationKind)
    (value : Nat) : CodeSequence_RelocationKind :=
  { kind with
    mostSignificantByteIsUsed := (value &&& 128) != 0
    pageIsReferenced          := (value &&& 64) != 0
    zeroPageIsReferenced      := (value &&& 32) != 0
    dataIsSigned              := (value &&& 16) != 0
    slotWidthIsTwo            := (value &&& 8) != 0
    isRelocatedPCRelative     := (value &&& 4) != 0
    isSymbol                  := (value &&& 2) != 0
    elementsAreBytes          := (value &&& 1) != 0 }

/-- Routine `CodeSequence_convertToInteger` (codesequence.c 558-578): the
`UINT8` accumulator `result` receives one addend per flag; the trailing
`if ((result & 0x74) != 0) result = result;` is kept as written. -/
def CodeSequence_convertToInteger (kind : CodeSequence_RelocationKind) : Nat :=
  let result := 0
  let result := (result + (if kind.mostSignificantByteIsUsed then 128 else 0)) % 256
  let result := (result + (if kind.pageIsReferenced then 64 else 0)) % 256
  let result := (result + (if kind.zeroPageIsReferenced then 32 else 0)) % 256
  let result := (result + (if kind.dataIsSigned then 16 else 0)) % 256
  let result := (result + (if kind.slotWidthIsTwo then 8 else 0)) % 256
  let result := (result + (if kind.isRelocatedPCRelative then 4 else 0)) % 256
  let result := (result + (if kind.isSymbol then 2 else 0)) % 256
  let result := (result + (if kind.elementsAreBytes then 1 else 0)) % 256
  let result := if (result &&& 0x74) != 0 then result else result
  result

/-! ## set.h / set.c : sets of small enumeration values as bit masks -/

/-- Type `Set_Type` of set.h (a `long` used as a bit mask). -/
abbrev Set_Type := Nat

/-- Routine `Set_make` (set.c): `1 << element`. -/
def Set_make (element : Nat) : Set_Type := 1 <<< element

/-- Routine `Set_isElement` (set.c): `(Set_make(element) & set) != 0`. -/
def Set_isElement (set : Set_Type) (element : Nat) : Bool :=
  (Set_make element &&& set) != 0

/-- Routine `Set_include` (set.c): `*set |= 1 << element`. -/
def Set_include (set : Set_Type) (element : Nat) : Set_Type :=
  set ||| (1 <<< element)

/-- Routine `Set_exclude` (set.c): `*set &= ~(1 << element)`; on natural
numbers the bit is cleared by xor with the masked bit. -/
def Set_exclude (set : Set_Type) (element : Nat) : Set_Type :=
  set ^^^ (set &&& (1 <<< element))

/-! ## string.h / string.c -/

/-- Type `String_Type`: strings are passed by value in the embedding. -/
abbrev String_Type := String

/-- Routine `String_convertToUpperCase` (string.c): `toupper` on every
character. -/
def String_convertToUpperCase (st : String_Type) : String_Type :=
  ⟨st.data.map Char.toUpper⟩

/-- Routine `String_hashCode` (string.c): the sum of the character codes. -/
def String_hashCode (st : String_Type) : Nat :=
  (st.data.map Char.toNat).sum

/-! ## list.h / list.c : the parts used on heaps and pointer lists -/

/-- Routine `List_lookup` (list.c) on a list that owns its records: the
first record accepted by the key validation procedure, together with its
position, which serves as the pointer to the record. -/
def List_lookupIndex {α : Type} (hasKey : α → Bool) : List α → Option (Nat × α)
  | [] => none
  | x :: rest =>
    if hasKey x then some (0, x)
    else match List_lookupIndex hasKey rest with
      | some (i, y) => some (i + 1, y)
      | none => none

/-- Routine `List_getElement` (list.c): the element at the 1-based position
`i`, `NULL` when `i` is 0 or beyond the end. -/
def List_getElement {α : Type} (list : List α) (i : Nat) : Option α :=
  if i > 0 then list[i - 1]? else none

/-- Assignment through a pointer: the record at position `i` of a heap is
replaced by its image under `f`; a heap without such a record is unchanged. -/
def heapUpdate {α : Type} (heap : List α) (i : Nat) (f : α → α) : List α :=
  match heap[i]? with
  | some x => heap.set i (f x)
  | none => heap

/-- The loop shared by `Module_replaceSymbol` and `Area_replaceSegmentSymbol`:
the first list element equal to `oldValue` is overwritten by `newValue`, then
the loop is left by `break`. -/
def List_replaceFirst (list : List Nat) (oldValue newValue : Nat) : List Nat :=
  match list with
  | [] => []
  | x :: rest =>
    if x = oldValue then newValue :: rest
    else x :: List_replaceFirst rest oldValue newValue

/-! ## map.h / map.c : hash map with 64 buckets, keys are strings -/

/-- Constant `Map__bucketCount` (map.c). -/
def Map__bucketCount : Nat := 64

/-- Type `Map__Record` (map.c) for string keys: every bucket is a list of
`Map__EntryRecord`s, an entry is a pair of key and value. -/
structure Map_Type (V : Type) where
  bucket : Nat → List (String_Type × V)

/-- Routine `Map_make` (map.c): all buckets are empty lists. -/
def Map_make {V : Type} : Map_Type V := ⟨fun _ => []⟩

/-- Routine `Map__hashValue` (map.c): hash code modulo the bucket count. -/
def Map__hashValue (key : String_Type) : Nat :=
  String_hashCode key % Map__bucketCount

/-- Routine `List_lookup` on a bucket with `Map__entryHasKey`: the value of
the first entry whose key equals `key`. -/
def Map__bucketLookup {V : Type} (key : String_Type) :
    List (String_Type × V) → Option V
  | [] => none
  | (k, v) :: rest => if key = k then some v else Map__bucketLookup key rest

/-- Routine `Map_lookup` (map.c). -/
def Map_lookup {V : Type} (map : Map_Type V) (key : String_Type) : Option V :=
  Map__bucketLookup key (map.bucket (Map__hashValue key))

/-- The bucket update of `Map_set`: the first entry with `key` receives the
value, or a new entry is appended when the key is new. -/
def Map__bucketSet {V : Type} (key : String_Type) (value : V) :
    List (String_Type × V) → List (String_Type × V)
  | [] => [(key, value)]
  | (k, v) :: rest =>
    if key = k then (k, value) :: rest
    else (k, v) :: Map__bucketSet key value rest

/-- Routine `Map_set` (map.c). -/
def Map_set {V : Type} (map : Map_Type V) (key : String_Type) (value : V) :
    Map_Type V :=
  ⟨fun h => if h = Map__hashValue key
            then Map__bucketSet key value (map.bucket h)
            else map.bucket h⟩

/-! ## error.h : warnings raised through `Error_raise` -/

/-- The warnings of criticality `Error_Criticality_warning` raised by the
embedded routines, one constructor per message text. -/
inductive Warning where
  /-- Text "Conflicting flags in area %s" (area.c, `Area_make`) -/
  | conflictingFlags (areaName : String_Type)
  /-- Text "Paged Area %s Boundary Error" (area.c, `Area__linkSegments`) -/
  | pagedAreaBoundaryError (areaName : String_Type)
  /-- Text "Paged Area %s Length Error" (area.c, `Area__linkSegments`) -/
  | pagedAreaLengthError (areaName : String_Type)
  /-- Text "Multiple definition of symbol %s" (symbol.c, `Symbol_make`) -/
  | multipleDefinition (symbolName : String_Type)
  /-- Text "Non-zero address field in symbol reference %s" (symbol.c) -/
  | nonZeroAddressInReference (symbolName : String_Type)
  /-- Text "R symbol error" (codesequence.c) -/
  | rSymbolError
  /-- Text "R area error" (codesequence.c) -/
  | rAreaError
  /-- A relocation error report of `CodeSequence__reportRelocationError`;
  the number is the `CodeSequence__RelocError` value. -/
  | relocationError (errorKind : Nat)
  /-- Text "definition of public symbol '%s' found more than once in%s"
  (library.c, `Library__findSymbol`) -/
  | multipleLibraryDefinition (symbolName : String_Type)
  deriving DecidableEq, Repr

/-! ## area.h, symbol.c, module.c : the records of the object graph -/

/-- Enumeration `Area_Attribute` (area.h). -/
def Area_Attribute_isAbsolute : Nat := 0
/-- Enumeration `Area_Attribute` (area.h). -/
def Area_Attribute_hasOverlayedSegments : Nat := 1
/-- Enumeration `Area_Attribute` (area.h). -/
def Area_Attribute_hasPagedSegments : Nat := 2

/-- Enumeration `Symbol__Attribute` (symbol.c). -/
def Symbol__Attribute_isDefined : Nat := 0
/-- Enumeration `Symbol__Attribute` (symbol.c). -/
def Symbol__Attribute_isReferenced : Nat := 1
/-- Enumeration `Symbol__Attribute` (symbol.c). -/
def Symbol__Attribute_isSurrogate : Nat := 2

/-- Type `Area__Record` (area.c); `segmentList` holds segment pointers. -/
structure Area__Record where
  name : String_Type
  attributes : Set_Type
  startAddress : Nat
  totalSize : Nat
  segmentList : List Nat
  deriving DecidableEq, Repr

/-- Type `Area__SegmentRecord` (area.c); `parentArea` and `parentModule` are
pointers, `symbolList` holds symbol pointers. -/
structure Area__SegmentRecord where
  parentArea : Option Nat
  parentModule : Option Nat
  startAddress : Nat
  totalSize : Nat
  symbolList : List Nat
  deriving DecidableEq, Repr

/-- Type `Symbol__Record` (symbol.c); `startAddress` is the offset of the
symbol in its defining segment. -/
structure Symbol__Record where
  name : String_Type
  definingSegment : Option Nat
  attributes : Set_Type
  startAddress : Nat
  deriving DecidableEq, Repr

/-- Type `Module__Record` (module.c); the two lists hold segment and symbol
pointers. -/
structure Module__Record where
  name : String_Type
  segmentCount : Nat
  symbolCount : Nat
  associatedFileName : String_Type
  segmentList : List Nat
  symbolList : List Nat
  deriving DecidableEq, Repr

/-- The file-scope variables of area.c, symbol.c and module.c together with
the heap of segment records and the warnings raised so far.  `Area__list`,
`Symbol__list` and `Module__list` own their records: an area, symbol or module
pointer is a position in them.  `Area__absoluteArea` is set once by
`Area_initialize`. -/
structure Linker where
  Area__list : List Area__Record
  Area__absoluteArea : Nat
  segmentHeap : List Area__SegmentRecord
  Area__currentSegment : Option Nat
  Symbol__list : List Symbol__Record
  Symbol__indexByName : Map_Type Nat
  Symbol__platformIsCaseSensitive : Bool
  Module__list : List Module__Record
  Module__currentModule : Option Nat
  warnings : List Warning

/-- Assignment to the file-scope variable `Area__list`. -/
def Linker.setAreaList (st : Linker) (v : List Area__Record) : Linker :=
  { st with Area__list := v }

/-- Assignment to the file-scope variable `Area__absoluteArea`. -/
def Linker.setAbsoluteArea (st : Linker) (v : Nat) : Linker :=
  { st with Area__absoluteArea := v }

/-- Assignment to the heap of segment records. -/
def Linker.setSegmentHeap (st : Linker) (v : List Area__SegmentRecord) : Linker :=
  { st with segmentHeap := v }

/-- Assignment to the file-scope variable `Area__currentSegment`. -/
def Linker.setCurrentSegment (st : Linker) (v : Option Nat) : Linker :=
  { st with Area__currentSegment := v }

/-- Assignment to the file-scope variable `Symbol__list`. -/
def Linker.setSymbolList (st : Linker) (v : List Symbol__Record) : Linker :=
  { st with Symbol__list := v }

/-- Assignment to the file-scope variable `Symbol__indexByName`. -/
def Linker.setSymbolIndex (st : Linker) (v : Map_Type Nat) : Linker :=
  { st with Symbol__indexByName := v }

/-- Assignment to the file-scope variable `Module__list`. -/
def Linker.setModuleList (st : Linker) (v : List Module__Record) : Linker :=
  { st with Module__list := v }

/-- Assignment to the file-scope variable `Module__currentModule`. -/
def Linker.setCurrentModule (st : Linker) (v : Option Nat) : Linker :=
  { st with Module__currentModule := v }

/-- Routine `Error_raise` with `Error_Criticality_warning`. -/
def Error_raiseWarning (st : Linker) (w : Warning) : Linker :=
  { st with warnings := st.warnings ++ [w] }

/-- Assignment through an area pointer. -/
def Linker.updateArea (st : Linker) (area : Nat)
    (f : Area__Record → Area__Record) : Linker :=
  st.setAreaList (heapUpdate st.Area__list area f)

/-- Assignment through a segment pointer. -/
def Linker.updateSegment (st : Linker) (segment : Nat)
    (f : Area__SegmentRecord → Area__SegmentRecord) : Linker :=
  st.setSegmentHeap (heapUpdate st.segmentHeap segment f)

/-- Assignment through a symbol pointer. -/
def Linker.updateSymbol (st : Linker) (symbol : Nat)
    (f : Symbol__Record → Symbol__Record) : Linker :=
  st.setSymbolList (heapUpdate st.Symbol__list symbol f)

/-- Assignment through a module pointer. -/
def Linker.updateModule (st : Linker) (module : Nat)
    (f : Module__Record → Module__Record) : Linker :=
  st.setModuleList (heapUpdate st.Module__list module f)

/-- Constant `Area__absoluteAreaName` as set by `Area_initialize`. -/
def Area__absoluteAreaName : String_Type := ".ABS."

/-! ## module.c -/

/-- Routine `Module_addSegment` (module.c): the precondition check ends the
program when `module` is not a valid module pointer; otherwise the segment
pointer is appended to the module's segment list. -/
def Module_addSegment (st : Linker) (module : Option Nat) (segment : Nat) :
    Option Linker :=
  match module with
  | none => none
  | some m =>
    match st.Module__list[m]? with
    | none => none
    | some _ =>
      some (st.updateModule m
        (fun r => { r with segmentList := r.segmentList ++ [segment] }))

/-- Routine `Module_addSymbol` (module.c): as `Module_addSegment`, on the
symbol list. -/
def Module_addSymbol (st : Linker) (module : Option Nat) (symbol : Nat) :
    Option Linker :=
  match module with
  | none => none
  | some m =>
    match st.Module__list[m]? with
    | none => none
    | some _ =>
      some (st.updateModule m
        (fun r => { r with symbolList := r.symbolList ++ [symbol] }))

/-- Routine `Module_replaceSymbol` (module.c). -/
def Module_replaceSymbol (st : Linker) (module : Option Nat)
    (oldSymbol newSymbol : Nat) : Option Linker :=
  match module with
  | none => none
  | some m =>
    match st.Module__list[m]? with
    | none => none
    | some _ =>
      some (st.updateModule m
        (fun r => { r with symbolList :=
                     List_replaceFirst r.symbolList oldSymbol newSymbol }))

/-- Routine `Module_getSymbol` (module.c): 1-based access to the symbol list
of a valid module. -/
def Module_getSymbol (st : Linker) (module : Option Nat) (symbolIndex : Nat) :
    Option (Option Nat) :=
  match module with
  | none => none
  | some m =>
    match st.Module__list[m]? with
    | none => none
    | some r => some (List_getElement r.symbolList symbolIndex)

/-- Routine `Module_getSegment` (module.c): 1-based access to the segment
list of a valid module. -/
def Module_getSegment (st : Linker) (module : Option Nat) (segmentIndex : Nat) :
    Option (Option Nat) :=
  match module with
  | none => none
  | some m =>
    match st.Module__list[m]? with
    | none => none
    | some r => some (List_getElement r.segmentList segmentIndex)

/-- Routine `Module_make` (module.c): a new module record is appended to
`Module__list` and becomes the current module. -/
def Module_make (st : Linker) (associatedFileName : String_Type)
    (segmentCount symbolCount : Nat) : Linker :=
  let record : Module__Record :=
    { name := "", segmentCount := segmentCount, symbolCount := symbolCount,
      associatedFileName := associatedFileName, segmentList := [], symbolList := [] }
  (st.setModuleList (st.Module__list ++ [record])).setCurrentModule
    (some st.Module__list.length)

/-- Routine `Module_setName` (module.c): a fatal error without a current
module. -/
def Module_setName (st : Linker) (name : String_Type) : Option Linker :=
  match st.Module__currentModule with
  | none => none
  | some m => some (st.updateModule m (fun r => { r with name := name }))

/-! ## area.c -/

/-- Routine `Area__init` (area.c): a new area record is appended to
`Area__list`; `totalSize` is left unassigned by the source and is 0 here. -/
def Area__init (st : Linker) (areaName : String_Type) (attributeSet : Set_Type) :
    Linker × Nat :=
  let record : Area__Record :=
    { name := areaName, attributes := attributeSet, startAddress := 0,
      totalSize := 0, segmentList := [] }
  (st.setAreaList (st.Area__list ++ [record]), st.Area__list.length)

/-- Routine `Area_initialize` (area.c) on the other modules' initial state:
the area list holds the predefined area ".ABS." with the attributes
`isAbsolute` and `hasOverlayedSegments`. -/
def Area_initialize (st : Linker) : Linker :=
  let attributes := Set_include (Set_include 0 Area_Attribute_isAbsolute)
                      Area_Attribute_hasOverlayedSegments
  let st := st.setAreaList []
  let (st, area) := Area__init st Area__absoluteAreaName attributes
  st.setAbsoluteArea area

/-- Routine `Area_make` (area.c 337-356). -/
def Area_make (st : Linker) (areaName : String_Type) (attributeSet : Set_Type) :
    Linker × Nat :=
  match List_lookupIndex (fun a => a.name == areaName) st.Area__list with
  | none => Area__init st areaName attributeSet
  | some (area, r) =>
    if attributeSet != r.attributes then
      (Error_raiseWarning st (.conflictingFlags areaName), area)
    else (st, area)

/-- Routine `Area__makeSegment` (area.c): a fatal error without a current
module, else a new segment record on the heap. -/
def Area__makeSegment (st : Linker) : Option (Linker × Nat) :=
  match st.Module__currentModule with
  | none => none
  | some currentModule =>
    let record : Area__SegmentRecord :=
      { parentArea := none, parentModule := some currentModule, startAddress := 0,
        totalSize := 0, symbolList := [] }
    some (st.setSegmentHeap (st.segmentHeap ++ [record]), st.segmentHeap.length)

/-- Routine `Area_makeSegment` (area.c 360-374). -/
def Area_makeSegment (st : Linker) (areaName : String_Type) (totalSize : Nat)
    (attributeSet : Set_Type) : Option Linker :=
  let (st, area) := Area_make st areaName attributeSet
  match Area__makeSegment st with
  | none => none
  | some (st, segment) =>
    let st := st.updateArea area
      (fun r => { r with segmentList := r.segmentList ++ [segment] })
    let st := st.updateSegment segment
      (fun r => { r with parentArea := some area, totalSize := totalSize })
    match Module_addSegment st st.Module__currentModule segment with
    | none => none
    | some st => some (st.setCurrentSegment (some segment))

/-- Routine `Area_makeAbsoluteSegment` (area.c 378-382); dereferencing
`Area__absoluteArea` needs the record to exist. -/
def Area_makeAbsoluteSegment (st : Linker) : Option Linker :=
  match st.Area__list[st.Area__absoluteArea]? with
  | none => none
  | some r => Area_makeSegment st Area__absoluteAreaName 0 r.attributes

/-- Routine `Area_addSymbolToSegment` (area.c 645-657): the precondition
check ends the program for an invalid segment pointer. -/
def Area_addSymbolToSegment (st : Linker) (segment : Option Nat) (symbol : Nat) :
    Option Linker :=
  match segment with
  | none => none
  | some s =>
    match st.segmentHeap[s]? with
    | none => none
    | some _ =>
      some (st.updateSegment s
        (fun r => { r with symbolList := r.symbolList ++ [symbol] }))

/-- Routine `Area_replaceSegmentSymbol` (area.c 725-748). -/
def Area_replaceSegmentSymbol (st : Linker) (segment : Option Nat)
    (oldSymbol newSymbol : Nat) : Option Linker :=
  match segment with
  | none => none
  | some s =>
    match st.segmentHeap[s]? with
    | none => none
    | some _ =>
      some (st.updateSegment s
        (fun r => { r with symbolList :=
                     List_replaceFirst r.symbolList oldSymbol newSymbol }))

/-- Routine `Area_getSegmentAddress` (area.c 535-546). -/
def Area_getSegmentAddress (st : Linker) (segment : Option Nat) : Option Nat :=
  match segment with
  | none => none
  | some s =>
    match st.segmentHeap[s]? with
    | none => none
    | some r => some r.startAddress

/-- Routine `Area_getSegmentModule` (area.c 565-576). -/
def Area_getSegmentModule (st : Linker) (segment : Option Nat) :
    Option (Option Nat) :=
  match segment with
  | none => none
  | some s =>
    match st.segmentHeap[s]? with
    | none => none
    | some r => some r.parentModule

/-- Routine `Area_setBaseAddresses` (area.c 752-767): every area with the
given name receives the base address. -/
def Area_setBaseAddresses (st : Linker) (segmentName : String_Type)
    (baseAddress : Nat) : Linker :=
  let setAddress : Area__Record → Area__Record := fun r =>
    if r.name == segmentName then { r with startAddress := baseAddress } else r
  st.setAreaList (st.Area__list.map setAddress)

/-- The segment loop of `Area__linkSegments` (area.c 263-278) over the
segment pointers of the area, with the running `address` and `size`; the
conversion check ends the program at an invalid segment pointer. -/
def Area__linkSegmentsLoop (M : Nat) (hasOverlayedSegments : Bool) :
    List Nat → Nat → Nat → List Area__SegmentRecord →
    Option (List Area__SegmentRecord × Nat)
  | [], _, size, heap => some (heap, size)
  | segment :: rest, address, size, heap =>
    match heap[segment]? with
    | none => none
    | some r =>
      let heap := heap.set segment { r with startAddress := address }
      if !hasOverlayedSegments then
        Area__linkSegmentsLoop M hasOverlayedSegments rest
          ((address + r.totalSize) % M) ((size + r.totalSize) % M) heap
      else if r.totalSize > size then
        Area__linkSegmentsLoop M hasOverlayedSegments rest address r.totalSize heap
      else
        Area__linkSegmentsLoop M hasOverlayedSegments rest address size heap

/-- Routine `Area__linkSegments` (area.c 244-286) for the area pointer
`area`. -/
def Area__linkSegments (M : Nat) (st : Linker) (area : Nat) : Option Linker :=
  match st.Area__list[area]? with
  | none => none
  | some r =>
    let address := r.startAddress
    let hasOverlayedSegments :=
      Set_isElement r.attributes Area_Attribute_hasOverlayedSegments
    let hasPagedSegments :=
      Set_isElement r.attributes Area_Attribute_hasPagedSegments
    let st := if hasPagedSegments && ((address &&& 0xFF) != 0)
              then Error_raiseWarning st (.pagedAreaBoundaryError r.name) else st
    match Area__linkSegmentsLoop M hasOverlayedSegments r.segmentList address 0
            st.segmentHeap with
    | none => none
    | some (heap, size) =>
      let st := st.setSegmentHeap heap
      let st := st.updateArea area (fun a => { a with totalSize := size })
      let st := if hasPagedSegments && size > 256
                then Error_raiseWarning st (.pagedAreaLengthError r.name) else st
      some st

/-! ## symbol.c -/

/-- The first block of `Symbol__lookup` (symbol.c 132-138): the name is
normalised to upper case on a platform that is not case sensitive. -/
def Symbol__normalizedName (st : Linker) (name : String_Type) : String_Type :=
  if !st.Symbol__platformIsCaseSensitive then String_convertToUpperCase name else name

/-- Routine `Symbol__lookup` (symbol.c 126-151).  The source normalises the
name in place, in the string record of the caller, so the normalised name is
returned with the state and the symbol pointer. -/
def Symbol__lookup (st : Linker) (name : String_Type) (isCreated : Bool) :
    Linker × String_Type × Option Nat :=
  let name := Symbol__normalizedName st name
  match Map_lookup st.Symbol__indexByName name with
  | some symbol => (st, name, some symbol)
  | none =>
    if isCreated then
      let symbol := st.Symbol__list.length
      let record : Symbol__Record :=
        { name := name, definingSegment := none, attributes := 0, startAddress := 0 }
      let st := st.setSymbolList (st.Symbol__list ++ [record])
      let st := st.setSymbolIndex (Map_set st.Symbol__indexByName name symbol)
      (st, name, some symbol)
    else (st, name, none)

/-- Routine `Symbol_lookup` (symbol.c 421-424). -/
def Symbol_lookup (st : Linker) (symbolName : String_Type) : Option Nat :=
  (Symbol__lookup st symbolName false).2.2

/-- Routine `Symbol_isDefined` (symbol.c 360-371); the precondition check
ends the program for an invalid symbol pointer. -/
def Symbol_isDefined (st : Linker) (symbol : Option Nat) : Option Bool :=
  match symbol with
  | none => none
  | some s =>
    match st.Symbol__list[s]? with
    | none => none
    | some r => some (Set_isElement r.attributes Symbol__Attribute_isDefined)

/-- Routine `Symbol_isSurrogate` (symbol.c 375-386). -/
def Symbol_isSurrogate (st : Linker) (symbol : Option Nat) : Option Bool :=
  match symbol with
  | none => none
  | some s =>
    match st.Symbol__list[s]? with
    | none => none
    | some r => some (Set_isElement r.attributes Symbol__Attribute_isSurrogate)

/-- Routine `Symbol_getSegment` (symbol.c 345-356). -/
def Symbol_getSegment (st : Linker) (symbol : Option Nat) : Option (Option Nat) :=
  match symbol with
  | none => none
  | some s =>
    match st.Symbol__list[s]? with
    | none => none
    | some r => some r.definingSegment

/-- Routine `Symbol_make` (symbol.c 210-241). -/
def Symbol_make (st : Linker) (symbolName : String_Type) (isDefinition : Bool)
    (startAddress : Nat) : Option (Linker × Nat) :=
  match Symbol__lookup st symbolName true with
  | (_, _, none) => none
  | (st, symbolName, some symbol) =>
    let newValue := if isDefinition then Symbol__Attribute_isDefined
                    else Symbol__Attribute_isReferenced
    let currentModule := st.Module__currentModule
    let afterBranch : Option Linker :=
      if isDefinition then
        match Symbol_isDefined st (some symbol) with
        | none => none
        | some isDefined =>
          let st := if isDefined
                    then Error_raiseWarning st (.multipleDefinition symbolName)
                    else st
          let st := st.updateSymbol symbol
            (fun r => { r with startAddress := startAddress })
          let st := st.updateSymbol symbol
            (fun r => { r with definingSegment := st.Area__currentSegment })
          Area_addSymbolToSegment st st.Area__currentSegment symbol
      else
        some (if startAddress != 0
              then Error_raiseWarning st (.nonZeroAddressInReference symbolName)
              else st)
    match afterBranch with
    | none => none
    | some st =>
      let st := st.updateSymbol symbol
        (fun r => { r with attributes := Set_include r.attributes newValue })
      match Module_addSymbol st currentModule symbol with
      | none => none
      | some st => some (st, symbol)

/-- The block of `Symbol_makeBySplit` that swaps the symbols (symbol.c
268-288).  After the swap the local `newSymbol` is the record passed in and
the local `oldSymbol` is the record returned by `Symbol__lookup`; they are
called `passed` and `fresh` here, and the assignments are made in the order
of the source: names, defining segment, start address, attributes, then the
two entries of the name index. -/
def Symbol__splitSwap (st : Linker) (passed fresh : Nat)
    (oldSymbolName symbolName : String_Type) (oldSymbolSegment : Option Nat) :
    Option Linker :=
  let st := st.updateSymbol fresh (fun x => { x with name := oldSymbolName })
  let st := st.updateSymbol passed (fun x => { x with name := symbolName })
  let st := st.updateSymbol fresh
    (fun x => { x with definingSegment := oldSymbolSegment })
  match st.Symbol__list[passed]? with
  | none => none
  | some p =>
    let st := st.updateSymbol fresh
      (fun x => { x with startAddress := p.startAddress })
    match st.Symbol__list[passed]? with
    | none => none
    | some p =>
      let st := st.updateSymbol fresh
        (fun x => { x with attributes := p.attributes })
      let st := st.setSymbolIndex (Map_set st.Symbol__indexByName symbolName passed)
      let st := st.setSymbolIndex (Map_set st.Symbol__indexByName oldSymbolName fresh)
      some st

/-- The assignments of `Symbol_makeBySplit` after the swap (symbol.c
290-298): the record under the old name loses `isReferenced`, the record
passed in gets address 0 and the attributes `isReferenced`, `isSurrogate`. -/
def Symbol__splitFlags (st : Linker) (passed fresh : Nat) : Linker :=
  let st := st.updateSymbol fresh
    (fun x => { x with attributes :=
                  Set_exclude x.attributes Symbol__Attribute_isReferenced })
  let st := st.updateSymbol passed (fun x => { x with startAddress := 0 })
  let st := st.updateSymbol passed
    (fun x => { x with attributes := Set_make Symbol__Attribute_isReferenced })
  st.updateSymbol passed
    (fun x => { x with attributes :=
                  Set_include x.attributes Symbol__Attribute_isSurrogate })

/-- Routine `Symbol_makeBySplit` (symbol.c 245-307): the three precondition
checks end the program when violated, as does the precondition check of
`Area_getSegmentModule` on the defining segment. -/
def Symbol_makeBySplit (st : Linker) (oldSymbol : Nat) (symbolName : String_Type) :
    Option (Linker × Nat) :=
  match st.Symbol__list[oldSymbol]? with
  | none => none
  | some r =>
    if !Set_isElement r.attributes Symbol__Attribute_isDefined then none
    else if Set_isElement r.attributes Symbol__Attribute_isSurrogate then none
    else
      let oldSymbolSegment := r.definingSegment
      match Area_getSegmentModule st oldSymbolSegment with
      | none => none
      | some oldSymbolModule =>
        let oldSymbolName := r.name
        match Symbol__lookup st symbolName true with
        | (_, _, none) => none
        | (st, symbolName, some fresh) =>
          let passed := oldSymbol
          match Symbol__splitSwap st passed fresh oldSymbolName symbolName
                  oldSymbolSegment with
          | none => none
          | some st =>
            let st := Symbol__splitFlags st passed fresh
            match Module_replaceSymbol st oldSymbolModule passed fresh with
            | none => none
            | some st =>
              match Area_replaceSegmentSymbol st oldSymbolSegment passed fresh with
              | none => none
              | some st => some (st, passed)

/-- Routine `Symbol_absoluteAddress` (symbol.c 428-443). -/
def Symbol_absoluteAddress (M : Nat) (st : Linker) (symbol : Option Nat) :
    Option Nat :=
  match symbol with
  | none => none
  | some s =>
    match st.Symbol__list[s]? with
    | none => none
    | some r =>
      let result := r.startAddress
      match r.definingSegment with
      | none => some result
      | some segment =>
        match Area_getSegmentAddress st (some segment) with
        | none => none
        | some address => some ((result + address) % M)

/-! ## area.c : `Area_link` -/

/-- The body of the area loop of `Area_link` (area.c 684-720) for the area
pointer `area`, with the running `relativeBaseAddress`. -/
def Area_linkArea (M : Nat) (st : Linker) (relativeBaseAddress : Nat) (area : Nat) :
    Option (Linker × Nat) :=
  match st.Area__list[area]? with
  | none => none
  | some r =>
    let linked : Option (Linker × Nat) :=
      if Set_isElement r.attributes Area_Attribute_isAbsolute then
        match Area__linkSegments M st area with
        | none => none
        | some st => some (st, relativeBaseAddress)
      else
        let st := if r.startAddress == 0
                  then st.updateArea area
                         (fun a => { a with startAddress := relativeBaseAddress })
                  else st
        match Area__linkSegments M st area with
        | none => none
        | some st =>
          match st.Area__list[area]? with
          | none => none
          | some a => some (st, (a.startAddress + a.totalSize) % M)
    match linked with
    | none => none
    | some (st, relativeBaseAddress) =>
      match st.Area__list[area]? with
      | none => none
      | some a =>
        if !(a.name == Area__absoluteAreaName) then
          match Symbol_make st ("s_" ++ a.name) true a.startAddress with
          | none => none
          | some (st, _) =>
            match Symbol_make st ("l_" ++ a.name) true a.totalSize with
            | none => none
            | some (st, _) => some (st, relativeBaseAddress)
        else some (st, relativeBaseAddress)

/-- The area loop of `Area_link` over the area pointers in list order. -/
def Area_linkLoop (M : Nat) : List Nat → Nat → Linker → Option Linker
  | [], _, st => some st
  | area :: rest, relativeBaseAddress, st =>
    match Area_linkArea M st relativeBaseAddress area with
    | none => none
    | some (st, relativeBaseAddress) => Area_linkLoop M rest relativeBaseAddress st

/-- Routine `Area_link` (area.c 674-721). -/
def Area_link (M : Nat) (st : Linker) : Option Linker :=
  match Area_makeAbsoluteSegment st with
  | none => none
  | some st => Area_linkLoop M (List.range st.Area__list.length) 0 st

/-! ## main.c : initial state -/

/-- The state after `Area_initialize`, `Module_initialize` and
`Symbol_initialize(platformIsCaseSensitive)` as called by `Main__initialize`:
only the area ".ABS." exists, there is no module, segment or symbol. -/
def Linker_initialState (platformIsCaseSensitive : Bool) : Linker :=
  Area_initialize
    { Area__list := [], Area__absoluteArea := 0, segmentHeap := [],
      Area__currentSegment := none, Symbol__list := [],
      Symbol__indexByName := Map_make,
      Symbol__platformIsCaseSensitive := platformIsCaseSensitive,
      Module__list := [], Module__currentModule := none, warnings := [] }

/-! ## Notions used in the statements -/

/-- Size of the segment behind a segment pointer, 0 for a dangling pointer. -/
def segmentSize (heap : List Area__SegmentRecord) (s : Nat) : Nat :=
  match heap[s]? with
  | some r => r.totalSize
  | none => 0


/-- A state after pass 1 of two object files: area "CODE" at 0x100 holds the
segments 1 (size 0x10) and 2 (size 0x20), the overlayed area "OVR" at 0x200
holds the segments 3 (size 8) and 4 (size 5); every module starts with its
segment of ".ABS.". -/
def layoutExample : Linker :=
  { Area__list :=
      [{ name := ".ABS.", attributes := 3, startAddress := 0, totalSize := 0,
         segmentList := [0, 5] },
       { name := "CODE", attributes := 0, startAddress := 0x100, totalSize := 0,
         segmentList := [1, 2] },
       { name := "OVR", attributes := 2, startAddress := 0x200, totalSize := 0,
         segmentList := [3, 4] }],
    Area__absoluteArea := 0,
    segmentHeap :=
      [{ parentArea := some 0, parentModule := some 0, startAddress := 0,
         totalSize := 0, symbolList := [] },
       { parentArea := some 1, parentModule := some 0, startAddress := 0,
         totalSize := 0x10, symbolList := [] },
       { parentArea := some 1, parentModule := some 1, startAddress := 0,
         totalSize := 0x20, symbolList := [] },
       { parentArea := some 2, parentModule := some 0, startAddress := 0,
         totalSize := 8, symbolList := [] },
       { parentArea := some 2, parentModule := some 1, startAddress := 0,
         totalSize := 5, symbolList := [] },
       { parentArea := some 0, parentModule := some 1, startAddress := 0,
         totalSize := 0, symbolList := [] }],
    Area__currentSegment := some 4,
    Symbol__list := [],
    Symbol__indexByName := Map_make,
    Symbol__platformIsCaseSensitive := true,
    Module__list :=
      [{ name := "A", segmentCount := 2, symbolCount := 0,
         associatedFileName := "a.o", segmentList := [0, 1, 3], symbolList := [] },
       { name := "B", segmentCount := 2, symbolCount := 0,
         associatedFileName := "b.o", segmentList := [5, 2, 4], symbolList := [] }],
    Module__currentModule := some 1,
    warnings := [] }

/-- A state after pass 1 of two object files "m1.o" and "m0.o" on a case
sensitive platform: module "M1" defines the symbol "proc" at offset 5 of its
segment of area "CODE" (segment 1), module "M0" references it. -/
def splitExample : Linker :=
  { Area__list :=
      [{ name := ".ABS.", attributes := 3, startAddress := 0, totalSize := 0,
         segmentList := [0, 2] },
       { name := "CODE", attributes := 0, startAddress := 0, totalSize := 0,
         segmentList := [1, 3] }],
    Area__absoluteArea := 0,
    segmentHeap :=
      [{ parentArea := some 0, parentModule := some 0, startAddress := 0,
         totalSize := 0, symbolList := [] },
       { parentArea := some 1, parentModule := some 0, startAddress := 0,
         totalSize := 16, symbolList := [0] },
       { parentArea := some 0, parentModule := some 1, startAddress := 0,
         totalSize := 0, symbolList := [] },
       { parentArea := some 1, parentModule := some 1, startAddress := 0,
         totalSize := 32, symbolList := [] }],
    Area__currentSegment := some 3,
    Symbol__list :=
      [{ name := "proc", definingSegment := some 1, attributes := 3, startAddress := 5 }],
    Symbol__indexByName := Map_set Map_make "proc" 0,
    Symbol__platformIsCaseSensitive := true,
    Module__list :=
      [{ name := "M1", segmentCount := 1, symbolCount := 1,
         associatedFileName := "m1.o", segmentList := [0, 1], symbolList := [0] },
       { name := "M0", segmentCount := 1, symbolCount := 1,
         associatedFileName := "m0.o", segmentList := [2, 3], symbolList := [0] }],
    Module__currentModule := some 1,
    warnings := [] }

/-! ## file.c : text output -/

/-- Type `File_Type` for an output file: the text written so far. -/
abbrev File_Type := String

/-- Routine `File_writeCharArray` (file.c). -/
def File_writeCharArray (file : File_Type) (st : String) : File_Type := file ++ st

/-- Routine `File_writeChar` (file.c). -/
def File_writeChar (file : File_Type) (ch : Char) : File_Type := file.push ch

/-- The hexadecimal digits of `value`, most significant first, without
leading zeros (one digit for values below 16), as `printf("%x")` writes
them; `fuel` bounds the number of digits. -/
def File__hexDigits : Nat → Nat → List Char
  | 0, _ => []
  | fuel + 1, value =>
    if value < 16 then [Nat.digitChar value]
    else File__hexDigits fuel (value / 16) ++ [Nat.digitChar (value % 16)]

/-- Routine `File_writeHex` (file.c 278-288): `fprintf(fp, "%.*x", digitCount,
value)` writes the lower-case hexadecimal digits of `value`, padded on the left
with zeros to at least `digitCount` digits; nothing is cut off.  `value` is a
`UINT32` (`unsigned long`, at most 16 hexadecimal digits). -/
def File_writeHex (file : File_Type) (value : Nat) (digitCount : Nat) : File_Type :=
  let digits := File__hexDigits 16 value
  file ++ String.mk (List.replicate (digitCount - digits.length) '0' ++ digits)

/-! ## codesequence.h : code sequences -/

/-- Type `CodeSequence_Type` (codesequence.h): `segment` is a segment
pointer, `offsetAddress` a `UINT32`, `length` a `UINT8`, `byteList` the array
of 256 `UINT8`. -/
structure CodeSequence_Type where
  segment : Option Nat
  romBank : Int
  offsetAddress : Nat
  length : Nat
  byteList : List Nat
  deriving DecidableEq, Repr

/-- The bytes `byteList[0]` to `byteList[length - 1]` of a code sequence in
index order, as the `for` loops over `i < sequence.length` read them. -/
def CodeSequence_bytes (sequence : CodeSequence_Type) : List Nat :=
  (List.range sequence.length).map (fun i => sequence.byteList.getD i 0)

/-! ## codeoutput.h / codeoutput.c -/

/-- Enumeration `CodeOutput_State` (codeoutput.h). -/
inductive CodeOutput_State where
  | atBegin
  | inCode
  | atEnd
  deriving DecidableEq, Repr

/-- The loop of `CodeOutput__checkSum`: while `addressValue > 0` the low byte
is added to the `UINT8` `result` and `addressValue` is divided by 256. -/
def CodeOutput__checkSumLoop : Nat → Nat → Nat → Nat
  | 0, _, result => result
  | fuel + 1, addressValue, result =>
    if addressValue > 0 then
      CodeOutput__checkSumLoop fuel (addressValue / 256)
        ((result + (addressValue &&& 0xFF) % 256) % 256)
    else result

/-- Routine `CodeOutput__checkSum` (codeoutput.c 53-64); an `unsigned long`
has at most eight bytes, so eight rounds end the loop. -/
def CodeOutput__checkSum (addressValue : Nat) : Nat :=
  CodeOutput__checkSumLoop 8 addressValue 0

/-- The loops `for (i = 0; i < sequence.length; i++) File_writeHex(file,
sequence.byteList[i], 2)` of both encoders. -/
def CodeOutput__writeBytes (file : File_Type) : List Nat → File_Type
  | [] => file
  | b :: rest => CodeOutput__writeBytes (File_writeHex file b 2) rest

/-- The loops `checkSum = checkSum + sequence.byteList[i]` of both encoders,
in `UINT8` arithmetic. -/
def CodeOutput__addBytes (checkSum : Nat) : List Nat → Nat
  | [] => checkSum
  | b :: rest => CodeOutput__addBytes ((checkSum + b) % 256) rest

/-- Routine `CodeOutput_writeIHXLine` (codeoutput.c 252-295). -/
def CodeOutput_writeIHXLine (file : File_Type) (state : CodeOutput_State)
    (_isBigEndian : Bool) (sequence : CodeSequence_Type) : File_Type :=
  let recordType := 0
  match state with
  | .atBegin => file
  | .inCode =>
    let file := File_writeCharArray file ":"
    let file := File_writeHex file sequence.length 2
    let file := File_writeHex file sequence.offsetAddress 4
    let file := File_writeHex file recordType 2
    let file := CodeOutput__writeBytes file (CodeSequence_bytes sequence)
    let checkSum := sequence.length % 256
    let checkSum := (checkSum + CodeOutput__checkSum sequence.offsetAddress) % 256
    let checkSum := CodeOutput__addBytes checkSum (CodeSequence_bytes sequence)
    let checkSum := (256 - checkSum) &&& 0xFF
    let file := File_writeHex file checkSum 2
    File_writeChar file '\n'
  | .atEnd => File_writeCharArray file ":00000001FF\n"

/-- Routine `CodeOutput_writeS19Line` (codeoutput.c 319-360). -/
def CodeOutput_writeS19Line (file : File_Type) (state : CodeOutput_State)
    (_isBigEndian : Bool) (sequence : CodeSequence_Type) : File_Type :=
  match state with
  | .atBegin => file
  | .inCode =>
    let file := File_writeCharArray file "S1"
    let file := File_writeHex file (sequence.length + 3) 2
    let file := File_writeHex file sequence.offsetAddress 4
    let file := CodeOutput__writeBytes file (CodeSequence_bytes sequence)
    let checkSum := sequence.length % 256
    let checkSum := (checkSum + CodeOutput__checkSum sequence.offsetAddress) % 256
    let checkSum := CodeOutput__addBytes checkSum (CodeSequence_bytes sequence)
    let checkSum := 255 - checkSum
    let file := File_writeHex file checkSum 2
    File_writeChar file '\n'
  | .atEnd => File_writeCharArray file "S9030000FC\n"

/-! ## Reading hexadecimal records back -/

/-- Value of a hexadecimal digit, in either case. -/
def hexDigitValue (c : Char) : Option Nat :=
  if '0' ≤ c ∧ c ≤ '9' then some (c.toNat - '0'.toNat)
  else if 'a' ≤ c ∧ c ≤ 'f' then some (c.toNat - 'a'.toNat + 10)
  else if 'A' ≤ c ∧ c ≤ 'F' then some (c.toNat - 'A'.toNat + 10)
  else none

/-- The bytes of a text made of pairs of hexadecimal digits; `none` when a
character is no digit or a digit is left over. -/
def hexPairs : List Char → Option (List Nat)
  | [] => some []
  | [_] => none
  | c1 :: c2 :: rest =>
    match hexDigitValue c1, hexDigitValue c2, hexPairs rest with
    | some h, some l, some bytes => some ((16 * h + l) :: bytes)
    | _, _, _ => none

/-- The bytes of an Intel HEX record: the text after the record mark ':' up
to the newline, read as pairs of hexadecimal digits. -/
def IHX_recordBytes (line : String) : Option (List Nat) :=
  match line.data with
  | ':' :: rest =>
    match rest.getLast? with
    | some '\n' => hexPairs rest.dropLast
    | _ => none
  | _ => none

/-- The bytes of a Motorola S1 record: the text after "S1" up to the
newline, read as pairs of hexadecimal digits. -/
def S19_recordBytes (line : String) : Option (List Nat) :=
  match line.data with
  | 'S' :: '1' :: rest =>
    match rest.getLast? with
    | some '\n' => hexPairs rest.dropLast
    | _ => none
  | _ => none

/-- The code sequence of three bytes 3E 42 C9 at address 0. -/
def helloSequence : CodeSequence_Type :=
  { segment := some 1, romBank := 0, offsetAddress := 0, length := 3,
    byteList := [0x3E, 0x42, 0xC9] ++ List.replicate 253 0 }

/-- An empty code sequence at the address 0x10000, as it arises from a T line
with offset 0x0100 in a segment that starts at 0xFF00. -/
def highSequence : CodeSequence_Type :=
  { segment := some 1, romBank := 0, offsetAddress := 0x10000, length := 0,
    byteList := List.replicate 256 0 }

/-! ## target.h -/

/-- Type `Target_Type` (target.h), the fields read by the embedded routines;
a routine pointer that is `NULL` is `none`. -/
structure Target_Type where
  isBigEndian : Bool
  isCaseSensitive : Bool
  getBankFromSegmentName : Option (String_Type → Int)

/-- Value `Gameboy_targetInfo` (platform/gameboy.c) as far as
`CodeSequence_relocate` reads it, with the bank analysis routine of the
platform as a parameter. -/
def Gameboy_targetInfo (getBank : String_Type → Int) : Target_Type :=
  { isBigEndian := false, isCaseSensitive := true,
    getBankFromSegmentName := some getBank }

/-! ## codesequence.c : relocation -/

/-- Type `CodeSequence_Relocation` (codesequence.h): `index` is a `UINT8`,
`value` a `UINT16`. -/
structure CodeSequence_Relocation where
  kind : CodeSequence_RelocationKind
  index : Nat
  value : Nat
  deriving DecidableEq, Repr

/-- Type `CodeSequence_RelocationList` (codesequence.h): `list` holds the
entries `list[0]` to `list[count - 1]` of the array. -/
structure CodeSequence_RelocationList where
  segment : Option Nat
  list : List CodeSequence_Relocation
  deriving DecidableEq, Repr

/-- Enumeration `CodeSequence__RelocError` (codesequence.c). -/
def CodeSequence__RelocError_none : Nat := 0
/-- Enumeration `CodeSequence__RelocError` (codesequence.c). -/
def CodeSequence__RelocError_uByteError : Nat := 1
/-- Enumeration `CodeSequence__RelocError` (codesequence.c). -/
def CodeSequence__RelocError_pcrError : Nat := 2
/-- Enumeration `CodeSequence__RelocError` (codesequence.c). -/
def CodeSequence__RelocError_pageZeroError : Nat := 3
/-- Enumeration `CodeSequence__RelocError` (codesequence.c). -/
def CodeSequence__RelocError_pageError : Nat := 4

/-- Type `CodeSequence__ErrorRecord` (codesequence.c). -/
structure CodeSequence__ErrorRecord where
  relocationKind : CodeSequence_RelocationKind
  referencedSymbol : Option Nat
  referencedSegment : Option Nat
  codeAddress : Nat
  relocationValue : Nat
  deriving DecidableEq, Repr, Inhabited

/-- The variables of `CodeSequence_relocate` that the relocation loop
changes: the byte array of the sequence, the array `isSignificantList`,
`offsetByRelaxation`, and the locals `errorKind` and `errorRecord` of the loop
body, which `CodeSequence__processOneRelocation` leaves as they are when it
returns early. -/
structure CodeSequence__Work where
  byteList : List Nat
  isSignificantList : List Bool
  offsetByRelaxation : Nat
  errorKind : Nat
  errorRecord : CodeSequence__ErrorRecord
  deriving DecidableEq, Repr

/-- Subtraction in `Target_Address` arithmetic: `a - b` modulo `M`. -/
def Target_Address_sub (M : Nat) (a b : Nat) : Nat :=
  (a % M + (M - b % M)) % M

/-- Routine `CodeSequence__leastSignificantByte` (codesequence.c 148-152). -/
def CodeSequence__leastSignificantByte (value : Nat) : Nat :=
  (value &&& 0xFF) % 256

/-- Routine `CodeSequence__mostSignificantByte` (codesequence.c 172-176). -/
def CodeSequence__mostSignificantByte (value : Nat) : Nat :=
  (value / 256) % 256

/-- Routine `CodeSequence__makeWord` (codesequence.c 156-168) on the two
bytes at the positions `position` and `position + 1` of the byte array. -/
def CodeSequence__makeWord (target : Target_Type) (M : Nat) (byteList : List Nat)
    (position : Nat) : Nat :=
  let byte0 := byteList.getD position 0
  let byte1 := byteList.getD (position + 1) 0
  if target.isBigEndian then (byte0 * 256 + byte1) % M
  else (byte1 * 256 + byte0) % M

/-- Routine `CodeSequence__addByteToByte` (codesequence.c 76-84). -/
def CodeSequence__addByteToByte (value : Nat) (byteList : List Nat) (position : Nat) :
    Nat × List Nat :=
  let result := (byteList.getD position 0 + value) % 256
  (result, byteList.set position result)

/-- Routine `CodeSequence__addWordToWord` (codesequence.c 88-110). -/
def CodeSequence__addWordToWord (target : Target_Type) (M : Nat) (value : Nat)
    (byteList : List Nat) (position : Nat) : Nat × List Nat :=
  let result := (value + CodeSequence__makeWord target M byteList position) % M
  let lsb := CodeSequence__leastSignificantByte result
  let msb := CodeSequence__mostSignificantByte result
  if target.isBigEndian then
    (result, (byteList.set position msb).set (position + 1) lsb)
  else
    (result, (byteList.set position lsb).set (position + 1) msb)

/-- Routine `CodeSequence__resetByteFlag` (codesequence.c 399-414) on the
flags from `position` on. -/
def CodeSequence__resetByteFlag (target : Target_Type) (flagList : List Bool)
    (position : Nat) (isLowByte : Bool) : List Bool :=
  let index := if isLowByte then 0 else 1
  let index := if target.isBigEndian then 1 - index else index
  flagList.set (position + index) false

/-- Routine `CodeSequence__setCodeWordToByte` (codesequence.c 418-430). -/
def CodeSequence__setCodeWordToByte (target : Target_Type) (value : Nat)
    (byteList : List Nat) (position : Nat) : List Nat :=
  if target.isBigEndian then (byteList.set position 0).set (position + 1) value
  else (byteList.set position value).set (position + 1) 0

/-- The first block of `CodeSequence__processOneRelocation` (codesequence.c
207-229): the referenced symbol or segment of the current module and its
address.  The outer `none` is a fatal precondition failure, the inner `none`
a missing symbol or segment. -/
def CodeSequence__resolveTarget (M : Nat) (st : Linker)
    (relocation : CodeSequence_Relocation) :
    Option (Option (Nat × Option Nat × Option Nat)) :=
  let module := st.Module__currentModule
  if relocation.kind.isSymbol then
    match Module_getSymbol st module ((relocation.value + 1) % M) with
    | none => none
    | some none => some none
    | some (some symbol) =>
      match Symbol_absoluteAddress M st (some symbol) with
      | none => none
      | some address => some (some (address, some symbol, none))
  else
    match Module_getSegment st module ((relocation.value + 2) % M) with
    | none => none
    | some none => some none
    | some (some segment) =>
      match Area_getSegmentAddress st (some segment) with
      | none => none
      | some address => some (some (address, none, some segment))

/-- The check at the end of `CodeSequence__processOneRelocation`
(codesequence.c 303-320) that chooses the error kind; `pagedArea` and
`pagedSegment` are 0 in the source. -/
def CodeSequence__checkRelocation (M : Nat) (kind : CodeSequence_RelocationKind)
    (relocatedValue : Nat) : Nat :=
  let msbIsNonzero := CodeSequence__mostSignificantByte relocatedValue != 0
  if !kind.dataIsSigned && kind.elementsAreBytes && msbIsNonzero then
    CodeSequence__RelocError_uByteError
  else if kind.isRelocatedPCRelative && kind.elementsAreBytes then
    let r := relocatedValue - relocatedValue % 128
    if r != Target_Address_sub M 0 128 && r != 0 then CodeSequence__RelocError_pcrError
    else CodeSequence__RelocError_none
  else if kind.zeroPageIsReferenced && msbIsNonzero then
    CodeSequence__RelocError_pageZeroError
  else if kind.pageIsReferenced && msbIsNonzero then
    CodeSequence__RelocError_pageError
  else CodeSequence__RelocError_none

/-- Routine `CodeSequence__processOneRelocation` (codesequence.c 180-331). -/
def CodeSequence__processOneRelocation (target : Target_Type) (M : Nat)
    (st : Linker) (codeSequenceBaseAddress : Nat)
    (relocation : CodeSequence_Relocation) (work : CodeSequence__Work) :
    Option (Linker × CodeSequence__Work) :=
  let infoIndex := relocation.index
  let kind := relocation.kind
  match CodeSequence__resolveTarget M st relocation with
  | none => none
  | some none =>
    some (Error_raiseWarning st (if kind.isSymbol then .rSymbolError else .rAreaError),
          work)
  | some (some (relocatedAddress, referencedSymbol, referencedSegment)) =>
    -- process PC relative addressing
    let relocatedAddress :=
      if kind.isRelocatedPCRelative then
        let currentAddress := 0
        let relocatedAddress := Target_Address_sub M relocatedAddress
          ((currentAddress + Target_Address_sub M infoIndex work.offsetByRelaxation) % M)
        if kind.elementsAreBytes then Target_Address_sub M relocatedAddress 1
        else Target_Address_sub M relocatedAddress 2
      else relocatedAddress
    -- zero-page or general paged addressing
    if kind.pageIsReferenced || kind.zeroPageIsReferenced then none
    else
      -- byte-wide or word-wide addressing
      let (relocatedValue, byteList, isSignificantList) :=
        if kind.elementsAreBytes then
          if !kind.slotWidthIsTwo then
            let (value, byteList) :=
              CodeSequence__addByteToByte (relocatedAddress % 256) work.byteList infoIndex
            (value, byteList, work.isSignificantList)
          else
            let (value, byteList) :=
              CodeSequence__addWordToWord target M relocatedAddress work.byteList infoIndex
            if kind.mostSignificantByteIsUsed then
              (((value / 256) % M) &&& 0xFF, byteList,
               CodeSequence__resetByteFlag target work.isSignificantList infoIndex true)
            else
              (value &&& 0xFF, byteList,
               CodeSequence__resetByteFlag target work.isSignificantList infoIndex false)
        else
          let (value, byteList) :=
            CodeSequence__addWordToWord target M relocatedAddress work.byteList infoIndex
          if kind.slotWidthIsTwo then
            let byteValue := if kind.mostSignificantByteIsUsed
                             then CodeSequence__mostSignificantByte value
                             else CodeSequence__leastSignificantByte value
            (value, CodeSequence__setCodeWordToByte target byteValue byteList infoIndex,
             work.isSignificantList)
          else (value, byteList, work.isSignificantList)
      let offsetByRelaxation :=
        if kind.elementsAreBytes && kind.slotWidthIsTwo
        then (work.offsetByRelaxation + 1) % M else work.offsetByRelaxation
      let errorKind := CodeSequence__checkRelocation M kind relocatedValue
      let errorRecord : CodeSequence__ErrorRecord :=
        if errorKind != CodeSequence__RelocError_none then
          { relocationKind := kind, referencedSegment := referencedSegment,
            referencedSymbol := referencedSymbol,
            codeAddress := Target_Address_sub M
              ((codeSequenceBaseAddress + Target_Address_sub M infoIndex offsetByRelaxation) % M)
              1,
            relocationValue := relocation.value }
        else work.errorRecord
      some (st, { byteList := byteList, isSignificantList := isSignificantList,
                  offsetByRelaxation := offsetByRelaxation, errorKind := errorKind,
                  errorRecord := errorRecord })

/-- The precondition checks inside `CodeSequence__appendInformationLine`
(codesequence.c 114-144): `Module_getFileName` and `Module_getName` need a
valid module, `Area_getSegmentName` a valid segment with a parent area. -/
def CodeSequence__informationLineIsPossible (st : Linker) (module segment : Option Nat) :
    Bool :=
  match module, segment with
  | some m, some s =>
    match st.Module__list[m]?, st.segmentHeap[s]? with
    | some _, some r =>
      match r.parentArea with
      | some a => (st.Area__list[a]?).isSome
      | none => false
    | _, _ => false
  | _, _ => false

/-- Routine `CodeSequence__reportRelocationError` (codesequence.c 335-395):
the warning is raised after the two information lines have been built, which
ends the program when one of the precondition checks on the way fails. -/
def CodeSequence__reportRelocationError (st : Linker) (errorKind : Nat)
    (errorRecord : CodeSequence__ErrorRecord) : Option Linker :=
  if errorKind != CodeSequence__RelocError_none then
    let symbolIsValid :=
      if errorRecord.relocationKind.isSymbol
      then (Symbol_getSegment st errorRecord.referencedSymbol).isSome else true
    if !symbolIsValid then none
    else if !CodeSequence__informationLineIsPossible st st.Module__currentModule
              st.Area__currentSegment then none
    else
      let segment :=
        if errorRecord.relocationKind.isSymbol
        then (Symbol_getSegment st errorRecord.referencedSymbol).getD none
        else errorRecord.referencedSegment
      match Area_getSegmentModule st segment with
      | none => none
      | some module =>
        if !CodeSequence__informationLineIsPossible st module segment then none
        else some (Error_raiseWarning st (.relocationError errorKind))
  else some st

/-- The relocation loop of `CodeSequence_relocate` (codesequence.c 515-529). -/
def CodeSequence__relocationLoop (target : Target_Type) (M : Nat)
    (codeSequenceBaseAddress : Nat) :
    List CodeSequence_Relocation → Linker → CodeSequence__Work →
    Option (Linker × CodeSequence__Work)
  | [], st, work => some (st, work)
  | relocation :: rest, st, work =>
    match CodeSequence__processOneRelocation target M st codeSequenceBaseAddress
            relocation work with
    | none => none
    | some (st, work) =>
      match CodeSequence__reportRelocationError st work.errorKind work.errorRecord with
      | none => none
      | some st =>
        CodeSequence__relocationLoop target M codeSequenceBaseAddress rest st work

/-- The condensing loop of `CodeSequence_relocate` (codesequence.c 533-550)
from index `i` on, with the write index `j` and `newSequenceLength`; `count`
is the number of indices still to visit. -/
def CodeSequence__condense (isSignificantList : List Bool) :
    Nat → Nat → Nat → Nat → List Nat → List Nat × Nat
  | 0, _, _, newSequenceLength, byteList => (byteList, newSequenceLength)
  | count + 1, i, j, newSequenceLength, byteList =>
    if !isSignificantList.getD i true then
      CodeSequence__condense isSignificantList count (i + 1) j
        ((newSequenceLength + 255) % 256) byteList
    else
      let byteList := if i != j then byteList.set j (byteList.getD i 0) else byteList
      CodeSequence__condense isSignificantList count (i + 1) (j + 1)
        newSequenceLength byteList

/-- Routine `CodeSequence_relocate` (codesequence.c 473-551).  The flags of
`isSignificantList` beyond the sequence length and the first values of
`errorKind` and `errorRecord` are not initialised by the source; they are
`true`, and the parameters `errorKind0` and `errorRecord0`, here. -/
def CodeSequence_relocate (target : Target_Type) (M : Nat) (st : Linker)
    (errorKind0 : Nat) (errorRecord0 : CodeSequence__ErrorRecord)
    (sequence : CodeSequence_Type) (areaMode : Nat)
    (relocationList : CodeSequence_RelocationList) :
    Option (Linker × CodeSequence_Type) :=
  if areaMode != 0 then none
  else
    let segment := relocationList.segment
    match segment with
    | none => none
    | some s =>
      match st.segmentHeap[s]? with
      | none => none
      | some r =>
        let currentAddress := r.startAddress
        match r.parentArea with
        | none => none
        | some a =>
          match st.Area__list[a]? with
          | none => none
          | some area =>
            let segmentName := area.name
            let offsetAddress := sequence.offsetAddress + currentAddress
            let romBank := match target.getBankFromSegmentName with
                           | none => 0
                           | some getBank => getBank segmentName
            let work : CodeSequence__Work :=
              { byteList := sequence.byteList,
                isSignificantList := List.replicate 256 true,
                offsetByRelaxation := 0, errorKind := errorKind0,
                errorRecord := errorRecord0 }
            match CodeSequence__relocationLoop target M offsetAddress
                    relocationList.list st work with
            | none => none
            | some (st, work) =>
              let (byteList, newSequenceLength) :=
                CodeSequence__condense work.isSignificantList sequence.length 0 0
                  sequence.length work.byteList
              some (st, { sequence with romBank := romBank,
                                        offsetAddress := offsetAddress,
                                        length := newSequenceLength,
                                        byteList := byteList })

/-- The state with the warnings `ws` raised in addition. -/
def Linker.addWarnings (st : Linker) (ws : List Warning) : Linker :=
  { st with warnings := st.warnings ++ ws }

/-- Whether a relocation record relaxes a slot of two bytes to one byte: its
kind has `elementsAreBytes` and `slotWidthIsTwo`. -/
def CodeSequence__isRelaxing (relocation : CodeSequence_Relocation) : Bool :=
  relocation.kind.elementsAreBytes && relocation.kind.slotWidthIsTwo

/-- The byte position whose flag `CodeSequence__resetByteFlag` clears for a
relaxing relocation record: the low byte of the slot when the most
significant byte is used, the high byte otherwise. -/
def CodeSequence__droppedPosition (target : Target_Type)
    (relocation : CodeSequence_Relocation) : Nat :=
  let index := if relocation.kind.mostSignificantByteIsUsed then 0 else 1
  let index := if target.isBigEndian then 1 - index else index
  relocation.index + index

/-- Whether the symbol or segment that a relocation record refers to exists
in the current module. -/
def CodeSequence__targetExists (M : Nat) (st : Linker)
    (relocation : CodeSequence_Relocation) : Bool :=
  match CodeSequence__resolveTarget M st relocation with
  | some (some _) => true
  | _ => false

/-- A code sequence of two bytes at offset 0 and a relocation list for
segment 2 with one record of kind 0x0B (byte elements, symbol, slot width two)
at index 0 for the symbol number 0 of the current module. -/
def relaxSequence : CodeSequence_Type :=
  { segment := some 2, romBank := 0, offsetAddress := 0, length := 2,
    byteList := [0x34, 0x12] ++ List.replicate 254 0 }

/-- The relocation list that belongs to `relaxSequence`. -/
def relaxRelocationList : CodeSequence_RelocationList :=
  { segment := some 2,
    list := [{ kind := CodeSequence_makeKindFromInteger default 0x0B, index := 0,
               value := 0 }] }

/-- The state `layoutExample` after module "B" has referenced the symbol
"ext", which is defined at offset 5 of segment 1. -/
def relaxExample : Linker :=
  ((layoutExample.setSymbolList
      [{ name := "ext", definingSegment := some 1, attributes := 3, startAddress := 5 }]
    ).setSymbolIndex (Map_set Map_make "ext" 0)).updateModule 1
      (fun m => { m with symbolList := [0] })

/-- The flags after one relocation record: a relaxing record whose target
exists clears the flag at its dropped position, every other record that is
processed leaves the flags as they are. -/
def CodeSequence__flagsAfter (target : Target_Type) (M : Nat) (st : Linker)
    (flags : List Bool) (r : CodeSequence_Relocation) : List Bool :=
  if CodeSequence__isRelaxing r && CodeSequence__targetExists M st r
  then flags.set (CodeSequence__droppedPosition target r) false else flags

/-! ## multimap.h / multimap.c -/

/-- Type `Multimap_Type` (multimap.h): a map from keys to lists of values;
the values are library pointers here. -/
abbrev Multimap_Type := Map_Type (List Nat)

/-- Routine `Multimap_lookup` (multimap.c): the value list of the key, `NULL`
when the key is absent. -/
def Multimap_lookup (map : Multimap_Type) (key : String_Type) : Option (List Nat) :=
  Map_lookup map key

/-- Routine `Multimap_add` (multimap.c): a new key gets a new value list; the
value is appended unless the list holds it already. -/
def Multimap_add (map : Multimap_Type) (key : String_Type) (value : Nat) :
    Multimap_Type :=
  match Map_lookup map key with
  | none => Map_set map key [value]
  | some valueList =>
    if valueList.contains value then map else Map_set map key (valueList ++ [value])

/-! ## library.c -/

/-- Enumeration `Library__LoadStatus` (library.c). -/
inductive Library__LoadStatus where
  | notLoaded
  | marked
  | loaded
  deriving DecidableEq, Repr

/-- Type `Library__Record` (library.c). -/
structure Library__Record where
  isObjectFile : Bool
  loadStatus : Library__LoadStatus
  path : String_Type
  offset : Nat
  directoryPath : String_Type
  symbolNameList : List String_Type
  deriving DecidableEq, Repr

/-- The file-scope variables `Library__list` and `Library__symbolIndex` of
library.c; `Library__list` owns the library records, a library pointer is a
position in it. -/
structure Library_State where
  Library__list : List Library__Record
  Library__symbolIndex : Multimap_Type

/-- What library.c reads from the file system, as parameters of the
embedding: `buildIndex` is the effect of `Library__buildIndex` (it reads the
library files and fills the list and the symbol index), `parseObjectFile` the
effect of `Parser_parseObjectFile(true, path)` on the object graph, `none`
when the parser ends the program. -/
structure Library_Environment where
  buildIndex : Library_State → Library_State
  parseObjectFile : String_Type → Linker → Option Linker

/-- Why a run of `Library_resolveUndefinedSymbols` gives no result: a fatal
error ended the program, or the loop was still running when the fuel of the
embedding was used up. -/
inductive Library__Stop where
  | fatalError
  | outOfFuel
  deriving DecidableEq, Repr

/-- Routine `Symbol_getUndefinedSymbolList` (symbol.c 450-473): the pointers
of the symbols without the attribute `isDefined`, in list order. -/
def Symbol_getUndefinedSymbolList (st : Linker) : List Nat :=
  (List.range st.Symbol__list.length).filter (fun s =>
    match st.Symbol__list[s]? with
    | some r => !Set_isElement r.attributes Symbol__Attribute_isDefined
    | none => false)

/-- Routine `Library__findSymbol` (library.c 250-294); `none` is the fatal
end at an invalid symbol or library pointer. -/
def Library__findSymbol (lib : Library_State) (st : Linker) (symbol : Nat) :
    Option (Library_State × Linker × Bool) :=
  match st.Symbol__list[symbol]? with
  | none => none
  | some r =>
    let symbolName := r.name
    match Multimap_lookup lib.Library__symbolIndex symbolName with
    | none => some (lib, st, false)
    | some libraryList =>
      let st := if libraryList.length > 1
                then Error_raiseWarning st (.multipleLibraryDefinition symbolName)
                else st
      match List_getElement libraryList 1 with
      | none => none
      | some library =>
        match lib.Library__list[library]? with
        | none => none
        | some l =>
          let list :=
            if l.loadStatus = .notLoaded
            then heapUpdate lib.Library__list library
                   (fun x => { x with loadStatus := .marked })
            else lib.Library__list
          some ({ lib with Library__list := list }, st, true)

/-- The loop over the undefined symbols in `Library_resolveUndefinedSymbols`
(library.c 642-648). -/
def Library__findSymbols (lib : Library_State) (st : Linker)
    (someSymbolWasResolved : Bool) :
    List Nat → Option (Library_State × Linker × Bool)
  | [] => some (lib, st, someSymbolWasResolved)
  | symbol :: rest =>
    match Library__findSymbol lib st symbol with
    | none => none
    | some (lib, st, isFound) =>
      Library__findSymbols lib st (someSymbolWasResolved || isFound) rest

/-- Routine `Library__load` (library.c 424-443) for the library pointer
`library`: fatal for an embedded library, else the object file is parsed and
the library is loaded. -/
def Library__load (env : Library_Environment) (lib : Library_State) (st : Linker)
    (library : Nat) : Option (Library_State × Linker) :=
  match lib.Library__list[library]? with
  | none => none
  | some l =>
    if l.offset > 0 then none
    else
      match env.parseObjectFile l.path st with
      | none => none
      | some st =>
        let list := heapUpdate lib.Library__list library
          (fun x => { x with loadStatus := .loaded })
        some ({ lib with Library__list := list }, st)

/-- The loop over the libraries in `Library_resolveUndefinedSymbols`
(library.c 653-661) that loads the marked ones. -/
def Library__loadMarked (env : Library_Environment) :
    List Nat → Library_State → Linker → Option (Library_State × Linker)
  | [], lib, st => some (lib, st)
  | library :: rest, lib, st =>
    match lib.Library__list[library]? with
    | none => none
    | some l =>
      if l.loadStatus = .marked then
        match Library__load env lib st library with
        | none => none
        | some (lib, st) => Library__loadMarked env rest lib st
      else Library__loadMarked env rest lib st

/-- The `while (someSymbolWasResolved)` loop of
`Library_resolveUndefinedSymbols` (library.c 630-663); one unit of fuel is one
round of the loop. -/
def Library__resolveLoop (env : Library_Environment) :
    Nat → Library_State → Linker → Except Library__Stop (Library_State × Linker)
  | 0, _, _ => .error .outOfFuel
  | fuel + 1, lib, st =>
    let undefinedSymbolList := Symbol_getUndefinedSymbolList st
    let found : Option (Library_State × Linker × Bool) :=
      if undefinedSymbolList.length == 0 then some (lib, st, false)
      else Library__findSymbols lib st false undefinedSymbolList
    match found with
    | none => .error .fatalError
    | some (lib, st, someSymbolWasResolved) =>
      if someSymbolWasResolved then
        match Library__loadMarked env (List.range lib.Library__list.length) lib st with
        | none => .error .fatalError
        | some (lib, st) => Library__resolveLoop env fuel lib st
      else .ok (lib, st)

/-- Routine `Library_resolveUndefinedSymbols` (library.c 622-664) with
`fuel` rounds of the loop at most. -/
def Library_resolveUndefinedSymbols (env : Library_Environment) (fuel : Nat)
    (lib : Library_State) (st : Linker) :
    Except Library__Stop (Library_State × Linker) :=
  Library__resolveLoop env fuel (env.buildIndex lib) st

/-- A state with the undefined, referenced symbol "foo" of module "B". -/
def libraryExample : Linker :=
  ((layoutExample.setSymbolList
      [{ name := "foo", definingSegment := none, attributes := 2, startAddress := 0 }]
    ).setSymbolIndex (Map_set Map_make "foo" 0)).updateModule 1
      (fun m => { m with symbolList := [0] })

/-- One library that is not loaded and lists the symbol "foo". -/
def libraryExampleState : Library_State :=
  { Library__list :=
      [{ isObjectFile := true, loadStatus := .notLoaded, path := "lib/foo.o", offset := 0,
         directoryPath := "lib/", symbolNameList := ["foo"] }],
    Library__symbolIndex := Map_make }

/-- An environment in which the index of the library files maps "foo" to
library 0 and the object file of the library defines "foo" at offset 7 of the
current segment. -/
def libraryExampleEnvironment : Library_Environment :=
  { buildIndex := fun lib =>
      { lib with Library__symbolIndex := Multimap_add Map_make "foo" 0 },
    parseObjectFile := fun _ st => (Symbol_make st "foo" true 7).map Prod.fst }

/-! ## Notions used in the statements on `Area_link` -/

/-- The symbol table holds under the name `name` a symbol record of that name
which is defined, in the segment `segment` and at the offset `value`. -/
def Symbol_isDefinedAt (st : Linker) (name : String_Type) (segment value : Nat) :
    Prop :=
  ∃ s r, Map_lookup st.Symbol__indexByName name = some s ∧
    st.Symbol__list[s]? = some r ∧ r.name = name ∧
    Set_isElement r.attributes Symbol__Attribute_isDefined = true ∧
    r.startAddress = value ∧ r.definingSegment = some segment

/-- Every entry of `Symbol__indexByName` leads to a symbol record of the name
of the entry, as `Symbol__lookup` and `Symbol_makeBySplit` keep it. -/
def Symbol_indexIsConsistent (st : Linker) : Prop :=
  ∀ name s, Map_lookup st.Symbol__indexByName name = some s →
    ∃ r, st.Symbol__list[s]? = some r ∧ r.name = name

/-- The state `layoutExample` after the base address option `.ABS.=0x100`. -/
def shiftedExample : Linker := Area_setBaseAddresses layoutExample ".ABS." 0x100

/-- Invariant of the area loop of `Area_link`, with `names` the area names,
`absArea` the pointer of the area ".ABS." with start address `A` and `absSeg`
the pointer of the segment made by `Area_makeAbsoluteSegment`: the areas
before `kSeg` have their segments linked, the areas before `kSym` have their
two symbols. -/
structure Area_linkInvariant (names : List String_Type) (absArea absSeg A : Nat)
    (kSeg kSym : Nat) (st : Linker) : Prop where
  caseSensitive : st.Symbol__platformIsCaseSensitive = true
  currentSegment : st.Area__currentSegment = some absSeg
  areaNames : st.Area__list.map (fun r => r.name) = names
  absRecord : ∃ r, st.Area__list[absArea]? = some r ∧ r.name = Area__absoluteAreaName ∧
    (Set_isElement r.attributes Area_Attribute_isAbsolute = true ∧
      Set_isElement r.attributes Area_Attribute_hasOverlayedSegments = true) ∧
    r.startAddress = A ∧ absSeg ∈ r.segmentList
  others : ∀ (i : Nat) (r : Area__Record), st.Area__list[i]? = some r → i ≠ absArea →
    absSeg ∉ r.segmentList
  absSegment : ∃ g, st.segmentHeap[absSeg]? = some g ∧ (absArea < kSeg → g.startAddress = A)
  indexConsistent : Symbol_indexIsConsistent st
  symbols : ∀ (i : Nat) (x : Area__Record), i < kSym → st.Area__list[i]? = some x →
    x.name ≠ Area__absoluteAreaName →
    Symbol_isDefinedAt st ("s_" ++ x.name) absSeg x.startAddress ∧
    Symbol_isDefinedAt st ("l_" ++ x.name) absSeg x.totalSize

/-- A state after pass 1 in which area "CODE" starts at 0 and holds the
segments 1 (size 0x10) and 2 (size 0x20); the symbol "entry" is defined at
offset 0x0F of segment 2. -/
def addressExample : Linker :=
  (Area_setBaseAddresses layoutExample "CODE" 0).setSymbolList
    [{ name := "entry", definingSegment := some 2, attributes := 1, startAddress := 0x0F }]

/-- A state with the paged area "PAGE" at 0x1234 whose only segment has 0x101
bytes. -/
def pagedExample : Linker :=
  { layoutExample with
    Area__list :=
      [{ name := ".ABS.", attributes := 3, startAddress := 0, totalSize := 0,
         segmentList := [] },
       { name := "PAGE", attributes := 4, startAddress := 0x1234, totalSize := 0,
         segmentList := [0] }],
    segmentHeap :=
      [{ parentArea := some 1, parentModule := some 0, startAddress := 0,
         totalSize := 0x101, symbolList := [] }] }

/-- The running address of `Area_link` (the local `relativeBaseAddress`)
after the areas with the records `areas` have been handled in this order: an
area without the attribute `isAbsolute` sets it to its start address plus its
total size, an absolute area leaves it as it is. -/
def Area_runningAddress (M : Nat) (areas : List Area__Record) : Nat :=
  areas.foldl (fun running a =>
    if Set_isElement a.attributes Area_Attribute_isAbsolute then running
    else (a.startAddress + a.totalSize) % M) 0

/-- The state `layoutExample` after the base address option `OVR=0`: the
relocatable area "OVR" follows the relocatable area "CODE" (at 0x100, of size
0x30 after the layout) and has the start address 0. -/
def zeroBaseExample : Linker := Area_setBaseAddresses layoutExample "OVR" 0





/-! ## symbol.c : `Symbol_checkForUndefinedSymbols` -/

/-- Routine `File_writeString` (file.c). -/
def File_writeString (file : File_Type) (st : String_Type) : File_Type := file ++ st

/-- Routine `List_lookup` (list.c 139-164) on a list of symbol pointers, whose
key validation procedure is `Symbol__hasKey`: the first pointer to a symbol of
the name `key`, `some none` for `NULL`; the conversion check of
`Symbol__hasKey` ends the program at an invalid pointer. -/
def Symbol__listLookup (st : Linker) (key : String_Type) : List Nat → Option (Option Nat)
  | [] => some none
  | symbol :: rest =>
    match st.Symbol__list[symbol]? with
    | none => none
    | some r => if r.name == key then some (some symbol) else Symbol__listLookup st key rest

/-- The loop over the modules in `Symbol_checkForUndefinedSymbols` (symbol.c
500-520) for the undefined symbol of name `symbolName`; the module list is the
copy of `Module__indexByName`, which holds the module pointers in the order of
`Module_make`. -/
def Symbol__checkModules (st : Linker) (symbolName : String_Type) :
    List Nat → File_Type → Option File_Type
  | [], file => some file
  | module :: rest, file =>
    match st.Module__list[module]? with
    | none => none
    | some m =>
      match Symbol__listLookup st symbolName m.symbolList with
      | none => none
      | some none => Symbol__checkModules st symbolName rest file
      | some (some _) =>
        let moduleName := m.name
        let file := File_writeCharArray file "Undefined Global "
        let file := File_writeString file symbolName
        let file := File_writeCharArray file " referenced by module "
        let file := File_writeString file moduleName
        let file := File_writeChar file '\n'
        Symbol__checkModules st symbolName rest file

/-- The loop over the undefined symbols in `Symbol_checkForUndefinedSymbols`
(symbol.c 490-521). -/
def Symbol__checkSymbols (st : Linker) : List Nat → File_Type → Option File_Type
  | [], file => some file
  | symbol :: rest, file =>
    match st.Symbol__list[symbol]? with
    | none => none
    | some r =>
      match Symbol__checkModules st r.name (List.range st.Module__list.length) file with
      | none => none
      | some file => Symbol__checkSymbols st rest file

/-- Routine `Symbol_checkForUndefinedSymbols` (symbol.c 477-524): the text of
`file` afterwards, `none` when the program ends at an invalid pointer. -/
def Symbol_checkForUndefinedSymbols (st : Linker) (file : File_Type) : Option File_Type :=
  Symbol__checkSymbols st (Symbol_getUndefinedSymbolList st) file

/-- The symbol list of the module `module` holds a pointer to a symbol of the
name `symbolName`. -/
def Module_listsSymbolName (st : Linker) (symbolName : String_Type) (module : Nat) : Bool :=
  match st.Module__list[module]? with
  | none => false
  | some m =>
    m.symbolList.any (fun p =>
      match st.Symbol__list[p]? with
      | some r => r.name == symbolName
      | none => false)

/-- The name of the symbol behind a symbol pointer, empty for an invalid
pointer. -/
def Symbol_nameOf (st : Linker) (symbol : Nat) : String_Type :=
  match st.Symbol__list[symbol]? with
  | some r => r.name
  | none => ""

/-- The name of the module behind a module pointer, empty for an invalid
pointer. -/
def Module_nameOf (st : Linker) (module : Nat) : String_Type :=
  match st.Module__list[module]? with
  | some m => m.name
  | none => ""

/-- The line that reports the undefined symbol `symbol` for the module
`module`. -/
def Symbol_undefinedLine (st : Linker) (pair : Nat × Nat) : String :=
  "Undefined Global " ++ Symbol_nameOf st pair.1 ++ " referenced by module "
    ++ Module_nameOf st pair.2 ++ "\n"

/-- The text of a file after the texts `lines` have been written to it in this
order. -/
def File_writeLines (file : File_Type) (lines : List String) : File_Type :=
  lines.foldl (fun text line => text ++ line) file

/-! ## codeoutput.c : the table of code output streams -/

/-- Type `CodeOutput_Proc` (codeoutput.h): an encoder gets the file, the state,
the byte order of the target and a code sequence; the result is the file
after its writes. -/
abbrev CodeOutput_Proc := File_Type → CodeOutput_State → Bool → CodeSequence_Type → File_Type

/-- Type `CodeOutput__StreamDescriptor` (codeoutput.c 28-33); `file` is the
text of the open file. -/
structure CodeOutput__StreamDescriptor where
  isInUse : Bool
  file : File_Type
  fileName : String_Type
  outputProc : CodeOutput_Proc

/-- One call of an encoder through `outputProc`, as the embedding records it:
the position of the stream in the table, the state and the code sequence
passed. -/
structure CodeOutput_Call where
  stream : Nat
  state : CodeOutput_State
  sequence : CodeSequence_Type

/-- Constant `CodeOutput__maxStreamCount` (codeoutput.c 38). -/
def CodeOutput__maxStreamCount : Nat := 10

/-- The file-scope variables of codeoutput.c: the array
`CodeOutput__streamList` (read at the positions below
`CodeOutput__maxStreamCount` only) and `CodeOutput__targetIsBigEndian`,
together with the record of the encoder calls made so far. -/
structure CodeOutput_Module where
  CodeOutput__streamList : Nat → CodeOutput__StreamDescriptor
  CodeOutput__targetIsBigEndian : Bool
  calls : List CodeOutput_Call

/-- Routine `CodeOutput_initialize` (codeoutput.c 107-119): no entry is in
use; the static array starts zeroed. -/
def CodeOutput_initialize (targetIsBigEndian : Bool) : CodeOutput_Module :=
  { CodeOutput__streamList := fun _ =>
      { isInUse := false, file := "", fileName := "",
        outputProc := fun file _ _ _ => file },
    CodeOutput__targetIsBigEndian := targetIsBigEndian,
    calls := [] }

/-- Assignment to the entry `i` of `CodeOutput__streamList`. -/
def CodeOutput_Module.setStream (m : CodeOutput_Module) (i : Nat)
    (d : CodeOutput__StreamDescriptor) : CodeOutput_Module :=
  { m with CodeOutput__streamList := fun j => if j = i then d else m.CodeOutput__streamList j }

/-- The call `currentDescriptor->outputProc(&file, state, ...)` on the entry
`i`: the file gets the writes of the encoder, and the call is recorded. -/
def CodeOutput_Module.callEncoder (m : CodeOutput_Module) (i : Nat)
    (state : CodeOutput_State) (sequence : CodeSequence_Type) : CodeOutput_Module :=
  let d := m.CodeOutput__streamList i
  let file := d.outputProc d.file state m.CodeOutput__targetIsBigEndian sequence
  let m := m.setStream i { d with file := file }
  { m with calls := m.calls ++ [{ stream := i, state := state, sequence := sequence }] }

/-- The body of the loop of `CodeOutput__writeToAllStreams` (codeoutput.c
80-95) for the entry `i`. -/
def CodeOutput__writeToStream (state : CodeOutput_State) (sequence : CodeSequence_Type)
    (m : CodeOutput_Module) (i : Nat) : CodeOutput_Module :=
  if (m.CodeOutput__streamList i).isInUse then
    let m := m.callEncoder i state sequence
    if state = CodeOutput_State.atEnd then
      m.setStream i { m.CodeOutput__streamList i with isInUse := false }
    else m
  else m

/-- Routine `CodeOutput__writeToAllStreams` (codeoutput.c 68-97). -/
def CodeOutput__writeToAllStreams (m : CodeOutput_Module) (state : CodeOutput_State)
    (sequence : CodeSequence_Type) : CodeOutput_Module :=
  (List.range CodeOutput__maxStreamCount).foldl (CodeOutput__writeToStream state sequence) m

/-- Routine `CodeOutput_create` (codeoutput.c 148-185).  `fileIsOpened` is the
result of `File_open` for writing, which gives an empty file; `junk` stands
for the local code sequence of which only `length` is assigned. -/
def CodeOutput_create (m : CodeOutput_Module) (fileName : String_Type)
    (outputProc : CodeOutput_Proc) (fileIsOpened : Bool) (junk : CodeSequence_Type) :
    CodeOutput_Module × Bool :=
  match (List.range CodeOutput__maxStreamCount).find?
      (fun i => !(m.CodeOutput__streamList i).isInUse) with
  | none => (m, false)
  | some i =>
    if fileIsOpened then
      let junk := { junk with length := 0 }
      let m := m.setStream i
        { isInUse := true, file := "", fileName := fileName, outputProc := outputProc }
      (m.callEncoder i CodeOutput_State.atBegin junk, true)
    else (m, false)

/-- Routine `CodeOutput_closeStreams` (codeoutput.c 191-196). -/
def CodeOutput_closeStreams (m : CodeOutput_Module) (junk : CodeSequence_Type) :
    CodeOutput_Module :=
  CodeOutput__writeToAllStreams m CodeOutput_State.atEnd { junk with length := 0 }

/-- Routine `CodeOutput_writeLine` (codeoutput.c 224-227). -/
def CodeOutput_writeLine (m : CodeOutput_Module) (sequence : CodeSequence_Type) :
    CodeOutput_Module :=
  CodeOutput__writeToAllStreams m CodeOutput_State.inCode sequence

/-- A call of one of the three exported routines that reach the encoders. -/
inductive CodeOutput_Operation where
  | create (fileName : String_Type) (outputProc : CodeOutput_Proc) (fileIsOpened : Bool)
      (junk : CodeSequence_Type)
  | writeLine (sequence : CodeSequence_Type)
  | closeStreams (junk : CodeSequence_Type)

/-- The module state after one operation. -/
def CodeOutput_step (m : CodeOutput_Module) : CodeOutput_Operation → CodeOutput_Module
  | .create fileName outputProc fileIsOpened junk =>
    (CodeOutput_create m fileName outputProc fileIsOpened junk).1
  | .writeLine sequence => CodeOutput_writeLine m sequence
  | .closeStreams junk => CodeOutput_closeStreams m junk

/-- The module state after a run of operations. -/
def CodeOutput_run (m : CodeOutput_Module) (ops : List CodeOutput_Operation) :
    CodeOutput_Module :=
  ops.foldl CodeOutput_step m

/-- The operation is a call of `CodeOutput_closeStreams`. -/
def CodeOutput_Operation.isClose : CodeOutput_Operation → Bool
  | .closeStreams _ => true
  | _ => false

/-- The code sequences passed to `CodeOutput_writeLine` in a run, in order. -/
def CodeOutput_writtenSequences : List CodeOutput_Operation → List CodeSequence_Type
  | [] => []
  | .writeLine sequence :: rest => sequence :: CodeOutput_writtenSequences rest
  | _ :: rest => CodeOutput_writtenSequences rest

/-- The calls recorded for the stream at position `i`, in order. -/
def CodeOutput_callsOf (calls : List CodeOutput_Call) (i : Nat) : List CodeOutput_Call :=
  calls.filter (fun c => c.stream == i)

/-- The life cycle of a stream as an automaton on the states of its encoder
calls: a stream that is not open accepts `atBegin` only and is open then, an
open stream accepts `inCode` and stays open, or `atEnd` and is not open then.
The result is whether the stream is open at the end, `none` when a call is
not accepted. -/
def CodeOutput_lifeCycle : Bool → List CodeOutput_State → Option Bool
  | isOpen, [] => some isOpen
  | false, .atBegin :: rest => CodeOutput_lifeCycle true rest
  | true, .inCode :: rest => CodeOutput_lifeCycle true rest
  | true, .atEnd :: rest => CodeOutput_lifeCycle false rest
  | _, _ => none

/-- The states of the calls recorded for the stream at position `i`. -/
def CodeOutput_statesOf (m : CodeOutput_Module) (i : Nat) : List CodeOutput_State :=
  (CodeOutput_callsOf m.calls i).map (fun c => c.state)

/-! ## platform/gameboy.c : cartridge size codes -/

/-- Constant `undefined` (platform/gameboy.c 48). -/
def undefined : Nat := 0xFF

/-- Routine `Gameboy__ramCountCode` (platform/gameboy.c 417-438).  The
parameter `value` is a `UINT8`.  The cases assign the local `result` (which
the default case leaves without a value, `none` here), the default case
assigns `value`, and the routine ends with `return value`. -/
def Gameboy__ramCountCode (value : Nat) : Nat :=
  let value := value % 256
  let (_result, value) : Option Nat × Nat :=
    match value with
    | 0 => (some 0, value)
    | 1 => (some 2, value)
    | 4 => (some 3, value)
    | 16 => (some 4, value)
    | _ => (none, undefined)
  value

/-- Routine `Gameboy__romCountCode` (platform/gameboy.c 442-473).  The
parameter `value` is a `UINT8`.  Every case assigns the local `result`, and
the routine ends with `return value`. -/
def Gameboy__romCountCode (value : Nat) : Nat :=
  let value := value % 256
  let _result : Nat :=
    match value with
    | 2 => 0
    | 4 => 1
    | 8 => 2
    | 16 => 3
    | 32 => 4
    | 64 => 5
    | 128 => 6
    | 256 => 7
    | 512 => 8
    | _ => undefined
  value





/-! ## platform/gameboy.c : the cartridge image -/

/-- Constant `Gameboy__bankSize` (platform/gameboy.c 57). -/
def Gameboy__bankSize : Nat := 0x4000

/-- Constant `Gameboy__maxTitleLength` (platform/gameboy.c 65). -/
def Gameboy__maxTitleLength : Nat := 16

/-- Type `Gameboy__PatchRecord` (platform/gameboy.c 67-71). -/
structure Gameboy__PatchRecord where
  address : Nat
  value : Nat
  deriving DecidableEq, Repr

/-- The file-scope variables of platform/gameboy.c that
`Gameboy__finalizeData` reads and writes.  `Gameboy__data` maps a bank number
to the byte array allocated for the bank, `none` for a `NULL` entry;
`Gameboy__cartridgeTitle` is the array of `Gameboy__maxTitleLength`
characters as character codes. -/
structure Gameboy_Module where
  Gameboy__data : Nat → Option (List Nat)
  Gameboy__cartridgeTitle : List Nat
  Gameboy__romBankCount : Nat
  Gameboy__ramBankCount : Nat
  Gameboy__cartridgeType : Nat
  Gameboy__patchList : List Gameboy__PatchRecord

/-- Routine `Gameboy__getCartridgeByte` (platform/gameboy.c 292-298); a
`NULL` bank or a position outside the array of the bank has no value. -/
def Gameboy__getCartridgeByte (g : Gameboy_Module) (address : Nat) : Option Nat :=
  let bank := (address / Gameboy__bankSize) % 256
  let relativeAddress := address % Gameboy__bankSize
  match g.Gameboy__data bank with
  | none => none
  | some data => data[relativeAddress]?

/-- Routine `Gameboy__setCartridgeByte` (platform/gameboy.c 477-483); `value`
is a `UINT8`.  A write through a `NULL` bank or outside the array of the bank
ends the embedding with `none`. -/
def Gameboy__setCartridgeByte (g : Gameboy_Module) (address : Nat) (value : Nat) :
    Option Gameboy_Module :=
  let bank := (address / Gameboy__bankSize) % 256
  let relativeAddress := address % Gameboy__bankSize
  match g.Gameboy__data bank with
  | none => none
  | some data =>
    if relativeAddress < data.length then
      some { g with Gameboy__data := fun b =>
        if b = bank then some (data.set relativeAddress (value % 256))
        else g.Gameboy__data b }
    else none

/-- Library routine `isalnum` in the "C" locale, on a character code. -/
def CType_isalnum (ch : Nat) : Bool :=
  (48 ≤ ch && ch ≤ 57) || (65 ≤ ch && ch ≤ 90) || (97 ≤ ch && ch ≤ 122)

/-- Macro `CType_toupper` (platform/gameboy.c 34) in the "C" locale, on a
character code. -/
def CType_toupper (ch : Nat) : Nat :=
  if 97 ≤ ch && ch ≤ 122 then ch - 32 else ch

/-- Library routine `strlen` on a character array: the position of the first
terminator, no value when the array holds none. -/
def STRING_strlen : List Nat → Option Nat
  | [] => none
  | ch :: rest => if ch = 0 then some 0 else (STRING_strlen rest).map (· + 1)

/-- The first loop of `Gameboy__finalizeData` (platform/gameboy.c 182-189):
`i` goes down while the character before it is alphanumeric or a dot. -/
def Gameboy__titleStart (st : List Nat) : Nat → Nat
  | 0 => 0
  | i + 1 =>
    let ch := st.getD i 0
    if !CType_isalnum ch && ch != 46 then i + 1 else Gameboy__titleStart st i

/-- The second loop of `Gameboy__finalizeData` (platform/gameboy.c 191-199)
with `count` positions left below `Gameboy__maxTitleLength`; the result is the
title array and `pos`.  Reading `st[i]` outside the array has no value. -/
def Gameboy__titleCopy : Nat → List Nat → Nat → Nat → Option (List Nat × Nat)
  | 0, title, _, pos => some (title, pos)
  | count + 1, title, i, pos =>
    match title[i]? with
    | none => none
    | some ch =>
      if ch = 46 then some (title, pos)
      else Gameboy__titleCopy count (title.set pos (CType_toupper ch)) (i + 1) (pos + 1)

/-- The first part of `Gameboy__finalizeData` (platform/gameboy.c 178-203):
the cartridge title is the upper case file name without directory and
extension. -/
def Gameboy__finalizeTitle (title : List Nat) : Option (List Nat) :=
  match STRING_strlen title with
  | none => none
  | some length =>
    let i := Gameboy__titleStart title length
    match Gameboy__titleCopy Gameboy__maxTitleLength title i 0 with
    | none => none
    | some (title, pos) =>
      if pos < Gameboy__maxTitleLength then some (title.set pos 0) else some title

/-- The loop "put cartridge name to cartridge" of `Gameboy__finalizeData`
(platform/gameboy.c 206-214) with `count` characters left; the result is the
module state and `pos`. -/
def Gameboy__putTitle : Nat → Gameboy_Module → Nat → Nat → Option (Gameboy_Module × Nat)
  | 0, g, pos, _ => some (g, pos)
  | count + 1, g, pos, i =>
    match g.Gameboy__cartridgeTitle[i]? with
    | none => none
    | some ch =>
      if ch = 0 then some (g, pos)
      else
        match Gameboy__setCartridgeByte g pos ch with
        | none => none
        | some g => Gameboy__putTitle count g (pos + 1) (i + 1)

/-- The loop that fills the rest of the title field with 0
(platform/gameboy.c 216-219), `count` being the number of positions from `pos`
to the end of the field. -/
def Gameboy__fillTitle : Nat → Gameboy_Module → Nat → Option Gameboy_Module
  | 0, g, _ => some g
  | count + 1, g, pos =>
    match Gameboy__setCartridgeByte g pos 0 with
    | none => none
    | some g => Gameboy__fillTitle count g (pos + 1)

/-- The loop "apply all patches in patch list" of `Gameboy__finalizeData`
(platform/gameboy.c 232-239). -/
def Gameboy__applyPatches : List Gameboy__PatchRecord → Gameboy_Module → Option Gameboy_Module
  | [], g => some g
  | patch :: rest, g =>
    match Gameboy__setCartridgeByte g patch.address patch.value with
    | none => none
    | some g => Gameboy__applyPatches rest g

/-- The loop `checkSum += Gameboy__getCartridgeByte(pos)` of
`Gameboy__finalizeData` (platform/gameboy.c 244-247) over the addresses
`positions`; `checkSum` is a `UINT16`, in arithmetic modulo `M`. -/
def Gameboy__addCartridgeBytes (M : Nat) (g : Gameboy_Module) :
    List Nat → Nat → Option Nat
  | [], checkSum => some checkSum
  | pos :: rest, checkSum =>
    match Gameboy__getCartridgeByte g pos with
    | none => none
    | some byte => Gameboy__addCartridgeBytes M g rest ((checkSum + byte) % M)

/-- The inner loop `checkSum += Gameboy__data[i][pos]` of the global checksum
(platform/gameboy.c 258-260) over the positions `positions` of one bank. -/
def Gameboy__addBankBytes (M : Nat) (data : List Nat) : List Nat → Nat → Option Nat
  | [], checkSum => some checkSum
  | pos :: rest, checkSum =>
    match data[pos]? with
    | none => none
    | some byte => Gameboy__addBankBytes M data rest ((checkSum + byte) % M)

/-- The outer loop of the global checksum (platform/gameboy.c 257-261) over
the banks `banks`; `positions` are the positions below `Gameboy__bankSize`
that the inner loop visits in every bank. -/
def Gameboy__addBanks (M : Nat) (g : Gameboy_Module) (positions : List Nat) :
    List Nat → Nat → Option Nat
  | [], checkSum => some checkSum
  | i :: rest, checkSum =>
    match g.Gameboy__data i with
    | none => none
    | some data =>
      match Gameboy__addBankBytes M data positions checkSum with
      | none => none
      | some checkSum => Gameboy__addBanks M g positions rest checkSum

/-- Routine `Gameboy__finalizeData` (platform/gameboy.c 164-267). -/
def Gameboy__finalizeData (M : Nat) (g : Gameboy_Module) : Option Gameboy_Module :=
  let cartridgeTitleAddress := 0x0134
  let cartridgeTypeAddress := 0x0147
  let cartridgeRomSizeAddress := 0x0148
  let cartridgeRamSizeAddress := 0x0149
  let cartridgeHeaderChecksumAddress := 0x014D
  let cartridgeGlobalChecksumAddress := 0x014E
  match Gameboy__finalizeTitle g.Gameboy__cartridgeTitle with
  | none => none
  | some title =>
  let g := { g with Gameboy__cartridgeTitle := title }
  -- put cartridge name to cartridge
  match Gameboy__putTitle Gameboy__maxTitleLength g cartridgeTitleAddress 0 with
  | none => none
  | some (g, pos) =>
  match Gameboy__fillTitle (cartridgeTitleAddress + Gameboy__maxTitleLength - pos) g pos with
  | none => none
  | some g =>
  match Gameboy__setCartridgeByte g cartridgeTypeAddress g.Gameboy__cartridgeType with
  | none => none
  | some g =>
  -- put count of ROM banks to cartridge
  match Gameboy__setCartridgeByte g cartridgeRomSizeAddress
      (Gameboy__romCountCode g.Gameboy__romBankCount) with
  | none => none
  | some g =>
  -- put count of RAM banks to cartridge
  match Gameboy__setCartridgeByte g cartridgeRamSizeAddress
      (Gameboy__ramCountCode g.Gameboy__ramBankCount) with
  | none => none
  | some g =>
  -- apply all patches in patch list
  match Gameboy__applyPatches g.Gameboy__patchList g with
  | none => none
  | some g =>
  -- calculate checksum of header and store it in cartridge
  match Gameboy__addCartridgeBytes M g
      (List.range' cartridgeTitleAddress
        (cartridgeHeaderChecksumAddress - cartridgeTitleAddress)) 0 with
  | none => none
  | some checkSum =>
  let value := (0xE7 + 256 - (checkSum &&& 0xFF) % 256) % 256
  match Gameboy__setCartridgeByte g cartridgeHeaderChecksumAddress value with
  | none => none
  | some g =>
  -- calculate global checksum and store it in cartridge
  match Gameboy__setCartridgeByte g cartridgeGlobalChecksumAddress 0 with
  | none => none
  | some g =>
  match Gameboy__setCartridgeByte g (cartridgeGlobalChecksumAddress + 1) 0 with
  | none => none
  | some g =>
  match Gameboy__addBanks M g (List.range Gameboy__bankSize)
      (List.range g.Gameboy__romBankCount) 0 with
  | none => none
  | some checkSum =>
  let value := ((checkSum >>> 8) &&& 0xFF) % 256
  match Gameboy__setCartridgeByte g cartridgeGlobalChecksumAddress value with
  | none => none
  | some g =>
  let value := (checkSum &&& 0xFF) % 256
  Gameboy__setCartridgeByte g (cartridgeGlobalChecksumAddress + 1) value

/-- A module state after `Gameboy__initialize` and the options
`-yn="game.gb"`, `-yt1` and `-yp0x140=0x42`: two ROM banks filled with 0xFF,
the title "game.gb", cartridge type 1 and one patch. -/
def cartridgeExample : Gameboy_Module :=
  { Gameboy__data := fun b =>
      if b < 2 then some (List.replicate Gameboy__bankSize 0xFF) else none,
    Gameboy__cartridgeTitle :=
      [103, 97, 109, 101, 46, 103, 98, 0, 0, 0, 0, 0, 0, 0, 0, 0],
    Gameboy__romBankCount := 2,
    Gameboy__ramBankCount := 0,
    Gameboy__cartridgeType := 1,
    Gameboy__patchList := [{ address := 0x140, value := 0x42 }] }

/-! ### The header checksum of the cartridge image -/

/-- The byte array of bank `b` is allocated with `Gameboy__bankSize` bytes
(`Gameboy__initializeData`). -/
def Gameboy_bankIsAllocated (g : Gameboy_Module) (b : Nat) : Prop :=
  ∃ data, g.Gameboy__data b = some data ∧ data.length = Gameboy__bankSize

/-- The module state `g'` has the title, the counts, the type and the patch
list of `g`, and every bank allocated in `g` is allocated in `g'`: what the
writes to the cartridge keep. -/
def Gameboy_isKept (g g' : Gameboy_Module) : Prop :=
  g'.Gameboy__cartridgeTitle = g.Gameboy__cartridgeTitle ∧
  g'.Gameboy__romBankCount = g.Gameboy__romBankCount ∧
  g'.Gameboy__ramBankCount = g.Gameboy__ramBankCount ∧
  g'.Gameboy__cartridgeType = g.Gameboy__cartridgeType ∧
  g'.Gameboy__patchList = g.Gameboy__patchList ∧
  ∀ b, Gameboy_bankIsAllocated g b → Gameboy_bankIsAllocated g' b

/-! ## integermap.h / integermap.c : maps from plain data to long integers -/

/-- Constant `SizeType_max` (globdefs.h). -/
def SizeType_max : Int := 2147483647

/-- Constant `IntegerMap_notFound` (integermap.h). -/
def IntegerMap_notFound : Int := SizeType_max

/-- Type `IntegerMap_Type` (integermap.h): a `Map__Record` whose key type is
`TypeDescriptor_plainDataTypeDescriptor`.  Keys and values are objects that
hold an integer instead of an address; an entry is a pair of key and value, the
object `NULL` is the integer 0. -/
structure IntegerMap_Type where
  bucket : Nat → List (Int × Int)

/-- Routine `Map_make` (map.c) for the plain data type descriptor: all buckets
are empty lists. -/
def IntegerMap__make : IntegerMap_Type := ⟨fun _ => []⟩

/-- Routine `Map__hashValue` (map.c) with `TypeDescriptor__directHashProc`:
the object itself, taken as a `SizeType`, modulo the bucket count; the number
of `SizeType` values is a multiple of the bucket count. -/
def IntegerMap__hashValue (key : Int) : Nat := (key % (Map__bucketCount : Int)).toNat

/-- Routine `List_lookup` on a bucket with `Map__entryHasKey`: the value of
the first entry whose key is the same object as `key`, `NULL` when there is
none. -/
def IntegerMap__bucketLookup (key : Int) : List (Int × Int) → Int
  | [] => 0
  | (k, v) :: rest => if key = k then v else IntegerMap__bucketLookup key rest

/-- Routine `Map_lookup` (map.c 228-245) for plain data keys. -/
def IntegerMap__mapLookup (map : IntegerMap_Type) (key : Int) : Int :=
  IntegerMap__bucketLookup key (map.bucket (IntegerMap__hashValue key))

/-- The bucket update of `Map_set`: the first entry with `key` receives the
value, or a new entry is appended when the key is new. -/
def IntegerMap__bucketSet (key value : Int) : List (Int × Int) → List (Int × Int)
  | [] => [(key, value)]
  | (k, v) :: rest =>
    if key = k then (k, value) :: rest
    else (k, v) :: IntegerMap__bucketSet key value rest

/-- Routine `Map_set` (map.c 297-326) for plain data keys. -/
def IntegerMap__mapSet (map : IntegerMap_Type) (key value : Int) : IntegerMap_Type :=
  ⟨fun h => if h = IntegerMap__hashValue key
            then IntegerMap__bucketSet key value (map.bucket h)
            else map.bucket h⟩

/-- Routine `IntegerMap_lookup` (integermap.c 31-48). -/
def IntegerMap_lookup (map : IntegerMap_Type) (key : Int) : Int :=
  let resultAsObject := IntegerMap__mapLookup map key
  if resultAsObject = 0 then IntegerMap_notFound
  else
    let result := resultAsObject
    if result = SizeType_max then 0 else result

/-- Routine `IntegerMap_set` (integermap.c 55-73); the precondition check ends
the program for the value `IntegerMap_notFound`. -/
def IntegerMap_set (map : IntegerMap_Type) (key value : Int) : Option IntegerMap_Type :=
  if value = IntegerMap_notFound then none
  else
    let value := if value = 0 then SizeType_max else value
    some (IntegerMap__mapSet map key value)

/-! ## string.c : integers as text -/

/-- Constant `String__maxNumberOfIToADigits` (string.c). -/
def String__maxNumberOfIToADigits : Nat := 16

/-- The digit table `hexDigit` of `String__unsignedIToA` (string.c) and
`hexDigits` of `Gameboy__makeAddressBytes` (gameboy.c). -/
def String__hexDigit (digit : Nat) : Char :=
  "0123456789ABCDEF".data.getD digit '0'

/-- Routine `String__unsignedIToA` (string.c 87-108): the digits of `n` in
`radix`, most significant first, at least one digit; `fuel` bounds the number
of digits, the buffer of the routine has `String__maxNumberOfIToADigits`
places. -/
def String__unsignedIToA : Nat → Nat → Nat → List Char
  | 0, _, _ => []
  | fuel + 1, n, radix =>
    if n / radix = 0 then [String__hexDigit (n % radix)]
    else String__unsignedIToA fuel (n / radix) radix ++ [String__hexDigit (n % radix)]

/-- Conversion of an unsigned integer to the signed type of the same width;
`L` is the number of values of the type. -/
def Int32_ofUnsigned (L : Nat) (value : Nat) : Int :=
  if 2 * (value % L) < L then ((value % L : Nat) : Int) else ((value % L : Nat) : Int) - L

/-- Routine `String__itoa` (string.c 112-123); `value` is an `INT32`
(`signed long`), `L` is the number of values of `long`. -/
def String__itoa (L : Nat) (value : Int) (radix : Nat) : List Char :=
  if value < 0 ∧ radix = 10 then
    '-' :: String__unsignedIToA String__maxNumberOfIToADigits ((-value) % L).toNat radix
  else
    String__unsignedIToA String__maxNumberOfIToADigits (value % L).toNat radix

/-- Routine `String_copyInteger` (string.c 401-412). -/
def String_copyInteger (L : Nat) (value : Int) (base : Nat) : String_Type :=
  String.mk (String__itoa L value base)

/-- Routine `String_appendInteger` (string.c 481-493); `value` is a `UINT32`
(`unsigned long`) that `String_copyInteger` takes as an `INT32`. -/
def String_appendInteger (L : Nat) (destination : String_Type) (value : Nat)
    (base : Nat) : String_Type :=
  destination ++ String_copyInteger L (Int32_ofUnsigned L value) base

/-- Routine `String_hasPrefix` (string.c 856-875). -/
def String_hasPrefix (st pre : String_Type) : Bool :=
  if pre.data.length ≤ st.data.length
  then decide (pre.data = st.data.take pre.data.length) else false

/-! ## banking.h / banking.c : code banking -/

/-- Type `Target_Bank` (target.h): an `int`. -/
abbrev Target_Bank := Int

/-- Constant `Target_undefinedBank` (target.h). -/
def Target_undefinedBank : Target_Bank := -1

/-- Type `Banking_Configuration` (banking.h 122-147); the routines that fill
an `out` string return it. -/
structure Banking_Configuration where
  genericBankedCodeAreaName : String_Type
  nonbankedCodeAreaName : String_Type
  makeBankedCodeAreaName : Target_Bank → String_Type
  makeJumpLabelName : Target_Bank → String_Type
  makeTrampolineCallCode : Nat → Nat → Nat → Nat → String_Type
  makeSurrogateSymbolName : String_Type → String_Type
  ensureAsCallTarget : String_Type → String_Type → String_Type → Bool
  offsetPerTrampolineCall : Nat

/-- Conversion of an object to `Target_Bank`: the value is cut to the width
of `int`, `M` is the number of values of `unsigned int`. -/
def Target_Bank_ofObject (M : Nat) (object : Int) : Target_Bank :=
  if 2 * (object % (M : Int)) < (M : Int) then object % (M : Int)
  else object % (M : Int) - (M : Int)

/-- Routine `Banking_getModuleBank` (banking.c 459-469);
`moduleNameToBankMap` is the file-scope variable `Banking__moduleNameToBankMap`,
its values are the banks stored as objects. -/
def Banking_getModuleBank (M : Nat) (moduleNameToBankMap : Map_Type Int)
    (moduleName : String_Type) : Target_Bank :=
  match Map_lookup moduleNameToBankMap moduleName with
  | none => Target_undefinedBank
  | some bankPtr =>
    if bankPtr != 0 then Target_Bank_ofObject M bankPtr else Target_undefinedBank

/-- Routine `Module_getName` (module.c 259-267); the precondition check ends
the program for an invalid module. -/
def Module_getName (st : Linker) (module : Option Nat) : Option String_Type :=
  match module with
  | none => none
  | some m =>
    match st.Module__list[m]? with
    | none => none
    | some r => some r.name

/-- Routine `Module_getSymbolList` (module.c 368-377): a copy of the symbol
list of a valid module. -/
def Module_getSymbolList (st : Linker) (module : Option Nat) : Option (List Nat) :=
  match module with
  | none => none
  | some m =>
    match st.Module__list[m]? with
    | none => none
    | some r => some r.symbolList

/-- Routine `Module_getModuleList` (module.c 348-351): a copy of
`Module__indexByName`, which holds the pointers to the records of
`Module__list` in the order of their creation. -/
def Module_getModuleList (st : Linker) : List Nat :=
  List.range st.Module__list.length

/-- Routine `Area_getSegmentName` (area.c 580-588): the name of the parent
area of a valid segment. -/
def Area_getSegmentName (st : Linker) (segment : Option Nat) : Option String_Type :=
  match segment with
  | none => none
  | some s =>
    match st.segmentHeap[s]? with
    | none => none
    | some r =>
      match r.parentArea with
      | none => none
      | some a =>
        match st.Area__list[a]? with
        | none => none
        | some ar => some ar.name

/-- Routine `Symbol_getName` (symbol.c 333-341). -/
def Symbol_getName (st : Linker) (symbol : Option Nat) : Option String_Type :=
  match symbol with
  | none => none
  | some s =>
    match st.Symbol__list[s]? with
    | none => none
    | some r => some r.name

/-- Routine `Banking__getBank` (banking.c 181-197). -/
def Banking__getBank (M : Nat) (moduleNameToBankMap : Map_Type Int) (st : Linker)
    (module : Option Nat) : Option Target_Bank :=
  match Module_getName st module with
  | none => none
  | some moduleName =>
    let upperCaseModuleName := String_convertToUpperCase moduleName
    some (Banking_getModuleBank M moduleNameToBankMap upperCaseModuleName)

/-- The `out` and `inout` parameters of `Banking__collectInterbankReferences`
(banking.c 40-45) together with its local variable `bankToLabelIndexMap`.
The list `targetBankList` is not in the source: it records the value of the
local variable `targetBank` whenever a symbol is split, in the order of the
splits, and no routine reads it. -/
structure Banking__References where
  jumpLabelNameList : List String_Type
  surrogateNameList : List String_Type
  symbolNameList : List String_Type
  symbolIndexToLabelIndexMap : IntegerMap_Type
  interbankReferenceIsFound : Bool
  bankToLabelIndexMap : IntegerMap_Type
  targetBankList : List Target_Bank

/-- The lists and maps as `Banking_resolveInterbankReferences` (banking.c
520-527) and `Banking__collectInterbankReferences` (banking.c 60-65) make
them: empty lists, empty maps, no reference found. -/
def Banking__noReferences : Banking__References :=
  { jumpLabelNameList := [], surrogateNameList := [], symbolNameList := [],
    symbolIndexToLabelIndexMap := IntegerMap__make, interbankReferenceIsFound := false,
    bankToLabelIndexMap := IntegerMap__make, targetBankList := [] }

/-- The block of `Banking__collectInterbankReferences` for an interbank
reference (banking.c 122-166): the symbol is split, the names are appended to
the lists, a jump label is made when the target bank has none yet, and the
symbol index is mapped to the label index. -/
def Banking__addReference (c : Banking_Configuration) (st : Linker)
    (refs : Banking__References) (symbol : Nat) (symbolName : String_Type)
    (targetBank : Target_Bank) : Option (Linker × Banking__References) :=
  let targetBankAsObject : Int := targetBank
  let surrogateSymbolName := c.makeSurrogateSymbolName symbolName
  match Symbol_makeBySplit st symbol surrogateSymbolName with
  | none => none
  | some (st, _) =>
    let symbolNameList := refs.symbolNameList ++ [symbolName]
    let surrogateNameList := refs.surrogateNameList ++ [surrogateSymbolName]
    let symbolIndex : Int := (symbolNameList.length : Nat)
    let labelIndex := IntegerMap_lookup refs.bankToLabelIndexMap targetBankAsObject
    let labelStep : Option (Int × List String_Type × IntegerMap_Type) :=
      if labelIndex = IntegerMap_notFound then
        let labelIndex : Int := (refs.jumpLabelNameList.length : Nat)
        let jumpLabelName := c.makeJumpLabelName targetBank
        let jumpLabelNameList := refs.jumpLabelNameList ++ [jumpLabelName]
        match IntegerMap_set refs.bankToLabelIndexMap targetBankAsObject labelIndex with
        | none => none
        | some bankToLabelIndexMap => some (labelIndex, jumpLabelNameList, bankToLabelIndexMap)
      else some (labelIndex, refs.jumpLabelNameList, refs.bankToLabelIndexMap)
    match labelStep with
    | none => none
    | some (labelIndex, jumpLabelNameList, bankToLabelIndexMap) =>
      match IntegerMap_set refs.symbolIndexToLabelIndexMap symbolIndex labelIndex with
      | none => none
      | some symbolIndexToLabelIndexMap =>
        some (st, { jumpLabelNameList := jumpLabelNameList,
                    surrogateNameList := surrogateNameList,
                    symbolNameList := symbolNameList,
                    symbolIndexToLabelIndexMap := symbolIndexToLabelIndexMap,
                    interbankReferenceIsFound := true,
                    bankToLabelIndexMap := bankToLabelIndexMap,
                    targetBankList := refs.targetBankList ++ [targetBank] })

/-- The body of the inner loop of `Banking__collectInterbankReferences`
(banking.c 86-169) for one symbol of the module with the bank
`currentBank`. -/
def Banking__checkSymbol (M : Nat) (c : Banking_Configuration)
    (moduleNameToBankMap : Map_Type Int) (currentBank : Target_Bank) (st : Linker)
    (refs : Banking__References) (symbol : Nat) : Option (Linker × Banking__References) :=
  match Symbol_getSegment st (some symbol) with
  | none => none
  | some segment =>
    match Symbol_isSurrogate st (some symbol) with
    | none => none
    | some isSurrogate =>
      if isSurrogate || segment == none then some (st, refs)
      else
        match Area_getSegmentModule st segment with
        | none => none
        | some targetModule =>
          match Banking__getBank M moduleNameToBankMap st targetModule with
          | none => none
          | some targetBank =>
            match Symbol_getName st (some symbol) with
            | none => none
            | some symbolName =>
              let isRelevant :=
                currentBank != targetBank && targetBank != Target_undefinedBank
              let isRelevant : Option Bool :=
                if isRelevant then
                  match Module_getName st targetModule, Area_getSegmentName st segment with
                  | some targetModuleName, some segmentName =>
                    some (c.ensureAsCallTarget targetModuleName segmentName symbolName)
                  | _, _ => none
                else some isRelevant
              match isRelevant with
              | none => none
              | some isRelevant =>
                if isRelevant
                then Banking__addReference c st refs symbol symbolName targetBank
                else some (st, refs)

/-- The inner loop of `Banking__collectInterbankReferences` (banking.c 83-170)
over the copy of the symbol list of a module. -/
def Banking__checkSymbols (M : Nat) (c : Banking_Configuration)
    (moduleNameToBankMap : Map_Type Int) (currentBank : Target_Bank) :
    Linker → Banking__References → List Nat → Option (Linker × Banking__References)
  | st, refs, [] => some (st, refs)
  | st, refs, symbol :: rest =>
    match Banking__checkSymbol M c moduleNameToBankMap currentBank st refs symbol with
    | none => none
    | some (st, refs) =>
      Banking__checkSymbols M c moduleNameToBankMap currentBank st refs rest

/-- The outer loop of `Banking__collectInterbankReferences` (banking.c 70-173)
over the copy of the module list. -/
def Banking__checkModules (M : Nat) (c : Banking_Configuration)
    (moduleNameToBankMap : Map_Type Int) :
    Linker → Banking__References → List Nat → Option (Linker × Banking__References)
  | st, refs, [] => some (st, refs)
  | st, refs, module :: rest =>
    match Banking__getBank M moduleNameToBankMap st (some module) with
    | none => none
    | some currentBank =>
      match Module_getSymbolList st (some module) with
      | none => none
      | some moduleSymbolList =>
        match Banking__checkSymbols M c moduleNameToBankMap currentBank st refs
                moduleSymbolList with
        | none => none
        | some (st, refs) => Banking__checkModules M c moduleNameToBankMap st refs rest

/-- Routine `Banking__collectInterbankReferences` (banking.c 40-177); the
local map `bankToLabelIndexMap` is made and cleared at the start. -/
def Banking__collectInterbankReferences (M : Nat) (c : Banking_Configuration)
    (moduleNameToBankMap : Map_Type Int) (st : Linker) (refs : Banking__References) :
    Option (Linker × Banking__References) :=
  let refs := { refs with bankToLabelIndexMap := IntegerMap__make }
  let moduleList := Module_getModuleList st
  Banking__checkModules M c moduleNameToBankMap st refs moduleList

/-- The loop of `Banking__writeStubFile` over the external names (banking.c
322-329). -/
def Banking__writeExternalNames (stubCodeFile : File_Type) :
    List String_Type → File_Type
  | [] => stubCodeFile
  | externalName :: rest =>
    let stubCodeFile := File_writeCharArray stubCodeFile "S "
    let stubCodeFile := File_writeString stubCodeFile externalName
    let stubCodeFile := File_writeCharArray stubCodeFile " Ref0000\n"
    Banking__writeExternalNames stubCodeFile rest

/-- The loop of `Banking__writeStubFile` over the surrogate names (banking.c
351-365); `offsetInSegment` is an `int` that does not overflow. -/
def Banking__writeSurrogateNames (offsetPerTrampolineCall : Nat)
    (stubCodeFile : File_Type) (offsetInSegment : Nat) :
    List String_Type → File_Type
  | [] => stubCodeFile
  | surrogateSymbolName :: rest =>
    let stubCodeFile := File_writeCharArray stubCodeFile "S "
    let stubCodeFile := File_writeString stubCodeFile surrogateSymbolName
    let stubCodeFile := File_writeCharArray stubCodeFile " Def"
    let stubCodeFile := File_writeHex stubCodeFile offsetInSegment 4
    let stubCodeFile := File_writeChar stubCodeFile '\n'
    Banking__writeSurrogateNames offsetPerTrampolineCall stubCodeFile
      (offsetInSegment + offsetPerTrampolineCall) rest

/-- The loop of `Banking__writeStubFile` over the trampoline calls (banking.c
377-396); `indexList` holds the values of `i` still to come, the `int`
variables do not overflow and are cut to `UINT16` when they are passed to
`makeTrampolineCallCode`. -/
def Banking__writeTrampolineCalls (M : Nat) (c : Banking_Configuration)
    (symbolIndexToLabelIndexMap : IntegerMap_Type) (stubCodeFile : File_Type)
    (targetSymbolIndex offsetInSegment : Nat) : List Nat → File_Type
  | [] => stubCodeFile
  | i :: indexList =>
    let referencedAreaIndex := 0
    let jumpLabelSymbolIndex :=
      (IntegerMap_lookup symbolIndexToLabelIndexMap (i : Int) % (M : Int)).toNat
    let codeSequence :=
      c.makeTrampolineCallCode (offsetInSegment % M) referencedAreaIndex
        (targetSymbolIndex % M) jumpLabelSymbolIndex
    let stubCodeFile := File_writeString stubCodeFile codeSequence
    Banking__writeTrampolineCalls M c symbolIndexToLabelIndexMap stubCodeFile
      (targetSymbolIndex + 1) (offsetInSegment + c.offsetPerTrampolineCall) indexList

/-- Routine `Banking__writeStubFile` (banking.c 261-405): the text of the stub
file; the two precondition checks and a file that cannot be opened end the
program. -/
def Banking__writeStubFile (M : Nat) (c : Banking_Configuration) (fileIsOpen : Bool)
    (jumpLabelNameList surrogateNameList symbolNameList : List String_Type)
    (symbolIndexToLabelIndexMap : IntegerMap_Type) : Option File_Type :=
  let surrogateCount := surrogateNameList.length
  let symbolCount := symbolNameList.length
  let jumpLabelCount := jumpLabelNameList.length
  if !(decide (jumpLabelCount > 0)) then none
  else if !(decide (surrogateCount = symbolCount)) then none
  else if !fileIsOpen then none
  else
    let stubCodeFile : File_Type := ""
    let offsetPerTrampolineCall := c.offsetPerTrampolineCall
    let totalSymbolCount := jumpLabelNameList.length + 2 * surrogateNameList.length
    let stubCodeFile := File_writeCharArray stubCodeFile "X\nH "
    let stubCodeFile := File_writeCharArray stubCodeFile "1 areas "
    let stubCodeFile := File_writeHex stubCodeFile totalSymbolCount 4
    let stubCodeFile := File_writeCharArray stubCodeFile " global symbols\n"
    let stubCodeFile := File_writeCharArray stubCodeFile "M generatedBanking\n"
    let externalNameList := jumpLabelNameList ++ symbolNameList
    let stubCodeFile := Banking__writeExternalNames stubCodeFile externalNameList
    let jumpTableSize := (surrogateNameList.length * offsetPerTrampolineCall) % M
    let stubCodeFile := File_writeCharArray stubCodeFile "A "
    let stubCodeFile := File_writeString stubCodeFile c.nonbankedCodeAreaName
    let stubCodeFile := File_writeCharArray stubCodeFile " size "
    let stubCodeFile := File_writeHex stubCodeFile jumpTableSize 4
    let stubCodeFile := File_writeCharArray stubCodeFile " flags 0\n"
    let stubCodeFile :=
      Banking__writeSurrogateNames offsetPerTrampolineCall stubCodeFile 0 surrogateNameList
    let callCount := symbolNameList.length
    let targetSymbolIndex := jumpLabelNameList.length
    some (Banking__writeTrampolineCalls M c symbolIndexToLabelIndexMap stubCodeFile
            targetSymbolIndex 0 (List.range' 1 callCount))

/-! ## platform/gameboy.c : the banking configuration -/

/-- Routine `Gameboy__makeAddressBytes` (gameboy.c 323-340): the two low bytes
of `value`, low byte first, as two upper-case hexadecimal digits each with a
blank between them. -/
def Gameboy__makeAddressBytes (value : Nat) : String :=
  let partA := (value &&& 0xFF) % 256
  let partB := (value >>> 8) % 256
  String.mk [String__hexDigit (partA >>> 4), String__hexDigit (partA &&& 0xF), ' ',
             String__hexDigit (partB >>> 4), String__hexDigit (partB &&& 0xF)]

/-- Variable `Gameboy__codeAreaPrefix` as set by `Gameboy__initialize`
(gameboy.c 899). -/
def Gameboy__codeAreaPrefix : String_Type := "_CODE"

/-- Routine `Gameboy__ensureAsCallTarget` (gameboy.c 602-609). -/
def Gameboy__ensureAsCallTarget (_moduleName segmentName _symbolName : String_Type) :
    Bool :=
  String_hasPrefix segmentName Gameboy__codeAreaPrefix

/-- Routine `Gameboy__makeBankedCodeAreaName` (gameboy.c 776-788);
`nonbankedCodeAreaName` is the field of `Gameboy__bankingConfiguration`. -/
def Gameboy__makeBankedCodeAreaName (L : Nat) (nonbankedCodeAreaName : String_Type)
    (bank : Target_Bank) : String_Type :=
  if bank = Target_undefinedBank then nonbankedCodeAreaName
  else String_appendInteger L "_CODE_" (bank % (L : Int)).toNat 16

/-- Routine `Gameboy__makeJumpLabelName` (gameboy.c 792-799); the bank is
passed to `String_appendInteger` as an `unsigned long`, `L` is the number of
values of that type. -/
def Gameboy__makeJumpLabelName (L : Nat) (bank : Target_Bank) : String_Type :=
  String_appendInteger L "Banking__switchTo" (bank % (L : Int)).toNat 16

/-- Routine `Gameboy__makeSurrogateSymbolName` (gameboy.c 803-811). -/
def Gameboy__makeSurrogateSymbolName (symbolName : String_Type) : String_Type :=
  "_BC" ++ symbolName

/-- Routine `Gameboy__makeTrampolineCallCode` (gameboy.c 815-860): a T line
and an R line. -/
def Gameboy__makeTrampolineCallCode
    (startAddress referencedAreaIndex targetSymbolIndex jumpLabelSymbolIndex : Nat) :
    String_Type :=
  let codeSequence := "T "
  let codeSequence := codeSequence ++ Gameboy__makeAddressBytes startAddress
  let codeSequence := codeSequence ++ " 01 00 00 C3 00 00\n"
  let codeSequence := codeSequence ++ "R "
  let codeSequence := codeSequence ++ Gameboy__makeAddressBytes 0
  let codeSequence := codeSequence ++ " "
  let codeSequence := codeSequence ++ Gameboy__makeAddressBytes referencedAreaIndex
  let codeSequence := codeSequence ++ " 02 03 "
  let codeSequence := codeSequence ++ Gameboy__makeAddressBytes targetSymbolIndex
  let codeSequence := codeSequence ++ " 02 06 "
  let codeSequence := codeSequence ++ Gameboy__makeAddressBytes jumpLabelSymbolIndex
  codeSequence ++ "\n"

/-- Variable `Gameboy__bankingConfiguration` as set by `Gameboy__initialize`
(gameboy.c 919-934). -/
def Gameboy__bankingConfiguration (L : Nat) : Banking_Configuration :=
  { genericBankedCodeAreaName := "_CODE_0",
    nonbankedCodeAreaName := "_CODE",
    makeBankedCodeAreaName := Gameboy__makeBankedCodeAreaName L "_CODE",
    makeJumpLabelName := Gameboy__makeJumpLabelName L,
    makeTrampolineCallCode := Gameboy__makeTrampolineCallCode,
    makeSurrogateSymbolName := Gameboy__makeSurrogateSymbolName,
    ensureAsCallTarget := Gameboy__ensureAsCallTarget,
    offsetPerTrampolineCall := 6 }

/-- The text of the stub object as the specification describes it, for `J`
jump labels, `N` split symbols with their surrogates, the trampoline size `s`
and the position `labelIndex i` of the jump label of the `i`-th split symbol
(counted from 0): a header that declares `J + 2N` global symbols, the
references to the `J` jump labels and the `N` symbols, one area of size `N * s`,
the `N` surrogate definitions at the offsets `0, s, 2s, ...` and `N` pairs of a
T line and an R line. -/
def Banking_stubText (areaName : String_Type) (s : Nat)
    (jumpLabels symbols surrogates : List String_Type) (labelIndex : Nat → Nat) : String :=
  let J := jumpLabels.length
  let N := symbols.length
  "X\nH 1 areas " ++ File_writeHex "" (J + 2 * N) 4 ++ " global symbols\n"
    ++ "M generatedBanking\n"
    ++ String.join ((jumpLabels ++ symbols).map (fun name => "S " ++ name ++ " Ref0000\n"))
    ++ "A " ++ areaName ++ " size " ++ File_writeHex "" (N * s) 4 ++ " flags 0\n"
    ++ String.join ((List.range N).map (fun i =>
         "S " ++ surrogates.getD i "" ++ " Def" ++ File_writeHex "" (i * s) 4 ++ "\n"))
    ++ String.join ((List.range N).map (fun i =>
         "T " ++ Gameboy__makeAddressBytes (i * s) ++ " 01 00 00 C3 00 00\n"
           ++ "R 00 00 00 00 02 03 " ++ Gameboy__makeAddressBytes (J + i)
           ++ " 02 06 " ++ Gameboy__makeAddressBytes (labelIndex i) ++ "\n"))

/-- A state after pass 1 of three object files: the modules "M1" and "M2" have
a code segment each in the areas "_CODE_1" and "_CODE_2", module "M0" has one
in "_CODE".  "M1" defines "f" and "h" and references "g", "M2" defines "g"
and references "f", "M0" references "f" and "h". -/
def bankingExample : Linker :=
  { Area__list :=
      [{ name := ".ABS.", attributes := 3, startAddress := 0, totalSize := 0,
         segmentList := [0, 2, 4] },
       { name := "_CODE_1", attributes := 0, startAddress := 0, totalSize := 0,
         segmentList := [1] },
       { name := "_CODE_2", attributes := 0, startAddress := 0, totalSize := 0,
         segmentList := [3] },
       { name := "_CODE", attributes := 0, startAddress := 0, totalSize := 0,
         segmentList := [5] }],
    Area__absoluteArea := 0,
    segmentHeap :=
      [{ parentArea := some 0, parentModule := some 0, startAddress := 0,
         totalSize := 0, symbolList := [] },
       { parentArea := some 1, parentModule := some 0, startAddress := 0,
         totalSize := 16, symbolList := [0, 2] },
       { parentArea := some 0, parentModule := some 1, startAddress := 0,
         totalSize := 0, symbolList := [] },
       { parentArea := some 2, parentModule := some 1, startAddress := 0,
         totalSize := 32, symbolList := [1] },
       { parentArea := some 0, parentModule := some 2, startAddress := 0,
         totalSize := 0, symbolList := [] },
       { parentArea := some 3, parentModule := some 2, startAddress := 0,
         totalSize := 8, symbolList := [] }],
    Area__currentSegment := some 5,
    Symbol__list :=
      [{ name := "f", definingSegment := some 1, attributes := 3, startAddress := 0 },
       { name := "g", definingSegment := some 3, attributes := 3, startAddress := 4 },
       { name := "h", definingSegment := some 1, attributes := 3, startAddress := 8 }],
    Symbol__indexByName := Map_set (Map_set (Map_set Map_make "f" 0) "g" 1) "h" 2,
    Symbol__platformIsCaseSensitive := true,
    Module__list :=
      [{ name := "M1", segmentCount := 1, symbolCount := 3,
         associatedFileName := "m1.o", segmentList := [0, 1], symbolList := [0, 1, 2] },
       { name := "M2", segmentCount := 1, symbolCount := 2,
         associatedFileName := "m2.o", segmentList := [2, 3], symbolList := [0, 1] },
       { name := "M0", segmentCount := 1, symbolCount := 2,
         associatedFileName := "m0.o", segmentList := [4, 5], symbolList := [0, 2] }],
    Module__currentModule := some 2,
    warnings := [] }

/-- The map `Banking__moduleNameToBankMap` after a banking configuration file
with the lines "M1=1" and "M2=2". -/
def bankingExampleMap : Map_Type Int := Map_set (Map_set Map_make "M1" 1) "M2" 2

/-- The distinct banks of a list in the order of their first occurrence. -/
def Banking_labelBanks (banks : List Target_Bank) : List Target_Bank :=
  banks.foldl (fun acc b => if b ∈ acc then acc else acc ++ [b]) []

/-- The relation between the lists and maps of
`Banking__collectInterbankReferences` and the target banks of the symbols
split so far. -/
structure Banking_referencesInvariant (c : Banking_Configuration)
    (refs : Banking__References) : Prop where
  hsym : refs.symbolNameList.length = refs.targetBankList.length
  hsur : refs.surrogateNameList = refs.symbolNameList.map c.makeSurrogateSymbolName
  hlab : refs.jumpLabelNameList
    = (Banking_labelBanks refs.targetBankList).map c.makeJumpLabelName
  hsmall : ((Banking_labelBanks refs.targetBankList).length : Int) ≤ IntegerMap_notFound
  hbank : ∀ b : Target_Bank, IntegerMap_lookup refs.bankToLabelIndexMap b
    = if b ∈ refs.targetBankList
      then (((Banking_labelBanks refs.targetBankList).indexOf b : Nat) : Int)
      else IntegerMap_notFound
  hidx : ∀ i : Nat, i < refs.targetBankList.length →
    IntegerMap_lookup refs.symbolIndexToLabelIndexMap ((i + 1 : Nat) : Int)
      = (((Banking_labelBanks refs.targetBankList).indexOf
            (refs.targetBankList.getD i 0) : Nat) : Int)
  hfound : refs.interbankReferenceIsFound = decide (0 < refs.targetBankList.length)

/-- The run of `Banking__collectInterbankReferences` on `bankingExample` with
16-bit `int` and 32-bit `long`. -/
def bankingExampleRun : Option (Linker × Banking__References) :=
  Banking__collectInterbankReferences 65536 (Gameboy__bankingConfiguration 4294967296)
    bankingExampleMap bankingExample Banking__noReferences

/-! ## string.c, file.c : the routines used by the reader of object files -/

/-- Routine `String_appendChar` (string.c 445-456) on the characters of a
string: the terminator character is not appended, because
`String_appendCharArray` takes the length of the appended text with
`strlen`. -/
def String_appendChar (st : List Char) (ch : Char) : List Char :=
  if ch = '\x00' then st else st ++ [ch]

/-- Routine `String_getAt` (string.c 262-277): the character at the 1-based
position `i`; the precondition check ends the program for a position outside
of the string. -/
def String_getAt (st : List Char) (i : Nat) : Option Char :=
  if 1 ≤ i ∧ i ≤ st.length then st[i - 1]? else none

/-- Routine `String_getCharacter` (string.c 809-820): the character at the
1-based position `i` without a check; the position after the last character
holds the terminator. -/
def String_getCharacter (st : List Char) (i : Nat) : Char :=
  st.getD (i - 1) '\x00'

/-- Routine `File_readLine` (file.c 216-235) on the unread characters of a
file, called with the cleared string: characters are appended up to the end
of the file or up to a newline, which is appended as well.  The result is the
unread rest of the file and the line. -/
def File_readLine : List Char → List Char → List Char × List Char
  | [], st => ([], st)
  | ch :: rest, st =>
    let st := String_appendChar st ch
    if ch = '\n' then (rest, st) else File_readLine rest st

/-! ## scanner.h / scanner.c : the tokens of an object file -/

/-- Constant `Scanner_endOfStreamChar` (scanner.h). -/
def Scanner_endOfStreamChar : Char := '\xff'

/-- Constant `Scanner_pushbackStackSize` (scanner.h). -/
def Scanner_pushbackStackSize : Nat := 100

/-- Enumeration `Scanner_TokenKind` (scanner.h). -/
def Scanner_TokenKind_operator : Nat := 0
/-- Enumeration `Scanner_TokenKind` (scanner.h). -/
def Scanner_TokenKind_identifier : Nat := 1
/-- Enumeration `Scanner_TokenKind` (scanner.h). -/
def Scanner_TokenKind_number : Nat := 2
/-- Enumeration `Scanner_TokenKind` (scanner.h). -/
def Scanner_TokenKind_idOrNumber : Nat := 3
/-- Enumeration `Scanner_TokenKind` (scanner.h). -/
def Scanner_TokenKind_newline : Nat := 4
/-- Enumeration `Scanner_TokenKind` (scanner.h). -/
def Scanner_TokenKind_streamEnd : Nat := 5
/-- Enumeration `Scanner_TokenKind` (scanner.h). -/
def Scanner_TokenKind_comment : Nat := 6
/-- Enumeration `Scanner_TokenKind` (scanner.h). -/
def Scanner_TokenKind_other : Nat := 7

/-- Type `Scanner_Token` (scanner.h) without the field `operator`, which the
parser of object files does not read. -/
structure Scanner_Token where
  kind : Nat
  representation : List Char
  deriving DecidableEq, Repr

/-- Enumeration `Scanner__CharacterKind` (scanner.c). -/
inductive Scanner__CharacterKind where
  | whiteSpace | digit | digitOrLetter | letter | operator | newline | streamEnd
  | comment | other
  deriving DecidableEq, Repr

/-- Table `Scanner__characterKind` as filled by `Scanner_initialize`
(scanner.c 364-385); a `char` is taken as a number from 0 to 255. -/
def Scanner__characterKind (ch : Char) : Scanner__CharacterKind :=
  if ch ∈ "=+-*/%<>|&^".data then .operator
  else if ch ∈ "GHIJKLMNOPQRSTUVWXYZghijklmnopqrstuvwxyz_.$".data then .letter
  else if ch ∈ "ABCDEFabcdef".data then .digitOrLetter
  else if ch ∈ "0123456789".data then .digit
  else if ch ∈ [' ', '\t', '\x0c'] then .whiteSpace
  else if ch = Scanner_endOfStreamChar then .streamEnd
  else if ch = ';' then .comment
  else if ch = '\n' then .newline
  else .other

/-- Variable `Scanner__radixCharacters` as set by `Scanner_initialize`. -/
def Scanner__radixCharacters : List Char := "bB@oOqQdDxXhH".data

/-- The test `String_findCharacter(Scanner__radixCharacters, ch) !=
String_notFound` of `Scanner__getNumber`; `strchr` finds the terminator of
the string as well. -/
def Scanner__isRadixCharacter (ch : Char) : Bool :=
  decide (ch ∈ Scanner__radixCharacters) || decide (ch = '\x00')

/-! ## parser.h / parser.c : the reader and the parser of object files -/

/-- The enumeration of the field `endianness` of `Parser_Options` (parser.h). -/
inductive Parser_Endianness where
  | littleEndian | bigEndian | unknown
  deriving DecidableEq, Repr

/-- Type `Parser_Options` (parser.h). -/
structure Parser_Options where
  defaultBase : Nat
  endianness : Parser_Endianness
  deriving DecidableEq, Repr

/-- The type of the variable `Parser__fileSequence` (parser.c 29-39).
`currentFile` holds the unread characters of the open file, the counters are
natural numbers: the embedding covers file lists, files and lines with
lengths that the counters of the source can hold. -/
structure Parser__FileSequence where
  nameList : List String_Type
  index : Nat
  count : Nat
  currentFile : List Char
  currentFileName : String_Type
  currentLineIndex : Nat
  currentLine : List Char
  column : Nat
  lineLength : Nat
  deriving DecidableEq, Repr

/-- The place of a character in the input, which is not in the source: the
values of `Parser__fileSequence.index` and `.currentLineIndex` when
`Parser__getFileListCharacter` took the character from a line, `none` for the
end of stream character that it returns when the input is exhausted. -/
abbrev Parser_Place := Option (Nat × Nat)

/-- An entry of the token log, which is not in the source: a token returned by
`Scanner_getNextToken`, the place of its first character and the value of
`Parser__options` when the token is returned. -/
structure Parser_TokenRecord where
  place : Parser_Place
  token : Scanner_Token
  options : Parser_Options
  deriving DecidableEq, Repr

/-- The file-scope variables of parser.c and scanner.c that
`Parser_parseObjectFiles` works on: `Parser__fileSequence`, `Parser__options`,
`Parser__defaultOptions`, the static variable `command` of
`Parser__doRadixStateTransition` and `Scanner__pushbackStack` (top first, every
character with its place).  `tokenLog` is not in the source and no routine
reads it.  `world` stands for all other variables of the program, which the
other state transition procedures read and change. -/
structure Parser_Module (W : Type) where
  Parser__fileSequence : Parser__FileSequence
  Parser__options : Parser_Options
  Parser__defaultOptions : Parser_Options
  command : List Char
  Scanner__pushbackStack : List (Char × Parser_Place)
  tokenLog : List Parser_TokenRecord
  world : W

/-- The loop of `Parser__getFileListCharacter` (parser.c 861-916);
`fileSystem` gives the characters of the files that `File_open` can open.  The
result is the character with its place, or `none` when the program ends with
a fatal error or `fuel` iterations did not suffice. -/
def Parser__getFileListCharacter_loop {W : Type}
    (fileSystem : String_Type → Option (List Char)) :
    Nat → Parser_Module W → Parser_Module W × Option (Char × Parser_Place)
  | 0, s => (s, none)
  | fuel + 1, s =>
    let fs := s.Parser__fileSequence
    if fs.lineLength ≠ 0 then
      if fs.column ≤ fs.lineLength then
        match String_getAt fs.currentLine fs.column with
        | none => (s, none)
        | some result =>
          ({ s with Parser__fileSequence := { fs with column := fs.column + 1 } },
            some (result, some (fs.index, fs.currentLineIndex)))
      else
        let read := File_readLine fs.currentFile []
        Parser__getFileListCharacter_loop fileSystem fuel
          { s with Parser__fileSequence :=
              { fs with currentFile := read.1, currentLine := read.2,
                        currentLineIndex := fs.currentLineIndex + 1, column := 1,
                        lineLength := read.2.length } }
    else
      let fs := { fs with index := fs.index + 1 }
      if fs.index > fs.count then
        ({ s with Parser__fileSequence := fs }, some (Scanner_endOfStreamChar, none))
      else
        match List_getElement fs.nameList fs.index with
        | none => ({ s with Parser__fileSequence := fs }, none)
        | some fileName =>
          match fileSystem fileName with
          | none => ({ s with Parser__fileSequence := fs }, none)
          | some content =>
            Parser__getFileListCharacter_loop fileSystem fuel
              { s with Parser__fileSequence :=
                         { fs with currentFile := content, currentFileName := fileName,
                                   currentLineIndex := 0, lineLength := 1, column := 2 },
                       Parser__options := s.Parser__defaultOptions }

/-- Routine `Parser__getFileListCharacter` (parser.c 849-919). -/
def Parser__getFileListCharacter {W : Type}
    (fileSystem : String_Type → Option (List Char)) (fuel : Nat) (s : Parser_Module W) :
    Parser_Module W × Option (Char × Parser_Place) :=
  let s :=
    if s.Parser__fileSequence.index = 0
    then { s with Parser__fileSequence := { s.Parser__fileSequence with lineLength := 0 } }
    else s
  Parser__getFileListCharacter_loop fileSystem fuel s

/-- Routine `Scanner__getChar` (scanner.c 98-116); `Scanner__readerProc` is
`Parser__getFileListCharacter` since `Scanner_redirectInput`. -/
def Scanner__getChar {W : Type} (fileSystem : String_Type → Option (List Char))
    (fuel : Nat) (s : Parser_Module W) : Parser_Module W × Option (Char × Parser_Place) :=
  match s.Scanner__pushbackStack with
  | [] => Parser__getFileListCharacter fileSystem fuel s
  | ch :: rest => ({ s with Scanner__pushbackStack := rest }, some ch)

/-- Routine `Scanner__ungetChar` (scanner.c 343-357); a full stack ends the
program. -/
def Scanner__ungetChar {W : Type} (s : Parser_Module W) (ch : Char × Parser_Place) :
    Option (Parser_Module W) :=
  if s.Scanner__pushbackStack.length = Scanner_pushbackStackSize then none
  else some { s with Scanner__pushbackStack := ch :: s.Scanner__pushbackStack }

/-- The loop of `Scanner__getIdentifier` (scanner.c 129-139). -/
def Scanner__getIdentifier_loop {W : Type} (fileSystem : String_Type → Option (List Char)) :
    Nat → Parser_Module W → List Char → Parser_Module W × Option (List Char)
  | 0, s, _ => (s, none)
  | fuel + 1, s, representation =>
    match Scanner__getChar fileSystem fuel s with
    | (s, none) => (s, none)
    | (s, some ch) =>
      let kind := Scanner__characterKind ch.1
      if kind ≠ .letter ∧ kind ≠ .digitOrLetter ∧ kind ≠ .digit then
        match Scanner__ungetChar s ch with
        | none => (s, none)
        | some s => (s, some representation)
      else
        Scanner__getIdentifier_loop fileSystem fuel s (String_appendChar representation ch.1)

/-- Routine `Scanner__getIdentifier` (scanner.c 120-140). -/
def Scanner__getIdentifier {W : Type} (fileSystem : String_Type → Option (List Char))
    (fuel : Nat) (s : Parser_Module W) : Parser_Module W × Option Scanner_Token :=
  match Scanner__getIdentifier_loop fileSystem fuel s [] with
  | (s, none) => (s, none)
  | (s, some representation) =>
    (s, some { kind := Scanner_TokenKind_identifier, representation := representation })

/-- The last loop of `Scanner__getNumber` (scanner.c 193-205). -/
def Scanner__getNumber_loop {W : Type} (fileSystem : String_Type → Option (List Char)) :
    Nat → Parser_Module W → List Char → Parser_Module W × Option (List Char)
  | 0, s, _ => (s, none)
  | fuel + 1, s, representation =>
    match Scanner__getChar fileSystem fuel s with
    | (s, none) => (s, none)
    | (s, some ch) =>
      let kind := Scanner__characterKind ch.1
      if kind ≠ .digit ∧ kind ≠ .digitOrLetter then
        match Scanner__ungetChar s ch with
        | none => (s, none)
        | some s => (s, some representation)
      else
        Scanner__getNumber_loop fileSystem fuel s (String_appendChar representation ch.1)

/-- Routine `Scanner__getNumber` (scanner.c 168-206). -/
def Scanner__getNumber {W : Type} (fileSystem : String_Type → Option (List Char))
    (fuel : Nat) (s : Parser_Module W) : Parser_Module W × Option Scanner_Token :=
  match Scanner__getChar fileSystem fuel s with
  | (s, none) => (s, none)
  | (s, some ch) =>
    let representation := String_appendChar [] ch.1
    let afterRadix : Parser_Module W × Option (List Char) :=
      if ch.1 = '0' then
        match Scanner__getChar fileSystem fuel s with
        | (s, none) => (s, none)
        | (s, some ch) =>
          if !Scanner__isRadixCharacter ch.1 then
            match Scanner__ungetChar s ch with
            | none => (s, none)
            | some s => (s, some representation)
          else
            let ch1 := if ch.1.isLower then ch.1.toUpper else ch.1
            (s, some (String_appendChar representation ch1))
      else (s, some representation)
    match afterRadix with
    | (s, none) => (s, none)
    | (s, some representation) =>
      match Scanner__getNumber_loop fileSystem fuel s representation with
      | (s, none) => (s, none)
      | (s, some representation) =>
        (s, some { kind := Scanner_TokenKind_number, representation := representation })

/-- The loop of `Scanner__getAmbiguousToken` (scanner.c 221-234). -/
def Scanner__getAmbiguousToken_loop {W : Type}
    (fileSystem : String_Type → Option (List Char)) :
    Nat → Parser_Module W → Scanner_Token → Parser_Module W × Option Scanner_Token
  | 0, s, _ => (s, none)
  | fuel + 1, s, token =>
    match Scanner__getChar fileSystem fuel s with
    | (s, none) => (s, none)
    | (s, some ch) =>
      let kind := Scanner__characterKind ch.1
      if kind = .letter then
        Scanner__getAmbiguousToken_loop fileSystem fuel s
          { kind := Scanner_TokenKind_identifier,
            representation := String_appendChar token.representation ch.1 }
      else if kind ≠ .digit ∧ kind ≠ .digitOrLetter then
        match Scanner__ungetChar s ch with
        | none => (s, none)
        | some s => (s, some token)
      else
        Scanner__getAmbiguousToken_loop fileSystem fuel s
          { token with representation := String_appendChar token.representation ch.1 }

/-- Routine `Scanner__getAmbiguousToken` (scanner.c 210-235). -/
def Scanner__getAmbiguousToken {W : Type} (fileSystem : String_Type → Option (List Char))
    (fuel : Nat) (s : Parser_Module W) : Parser_Module W × Option Scanner_Token :=
  Scanner__getAmbiguousToken_loop fileSystem fuel s
    { kind := Scanner_TokenKind_idOrNumber, representation := [] }

/-- Routine `Scanner__getOperator` (scanner.c 239-289); the warning about an
unknown operator cannot be raised for a character of kind operator. -/
def Scanner__getOperator {W : Type} (fileSystem : String_Type → Option (List Char))
    (fuel : Nat) (s : Parser_Module W) : Parser_Module W × Option Scanner_Token :=
  match Scanner__getChar fileSystem fuel s with
  | (s, none) => (s, none)
  | (s, some ch) =>
    let representation := String_appendChar [] ch.1
    if ch.1 = '<' ∨ ch.1 = '>' then
      match Scanner__getChar fileSystem fuel s with
      | (s, none) => (s, none)
      | (s, some nextChar) =>
        if nextChar.1 = ch.1 then
          (s, some { kind := Scanner_TokenKind_operator,
                     representation := String_appendChar representation nextChar.1 })
        else
          match Scanner__ungetChar s nextChar with
          | none => (s, none)
          | some s =>
            (s, some { kind := Scanner_TokenKind_other, representation := representation })
    else (s, some { kind := Scanner_TokenKind_operator, representation := representation })

/-- Routine `Scanner__makeTokenForChar` (scanner.c 293-302). -/
def Scanner__makeTokenForChar (ch : Char) (kind : Nat) : Scanner_Token :=
  { kind := kind, representation := String_appendChar [] ch }

/-- The loop of `Scanner_getNextToken` (scanner.c 459-505): the result is the
token and the place of its first character. -/
def Scanner_getNextToken_loop {W : Type} (fileSystem : String_Type → Option (List Char)) :
    Nat → Parser_Module W → Parser_Module W × Option (Scanner_Token × Parser_Place)
  | 0, s => (s, none)
  | fuel + 1, s =>
    match Scanner__getChar fileSystem fuel s with
    | (s, none) => (s, none)
    | (s, some ch) =>
      let withPlace (r : Parser_Module W × Option Scanner_Token) :
          Parser_Module W × Option (Scanner_Token × Parser_Place) :=
        (r.1, r.2.map (fun token => (token, ch.2)))
      match Scanner__characterKind ch.1 with
      | .whiteSpace => Scanner_getNextToken_loop fileSystem fuel s
      | .digit =>
        match Scanner__ungetChar s ch with
        | none => (s, none)
        | some s => withPlace (Scanner__getNumber fileSystem fuel s)
      | .letter =>
        match Scanner__ungetChar s ch with
        | none => (s, none)
        | some s => withPlace (Scanner__getIdentifier fileSystem fuel s)
      | .digitOrLetter =>
        match Scanner__ungetChar s ch with
        | none => (s, none)
        | some s => withPlace (Scanner__getAmbiguousToken fileSystem fuel s)
      | .operator =>
        match Scanner__ungetChar s ch with
        | none => (s, none)
        | some s => withPlace (Scanner__getOperator fileSystem fuel s)
      | .newline =>
        (s, some (Scanner__makeTokenForChar ch.1 Scanner_TokenKind_newline, ch.2))
      | .streamEnd =>
        (s, some (Scanner__makeTokenForChar ch.1 Scanner_TokenKind_streamEnd, ch.2))
      | .comment =>
        (s, some (Scanner__makeTokenForChar ch.1 Scanner_TokenKind_comment, ch.2))
      | .other =>
        (s, some (Scanner__makeTokenForChar ch.1 Scanner_TokenKind_other, ch.2))

/-- Routine `Scanner_getNextToken` (scanner.c 455-518) without the trace
output; the token that it returns is entered into the token log together with
the value of `Parser__options`. -/
def Scanner_getNextToken {W : Type} (fileSystem : String_Type → Option (List Char))
    (fuel : Nat) (s : Parser_Module W) : Parser_Module W × Option Scanner_Token :=
  match Scanner_getNextToken_loop fileSystem fuel s with
  | (s, none) => (s, none)
  | (s, some (token, place)) =>
    ({ s with tokenLog := s.tokenLog ++
         [{ place := place, token := token, options := s.Parser__options }] },
      some token)

/-- Routine `Scanner_redirectInput` (scanner.c 535-539): the pushback stack is
made empty. -/
def Scanner_redirectInput {W : Type} (s : Parser_Module W) : Parser_Module W :=
  { s with Scanner__pushbackStack := [] }

/-- Constant `Parser__State_inError` (parser.c). -/
def Parser__State_inError : Nat := 0
/-- Constant `Parser__State_done` (parser.c). -/
def Parser__State_done : Nat := 1
/-- Constant `Parser__State_atNewline` (parser.c). -/
def Parser__State_atNewline : Nat := 2
/-- Constant `Parser__State_firstState` (parser.c). -/
def Parser__State_firstState : Nat := 3

/-- Variable `Parser__TokenKindSet_newline` as set by `Parser_initialize`
(parser.c 1095). -/
def Parser__TokenKindSet_newline : Set_Type := Set_make Scanner_TokenKind_newline

/-- Type `Parser__StateTransitionProc` (parser.c 90-100) on the variables of
`Parser_Module`: the arguments are `isFirstPass`, the token, the state and
the set of expected token kinds, the result holds the new state and the new
set, or `none` when the program ends with a fatal error. -/
abbrev Parser__StateTransitionProc (W : Type) :=
  Bool → Scanner_Token → Nat → Set_Type → Parser_Module W →
    Parser_Module W × Option (Nat × Set_Type)

/-- Routine `Parser__doRadixStateTransition` (parser.c 528-578). -/
def Parser__doRadixStateTransition {W : Type} : Parser__StateTransitionProc W :=
  fun _isFirstPass token state expectedNextTokenKinds s =>
    let representation := token.representation
    if state = Parser__State_firstState then
      ({ s with command := representation },
        some (Parser__State_atNewline, Parser__TokenKindSet_newline))
    else if state = Parser__State_atNewline then
      let commandChar := String_getCharacter s.command 1
      let defaultBase :=
        if commandChar = 'X' then 16 else if commandChar = 'D' then 10 else 8
      let options := { s.Parser__options with defaultBase := defaultBase }
      let options :=
        if s.command.length > 1 then
          let endiannessChar := String_getCharacter s.command 2
          if endiannessChar = 'H' then { options with endianness := .bigEndian }
          else if endiannessChar = 'L' then { options with endianness := .littleEndian }
          else options
        else options
      ({ s with Parser__options := options }, some (Parser__State_done, expectedNextTokenKinds))
    else (s, some (state, expectedNextTokenKinds))

/-- The state transition procedures of parser.c other than
`Parser__doRadixStateTransition`, and `MapFile_writeSpecialComment`.  They
read `Parser__options` (in `Parser__evaluateNumber` and `Parser__makeWord`)
and `Parser__fileSequence` (in `Parser__markError` and for the file name) and
change variables outside of `Parser_Module` only, so each of them is a
function of the options, the file sequence, its arguments and the world. -/
structure Parser_TransitionProcs (W : Type) where
  doHeaderStateTransition : Parser_Options → Parser__FileSequence → Bool →
    Scanner_Token → Nat → Set_Type → W → Option (Nat × Set_Type × W)
  doModuleStateTransition : Parser_Options → Parser__FileSequence → Bool →
    Scanner_Token → Nat → Set_Type → W → Option (Nat × Set_Type × W)
  doAreaStateTransition : Parser_Options → Parser__FileSequence → Bool →
    Scanner_Token → Nat → Set_Type → W → Option (Nat × Set_Type × W)
  doSymbolStateTransition : Parser_Options → Parser__FileSequence → Bool →
    Scanner_Token → Nat → Set_Type → W → Option (Nat × Set_Type × W)
  doCodeLineStateTransition : Parser_Options → Parser__FileSequence → Bool →
    Scanner_Token → Nat → Set_Type → W → Option (Nat × Set_Type × W)
  doRelocLineStateTransition : Parser_Options → Parser__FileSequence → Bool →
    Scanner_Token → Nat → Set_Type → W → Option (Nat × Set_Type × W)
  doCompilerOptionsStateTransition : Parser_Options → Parser__FileSequence → Bool →
    Scanner_Token → Nat → Set_Type → W → Option (Nat × Set_Type × W)
  writeSpecialComment : List Char → W → W

/-- A state transition procedure of `Parser_TransitionProcs` as a
`Parser__StateTransitionProc`. -/
def Parser__worldProc {W : Type}
    (proc : Parser_Options → Parser__FileSequence → Bool → Scanner_Token → Nat →
      Set_Type → W → Option (Nat × Set_Type × W)) : Parser__StateTransitionProc W :=
  fun isFirstPass token state expectedNextTokenKinds s =>
    match proc s.Parser__options s.Parser__fileSequence isFirstPass token state
            expectedNextTokenKinds s.world with
    | none => (s, none)
    | some (state, expectedNextTokenKinds, world) =>
      ({ s with world := world }, some (state, expectedNextTokenKinds))

/-- Routine `Parser__ensureKind` (parser.c 779-792) without the message to
`stderr`. -/
def Parser__ensureKind (token : Scanner_Token) (allowedKindSet : Set_Type) : Bool :=
  Set_isElement allowedKindSet token.kind

/-- Routine `Parser__skipToNewline` (parser.c 1067-1075). -/
def Parser__skipToNewline {W : Type} (fileSystem : String_Type → Option (List Char)) :
    Nat → Parser_Module W → Parser_Module W × Option Scanner_Token
  | 0, s => (s, none)
  | fuel + 1, s =>
    match Scanner_getNextToken fileSystem fuel s with
    | (s, none) => (s, none)
    | (s, some token) =>
      if token.kind ≠ Scanner_TokenKind_newline ∧ token.kind ≠ Scanner_TokenKind_streamEnd
      then Parser__skipToNewline fileSystem fuel s
      else (s, some token)

/-- The loop of `Parser__executeFiniteStateAutomaton` (parser.c 828-844). -/
def Parser__executeFiniteStateAutomaton_loop {W : Type}
    (fileSystem : String_Type → Option (List Char)) (isFirstPass : Bool)
    (transitionProc : Parser__StateTransitionProc W) :
    Nat → Parser_Module W → Scanner_Token → Nat → Set_Type →
      Parser_Module W × Option Scanner_Token
  | 0, s, _, _, _ => (s, none)
  | fuel + 1, s, token, parserState, expectedNextTokenKinds =>
    if parserState ≠ Parser__State_done then
      match Scanner_getNextToken fileSystem fuel s with
      | (s, none) => (s, none)
      | (s, some token) =>
        let parserState :=
          if parserState ≠ Parser__State_inError then
            if !Parser__ensureKind token expectedNextTokenKinds
            then Parser__State_inError else parserState
          else parserState
        if parserState = Parser__State_inError then
          match Parser__skipToNewline fileSystem fuel s with
          | (s, none) => (s, none)
          | (s, some token) =>
            Parser__executeFiniteStateAutomaton_loop fileSystem isFirstPass transitionProc
              fuel s token Parser__State_done expectedNextTokenKinds
        else
          match transitionProc isFirstPass token parserState expectedNextTokenKinds s with
          | (s, none) => (s, none)
          | (s, some (parserState, expectedNextTokenKinds)) =>
            Parser__executeFiniteStateAutomaton_loop fileSystem isFirstPass transitionProc
              fuel s token parserState expectedNextTokenKinds
    else (s, some token)

/-- Routine `Parser__executeFiniteStateAutomaton` (parser.c 812-845); the
local variable `expectedNextTokenKinds` starts as the empty set. -/
def Parser__executeFiniteStateAutomaton {W : Type}
    (fileSystem : String_Type → Option (List Char)) (fuel : Nat) (isFirstPass : Bool)
    (token : Scanner_Token) (transitionProc : Parser__StateTransitionProc W)
    (s : Parser_Module W) : Parser_Module W × Option Scanner_Token :=
  match transitionProc isFirstPass token Parser__State_firstState 0 s with
  | (s, none) => (s, none)
  | (s, some (parserState, expectedNextTokenKinds)) =>
    Parser__executeFiniteStateAutomaton_loop fileSystem isFirstPass transitionProc fuel s
      token parserState expectedNextTokenKinds

/-- The `switch` of `Parser_parseObjectFiles` (parser.c 1278-1335): the state
transition procedure for a command character, `none` for the default case. -/
def Parser__selectProc {W : Type} (procs : Parser_TransitionProcs W)
    (commandCharacter : Char) : Option (Parser__StateTransitionProc W) :=
  if commandCharacter = 'X' ∨ commandCharacter = 'D' ∨ commandCharacter = 'Q'
  then some Parser__doRadixStateTransition
  else if commandCharacter = 'H' then some (Parser__worldProc procs.doHeaderStateTransition)
  else if commandCharacter = 'M' then some (Parser__worldProc procs.doModuleStateTransition)
  else if commandCharacter = 'A' then some (Parser__worldProc procs.doAreaStateTransition)
  else if commandCharacter = 'S' then some (Parser__worldProc procs.doSymbolStateTransition)
  else if commandCharacter = 'T' then some (Parser__worldProc procs.doCodeLineStateTransition)
  else if commandCharacter = 'R' ∨ commandCharacter = 'P'
  then some (Parser__worldProc procs.doRelocLineStateTransition)
  else if commandCharacter = 'O'
  then some (Parser__worldProc procs.doCompilerOptionsStateTransition)
  else none

/-- The loop of `Parser_parseObjectFiles` (parser.c 1258-1337) without the
messages to `stderr`; the result is `some ()` when the loop ends at the end
of the stream. -/
def Parser_parseObjectFiles_loop {W : Type} (procs : Parser_TransitionProcs W)
    (fileSystem : String_Type → Option (List Char)) (isFirstPass : Bool) :
    Nat → Parser_Module W → Parser_Module W × Option Unit
  | 0, s => (s, none)
  | fuel + 1, s =>
    match Scanner_getNextToken fileSystem fuel s with
    | (s, none) => (s, none)
    | (s, some token) =>
      if token.kind = Scanner_TokenKind_streamEnd then (s, some ())
      else if token.kind = Scanner_TokenKind_comment then
        let s :=
          if isFirstPass
          then { s with world :=
                   procs.writeSpecialComment s.Parser__fileSequence.currentLine s.world }
          else s
        match Parser__skipToNewline fileSystem fuel s with
        | (s, none) => (s, none)
        | (s, some _) => Parser_parseObjectFiles_loop procs fileSystem isFirstPass fuel s
      else if token.kind ≠ Scanner_TokenKind_identifier
                ∧ token.kind ≠ Scanner_TokenKind_idOrNumber then
        match Parser__skipToNewline fileSystem fuel s with
        | (s, none) => (s, none)
        | (s, some _) => Parser_parseObjectFiles_loop procs fileSystem isFirstPass fuel s
      else if token.representation.length > 0 then
        let commandCharacter := String_getCharacter token.representation 1
        match Parser__selectProc procs commandCharacter with
        | some transitionProc =>
          match Parser__executeFiniteStateAutomaton fileSystem fuel isFirstPass token
                  transitionProc s with
          | (s, none) => (s, none)
          | (s, some _) => Parser_parseObjectFiles_loop procs fileSystem isFirstPass fuel s
        | none =>
          match Parser__skipToNewline fileSystem fuel s with
          | (s, none) => (s, none)
          | (s, some _) => Parser_parseObjectFiles_loop procs fileSystem isFirstPass fuel s
      else Parser_parseObjectFiles_loop procs fileSystem isFirstPass fuel s

/-- Routine `Parser_parseObjectFiles` (parser.c 1245-1340). -/
def Parser_parseObjectFiles {W : Type} (procs : Parser_TransitionProcs W)
    (fileSystem : String_Type → Option (List Char)) (fuel : Nat) (isFirstPass : Bool)
    (fileNameList : List String_Type) (s : Parser_Module W) :
    Parser_Module W × Option Unit :=
  let s := Scanner_redirectInput s
  let s := { s with Parser__fileSequence :=
                      { s.Parser__fileSequence with nameList := fileNameList, index := 0,
                                                    count := fileNameList.length } }
  Parser_parseObjectFiles_loop procs fileSystem isFirstPass fuel s

/-- State transition procedures that leave the world as it is and end every
line in the error state: they stand for the procedures of the embedding
`Parser_TransitionProcs` in examples with radix lines and comment lines
only. -/
def parserExampleProcs : Parser_TransitionProcs Unit :=
  { doHeaderStateTransition := fun _ _ _ _ _ e w => some (Parser__State_inError, e, w),
    doModuleStateTransition := fun _ _ _ _ _ e w => some (Parser__State_inError, e, w),
    doAreaStateTransition := fun _ _ _ _ _ e w => some (Parser__State_inError, e, w),
    doSymbolStateTransition := fun _ _ _ _ _ e w => some (Parser__State_inError, e, w),
    doCodeLineStateTransition := fun _ _ _ _ _ e w => some (Parser__State_inError, e, w),
    doRelocLineStateTransition := fun _ _ _ _ _ e w => some (Parser__State_inError, e, w),
    doCompilerOptionsStateTransition :=
      fun _ _ _ _ _ e w => some (Parser__State_inError, e, w),
    writeSpecialComment := fun _ w => w }

/-- Two object files: "a.o" holds the radix line "XL", a comment and the
radix line "XH" without a newline at its end, "b.o" starts with an empty line
and holds the radix line "Q". -/
def parserExampleFiles (fileName : String_Type) : Option (List Char) :=
  if fileName = "a.o" then some "XL\n; text\nXH".data
  else if fileName = "b.o" then some "\nQ\n".data
  else none

/-- The variables of the parser after `Parser_initialize`, with the default
options of `Parser_initialize`. -/
def parserExampleStart : Parser_Module Unit :=
  { Parser__fileSequence :=
      { nameList := [], index := 0, count := 0, currentFile := [], currentFileName := "",
        currentLineIndex := 0, currentLine := [], column := 0, lineLength := 0 },
    Parser__options := { defaultBase := 10, endianness := .unknown },
    Parser__defaultOptions := { defaultBase := 10, endianness := .unknown },
    command := [],
    Scanner__pushbackStack := [],
    tokenLog := [],
    world := () }

/-- The reader has delivered the last character of a line of the open
file. -/
def Parser_atLineEnd (fs : Parser__FileSequence) : Prop :=
  fs.index ≠ 0 ∧ 1 ≤ fs.currentLineIndex ∧ fs.lineLength < fs.column

/-- The reader delivers no further character of the first line of the open
file: no file has been opened yet, the file is exhausted, a later line has
been read, or the first line is exhausted. -/
def Parser_readerIsPastFirstLine (fs : Parser__FileSequence) : Prop :=
  fs.index = 0 ∨ fs.lineLength = 0 ∨ 2 ≤ fs.currentLineIndex ∨
    (fs.currentLineIndex = 1 ∧ fs.lineLength < fs.column)

/-- The place is in the first line of a file. -/
def Parser_placeIsFirstLine (place : Parser_Place) : Prop := ∃ i, place = some (i, 1)

/-- The invariant of `Parser_parseObjectFiles` for the default options `d` and
the token log `log0` at its start: the default options stay, every token
entered into the log since the start that begins in the first line of a file
was returned under the default options, a line that is being read is the
line that `File_readLine` delivered, the pushback stack holds at most one
character, and the options differ from the default options only when no
character of a first line is still to come. -/
structure Parser_invariant {W : Type} (d : Parser_Options)
    (log0 : List Parser_TokenRecord) (s : Parser_Module W) : Prop where
  hdef : s.Parser__defaultOptions = d
  hlog : ∃ new, s.tokenLog = log0 ++ new ∧
    ∀ e ∈ new, Parser_placeIsFirstLine e.place → e.options = d
  hline : s.Parser__fileSequence.index = 0 ∨
    (s.Parser__fileSequence.lineLength ≠ 0 →
      s.Parser__fileSequence.column ≤ s.Parser__fileSequence.lineLength →
      s.Parser__fileSequence.lineLength = s.Parser__fileSequence.currentLine.length ∧
      '\n' ∉ s.Parser__fileSequence.currentLine.dropLast ∧
      1 ≤ s.Parser__fileSequence.currentLineIndex)
  hpush : s.Scanner__pushbackStack = [] ∨
    ∃ ch, s.Scanner__pushbackStack = [ch] ∧
      (ch.1 = '\n' → Parser_atLineEnd s.Parser__fileSequence)
  hopt : s.Parser__options = d ∨
    ((∀ p ∈ s.Scanner__pushbackStack, ¬ Parser_placeIsFirstLine p.2) ∧
      Parser_readerIsPastFirstLine s.Parser__fileSequence)

/-- The state transition procedure leaves the file sequence, the pushback
stack, the default options and the token log as they are. -/
def Parser_procKeepsReader {W : Type} (proc : Parser__StateTransitionProc W) : Prop :=
  ∀ (isFirstPass : Bool) (token : Scanner_Token) (state : Nat) (expected : Set_Type)
    (s : Parser_Module W),
    (proc isFirstPass token state expected s).1.Parser__fileSequence = s.Parser__fileSequence ∧
    (proc isFirstPass token state expected s).1.Scanner__pushbackStack
      = s.Scanner__pushbackStack ∧
    (proc isFirstPass token state expected s).1.Parser__defaultOptions
      = s.Parser__defaultOptions ∧
    (proc isFirstPass token state expected s).1.tokenLog = s.tokenLog

/-- The state transition procedure leaves `Parser__options` as it is. -/
def Parser_procKeepsOptions {W : Type} (proc : Parser__StateTransitionProc W) : Prop :=
  ∀ (isFirstPass : Bool) (token : Scanner_Token) (state : Nat) (expected : Set_Type)
    (s : Parser_Module W),
    (proc isFirstPass token state expected s).1.Parser__options = s.Parser__options

/-- The state transition procedure changes `Parser__options` in the state
`Parser__State_atNewline` only, and whenever it goes to that state it expects
a newline token. -/
def Parser_procIsRadixLike {W : Type} (proc : Parser__StateTransitionProc W) : Prop :=
  (∀ (isFirstPass : Bool) (token : Scanner_Token) (state : Nat) (expected : Set_Type)
      (s : Parser_Module W),
      (proc isFirstPass token state expected s).1.Parser__options = s.Parser__options ∨
        state = Parser__State_atNewline) ∧
  (∀ (isFirstPass : Bool) (token : Scanner_Token) (state : Nat) (expected : Set_Type)
      (s : Parser_Module W) (state' : Nat) (expected' : Set_Type),
      (proc isFirstPass token state expected s).2 = some (state', expected') →
      state' = Parser__State_atNewline → expected' = Parser__TokenKindSet_newline)

/-! ## gameboy.c : the bank analysis of segment names -/

/-- Library routine `strrchr` on the characters of a string without the
terminator: the 0-based offset of the last occurrence of `ch`; the terminator
itself is found when `ch` is NUL. -/
def STRING_strrchr : List Char → Char → Option Nat
  | [], ch => if ch = '\x00' then some 0 else none
  | c :: rest, ch =>
    match STRING_strrchr rest ch with
    | some k => some (k + 1)
    | none => if c = ch then some 0 else none

/-- Routine `String__convertPointerToIndex` (string.c 148-161) on the offset of
a pointer into the string; `none` stands for `String_notFound`. -/
def String__convertPointerToIndex (offset : Option Nat) : Option Nat :=
  match offset with
  | none => none
  | some k => some (k + 1)

/-- Routine `String_findCharacterFromEnd` (string.c 742-755): the 1-based
position of the last occurrence of `ch`, `none` for `String_notFound`. -/
def String_findCharacterFromEnd (st : String_Type) (ch : Char) : Option Nat :=
  String__convertPointerToIndex (STRING_strrchr st.data ch)

/-- Library routine `isdigit` in the "C" locale, on a character code. -/
def CType_isdigit (ch : Nat) : Bool :=
  48 ≤ ch && ch ≤ 57

/-- Routine `Gameboy__getBankFromSegmentName` (gameboy.c 571-590): the value of
the one character after the last underscore when it is a decimal digit,
otherwise 0. -/
def Gameboy__getBankFromSegmentName (segmentName : String_Type) : Target_Bank :=
  match String_findCharacterFromEnd segmentName '_' with
  | none => 0
  | some position =>
    if position + 1 ≤ segmentName.data.length then
      let digitPosition := position + 1
      let digitChar := String_getCharacter segmentName.data digitPosition
      if CType_isdigit digitChar.toNat then ((digitChar.toNat : Int) - ('0'.toNat : Int))
      else 0
    else 0

/-- The result of the bank analysis on the banked code area name of the bank
`b` below 256, as a closed expression. -/
def Gameboy_analysedBank (b : Nat) : Nat :=
  if b < 10 then b
  else if b < 16 then 0
  else if b / 16 < 10 then b / 16
  else 0


/-! ## gameboy.c : code sequences in the cartridge image -/

/-- Constant `Gameboy__defaultCartridgeValue` (gameboy.c 53). -/
def Gameboy__defaultCartridgeValue : Nat := 0xFF

/-- Constant `Gameboy__bankStartAddress` (gameboy.c 59). -/
def Gameboy__bankStartAddress : Nat := 0x4000

/-- Constant `Gameboy__maxRomAddress` (gameboy.c 61). -/
def Gameboy__maxRomAddress : Nat := 0x7FFF

/-- Variable `Gameboy__cartridgeSize` (gameboy.c 88): both assignments to it
(gameboy.c 702 and 906) give it the value of `Gameboy__romBankCount` times
`Gameboy__bankSize`. -/
def Gameboy__cartridgeSize (g : Gameboy_Module) : Nat :=
  g.Gameboy__romBankCount * Gameboy__bankSize

/-- The fatal errors of `Gameboy__processCodeSequence` (gameboy.c 497-528). -/
inductive Gameboy_FatalError where
  /-- Text "address overflow (addr %lx > %lx)" -/
  | addressOverflow
  /-- Text "bank overflow (bank %x > last bank %x)" -/
  | bankOverflow
  /-- Text "address underflow (addr %lx < %lx)" -/
  | addressUnderflow
  /-- Text "no bank switching possible when using only two ROM banks" -/
  | noBankSwitching
  /-- Text "cartridge size overflow (addr %lx >= %lx)" -/
  | cartridgeSizeOverflow
  deriving DecidableEq, Repr

/-- The effects of `Gameboy__processCodeSequence`: the module state, the
addresses of the warnings "possibly wrote twice at addr ..." in the order they
were raised, and the fatal error that ended the program, if any, with the
module state at that moment. -/
structure Gameboy_Run where
  g : Gameboy_Module
  warnings : List Nat
  fatalError : Option Gameboy_FatalError

/-- The `for` loop of `Gameboy__processCodeSequence` (gameboy.c 524-543);
`count` is the number of iterations left, `i` the loop variable, `address` a
`UINT16`.  An access to a bank without array ends the embedding with `none`. -/
def Gameboy__writeSequenceBytes (M : Nat) (byteList : List Nat) :
    Nat → Nat → Gameboy_Run → Nat → Option Gameboy_Run
  | 0, _, r, _ => some r
  | count + 1, i, r, address =>
    if Gameboy__cartridgeSize r.g ≤ address then
      some { r with fatalError := some Gameboy_FatalError.cartridgeSizeOverflow }
    else
      match Gameboy__getCartridgeByte r.g address with
      | none => none
      | some oldValue =>
        match Gameboy__setCartridgeByte r.g address (byteList.getD i 0) with
        | none => none
        | some g =>
          Gameboy__writeSequenceBytes M byteList count (i + 1)
            { r with
              g := g,
              warnings :=
                if oldValue ≠ Gameboy__defaultCartridgeValue then r.warnings ++ [address]
                else r.warnings }
            ((address + 1) % M)

/-- Routine `Gameboy__processCodeSequence` (gameboy.c 486-546); `address` is a
`UINT16` (an `unsigned int` with `M` values), the bank is an `int`.  The sum of
the address adjustment is taken in `unsigned long` and cut to `M` values by the
assignment. -/
def Gameboy__processCodeSequence (M : Nat) (g : Gameboy_Module)
    (sequence : CodeSequence_Type) : Option Gameboy_Run :=
  let r : Gameboy_Run := { g := g, warnings := [], fatalError := none }
  if 0 < sequence.length then
    let address := sequence.offsetAddress % M
    let romBank := sequence.romBank
    if Gameboy__maxRomAddress < address then
      some { r with fatalError := some Gameboy_FatalError.addressOverflow }
    else if (g.Gameboy__romBankCount : Int) ≤ romBank then
      some { r with fatalError := some Gameboy_FatalError.bankOverflow }
    else if 0 < romBank ∧ address < Gameboy__bankStartAddress then
      some { r with fatalError := some Gameboy_FatalError.addressUnderflow }
    else if g.Gameboy__romBankCount = 2 ∧ 0 < romBank then
      some { r with fatalError := some Gameboy_FatalError.noBankSwitching }
    else
      let address :=
        if 1 < romBank then (address + (romBank - 1).toNat * Gameboy__bankSize) % M
        else address
      Gameboy__writeSequenceBytes M sequence.byteList sequence.length 0 r address
  else some r

/-- The position in the cartridge image at which `Gameboy__processCodeSequence`
starts to write a sequence with the address `address` in the bank `romBank`. -/
def Gameboy_imageAddress (romBank : Target_Bank) (address : Nat) : Nat :=
  if 1 < romBank then address + (romBank - 1).toNat * Gameboy__bankSize else address

/-- A module state after `Gameboy__initialize` and the option `-yo4`: four ROM
banks filled with 0xFF. -/
def fourBankExample : Gameboy_Module :=
  { Gameboy__data := fun b =>
      if b < 4 then some (List.replicate Gameboy__bankSize 0xFF) else none,
    Gameboy__cartridgeTitle := [0, 0, 0, 0, 0, 0, 0, 0, 0, 0, 0, 0, 0, 0, 0, 0],
    Gameboy__romBankCount := 4,
    Gameboy__ramBankCount := 0,
    Gameboy__cartridgeType := 0,
    Gameboy__patchList := [] }

/-- A code sequence of four bytes at the address 0x7FFE of bank 1: its last
byte has the address 0x8001. -/
def crossingSequence : CodeSequence_Type :=
  { segment := none, romBank := 1, offsetAddress := 0x7FFE, length := 4,
    byteList := [1, 2, 3, 4] }

/-! ## string.c : numbers from text -/

/-- Library routine `strchr` on the characters of a string without the
terminator: the 0-based offset of the first occurrence of `ch`; the terminator
itself is found when `ch` is NUL. -/
def STRING_strchr : List Char → Char → Option Nat
  | [], ch => if ch = '\x00' then some 0 else none
  | c :: rest, ch =>
    if c = ch then some 0
    else
      match STRING_strchr rest ch with
      | some k => some (k + 1)
      | none => none

/-- Library routine `isspace` in the "C" locale. -/
def StdLib_isspace (ch : Char) : Bool :=
  ch = ' ' || ch = '\t' || ch = '\n' || ch = '\x0b' || ch = '\x0c' || ch = '\r'

/-- The value of a character as a digit of `strtol`: 0 to 9 for the decimal
digits, 10 to 35 for the letters in either case, 36 for every other
character. -/
def StdLib_digitValue (ch : Char) : Nat :=
  if '0' ≤ ch ∧ ch ≤ '9' then ch.toNat - '0'.toNat
  else if 'a' ≤ ch ∧ ch ≤ 'z' then ch.toNat - 'a'.toNat + 10
  else if 'A' ≤ ch ∧ ch ≤ 'Z' then ch.toNat - 'A'.toNat + 10
  else 36

/-- The digit loop of `strtol`: the value of the longest prefix of digits of
`base`, starting from the value `acc`, and the number of digits taken. -/
def StdLib_strtolDigits (base : Nat) : List Char → Nat → Nat → Nat × Nat
  | [], acc, count => (acc, count)
  | ch :: rest, acc, count =>
    if StdLib_digitValue ch < base
    then StdLib_strtolDigits base rest (acc * base + StdLib_digitValue ch) (count + 1)
    else (acc, count)

/-- Library routine `strtol` (ISO C 7.22.1.4) on the characters `nptr`: white
space, an optional sign, for the bases 0 and 16 an optional "0x" in front of a
hexadecimal digit, then the digits of the base.  The result is the value,
limited to the range of `long` (`L` is the number of values of `long`), and
whether `endptr` differs from `nptr`.  A base of 1 or above 36 is an error
that leaves `endptr` unset: `none`. -/
def StdLib_strtol (L : Nat) (nptr : List Char) (base : Nat) : Option (Int × Bool) :=
  if base = 1 ∨ 36 < base then none
  else
    let st := nptr.dropWhile StdLib_isspace
    let isNegative := decide (st.head? = some '-')
    let st := if st.head? = some '-' ∨ st.head? = some '+' then st.drop 1 else st
    let hasHexPrefix :=
      decide (st.head? = some '0') &&
      (decide (st.getD 1 ' ' = 'x') || decide (st.getD 1 ' ' = 'X')) &&
      decide (StdLib_digitValue (st.getD 2 ' ') < 16)
    let usedBase :=
      if base = 0 then
        if hasHexPrefix then 16 else if st.head? = some '0' then 8 else 10
      else base
    let st := if usedBase = 16 ∧ hasHexPrefix then st.drop 2 else st
    let converted := StdLib_strtolDigits usedBase st 0 0
    if converted.2 = 0 then some (0, false)
    else if isNegative then
      some (if L / 2 < converted.1 then -((L / 2 : Nat) : Int) else -(converted.1 : Int), true)
    else
      some (if L / 2 - 1 < converted.1 then ((L / 2 - 1 : Nat) : Int) else (converted.1 : Int),
        true)

/-- Routine `String_convertToLong` (string.c 657-696); the result is the value
stored in `result` and the returned flag.  `defaultBase` is a `UINT8`. -/
def String_convertToLong (L : Nat) (st : String_Type) (defaultBase : Nat) :
    Option (Int × Bool) :=
  let ptr := st.data
  let radixCharacters := "@oOqQxXhH".data
  let associatedBases := "88888GGGG".data
  let selected : Option Nat :=
    if ptr.head? = some '0' then
      let secondChar := ptr.getD 1 '\x00'
      if secondChar ≠ '\x00' then
        match STRING_strchr radixCharacters secondChar with
        | some k =>
          let baseChar := associatedBases.getD k '\x00'
          some (if baseChar = '2' then 2
            else if baseChar = '8' then 8
            else if baseChar = 'A' then 10 else 16)
        | none => none
      else none
    else none
  match selected with
  | some base => StdLib_strtol L (ptr.drop 2) base
  | none => StdLib_strtol L ptr (defaultBase % 256)

/-- Routine `Parser__evaluateNumber` (parser.c 794-806) for the default base
of `Parser__options`: the value returned and whether the warning "number
expected" is raised. -/
def Parser__evaluateNumber (L : Nat) (defaultBase : Nat) (st : String_Type) :
    Option (Int × Bool) :=
  match String_convertToLong L st defaultBase with
  | none => none
  | some (result, isOkay) => some (result, !isOkay)

/-! ## mapfile.c : the table of map files -/

/-- Constant `MapFile__maxCount` (mapfile.c 34). -/
def MapFile__maxCount : Nat := 10

/-- Type `MapFile__Descriptor` (mapfile.c 37-42) without the file; `routines`
stands for the pair of output routines. -/
structure MapFile__Descriptor where
  isInUse : Bool
  suffix : String_Type
  routines : Nat
  deriving DecidableEq, Repr

/-- The variables `MapFile__list` (read below `MapFile__maxCount` only) and
`MapFile__count` of mapfile.c. -/
structure MapFile_Module where
  MapFile__list : Nat → MapFile__Descriptor
  MapFile__count : Nat

/-- The state after `MapFile_initialize` (mapfile.c 380-395): no entry is in
use. -/
def MapFile_initialState : MapFile_Module :=
  { MapFile__list := fun _ => { isInUse := false, suffix := "", routines := 0 },
    MapFile__count := 0 }

/-- Routine `MapFile_registerForOutput` (mapfile.c 519-553): `none` is the
fatal error "too many map files open simultaneously"; the flag tells whether
the warning "ignored duplicate map file request for " is raised. -/
def MapFile_registerForOutput (m : MapFile_Module) (fileNameSuffix : String_Type)
    (routines : Nat) : Option (MapFile_Module × Bool) :=
  if MapFile__maxCount ≤ m.MapFile__count then none
  else
    let isFound := (List.range m.MapFile__count).any (fun i =>
      (m.MapFile__list i).isInUse && decide ((m.MapFile__list i).suffix = fileNameSuffix))
    if isFound then some (m, true)
    else
      some ({ MapFile__list := fun j =>
                if j = m.MapFile__count
                then { isInUse := true, suffix := fileNameSuffix, routines := routines }
                else m.MapFile__list j,
              MapFile__count := (m.MapFile__count + 1) % 256 }, false)

/-- The table of code output streams after ten calls of `CodeOutput_create`
with the Intel Hex encoder that opened their files: every entry is in use. -/
def fullStreamTableExample : CodeOutput_Module :=
  (List.range 10).foldl
    (fun m i =>
      (CodeOutput_create m (String.mk [Char.ofNat (97 + i)]) CodeOutput_writeIHXLine true
        helloSequence).1)
    ( CodeOutput_initialize false)

/-- The table of map files after ten calls of `MapFile_registerForOutput` with
different suffixes, none of which ends the program. -/
def fullMapFileTableExample : MapFile_Module :=
  (List.range 10).foldl
    (fun m i =>
      match MapFile_registerForOutput m (String.mk [Char.ofNat (97 + i)]) i with
      | none => m
      | some r => r.1)
    MapFile_initialState

/-! ## parser.c : the object graph after the first pass of a file -/

/-- The complete lines of an object file by their effect in the first pass:
the arguments are the values the state transition routine has collected when
it reaches the state `atNewline`.  Code, relocation, option and radix lines
and lines left in error change nothing in the object graph. -/
inductive Parser_FirstPassLine where
  /-- An `H` line (`Parser__doHeaderStateTransition`) -/
  | header (segmentCount symbolCount : Nat)
  /-- An `M` line (`Parser__doModuleStateTransition`) -/
  | moduleName (moduleName : String_Type)
  /-- An `A` line (`Parser__doAreaStateTransition`) -/
  | area (areaName : String_Type) (areaTotalSize : Nat) (areaAttributeSet : Set_Type)
  /-- An `S` line (`Parser__doSymbolStateTransition`) -/
  | symbol (symbolName : String_Type) (isDefinition : Bool) (symbolAddress : Nat)
  /-- Any other line -/
  | other
  deriving DecidableEq, Repr

/-- Whether the line is an `H` line. -/
def Parser_FirstPassLine.isHeader : Parser_FirstPassLine → Bool
  | .header _ _ => true
  | _ => false

/-- The area name and the size of an `A` line. -/
def Parser_FirstPassLine.areaOf : Parser_FirstPassLine → Option (String_Type × Nat)
  | .area areaName areaTotalSize _ => some (areaName, areaTotalSize)
  | _ => none

/-- The actions of the state `atNewline` in the first pass: `Module_make` and
`Area_makeAbsoluteSegment` (parser.c 449-460), `Module_setName` (parser.c
505-506), `Area_makeSegment` (parser.c 188-190) and `Symbol_make` (parser.c
765-766). -/
def Parser_firstPassLine (fileName : String_Type) (st : Linker) :
    Parser_FirstPassLine → Option Linker
  | .header segmentCount symbolCount =>
    Area_makeAbsoluteSegment (Module_make st fileName segmentCount symbolCount)
  | .moduleName moduleName => Module_setName st moduleName
  | .area areaName areaTotalSize areaAttributeSet =>
    Area_makeSegment st areaName areaTotalSize areaAttributeSet
  | .symbol symbolName isDefinition symbolAddress =>
    match Symbol_make st symbolName isDefinition symbolAddress with
    | none => none
    | some r => some r.1
  | .other => some st

/-- The first pass over the lines of one file. -/
def Parser_firstPass (fileName : String_Type) :
    Linker → List Parser_FirstPassLine → Option Linker
  | st, [] => some st
  | st, line :: rest =>
    match Parser_firstPassLine fileName st line with
    | none => none
    | some st => Parser_firstPass fileName st rest

/-- The area names and sizes of the `A` lines among `lines`, in order. -/
def Parser_areaLines (lines : List Parser_FirstPassLine) : List (String_Type × Nat) :=
  lines.filterMap Parser_FirstPassLine.areaOf

/-- The segment `segment` belongs to the module `module`, has the size
`totalSize` and has as parent an area with the name `areaName`. -/
def Area_segmentIsOf (st : Linker) (segment : Nat) (module : Nat) (areaName : String_Type)
    (totalSize : Nat) : Prop :=
  ∃ (seg : Area__SegmentRecord) (a : Nat) (ar : Area__Record),
    st.segmentHeap[segment]? = some seg ∧ seg.parentModule = some module ∧
    seg.totalSize = totalSize ∧ seg.parentArea = some a ∧
    st.Area__list[a]? = some ar ∧ ar.name = areaName

/-- Every segment record of `st` is in `st'` with the same parents and size,
and every area record of `st` is in `st'` with the same name. -/
def Linker_keepsSegments (st st' : Linker) : Prop :=
  (∀ (s : Nat) (seg : Area__SegmentRecord), st.segmentHeap[s]? = some seg →
    ∃ seg' : Area__SegmentRecord, st'.segmentHeap[s]? = some seg' ∧ seg'.parentArea = seg.parentArea ∧
      seg'.parentModule = seg.parentModule ∧ seg'.totalSize = seg.totalSize) ∧
  (∀ (a : Nat) (ar : Area__Record), st.Area__list[a]? = some ar →
    ∃ ar' : Area__Record, st'.Area__list[a]? = some ar' ∧ ar'.name = ar.name)

/-- The state `st'` keeps the segments and areas of `st`, has the same
current module, and every module record of `st` is in `st'` with the same
segment list. -/
def Linker_keepsGraph (st st' : Linker) : Prop :=
  Linker_keepsSegments st st' ∧
  st'.Module__currentModule = st.Module__currentModule ∧
  ∀ (i : Nat) (r : Module__Record), st.Module__list[i]? = some r →
    ∃ r' : Module__Record, st'.Module__list[i]? = some r' ∧ r'.segmentList = r.segmentList

/-- The state of the first pass after the header line of the module `module`
and the `A` lines `areas`: the module is the current one, and its segment list
holds a segment of ".ABS." followed by one segment per `A` line, in order. -/
structure Parser_firstPassInvariant (st : Linker) (module : Nat)
    (areas : List (String_Type × Nat)) : Prop where
  hcurrent : st.Module__currentModule = some module
  hlist : ∃ r s0 ss, st.Module__list[module]? = some r ∧ r.segmentList = s0 :: ss ∧
    Area_segmentIsOf st s0 module Area__absoluteAreaName 0 ∧
    ss.length = areas.length ∧
    ∀ (k s : Nat), ss[k]? = some s →
      ∃ x : String_Type × Nat, areas[k]? = some x ∧ Area_segmentIsOf st s module x.1 x.2

/-- An object file with the module "m.o": the header, the module name, two
symbols in the absolute segment, the area `_CODE` of size 0x20 with a symbol,
and the area `_DATA` of size 4. -/
def firstPassExample : List Parser_FirstPassLine :=
  [.header 2 3, .moduleName "m", .symbol ".__.ABS." true 0, .symbol "_ext" false 0,
   .area "_CODE" 0x20 0, .symbol "_main" true 0, .other, .area "_DATA" 4 0]

/-! ## banking.c : the relocation of the generic banked segments -/

/-- Routine `Area_lookup` (area.c 635-638): the first area with the name, or
`NULL`. -/
def Area_lookup (st : Linker) (areaName : String_Type) : Option Nat :=
  match List_lookupIndex (fun a => a.name == areaName) st.Area__list with
  | none => none
  | some (area, _) => some area

/-- Routine `Area_getAttributes` (area.c 460-471); the precondition check ends
the program for an invalid area. -/
def Area_getAttributes (st : Linker) (area : Option Nat) : Option Set_Type :=
  match area with
  | none => none
  | some a =>
    match st.Area__list[a]? with
    | none => none
    | some r => some r.attributes

/-- Routine `Area_getListOfSegments` (area.c 490-499). -/
def Area_getListOfSegments (st : Linker) (area : Option Nat) : Option (List Nat) :=
  match area with
  | none => none
  | some a =>
    match st.Area__list[a]? with
    | none => none
    | some r => some r.segmentList

/-- Routine `Area_clearListOfSegments` (area.c 661-670). -/
def Area_clearListOfSegments (st : Linker) (area : Option Nat) : Option Linker :=
  match area with
  | none => none
  | some a =>
    match st.Area__list[a]? with
    | none => none
    | some _ => some (st.updateArea a (fun r => { r with segmentList := [] }))

/-- Routine `Area_setSegmentArea` (area.c 771-783): the segment is appended to
the segment list of `area` and gets `area` as parent; the list of its former
parent area is not changed. -/
def Area_setSegmentArea (st : Linker) (segment : Option Nat) (area : Nat) : Option Linker :=
  match segment with
  | none => none
  | some s =>
    match st.segmentHeap[s]? with
    | none => none
    | some _ =>
      match st.Area__list[area]? with
      | none => none
      | some _ =>
        let st := st.updateArea area
          (fun r => { r with segmentList := r.segmentList ++ [s] })
        some (st.updateSegment s (fun r => { r with parentArea := some area }))

/-- The body of the loop of `Banking__relocateBankedSegments` (banking.c
227-237) for one segment. -/
def Banking__relocateSegment (M : Nat) (c : Banking_Configuration)
    (moduleNameToBankMap : Map_Type Int) (attributeSet : Set_Type) (st : Linker)
    (segment : Nat) : Option Linker :=
  match Area_getSegmentModule st (some segment) with
  | none => none
  | some segmentModule =>
    match Banking__getBank M moduleNameToBankMap st segmentModule with
    | none => none
    | some currentBank =>
      let bankedCodeAreaName := c.makeBankedCodeAreaName currentBank
      let made := Area_make st bankedCodeAreaName attributeSet
      Area_setSegmentArea made.1 (some segment) made.2

/-- The loop of `Banking__relocateBankedSegments` over the copy of the segment
list. -/
def Banking__relocateSegments (M : Nat) (c : Banking_Configuration)
    (moduleNameToBankMap : Map_Type Int) (attributeSet : Set_Type) :
    Linker → List Nat → Option Linker
  | st, [] => some st
  | st, segment :: rest =>
    match Banking__relocateSegment M c moduleNameToBankMap attributeSet st segment with
    | none => none
    | some st => Banking__relocateSegments M c moduleNameToBankMap attributeSet st rest

/-- Routine `Banking__relocateBankedSegments` (banking.c 201-244); the flag
tells whether the warning "no banked segments found for area %s" is raised. -/
def Banking__relocateBankedSegments (M : Nat) (c : Banking_Configuration)
    (moduleNameToBankMap : Map_Type Int) (st : Linker) : Option (Linker × Bool) :=
  match Area_lookup st c.genericBankedCodeAreaName with
  | none => some (st, true)
  | some genericBankedArea =>
    match Area_getAttributes st (some genericBankedArea) with
    | none => none
    | some attributeSet =>
      match Area_getListOfSegments st (some genericBankedArea) with
      | none => none
      | some segmentList =>
        match Banking__relocateSegments M c moduleNameToBankMap attributeSet st
            segmentList with
        | none => none
        | some st =>
          match Area_clearListOfSegments st (some genericBankedArea) with
          | none => none
          | some st => some (st, false)

/-- Routine `Banking__setBankForModuleName` (banking.c 248-257): the bank is
stored as an object under the name in upper case. -/
def Banking__setBankForModuleName (moduleNameToBankMap : Map_Type Int)
    (moduleName : String_Type) (bank : Int) : Map_Type Int :=
  Map_set moduleNameToBankMap (String_convertToUpperCase moduleName) bank

/-- The segment `segment` has been moved: its parent is an area that has the
banked code area name of the bank of its module and holds the segment in its
segment list. -/
def Banking_segmentIsMoved (M : Nat) (c : Banking_Configuration)
    (moduleNameToBankMap : Map_Type Int) (st : Linker) (segment : Nat) : Prop :=
  ∃ (seg : Area__SegmentRecord) (bank : Target_Bank) (a : Nat) (ar : Area__Record),
    st.segmentHeap[segment]? = some seg ∧
    Banking__getBank M moduleNameToBankMap st seg.parentModule = some bank ∧
    seg.parentArea = some a ∧ st.Area__list[a]? = some ar ∧
    ar.name = c.makeBankedCodeAreaName bank ∧ segment ∈ ar.segmentList

/-- The banked code area name for the bank of the module of the segment
`segment`, as the loop of `Banking__relocateBankedSegments` computes it. -/
def Banking_bankedAreaNameOf (M : Nat) (c : Banking_Configuration)
    (moduleNameToBankMap : Map_Type Int) (st : Linker) (segment : Nat) :
    Option String_Type :=
  match st.segmentHeap[segment]? with
  | none => none
  | some seg =>
    match Banking__getBank M moduleNameToBankMap st seg.parentModule with
    | none => none
    | some bank => some (c.makeBankedCodeAreaName bank)

/-- The state `st'` has the modules of `st`, every segment of `st` with the
same module, and every area of `st` with the same name and at least the
segments it has in `st`. -/
def Banking_keepsGraph (st st' : Linker) : Prop :=
  st'.Module__list = st.Module__list ∧
  st'.segmentHeap.length = st.segmentHeap.length ∧
  (∀ (s : Nat) (seg : Area__SegmentRecord), st.segmentHeap[s]? = some seg →
    ∃ seg' : Area__SegmentRecord, st'.segmentHeap[s]? = some seg' ∧
      seg'.parentModule = seg.parentModule) ∧
  (∀ (a : Nat) (ar : Area__Record), st.Area__list[a]? = some ar →
    ∃ ar' : Area__Record, st'.Area__list[a]? = some ar' ∧ ar'.name = ar.name ∧
      ∀ x ∈ ar.segmentList, x ∈ ar'.segmentList)

/-- A state after pass 1 of two object files with banked code: the modules
"M1" and "M2" have a code segment each in the generic area "_CODE_0". -/
def relocationExample : Linker :=
  { Area__list :=
      [{ name := ".ABS.", attributes := 3, startAddress := 0, totalSize := 0,
         segmentList := [0, 2] },
       { name := "_CODE_0", attributes := 0, startAddress := 0, totalSize := 0,
         segmentList := [1, 3] }],
    Area__absoluteArea := 0,
    segmentHeap :=
      [{ parentArea := some 0, parentModule := some 0, startAddress := 0,
         totalSize := 0, symbolList := [] },
       { parentArea := some 1, parentModule := some 0, startAddress := 0,
         totalSize := 16, symbolList := [] },
       { parentArea := some 0, parentModule := some 1, startAddress := 0,
         totalSize := 0, symbolList := [] },
       { parentArea := some 1, parentModule := some 1, startAddress := 0,
         totalSize := 32, symbolList := [] }],
    Area__currentSegment := some 3,
    Symbol__list := [],
    Symbol__indexByName := Map_make,
    Symbol__platformIsCaseSensitive := true,
    Module__list :=
      [{ name := "M1", segmentCount := 1, symbolCount := 0,
         associatedFileName := "m1.o", segmentList := [0, 1], symbolList := [] },
       { name := "M2", segmentCount := 1, symbolCount := 0,
         associatedFileName := "m2.o", segmentList := [2, 3], symbolList := [] }],
    Module__currentModule := some 1,
    warnings := [] }

/-- The map `Banking__moduleNameToBankMap` after a banking configuration file
that assigns the bank 0 to "M1" and the bank 2 to "M2". -/
def relocationExampleMap : Map_Type Int :=
  Banking__setBankForModuleName (Banking__setBankForModuleName Map_make "M1" 0) "M2" 2

/-! ## parser.c, gameboy.c : the relocation of a trampoline call -/

/-- The assignments of `Parser__doRelocLineStateTransition` (parser.c 654-687)
to its static record `relocation` for one entry of an `R` line: the kind from
the kind byte, the index from the index byte less the two address bytes of the
`T` line (a `UINT8`), and the value word.  `kind0` is the record before. -/
def Parser__makeRelocation (kind0 : CodeSequence_RelocationKind)
    (kindByte indexByte value : Nat) : CodeSequence_Relocation :=
  { kind := CodeSequence_makeKindFromInteger kind0 kindByte,
    index := (indexByte + 254) % 256,
    value := value }

/-- The state `bankingExample` with the code segment of module "M1" at the
address 0x4000: the symbols "f" and "h" of the current module "M0" have the
addresses 0x4000 and 0x4008. -/
def trampolineExample : Linker :=
  bankingExample.updateSegment 1 (fun r => { r with startAddress := 0x4000 })

/-! ## library.c : the rounds of `Library_resolveUndefinedSymbols` -/

/-- The test `token->operator != Scanner_Operator_assignment` on an operator
token: `Scanner__getOperator` (scanner.c 258-276) sets the field `operator`
from the first character of the token, `Scanner_Operator_assignment` for
`=`. -/
def Scanner_tokenIsAssignment (token : Scanner_Token) : Bool :=
  decide (token.representation.head? = some '=')

/-- The local variables of `Parser__setMappingFromLine` (parser.c 995-999)
together with the record of the calls of `setElementValueProc` made so far.
The states `State_atName` to `State_done` are 0 to 4. -/
structure Parser__MappingState where
  state : Nat
  lineIsBad : Bool
  elementName : List Char
  elementValue : Int
  calls : List (List Char × Int)
  deriving DecidableEq, Repr

/-- The body of the loop of `Parser__setMappingFromLine` (parser.c 1008-1056)
for one token; `L` is the number of values of `long`.  `String_convertToLong`
is called only when the tests before it in the disjunction are false. -/
def Parser__setMappingStep (L : Nat) (m : Parser__MappingState) (token : Scanner_Token) :
    Option Parser__MappingState :=
  let kind := token.kind
  let representation := token.representation
  if m.state = 0 then
    if kind = Scanner_TokenKind_streamEnd then some { m with state := 4 }
    else
      let lineIsBad := decide (kind ≠ Scanner_TokenKind_identifier
        ∧ kind ≠ Scanner_TokenKind_idOrNumber)
      some { m with
        lineIsBad := lineIsBad,
        elementName := if !lineIsBad then representation else m.elementName,
        state := m.state + 1 }
  else if m.state = 1 then
    some { m with
      lineIsBad := m.lineIsBad || decide (kind ≠ Scanner_TokenKind_operator)
        || !Scanner_tokenIsAssignment token,
      state := m.state + 1 }
  else if m.state = 2 then
    if m.lineIsBad || decide (kind ≠ Scanner_TokenKind_number
        ∧ kind ≠ Scanner_TokenKind_idOrNumber) then
      some { m with lineIsBad := true, state := m.state + 1 }
    else
      match String_convertToLong L (String.mk representation) 16 with
      | none => none
      | some converted =>
        some { m with
          lineIsBad := !converted.2, elementValue := converted.1, state := m.state + 1 }
  else if m.state = 3 then
    some { m with
      calls := if !m.lineIsBad then m.calls ++ [(m.elementName, m.elementValue)]
               else m.calls,
      state := 4 }
  else
    some { m with lineIsBad := m.lineIsBad || decide (kind ≠ Scanner_TokenKind_streamEnd) }

/-- The loop of `Parser__setMappingFromLine` over the token list. -/
def Parser__setMappingLoop (L : Nat) :
    Parser__MappingState → List Scanner_Token → Option Parser__MappingState
  | m, [] => some m
  | m, token :: rest =>
    match Parser__setMappingStep L m token with
    | none => none
    | some m => Parser__setMappingLoop L m rest

/-- Routine `Parser__setMappingFromLine` (parser.c 988-1063) on the token list
that `Scanner_makeTokenList` returns for the line: the result is the returned
flag and the calls of `setElementValueProc` in order. -/
def Parser__setMappingFromLine (L : Nat) (tokenList : List Scanner_Token) :
    Option (Bool × List (List Char × Int)) :=
  match Parser__setMappingLoop L
      { state := 0, lineIsBad := false, elementName := [], elementValue := 0, calls := [] }
      tokenList with
  | none => none
  | some m => some (!m.lineIsBad, m.calls)

/-- Routine `Parser_setMappingFromString` (parser.c 1364-1375): the calls of
`setElementValueProc` and whether the warning "bad definition: %s" is
raised. -/
def Parser_setMappingFromString (L : Nat) (tokenList : List Scanner_Token) :
    Option (List (List Char × Int) × Bool) :=
  match Parser__setMappingFromLine L tokenList with
  | none => none
  | some r => some (r.2, !r.1)

/-- The token list of the line "x=1 y z": an identifier, the operator `=`, a
number, two identifiers and the end of the stream. -/
def mappingExampleTokens : List Scanner_Token :=
  [{ kind := Scanner_TokenKind_identifier, representation := ['x'] },
   { kind := Scanner_TokenKind_operator, representation := ['='] },
   { kind := Scanner_TokenKind_number, representation := ['1'] },
   { kind := Scanner_TokenKind_identifier, representation := ['y'] },
   { kind := Scanner_TokenKind_identifier, representation := ['z'] },
   { kind := Scanner_TokenKind_streamEnd, representation := [Scanner_endOfStreamChar] }]

/-! ## scanner.c : pushing a token back -/

/-- The loop of `Scanner_ungetToken` (scanner.c 525-528): the characters of
`representation` at the positions `i`, ..., 1 are pushed back in this order,
each with no place in the input; a full pushback stack ends the program. -/
def Scanner_ungetToken_loop {W : Type} (representation : List Char) :
    Nat → Parser_Module W → Option (Parser_Module W)
  | 0, s => some s
  | i + 1, s =>
    match Scanner__ungetChar s (String_getCharacter representation (i + 1), none) with
    | none => none
    | some s => Scanner_ungetToken_loop representation i s

/-- Routine `Scanner_ungetToken` (scanner.c 521-529). -/
def Scanner_ungetToken {W : Type} (s : Parser_Module W) (token : Scanner_Token) :
    Option (Parser_Module W) :=
  Scanner_ungetToken_loop token.representation token.representation.length s

/-- The variables of the scanner and of the reader are in a state that the
program can reach: the pushback stack holds at most
`Scanner_pushbackStackSize` characters, and neither the stack nor the current
line, which are C strings and characters taken from them, hold the terminator
character. -/
def Scanner_stateIsValid {W : Type} (s : Parser_Module W) : Prop :=
  s.Scanner__pushbackStack.length ≤ Scanner_pushbackStackSize ∧
  (∀ c ∈ s.Scanner__pushbackStack, c.1 ≠ '\x00') ∧
  (∀ c ∈ s.Parser__fileSequence.currentLine, c ≠ '\x00')

/-- The state `s` with the pushback stack `stack`. -/
def Parser_Module.withStack {W : Type} (s : Parser_Module W)
    (stack : List (Char × Parser_Place)) : Parser_Module W :=
  { s with Scanner__pushbackStack := stack }

/-- The characters `cs` as entries of the pushback stack made by
`Scanner_ungetToken`. -/
def Scanner_pushedBack (cs : List Char) : List (Char × Parser_Place) :=
  cs.map (fun c => (c, none))

/-- The test of `Scanner__getIdentifier` for the end of an identifier. -/
@[reducible]
def Scanner_endsIdentifier (ch : Char) : Prop :=
  Scanner__characterKind ch ≠ .letter ∧ Scanner__characterKind ch ≠ .digitOrLetter ∧
    Scanner__characterKind ch ≠ .digit

/-- The test of `Scanner__getNumber` for the end of a number. -/
@[reducible]
def Scanner_endsNumber (ch : Char) : Prop :=
  Scanner__characterKind ch ≠ .digit ∧ Scanner__characterKind ch ≠ .digitOrLetter

/-- Scanning the characters of `token` from the top of the pushback stack
`stack` gives `token` and leaves `stack`, whatever the other variables
are. -/
def Scanner_replays {W : Type} (fileSystem : String_Type → Option (List Char))
    (token : Scanner_Token) (stack : List (Char × Parser_Place)) : Prop :=
  ∀ (s : Parser_Module W) (fuel : Nat),
    token.representation.length + 2 ≤ fuel →
    token.representation.length + stack.length ≤ Scanner_pushbackStackSize →
    Scanner_getNextToken_loop fileSystem fuel
        (s.withStack (Scanner_pushedBack token.representation ++ stack)) =
      (s.withStack stack, some (token, none))

/-- The kind of the token that `Scanner__getAmbiguousToken` returns for the
characters `cs` when it starts with the kind `kind`: an identifier as soon as
one character is a letter. -/
def Scanner_ambiguousKind (kind : Nat) (cs : List Char) : Nat :=
  if cs.any (fun c => decide (Scanner__characterKind c = .letter))
  then Scanner_TokenKind_identifier else kind

/-- The reader stands at the start of the line "0x1F+A" of the object file
"a.o", and nothing is pushed back. -/
def ungetExampleStart : Parser_Module Unit :=
  { parserExampleStart with
    Parser__fileSequence :=
      { nameList := ["a.o"], index := 1, count := 1, currentFile := [],
        currentFileName := "a.o", currentLineIndex := 1, currentLine := "0x1F+A\n".data,
        column := 1, lineLength := 7 } }

/-- The first token of the line of `ungetExampleStart`: the radix character is
stored in upper case. -/
def ungetExampleToken : Scanner_Token :=
  { kind := Scanner_TokenKind_number, representation := "0X1F".data }

/-- The variables after `Scanner_getNextToken` has scanned the first token of
the line of `ungetExampleStart`. -/
def ungetExampleScanned : Parser_Module Unit :=
  (Scanner_getNextToken parserExampleFiles 8 ungetExampleStart).1

/-! ## Theorems -/

set_option maxRecDepth 100000 in
/-- C1: for every byte value `b` (0..255), converting the relocation kind made
from `b` by `CodeSequence_makeKindFromInteger` back with
`CodeSequence_convertToInteger` returns `b`, whatever the out parameter held
before. -/
theorem C1_kind_roundtrip (kind : CodeSequence_RelocationKind) (b : Nat)
    (hb : b < 256) :
    CodeSequence_convertToInteger (CodeSequence_makeKindFromInteger kind b) = b := by
  have indep : CodeSequence_convertToInteger (CodeSequence_makeKindFromInteger kind b)
      = CodeSequence_convertToInteger (CodeSequence_makeKindFromInteger default b) := rfl
  have key : ∀ v, v < 256 →
      CodeSequence_convertToInteger (CodeSequence_makeKindFromInteger default v) = v := by
    decide
  rw [indep]
  exact key b hb

/-- Witness of `C1_kind_roundtrip` at the byte 0x8B. -/
theorem C1_kind_roundtrip_witness :
    CodeSequence_convertToInteger
      (CodeSequence_makeKindFromInteger default 0x8B) = 0x8B :=
  C1_kind_roundtrip default 0x8B (by decide)

/-! ### Projections of the state after an assignment -/

@[simp] theorem Linker.setAreaList_Area__list (st : Linker) v :
    (st.setAreaList v).Area__list = v := rfl

@[simp] theorem Linker.setAreaList_Area__absoluteArea (st : Linker) v :
    (st.setAreaList v).Area__absoluteArea = st.Area__absoluteArea := rfl

@[simp] theorem Linker.setAreaList_segmentHeap (st : Linker) v :
    (st.setAreaList v).segmentHeap = st.segmentHeap := rfl

@[simp] theorem Linker.setAreaList_Area__currentSegment (st : Linker) v :
    (st.setAreaList v).Area__currentSegment = st.Area__currentSegment := rfl

@[simp] theorem Linker.setAreaList_Symbol__list (st : Linker) v :
    (st.setAreaList v).Symbol__list = st.Symbol__list := rfl

@[simp] theorem Linker.setAreaList_Symbol__indexByName (st : Linker) v :
    (st.setAreaList v).Symbol__indexByName = st.Symbol__indexByName := rfl

@[simp] theorem Linker.setAreaList_Symbol__platformIsCaseSensitive (st : Linker) v :
    (st.setAreaList v).Symbol__platformIsCaseSensitive = st.Symbol__platformIsCaseSensitive := rfl

@[simp] theorem Linker.setAreaList_Module__list (st : Linker) v :
    (st.setAreaList v).Module__list = st.Module__list := rfl

@[simp] theorem Linker.setAreaList_Module__currentModule (st : Linker) v :
    (st.setAreaList v).Module__currentModule = st.Module__currentModule := rfl

@[simp] theorem Linker.setAreaList_warnings (st : Linker) v :
    (st.setAreaList v).warnings = st.warnings := rfl

@[simp] theorem Linker.setAbsoluteArea_Area__list (st : Linker) v :
    (st.setAbsoluteArea v).Area__list = st.Area__list := rfl

@[simp] theorem Linker.setAbsoluteArea_Area__absoluteArea (st : Linker) v :
    (st.setAbsoluteArea v).Area__absoluteArea = v := rfl

@[simp] theorem Linker.setAbsoluteArea_segmentHeap (st : Linker) v :
    (st.setAbsoluteArea v).segmentHeap = st.segmentHeap := rfl

@[simp] theorem Linker.setAbsoluteArea_Area__currentSegment (st : Linker) v :
    (st.setAbsoluteArea v).Area__currentSegment = st.Area__currentSegment := rfl

@[simp] theorem Linker.setAbsoluteArea_Symbol__list (st : Linker) v :
    (st.setAbsoluteArea v).Symbol__list = st.Symbol__list := rfl

@[simp] theorem Linker.setAbsoluteArea_Symbol__indexByName (st : Linker) v :
    (st.setAbsoluteArea v).Symbol__indexByName = st.Symbol__indexByName := rfl

@[simp] theorem Linker.setAbsoluteArea_Symbol__platformIsCaseSensitive (st : Linker) v :
    (st.setAbsoluteArea v).Symbol__platformIsCaseSensitive = st.Symbol__platformIsCaseSensitive := rfl

@[simp] theorem Linker.setAbsoluteArea_Module__list (st : Linker) v :
    (st.setAbsoluteArea v).Module__list = st.Module__list := rfl

@[simp] theorem Linker.setAbsoluteArea_Module__currentModule (st : Linker) v :
    (st.setAbsoluteArea v).Module__currentModule = st.Module__currentModule := rfl

@[simp] theorem Linker.setAbsoluteArea_warnings (st : Linker) v :
    (st.setAbsoluteArea v).warnings = st.warnings := rfl

@[simp] theorem Linker.setSegmentHeap_Area__list (st : Linker) v :
    (st.setSegmentHeap v).Area__list = st.Area__list := rfl

@[simp] theorem Linker.setSegmentHeap_Area__absoluteArea (st : Linker) v :
    (st.setSegmentHeap v).Area__absoluteArea = st.Area__absoluteArea := rfl

@[simp] theorem Linker.setSegmentHeap_segmentHeap (st : Linker) v :
    (st.setSegmentHeap v).segmentHeap = v := rfl

@[simp] theorem Linker.setSegmentHeap_Area__currentSegment (st : Linker) v :
    (st.setSegmentHeap v).Area__currentSegment = st.Area__currentSegment := rfl

@[simp] theorem Linker.setSegmentHeap_Symbol__list (st : Linker) v :
    (st.setSegmentHeap v).Symbol__list = st.Symbol__list := rfl

@[simp] theorem Linker.setSegmentHeap_Symbol__indexByName (st : Linker) v :
    (st.setSegmentHeap v).Symbol__indexByName = st.Symbol__indexByName := rfl

@[simp] theorem Linker.setSegmentHeap_Symbol__platformIsCaseSensitive (st : Linker) v :
    (st.setSegmentHeap v).Symbol__platformIsCaseSensitive = st.Symbol__platformIsCaseSensitive := rfl

@[simp] theorem Linker.setSegmentHeap_Module__list (st : Linker) v :
    (st.setSegmentHeap v).Module__list = st.Module__list := rfl

@[simp] theorem Linker.setSegmentHeap_Module__currentModule (st : Linker) v :
    (st.setSegmentHeap v).Module__currentModule = st.Module__currentModule := rfl

@[simp] theorem Linker.setSegmentHeap_warnings (st : Linker) v :
    (st.setSegmentHeap v).warnings = st.warnings := rfl

@[simp] theorem Linker.setCurrentSegment_Area__list (st : Linker) v :
    (st.setCurrentSegment v).Area__list = st.Area__list := rfl

@[simp] theorem Linker.setCurrentSegment_Area__absoluteArea (st : Linker) v :
    (st.setCurrentSegment v).Area__absoluteArea = st.Area__absoluteArea := rfl

@[simp] theorem Linker.setCurrentSegment_segmentHeap (st : Linker) v :
    (st.setCurrentSegment v).segmentHeap = st.segmentHeap := rfl

@[simp] theorem Linker.setCurrentSegment_Area__currentSegment (st : Linker) v :
    (st.setCurrentSegment v).Area__currentSegment = v := rfl

@[simp] theorem Linker.setCurrentSegment_Symbol__list (st : Linker) v :
    (st.setCurrentSegment v).Symbol__list = st.Symbol__list := rfl

@[simp] theorem Linker.setCurrentSegment_Symbol__indexByName (st : Linker) v :
    (st.setCurrentSegment v).Symbol__indexByName = st.Symbol__indexByName := rfl

@[simp] theorem Linker.setCurrentSegment_Symbol__platformIsCaseSensitive (st : Linker) v :
    (st.setCurrentSegment v).Symbol__platformIsCaseSensitive = st.Symbol__platformIsCaseSensitive := rfl

@[simp] theorem Linker.setCurrentSegment_Module__list (st : Linker) v :
    (st.setCurrentSegment v).Module__list = st.Module__list := rfl

@[simp] theorem Linker.setCurrentSegment_Module__currentModule (st : Linker) v :
    (st.setCurrentSegment v).Module__currentModule = st.Module__currentModule := rfl

@[simp] theorem Linker.setCurrentSegment_warnings (st : Linker) v :
    (st.setCurrentSegment v).warnings = st.warnings := rfl

@[simp] theorem Linker.setSymbolList_Area__list (st : Linker) v :
    (st.setSymbolList v).Area__list = st.Area__list := rfl

@[simp] theorem Linker.setSymbolList_Area__absoluteArea (st : Linker) v :
    (st.setSymbolList v).Area__absoluteArea = st.Area__absoluteArea := rfl

@[simp] theorem Linker.setSymbolList_segmentHeap (st : Linker) v :
    (st.setSymbolList v).segmentHeap = st.segmentHeap := rfl

@[simp] theorem Linker.setSymbolList_Area__currentSegment (st : Linker) v :
    (st.setSymbolList v).Area__currentSegment = st.Area__currentSegment := rfl

@[simp] theorem Linker.setSymbolList_Symbol__list (st : Linker) v :
    (st.setSymbolList v).Symbol__list = v := rfl

@[simp] theorem Linker.setSymbolList_Symbol__indexByName (st : Linker) v :
    (st.setSymbolList v).Symbol__indexByName = st.Symbol__indexByName := rfl

@[simp] theorem Linker.setSymbolList_Symbol__platformIsCaseSensitive (st : Linker) v :
    (st.setSymbolList v).Symbol__platformIsCaseSensitive = st.Symbol__platformIsCaseSensitive := rfl

@[simp] theorem Linker.setSymbolList_Module__list (st : Linker) v :
    (st.setSymbolList v).Module__list = st.Module__list := rfl

@[simp] theorem Linker.setSymbolList_Module__currentModule (st : Linker) v :
    (st.setSymbolList v).Module__currentModule = st.Module__currentModule := rfl

@[simp] theorem Linker.setSymbolList_warnings (st : Linker) v :
    (st.setSymbolList v).warnings = st.warnings := rfl

@[simp] theorem Linker.setSymbolIndex_Area__list (st : Linker) v :
    (st.setSymbolIndex v).Area__list = st.Area__list := rfl

@[simp] theorem Linker.setSymbolIndex_Area__absoluteArea (st : Linker) v :
    (st.setSymbolIndex v).Area__absoluteArea = st.Area__absoluteArea := rfl

@[simp] theorem Linker.setSymbolIndex_segmentHeap (st : Linker) v :
    (st.setSymbolIndex v).segmentHeap = st.segmentHeap := rfl

@[simp] theorem Linker.setSymbolIndex_Area__currentSegment (st : Linker) v :
    (st.setSymbolIndex v).Area__currentSegment = st.Area__currentSegment := rfl

@[simp] theorem Linker.setSymbolIndex_Symbol__list (st : Linker) v :
    (st.setSymbolIndex v).Symbol__list = st.Symbol__list := rfl

@[simp] theorem Linker.setSymbolIndex_Symbol__indexByName (st : Linker) v :
    (st.setSymbolIndex v).Symbol__indexByName = v := rfl

@[simp] theorem Linker.setSymbolIndex_Symbol__platformIsCaseSensitive (st : Linker) v :
    (st.setSymbolIndex v).Symbol__platformIsCaseSensitive = st.Symbol__platformIsCaseSensitive := rfl

@[simp] theorem Linker.setSymbolIndex_Module__list (st : Linker) v :
    (st.setSymbolIndex v).Module__list = st.Module__list := rfl

@[simp] theorem Linker.setSymbolIndex_Module__currentModule (st : Linker) v :
    (st.setSymbolIndex v).Module__currentModule = st.Module__currentModule := rfl

@[simp] theorem Linker.setSymbolIndex_warnings (st : Linker) v :
    (st.setSymbolIndex v).warnings = st.warnings := rfl

@[simp] theorem Linker.setModuleList_Area__list (st : Linker) v :
    (st.setModuleList v).Area__list = st.Area__list := rfl

@[simp] theorem Linker.setModuleList_Area__absoluteArea (st : Linker) v :
    (st.setModuleList v).Area__absoluteArea = st.Area__absoluteArea := rfl

@[simp] theorem Linker.setModuleList_segmentHeap (st : Linker) v :
    (st.setModuleList v).segmentHeap = st.segmentHeap := rfl

@[simp] theorem Linker.setModuleList_Area__currentSegment (st : Linker) v :
    (st.setModuleList v).Area__currentSegment = st.Area__currentSegment := rfl

@[simp] theorem Linker.setModuleList_Symbol__list (st : Linker) v :
    (st.setModuleList v).Symbol__list = st.Symbol__list := rfl

@[simp] theorem Linker.setModuleList_Symbol__indexByName (st : Linker) v :
    (st.setModuleList v).Symbol__indexByName = st.Symbol__indexByName := rfl

@[simp] theorem Linker.setModuleList_Symbol__platformIsCaseSensitive (st : Linker) v :
    (st.setModuleList v).Symbol__platformIsCaseSensitive = st.Symbol__platformIsCaseSensitive := rfl

@[simp] theorem Linker.setModuleList_Module__list (st : Linker) v :
    (st.setModuleList v).Module__list = v := rfl

@[simp] theorem Linker.setModuleList_Module__currentModule (st : Linker) v :
    (st.setModuleList v).Module__currentModule = st.Module__currentModule := rfl

@[simp] theorem Linker.setModuleList_warnings (st : Linker) v :
    (st.setModuleList v).warnings = st.warnings := rfl

@[simp] theorem Linker.setCurrentModule_Area__list (st : Linker) v :
    (st.setCurrentModule v).Area__list = st.Area__list := rfl

@[simp] theorem Linker.setCurrentModule_Area__absoluteArea (st : Linker) v :
    (st.setCurrentModule v).Area__absoluteArea = st.Area__absoluteArea := rfl

@[simp] theorem Linker.setCurrentModule_segmentHeap (st : Linker) v :
    (st.setCurrentModule v).segmentHeap = st.segmentHeap := rfl

@[simp] theorem Linker.setCurrentModule_Area__currentSegment (st : Linker) v :
    (st.setCurrentModule v).Area__currentSegment = st.Area__currentSegment := rfl

@[simp] theorem Linker.setCurrentModule_Symbol__list (st : Linker) v :
    (st.setCurrentModule v).Symbol__list = st.Symbol__list := rfl

@[simp] theorem Linker.setCurrentModule_Symbol__indexByName (st : Linker) v :
    (st.setCurrentModule v).Symbol__indexByName = st.Symbol__indexByName := rfl

@[simp] theorem Linker.setCurrentModule_Symbol__platformIsCaseSensitive (st : Linker) v :
    (st.setCurrentModule v).Symbol__platformIsCaseSensitive = st.Symbol__platformIsCaseSensitive := rfl

@[simp] theorem Linker.setCurrentModule_Module__list (st : Linker) v :
    (st.setCurrentModule v).Module__list = st.Module__list := rfl

@[simp] theorem Linker.setCurrentModule_Module__currentModule (st : Linker) v :
    (st.setCurrentModule v).Module__currentModule = v := rfl

@[simp] theorem Linker.setCurrentModule_warnings (st : Linker) v :
    (st.setCurrentModule v).warnings = st.warnings := rfl

@[simp] theorem Error_raiseWarning_Area__list (st : Linker) (w : Warning) :
    (Error_raiseWarning st w).Area__list = st.Area__list := rfl

@[simp] theorem Error_raiseWarning_Area__absoluteArea (st : Linker) (w : Warning) :
    (Error_raiseWarning st w).Area__absoluteArea = st.Area__absoluteArea := rfl

@[simp] theorem Error_raiseWarning_segmentHeap (st : Linker) (w : Warning) :
    (Error_raiseWarning st w).segmentHeap = st.segmentHeap := rfl

@[simp] theorem Error_raiseWarning_Area__currentSegment (st : Linker) (w : Warning) :
    (Error_raiseWarning st w).Area__currentSegment = st.Area__currentSegment := rfl

@[simp] theorem Error_raiseWarning_Symbol__list (st : Linker) (w : Warning) :
    (Error_raiseWarning st w).Symbol__list = st.Symbol__list := rfl

@[simp] theorem Error_raiseWarning_Symbol__indexByName (st : Linker) (w : Warning) :
    (Error_raiseWarning st w).Symbol__indexByName = st.Symbol__indexByName := rfl

@[simp] theorem Error_raiseWarning_Symbol__platformIsCaseSensitive (st : Linker) (w : Warning) :
    (Error_raiseWarning st w).Symbol__platformIsCaseSensitive = st.Symbol__platformIsCaseSensitive := rfl

@[simp] theorem Error_raiseWarning_Module__list (st : Linker) (w : Warning) :
    (Error_raiseWarning st w).Module__list = st.Module__list := rfl

@[simp] theorem Error_raiseWarning_Module__currentModule (st : Linker) (w : Warning) :
    (Error_raiseWarning st w).Module__currentModule = st.Module__currentModule := rfl

@[simp] theorem Error_raiseWarning_warnings (st : Linker) (w : Warning) :
    (Error_raiseWarning st w).warnings = st.warnings ++ [w] := rfl

@[simp] theorem Linker.updateArea_Area__list (st : Linker) i f :
    (st.updateArea i f).Area__list = heapUpdate st.Area__list i f := rfl

@[simp] theorem Linker.updateArea_Area__absoluteArea (st : Linker) i f :
    (st.updateArea i f).Area__absoluteArea = st.Area__absoluteArea := rfl

@[simp] theorem Linker.updateArea_segmentHeap (st : Linker) i f :
    (st.updateArea i f).segmentHeap = st.segmentHeap := rfl

@[simp] theorem Linker.updateArea_Area__currentSegment (st : Linker) i f :
    (st.updateArea i f).Area__currentSegment = st.Area__currentSegment := rfl

@[simp] theorem Linker.updateArea_Symbol__list (st : Linker) i f :
    (st.updateArea i f).Symbol__list = st.Symbol__list := rfl

@[simp] theorem Linker.updateArea_Symbol__indexByName (st : Linker) i f :
    (st.updateArea i f).Symbol__indexByName = st.Symbol__indexByName := rfl

@[simp] theorem Linker.updateArea_Symbol__platformIsCaseSensitive (st : Linker) i f :
    (st.updateArea i f).Symbol__platformIsCaseSensitive = st.Symbol__platformIsCaseSensitive := rfl

@[simp] theorem Linker.updateArea_Module__list (st : Linker) i f :
    (st.updateArea i f).Module__list = st.Module__list := rfl

@[simp] theorem Linker.updateArea_Module__currentModule (st : Linker) i f :
    (st.updateArea i f).Module__currentModule = st.Module__currentModule := rfl

@[simp] theorem Linker.updateArea_warnings (st : Linker) i f :
    (st.updateArea i f).warnings = st.warnings := rfl

@[simp] theorem Linker.updateSegment_Area__list (st : Linker) i f :
    (st.updateSegment i f).Area__list = st.Area__list := rfl

@[simp] theorem Linker.updateSegment_Area__absoluteArea (st : Linker) i f :
    (st.updateSegment i f).Area__absoluteArea = st.Area__absoluteArea := rfl

@[simp] theorem Linker.updateSegment_segmentHeap (st : Linker) i f :
    (st.updateSegment i f).segmentHeap = heapUpdate st.segmentHeap i f := rfl

@[simp] theorem Linker.updateSegment_Area__currentSegment (st : Linker) i f :
    (st.updateSegment i f).Area__currentSegment = st.Area__currentSegment := rfl

@[simp] theorem Linker.updateSegment_Symbol__list (st : Linker) i f :
    (st.updateSegment i f).Symbol__list = st.Symbol__list := rfl

@[simp] theorem Linker.updateSegment_Symbol__indexByName (st : Linker) i f :
    (st.updateSegment i f).Symbol__indexByName = st.Symbol__indexByName := rfl

@[simp] theorem Linker.updateSegment_Symbol__platformIsCaseSensitive (st : Linker) i f :
    (st.updateSegment i f).Symbol__platformIsCaseSensitive = st.Symbol__platformIsCaseSensitive := rfl

@[simp] theorem Linker.updateSegment_Module__list (st : Linker) i f :
    (st.updateSegment i f).Module__list = st.Module__list := rfl

@[simp] theorem Linker.updateSegment_Module__currentModule (st : Linker) i f :
    (st.updateSegment i f).Module__currentModule = st.Module__currentModule := rfl

@[simp] theorem Linker.updateSegment_warnings (st : Linker) i f :
    (st.updateSegment i f).warnings = st.warnings := rfl

@[simp] theorem Linker.updateSymbol_Area__list (st : Linker) i f :
    (st.updateSymbol i f).Area__list = st.Area__list := rfl

@[simp] theorem Linker.updateSymbol_Area__absoluteArea (st : Linker) i f :
    (st.updateSymbol i f).Area__absoluteArea = st.Area__absoluteArea := rfl

@[simp] theorem Linker.updateSymbol_segmentHeap (st : Linker) i f :
    (st.updateSymbol i f).segmentHeap = st.segmentHeap := rfl

@[simp] theorem Linker.updateSymbol_Area__currentSegment (st : Linker) i f :
    (st.updateSymbol i f).Area__currentSegment = st.Area__currentSegment := rfl

@[simp] theorem Linker.updateSymbol_Symbol__list (st : Linker) i f :
    (st.updateSymbol i f).Symbol__list = heapUpdate st.Symbol__list i f := rfl

@[simp] theorem Linker.updateSymbol_Symbol__indexByName (st : Linker) i f :
    (st.updateSymbol i f).Symbol__indexByName = st.Symbol__indexByName := rfl

@[simp] theorem Linker.updateSymbol_Symbol__platformIsCaseSensitive (st : Linker) i f :
    (st.updateSymbol i f).Symbol__platformIsCaseSensitive = st.Symbol__platformIsCaseSensitive := rfl

@[simp] theorem Linker.updateSymbol_Module__list (st : Linker) i f :
    (st.updateSymbol i f).Module__list = st.Module__list := rfl

@[simp] theorem Linker.updateSymbol_Module__currentModule (st : Linker) i f :
    (st.updateSymbol i f).Module__currentModule = st.Module__currentModule := rfl

@[simp] theorem Linker.updateSymbol_warnings (st : Linker) i f :
    (st.updateSymbol i f).warnings = st.warnings := rfl

@[simp] theorem Linker.updateModule_Area__list (st : Linker) i f :
    (st.updateModule i f).Area__list = st.Area__list := rfl

@[simp] theorem Linker.updateModule_Area__absoluteArea (st : Linker) i f :
    (st.updateModule i f).Area__absoluteArea = st.Area__absoluteArea := rfl

@[simp] theorem Linker.updateModule_segmentHeap (st : Linker) i f :
    (st.updateModule i f).segmentHeap = st.segmentHeap := rfl

@[simp] theorem Linker.updateModule_Area__currentSegment (st : Linker) i f :
    (st.updateModule i f).Area__currentSegment = st.Area__currentSegment := rfl

@[simp] theorem Linker.updateModule_Symbol__list (st : Linker) i f :
    (st.updateModule i f).Symbol__list = st.Symbol__list := rfl

@[simp] theorem Linker.updateModule_Symbol__indexByName (st : Linker) i f :
    (st.updateModule i f).Symbol__indexByName = st.Symbol__indexByName := rfl

@[simp] theorem Linker.updateModule_Symbol__platformIsCaseSensitive (st : Linker) i f :
    (st.updateModule i f).Symbol__platformIsCaseSensitive = st.Symbol__platformIsCaseSensitive := rfl

@[simp] theorem Linker.updateModule_Module__list (st : Linker) i f :
    (st.updateModule i f).Module__list = heapUpdate st.Module__list i f := rfl

@[simp] theorem Linker.updateModule_Module__currentModule (st : Linker) i f :
    (st.updateModule i f).Module__currentModule = st.Module__currentModule := rfl

@[simp] theorem Linker.updateModule_warnings (st : Linker) i f :
    (st.updateModule i f).warnings = st.warnings := rfl

/-! ### Heaps -/

theorem segmentSize_set (heap : List Area__SegmentRecord) (s t a : Nat)
    (r : Area__SegmentRecord) (h : heap[s]? = some r) :
    segmentSize (heap.set s { r with startAddress := a }) t = segmentSize heap t := by
  unfold segmentSize
  rw [List.getElem?_set]
  by_cases hst : s = t
  · subst hst
    have hlt : s < heap.length := by
      rcases List.getElem?_eq_some.mp h with ⟨hl, _⟩
      exact hl
    simp [hlt, h]
  · simp [hst]

theorem map_segmentSize_set (heap : List Area__SegmentRecord) (s a : Nat)
    (r : Area__SegmentRecord) (h : heap[s]? = some r) (ids : List Nat) :
    ids.map (segmentSize (heap.set s { r with startAddress := a }))
      = ids.map (segmentSize heap) := by
  apply List.map_congr_left
  intro t _
  exact segmentSize_set heap s t a r h

theorem linkLoop_concat (M : Nat) :
    ∀ (ids : List Nat) (address size : Nat) (heap : List Area__SegmentRecord),
      address < M → size < M →
      (∀ s ∈ ids, s < heap.length) → ids.Nodup →
      ∃ heap', Area__linkSegmentsLoop M false ids address size heap
          = some (heap', (size + (ids.map (segmentSize heap)).sum) % M) ∧
        heap'.length = heap.length ∧
        (∀ s, s ∉ ids → heap'[s]? = heap[s]?) ∧
        (∀ i s, ids[i]? = some s →
           heap'[s]? = (heap[s]?).map (fun (r : Area__SegmentRecord) => { r with startAddress :=
             (address + ((ids.take i).map (segmentSize heap)).sum) % M })) := by
  intro ids
  induction ids with
  | nil =>
    intro address size heap _ hs _ _
    refine ⟨heap, ?_, rfl, fun _ _ => rfl, ?_⟩
    · simp [Area__linkSegmentsLoop, Nat.mod_eq_of_lt hs]
    · intro i s h
      simp at h
  | cons s rest ih =>
    intro address size heap ha hs hvalid hnodup
    have hslt : s < heap.length := hvalid s (List.mem_cons_self _ _)
    obtain ⟨r, hr⟩ : ∃ r, heap[s]? = some r := ⟨heap[s], List.getElem?_eq_getElem hslt⟩
    have hMpos : 0 < M := Nat.lt_of_le_of_lt (Nat.zero_le _) ha
    have hnd := List.nodup_cons.mp hnodup
    obtain ⟨heap', hloop, hlen, hframe, hpos⟩ :=
      ih ((address + r.totalSize) % M) ((size + r.totalSize) % M)
        (heap.set s { r with startAddress := address })
        (Nat.mod_lt _ hMpos) (Nat.mod_lt _ hMpos)
        (by
          intro t ht
          rw [List.length_set]
          exact hvalid t (List.mem_cons_of_mem _ ht))
        hnd.2
    have hsize : segmentSize heap s = r.totalSize := by
      simp [segmentSize, hr]
    refine ⟨heap', ?_, ?_, ?_, ?_⟩
    · simp only [Area__linkSegmentsLoop, hr]
      simp only [Bool.not_false, if_true]
      rw [hloop, map_segmentSize_set heap s address r hr]
      simp only [List.map_cons, List.sum_cons, hsize]
      rw [Nat.mod_add_mod, Nat.add_assoc]
    · rw [hlen, List.length_set]
    · intro t ht
      have hts : t ≠ s := fun h => ht (h ▸ List.mem_cons_self _ _)
      have htr : t ∉ rest := fun h => ht (List.mem_cons_of_mem _ h)
      rw [hframe t htr, List.getElem?_set_ne (Ne.symm hts)]
    · intro i t hit
      cases i with
      | zero =>
        simp at hit
        subst hit
        rw [hframe s hnd.1, List.getElem?_set_self hslt, hr]
        simp [Nat.mod_eq_of_lt ha]
      | succ k =>
        simp at hit
        have htr : t ∈ rest := by
          rcases List.getElem?_eq_some.mp hit with ⟨hk, hk'⟩
          exact hk' ▸ List.getElem_mem hk
        have hts : s ≠ t := fun h => hnd.1 (h ▸ htr)
        rw [hpos k t hit, List.getElem?_set_ne hts,
          map_segmentSize_set heap s address r hr]
        simp only [List.take_succ_cons, List.map_cons, List.sum_cons, hsize]
        rw [Nat.mod_add_mod, Nat.add_assoc]

theorem heapUpdate_length {α : Type} (heap : List α) (i : Nat) (f : α → α) :
    (heapUpdate heap i f).length = heap.length := by
  unfold heapUpdate
  split <;> simp

theorem getElem?_heapUpdate {α : Type} (heap : List α) (i j : Nat) (f : α → α) :
    (heapUpdate heap i f)[j]? = if i = j then (heap[j]?).map f else heap[j]? := by
  unfold heapUpdate
  by_cases hij : i = j
  · subst hij
    cases hx : heap[i]? with
    | none => simp [hx]
    | some x =>
      have hlt : i < heap.length := (List.getElem?_eq_some.mp hx).1
      simp [hx, List.getElem?_set_self hlt]
  · cases hx : heap[i]? with
    | none => simp [hij]
    | some x => simp [hij, List.getElem?_set_ne hij]

theorem getElem?_heapUpdate_self {α : Type} (heap : List α) (i : Nat) (f : α → α)
    (x : α) (h : heap[i]? = some x) : (heapUpdate heap i f)[i]? = some (f x) := by
  simp [getElem?_heapUpdate, h]

theorem getElem?_heapUpdate_ne {α : Type} (heap : List α) (i j : Nat) (f : α → α)
    (h : i ≠ j) : (heapUpdate heap i f)[j]? = heap[j]? := by
  simp [getElem?_heapUpdate, h]

theorem linkLoop_overlay (M : Nat) :
    ∀ (ids : List Nat) (address size : Nat) (heap : List Area__SegmentRecord),
      (∀ s ∈ ids, s < heap.length) →
      ∃ heap', Area__linkSegmentsLoop M true ids address size heap
          = some (heap', (ids.map (segmentSize heap)).foldl max size) ∧
        heap'.length = heap.length ∧
        (∀ s, s ∉ ids → heap'[s]? = heap[s]?) ∧
        (∀ s, s ∈ ids →
           heap'[s]? = (heap[s]?).map
             (fun (r : Area__SegmentRecord) => { r with startAddress := address })) := by
  intro ids
  induction ids with
  | nil =>
    intro address size heap _
    exact ⟨heap, by simp [Area__linkSegmentsLoop], rfl, fun _ _ => rfl,
      fun s hs => absurd hs (List.not_mem_nil s)⟩
  | cons s rest ih =>
    intro address size heap hvalid
    have hslt : s < heap.length := hvalid s (List.mem_cons_self _ _)
    obtain ⟨r, hr⟩ : ∃ r, heap[s]? = some r := ⟨heap[s], List.getElem?_eq_getElem hslt⟩
    have hsize : segmentSize heap s = r.totalSize := by
      simp [segmentSize, hr]
    obtain ⟨heap', hloop, hlen, hframe, hpos⟩ :=
      ih address (max size r.totalSize)
        (heap.set s { r with startAddress := address })
        (by
          intro t ht
          rw [List.length_set]
          exact hvalid t (List.mem_cons_of_mem _ ht))
    have hframe' : ∀ t, t ≠ s →
        (heap.set s { r with startAddress := address })[t]? = heap[t]? :=
      fun t hts => List.getElem?_set_ne (Ne.symm hts)
    have hself : (heap.set s { r with startAddress := address })[s]?
        = some { r with startAddress := address } := List.getElem?_set_self hslt
    refine ⟨heap', ?_, ?_, ?_, ?_⟩
    · simp only [Area__linkSegmentsLoop, hr]
      simp only [Bool.not_true, Bool.false_eq_true, if_false]
      rw [map_segmentSize_set heap s address r hr] at hloop
      simp only [List.map_cons, List.foldl_cons, hsize]
      by_cases hgt : r.totalSize > size
      · have hmax : max size r.totalSize = r.totalSize := max_eq_right (Nat.le_of_lt hgt)
        rw [if_pos hgt, hmax]
        rw [hmax] at hloop
        exact hloop
      · have hmax : max size r.totalSize = size := max_eq_left (Nat.le_of_not_gt hgt)
        rw [if_neg hgt, hmax]
        rw [hmax] at hloop
        exact hloop
    · rw [hlen, List.length_set]
    · intro t ht
      have hts : t ≠ s := fun h => ht (h ▸ List.mem_cons_self _ _)
      have htr : t ∉ rest := fun h => ht (List.mem_cons_of_mem _ h)
      rw [hframe t htr, hframe' t hts]
    · intro t ht
      by_cases htr : t ∈ rest
      · rw [hpos t htr]
        by_cases hts : t = s
        · subst hts
          rw [hself, hr]
          rfl
        · rw [hframe' t hts]
      · have hts : t = s := by
          rcases List.mem_cons.mp ht with h | h
          · exact h
          · exact absurd h htr
        subst hts
        rw [hframe t htr, hself, hr]
        rfl

theorem Error_raiseWarning_ite_segmentHeap (c : Bool) (st : Linker) (w : Warning) :
    (if c then Error_raiseWarning st w else st).segmentHeap = st.segmentHeap := by
  cases c <;> rfl

theorem Error_raiseWarning_ite_areas (c : Bool) (st : Linker) (w : Warning) :
    (if c then Error_raiseWarning st w else st).Area__list = st.Area__list := by
  cases c <;> rfl

/-- C2: for an area without the attribute `hasOverlayedSegments` (its segment
list holding distinct valid segment pointers, its start address a
`Target_Address` value below the word modulus `M`), `Area__linkSegments`
returns; afterwards the area's `totalSize` is the sum of the segments'
`totalSize`, and the i-th segment's `startAddress` is the area's
`startAddress` plus the sum of the `totalSize` of the segments before it, both
in `Target_Address` arithmetic (modulo `M`); segment sizes, the area's start
address and its segment list are unchanged. -/
theorem C2_concatenated_layout (M : Nat) (st : Linker) (area : Nat)
    (r : Area__Record) (harea : st.Area__list[area]? = some r)
    (hcon : Set_isElement r.attributes Area_Attribute_hasOverlayedSegments = false)
    (hM : r.startAddress < M)
    (hvalid : ∀ s ∈ r.segmentList, s < st.segmentHeap.length)
    (hnodup : r.segmentList.Nodup) :
    ∃ st' r', Area__linkSegments M st area = some st' ∧
      st'.Area__list[area]? = some r' ∧
      r'.startAddress = r.startAddress ∧ r'.segmentList = r.segmentList ∧
      r'.totalSize = (r.segmentList.map (segmentSize st.segmentHeap)).sum % M ∧
      ∀ i s, r.segmentList[i]? = some s →
        ∃ seg', st'.segmentHeap[s]? = some seg' ∧
          seg'.totalSize = segmentSize st.segmentHeap s ∧
          seg'.startAddress =
            (r.startAddress
              + ((r.segmentList.take i).map (segmentSize st.segmentHeap)).sum) % M := by
  have hMpos : 0 < M := Nat.lt_of_le_of_lt (Nat.zero_le _) hM
  obtain ⟨heap', hloop, _, _, hpos⟩ :=
    linkLoop_concat M r.segmentList r.startAddress 0 st.segmentHeap hM hMpos hvalid hnodup
  simp only [Area__linkSegments, harea, hcon, Error_raiseWarning_ite_segmentHeap, hloop]
  refine ⟨_, { r with totalSize := (0 + (r.segmentList.map (segmentSize st.segmentHeap)).sum) % M },
    rfl, ?_, rfl, rfl, by simp, ?_⟩
  · simp only [Error_raiseWarning_ite_areas, Linker.updateArea_Area__list, Linker.setSegmentHeap_Area__list]
    exact getElem?_heapUpdate_self _ _ _ _ harea
  · intro i s his
    have hslt : s < st.segmentHeap.length := by
      rcases List.getElem?_eq_some.mp his with ⟨hk, hk'⟩
      exact hvalid s (hk' ▸ List.getElem_mem hk)
    have hs : st.segmentHeap[s]? = some st.segmentHeap[s] := List.getElem?_eq_getElem hslt
    refine ⟨{ st.segmentHeap[s] with startAddress := (r.startAddress
              + ((r.segmentList.take i).map (segmentSize st.segmentHeap)).sum) % M }, ?_, ?_, rfl⟩
    · simp only [Error_raiseWarning_ite_segmentHeap, Linker.updateArea_segmentHeap, Linker.setSegmentHeap_segmentHeap]
      rw [hpos i s his, hs]
      rfl
    · simp [segmentSize, hs]

theorem foldl_max_ge_init (l : List Nat) (a : Nat) : a ≤ l.foldl max a := by
  induction l generalizing a with
  | nil => exact Nat.le_refl a
  | cons x rest ih =>
    exact Nat.le_trans (Nat.le_max_left a x) (ih (max a x))

theorem foldl_max_ge_mem (l : List Nat) (a x : Nat) (hx : x ∈ l) :
    x ≤ l.foldl max a := by
  induction l generalizing a with
  | nil => exact absurd hx (List.not_mem_nil x)
  | cons y rest ih =>
    rcases List.mem_cons.mp hx with h | h
    · subst h
      exact Nat.le_trans (Nat.le_max_right a x) (foldl_max_ge_init rest (max a x))
    · exact ih (max a y) h

theorem foldl_max_attained (l : List Nat) (a : Nat) :
    l.foldl max a = a ∨ l.foldl max a ∈ l := by
  induction l generalizing a with
  | nil => exact Or.inl rfl
  | cons y rest ih =>
    rcases ih (max a y) with h | h
    · rcases Nat.le_total a y with hay | hya
      · right
        simp only [List.foldl_cons]
        rw [h, max_eq_right hay]
        exact List.mem_cons_self _ _
      · left
        simp only [List.foldl_cons]
        rw [h, max_eq_left hya]
    · exact Or.inr (List.mem_cons_of_mem _ h)

/-- Witness of `C2_concatenated_layout` in the state `layoutExample`: area
"CODE" at 0x100 with segments of sizes 0x10 and 0x20. -/
theorem C2_concatenated_layout_witness :
    ∃ st' r', Area__linkSegments 65536 layoutExample 1 = some st' ∧
      st'.Area__list[1]? = some r' ∧
      r'.startAddress = 0x100 ∧ r'.segmentList = [1, 2] ∧
      r'.totalSize = ([1, 2].map (segmentSize layoutExample.segmentHeap)).sum % 65536 ∧
      ∀ i s, [1, 2][i]? = some s →
        ∃ seg', st'.segmentHeap[s]? = some seg' ∧
          seg'.totalSize = segmentSize layoutExample.segmentHeap s ∧
          seg'.startAddress =
            (0x100 + (([1, 2].take i).map
              (segmentSize layoutExample.segmentHeap)).sum) % 65536 :=
  C2_concatenated_layout 65536 layoutExample 1
    { name := "CODE", attributes := 0, startAddress := 0x100, totalSize := 0,
      segmentList := [1, 2] }
    rfl (by decide) (by decide) (by decide) (by decide)

/-- C3: for an area with the attribute `hasOverlayedSegments` (its segment
list holding valid segment pointers), `Area__linkSegments` returns; afterwards
every segment of the area has the area's `startAddress` as its `startAddress`,
and the area's `totalSize` is the maximum of the segments' `totalSize`: it is
at least every segment size, is 0 for an empty segment list and is the size of
one of the segments otherwise; segment sizes, the area's start address and
its segment list are unchanged. -/
theorem C3_overlayed_layout (M : Nat) (st : Linker) (area : Nat)
    (r : Area__Record) (harea : st.Area__list[area]? = some r)
    (hovl : Set_isElement r.attributes Area_Attribute_hasOverlayedSegments = true)
    (hvalid : ∀ s ∈ r.segmentList, s < st.segmentHeap.length) :
    ∃ st' r', Area__linkSegments M st area = some st' ∧
      st'.Area__list[area]? = some r' ∧
      r'.startAddress = r.startAddress ∧ r'.segmentList = r.segmentList ∧
      r'.totalSize = (r.segmentList.map (segmentSize st.segmentHeap)).foldl max 0 ∧
      (∀ s ∈ r.segmentList, segmentSize st.segmentHeap s ≤ r'.totalSize) ∧
      (r.segmentList = [] → r'.totalSize = 0) ∧
      (r.segmentList ≠ [] →
        ∃ s ∈ r.segmentList, segmentSize st.segmentHeap s = r'.totalSize) ∧
      ∀ s ∈ r.segmentList,
        ∃ seg', st'.segmentHeap[s]? = some seg' ∧
          seg'.totalSize = segmentSize st.segmentHeap s ∧
          seg'.startAddress = r.startAddress := by
  obtain ⟨heap', hloop, _, _, hpos⟩ :=
    linkLoop_overlay M r.segmentList r.startAddress 0 st.segmentHeap hvalid
  simp only [Area__linkSegments, harea, hovl, Error_raiseWarning_ite_segmentHeap, hloop]
  refine ⟨_, { r with totalSize :=
      (r.segmentList.map (segmentSize st.segmentHeap)).foldl max 0 },
    rfl, ?_, rfl, rfl, rfl, ?_, ?_, ?_, ?_⟩
  · simp only [Error_raiseWarning_ite_areas, Linker.updateArea_Area__list, Linker.setSegmentHeap_Area__list]
    exact getElem?_heapUpdate_self _ _ _ _ harea
  · intro s hs
    exact foldl_max_ge_mem _ 0 _ (List.mem_map_of_mem _ hs)
  · intro hnil
    simp [hnil]
  · intro hne
    rcases foldl_max_attained (r.segmentList.map (segmentSize st.segmentHeap)) 0 with h | h
    · obtain ⟨s, rest, hsr⟩ := List.exists_cons_of_ne_nil hne
      refine ⟨s, by rw [hsr]; exact List.mem_cons_self _ _, ?_⟩
      have hle : segmentSize st.segmentHeap s
          ≤ (r.segmentList.map (segmentSize st.segmentHeap)).foldl max 0 :=
        foldl_max_ge_mem _ 0 _
          (List.mem_map_of_mem _ (by rw [hsr]; exact List.mem_cons_self _ _))
      show segmentSize st.segmentHeap s
          = (r.segmentList.map (segmentSize st.segmentHeap)).foldl max 0
      omega
    · obtain ⟨s, hs, hsz⟩ := List.mem_map.mp h
      exact ⟨s, hs, hsz⟩
  · intro s hs
    have hslt : s < st.segmentHeap.length := hvalid s hs
    have hsome : st.segmentHeap[s]? = some st.segmentHeap[s] :=
      List.getElem?_eq_getElem hslt
    refine ⟨{ st.segmentHeap[s] with startAddress := r.startAddress }, ?_, ?_, rfl⟩
    · simp only [Error_raiseWarning_ite_segmentHeap, Linker.updateArea_segmentHeap, Linker.setSegmentHeap_segmentHeap]
      rw [hpos s hs, hsome]
      rfl
    · simp [segmentSize, hsome]

/-- Witness of `C3_overlayed_layout` in the state `layoutExample`: the
overlayed area "OVR" at 0x200 with segments of sizes 8 and 5. -/
theorem C3_overlayed_layout_witness :
    ∃ st' r', Area__linkSegments 65536 layoutExample 2 = some st' ∧
      st'.Area__list[2]? = some r' ∧
      r'.startAddress = 0x200 ∧ r'.segmentList = [3, 4] ∧
      r'.totalSize = ([3, 4].map (segmentSize layoutExample.segmentHeap)).foldl max 0 ∧
      (∀ s ∈ [3, 4], segmentSize layoutExample.segmentHeap s ≤ r'.totalSize) ∧
      (([3, 4] : List Nat) = [] → r'.totalSize = 0) ∧
      (([3, 4] : List Nat) ≠ [] →
        ∃ s ∈ [3, 4], segmentSize layoutExample.segmentHeap s = r'.totalSize) ∧
      ∀ s ∈ [3, 4],
        ∃ seg', st'.segmentHeap[s]? = some seg' ∧
          seg'.totalSize = segmentSize layoutExample.segmentHeap s ∧
          seg'.startAddress = 0x200 :=
  C3_overlayed_layout 65536 layoutExample 2
    { name := "OVR", attributes := 2, startAddress := 0x200, totalSize := 0,
      segmentList := [3, 4] }
    rfl (by decide) (by decide)

theorem List_lookupIndex_append_new {α : Type} (hasKey : α → Bool) (l : List α) (x : α)
    (hnone : List_lookupIndex hasKey l = none) (hx : hasKey x = true) :
    List_lookupIndex hasKey (l ++ [x]) = some (l.length, x) := by
  induction l with
  | nil => simp [List_lookupIndex, hx]
  | cons y rest ih =>
    simp only [List_lookupIndex] at hnone
    by_cases hy : hasKey y = true
    · simp [hy] at hnone
    · simp only [hy, Bool.false_eq_true, if_false] at hnone
      cases hrest : List_lookupIndex hasKey rest with
      | some p => simp [hrest] at hnone
      | none =>
        show List_lookupIndex hasKey (y :: (rest ++ [x])) = _
        simp only [List_lookupIndex, hy, Bool.false_eq_true, if_false, ih hrest,
          List.length_cons]

/-- Counterexample to C5 as stated: in the initial state the predefined area
".ABS." exists with the attributes `isAbsolute` and `hasOverlayedSegments`;
two calls `Area_make(".ABS.", 0)` with the same empty attribute set leave the
area with its predefined attributes (bit mask 3, not the empty set), and the
second call raises the "Conflicting flags" warning although its attribute set
equals that of the first call. -/
theorem C5_counterexample :
    let first := Area_make (Linker_initialState true) ".ABS." 0
    let second := Area_make first.1 ".ABS." 0
    (second.1.Area__list[second.2]?).map (fun r => r.attributes) = some 3 ∧
    second.1.warnings = first.1.warnings ++ [Warning.conflictingFlags ".ABS."] := by
  decide

/-- C5 (amended): for every area name `n` under which no area exists yet and
attribute sets `A` and `B`, after `Area_make(n, A)` followed by
`Area_make(n, B)` the area named `n` has attribute set `A`, both calls return
the same area, and the second call raises the "Conflicting flags" warning if
and only if `B` differs from `A` (it raises nothing else). -/
theorem C5_attribute_merge (st : Linker) (n : String_Type) (A B : Set_Type)
    (hfresh : List_lookupIndex (fun a => a.name == n) st.Area__list = none) :
    let first := Area_make st n A
    let second := Area_make first.1 n B
    first.2 = second.2 ∧
    (∃ r, List_lookupIndex (fun a => a.name == n) second.1.Area__list
            = some (second.2, r) ∧
          second.1.Area__list[second.2]? = some r ∧
          r.name = n ∧ r.attributes = A) ∧
    (B ≠ A → second.1.warnings = first.1.warnings ++ [Warning.conflictingFlags n]) ∧
    (B = A → second.1.warnings = first.1.warnings) := by
  intro first second
  let rec0 : Area__Record :=
    { name := n, attributes := A, startAddress := 0, totalSize := 0, segmentList := [] }
  have hfirst : first = (st.setAreaList (st.Area__list ++ [rec0]),
      st.Area__list.length) := by
    show Area_make st n A = _
    simp only [Area_make, hfresh, Area__init]
  have hlook : List_lookupIndex (fun (a : Area__Record) => a.name == n)
      (st.Area__list ++ [rec0]) = some (st.Area__list.length, rec0) :=
    List_lookupIndex_append_new (fun (a : Area__Record) => a.name == n)
      st.Area__list rec0 hfresh (by simp [rec0])
  have hget : (st.Area__list ++ [rec0])[st.Area__list.length]? = some rec0 := by
    simp
  have hsecond : second = if (B != A) = true
      then (Error_raiseWarning first.1 (.conflictingFlags n), st.Area__list.length)
      else (first.1, st.Area__list.length) := by
    show Area_make first.1 n B = _
    rw [hfirst]
    simp only [Area_make, Linker.setAreaList_Area__list, hlook]
  by_cases hBA : B = A
  · have hne : (B != A) = false := by simpa using hBA
    rw [hne] at hsecond
    simp only [Bool.false_eq_true, if_false] at hsecond
    rw [hsecond]
    refine ⟨by rw [hfirst], ⟨rec0, ?_, ?_, rfl, rfl⟩, fun h => absurd hBA h, fun _ => rfl⟩
    · rw [hfirst]; exact hlook
    · rw [hfirst]; exact hget
  · have hne : (B != A) = true := by simpa using hBA
    rw [hne] at hsecond
    simp only [if_true] at hsecond
    rw [hsecond]
    refine ⟨by rw [hfirst], ⟨rec0, ?_, ?_, rfl, rfl⟩, fun _ => rfl, fun h => absurd h hBA⟩
    · rw [hfirst]; exact hlook
    · rw [hfirst]; exact hget

/-- Witness of `C5_attribute_merge`: the area "CODE" is made twice in the
initial state, first with the empty attribute set, then with `isAbsolute`. -/
theorem C5_attribute_merge_witness :
    let first := Area_make (Linker_initialState true) "CODE" 0
    let second := Area_make first.1 "CODE" 1
    first.2 = second.2 ∧
    (∃ r, List_lookupIndex (fun a => a.name == "CODE") second.1.Area__list
            = some (second.2, r) ∧
          second.1.Area__list[second.2]? = some r ∧
          r.name = "CODE" ∧ r.attributes = 0) ∧
    ((1 : Nat) ≠ 0 →
      second.1.warnings = first.1.warnings ++ [Warning.conflictingFlags "CODE"]) ∧
    ((1 : Nat) = 0 → second.1.warnings = first.1.warnings) :=
  C5_attribute_merge (Linker_initialState true) "CODE" 0 1 (by decide)

/-! ### Sets -/

theorem Set_isElement_eq_testBit (s : Set_Type) (e : Nat) :
    Set_isElement s e = s.testBit e := by
  unfold Set_isElement Set_make
  rw [Nat.one_shiftLeft, Nat.land_comm, Nat.and_two_pow]
  cases h : s.testBit e
  · simp
  · simp [Nat.pos_iff_ne_zero.mp (Nat.two_pow_pos e)]

theorem Set_isElement_exclude (s : Set_Type) (e i : Nat) :
    Set_isElement (Set_exclude s e) i = (Set_isElement s i && !decide (e = i)) := by
  simp only [Set_isElement_eq_testBit, Set_exclude, Nat.one_shiftLeft, Nat.testBit_xor,
    Nat.testBit_and, Nat.testBit_two_pow]
  cases s.testBit i <;> cases decide (e = i) <;> rfl

theorem Set_isElement_include (s : Set_Type) (e i : Nat) :
    Set_isElement (Set_include s e) i = (Set_isElement s i || decide (e = i)) := by
  simp only [Set_isElement_eq_testBit, Set_include, Nat.one_shiftLeft, Nat.testBit_or,
    Nat.testBit_two_pow]

/-! ### Maps -/

theorem Map__bucketLookup_set_self {V : Type} (key : String_Type) (value : V)
    (b : List (String_Type × V)) :
    Map__bucketLookup key (Map__bucketSet key value b) = some value := by
  induction b with
  | nil => simp [Map__bucketSet, Map__bucketLookup]
  | cons p rest ih =>
    obtain ⟨k, v⟩ := p
    by_cases hk : key = k
    · simp [Map__bucketSet, Map__bucketLookup, hk]
    · simp [Map__bucketSet, Map__bucketLookup, hk, ih]

theorem Map__bucketLookup_set_other {V : Type} (key key' : String_Type) (value : V)
    (b : List (String_Type × V)) (h : key' ≠ key) :
    Map__bucketLookup key' (Map__bucketSet key value b) = Map__bucketLookup key' b := by
  induction b with
  | nil => simp [Map__bucketSet, Map__bucketLookup, h]
  | cons p rest ih =>
    obtain ⟨k, v⟩ := p
    by_cases hk : key = k
    · subst hk
      simp [Map__bucketSet, Map__bucketLookup, h]
    · by_cases hk' : key' = k
      · simp [Map__bucketSet, Map__bucketLookup, hk, hk']
      · simp [Map__bucketSet, Map__bucketLookup, hk, hk', ih]

theorem Map_lookup_set_self {V : Type} (map : Map_Type V) (key : String_Type) (value : V) :
    Map_lookup (Map_set map key value) key = some value := by
  simp [Map_lookup, Map_set, Map__bucketLookup_set_self]

theorem Map_lookup_set_other {V : Type} (map : Map_Type V) (key key' : String_Type)
    (value : V) (h : key' ≠ key) :
    Map_lookup (Map_set map key value) key' = Map_lookup map key' := by
  unfold Map_lookup Map_set
  by_cases hh : Map__hashValue key' = Map__hashValue key
  · simp [hh, Map__bucketLookup_set_other key key' value _ h]
  · simp [hh]

theorem Symbol_lookup_eq (st : Linker) (N : String_Type) :
    Symbol_lookup st N
      = Map_lookup st.Symbol__indexByName (Symbol__normalizedName st N) := by
  unfold Symbol_lookup Symbol__lookup
  cases h : Map_lookup st.Symbol__indexByName (Symbol__normalizedName st N) <;> simp [h]

theorem updateSymbol_getElem? (st : Linker) (i j : Nat)
    (f : Symbol__Record → Symbol__Record) :
    (st.updateSymbol i f).Symbol__list[j]?
      = if i = j then (st.Symbol__list[j]?).map f else st.Symbol__list[j]? := by
  simp only [Linker.updateSymbol_Symbol__list, getElem?_heapUpdate]

theorem Symbol__splitSwap_spec (st : Linker) (passed fresh : Nat)
    (oldName newName : String_Type) (segment : Option Nat) (a b : Symbol__Record)
    (ha : st.Symbol__list[passed]? = some a) (hb : st.Symbol__list[fresh]? = some b)
    (hne : passed ≠ fresh) :
    ∃ st', Symbol__splitSwap st passed fresh oldName newName segment = some st' ∧
      st'.Symbol__list[passed]? = some { a with name := newName } ∧
      st'.Symbol__list[fresh]? =
        some { name := oldName, definingSegment := segment, attributes := a.attributes,
               startAddress := a.startAddress } ∧
      st'.Symbol__indexByName
        = Map_set (Map_set st.Symbol__indexByName newName passed) oldName fresh ∧
      st'.Symbol__platformIsCaseSensitive = st.Symbol__platformIsCaseSensitive ∧
      st'.segmentHeap = st.segmentHeap ∧ st'.Module__list = st.Module__list := by
  have hne' : fresh ≠ passed := Ne.symm hne
  simp only [Symbol__splitSwap, updateSymbol_getElem?, ha, hb, hne, hne', if_true, if_false,
    Option.map_some']
  refine ⟨_, rfl, ?_, ?_, ?_, ?_, ?_, ?_⟩
  · simp only [updateSymbol_getElem?, ha, hb, hne, hne', if_true, if_false, Option.map_some',
      Linker.setSymbolIndex_Symbol__list]
  · simp only [updateSymbol_getElem?, ha, hb, hne, hne', if_true, if_false, Option.map_some',
      Linker.setSymbolIndex_Symbol__list]
  · simp
  · simp
  · simp
  · simp

theorem Symbol__splitFlags_spec (st : Linker) (passed fresh : Nat)
    (a b : Symbol__Record)
    (ha : st.Symbol__list[passed]? = some a) (hb : st.Symbol__list[fresh]? = some b)
    (hne : passed ≠ fresh) :
    (Symbol__splitFlags st passed fresh).Symbol__list[passed]?
        = some { a with
            startAddress := 0
            attributes :=
              Set_include (Set_make Symbol__Attribute_isReferenced) Symbol__Attribute_isSurrogate } ∧
    (Symbol__splitFlags st passed fresh).Symbol__list[fresh]?
        = some { b with attributes :=
                   Set_exclude b.attributes Symbol__Attribute_isReferenced } ∧
    (Symbol__splitFlags st passed fresh).Symbol__indexByName = st.Symbol__indexByName ∧
    (Symbol__splitFlags st passed fresh).Symbol__platformIsCaseSensitive
        = st.Symbol__platformIsCaseSensitive ∧
    (Symbol__splitFlags st passed fresh).segmentHeap = st.segmentHeap ∧
    (Symbol__splitFlags st passed fresh).Module__list = st.Module__list := by
  have hne' : fresh ≠ passed := Ne.symm hne
  refine ⟨?_, ?_, ?_, ?_, ?_, ?_⟩
  · simp only [Symbol__splitFlags, updateSymbol_getElem?, ha, hb, hne, hne', if_true,
      if_false, Option.map_some']
  · simp only [Symbol__splitFlags, updateSymbol_getElem?, ha, hb, hne, hne', if_true,
      if_false, Option.map_some']
  · simp [Symbol__splitFlags]
  · simp [Symbol__splitFlags]
  · simp [Symbol__splitFlags]
  · simp [Symbol__splitFlags]

/-- Counterexample to C6 as stated: in the state `splitExample` the symbol
"proc" is defined and not a surrogate; after
`Symbol_makeBySplit(proc, "_BCproc")` the lookup of the old name "proc" yields
a defined symbol that is not a surrogate, and the lookup of the new name
"_BCproc" yields an undefined symbol with offset 0. -/
theorem C6_counterexample :
    ∃ st' q, Symbol_makeBySplit splitExample 0 "_BCproc" = some (st', q) ∧
      Symbol_isDefined st' (Symbol_lookup st' "proc") = some true ∧
      Symbol_isSurrogate st' (Symbol_lookup st' "proc") = some false ∧
      Symbol_isDefined st' (Symbol_lookup st' "_BCproc") = some false ∧
      (st'.Symbol__list[q]?).map (fun x => x.startAddress) = some 0 ∧
      Symbol_lookup st' "_BCproc" = some q := by
  refine ⟨_, _, rfl, ?_, ?_, ?_, ?_, ?_⟩ <;> decide

/-- C6 (amended): let `S` be the name of a defined symbol that is not a
surrogate (its defining segment and that segment's module being valid), and
`N` a name under which no symbol exists.  Then `Symbol_makeBySplit(S, N)`
returns the record passed in; afterwards a lookup of the new name `N` yields
that record, which is undefined, referenced, flagged surrogate and has offset
0, and a lookup of the old name `S` yields another record, which is defined
and holds the prior defining segment and offset of `S`. -/
theorem C6_surrogate_split (st : Linker) (S N : String_Type) (old : Nat)
    (r : Symbol__Record) (seg : Nat) (sr : Area__SegmentRecord) (m : Nat)
    (mr : Module__Record)
    (hS : Symbol_lookup st S = some old)
    (hr : st.Symbol__list[old]? = some r)
    (hname : r.name = Symbol__normalizedName st S)
    (hdef : Set_isElement r.attributes Symbol__Attribute_isDefined = true)
    (hsur : Set_isElement r.attributes Symbol__Attribute_isSurrogate = false)
    (hseg : r.definingSegment = some seg) (hsr : st.segmentHeap[seg]? = some sr)
    (hm : sr.parentModule = some m) (hmr : st.Module__list[m]? = some mr)
    (hN : Symbol_lookup st N = none) :
    ∃ st' p rp rq,
      Symbol_makeBySplit st old N = some (st', old) ∧
      Symbol_lookup st' N = some old ∧ st'.Symbol__list[old]? = some rq ∧
      Set_isElement rq.attributes Symbol__Attribute_isDefined = false ∧
      Set_isElement rq.attributes Symbol__Attribute_isReferenced = true ∧
      Set_isElement rq.attributes Symbol__Attribute_isSurrogate = true ∧
      rq.startAddress = 0 ∧
      Symbol_lookup st' S = some p ∧ p ≠ old ∧ st'.Symbol__list[p]? = some rp ∧
      Set_isElement rp.attributes Symbol__Attribute_isDefined = true ∧
      rp.definingSegment = r.definingSegment ∧ rp.startAddress = r.startAddress := by
  have hNnone := hN
  have hSold := hS
  rw [Symbol_lookup_eq] at hNnone hSold
  have holdlt : old < st.Symbol__list.length := (List.getElem?_eq_some.mp hr).1
  have hne : Symbol__normalizedName st N ≠ Symbol__normalizedName st S := by
    intro h
    rw [h, hSold] at hNnone
    cases hNnone
  have hof : old ≠ st.Symbol__list.length := Nat.ne_of_lt holdlt
  -- the state after `Symbol__lookup` has created the record for `N`
  obtain ⟨st1, hst1⟩ : ∃ st1, st1 =
      (st.setSymbolList (st.Symbol__list ++
        [{ name := Symbol__normalizedName st N, definingSegment := none, attributes := 0,
           startAddress := 0 }])).setSymbolIndex
        (Map_set st.Symbol__indexByName (Symbol__normalizedName st N)
          st.Symbol__list.length) := ⟨_, rfl⟩
  have hlk : Symbol__lookup st N true
      = (st1, Symbol__normalizedName st N, some st.Symbol__list.length) := by
    simp only [Symbol__lookup, hNnone, hst1]
    rfl
  have h1p : st1.Symbol__list[old]? = some r := by
    rw [hst1]
    simp only [Linker.setSymbolIndex_Symbol__list, Linker.setSymbolList_Symbol__list]
    rw [List.getElem?_append_left holdlt, hr]
  have h1f : st1.Symbol__list[st.Symbol__list.length]?
      = some { name := Symbol__normalizedName st N, definingSegment := none,
               attributes := 0, startAddress := 0 } := by
    rw [hst1]
    simp
  have h1i : st1.Symbol__indexByName = Map_set st.Symbol__indexByName
      (Symbol__normalizedName st N) st.Symbol__list.length := by
    rw [hst1]; rfl
  have h1c : st1.Symbol__platformIsCaseSensitive = st.Symbol__platformIsCaseSensitive := by
    rw [hst1]; rfl
  have h1h : st1.segmentHeap = st.segmentHeap := by rw [hst1]; rfl
  have h1m : st1.Module__list = st.Module__list := by rw [hst1]; rfl
  obtain ⟨st2, hswap, h2p, h2f, h2i, h2c, h2h, h2m⟩ :=
    Symbol__splitSwap_spec st1 old st.Symbol__list.length r.name
      (Symbol__normalizedName st N) r.definingSegment r _ h1p h1f hof
  obtain ⟨h3p, h3f, h3i, h3c, h3h, h3m⟩ :=
    Symbol__splitFlags_spec st2 old st.Symbol__list.length _ _ h2p h2f hof
  obtain ⟨st3, hst3⟩ : ∃ st3, st3 = Symbol__splitFlags st2 old st.Symbol__list.length :=
    ⟨_, rfl⟩
  rw [← hst3] at h3p h3f h3i h3c h3h h3m
  have hres : ∃ st5, Symbol_makeBySplit st old N = some (st5, old) ∧
      st5.Symbol__list = st3.Symbol__list ∧
      st5.Symbol__indexByName = st3.Symbol__indexByName ∧
      st5.Symbol__platformIsCaseSensitive = st3.Symbol__platformIsCaseSensitive := by
    have hm3 : st3.Module__list[m]? = some mr := by rw [h3m, h2m, h1m, hmr]
    have hs3 : st3.segmentHeap[seg]? = some sr := by rw [h3h, h2h, h1h, hsr]
    rw [hseg] at hswap
    simp only [Symbol_makeBySplit, hr, hdef, hsur, Area_getSegmentModule, hseg, hsr, hm, hlk,
      hswap, ← hst3, Module_replaceSymbol, hm3, Area_replaceSegmentSymbol,
      Linker.updateModule_segmentHeap, hs3, Bool.not_true, Bool.false_eq_true, if_false]
    exact ⟨_, rfl, rfl, rfl, rfl⟩
  obtain ⟨st5, hsplit, h5l, h5i, h5c⟩ := hres
  have hidx : st5.Symbol__indexByName
      = Map_set (Map_set (Map_set st.Symbol__indexByName (Symbol__normalizedName st N)
          st.Symbol__list.length) (Symbol__normalizedName st N) old)
          (Symbol__normalizedName st S) st.Symbol__list.length := by
    rw [h5i, h3i, h2i, h1i, hname]
  have hnorm : ∀ X, Symbol__normalizedName st5 X = Symbol__normalizedName st X := by
    intro X
    simp only [Symbol__normalizedName, h5c, h3c, h2c, h1c]
  have hlookN : Symbol_lookup st5 N = some old := by
    rw [Symbol_lookup_eq, hnorm, hidx, Map_lookup_set_other _ _ _ _ hne, Map_lookup_set_self]
  have hlookS : Symbol_lookup st5 S = some st.Symbol__list.length := by
    rw [Symbol_lookup_eq, hnorm, hidx, Map_lookup_set_self]
  rw [← h5l] at h3p h3f
  have hdefined : Set_isElement (Set_exclude r.attributes Symbol__Attribute_isReferenced)
      Symbol__Attribute_isDefined = true := by
    rw [Set_isElement_exclude, hdef]
    decide
  have hflags :
      Set_isElement (Set_include (Set_make Symbol__Attribute_isReferenced)
          Symbol__Attribute_isSurrogate) Symbol__Attribute_isDefined = false ∧
      Set_isElement (Set_include (Set_make Symbol__Attribute_isReferenced)
          Symbol__Attribute_isSurrogate) Symbol__Attribute_isReferenced = true ∧
      Set_isElement (Set_include (Set_make Symbol__Attribute_isReferenced)
          Symbol__Attribute_isSurrogate) Symbol__Attribute_isSurrogate = true := by
    decide
  exact ⟨st5, st.Symbol__list.length, _, _, hsplit, hlookN, h3p, hflags.1, hflags.2.1,
    hflags.2.2, rfl, hlookS, Ne.symm hof, h3f, hdefined, rfl, rfl⟩

/-- Witness of `C6_surrogate_split` in the state `splitExample`: the symbol
"proc" of module "M1" is split with the new name "_BCproc". -/
theorem C6_surrogate_split_witness :
    ∃ st' p rp rq,
      Symbol_makeBySplit splitExample 0 "_BCproc" = some (st', 0) ∧
      Symbol_lookup st' "_BCproc" = some 0 ∧ st'.Symbol__list[0]? = some rq ∧
      Set_isElement rq.attributes Symbol__Attribute_isDefined = false ∧
      Set_isElement rq.attributes Symbol__Attribute_isReferenced = true ∧
      Set_isElement rq.attributes Symbol__Attribute_isSurrogate = true ∧
      rq.startAddress = 0 ∧
      Symbol_lookup st' "proc" = some p ∧ p ≠ 0 ∧ st'.Symbol__list[p]? = some rp ∧
      Set_isElement rp.attributes Symbol__Attribute_isDefined = true ∧
      rp.definingSegment = some 1 ∧ rp.startAddress = 5 :=
  C6_surrogate_split splitExample "proc" "_BCproc" 0
    { name := "proc", definingSegment := some 1, attributes := 3, startAddress := 5 }
    1 { parentArea := some 1, parentModule := some 0, startAddress := 0,
        totalSize := 16, symbolList := [0] }
    0 { name := "M1", segmentCount := 1, symbolCount := 1,
        associatedFileName := "m1.o", segmentList := [0, 1], symbolList := [0] }
    (by decide) rfl rfl (by decide) (by decide) rfl rfl rfl rfl (by decide)

/-! ### Relocation -/

theorem Linker.addWarnings_nil (st : Linker) : st.addWarnings [] = st := by
  simp [Linker.addWarnings]

theorem Linker.addWarnings_addWarnings (st : Linker) (a b : List Warning) :
    (st.addWarnings a).addWarnings b = st.addWarnings (a ++ b) := by
  simp [Linker.addWarnings]

theorem Error_raiseWarning_eq_addWarnings (st : Linker) (w : Warning) :
    Error_raiseWarning st w = st.addWarnings [w] := rfl

theorem CodeSequence__resolveTarget_addWarnings (M : Nat) (st : Linker)
    (ws : List Warning) (r : CodeSequence_Relocation) :
    CodeSequence__resolveTarget M (st.addWarnings ws) r
      = CodeSequence__resolveTarget M st r := rfl

theorem CodeSequence__targetExists_addWarnings (M : Nat) (st : Linker)
    (ws : List Warning) (r : CodeSequence_Relocation) :
    CodeSequence__targetExists M (st.addWarnings ws) r
      = CodeSequence__targetExists M st r := rfl

theorem CodeSequence__processOneRelocation_flags (target : Target_Type) (M : Nat)
    (st st' : Linker) (base : Nat) (r : CodeSequence_Relocation)
    (work work' : CodeSequence__Work)
    (h : CodeSequence__processOneRelocation target M st base r work = some (st', work')) :
    work'.isSignificantList = CodeSequence__flagsAfter target M st work.isSignificantList r
      ∧ ∃ ws, st' = st.addWarnings ws := by
  unfold CodeSequence__processOneRelocation at h
  unfold CodeSequence__flagsAfter CodeSequence__targetExists
  cases hres : CodeSequence__resolveTarget M st r with
  | none => simp [hres] at h
  | some o =>
    cases o with
    | none =>
      simp only [hres, Option.some.injEq, Prod.mk.injEq] at h
      obtain ⟨h1, h2⟩ := h
      subst h2
      refine ⟨by simp, ⟨_, h1.symm⟩⟩
    | some t =>
      obtain ⟨addr, sym, seg⟩ := t
      simp only [hres] at h
      by_cases hpage : (r.kind.pageIsReferenced || r.kind.zeroPageIsReferenced) = true
      · simp [hpage] at h
      · simp only [hpage, Bool.false_eq_true, if_false, Option.some.injEq,
          Prod.mk.injEq] at h
        obtain ⟨h1, h2⟩ := h
        subst h1
        refine ⟨?_, ⟨[], (Linker.addWarnings_nil _).symm⟩⟩
        subst h2
        cases hb : r.kind.elementsAreBytes <;> cases hs : r.kind.slotWidthIsTwo <;>
          cases hm : r.kind.mostSignificantByteIsUsed <;>
          simp [CodeSequence__isRelaxing, CodeSequence__droppedPosition,
            CodeSequence__resetByteFlag, hb, hs, hm]

theorem CodeSequence__reportRelocationError_addWarnings (st st' : Linker)
    (errorKind : Nat) (errorRecord : CodeSequence__ErrorRecord)
    (h : CodeSequence__reportRelocationError st errorKind errorRecord = some st') :
    ∃ ws, st' = st.addWarnings ws := by
  unfold CodeSequence__reportRelocationError at h
  by_cases hk : (errorKind != CodeSequence__RelocError_none) = true
  · rw [if_pos hk] at h
    dsimp only at h
    split_ifs at h
    all_goals
      first
      | (split at h
         · cases h
         · split_ifs at h
           simp only [Option.some.injEq] at h
           exact ⟨_, h.symm⟩)
  · rw [if_neg hk] at h
    simp only [Option.some.injEq] at h
    exact ⟨[], by rw [← h, Linker.addWarnings_nil]⟩

theorem CodeSequence__flagsAfter_addWarnings (target : Target_Type) (M : Nat)
    (st : Linker) (ws : List Warning) (flags : List Bool) (r : CodeSequence_Relocation) :
    CodeSequence__flagsAfter target M (st.addWarnings ws) flags r
      = CodeSequence__flagsAfter target M st flags r := rfl

theorem CodeSequence__relocationLoop_flags (target : Target_Type) (M : Nat) (base : Nat) :
    ∀ (rs : List CodeSequence_Relocation) (st st' : Linker)
      (work work' : CodeSequence__Work),
      CodeSequence__relocationLoop target M base rs st work = some (st', work') →
      work'.isSignificantList
        = rs.foldl (CodeSequence__flagsAfter target M st) work.isSignificantList := by
  intro rs
  induction rs with
  | nil =>
    intro st st' work work' h
    simp only [CodeSequence__relocationLoop, Option.some.injEq, Prod.mk.injEq] at h
    rw [← h.2]
    rfl
  | cons r rest ih =>
    intro st st' work work' h
    simp only [CodeSequence__relocationLoop] at h
    cases h1 : CodeSequence__processOneRelocation target M st base r work with
    | none => simp [h1] at h
    | some p =>
      obtain ⟨st1, work1⟩ := p
      simp only [h1] at h
      cases h2 : CodeSequence__reportRelocationError st1 work1.errorKind
          work1.errorRecord with
      | none => simp [h2] at h
      | some st2 =>
        simp only [h2] at h
        obtain ⟨hflags, ws1, hst1⟩ :=
          CodeSequence__processOneRelocation_flags target M st st1 base r work work1 h1
        obtain ⟨ws2, hst2⟩ :=
          CodeSequence__reportRelocationError_addWarnings st1 st2 _ _ h2
        have hst : st2 = st.addWarnings (ws1 ++ ws2) := by
          rw [hst2, hst1, Linker.addWarnings_addWarnings]
        rw [ih st2 st' work1 work' h, hflags, List.foldl_cons, hst]
        rfl

/-- Number of cleared flags among the `count` flags from position `i` on. -/
theorem CodeSequence__condense_length (flags : List Bool) :
    ∀ (count i j n : Nat) (bytes : List Nat), count ≤ n → n < 256 →
      (CodeSequence__condense flags count i j n bytes).2
        = n - ((List.range count).filter (fun k => !flags.getD (i + k) true)).length := by
  intro count
  induction count with
  | zero =>
    intro i j n bytes _ _
    simp [CodeSequence__condense]
  | succ c ih =>
    intro i j n bytes hcn hn
    have hshift : (List.range (c + 1)).filter (fun k => !flags.getD (i + k) true)
        = (if !flags.getD i true then [0] else [])
          ++ ((List.range c).filter (fun k => !flags.getD (i + 1 + k) true)).map (· + 1) := by
      rw [List.range_succ_eq_map, List.filter_cons, List.filter_map]
      have hfun : ((fun k => !flags.getD (i + k) true) ∘ Nat.succ)
          = (fun k => !flags.getD (i + 1 + k) true) := by
        funext k
        simp only [Function.comp, Nat.succ_eq_add_one]
        congr 2
        omega
      rw [hfun]
      simp only [Nat.add_zero]
      split_ifs <;> rfl
    rw [hshift]
    simp only [CodeSequence__condense]
    by_cases hsig : flags.getD i true = true
    · simp only [hsig, Bool.not_true, Bool.false_eq_true, if_false, List.nil_append,
        List.length_map]
      exact ih (i + 1) (j + 1) n _ (by omega) hn
    · have hsig' : flags.getD i true = false := by
        cases hv : flags.getD i true
        · rfl
        · exact absurd hv hsig
      simp only [hsig', Bool.not_false, if_true, List.singleton_append, List.length_cons,
        List.length_map]
      have hdec : (n + 255) % 256 = n - 1 := by omega
      rw [hdec, ih (i + 1) j (n - 1) bytes (by omega) (by omega)]
      omega

theorem List_getD_set_false (f : List Bool) (p k : Nat) :
    (f.set p false).getD k true
      = if p = k ∧ p < f.length then false else f.getD k true := by
  rw [List.getD_eq_getElem?_getD, List.getD_eq_getElem?_getD, List.getElem?_set]
  by_cases hpk : p = k
  · subst hpk
    by_cases hp : p < f.length
    · rw [if_pos rfl, if_pos hp, if_pos ⟨rfl, hp⟩]
      rfl
    · rw [if_pos rfl, if_neg hp, if_neg (fun hh => hp hh.2),
        List.getElem?_eq_none (Nat.le_of_not_lt hp)]
  · rw [if_neg hpk, if_neg (fun hh => hpk hh.1)]

theorem List_getD_replicate_true (n k : Nat) :
    (List.replicate n true).getD k true = true := by
  rw [List.getD_eq_getElem?_getD, List.getElem?_replicate]
  split <;> rfl

theorem cleared_count_set_ge (f : List Bool) (p n : Nat) (h : n ≤ p) :
    ((List.range n).filter (fun k => !(f.set p false).getD k true)).length
      = ((List.range n).filter (fun k => !f.getD k true)).length := by
  congr 1
  apply List.filter_congr
  intro k hk
  have hkn : k < n := List.mem_range.mp hk
  rw [List_getD_set_false]
  have hne : ¬(p = k ∧ p < f.length) := fun hh => by omega
  rw [if_neg hne]

theorem cleared_count_set_lt (f : List Bool) (p : Nat) (hp : p < f.length)
    (htrue : f.getD p true = true) :
    ∀ n, p < n →
      ((List.range n).filter (fun k => !(f.set p false).getD k true)).length
        = ((List.range n).filter (fun k => !f.getD k true)).length + 1 := by
  intro n
  induction n with
  | zero => intro h; omega
  | succ m ih =>
    intro hpm
    rw [List.range_succ, List.filter_append, List.filter_append, List.length_append,
      List.length_append]
    by_cases hpeq : p = m
    · subst hpeq
      rw [cleared_count_set_ge f p p (Nat.le_refl p)]
      have h1 : (f.set p false).getD p true = false := by
        rw [List_getD_set_false, if_pos ⟨rfl, hp⟩]
      simp only [List.filter_cons, List.filter_nil, h1, htrue, Bool.not_false,
        Bool.not_true, if_true, Bool.false_eq_true, if_false, List.length_cons,
        List.length_nil]
    · have hlt : p < m := by omega
      rw [ih hlt]
      have h1 : (f.set p false).getD m true = f.getD m true := by
        rw [List_getD_set_false, if_neg (fun hh => hpeq hh.1)]
      simp only [List.filter_cons, List.filter_nil, h1]
      omega

theorem cleared_count_foldl (n : Nat) :
    ∀ (ps : List Nat) (f : List Bool), n ≤ f.length → ps.Nodup →
      (∀ p ∈ ps, p < n ∧ f.getD p true = true) →
      ((List.range n).filter
          (fun k => !(ps.foldl (fun g p => g.set p false) f).getD k true)).length
        = ((List.range n).filter (fun k => !f.getD k true)).length + ps.length := by
  intro ps
  induction ps with
  | nil => intro f _ _ _; rfl
  | cons p rest ih =>
    intro f hn hnd hall
    have hnd' := List.nodup_cons.mp hnd
    obtain ⟨hpn, hpt⟩ := hall p (List.mem_cons_self _ _)
    rw [List.foldl_cons, ih (f.set p false) (by rw [List.length_set]; exact hn) hnd'.2]
    · rw [cleared_count_set_lt f p (by omega) hpt n hpn, List.length_cons]
      omega
    · intro q hq
      obtain ⟨hqn, hqt⟩ := hall q (List.mem_cons_of_mem _ hq)
      refine ⟨hqn, ?_⟩
      rw [List_getD_set_false]
      have hne : ¬(p = q ∧ p < f.length) := fun hh => hnd'.1 (hh.1 ▸ hq)
      rw [if_neg hne]
      exact hqt

theorem CodeSequence__flagsAfter_foldl (target : Target_Type) (M : Nat) (st : Linker) :
    ∀ (rs : List CodeSequence_Relocation) (f : List Bool),
      (∀ r ∈ rs, CodeSequence__isRelaxing r = true →
         CodeSequence__targetExists M st r = true) →
      rs.foldl (CodeSequence__flagsAfter target M st) f
        = ((rs.filter CodeSequence__isRelaxing).map
            (CodeSequence__droppedPosition target)).foldl (fun g p => g.set p false) f := by
  intro rs
  induction rs with
  | nil => intro f _; rfl
  | cons r rest ih =>
    intro f hall
    have hrest : ∀ x ∈ rest, CodeSequence__isRelaxing x = true →
        CodeSequence__targetExists M st x = true :=
      fun x hx => hall x (List.mem_cons_of_mem _ hx)
    rw [List.foldl_cons, ih _ hrest]
    by_cases hr : CodeSequence__isRelaxing r = true
    · have hex := hall r (List.mem_cons_self _ _) hr
      simp [CodeSequence__flagsAfter, hr, hex, List.filter_cons]
    · simp [CodeSequence__flagsAfter, hr, List.filter_cons]

/-- Counterexample to C7 as stated: the relocation list of `relaxSequence`
has one record whose kind has `elementsAreBytes` and `slotWidthIsTwo`; in the
state `layoutExample` the current module has no symbol, so the record ends
with the warning "R symbol error" and the sequence keeps its length 2, which
is not 2 minus the number 1 of such records. -/
theorem C7_counterexample :
    ∃ st' sequence',
      CodeSequence_relocate (Gameboy_targetInfo (fun _ => 0)) 65536 layoutExample 0
        default relaxSequence 0 relaxRelocationList = some (st', sequence') ∧
      st'.warnings = [Warning.rSymbolError] ∧
      sequence'.length = 2 ∧ relaxSequence.length = 2 ∧
      (relaxRelocationList.list.filter CodeSequence__isRelaxing).length = 1 := by
  refine ⟨_, _, rfl, ?_, ?_, ?_, ?_⟩ <;> decide

/-- C7 (amended): whenever `CodeSequence_relocate` returns for a code
sequence (its length a `UINT8` value) and a relocation list, the length of the
sequence afterwards is at most its length before; and when every relocation
record whose kind has both `elementsAreBytes` and `slotWidthIsTwo` set refers
to an existing symbol or segment and drops a byte position inside the sequence
that no other such record drops, the length afterwards equals the length
before minus the number of those records. -/
theorem C7_relaxation_length (target : Target_Type) (M : Nat) (st st' : Linker)
    (errorKind0 : Nat) (errorRecord0 : CodeSequence__ErrorRecord)
    (sequence sequence' : CodeSequence_Type) (areaMode : Nat)
    (relocationList : CodeSequence_RelocationList)
    (hlen : sequence.length < 256)
    (hret : CodeSequence_relocate target M st errorKind0 errorRecord0 sequence areaMode
      relocationList = some (st', sequence')) :
    sequence'.length ≤ sequence.length ∧
    ((∀ r ∈ relocationList.list, CodeSequence__isRelaxing r = true →
        CodeSequence__targetExists M st r = true ∧
        CodeSequence__droppedPosition target r < sequence.length) →
     ((relocationList.list.filter CodeSequence__isRelaxing).map
        (CodeSequence__droppedPosition target)).Nodup →
     sequence'.length = sequence.length
        - (relocationList.list.filter CodeSequence__isRelaxing).length) := by
  unfold CodeSequence_relocate at hret
  by_cases ham : (areaMode != 0) = true
  · rw [if_pos ham] at hret
    cases hret
  rw [if_neg ham] at hret
  dsimp only at hret
  cases hseg : relocationList.segment with
  | none => simp only [hseg] at hret; cases hret
  | some s =>
    simp only [hseg] at hret
    cases hs : st.segmentHeap[s]? with
    | none => simp only [hs] at hret; cases hret
    | some sr =>
      simp only [hs] at hret
      cases hpa : sr.parentArea with
      | none => simp only [hpa] at hret; cases hret
      | some a =>
        simp only [hpa] at hret
        cases har : st.Area__list[a]? with
        | none => simp only [har] at hret; cases hret
        | some area =>
          simp only [har] at hret
          cases hloop : CodeSequence__relocationLoop target M
              (sequence.offsetAddress + sr.startAddress) relocationList.list st
              { byteList := sequence.byteList, isSignificantList := List.replicate 256 true,
                offsetByRelaxation := 0, errorKind := errorKind0,
                errorRecord := errorRecord0 } with
          | none => simp only [hloop] at hret; cases hret
          | some loopState =>
            obtain ⟨st1, work1⟩ := loopState
            simp only [hloop, Option.some.injEq, Prod.mk.injEq] at hret
            have hflags := CodeSequence__relocationLoop_flags target M _ _ _ _ _ _ hloop
            simp only at hflags
            have hlength : sequence'.length = sequence.length
                - ((List.range sequence.length).filter
                    (fun k => !work1.isSignificantList.getD k true)).length := by
              rw [← hret.2]
              have := CodeSequence__condense_length work1.isSignificantList
                sequence.length 0 0 sequence.length work1.byteList (Nat.le_refl _) hlen
              simp only [Nat.zero_add] at this
              exact this
            refine ⟨by rw [hlength]; exact Nat.sub_le _ _, ?_⟩
            intro hall hnodup
            rw [hlength, hflags,
              CodeSequence__flagsAfter_foldl target M st _ _ (fun r hr hx => (hall r hr hx).1),
              cleared_count_foldl sequence.length _ (List.replicate 256 true)
                (by rw [List.length_replicate]; omega) hnodup]
            · have hzero : ((List.range sequence.length).filter
                  (fun k => !(List.replicate 256 true).getD k true)).length = 0 := by
                rw [List.length_eq_zero, List.filter_eq_nil_iff]
                intro k _
                rw [List_getD_replicate_true]
                decide
              rw [hzero, List.length_map, Nat.zero_add]
            · intro p hp
              obtain ⟨r, hr, hrp⟩ := List.mem_map.mp hp
              have hmem := List.mem_filter.mp hr
              have hlt := (hall r hmem.1 hmem.2).2
              rw [hrp] at hlt
              exact ⟨hlt, List_getD_replicate_true 256 p⟩

/-- Witness of `C7_relaxation_length`: in the state `relaxExample` the record
of `relaxRelocationList` refers to the symbol "ext" and drops the high byte at
position 1 of `relaxSequence`, whose length goes from 2 to 1. -/
theorem C7_relaxation_length_witness :
    ∃ st' sequence',
      CodeSequence_relocate (Gameboy_targetInfo (fun _ => 0)) 65536 relaxExample 0
        default relaxSequence 0 relaxRelocationList = some (st', sequence') ∧
      sequence'.length ≤ relaxSequence.length ∧
      sequence'.length = relaxSequence.length
        - (relaxRelocationList.list.filter CodeSequence__isRelaxing).length ∧
      sequence'.length = 1 := by
  refine ⟨_, _, rfl, ?_, ?_, by decide⟩
  · exact (C7_relaxation_length (Gameboy_targetInfo (fun _ => 0)) 65536 relaxExample _ 0
      default relaxSequence _ 0 relaxRelocationList (by decide) rfl).1
  · exact (C7_relaxation_length (Gameboy_targetInfo (fun _ => 0)) 65536 relaxExample _ 0
      default relaxSequence _ 0 relaxRelocationList (by decide) rfl).2
      (by decide) (by decide)

/-! ### Code output -/

/-- C8 (code at the failing input): for the empty code sequence at address
0x10000 `CodeOutput_writeIHXLine` in state `inCode` writes the address with
five digits, ":001000000ff"; the text after the record mark has an odd number
of digits, so it is no sequence of bytes, and with the low 16 bits of the
address taken as the two address bytes, LL + address bytes + data + CC is 255
modulo 256 for the checksum 0xFF written, not 0. -/
theorem C8_ihx_address_overflow :
    CodeOutput_writeIHXLine "" .inCode false highSequence = ":001000000ff\n" ∧
    IHX_recordBytes (CodeOutput_writeIHXLine "" .inCode false highSequence) = none ∧
    (highSequence.length + (highSequence.offsetAddress / 256) % 256
      + highSequence.offsetAddress % 256 + (CodeSequence_bytes highSequence).sum
      + 0xFF) % 256 = 255 := by
  decide

/-- C9 (code at the failing input): for the code sequence 3E 42 C9 at address
0 `CodeOutput_writeS19Line` in state `inCode` writes "S10600003e42c9b3"; the
record's bytes are the count 6, the address 00 00, the data and the checksum
0xB3, and they sum to 2 modulo 256, not to 0xFF: the checksum is taken over the
data length instead of the count byte. -/
theorem C9_s19_checksum_omits_count :
    CodeOutput_writeS19Line "" .inCode false helloSequence = "S10600003e42c9b3\n" ∧
    S19_recordBytes (CodeOutput_writeS19Line "" .inCode false helloSequence)
      = some [6, 0, 0, 0x3E, 0x42, 0xC9, 0xB3] ∧
    (6 + 0 + 0 + 0x3E + 0x42 + 0xC9 + 0xB3) % 256 = 2 := by
  decide

/-! ### Library resolution -/

theorem Library__findSymbols_not_found :
    ∀ (list : List Nat) (lib lib' : Library_State) (st st' : Linker) (b : Bool),
      Library__findSymbols lib st b list = some (lib', st', false) →
      b = false ∧ lib' = lib ∧ st' = st ∧
      ∀ s ∈ list, ∃ r, st.Symbol__list[s]? = some r ∧
        Multimap_lookup lib.Library__symbolIndex r.name = none := by
  intro list
  induction list with
  | nil =>
    intro lib lib' st st' b h
    simp only [Library__findSymbols, Option.some.injEq, Prod.mk.injEq] at h
    exact ⟨h.2.2, h.1.symm, h.2.1.symm, fun s hs => absurd hs (List.not_mem_nil s)⟩
  | cons s rest ih =>
    intro lib lib' st st' b h
    simp only [Library__findSymbols] at h
    cases hf : Library__findSymbol lib st s with
    | none => simp only [hf] at h; cases h
    | some p =>
      obtain ⟨lib1, st1, isFound⟩ := p
      simp only [hf] at h
      obtain ⟨hb, hlib, hst, hall⟩ := ih lib1 lib' st1 st' (b || isFound) h
      have hbf : b = false ∧ isFound = false := by
        cases b <;> cases isFound <;> simp_all
      obtain ⟨hb', hfound⟩ := hbf
      subst hfound
      -- a symbol that is not found leaves the state as it is
      unfold Library__findSymbol at hf
      cases hr : st.Symbol__list[s]? with
      | none => simp only [hr] at hf; cases hf
      | some r =>
        simp only [hr] at hf
        cases hl : Multimap_lookup lib.Library__symbolIndex r.name with
        | none =>
          simp only [hl, Option.some.injEq, Prod.mk.injEq, and_true] at hf
          obtain ⟨h1, h2⟩ := hf
          subst h1
          subst h2
          refine ⟨hb', hlib, hst, ?_⟩
          intro x hx
          rcases List.mem_cons.mp hx with hxs | hxr
          · subst hxs
            exact ⟨r, hr, hl⟩
          · exact hall x hxr
        | some libraryList =>
          simp only [hl] at hf
          split at hf
          · cases hf
          · split at hf
            · cases hf
            · simp only [Option.some.injEq, Prod.mk.injEq, Bool.true_eq_false, and_false] at hf

theorem Symbol_getUndefinedSymbolList_mem (st : Linker) (s : Nat) (r : Symbol__Record)
    (hr : st.Symbol__list[s]? = some r)
    (hundef : Set_isElement r.attributes Symbol__Attribute_isDefined = false) :
    s ∈ Symbol_getUndefinedSymbolList st := by
  unfold Symbol_getUndefinedSymbolList
  rw [List.mem_filter]
  refine ⟨List.mem_range.mpr (List.getElem?_eq_some.mp hr).1, ?_⟩
  simp [hr, hundef]

/-- C10: whenever `Library_resolveUndefinedSymbols` returns (for every
content of the library files, every effect of parsing an object file and every
number of rounds), no symbol that is still undefined in the symbol table is
listed in the symbol index for a library whose load status is not `loaded`;
indeed the symbol index then has no entry at all for the name of an undefined
symbol. -/
theorem C10_library_fixed_point (env : Library_Environment) (fuel : Nat)
    (lib lib' : Library_State) (st st' : Linker)
    (h : Library_resolveUndefinedSymbols env fuel lib st = .ok (lib', st')) :
    ∀ (s : Nat) (r : Symbol__Record), st'.Symbol__list[s]? = some r →
      Set_isElement r.attributes Symbol__Attribute_isDefined = false →
      Multimap_lookup lib'.Library__symbolIndex r.name = none ∧
      ∀ L l, lib'.Library__list[L]? = some l → l.loadStatus ≠ .loaded →
        ∀ libraryList,
          Multimap_lookup lib'.Library__symbolIndex r.name = some libraryList →
          L ∉ libraryList := by
  have key : ∀ (fuel : Nat) (lib : Library_State) (st : Linker),
      Library__resolveLoop env fuel lib st = .ok (lib', st') →
      ∀ (s : Nat) (r : Symbol__Record), st'.Symbol__list[s]? = some r →
        Set_isElement r.attributes Symbol__Attribute_isDefined = false →
        Multimap_lookup lib'.Library__symbolIndex r.name = none := by
    intro fuel
    induction fuel with
    | zero =>
      intro lib st h
      simp only [Library__resolveLoop] at h
      cases h
    | succ n ih =>
      intro lib st h s r hr hundef
      simp only [Library__resolveLoop] at h
      split at h
      · cases h
      · rename_i lib1 st1 some1 hfound
        split at h
        · split at h
          · cases h
          · exact ih _ _ h s r hr hundef
        · rename_i hnot
          simp only [Except.ok.injEq, Prod.mk.injEq] at h
          obtain ⟨h1, h2⟩ := h
          subst h1
          subst h2
          have hfalse : some1 = false := by
            cases some1
            · rfl
            · exact absurd rfl hnot
          subst hfalse
          have hmem := Symbol_getUndefinedSymbolList_mem _ s r hr hundef
          split at hfound
          · rename_i hzero
            simp only [Option.some.injEq, Prod.mk.injEq, and_true] at hfound
            obtain ⟨hl, hs⟩ := hfound
            subst hs
            have hnil : Symbol_getUndefinedSymbolList st = [] :=
              List.length_eq_zero.mp (by simpa using hzero)
            rw [hnil] at hmem
            exact absurd hmem (List.not_mem_nil s)
          · obtain ⟨_, hlib, hst, hall⟩ :=
              Library__findSymbols_not_found _ _ _ _ _ _ hfound
            subst hst
            subst hlib
            obtain ⟨r', hr', hnone⟩ := hall s hmem
            rw [hr] at hr'
            cases hr'
            exact hnone
  intro s r hr hundef
  have hnone := key fuel (env.buildIndex lib) st h s r hr hundef
  refine ⟨hnone, ?_⟩
  intro L l _ _ libraryList hsome
  rw [hnone] at hsome
  cases hsome

/-- Witness of `C10_library_fixed_point`: with the undefined symbol "foo" and
one library that lists it, the resolver returns after two rounds, the first
of which loads the library. -/
theorem C10_library_fixed_point_witness :
    ∃ lib' st',
      Library_resolveUndefinedSymbols libraryExampleEnvironment 2 libraryExampleState
        libraryExample = .ok (lib', st') ∧
      (lib'.Library__list.map (fun l => l.loadStatus)) = [.loaded] ∧
      ∀ (s : Nat) (r : Symbol__Record), st'.Symbol__list[s]? = some r →
        Set_isElement r.attributes Symbol__Attribute_isDefined = false →
        Multimap_lookup lib'.Library__symbolIndex r.name = none ∧
        ∀ L l, lib'.Library__list[L]? = some l → l.loadStatus ≠ .loaded →
          ∀ libraryList,
            Multimap_lookup lib'.Library__symbolIndex r.name = some libraryList →
            L ∉ libraryList :=
  ⟨_, _, rfl, by decide,
    C10_library_fixed_point libraryExampleEnvironment 2 libraryExampleState _
      libraryExample _ rfl⟩

/-! ### `Area_link` -/

theorem linkLoop_frame (M : Nat) (ov : Bool) :
    ∀ (ids : List Nat) (address size : Nat) (heap heap' : List Area__SegmentRecord)
      (size' : Nat),
      Area__linkSegmentsLoop M ov ids address size heap = some (heap', size') →
      heap'.length = heap.length ∧
      (∀ s, s ∉ ids → heap'[s]? = heap[s]?) ∧
      (ov = true → ∀ s ∈ ids, ∃ g, heap'[s]? = some g ∧ g.startAddress = address) := by
  intro ids
  induction ids with
  | nil =>
    intro address size heap heap' size' h
    simp only [Area__linkSegmentsLoop, Option.some.injEq, Prod.mk.injEq] at h
    obtain ⟨h1, _⟩ := h
    subst h1
    exact ⟨rfl, fun _ _ => rfl, fun _ s hs => absurd hs (List.not_mem_nil s)⟩
  | cons s rest ih =>
    intro address size heap heap' size' h
    simp only [Area__linkSegmentsLoop] at h
    cases hr : heap[s]? with
    | none => simp only [hr] at h; cases h
    | some r =>
      simp only [hr] at h
      have hslt : s < heap.length := (List.getElem?_eq_some.mp hr).1
      cases ov with
      | false =>
        simp only [Bool.not_false, if_true] at h
        obtain ⟨hlen, hframe, _⟩ := ih _ _ _ _ _ h
        refine ⟨by rw [hlen, List.length_set], ?_, fun hov => by cases hov⟩
        intro t ht
        rw [hframe t (fun hm => ht (List.mem_cons_of_mem _ hm))]
        have hne : s ≠ t := fun e => ht (e ▸ List.mem_cons_self _ _)
        exact List.getElem?_set_ne hne
      | true =>
        simp only [Bool.not_true, Bool.false_eq_true, if_false] at h
        have key : ∀ z, Area__linkSegmentsLoop M true rest address z
            (heap.set s { r with startAddress := address }) = some (heap', size') →
            heap'.length = heap.length ∧
            (∀ t, t ∉ s :: rest → heap'[t]? = heap[t]?) ∧
            (true = true → ∀ t ∈ s :: rest,
              ∃ g, heap'[t]? = some g ∧ g.startAddress = address) := by
          intro z hz
          obtain ⟨hlen, hframe, hov⟩ := ih _ _ _ _ _ hz
          refine ⟨by rw [hlen, List.length_set], ?_, ?_⟩
          · intro t ht
            rw [hframe t (fun hm => ht (List.mem_cons_of_mem _ hm))]
            have hne : s ≠ t := fun e => ht (e ▸ List.mem_cons_self _ _)
            exact List.getElem?_set_ne hne
          · intro _ t ht
            by_cases hin : t ∈ rest
            · exact hov rfl t hin
            · have hts : t = s := by
                rcases List.mem_cons.mp ht with e | e
                · exact e
                · exact absurd e hin
              subst hts
              rw [hframe t hin, List.getElem?_set_self hslt]
              exact ⟨_, rfl, rfl⟩
        split_ifs at h
        · exact key _ h
        · exact key _ h

theorem Area__linkSegments_frame (M : Nat) (st st' : Linker) (area : Nat)
    (h : Area__linkSegments M st area = some st') :
    ∃ r size, st.Area__list[area]? = some r ∧
      st'.Area__list
        = heapUpdate st.Area__list area (fun a => { a with totalSize := size }) ∧
      st'.segmentHeap.length = st.segmentHeap.length ∧
      (∀ s, s ∉ r.segmentList → st'.segmentHeap[s]? = st.segmentHeap[s]?) ∧
      (Set_isElement r.attributes Area_Attribute_hasOverlayedSegments = true →
        ∀ s ∈ r.segmentList,
          ∃ g, st'.segmentHeap[s]? = some g ∧ g.startAddress = r.startAddress) ∧
      st'.Area__absoluteArea = st.Area__absoluteArea ∧
      st'.Area__currentSegment = st.Area__currentSegment ∧
      st'.Symbol__list = st.Symbol__list ∧
      st'.Symbol__indexByName = st.Symbol__indexByName ∧
      st'.Symbol__platformIsCaseSensitive = st.Symbol__platformIsCaseSensitive := by
  unfold Area__linkSegments at h
  cases hr : st.Area__list[area]? with
  | none => simp only [hr] at h; cases h
  | some r =>
    simp only [hr] at h
    split at h
    · cases h
    · rename_i heap size hloop
      have hw : ∀ (c : Bool) (w : Warning),
          (if c = true then Error_raiseWarning st w else st).segmentHeap
            = st.segmentHeap := by
        intro c w; cases c <;> rfl
      rw [hw] at hloop
      obtain ⟨hlen, hframe, hov⟩ := linkLoop_frame M _ _ _ _ _ _ _ hloop
      simp only [Option.some.injEq] at h
      subst h
      refine ⟨r, size, rfl, ?_, ?_, ?_, ?_, ?_, ?_, ?_, ?_, ?_⟩
      all_goals first
        | (split_ifs <;> simp [hlen] <;> done)
        | (split_ifs <;> simpa using hframe)
        | (split_ifs <;> simpa using hov)

theorem Symbol__lookup_create (st : Linker) (name : String_Type)
    (hcase : st.Symbol__platformIsCaseSensitive = true)
    (hindex : Symbol_indexIsConsistent st) :
    ∃ st1 s r0, Symbol__lookup st name true = (st1, name, some s) ∧
      st1.Symbol__list[s]? = some r0 ∧ r0.name = name ∧
      Map_lookup st1.Symbol__indexByName name = some s ∧
      (∀ n, n ≠ name →
        Map_lookup st1.Symbol__indexByName n = Map_lookup st.Symbol__indexByName n) ∧
      (∀ (t : Nat) (r : Symbol__Record),
        st.Symbol__list[t]? = some r → st1.Symbol__list[t]? = some r) ∧
      (∀ (n : String_Type) (t : Nat),
        n ≠ name → Map_lookup st.Symbol__indexByName n = some t → t ≠ s) ∧
      st1.Area__list = st.Area__list ∧
      st1.Area__absoluteArea = st.Area__absoluteArea ∧
      st1.segmentHeap = st.segmentHeap ∧
      st1.Area__currentSegment = st.Area__currentSegment ∧
      st1.Symbol__platformIsCaseSensitive = true ∧
      st1.Module__list = st.Module__list ∧
      st1.Module__currentModule = st.Module__currentModule := by
  have hname : Symbol__normalizedName st name = name := by
    simp [Symbol__normalizedName, hcase]
  unfold Symbol__lookup
  rw [hname]
  dsimp only
  cases hl : Map_lookup st.Symbol__indexByName name with
  | some s =>
    obtain ⟨r0, hr0, hn0⟩ := hindex name s hl
    refine ⟨st, s, r0, rfl, hr0, hn0, hl, fun _ _ => rfl, fun _ _ h => h, ?_,
      rfl, rfl, rfl, rfl, hcase, rfl, rfl⟩
    intro n t hne hnt hts
    subst hts
    obtain ⟨r, hr, hn⟩ := hindex n t hnt
    rw [hr0] at hr
    cases hr
    exact hne (hn.symm.trans hn0)
  | none =>
    simp only [if_true]
    refine ⟨_, _, { name := name, definingSegment := none, attributes := 0,
                    startAddress := 0 }, rfl, ?_, rfl, ?_, ?_, ?_, ?_, ?_⟩
    · simp
    · simp [Map_lookup_set_self]
    · intro n hne
      simp [Map_lookup_set_other _ _ _ _ hne]
    · intro t r hr
      have hlt : t < st.Symbol__list.length := (List.getElem?_eq_some.mp hr).1
      simp [List.getElem?_append_left hlt, hr]
    · intro n t _ hnt hts
      obtain ⟨r, hr, _⟩ := hindex n t hnt
      have hlt : t < st.Symbol__list.length := (List.getElem?_eq_some.mp hr).1
      omega
    · simp [hcase]

theorem Symbol_make_definition (st st' : Linker) (name : String_Type) (v s : Nat)
    (hcase : st.Symbol__platformIsCaseSensitive = true)
    (hindex : Symbol_indexIsConsistent st)
    (h : Symbol_make st name true v = some (st', s)) :
    st'.Area__list = st.Area__list ∧
    st'.Area__absoluteArea = st.Area__absoluteArea ∧
    st'.Area__currentSegment = st.Area__currentSegment ∧
    st'.Symbol__platformIsCaseSensitive = true ∧
    st'.segmentHeap.length = st.segmentHeap.length ∧
    (∀ (g : Nat) (r : Area__SegmentRecord), st.segmentHeap[g]? = some r →
      ∃ r', st'.segmentHeap[g]? = some r' ∧ r'.startAddress = r.startAddress) ∧
    Symbol_indexIsConsistent st' ∧
    (∃ seg, st.Area__currentSegment = some seg ∧ Symbol_isDefinedAt st' name seg v) ∧
    (∀ (n : String_Type) (seg a : Nat), n ≠ name →
      Symbol_isDefinedAt st n seg a → Symbol_isDefinedAt st' n seg a) := by
  obtain ⟨st1, s1, r0, hlook, hr0, hn0, hself, hother, hkeep, hfresh, hareas, habs,
    hheap, hcur, hcase1, hmods, hmod⟩ := Symbol__lookup_create st name hcase hindex
  unfold Symbol_make at h
  rw [hlook] at h
  simp only [if_true, Symbol_isDefined, hr0] at h
  generalize hstw : (if Set_isElement r0.attributes Symbol__Attribute_isDefined = true
    then Error_raiseWarning st1 (Warning.multipleDefinition name) else st1) = stw at h
  have fw : stw.Symbol__list = st1.Symbol__list ∧
      stw.Symbol__indexByName = st1.Symbol__indexByName ∧
      stw.segmentHeap = st1.segmentHeap ∧
      stw.Area__currentSegment = st1.Area__currentSegment ∧
      stw.Area__list = st1.Area__list ∧
      stw.Area__absoluteArea = st1.Area__absoluteArea ∧
      stw.Symbol__platformIsCaseSensitive = st1.Symbol__platformIsCaseSensitive ∧
      stw.Module__list = st1.Module__list := by
    subst hstw
    split_ifs <;> simp
  obtain ⟨fwl, fwi, fwh, fwc, fwa, fwb, fwp, fwm⟩ := fw
  simp only [Linker.updateSymbol_Area__currentSegment, Area_addSymbolToSegment,
    Linker.updateSymbol_segmentHeap] at h
  cases hc : stw.Area__currentSegment with
  | none => simp only [hc] at h; cases h
  | some seg =>
    simp only [hc] at h
    cases hg : stw.segmentHeap[seg]? with
    | none => simp only [hg] at h; cases h
    | some g0 =>
      simp only [hg, Module_addSymbol] at h
      cases hm : st1.Module__currentModule with
      | none => simp only [hm] at h; cases h
      | some m =>
        simp only [hm, Linker.updateSymbol_Module__list,
          Linker.updateSegment_Module__list, fwm] at h
        cases hmr : st1.Module__list[m]? with
        | none => simp only [hmr] at h; cases h
        | some mr =>
          simp only [hmr, Option.some.injEq, Prod.mk.injEq] at h
          obtain ⟨hst', hs⟩ := h
          subst hs
          subst hst'
          have hsymSelf : ∀ (q : Linker),
              q.Symbol__list = heapUpdate (heapUpdate (heapUpdate st1.Symbol__list s1
                (fun r => { r with startAddress := v })) s1
                (fun r => { r with definingSegment := some seg })) s1
                (fun r => { r with attributes :=
                              Set_include r.attributes Symbol__Attribute_isDefined }) →
              q.Symbol__list[s1]? = some
                { name := r0.name, definingSegment := some seg,
                  attributes := Set_include r0.attributes Symbol__Attribute_isDefined,
                  startAddress := v } := by
            intro q hq
            rw [hq]
            simp [getElem?_heapUpdate, hr0]
          have hsymOther : ∀ (q : Linker),
              q.Symbol__list = heapUpdate (heapUpdate (heapUpdate st1.Symbol__list s1
                (fun r => { r with startAddress := v })) s1
                (fun r => { r with definingSegment := some seg })) s1
                (fun r => { r with attributes :=
                              Set_include r.attributes Symbol__Attribute_isDefined }) →
              ∀ t, t ≠ s1 → q.Symbol__list[t]? = st1.Symbol__list[t]? := by
            intro q hq t ht
            rw [hq]
            have hne : s1 ≠ t := fun e => ht e.symm
            simp [getElem?_heapUpdate, hne]
          refine ⟨?_, ?_, ?_, ?_, ?_, ?_, ?_, ?_, ?_⟩
          · simp [fwa, hareas]
          · simp [fwb, habs]
          · simp [fwc, hcur]
          · simp [fwp, hcase1]
          · simp [heapUpdate_length, fwh, hheap]
          · intro g r hgr
            simp only [Linker.updateModule_segmentHeap, Linker.updateSymbol_segmentHeap,
              Linker.updateSegment_segmentHeap, fwh, hheap, getElem?_heapUpdate]
            by_cases hsg : seg = g
            · simp [hsg, hgr]
            · simp [hsg, hgr]
          · intro n t hnt
            simp only [Linker.updateModule_Symbol__indexByName,
              Linker.updateSymbol_Symbol__indexByName,
              Linker.updateSegment_Symbol__indexByName, fwi] at hnt
            by_cases hn : n = name
            · subst hn
              rw [hself] at hnt
              cases hnt
              exact ⟨_, hsymSelf _ (by simp [fwl]), hn0⟩
            · rw [hother n hn] at hnt
              obtain ⟨r, hr, hrn⟩ := hindex n t hnt
              refine ⟨r, ?_, hrn⟩
              rw [hsymOther _ (by simp [fwl]) t (hfresh n t hn hnt)]
              exact hkeep t r hr
          · refine ⟨seg, by rw [← hcur, ← fwc]; exact hc, s1, _, ?_,
              hsymSelf _ (by simp [fwl]), hn0, ?_, rfl, rfl⟩
            · simp [fwi, hself]
            · simp [Set_isElement_include]
          · intro n sg a hn hdef
            obtain ⟨t, r, hidx, hrec, hrest⟩ := hdef
            refine ⟨t, r, ?_, ?_, hrest⟩
            · simp [fwi, hother n hn, hidx]
            · rw [hsymOther _ (by simp [fwl]) t (hfresh n t hn hidx)]
              exact hkeep t r hrec

theorem String_append_left_cancel (p a b : String) (h : p ++ a = p ++ b) : a = b := by
  have hd := congrArg String.data h
  simp only [String.data_append] at hd
  exact String.ext (List.append_cancel_left hd)

theorem String_s_ne_l (a b : String) : "s_" ++ a ≠ "l_" ++ b := by
  intro h
  have hd := congrArg String.data h
  simp only [String.data_append] at hd
  have hh := congrArg List.head? hd
  simp at hh

theorem map_name_heapUpdate (l : List Area__Record) (k : Nat)
    (f : Area__Record → Area__Record) (hf : ∀ r, (f r).name = r.name) :
    (heapUpdate l k f).map (fun r => r.name) = l.map (fun r => r.name) := by
  apply List.ext_getElem?
  intro i
  simp only [List.getElem?_map, getElem?_heapUpdate]
  by_cases hki : k = i
  · subst hki
    cases l[k]? <;> simp [hf]
  · simp [hki]

theorem Area_names_ne (names : List String_Type) (hnodup : names.Nodup)
    (l : List Area__Record) (hl : l.map (fun r => r.name) = names)
    (i k : Nat) (x a : Area__Record) (hx : l[i]? = some x) (ha : l[k]? = some a)
    (hik : i ≠ k) : x.name ≠ a.name := by
  intro heq
  subst hl
  have hi : (l.map (fun r => r.name))[i]? = some x.name := by simp [hx]
  have hk : (l.map (fun r => r.name))[k]? = some a.name := by simp [ha]
  rw [← heq] at hk
  obtain ⟨hil, hie⟩ := List.getElem?_eq_some.mp hi
  obtain ⟨hkl, hke⟩ := List.getElem?_eq_some.mp hk
  exact hik ((List.Nodup.getElem_inj_iff hnodup).mp (hie.trans hke.symm))

theorem Symbol_isDefinedAt_congr (st st' : Linker) (name : String_Type) (seg v : Nat)
    (hl : st'.Symbol__list = st.Symbol__list)
    (hi : st'.Symbol__indexByName = st.Symbol__indexByName)
    (h : Symbol_isDefinedAt st name seg v) : Symbol_isDefinedAt st' name seg v := by
  unfold Symbol_isDefinedAt at h ⊢
  rw [hl, hi]
  exact h

theorem Area_linkInvariant_setStart (names : List String_Type)
    (absArea absSeg A kSeg k v : Nat) (st : Linker) (r : Area__Record)
    (hinv : Area_linkInvariant names absArea absSeg A kSeg k st)
    (hr : st.Area__list[k]? = some r)
    (hrel : Set_isElement r.attributes Area_Attribute_isAbsolute = false) :
    Area_linkInvariant names absArea absSeg A kSeg k
      (st.updateArea k (fun a => { a with startAddress := v })) := by
  obtain ⟨ar, har, harName, harAttr, harStart, harSeg⟩ := hinv.absRecord
  have hk : k ≠ absArea := by
    intro e
    subst e
    rw [har] at hr
    cases hr
    rw [harAttr.1] at hrel
    cases hrel
  refine ⟨by simpa using hinv.caseSensitive, by simpa using hinv.currentSegment, ?_, ?_,
    ?_, by simpa using hinv.absSegment, ?_, ?_⟩
  · rw [Linker.updateArea_Area__list]
    refine Eq.trans (map_name_heapUpdate _ _ _ ?_) hinv.areaNames
    intro _
    rfl
  · refine ⟨ar, ?_, harName, harAttr, harStart, harSeg⟩
    rw [Linker.updateArea_Area__list, getElem?_heapUpdate_ne _ _ _ _ hk]
    exact har
  · intro i x hx hi
    rw [Linker.updateArea_Area__list, getElem?_heapUpdate] at hx
    by_cases hki : k = i
    · subst hki
      simp only [if_true, hr, Option.map_some', Option.some.injEq] at hx
      subst hx
      exact hinv.others k r hr hi
    · simp only [hki, if_false] at hx
      exact hinv.others i x hx hi
  · intro n s hns
    exact hinv.indexConsistent n s (by simpa using hns)
  · intro i x hik hx hxn
    have hki : k ≠ i := by omega
    rw [Linker.updateArea_Area__list, getElem?_heapUpdate_ne _ _ _ _ hki] at hx
    obtain ⟨h1, h2⟩ := hinv.symbols i x hik hx hxn
    exact ⟨Symbol_isDefinedAt_congr _ _ _ _ _ (by simp) (by simp) h1,
      Symbol_isDefinedAt_congr _ _ _ _ _ (by simp) (by simp) h2⟩

theorem Area_linkInvariant_linkSegments (M : Nat) (names : List String_Type)
    (absArea absSeg A k : Nat) (st st' : Linker)
    (hinv : Area_linkInvariant names absArea absSeg A k k st)
    (h : Area__linkSegments M st k = some st') :
    Area_linkInvariant names absArea absSeg A (k + 1) k st' ∧
    ∃ r a, st.Area__list[k]? = some r ∧ st'.Area__list[k]? = some a ∧
      a.name = r.name ∧ a.startAddress = r.startAddress := by
  obtain ⟨r, size, hr, hareas, hlen, hframe, hov, habsA, hcur, hsyms, hidx, hcase⟩ :=
    Area__linkSegments_frame M st st' k h
  obtain ⟨ar, har, harName, harAttr, harStart, harSeg⟩ := hinv.absRecord
  obtain ⟨g, hg, hgA⟩ := hinv.absSegment
  refine ⟨⟨by rw [hcase]; exact hinv.caseSensitive, by rw [hcur]; exact hinv.currentSegment,
    ?_, ?_, ?_, ?_, ?_, ?_⟩, r, { r with totalSize := size }, hr, ?_, rfl, rfl⟩
  · rw [hareas]
    refine Eq.trans (map_name_heapUpdate _ _ _ ?_) hinv.areaNames
    intro _
    rfl
  · rw [hareas, getElem?_heapUpdate, har]
    by_cases hk : k = absArea
    · simp only [hk, if_true, Option.map_some']
      exact ⟨_, rfl, harName, harAttr, harStart, harSeg⟩
    · simp only [hk, if_false]
      exact ⟨_, rfl, harName, harAttr, harStart, harSeg⟩
  · intro i x hx hi
    rw [hareas, getElem?_heapUpdate] at hx
    by_cases hki : k = i
    · subst hki
      simp only [if_true, hr, Option.map_some', Option.some.injEq] at hx
      subst hx
      exact hinv.others k r hr hi
    · simp only [hki, if_false] at hx
      exact hinv.others i x hx hi
  · by_cases hk : k = absArea
    · subst hk
      have e : ar = r := by
        rw [har] at hr
        exact Option.some.inj hr
      subst e
      have hovl : Set_isElement ar.attributes Area_Attribute_hasOverlayedSegments = true :=
        harAttr.2
      obtain ⟨g', hg', hgs⟩ := hov hovl absSeg harSeg
      exact ⟨g', hg', fun _ => hgs.trans harStart⟩
    · have hnot : absSeg ∉ r.segmentList := hinv.others k r hr hk
      refine ⟨g, by rw [hframe absSeg hnot]; exact hg, ?_⟩
      intro hlt
      exact hgA (by omega)
  · intro n s hns
    rw [hidx] at hns
    rw [hsyms]
    exact hinv.indexConsistent n s hns
  · intro i x hik hx hxn
    have hki : k ≠ i := by omega
    rw [hareas, getElem?_heapUpdate_ne _ _ _ _ hki] at hx
    obtain ⟨h1, h2⟩ := hinv.symbols i x hik hx hxn
    exact ⟨Symbol_isDefinedAt_congr _ _ _ _ _ hsyms hidx h1,
      Symbol_isDefinedAt_congr _ _ _ _ _ hsyms hidx h2⟩
  · rw [hareas, getElem?_heapUpdate_self _ _ _ r hr]

theorem Area_linkInvariant_makeSymbol (names : List String_Type)
    (absArea absSeg A kSeg kSym : Nat) (st st' : Linker) (name : String_Type) (v s : Nat)
    (hinv : Area_linkInvariant names absArea absSeg A kSeg kSym st)
    (h : Symbol_make st name true v = some (st', s))
    (hnew : ∀ (i : Nat) (x : Area__Record), i < kSym → st.Area__list[i]? = some x →
      x.name ≠ Area__absoluteAreaName → "s_" ++ x.name ≠ name ∧ "l_" ++ x.name ≠ name) :
    Area_linkInvariant names absArea absSeg A kSeg kSym st' ∧
    Symbol_isDefinedAt st' name absSeg v ∧
    (∀ (n : String_Type) (seg a : Nat), n ≠ name →
      Symbol_isDefinedAt st n seg a → Symbol_isDefinedAt st' n seg a) ∧
    st'.Area__list = st.Area__list := by
  obtain ⟨hareas, _, hcur, hcase, _, hheap, hidx, ⟨seg, hseg, hdef⟩, hkeep⟩ :=
    Symbol_make_definition st st' name v s hinv.caseSensitive hinv.indexConsistent h
  have hsegEq : seg = absSeg := by
    rw [hinv.currentSegment] at hseg
    exact (Option.some.inj hseg).symm
  subst hsegEq
  refine ⟨⟨hcase, by rw [hcur]; exact hinv.currentSegment, by rw [hareas]; exact hinv.areaNames,
    by rw [hareas]; exact hinv.absRecord, by rw [hareas]; exact hinv.others, ?_, hidx, ?_⟩,
    hdef, hkeep, hareas⟩
  · obtain ⟨g, hg, hgA⟩ := hinv.absSegment
    obtain ⟨g', hg', hgs⟩ := hheap seg g hg
    exact ⟨g', hg', fun hlt => hgs.trans (hgA hlt)⟩
  · intro i x hi hx hxn
    rw [hareas] at hx
    obtain ⟨h1, h2⟩ := hinv.symbols i x hi hx hxn
    obtain ⟨n1, n2⟩ := hnew i x hi hx hxn
    exact ⟨hkeep _ _ _ n1 h1, hkeep _ _ _ n2 h2⟩

theorem Area_linkArea_step (M : Nat) (names : List String_Type) (hnodup : names.Nodup)
    (absArea absSeg A k rba rba2 : Nat) (st st2 : Linker)
    (hinv : Area_linkInvariant names absArea absSeg A k k st)
    (h : Area_linkArea M st rba k = some (st2, rba2)) :
    Area_linkInvariant names absArea absSeg A (k + 1) (k + 1) st2 := by
  unfold Area_linkArea at h
  cases hr : st.Area__list[k]? with
  | none => simp only [hr] at h; cases h
  | some r =>
    simp only [hr] at h
    -- the state after the segments of the area are linked
    have hlinked : ∀ (p : Linker × Nat),
        (if Set_isElement r.attributes Area_Attribute_isAbsolute = true then
          match Area__linkSegments M st k with
          | none => none
          | some st => some (st, rba)
        else
          match Area__linkSegments M
            (if (r.startAddress == 0) = true then
              st.updateArea k (fun a => { a with startAddress := rba })
            else st) k with
          | none => none
          | some st =>
            match st.Area__list[k]? with
            | none => none
            | some a => some (st, (a.startAddress + a.totalSize) % M)) = some p →
        Area_linkInvariant names absArea absSeg A (k + 1) k p.1 := by
      intro p hp
      by_cases habs : Set_isElement r.attributes Area_Attribute_isAbsolute = true
      · simp only [habs, if_true] at hp
        cases hl : Area__linkSegments M st k with
        | none => simp only [hl] at hp; cases hp
        | some st1 =>
          simp only [hl, Option.some.injEq] at hp
          subst hp
          exact (Area_linkInvariant_linkSegments M names absArea absSeg A k st st1 hinv hl).1
      · have hrel : Set_isElement r.attributes Area_Attribute_isAbsolute = false := by
          simpa using habs
        simp only [hrel, Bool.false_eq_true, if_false] at hp
        have hinvA : Area_linkInvariant names absArea absSeg A k k
            (if (r.startAddress == 0) = true then
              st.updateArea k (fun a => { a with startAddress := rba })
            else st) := by
          split_ifs
          · exact Area_linkInvariant_setStart names absArea absSeg A k k rba st r hinv hr hrel
          · exact hinv
        cases hl : Area__linkSegments M
            (if (r.startAddress == 0) = true then
              st.updateArea k (fun a => { a with startAddress := rba })
            else st) k with
        | none => simp only [hl] at hp; cases hp
        | some st1 =>
          simp only [hl] at hp
          cases ha : st1.Area__list[k]? with
          | none => simp only [ha] at hp; cases hp
          | some a =>
            simp only [ha, Option.some.injEq] at hp
            subst hp
            exact (Area_linkInvariant_linkSegments M names absArea absSeg A k _ st1 hinvA hl).1
    split at h
    · cases h
    · rename_i stB rbaB hB
      have hinvB := hlinked (stB, rbaB) hB
      simp only at hinvB
      cases ha : stB.Area__list[k]? with
      | none => simp only [ha] at h; cases h
      | some a =>
        simp only [ha] at h
        have hother : ∀ (i : Nat) (x : Area__Record), i < k → stB.Area__list[i]? = some x →
            x.name ≠ a.name := by
          intro i x hi hx
          exact Area_names_ne names hnodup stB.Area__list hinvB.areaNames i k x a hx ha
            (by omega)
        by_cases hname : (a.name == Area__absoluteAreaName) = true
        · simp only [hname, Bool.not_true, Bool.false_eq_true, if_false,
            Option.some.injEq, Prod.mk.injEq] at h
          obtain ⟨h1, _⟩ := h
          subst h1
          refine ⟨hinvB.caseSensitive, hinvB.currentSegment, hinvB.areaNames,
            hinvB.absRecord, hinvB.others, hinvB.absSegment, hinvB.indexConsistent, ?_⟩
          intro i x hi hx hxn
          by_cases hik : i = k
          · subst hik
            rw [ha] at hx
            cases hx
            exact absurd (by simpa using hname) hxn
          · exact hinvB.symbols i x (by omega) hx hxn
        · simp only [hname, Bool.not_false, if_true] at h
          cases hs : Symbol_make stB ("s_" ++ a.name) true a.startAddress with
          | none => simp only [hs] at h; cases h
          | some p1 =>
            obtain ⟨stC, s1⟩ := p1
            simp only [hs] at h
            cases hl2 : Symbol_make stC ("l_" ++ a.name) true a.totalSize with
            | none => simp only [hl2] at h; cases h
            | some p2 =>
              obtain ⟨stD, s2⟩ := p2
              simp only [hl2, Option.some.injEq, Prod.mk.injEq] at h
              obtain ⟨h1, _⟩ := h
              subst h1
              obtain ⟨hinvC, hdefS, _, hareasC⟩ :=
                Area_linkInvariant_makeSymbol names absArea absSeg A (k + 1) k stB stC
                  _ _ s1 hinvB hs (by
                    intro i x hi hx hxn
                    have hne := hother i x hi hx
                    exact ⟨fun e => hne (String_append_left_cancel _ _ _ e),
                      fun e => String_s_ne_l _ _ e.symm⟩)
              obtain ⟨hinvD, hdefL, hkeepD, hareasD⟩ :=
                Area_linkInvariant_makeSymbol names absArea absSeg A (k + 1) k stC stD
                  _ _ s2 hinvC hl2 (by
                    intro i x hi hx hxn
                    rw [hareasC] at hx
                    have hne := hother i x hi hx
                    exact ⟨fun e => String_s_ne_l _ _ e,
                      fun e => hne (String_append_left_cancel _ _ _ e)⟩)
              refine ⟨hinvD.caseSensitive, hinvD.currentSegment, hinvD.areaNames,
                hinvD.absRecord, hinvD.others, hinvD.absSegment, hinvD.indexConsistent, ?_⟩
              intro i x hi hx hxn
              by_cases hik : i = k
              · subst hik
                rw [hareasD, hareasC, ha] at hx
                cases hx
                exact ⟨hkeepD _ _ _ (String_s_ne_l _ _) hdefS, hdefL⟩
              · exact hinvD.symbols i x (by omega) hx hxn

theorem Area_linkLoop_invariant (M : Nat) (names : List String_Type) (hnodup : names.Nodup)
    (absArea absSeg A : Nat) :
    ∀ (rest : List Nat) (k rba : Nat) (st st' : Linker),
      rest = List.range' k rest.length →
      Area_linkInvariant names absArea absSeg A k k st →
      Area_linkLoop M rest rba st = some st' →
      Area_linkInvariant names absArea absSeg A (k + rest.length) (k + rest.length) st' := by
  intro rest
  induction rest with
  | nil =>
    intro k rba st st' _ hinv h
    simp only [Area_linkLoop, Option.some.injEq] at h
    subst h
    exact hinv
  | cons area rest ih =>
    intro k rba st st' hrange hinv h
    simp only [List.length_cons, List.range'_succ, List.cons.injEq] at hrange
    obtain ⟨harea, hrest⟩ := hrange
    subst harea
    simp only [Area_linkLoop] at h
    cases hstep : Area_linkArea M st rba area with
    | none => simp only [hstep] at h; cases h
    | some p =>
      obtain ⟨st2, rba2⟩ := p
      simp only [hstep] at h
      have hinv2 := Area_linkArea_step M names hnodup absArea absSeg A area rba rba2 st st2
        hinv hstep
      have := ih (area + 1) rba2 st2 st' hrest hinv2 h
      simpa [Nat.add_assoc, Nat.add_comm 1] using this

theorem List_lookupIndex_unique {α : Type} (hasKey : α → Bool) :
    ∀ (l : List α) (i : Nat) (x : α), l[i]? = some x → hasKey x = true →
      (∀ (j : Nat) (y : α), l[j]? = some y → hasKey y = true → j = i) →
      List_lookupIndex hasKey l = some (i, x) := by
  intro l
  induction l with
  | nil => intro i x hx; simp at hx
  | cons a rest ih =>
    intro i x hx hkey huniq
    cases i with
    | zero =>
      simp only [List.getElem?_cons_zero, Option.some.injEq] at hx
      subst hx
      simp [List_lookupIndex, hkey]
    | succ i =>
      simp only [List.getElem?_cons_succ] at hx
      have ha : hasKey a = false := by
        cases hka : hasKey a with
        | false => rfl
        | true =>
          have := huniq 0 a (by simp) hka
          omega
      have hrec := ih i x hx hkey (by
        intro j y hy hky
        have := huniq (j + 1) y (by simpa using hy) hky
        omega)
      simp [List_lookupIndex, ha, hrec]

theorem Area_makeAbsoluteSegment_invariant (st st1 : Linker) (abs : Area__Record)
    (hcase : st.Symbol__platformIsCaseSensitive = true)
    (habs : st.Area__list[st.Area__absoluteArea]? = some abs)
    (habsName : abs.name = Area__absoluteAreaName)
    (habsAbsolute : Set_isElement abs.attributes Area_Attribute_isAbsolute = true)
    (habsOverlayed : Set_isElement abs.attributes Area_Attribute_hasOverlayedSegments = true)
    (hnames : (st.Area__list.map (fun r => r.name)).Nodup)
    (hsegments : ∀ r ∈ st.Area__list, ∀ s ∈ r.segmentList, s < st.segmentHeap.length)
    (hindex : Symbol_indexIsConsistent st)
    (h : Area_makeAbsoluteSegment st = some st1) :
    Area_linkInvariant (st.Area__list.map (fun r => r.name)) st.Area__absoluteArea
      st.segmentHeap.length abs.startAddress 0 0 st1 := by
  have hlookup : List_lookupIndex (fun a => a.name == Area__absoluteAreaName) st.Area__list
      = some (st.Area__absoluteArea, abs) := by
    apply List_lookupIndex_unique _ _ _ _ habs (by simp [habsName])
    intro j y hy hky
    by_contra hne
    have hyn : y.name = Area__absoluteAreaName := by simpa using hky
    exact Area_names_ne _ hnames st.Area__list rfl j st.Area__absoluteArea y abs hy habs hne
      (hyn.trans habsName.symm)
  unfold Area_makeAbsoluteSegment at h
  simp only [habs, Area_makeSegment, Area_make, hlookup, bne_self_eq_false,
    Bool.false_eq_true, if_false, Area__makeSegment] at h
  cases hm : st.Module__currentModule with
  | none => simp only [hm] at h; cases h
  | some m =>
    simp only [hm, Module_addSegment, Linker.updateSegment_Module__currentModule,
      Linker.updateArea_Module__currentModule, Linker.setSegmentHeap_Module__currentModule,
      Linker.updateSegment_Module__list, Linker.updateArea_Module__list,
      Linker.setSegmentHeap_Module__list] at h
    cases hmr : st.Module__list[m]? with
    | none => simp only [hmr] at h; cases h
    | some mr =>
      simp only [hmr, Option.some.injEq] at h
      subst h
      refine ⟨by simpa using hcase, by simp, ?_, ?_, ?_, ?_, ?_, ?_⟩
      · simp only [Linker.setCurrentSegment_Area__list, Linker.updateModule_Area__list,
          Linker.updateSegment_Area__list, Linker.updateArea_Area__list,
          Linker.setSegmentHeap_Area__list]
        refine map_name_heapUpdate _ _ _ ?_
        intro _
        rfl
      · refine ⟨{ abs with segmentList := abs.segmentList ++ [st.segmentHeap.length] }, ?_,
          habsName, ⟨habsAbsolute, habsOverlayed⟩, rfl, by simp⟩
        simp only [Linker.setCurrentSegment_Area__list, Linker.updateModule_Area__list,
          Linker.updateSegment_Area__list, Linker.updateArea_Area__list,
          Linker.setSegmentHeap_Area__list]
        rw [getElem?_heapUpdate_self _ _ _ abs habs]
      · intro i r hr hi
        simp only [Linker.setCurrentSegment_Area__list, Linker.updateModule_Area__list,
          Linker.updateSegment_Area__list, Linker.updateArea_Area__list,
          Linker.setSegmentHeap_Area__list] at hr
        rw [getElem?_heapUpdate_ne _ _ _ _ (fun e => hi e.symm)] at hr
        intro hmem
        obtain ⟨hil, hie⟩ := List.getElem?_eq_some.mp hr
        have hrmem : r ∈ st.Area__list := hie ▸ List.getElem_mem hil
        have hlt := hsegments r hrmem _ hmem
        omega
      · refine ⟨{ parentArea := some st.Area__absoluteArea, parentModule := some m,
                  startAddress := 0, totalSize := 0, symbolList := [] }, ?_,
          fun hlt => absurd hlt (Nat.not_lt_zero _)⟩
        simp [getElem?_heapUpdate]
      · intro n s hns
        exact hindex n s (by simpa using hns)
      · intro i x hi
        exact absurd hi (Nat.not_lt_zero _)

/-- C4 (code on every input): on the case sensitive platform of this
repository, let `Area_link` return for a state whose area list starts from
`Area_initialize` (the area ".ABS." behind `Area__absoluteArea` is absolute and
overlayed, area names are distinct, segment pointers are valid, the name index
leads to records of the indexed name) and let `A` be the start address of
".ABS.".  Then for every area X other than ".ABS." the symbol table holds
defined symbols named "s_"+X and "l_"+X, and `Symbol_absoluteAddress` of them
is X's `startAddress` plus `A` and X's `totalSize` plus `A` in `Target_Address`
arithmetic (modulo `M`): the two symbols lie in the absolute segment made by
`Area_makeAbsoluteSegment`, which starts at `A`.  So the addresses are X's
`startAddress` and `totalSize` when `A` is 0 and differ from them by `A` when a
base address is given for ".ABS.". -/
theorem C4_auto_symbols (M : Nat) (st st' : Linker) (abs : Area__Record)
    (hcase : st.Symbol__platformIsCaseSensitive = true)
    (habs : st.Area__list[st.Area__absoluteArea]? = some abs)
    (habsName : abs.name = Area__absoluteAreaName)
    (habsAbsolute : Set_isElement abs.attributes Area_Attribute_isAbsolute = true)
    (habsOverlayed : Set_isElement abs.attributes Area_Attribute_hasOverlayedSegments = true)
    (hnames : (st.Area__list.map (fun r => r.name)).Nodup)
    (hsegments : ∀ r ∈ st.Area__list, ∀ s ∈ r.segmentList, s < st.segmentHeap.length)
    (hindex : Symbol_indexIsConsistent st)
    (hlink : Area_link M st = some st') :
    (∃ a, st'.Area__list[st.Area__absoluteArea]? = some a ∧
      a.name = Area__absoluteAreaName ∧ a.startAddress = abs.startAddress) ∧
    ∀ x ∈ st'.Area__list, x.name ≠ Area__absoluteAreaName →
      ∃ s l rs rl, Symbol_lookup st' ("s_" ++ x.name) = some s ∧
        Symbol_lookup st' ("l_" ++ x.name) = some l ∧
        st'.Symbol__list[s]? = some rs ∧ rs.name = "s_" ++ x.name ∧
        st'.Symbol__list[l]? = some rl ∧ rl.name = "l_" ++ x.name ∧
        Symbol_isDefined st' (some s) = some true ∧
        Symbol_isDefined st' (some l) = some true ∧
        Symbol_absoluteAddress M st' (some s)
          = some ((x.startAddress + abs.startAddress) % M) ∧
        Symbol_absoluteAddress M st' (some l)
          = some ((x.totalSize + abs.startAddress) % M) := by
  unfold Area_link at hlink
  cases h1 : Area_makeAbsoluteSegment st with
  | none => simp only [h1] at hlink; cases hlink
  | some st1 =>
    simp only [h1] at hlink
    have hinv1 := Area_makeAbsoluteSegment_invariant st st1 abs hcase habs habsName
      habsAbsolute habsOverlayed hnames hsegments hindex h1
    have hinv := Area_linkLoop_invariant M _ hnames _ _ _ _ 0 0 st1 st'
      (by simp [List.range_eq_range']) hinv1 hlink
    simp only [Nat.zero_add, List.length_range] at hinv
    obtain ⟨ar, har, harName, _, harStart, _⟩ := hinv.absRecord
    obtain ⟨g, hg, hgA⟩ := hinv.absSegment
    have hlen : st1.Area__list.length = st'.Area__list.length := by
      have e1 := congrArg List.length hinv1.areaNames
      have e2 := congrArg List.length hinv.areaNames
      simp only [List.length_map] at e1 e2
      omega
    have habsLt : st.Area__absoluteArea < st1.Area__list.length := by
      rw [hlen]
      exact (List.getElem?_eq_some.mp har).1
    have hgStart : g.startAddress = abs.startAddress := hgA habsLt
    refine ⟨⟨ar, har, harName, harStart⟩, ?_⟩
    intro x hx hxn
    obtain ⟨i, hi⟩ := List.getElem?_of_mem hx
    have hilt : i < st1.Area__list.length := by
      rw [hlen]
      exact (List.getElem?_eq_some.mp hi).1
    obtain ⟨⟨s, rs, hsIdx, hsRec, hsName, hsDef, hsStart, hsSeg⟩,
      ⟨l, rl, hlIdx, hlRec, hlName, hlDef, hlStart, hlSeg⟩⟩ := hinv.symbols i x hilt hi hxn
    have hnorm : ∀ n, Symbol__normalizedName st' n = n := by
      intro n
      simp [Symbol__normalizedName, hinv.caseSensitive]
    refine ⟨s, l, rs, rl, ?_, ?_, hsRec, hsName, hlRec, hlName, ?_, ?_, ?_, ?_⟩
    · rw [Symbol_lookup_eq, hnorm]; exact hsIdx
    · rw [Symbol_lookup_eq, hnorm]; exact hlIdx
    · simp [Symbol_isDefined, hsRec, hsDef]
    · simp [Symbol_isDefined, hlRec, hlDef]
    · simp [Symbol_absoluteAddress, hsRec, hsSeg, Area_getSegmentAddress, hg, hsStart, hgStart]
    · simp [Symbol_absoluteAddress, hlRec, hlSeg, Area_getSegmentAddress, hg, hlStart, hgStart]

/-- Witness of `C4_auto_symbols`, at the input on which the code leaves the
claim: the state `layoutExample` with the base address 0x100 for ".ABS.".
`Area_link` returns; area "CODE" has start address 0x100 and size 0x30, but
`Symbol_absoluteAddress` is 0x200 for "s_CODE" and 0x130 for "l_CODE". -/
theorem C4_auto_symbols_witness :
    ∃ st', Area_link 65536 shiftedExample = some st' ∧
      st'.Area__list.map (fun x => (x.name, x.startAddress, x.totalSize))
        = [(".ABS.", 0x100, 0), ("CODE", 0x100, 0x30), ("OVR", 0x200, 8)] ∧
      Symbol_absoluteAddress 65536 st' (Symbol_lookup st' "s_CODE") = some 0x200 ∧
      Symbol_absoluteAddress 65536 st' (Symbol_lookup st' "l_CODE") = some 0x130 ∧
      ((∃ a, st'.Area__list[0]? = some a ∧
          a.name = Area__absoluteAreaName ∧ a.startAddress = 0x100) ∧
        ∀ x ∈ st'.Area__list, x.name ≠ Area__absoluteAreaName →
          ∃ s l rs rl, Symbol_lookup st' ("s_" ++ x.name) = some s ∧
            Symbol_lookup st' ("l_" ++ x.name) = some l ∧
            st'.Symbol__list[s]? = some rs ∧ rs.name = "s_" ++ x.name ∧
            st'.Symbol__list[l]? = some rl ∧ rl.name = "l_" ++ x.name ∧
            Symbol_isDefined st' (some s) = some true ∧
            Symbol_isDefined st' (some l) = some true ∧
            Symbol_absoluteAddress 65536 st' (some s)
              = some ((x.startAddress + 0x100) % 65536) ∧
            Symbol_absoluteAddress 65536 st' (some l)
              = some ((x.totalSize + 0x100) % 65536)) :=
  ⟨_, rfl, by decide, by decide, by decide,
    C4_auto_symbols 65536 shiftedExample _
      { name := ".ABS.", attributes := 3, startAddress := 0x100, totalSize := 0,
        segmentList := [0, 5] }
      rfl (by decide) rfl (by decide) (by decide) (by decide) (by decide)
      (fun _ _ h => Option.noConfusion h) rfl⟩

/-! ### The IHX checksum for 16-bit addresses -/

theorem CodeOutput__checkSum_word (a : Nat) (h : a < 65536) :
    CodeOutput__checkSum a = (a % 256 + a / 256) % 256 := by
  have hand : ∀ x : Nat, x &&& 0xFF = x % 256 := fun x =>
    Nat.and_pow_two_sub_one_eq_mod x 8
  unfold CodeOutput__checkSum
  simp only [CodeOutput__checkSumLoop, hand]
  have h2 : a / 256 / 256 = 0 := by omega
  by_cases h0 : a > 0
  · by_cases h1 : a / 256 > 0
    · simp only [h0, h1, if_true, h2, Nat.lt_irrefl, if_false]
      omega
    · simp only [h0, h1, if_true, if_false]
      omega
  · simp only [h0, if_false]
    omega

theorem CodeOutput__addBytes_sum (bytes : List Nat) :
    ∀ c, c < 256 → CodeOutput__addBytes c bytes = (c + bytes.sum) % 256 := by
  induction bytes with
  | nil => intro c hc; simp [CodeOutput__addBytes, Nat.mod_eq_of_lt hc]
  | cons b rest ih =>
    intro c hc
    simp only [CodeOutput__addBytes, List.sum_cons]
    rw [ih _ (Nat.mod_lt _ (by decide))]
    omega

/-- The checksum byte that `CodeOutput_writeIHXLine` computes for a code
sequence at an address below 0x10000: together with the length byte, the two
address bytes and the data bytes it sums to 0 modulo 256. -/
theorem CodeOutput_ihx_checkSum_in_range (sequence : CodeSequence_Type)
    (h : sequence.offsetAddress < 65536) :
    (sequence.length + sequence.offsetAddress / 256 + sequence.offsetAddress % 256
      + (CodeSequence_bytes sequence).sum
      + ((256 - CodeOutput__addBytes
            ((sequence.length % 256 + CodeOutput__checkSum sequence.offsetAddress) % 256)
            (CodeSequence_bytes sequence)) &&& 0xFF)) % 256 = 0 := by
  have hand : ∀ x : Nat, x &&& 0xFF = x % 256 := fun x =>
    Nat.and_pow_two_sub_one_eq_mod x 8
  rw [hand, CodeOutput__addBytes_sum _ _ (Nat.mod_lt _ (by decide)),
    CodeOutput__checkSum_word _ h]
  omega

/-! ### Paged areas -/

theorem linkLoop_total (M : Nat) (ov : Bool) :
    ∀ (ids : List Nat) (address size : Nat) (heap : List Area__SegmentRecord),
      (∀ s ∈ ids, s < heap.length) →
      ∃ heap' size', Area__linkSegmentsLoop M ov ids address size heap = some (heap', size') := by
  intro ids
  induction ids with
  | nil => intro address size heap _; exact ⟨heap, size, rfl⟩
  | cons s rest ih =>
    intro address size heap hvalid
    have hslt : s < heap.length := hvalid s (List.mem_cons_self _ _)
    obtain ⟨r, hr⟩ : ∃ r, heap[s]? = some r := ⟨heap[s], List.getElem?_eq_getElem hslt⟩
    have hrest : ∀ t ∈ rest, t < (heap.set s { r with startAddress := address }).length := by
      intro t ht
      rw [List.length_set]
      exact hvalid t (List.mem_cons_of_mem _ ht)
    simp only [Area__linkSegmentsLoop, hr]
    split_ifs
    · exact ih _ _ _ hrest
    · exact ih _ _ _ hrest
    · exact ih _ _ _ hrest

/-- C13: segment layout of an area with valid segment pointers returns, and
the warnings it raises are, in this order, one "Paged Area ... Boundary Error"
if and only if the area has the attribute `hasPagedSegments` and the low byte
of its start address is not 0 (whatever its segments are), and one "Paged Area
... Length Error" if and only if the area has the attribute and its
`totalSize` after the layout is above 256; nothing else is raised, so an area
without the attribute raises nothing. -/
theorem C13_paged_warnings (M : Nat) (st : Linker) (area : Nat) (r : Area__Record)
    (harea : st.Area__list[area]? = some r)
    (hvalid : ∀ s ∈ r.segmentList, s < st.segmentHeap.length) :
    ∃ st' r', Area__linkSegments M st area = some st' ∧
      st'.Area__list[area]? = some r' ∧
      st'.warnings = st.warnings
        ++ (if Set_isElement r.attributes Area_Attribute_hasPagedSegments = true
              ∧ r.startAddress % 256 ≠ 0
            then [Warning.pagedAreaBoundaryError r.name] else [])
        ++ (if Set_isElement r.attributes Area_Attribute_hasPagedSegments = true
              ∧ r'.totalSize > 256
            then [Warning.pagedAreaLengthError r.name] else []) := by
  have hand : r.startAddress &&& 0xFF = r.startAddress % 256 :=
    Nat.and_pow_two_sub_one_eq_mod _ 8
  obtain ⟨heap', size', hloop⟩ := linkLoop_total M
    (Set_isElement r.attributes Area_Attribute_hasOverlayedSegments) r.segmentList
    r.startAddress 0 st.segmentHeap hvalid
  simp only [Area__linkSegments, harea, Error_raiseWarning_ite_segmentHeap, hloop, hand]
  refine ⟨_, { r with totalSize := size' }, rfl, ?_, ?_⟩
  · split_ifs <;> simp [getElem?_heapUpdate, harea]
  · cases hp : Set_isElement r.attributes Area_Attribute_hasPagedSegments <;>
      by_cases h1 : r.startAddress % 256 = 0 <;>
      by_cases h2 : size' > 256 <;>
      simp [hp, h1, h2, Error_raiseWarning]

/-- Witness of `C13_paged_warnings`: the paged area "PAGE" at 0x1234 with one
segment of 0x101 bytes raises both warnings, once each. -/
theorem C13_paged_warnings_witness :
    (Area__linkSegments 65536 pagedExample 1).map (fun st => st.warnings)
      = some [Warning.pagedAreaBoundaryError "PAGE", Warning.pagedAreaLengthError "PAGE"] ∧
    ∃ st' r', Area__linkSegments 65536 pagedExample 1 = some st' ∧
      st'.Area__list[1]? = some r' ∧
      st'.warnings = pagedExample.warnings
        ++ (if Set_isElement 4 Area_Attribute_hasPagedSegments = true ∧ 0x1234 % 256 ≠ 0
            then [Warning.pagedAreaBoundaryError "PAGE"] else [])
        ++ (if Set_isElement 4 Area_Attribute_hasPagedSegments = true ∧ r'.totalSize > 256
            then [Warning.pagedAreaLengthError "PAGE"] else []) :=
  ⟨by decide, C13_paged_warnings 65536 pagedExample 1
    { name := "PAGE", attributes := 4, startAddress := 0x1234, totalSize := 0,
      segmentList := [0] } rfl (by decide)⟩

/-! ### Absolute addresses of symbols -/

/-- C14: `Symbol_absoluteAddress` of a symbol is its offset when it has no
defining segment, and the start address of its defining segment plus its
offset, in `Target_Address` arithmetic (modulo `M`), otherwise.  In particular,
when a concatenated area that starts at 0 holds a segment of size 0x10 followed
by a segment of size 0x20, then after the segment layout of the area a symbol
at offset 0x0F of the second segment has the absolute address 0x1F. -/
theorem C14_absolute_address (M : Nat) (st : Linker) (symbol : Nat) (r : Symbol__Record)
    (hr : st.Symbol__list[symbol]? = some r) :
    (r.definingSegment = none →
      Symbol_absoluteAddress M st (some symbol) = some r.startAddress) ∧
    (∀ (segment : Nat) (g : Area__SegmentRecord), r.definingSegment = some segment →
      st.segmentHeap[segment]? = some g →
      Symbol_absoluteAddress M st (some symbol)
        = some ((g.startAddress + r.startAddress) % M)) ∧
    (∀ (area a b : Nat) (ra : Area__Record) (sa sb : Area__SegmentRecord),
      st.Area__list[area]? = some ra →
      Set_isElement ra.attributes Area_Attribute_hasOverlayedSegments = false →
      ra.startAddress = 0 → ra.segmentList = [a, b] → a ≠ b →
      st.segmentHeap[a]? = some sa → sa.totalSize = 0x10 →
      st.segmentHeap[b]? = some sb → sb.totalSize = 0x20 →
      r.definingSegment = some b → r.startAddress = 0x0F → 0x1F < M →
      ∃ st', Area__linkSegments M st area = some st' ∧
        Symbol_absoluteAddress M st' (some symbol) = some 0x1F) := by
  refine ⟨?_, ?_, ?_⟩
  · intro hnone
    simp [Symbol_absoluteAddress, hr, hnone]
  · intro segment g hseg hg
    simp [Symbol_absoluteAddress, hr, hseg, Area_getSegmentAddress, hg, Nat.add_comm]
  · intro area a b ra sa sb hra hcon hstart hlist hab hsa hsasize hsb hsbsize hseg hoff hM
    have hblt : b < st.segmentHeap.length := (List.getElem?_eq_some.mp hsb).1
    have halt : a < st.segmentHeap.length := (List.getElem?_eq_some.mp hsa).1
    obtain ⟨heap', hloop, _, _, hpos⟩ := linkLoop_concat M [a, b] 0 0 st.segmentHeap
      (by omega) (by omega)
      (by
        intro s hs
        rcases List.mem_cons.mp hs with e | e
        · exact e ▸ halt
        · rcases List.mem_cons.mp e with e | e
          · exact e ▸ hblt
          · exact absurd e (List.not_mem_nil s))
      (by simp [hab])
    have hb := hpos 1 b rfl
    have hsizeA : segmentSize st.segmentHeap a = 16 := by
      simp [segmentSize, hsa, hsasize]
    simp only [hsb, Option.map_some', List.take_succ_cons, List.take_zero, List.map_cons,
      List.map_nil, List.sum_cons, List.sum_nil, hsizeA] at hb
    have hw : ∀ (c : Bool) (w : Warning),
        (if c = true then Error_raiseWarning st w else st).segmentHeap
          = st.segmentHeap := by
      intro c w; cases c <;> rfl
    simp only [Area__linkSegments, hra, hcon, hstart, hlist, hw, hloop]
    refine ⟨_, rfl, ?_⟩
    have hsym : ∀ (c : Bool) (q : Linker) (w : Warning),
        q.Symbol__list = st.Symbol__list →
        (if c = true then Error_raiseWarning q w else q).Symbol__list = st.Symbol__list := by
      intro c q w hq; cases c <;> simpa using hq
    have hheap : ∀ (c : Bool) (q : Linker) (w : Warning),
        (if c = true then Error_raiseWarning q w else q).segmentHeap = q.segmentHeap := by
      intro c q w; cases c <;> rfl
    simp only [Symbol_absoluteAddress, Area_getSegmentAddress]
    rw [hsym _ _ _ (by simp), hr]
    simp only [hseg, hheap, Linker.updateArea_segmentHeap, Linker.setSegmentHeap_segmentHeap,
      hb, hoff]
    have h16 : (0 + (16 + 0)) % M = 16 := Nat.mod_eq_of_lt (by omega)
    rw [h16]
    exact congrArg some (Nat.mod_eq_of_lt (by omega))

/-- Witness of `C14_absolute_address`: in the state `addressExample` the
symbol "entry" lies at offset 0x0F of segment 2, the second segment of area
"CODE"; after the layout of "CODE" its absolute address is 0x1F. -/
theorem C14_absolute_address_witness :
    ∃ st', Area__linkSegments 65536 addressExample 1 = some st' ∧
      Symbol_absoluteAddress 65536 st' (some 0) = some 0x1F :=
  (C14_absolute_address 65536 addressExample 0
    { name := "entry", definingSegment := some 2, attributes := 1, startAddress := 0x0F }
    rfl).2.2 1 1 2
    { name := "CODE", attributes := 0, startAddress := 0, totalSize := 0,
      segmentList := [1, 2] }
    { parentArea := some 1, parentModule := some 0, startAddress := 0,
      totalSize := 0x10, symbolList := [] }
    { parentArea := some 1, parentModule := some 1, startAddress := 0,
      totalSize := 0x20, symbolList := [] }
    (by decide) (by decide) rfl rfl (by decide) (by decide) rfl (by decide) rfl rfl rfl
    (by decide)

/-! ### The Intel HEX text of the three byte sequence -/

/-- Counterexample to C19 as stated: for the code sequence 3E 42 C9 at address
0 the text written by the Intel HEX encoder in the states `inCode` and `atEnd`
is not ":033E00423E42C90D\n:00000001FF\n", and it differs from this text in
more than the letter case of its digits: the address field is 0000, not 3E00,
the record type is 00, not 42, and the checksum is B4, not 0D. -/
theorem C19_counterexample :
    CodeOutput_writeIHXLine (CodeOutput_writeIHXLine "" .inCode false helloSequence)
      .atEnd false helloSequence ≠ ":033E00423E42C90D\n:00000001FF\n" ∧
    String_convertToUpperCase
      (CodeOutput_writeIHXLine (CodeOutput_writeIHXLine "" .inCode false helloSequence)
        .atEnd false helloSequence) ≠ ":033E00423E42C90D\n:00000001FF\n" := by
  constructor <;> decide

/-- C19 (amended): for the code sequence of length 3 at address 0 with the
bytes 3E 42 C9 the Intel HEX encoder, called on an empty file in state `inCode`
and then, with any sequence and for either byte order of the target, in state
`atEnd`, writes a data record and the end record.  Read without regard to the
letter case of the hexadecimal digits (`String_convertToUpperCase`), the text
is ":030000003E42C9B4\n:00000001FF\n": the record mark, the record length 03,
the load address 0000, the record type 00, the data bytes 3E 42 C9 and the
checksum B4, then the end record. -/
theorem C19_ihx_hello (isBigEndian : Bool) (junk : CodeSequence_Type) :
    String_convertToUpperCase
      (CodeOutput_writeIHXLine
        (CodeOutput_writeIHXLine "" .inCode isBigEndian helloSequence)
        .atEnd isBigEndian junk) = ":030000003E42C9B4\n:00000001FF\n" := by
  have h : CodeOutput_writeIHXLine "" .inCode isBigEndian helloSequence
      = CodeOutput_writeIHXLine "" .inCode false helloSequence := rfl
  have h2 : CodeOutput_writeIHXLine "" .inCode false helloSequence
      = ":030000003e42c9b4\n" := by decide
  rw [h, h2]
  have h3 : CodeOutput_writeIHXLine ":030000003e42c9b4\n" .atEnd isBigEndian junk
      = ":030000003e42c9b4\n:00000001FF\n" := rfl
  rw [h3]
  decide

/-! ### Base addresses in `Area_link` -/

theorem Symbol__lookup_frame (st : Linker) (name : String_Type) (isCreated : Bool) :
    (Symbol__lookup st name isCreated).1.Area__list = st.Area__list ∧
    (Symbol__lookup st name isCreated).1.segmentHeap = st.segmentHeap ∧
    (Symbol__lookup st name isCreated).1.Module__list = st.Module__list ∧
    (Symbol__lookup st name isCreated).1.Module__currentModule = st.Module__currentModule ∧
    (Symbol__lookup st name isCreated).1.Area__currentSegment = st.Area__currentSegment ∧
    (Symbol__lookup st name isCreated).1.warnings = st.warnings := by
  unfold Symbol__lookup
  dsimp only
  cases Map_lookup st.Symbol__indexByName (Symbol__normalizedName st name) with
  | some s => simp
  | none => cases isCreated <;> simp

theorem Symbol_make_Area__list (st st' : Linker) (name : String_Type) (isDefinition : Bool)
    (v s : Nat) (h : Symbol_make st name isDefinition v = some (st', s)) :
    st'.Area__list = st.Area__list := by
  unfold Symbol_make at h
  have hf := (Symbol__lookup_frame st name true).1
  rcases hl : Symbol__lookup st name true with ⟨st1, nm, _ | s1⟩
  · rw [hl] at h
    cases h
  · rw [hl] at h hf
    simp only at h hf
    split at h
    · cases h
    · rename_i stB hB
      split at h
      · cases h
      · rename_i stC hC
        simp only [Option.some.injEq, Prod.mk.injEq] at h
        obtain ⟨h1, _⟩ := h
        subst h1
        have hCB : stC.Area__list = stB.Area__list := by
          unfold Module_addSymbol at hC
          split at hC
          · cases hC
          · split at hC
            · cases hC
            · simp only [Option.some.injEq] at hC
              subst hC
              simp
        rw [hCB]
        cases isDefinition with
        | false =>
          simp only [Bool.false_eq_true, if_false, Option.some.injEq] at hB
          subst hB
          split_ifs <;> simpa using hf
        | true =>
          simp only [if_true] at hB
          split at hB
          · cases hB
          · rename_i isDefined hD
            unfold Area_addSymbolToSegment at hB
            split at hB
            · cases hB
            · split at hB
              · cases hB
              · simp only [Option.some.injEq] at hB
                subst hB
                split_ifs <;> simpa using hf

theorem Area_linkArea_areas (M : Nat) (st st2 : Linker) (rba rba2 k : Nat)
    (h : Area_linkArea M st rba k = some (st2, rba2)) :
    ∃ r r2, st.Area__list[k]? = some r ∧ st2.Area__list[k]? = some r2 ∧
      r2.name = r.name ∧ r2.attributes = r.attributes ∧
      r2.startAddress =
        (if Set_isElement r.attributes Area_Attribute_isAbsolute = true then r.startAddress
         else if r.startAddress = 0 then rba else r.startAddress) ∧
      rba2 =
        (if Set_isElement r.attributes Area_Attribute_isAbsolute = true then rba
         else (r2.startAddress + r2.totalSize) % M) ∧
      st2.Area__list.length = st.Area__list.length ∧
      ∀ i, i ≠ k → st2.Area__list[i]? = st.Area__list[i]? := by
  unfold Area_linkArea at h
  cases hr : st.Area__list[k]? with
  | none => simp only [hr] at h; cases h
  | some r =>
    simp only [hr] at h
    -- the state after the segments of the area are linked
    have hlinked : ∀ (p : Linker × Nat),
        (if Set_isElement r.attributes Area_Attribute_isAbsolute = true then
          match Area__linkSegments M st k with
          | none => none
          | some st => some (st, rba)
        else
          match Area__linkSegments M
            (if (r.startAddress == 0) = true then
              st.updateArea k (fun a => { a with startAddress := rba })
            else st) k with
          | none => none
          | some st =>
            match st.Area__list[k]? with
            | none => none
            | some a => some (st, (a.startAddress + a.totalSize) % M)) = some p →
        ∃ r2, p.1.Area__list[k]? = some r2 ∧
          r2.name = r.name ∧ r2.attributes = r.attributes ∧
          r2.startAddress =
            (if Set_isElement r.attributes Area_Attribute_isAbsolute = true then r.startAddress
             else if r.startAddress = 0 then rba else r.startAddress) ∧
          p.2 =
            (if Set_isElement r.attributes Area_Attribute_isAbsolute = true then rba
             else (r2.startAddress + r2.totalSize) % M) ∧
          p.1.Area__list.length = st.Area__list.length ∧
          ∀ i, i ≠ k → p.1.Area__list[i]? = st.Area__list[i]? := by
      intro p hp
      by_cases habs : Set_isElement r.attributes Area_Attribute_isAbsolute = true
      · simp only [habs, if_true] at hp ⊢
        cases hl : Area__linkSegments M st k with
        | none => simp only [hl] at hp; cases hp
        | some st1 =>
          simp only [hl, Option.some.injEq] at hp
          subst hp
          obtain ⟨r', size, hr', hareas, _⟩ := Area__linkSegments_frame M st st1 k hl
          rw [hr] at hr'
          cases hr'
          refine ⟨{ r with totalSize := size }, ?_, rfl, rfl, rfl, rfl, ?_, ?_⟩
          · simp only [hareas]
            rw [getElem?_heapUpdate_self _ _ _ r hr]
          · simp only [hareas, heapUpdate_length]
          · intro i hi
            simp only [hareas]
            exact getElem?_heapUpdate_ne _ _ _ _ (fun e => hi e.symm)
      · have hrel : Set_isElement r.attributes Area_Attribute_isAbsolute = false := by
          simpa using habs
        simp only [hrel, Bool.false_eq_true, if_false] at hp ⊢
        by_cases hzero : r.startAddress = 0
        · have hz : (r.startAddress == 0) = true := by simp [hzero]
          simp only [hz, if_true] at hp
          cases hl : Area__linkSegments M
              (st.updateArea k (fun a => { a with startAddress := rba })) k with
          | none => simp only [hl] at hp; cases hp
          | some st1 =>
            simp only [hl] at hp
            obtain ⟨r', size, hr', hareas, _⟩ := Area__linkSegments_frame M _ st1 k hl
            rw [Linker.updateArea_Area__list, getElem?_heapUpdate_self _ _ _ r hr] at hr'
            cases hr'
            have hk : st1.Area__list[k]? = some
                { name := r.name, attributes := r.attributes, startAddress := rba,
                  totalSize := size, segmentList := r.segmentList } := by
              rw [hareas, Linker.updateArea_Area__list, getElem?_heapUpdate]
              simp [getElem?_heapUpdate, hr]
            simp only [hk, Option.some.injEq] at hp
            subst hp
            refine ⟨_, hk, rfl, rfl, by simp [hzero], rfl, ?_, ?_⟩
            · simp only [hareas, heapUpdate_length, Linker.updateArea_Area__list]
            · intro i hi
              have hne : k ≠ i := fun e => hi e.symm
              simp only [hareas, Linker.updateArea_Area__list]
              rw [getElem?_heapUpdate_ne _ _ _ _ hne, getElem?_heapUpdate_ne _ _ _ _ hne]
        · have hz : (r.startAddress == 0) = false := by simp [hzero]
          simp only [hz, Bool.false_eq_true, if_false] at hp
          cases hl : Area__linkSegments M st k with
          | none => simp only [hl] at hp; cases hp
          | some st1 =>
            simp only [hl] at hp
            obtain ⟨r', size, hr', hareas, _⟩ := Area__linkSegments_frame M _ st1 k hl
            rw [hr] at hr'
            cases hr'
            have hk : st1.Area__list[k]? = some { r with totalSize := size } := by
              rw [hareas, getElem?_heapUpdate_self _ _ _ r hr]
            simp only [hk, Option.some.injEq] at hp
            subst hp
            refine ⟨_, hk, rfl, rfl, by simp [hzero], rfl, ?_, ?_⟩
            · simp only [hareas, heapUpdate_length]
            · intro i hi
              simp only [hareas]
              exact getElem?_heapUpdate_ne _ _ _ _ (fun e => hi e.symm)
    split at h
    · cases h
    · rename_i stB rbaB hB
      obtain ⟨r2, hr2, hname, hattr, hstart, hrba, hlen, hother⟩ := hlinked (stB, rbaB) hB
      simp only at hr2 hrba hlen hother
      simp only [hr2] at h
      have hfin : st2.Area__list = stB.Area__list ∧ rba2 = rbaB := by
        split_ifs at h
        · cases hs : Symbol_make stB ("s_" ++ r2.name) true r2.startAddress with
          | none => simp only [hs] at h; cases h
          | some p1 =>
            obtain ⟨stC, s1⟩ := p1
            simp only [hs] at h
            cases hl2 : Symbol_make stC ("l_" ++ r2.name) true r2.totalSize with
            | none => simp only [hl2] at h; cases h
            | some p2 =>
              obtain ⟨stD, s2⟩ := p2
              simp only [hl2, Option.some.injEq, Prod.mk.injEq] at h
              obtain ⟨h1, h2⟩ := h
              subst h1
              exact ⟨(Symbol_make_Area__list _ _ _ _ _ _ hl2).trans
                (Symbol_make_Area__list _ _ _ _ _ _ hs), h2.symm⟩
        · simp only [Option.some.injEq, Prod.mk.injEq] at h
          exact ⟨by rw [← h.1], h.2.symm⟩
      obtain ⟨hA, hR⟩ := hfin
      refine ⟨r, r2, rfl, by rw [hA]; exact hr2, hname, hattr, hstart, by rw [hR]; exact hrba,
        by rw [hA]; exact hlen, ?_⟩
      intro i hi
      rw [hA]
      exact hother i hi

theorem take_congr_getElem? {α : Type} (l1 l2 : List α) (k : Nat)
    (h : ∀ i, i < k → l1[i]? = l2[i]?) : l1.take k = l2.take k := by
  apply List.ext_getElem?
  intro i
  simp only [List.getElem?_take]
  split_ifs with hi
  · exact h i hi
  · rfl

theorem take_succ_getElem? {α : Type} (l : List α) (k : Nat) (x : α) (h : l[k]? = some x) :
    l.take (k + 1) = l.take k ++ [x] := by
  rw [List.take_succ, h]
  rfl

theorem Area_runningAddress_append (M : Nat) (l : List Area__Record) (a : Area__Record) :
    Area_runningAddress M (l ++ [a])
      = (if Set_isElement a.attributes Area_Attribute_isAbsolute = true
         then Area_runningAddress M l else (a.startAddress + a.totalSize) % M) := by
  simp [Area_runningAddress, List.foldl_append]

theorem Area_linkLoop_addresses (M : Nat) :
    ∀ (rest : List Nat) (k rba : Nat) (st st' : Linker),
      rest = List.range' k rest.length →
      st.Area__list.length = k + rest.length →
      rba = Area_runningAddress M (st.Area__list.take k) →
      Area_linkLoop M rest rba st = some st' →
      st'.Area__list.length = st.Area__list.length ∧
      (∀ i, i < k → st'.Area__list[i]? = st.Area__list[i]?) ∧
      (∀ (i : Nat) (r : Area__Record), k ≤ i → st.Area__list[i]? = some r →
        ∃ r', st'.Area__list[i]? = some r' ∧ r'.name = r.name ∧
          r'.attributes = r.attributes ∧
          r'.startAddress =
            (if Set_isElement r.attributes Area_Attribute_isAbsolute = true
             then r.startAddress
             else if r.startAddress = 0
               then Area_runningAddress M (st'.Area__list.take i)
               else r.startAddress)) := by
  intro rest
  induction rest with
  | nil =>
    intro k rba st st' _ hlen _ h
    simp only [Area_linkLoop, Option.some.injEq] at h
    subst h
    refine ⟨rfl, fun _ _ => rfl, ?_⟩
    intro i r hki hr
    have := (List.getElem?_eq_some.mp hr).1
    simp only [List.length_nil, Nat.add_zero] at hlen
    omega
  | cons area rest ih =>
    intro k rba st st' hrange hlen hrba h
    simp only [List.length_cons, List.range'_succ, List.cons.injEq] at hrange
    obtain ⟨harea, hrest⟩ := hrange
    subst harea
    simp only [Area_linkLoop] at h
    cases hstep : Area_linkArea M st rba area with
    | none => simp only [hstep] at h; cases h
    | some p =>
      obtain ⟨st2, rba2⟩ := p
      simp only [hstep] at h
      obtain ⟨r, r2, hr, hr2, hname, hattr, hstart, hrba2, hlen2, hother⟩ :=
        Area_linkArea_areas M st st2 rba rba2 area hstep
      have htake : st2.Area__list.take area = st.Area__list.take area :=
        take_congr_getElem? _ _ _ (fun i hi => hother i (by omega))
      have hrun2 : rba2 = Area_runningAddress M (st2.Area__list.take (area + 1)) := by
        rw [take_succ_getElem? _ _ _ hr2, Area_runningAddress_append, htake, hattr, ← hrba]
        exact hrba2
      obtain ⟨hlen', hlow, hhigh⟩ := ih (area + 1) rba2 st2 st' hrest
        (by rw [hlen2, hlen, List.length_cons]; omega) hrun2 h
      refine ⟨hlen'.trans hlen2, ?_, ?_⟩
      · intro i hi
        rw [hlow i (by omega)]
        exact hother i (by omega)
      · intro i x hki hx
        by_cases hik : i = area
        · subst hik
          rw [hr] at hx
          cases hx
          have htake' : st'.Area__list.take i = st.Area__list.take i :=
            (take_congr_getElem? _ _ _ (fun j hj => hlow j (by omega))).trans htake
          refine ⟨r2, by rw [hlow i (by omega)]; exact hr2, hname, hattr, ?_⟩
          rw [htake', ← hrba]
          exact hstart
        · have hx2 : st2.Area__list[i]? = some x := by
            rw [hother i hik]
            exact hx
          exact hhigh i x (by omega) hx2

theorem Area_make_frame (st : Linker) (n : String_Type) (A : Set_Type) :
    (Area_make st n A).1.segmentHeap = st.segmentHeap ∧
    (Area_make st n A).1.Module__currentModule = st.Module__currentModule ∧
    (Area_make st n A).1.Module__list = st.Module__list ∧
    ∀ (i : Nat) (r : Area__Record), st.Area__list[i]? = some r →
      (Area_make st n A).1.Area__list[i]? = some r := by
  unfold Area_make
  cases hl : List_lookupIndex (fun a => a.name == n) st.Area__list with
  | none =>
    simp only [Area__init, Linker.setAreaList_segmentHeap,
      Linker.setAreaList_Module__currentModule, Linker.setAreaList_Module__list,
      Linker.setAreaList_Area__list, true_and]
    intro i r hr
    have hlt : i < st.Area__list.length := (List.getElem?_eq_some.mp hr).1
    rw [List.getElem?_append_left hlt]
    exact hr
  | some p =>
    obtain ⟨area, x⟩ := p
    simp only
    split_ifs
    · exact ⟨rfl, rfl, rfl, fun _ _ h => h⟩
    · exact ⟨rfl, rfl, rfl, fun _ _ h => h⟩

theorem Area_makeAbsoluteSegment_areas (st st1 : Linker)
    (h : Area_makeAbsoluteSegment st = some st1) :
    ∀ (i : Nat) (r : Area__Record), st.Area__list[i]? = some r →
      ∃ r1, st1.Area__list[i]? = some r1 ∧ r1.name = r.name ∧
        r1.attributes = r.attributes ∧ r1.startAddress = r.startAddress := by
  unfold Area_makeAbsoluteSegment at h
  cases habs : st.Area__list[st.Area__absoluteArea]? with
  | none => simp only [habs] at h; cases h
  | some abs =>
    simp only [habs, Area_makeSegment] at h
    obtain ⟨_, _, _, hkeep⟩ := Area_make_frame st Area__absoluteAreaName abs.attributes
    rcases hm : Area_make st Area__absoluteAreaName abs.attributes with ⟨stA, area⟩
    rw [hm] at h hkeep
    simp only [Area__makeSegment] at h hkeep
    cases hmod : stA.Module__currentModule with
    | none => simp only [hmod] at h; cases h
    | some m =>
      simp only [hmod, Module_addSegment, Linker.updateSegment_Module__currentModule,
        Linker.updateArea_Module__currentModule, Linker.setSegmentHeap_Module__currentModule,
        Linker.updateSegment_Module__list, Linker.updateArea_Module__list,
        Linker.setSegmentHeap_Module__list] at h
      cases hmr : stA.Module__list[m]? with
      | none => simp only [hmr] at h; cases h
      | some mr =>
        simp only [hmr, Option.some.injEq] at h
        subst h
        intro i r hr
        have hA := hkeep i r hr
        simp only [Linker.setCurrentSegment_Area__list, Linker.updateModule_Area__list,
          Linker.updateSegment_Area__list, Linker.updateArea_Area__list,
          Linker.setSegmentHeap_Area__list, getElem?_heapUpdate, hA]
        split_ifs
        · exact ⟨_, rfl, rfl, rfl, rfl⟩
        · exact ⟨_, rfl, rfl, rfl, rfl⟩

/-- The start addresses after `Area_link`: an absolute area and an area with
a start address other than 0 keep their start address, every other area gets
the running address of the areas before it. -/
theorem Area_link_addresses (M : Nat) (st st' : Linker) (h : Area_link M st = some st') :
    ∀ (k : Nat) (r : Area__Record), st.Area__list[k]? = some r →
      ∃ r', st'.Area__list[k]? = some r' ∧ r'.name = r.name ∧
        r'.attributes = r.attributes ∧
        r'.startAddress =
          (if Set_isElement r.attributes Area_Attribute_isAbsolute = true
           then r.startAddress
           else if r.startAddress = 0
             then Area_runningAddress M (st'.Area__list.take k)
             else r.startAddress) := by
  unfold Area_link at h
  cases h1 : Area_makeAbsoluteSegment st with
  | none => simp only [h1] at h; cases h
  | some st1 =>
    simp only [h1] at h
    obtain ⟨_, _, hhigh⟩ := Area_linkLoop_addresses M _ 0 0 st1 st'
      (by simp [List.range_eq_range']) (by simp)
      (by simp [Area_runningAddress]) h
    intro k r hr
    obtain ⟨r1, hr1, hn1, ha1, hs1⟩ := Area_makeAbsoluteSegment_areas st st1 h1 k r hr
    obtain ⟨r', hr', hn, ha, hs⟩ := hhigh k r1 (Nat.zero_le _) hr1
    refine ⟨r', hr', hn.trans hn1, ha.trans ha1, ?_⟩
    rw [hs, ha1, hs1]

theorem Area_runningAddress_absolute (M : Nat) (l2 : List Area__Record)
    (h : ∀ b ∈ l2, Set_isElement b.attributes Area_Attribute_isAbsolute = true) :
    ∀ (l : List Area__Record), Area_runningAddress M (l ++ l2) = Area_runningAddress M l := by
  induction l2 using List.reverseRecOn with
  | nil => intro l; simp
  | append_singleton l2 b ih =>
    intro l
    rw [← List.append_assoc, Area_runningAddress_append,
      h b (List.mem_append_right _ (List.mem_singleton_self b)), if_pos rfl]
    exact ih (fun x hx => h x (List.mem_append_left _ hx)) l

theorem Area_runningAddress_nearest (M : Nat) (L : List Area__Record) (k : Nat) :
    ((∀ (j : Nat) (a : Area__Record), j < k → L[j]? = some a →
        Set_isElement a.attributes Area_Attribute_isAbsolute = true) →
      Area_runningAddress M (L.take k) = 0) ∧
    (∀ (j : Nat) (a : Area__Record), j < k → L[j]? = some a →
      Set_isElement a.attributes Area_Attribute_isAbsolute = false →
      (∀ (i : Nat) (b : Area__Record), j < i → i < k → L[i]? = some b →
        Set_isElement b.attributes Area_Attribute_isAbsolute = true) →
      Area_runningAddress M (L.take k) = (a.startAddress + a.totalSize) % M) := by
  constructor
  · intro hall
    have h := Area_runningAddress_absolute M (L.take k) (by
      intro b hb
      obtain ⟨n, hn⟩ := List.getElem?_of_mem hb
      rw [List.getElem?_take] at hn
      split_ifs at hn with hnk
      · exact hall n b hnk hn) []
    simpa [Area_runningAddress] using h
  · intro j a hj ha hrel hbetween
    have hsplit : L.take k = (L.take j ++ [a]) ++ (L.take k).drop (j + 1) := by
      have h1 : (L.take k).take (j + 1) = L.take j ++ [a] := by
        rw [List.take_take, Nat.min_eq_left (by omega)]
        exact take_succ_getElem? L j a ha
      rw [← h1, List.take_append_drop]
    rw [hsplit, Area_runningAddress_absolute M _ (by
      intro b hb
      obtain ⟨n, hn⟩ := List.getElem?_of_mem hb
      rw [List.getElem?_drop, List.getElem?_take] at hn
      split_ifs at hn with hnk
      · exact hbetween (j + 1 + n) b (by omega) hnk hn), Area_runningAddress_append, hrel]
    simp

/-- C11: let `Area_link` return, and let an area be relocatable (without the
attribute `isAbsolute`) with the start address 0 that `Area__init` gave it, no
base address having been set.  Then its start address after `Area_link` is 0
when every area before it in the area list is absolute, and otherwise the start
address plus the total size (in `Target_Address` arithmetic, modulo `M`) of the
nearest relocatable area before it, whatever absolute areas lie in between.
Names and attributes of the areas are those from before the call. -/
theorem C11_running_start_address (M : Nat) (st st' : Linker) (k : Nat) (r : Area__Record)
    (hlink : Area_link M st = some st')
    (hr : st.Area__list[k]? = some r)
    (hrel : Set_isElement r.attributes Area_Attribute_isAbsolute = false)
    (hzero : r.startAddress = 0) :
    (∀ (j : Nat) (a0 : Area__Record), st.Area__list[j]? = some a0 →
      ∃ a, st'.Area__list[j]? = some a ∧ a.name = a0.name ∧ a.attributes = a0.attributes) ∧
    ∃ r', st'.Area__list[k]? = some r' ∧
      ((∀ (j : Nat) (a : Area__Record), j < k → st'.Area__list[j]? = some a →
          Set_isElement a.attributes Area_Attribute_isAbsolute = true) →
        r'.startAddress = 0) ∧
      (∀ (j : Nat) (a : Area__Record), j < k → st'.Area__list[j]? = some a →
        Set_isElement a.attributes Area_Attribute_isAbsolute = false →
        (∀ (i : Nat) (b : Area__Record), j < i → i < k → st'.Area__list[i]? = some b →
          Set_isElement b.attributes Area_Attribute_isAbsolute = true) →
        r'.startAddress = (a.startAddress + a.totalSize) % M) := by
  have hall := Area_link_addresses M st st' hlink
  refine ⟨?_, ?_⟩
  · intro j a0 ha0
    obtain ⟨a, ha, hn, hat, _⟩ := hall j a0 ha0
    exact ⟨a, ha, hn, hat⟩
  · obtain ⟨r', hr', _, _, hs⟩ := hall k r hr
    rw [hrel, hzero] at hs
    simp only [Bool.false_eq_true, if_false, if_true] at hs
    obtain ⟨hnone, hnear⟩ := Area_runningAddress_nearest M st'.Area__list k
    refine ⟨r', hr', ?_, ?_⟩
    · intro h
      rw [hs]
      exact hnone h
    · intro j a hj ha hrela hbetween
      rw [hs]
      exact hnear j a hj ha hrela hbetween

/-- Witness of `C11_running_start_address`: in `zeroBaseExample` the area "OVR"
(pointer 2) has the start address 0; after `Area_link` it starts at 0x130, the
end of the area "CODE" before it (0x100 + 0x30). -/
theorem C11_running_start_address_witness :
    ∃ st', Area_link 65536 zeroBaseExample = some st' ∧
      st'.Area__list.map (fun x => (x.name, x.startAddress, x.totalSize))
        = [(".ABS.", 0, 0), ("CODE", 0x100, 0x30), ("OVR", 0x130, 8)] ∧
      ((∀ (j : Nat) (a0 : Area__Record), zeroBaseExample.Area__list[j]? = some a0 →
        ∃ a, st'.Area__list[j]? = some a ∧ a.name = a0.name ∧
          a.attributes = a0.attributes) ∧
      ∃ r', st'.Area__list[2]? = some r' ∧
        ((∀ (j : Nat) (a : Area__Record), j < 2 → st'.Area__list[j]? = some a →
            Set_isElement a.attributes Area_Attribute_isAbsolute = true) →
          r'.startAddress = 0) ∧
        (∀ (j : Nat) (a : Area__Record), j < 2 → st'.Area__list[j]? = some a →
          Set_isElement a.attributes Area_Attribute_isAbsolute = false →
          (∀ (i : Nat) (b : Area__Record), j < i → i < 2 → st'.Area__list[i]? = some b →
            Set_isElement b.attributes Area_Attribute_isAbsolute = true) →
          r'.startAddress = (a.startAddress + a.totalSize) % 65536)) :=
  ⟨_, rfl, by decide,
    C11_running_start_address 65536 zeroBaseExample _ 2
      { name := "OVR", attributes := 2, startAddress := 0, totalSize := 0,
        segmentList := [3, 4] }
      rfl rfl (by decide) rfl⟩

/-- Counterexample to C12 as stated: the relocatable area "OVR" is given the
base address 0 by `Area_setBaseAddresses`; after `Area_link` its start address
is 0x130, the end of the area "CODE" before it, not 0. -/
theorem C12_counterexample :
    (Area_link 65536 (Area_setBaseAddresses layoutExample "OVR" 0)).map
      (fun st' => st'.Area__list.map (fun x => (x.name, x.startAddress)))
      = some [(".ABS.", 0), ("CODE", 0x100), ("OVR", 0x130)] := by
  decide

/-- C12 (amended): let a relocatable area be given the base address `v` by
`Area_setBaseAddresses` right before `Area_link`, and let `Area_link` return.
When `v` is not 0 the start address of the area afterwards is `v`, whatever
areas precede it.  When `v` is 0 the area is placed like an area without a
base address: its start address is the running address of the areas before
it. -/
theorem C12_base_address (M : Nat) (st0 st' : Linker) (name : String_Type) (v k : Nat)
    (r : Area__Record)
    (hlink : Area_link M (Area_setBaseAddresses st0 name v) = some st')
    (hr : st0.Area__list[k]? = some r) (hname : r.name = name)
    (hrel : Set_isElement r.attributes Area_Attribute_isAbsolute = false) :
    ∃ r', st'.Area__list[k]? = some r' ∧ r'.name = name ∧
      (v ≠ 0 → r'.startAddress = v) ∧
      (v = 0 → r'.startAddress = Area_runningAddress M (st'.Area__list.take k)) := by
  have hk : (Area_setBaseAddresses st0 name v).Area__list[k]?
      = some { r with startAddress := v } := by
    simp [Area_setBaseAddresses, hr, hname]
  obtain ⟨r', hr', hn, _, hs⟩ := Area_link_addresses M _ st' hlink k _ hk
  simp only [hrel, Bool.false_eq_true, if_false] at hs
  refine ⟨r', hr', hn.trans hname, ?_, ?_⟩
  · intro hv
    rw [hs, if_neg hv]
  · intro hv
    rw [hs, if_pos hv]

/-- Witness of `C12_base_address`: the area "CODE" of `layoutExample` with the
base address 0x400 starts at 0x400 after `Area_link`. -/
theorem C12_base_address_witness :
    ∃ st', Area_link 65536 (Area_setBaseAddresses layoutExample "CODE" 0x400) = some st' ∧
      ∃ r', st'.Area__list[1]? = some r' ∧ r'.name = "CODE" ∧
        (0x400 ≠ 0 → r'.startAddress = 0x400) ∧
        (0x400 = 0 → r'.startAddress = Area_runningAddress 65536 (st'.Area__list.take 1)) :=
  ⟨_, rfl, C12_base_address 65536 layoutExample _ "CODE" 0x400 1
    { name := "CODE", attributes := 0, startAddress := 0x100, totalSize := 0,
      segmentList := [1, 2] }
    rfl rfl rfl (by decide)⟩

/-! ### Names of symbols and letter case -/

theorem Char_toUpper_toUpper (c : Char) : c.toUpper.toUpper = c.toUpper := by
  by_cases h : 97 ≤ c.toNat ∧ c.toNat ≤ 122
  · have hc : c = Char.ofNat c.toNat := (Char.ofNat_toNat c).symm
    obtain ⟨hlo, hhi⟩ := h
    rw [hc]
    generalize c.toNat = n at hlo hhi
    interval_cases n <;> decide
  · have : c.toUpper = c := by
      unfold Char.toUpper
      simp only [ge_iff_le, h, if_false]
    rw [this, this]

theorem String_convertToUpperCase_idempotent (n : String_Type) :
    String_convertToUpperCase (String_convertToUpperCase n) = String_convertToUpperCase n := by
  unfold String_convertToUpperCase
  simp [List.map_map, Function.comp_def, Char_toUpper_toUpper]

theorem Symbol__lookup_create_normalized (st : Linker) (name : String_Type)
    (hindex : Symbol_indexIsConsistent st) :
    ∃ st1 s r0,
      Symbol__lookup st name true = (st1, Symbol__normalizedName st name, some s) ∧
      st1.Symbol__list[s]? = some r0 ∧ r0.name = Symbol__normalizedName st name ∧
      (Symbol_isDefined st (Symbol_lookup st name) = some true ↔
        Set_isElement r0.attributes Symbol__Attribute_isDefined = true) ∧
      Map_lookup st1.Symbol__indexByName (Symbol__normalizedName st name) = some s ∧
      (∀ n, n ≠ Symbol__normalizedName st name →
        Map_lookup st1.Symbol__indexByName n = Map_lookup st.Symbol__indexByName n) ∧
      (∀ (t : Nat) (r : Symbol__Record),
        st.Symbol__list[t]? = some r → st1.Symbol__list[t]? = some r) ∧
      (∀ (n : String_Type) (t : Nat), n ≠ Symbol__normalizedName st name →
        Map_lookup st.Symbol__indexByName n = some t → t ≠ s) ∧
      st1.Area__list = st.Area__list ∧
      st1.Area__absoluteArea = st.Area__absoluteArea ∧
      st1.segmentHeap = st.segmentHeap ∧
      st1.Area__currentSegment = st.Area__currentSegment ∧
      st1.Symbol__platformIsCaseSensitive = st.Symbol__platformIsCaseSensitive ∧
      st1.Module__list = st.Module__list ∧
      st1.Module__currentModule = st.Module__currentModule ∧
      st1.warnings = st.warnings := by
  have hlook := Symbol_lookup_eq st name
  unfold Symbol__lookup
  dsimp only
  generalize Symbol__normalizedName st name = nm at hlook ⊢
  cases hl : Map_lookup st.Symbol__indexByName nm with
  | some s =>
    obtain ⟨r0, hr0, hn0⟩ := hindex nm s hl
    rw [hl] at hlook
    refine ⟨st, s, r0, rfl, hr0, hn0, ?_, hl, fun _ _ => rfl, fun _ _ h => h, ?_,
      rfl, rfl, rfl, rfl, rfl, rfl, rfl, rfl⟩
    · rw [hlook]
      simp [Symbol_isDefined, hr0]
    · intro n t hne hnt hts
      subst hts
      obtain ⟨r, hr, hn⟩ := hindex n t hnt
      rw [hr0] at hr
      cases hr
      exact hne (hn.symm.trans hn0)
  | none =>
    rw [hl] at hlook
    simp only [if_true]
    refine ⟨_, _, { name := nm, definingSegment := none, attributes := 0,
                    startAddress := 0 }, rfl, ?_, rfl, ?_, ?_, ?_, ?_, ?_, ?_⟩
    · simp
    · rw [hlook]
      simp only [Symbol_isDefined]
      constructor
      · intro h; cases h
      · intro h; revert h; decide
    · simp [Map_lookup_set_self]
    · intro n hne
      simp [Map_lookup_set_other _ _ _ _ hne]
    · intro t r hr
      have hlt : t < st.Symbol__list.length := (List.getElem?_eq_some.mp hr).1
      simp [List.getElem?_append_left hlt, hr]
    · intro n t _ hnt hts
      obtain ⟨r, hr, _⟩ := hindex n t hnt
      have hlt : t < st.Symbol__list.length := (List.getElem?_eq_some.mp hr).1
      omega
    · simp

theorem Symbol_indexIsConsistent_lookup (st : Linker) (name : String_Type)
    (hindex : Symbol_indexIsConsistent st) :
    Symbol_indexIsConsistent (Symbol__lookup st name true).1 := by
  obtain ⟨st1, s, r0, hlook, hr0, hn0, _, hself, hother, hkeep, _⟩ :=
    Symbol__lookup_create_normalized st name hindex
  rw [hlook]
  intro n t hnt
  by_cases hn : n = Symbol__normalizedName st name
  · subst hn
    simp only at hnt
    rw [hself] at hnt
    cases hnt
    exact ⟨r0, hr0, hn0⟩
  · simp only at hnt
    rw [hother n hn] at hnt
    obtain ⟨r, hr, hrn⟩ := hindex n t hnt
    exact ⟨r, hkeep t r hr, hrn⟩

/-- C15: on a platform that is not case sensitive `Symbol_lookup` of a name
and of its upper-case form give the same result, and a symbol that
`Symbol__lookup` creates for a name `n` is a record named by the upper-case
form of `n`, entered in the name index under that form and found by both
spellings.  On a case sensitive platform two different names (in particular
two that differ only in letter case) for which symbols are created one after
the other denote two different symbol records, each carrying its own name. -/
theorem C15_letter_case :
    (∀ (st : Linker) (n : String_Type), st.Symbol__platformIsCaseSensitive = false →
      Symbol_lookup st n = Symbol_lookup st (String_convertToUpperCase n)) ∧
    (∀ (st : Linker) (n : String_Type), st.Symbol__platformIsCaseSensitive = false →
      Symbol_lookup st n = none →
      ∃ st' s r, Symbol__lookup st n true = (st', String_convertToUpperCase n, some s) ∧
        st'.Symbol__list[s]? = some r ∧ r.name = String_convertToUpperCase n ∧
        Map_lookup st'.Symbol__indexByName (String_convertToUpperCase n) = some s ∧
        Symbol_lookup st' n = some s ∧
        Symbol_lookup st' (String_convertToUpperCase n) = some s) ∧
    (∀ (st : Linker) (n1 n2 : String_Type), st.Symbol__platformIsCaseSensitive = true →
      Symbol_indexIsConsistent st → n1 ≠ n2 →
      ∃ st1 st2 s1 s2 r1 r2, Symbol__lookup st n1 true = (st1, n1, some s1) ∧
        Symbol__lookup st1 n2 true = (st2, n2, some s2) ∧ s1 ≠ s2 ∧
        Symbol_lookup st2 n1 = some s1 ∧ Symbol_lookup st2 n2 = some s2 ∧
        st2.Symbol__list[s1]? = some r1 ∧ r1.name = n1 ∧
        st2.Symbol__list[s2]? = some r2 ∧ r2.name = n2) := by
  refine ⟨?_, ?_, ?_⟩
  · intro st n hcase
    rw [Symbol_lookup_eq, Symbol_lookup_eq]
    simp [Symbol__normalizedName, hcase, String_convertToUpperCase_idempotent]
  · intro st n hcase hnone
    have hnm : ∀ (q : Linker) (x : String_Type), q.Symbol__platformIsCaseSensitive = false →
        Symbol__normalizedName q x = String_convertToUpperCase x := by
      intro q x hq
      simp [Symbol__normalizedName, hq]
    rw [Symbol_lookup_eq, hnm st n hcase] at hnone
    simp only [Symbol__lookup, hnm st n hcase, hnone, if_true]
    refine ⟨_, _, { name := String_convertToUpperCase n, definingSegment := none,
                    attributes := 0, startAddress := 0 }, rfl, ?_, rfl, ?_, ?_, ?_⟩
    · simp
    · simp [Map_lookup_set_self]
    · rw [Symbol_lookup_eq, hnm _ n (by simpa using hcase)]
      simp [Map_lookup_set_self]
    · rw [Symbol_lookup_eq, hnm _ _ (by simpa using hcase),
        String_convertToUpperCase_idempotent]
      simp [Map_lookup_set_self]
  · intro st n1 n2 hcase hindex hne
    have hnm : ∀ (q : Linker) (x : String_Type), q.Symbol__platformIsCaseSensitive = true →
        Symbol__normalizedName q x = x := by
      intro q x hq
      simp [Symbol__normalizedName, hq]
    obtain ⟨st1, s1, r1, hlook1, hr1, hn1, _, hself1, _, _, _, _, _, _, _, hcase1, _⟩ :=
      Symbol__lookup_create_normalized st n1 hindex
    have hindex1 : Symbol_indexIsConsistent st1 := by
      have := Symbol_indexIsConsistent_lookup st n1 hindex
      rw [hlook1] at this
      exact this
    rw [hcase] at hcase1
    obtain ⟨st2, s2, r2, hlook2, hr2, hn2, _, hself2, hother2, hkeep2, hfresh2, _, _, _, _,
      hcase2, _⟩ := Symbol__lookup_create_normalized st1 n2 hindex1
    rw [hcase1] at hcase2
    rw [hnm st n1 hcase] at hlook1 hn1 hself1
    rw [hnm st1 n2 hcase1] at hlook2 hn2 hself2 hother2 hfresh2
    refine ⟨st1, st2, s1, s2, r1, r2, hlook1, hlook2, hfresh2 n1 s1 hne hself1, ?_, ?_,
      hkeep2 s1 r1 hr1, hn1, hr2, hn2⟩
    · rw [Symbol_lookup_eq, hnm st2 n1 hcase2, hother2 n1 hne]
      exact hself1
    · rw [Symbol_lookup_eq, hnm st2 n2 hcase2]
      exact hself2

/-- Witness of `C15_letter_case`: without case sensitivity "foo" is stored and
found as "FOO"; with case sensitivity "foo" and "FOO" are the symbols 0 and
1. -/
theorem C15_letter_case_witness :
    Symbol_lookup (Symbol__lookup (Linker_initialState false) "foo" true).1 "foo"
      = Symbol_lookup (Symbol__lookup (Linker_initialState false) "foo" true).1 "FOO" ∧
    (∃ st' s r, Symbol__lookup (Linker_initialState false) "foo" true
        = (st', String_convertToUpperCase "foo", some s) ∧
      st'.Symbol__list[s]? = some r ∧ r.name = String_convertToUpperCase "foo" ∧
      Map_lookup st'.Symbol__indexByName (String_convertToUpperCase "foo") = some s ∧
      Symbol_lookup st' "foo" = some s ∧
      Symbol_lookup st' (String_convertToUpperCase "foo") = some s) ∧
    (∃ st1 st2 s1 s2 r1 r2,
      Symbol__lookup (Linker_initialState true) "foo" true = (st1, "foo", some s1) ∧
      Symbol__lookup st1 "FOO" true = (st2, "FOO", some s2) ∧ s1 ≠ s2 ∧
      Symbol_lookup st2 "foo" = some s1 ∧ Symbol_lookup st2 "FOO" = some s2 ∧
      st2.Symbol__list[s1]? = some r1 ∧ r1.name = "foo" ∧
      st2.Symbol__list[s2]? = some r2 ∧ r2.name = "FOO") :=
  ⟨C15_letter_case.1 _ "foo" rfl,
    C15_letter_case.2.1 (Linker_initialState false) "foo" rfl rfl,
    C15_letter_case.2.2 (Linker_initialState true) "foo" "FOO" rfl
      (fun _ _ h => Option.noConfusion h) (by decide)⟩

/-! ### `Symbol_make` -/

/-- C16: in a state with a current module (and, for a definition, a current
segment) `Symbol_make(name, isDefinition, addr)` returns a symbol that is found
under `name`.  It raises the warning "Multiple definition of symbol" if and
only if `isDefinition` holds and the symbol of that name existed and was
defined before the call, the warning "Non-zero address field in symbol
reference" if and only if `isDefinition` is false and `addr` is not 0, and no
other warning.  Afterwards the symbol has the attribute `isDefined` for a
definition and `isReferenced` for a reference, and it is the last entry of the
symbol list of the current module, whose earlier entries are unchanged. -/
theorem C16_symbol_make (st : Linker) (name : String_Type) (isDefinition : Bool)
    (addr m : Nat) (mr : Module__Record)
    (hindex : Symbol_indexIsConsistent st)
    (hmod : st.Module__currentModule = some m) (hmr : st.Module__list[m]? = some mr)
    (hseg : isDefinition = true →
      ∃ seg g, st.Area__currentSegment = some seg ∧ st.segmentHeap[seg]? = some g) :
    ∃ st' s r' mr', Symbol_make st name isDefinition addr = some (st', s) ∧
      Symbol_lookup st' name = some s ∧ st'.Symbol__list[s]? = some r' ∧
      st'.warnings = st.warnings
        ++ (if isDefinition = true ∧ Symbol_isDefined st (Symbol_lookup st name) = some true
            then [Warning.multipleDefinition (Symbol__normalizedName st name)] else [])
        ++ (if isDefinition = false ∧ addr ≠ 0
            then [Warning.nonZeroAddressInReference (Symbol__normalizedName st name)]
            else []) ∧
      Set_isElement r'.attributes
        (if isDefinition = true then Symbol__Attribute_isDefined
         else Symbol__Attribute_isReferenced) = true ∧
      st'.Module__currentModule = some m ∧ st'.Module__list[m]? = some mr' ∧
      mr'.symbolList = mr.symbolList ++ [s] := by
  obtain ⟨st1, s1, r0, hlook, hr0, hn0, hwas, hself, _, _, _, _, _, hheap, hcur, hcase1,
    hmods, hmod1, hwarn⟩ := Symbol__lookup_create_normalized st name hindex
  have hnorm : ∀ (q : Linker),
      q.Symbol__platformIsCaseSensitive = st.Symbol__platformIsCaseSensitive →
      Symbol__normalizedName q name = Symbol__normalizedName st name := by
    intro q hq
    simp [Symbol__normalizedName, hq]
  have hfound : ∀ (q : Linker),
      q.Symbol__platformIsCaseSensitive = st.Symbol__platformIsCaseSensitive →
      q.Symbol__indexByName = st1.Symbol__indexByName → Symbol_lookup q name = some s1 := by
    intro q h1 h2
    rw [Symbol_lookup_eq, hnorm q h1, h2]
    exact hself
  unfold Symbol_make
  rw [hlook]
  cases isDefinition with
  | false =>
    simp only [Bool.false_eq_true, if_false, false_and, List.append_nil, true_and,
      Module_addSymbol, hmod1, hmod]
    have hml : ∀ (q : Linker), q.Module__list = st1.Module__list →
        q.Module__list[m]? = some mr := by
      intro q hq
      rw [hq, hmods]
      exact hmr
    by_cases haddr : addr = 0
    · simp only [haddr, bne_self_eq_false, Bool.false_eq_true, if_false, ne_eq,
        not_true_eq_false, Linker.updateSymbol_Module__list, hmods, hmr]
      refine ⟨_, _,
        { r0 with attributes := Set_include r0.attributes Symbol__Attribute_isReferenced },
        { mr with symbolList := mr.symbolList ++ [s1] }, rfl, ?_, ?_, ?_, ?_, ?_, ?_, ?_⟩
      · exact hfound _ (by simp [hcase1]) (by simp)
      · simp only [Linker.updateModule_Symbol__list, Linker.updateSymbol_Symbol__list]
        exact getElem?_heapUpdate_self _ _ _ r0 hr0
      · simp [hwarn]
      · simp [Set_isElement_include]
      · simp [hmod1, hmod]
      · simp only [Linker.updateModule_Module__list, Linker.updateSymbol_Module__list, hmods]
        exact getElem?_heapUpdate_self _ _ _ mr hmr
      · rfl
    · have hb : (addr != 0) = true := by simp [haddr]
      simp only [hb, if_true, ne_eq, haddr, not_false_eq_true,
        Linker.updateSymbol_Module__list, Error_raiseWarning_Module__list, hmods, hmr]
      refine ⟨_, _,
        { r0 with attributes := Set_include r0.attributes Symbol__Attribute_isReferenced },
        { mr with symbolList := mr.symbolList ++ [s1] }, rfl, ?_, ?_, ?_, ?_, ?_, ?_, ?_⟩
      · exact hfound _ (by simp [hcase1]) (by simp)
      · simp only [Linker.updateModule_Symbol__list, Linker.updateSymbol_Symbol__list,
          Error_raiseWarning_Symbol__list]
        exact getElem?_heapUpdate_self _ _ _ r0 hr0
      · simp [hwarn, Error_raiseWarning]
      · simp [Set_isElement_include]
      · simp [hmod1, hmod]
      · simp only [Linker.updateModule_Module__list, Linker.updateSymbol_Module__list,
          Error_raiseWarning_Module__list, hmods]
        exact getElem?_heapUpdate_self _ _ _ mr hmr
      · rfl
  | true =>
    obtain ⟨seg, g, hsegc, hg⟩ := hseg rfl
    simp only [if_true, Symbol_isDefined, hr0, true_and, Bool.true_eq_false, false_and,
      if_false, List.append_nil]
    generalize hstw : (if Set_isElement r0.attributes Symbol__Attribute_isDefined = true
      then Error_raiseWarning st1 (Warning.multipleDefinition (Symbol__normalizedName st name))
      else st1) = stw
    have fw : stw.Symbol__list = st1.Symbol__list ∧
        stw.Symbol__indexByName = st1.Symbol__indexByName ∧
        stw.segmentHeap = st1.segmentHeap ∧
        stw.Area__currentSegment = st1.Area__currentSegment ∧
        stw.Symbol__platformIsCaseSensitive = st1.Symbol__platformIsCaseSensitive ∧
        stw.Module__list = st1.Module__list ∧
        stw.Module__currentModule = st1.Module__currentModule ∧
        stw.warnings = st.warnings
          ++ (if Symbol_isDefined st (Symbol_lookup st name) = some true
              then [Warning.multipleDefinition (Symbol__normalizedName st name)] else []) := by
      subst hstw
      by_cases hd : Set_isElement r0.attributes Symbol__Attribute_isDefined = true
      · simp [hd, hwas.mpr hd, Error_raiseWarning, hwarn]
      · have hnot : ¬ Symbol_isDefined st (Symbol_lookup st name) = some true :=
          fun h => hd (hwas.mp h)
        simp [hd, hnot, hwarn]
    obtain ⟨fwl, fwi, fwh, fwc, fwp, fwm, fwcm, fww⟩ := fw
    simp only [Linker.updateSymbol_Area__currentSegment, Area_addSymbolToSegment,
      Linker.updateSymbol_segmentHeap, fwc, hcur, hsegc, fwh, hheap, hg, Module_addSymbol,
      hmod1, hmod, Linker.updateSymbol_Module__list, Linker.updateSegment_Module__list,
      fwm, hmods, hmr]
    refine ⟨_, _,
      { name := r0.name, definingSegment := some seg, startAddress := addr,
        attributes := Set_include r0.attributes Symbol__Attribute_isDefined },
      { mr with symbolList := mr.symbolList ++ [s1] }, rfl, ?_, ?_, ?_, ?_, ?_, ?_, ?_⟩
    · exact hfound _ (by simp [fwp, hcase1]) (by simp [fwi])
    · simp only [Linker.updateModule_Symbol__list, Linker.updateSymbol_Symbol__list,
        Linker.updateSegment_Symbol__list, fwl]
      simp [getElem?_heapUpdate, hr0]
    · simp [fww, Symbol_isDefined]
    · simp [Set_isElement_include]
    · simp [fwcm, hmod1, hmod]
    · simp only [Linker.updateModule_Module__list, Linker.updateSymbol_Module__list,
        Linker.updateSegment_Module__list, fwm, hmods]
      exact getElem?_heapUpdate_self _ _ _ mr hmr
    · rfl

theorem splitExample_indexIsConsistent : Symbol_indexIsConsistent splitExample := by
  intro name s h
  by_cases hn : name = "proc"
  · subst hn
    have h0 : Map_lookup splitExample.Symbol__indexByName "proc" = some 0 := by decide
    rw [h0] at h
    cases h
    exact ⟨_, rfl, rfl⟩
  · have h0 : Map_lookup splitExample.Symbol__indexByName name = none := by
      show Map_lookup (Map_set Map_make "proc" 0) name = none
      rw [Map_lookup_set_other _ _ _ _ hn]
      rfl
    rw [h0] at h
    cases h

/-- Witness of `C16_symbol_make`: in `splitExample` the symbol "proc" is
defined; a second definition in the current module "M0" raises the warning
"Multiple definition of symbol", and the symbol becomes the last entry of the
symbol list of "M0". -/
theorem C16_symbol_make_witness :
    (Symbol_make splitExample "proc" true 7).map
        (fun p => (p.1.warnings, p.2, (p.1.Module__list[1]?).map (fun x => x.symbolList)))
      = some ([Warning.multipleDefinition "proc"], 0, some [0, 0]) ∧
    ∃ st' s r' mr', Symbol_make splitExample "proc" true 7 = some (st', s) ∧
      Symbol_lookup st' "proc" = some s ∧ st'.Symbol__list[s]? = some r' ∧
      st'.warnings = splitExample.warnings
        ++ (if true = true
              ∧ Symbol_isDefined splitExample (Symbol_lookup splitExample "proc") = some true
            then [Warning.multipleDefinition (Symbol__normalizedName splitExample "proc")]
            else [])
        ++ (if true = false ∧ 7 ≠ 0
            then [Warning.nonZeroAddressInReference
                    (Symbol__normalizedName splitExample "proc")]
            else []) ∧
      Set_isElement r'.attributes
        (if true = true then Symbol__Attribute_isDefined
         else Symbol__Attribute_isReferenced) = true ∧
      st'.Module__currentModule = some 1 ∧ st'.Module__list[1]? = some mr' ∧
      mr'.symbolList = [0] ++ [s] :=
  ⟨by decide,
    C16_symbol_make splitExample "proc" true 7 1
      { name := "M0", segmentCount := 1, symbolCount := 1,
        associatedFileName := "m0.o", segmentList := [2, 3], symbolList := [0] }
      splitExample_indexIsConsistent rfl rfl
      (fun _ => ⟨3, _, rfl, rfl⟩)⟩

/-! ### Splitting a symbol: references and definition -/

/-- Counterexample to C17 as stated: in the state `splitExample` the symbol
"proc" (pointer 0) is defined and not a surrogate; `Symbol_makeBySplit` with
its own name "proc" as the new name returns the symbol 0, and the symbol found
under the name "proc" afterwards is this one record, which is not defined. -/
theorem C17_counterexample :
    (Symbol_makeBySplit splitExample 0 "proc").map
        (fun p => (p.2, Symbol_lookup p.1 "proc",
          Symbol_isDefined p.1 (Symbol_lookup p.1 "proc")))
      = some (0, some 0, some false) := by
  decide

/-- C17 (amended): let `old` be a defined symbol that is not a surrogate, found
under the name `S`, with a valid defining segment in the module `m`, and let
`N` be a name whose lookup does not yield `old` itself.  Then
`Symbol_makeBySplit(old, N)` returns the symbol `old`, which now carries the
name `N`, is found under `N`, and is referenced but not defined.  Every module
other than the defining module `m` keeps its symbol list, so every entry that
referred to `old` refers to the returned symbol.  The symbol now found under
`S` is another record that carries the original name, is defined, not
referenced, and has the defining segment and offset that `old` had. -/
theorem C17_split_references (st : Linker) (S N : String_Type) (old : Nat)
    (r : Symbol__Record) (seg : Nat) (sr : Area__SegmentRecord) (m : Nat)
    (mr : Module__Record)
    (hindex : Symbol_indexIsConsistent st)
    (hS : Symbol_lookup st S = some old)
    (hr : st.Symbol__list[old]? = some r)
    (hdef : Set_isElement r.attributes Symbol__Attribute_isDefined = true)
    (hsur : Set_isElement r.attributes Symbol__Attribute_isSurrogate = false)
    (hseg : r.definingSegment = some seg) (hsr : st.segmentHeap[seg]? = some sr)
    (hm : sr.parentModule = some m) (hmr : st.Module__list[m]? = some mr)
    (hN : Symbol_lookup st N ≠ some old) :
    ∃ st' returned p rq rp,
      Symbol_makeBySplit st old N = some (st', returned) ∧ returned = old ∧
      Symbol_lookup st' N = some returned ∧ st'.Symbol__list[returned]? = some rq ∧
      rq.name = Symbol__normalizedName st N ∧
      Set_isElement rq.attributes Symbol__Attribute_isReferenced = true ∧
      Set_isElement rq.attributes Symbol__Attribute_isDefined = false ∧
      (∀ (m' : Nat) (mr' : Module__Record), m' ≠ m → st.Module__list[m']? = some mr' →
        st'.Module__list[m']? = some mr' ∧
        ∀ (i : Nat), mr'.symbolList[i]? = some old →
          ∃ mr'', st'.Module__list[m']? = some mr'' ∧
            mr''.symbolList[i]? = some returned) ∧
      Symbol_lookup st' S = some p ∧ p ≠ returned ∧ st'.Symbol__list[p]? = some rp ∧
      rp.name = r.name ∧
      Set_isElement rp.attributes Symbol__Attribute_isDefined = true ∧
      Set_isElement rp.attributes Symbol__Attribute_isReferenced = false ∧
      rp.definingSegment = r.definingSegment ∧ rp.startAddress = r.startAddress := by
  have hSold := hS
  rw [Symbol_lookup_eq] at hSold
  have hname : r.name = Symbol__normalizedName st S := by
    obtain ⟨r', hr', hn'⟩ := hindex _ _ hSold
    rw [hr] at hr'
    cases hr'
    exact hn'
  have hne : Symbol__normalizedName st S ≠ Symbol__normalizedName st N := by
    intro h
    apply hN
    rw [Symbol_lookup_eq, ← h]
    exact hSold
  obtain ⟨st1, fresh, r0, hlk, hr0, _, _, _, _, hkeep, hfresh, _, _, h1h, _, h1c, h1m, _, _⟩ :=
    Symbol__lookup_create_normalized st N hindex
  have hof : old ≠ fresh := hfresh _ _ hne hSold
  have h1p : st1.Symbol__list[old]? = some r := hkeep old r hr
  have h1i : st1.Symbol__indexByName = (Symbol__lookup st N true).1.Symbol__indexByName := by
    rw [hlk]
  obtain ⟨st2, hswap, h2p, h2f, h2i, h2c, h2h, h2m⟩ :=
    Symbol__splitSwap_spec st1 old fresh r.name
      (Symbol__normalizedName st N) r.definingSegment r r0 h1p hr0 hof
  obtain ⟨h3p, h3f, h3i, h3c, h3h, h3m⟩ :=
    Symbol__splitFlags_spec st2 old fresh _ _ h2p h2f hof
  obtain ⟨st3, hst3⟩ : ∃ st3, st3 = Symbol__splitFlags st2 old fresh := ⟨_, rfl⟩
  rw [← hst3] at h3p h3f h3i h3c h3h h3m
  have hres : ∃ st5, Symbol_makeBySplit st old N = some (st5, old) ∧
      st5.Symbol__list = st3.Symbol__list ∧
      st5.Symbol__indexByName = st3.Symbol__indexByName ∧
      st5.Symbol__platformIsCaseSensitive = st3.Symbol__platformIsCaseSensitive ∧
      ∀ (m' : Nat), m' ≠ m → st5.Module__list[m']? = st3.Module__list[m']? := by
    have hm3 : st3.Module__list[m]? = some mr := by rw [h3m, h2m, h1m, hmr]
    have hs3 : st3.segmentHeap[seg]? = some sr := by rw [h3h, h2h, h1h, hsr]
    rw [hseg] at hswap
    simp only [Symbol_makeBySplit, hr, hdef, hsur, Area_getSegmentModule, hseg, hsr, hm, hlk,
      hswap, ← hst3, Module_replaceSymbol, hm3, Area_replaceSegmentSymbol,
      Linker.updateModule_segmentHeap, hs3, Bool.not_true, Bool.false_eq_true, if_false]
    refine ⟨_, rfl, rfl, rfl, rfl, ?_⟩
    intro m' hm'
    simp only [Linker.updateSegment_Module__list, Linker.updateModule_Module__list]
    exact getElem?_heapUpdate_ne _ _ _ _ (fun e => hm' e.symm)
  obtain ⟨st5, hsplit, h5l, h5i, h5c, h5m⟩ := hres
  have hidx : st5.Symbol__indexByName
      = Map_set (Map_set st1.Symbol__indexByName (Symbol__normalizedName st N) old)
          (Symbol__normalizedName st S) fresh := by
    rw [h5i, h3i, h2i, hname]
  have hnorm : ∀ X, Symbol__normalizedName st5 X = Symbol__normalizedName st X := by
    intro X
    simp only [Symbol__normalizedName, h5c, h3c, h2c, h1c]
  have hlookN : Symbol_lookup st5 N = some old := by
    rw [Symbol_lookup_eq, hnorm, hidx, Map_lookup_set_other _ _ _ _ (Ne.symm hne),
      Map_lookup_set_self]
  have hlookS : Symbol_lookup st5 S = some fresh := by
    rw [Symbol_lookup_eq, hnorm, hidx, Map_lookup_set_self]
  rw [← h5l] at h3p h3f
  have hdefined : Set_isElement (Set_exclude r.attributes Symbol__Attribute_isReferenced)
      Symbol__Attribute_isDefined = true := by
    rw [Set_isElement_exclude, hdef]
    decide
  have hunref : Set_isElement (Set_exclude r.attributes Symbol__Attribute_isReferenced)
      Symbol__Attribute_isReferenced = false := by
    rw [Set_isElement_exclude]
    simp
  have hflags :
      Set_isElement (Set_include (Set_make Symbol__Attribute_isReferenced)
          Symbol__Attribute_isSurrogate) Symbol__Attribute_isReferenced = true ∧
      Set_isElement (Set_include (Set_make Symbol__Attribute_isReferenced)
          Symbol__Attribute_isSurrogate) Symbol__Attribute_isDefined = false := by
    decide
  refine ⟨st5, old, fresh, _, _, hsplit, rfl, hlookN, h3p, rfl, hflags.1, hflags.2, ?_,
    hlookS, Ne.symm hof, h3f, rfl, hdefined, hunref, rfl, rfl⟩
  intro m' mr' hm' hmr'
  have hkeepM : st5.Module__list[m']? = some mr' := by
    rw [h5m m' hm', h3m, h2m, h1m]
    exact hmr'
  exact ⟨hkeepM, fun i hi => ⟨mr', hkeepM, hi⟩⟩

/-- Witness of `C17_split_references` in the state `splitExample`: the symbol
"proc", defined in module "M1" and listed by module "M0", is split with the
new name "_BCproc". -/
theorem C17_split_references_witness :
    (Symbol_makeBySplit splitExample 0 "_BCproc").map
        (fun p => (p.2, p.1.Symbol__list.map (fun x => (x.name, x.attributes)),
          p.1.Module__list.map (fun x => x.symbolList)))
      = some (0, [("_BCproc", 6), ("proc", 1)], [[1], [0]]) ∧
    ∃ st' returned p rq rp,
      Symbol_makeBySplit splitExample 0 "_BCproc" = some (st', returned) ∧ returned = 0 ∧
      Symbol_lookup st' "_BCproc" = some returned ∧
      st'.Symbol__list[returned]? = some rq ∧
      rq.name = Symbol__normalizedName splitExample "_BCproc" ∧
      Set_isElement rq.attributes Symbol__Attribute_isReferenced = true ∧
      Set_isElement rq.attributes Symbol__Attribute_isDefined = false ∧
      (∀ (m' : Nat) (mr' : Module__Record), m' ≠ 0 →
        splitExample.Module__list[m']? = some mr' →
        st'.Module__list[m']? = some mr' ∧
        ∀ (i : Nat), mr'.symbolList[i]? = some 0 →
          ∃ mr'', st'.Module__list[m']? = some mr'' ∧
            mr''.symbolList[i]? = some returned) ∧
      Symbol_lookup st' "proc" = some p ∧ p ≠ returned ∧ st'.Symbol__list[p]? = some rp ∧
      rp.name = "proc" ∧
      Set_isElement rp.attributes Symbol__Attribute_isDefined = true ∧
      Set_isElement rp.attributes Symbol__Attribute_isReferenced = false ∧
      rp.definingSegment = some 1 ∧ rp.startAddress = 5 :=
  ⟨by decide,
    C17_split_references splitExample "proc" "_BCproc" 0
      { name := "proc", definingSegment := some 1, attributes := 3, startAddress := 5 }
      1 { parentArea := some 1, parentModule := some 0, startAddress := 0,
          totalSize := 16, symbolList := [0] }
      0 { name := "M1", segmentCount := 1, symbolCount := 1,
          associatedFileName := "m1.o", segmentList := [0, 1], symbolList := [0] }
      splitExample_indexIsConsistent (by decide) rfl (by decide) (by decide) rfl rfl rfl rfl
      (by decide)⟩

/-! ### The report of undefined symbols -/

theorem Symbol__listLookup_spec (st : Linker) (key : String_Type) :
    ∀ (list : List Nat), (∀ p ∈ list, p < st.Symbol__list.length) →
      ∃ result, Symbol__listLookup st key list = some result ∧
        (result.isSome = list.any (fun p =>
          match st.Symbol__list[p]? with
          | some r => r.name == key
          | none => false)) := by
  intro list
  induction list with
  | nil => intro _; exact ⟨none, rfl, rfl⟩
  | cons p rest ih =>
    intro hvalid
    have hp : p < st.Symbol__list.length := hvalid p (List.mem_cons_self _ _)
    obtain ⟨r, hr⟩ : ∃ r, st.Symbol__list[p]? = some r :=
      ⟨st.Symbol__list[p], List.getElem?_eq_getElem hp⟩
    obtain ⟨res, hres, hany⟩ := ih (fun q hq => hvalid q (List.mem_cons_of_mem _ hq))
    simp only [Symbol__listLookup, hr, List.any_cons]
    by_cases hk : (r.name == key) = true
    · simp [hk]
    · have hkf : (r.name == key) = false := by simpa using hk
      simp only [hkf, Bool.false_eq_true, if_false, Bool.false_or]
      exact ⟨res, hres, hany⟩

theorem String_push_newline (s : String) : s.push '\n' = s ++ "\n" := by
  apply String.ext
  simp

theorem Symbol__checkModules_spec (st : Linker) (symbolName : String_Type)
    (hvalid : ∀ mr ∈ st.Module__list, ∀ p ∈ mr.symbolList, p < st.Symbol__list.length) :
    ∀ (modules : List Nat) (file : File_Type),
      (∀ m ∈ modules, m < st.Module__list.length) →
      Symbol__checkModules st symbolName modules file
        = some (File_writeLines file
            ((modules.filter (Module_listsSymbolName st symbolName)).map
              (fun m => "Undefined Global " ++ symbolName ++ " referenced by module "
                ++ Module_nameOf st m ++ "\n"))) := by
  intro modules
  induction modules with
  | nil => intro file _; simp [Symbol__checkModules, File_writeLines]
  | cons m rest ih =>
    intro file hmods
    have hm : m < st.Module__list.length := hmods m (List.mem_cons_self _ _)
    obtain ⟨mr, hmr⟩ : ∃ mr, st.Module__list[m]? = some mr :=
      ⟨st.Module__list[m], List.getElem?_eq_getElem hm⟩
    have hmem : mr ∈ st.Module__list := by
      obtain ⟨hl, he⟩ := List.getElem?_eq_some.mp hmr
      exact he ▸ List.getElem_mem hl
    obtain ⟨res, hres, hany⟩ := Symbol__listLookup_spec st symbolName mr.symbolList
      (hvalid mr hmem)
    have hrest := fun f => ih f (fun q hq => hmods q (List.mem_cons_of_mem _ hq))
    have hlists : Module_listsSymbolName st symbolName m = res.isSome := by
      rw [hany]
      simp [Module_listsSymbolName, hmr]
    have hname : Module_nameOf st m = mr.name := by simp [Module_nameOf, hmr]
    simp only [Symbol__checkModules, hmr, hres]
    cases res with
    | none =>
      have hf : Module_listsSymbolName st symbolName m = false := by rw [hlists]; rfl
      simp only [hrest, List.filter_cons, hf, Bool.false_eq_true, if_false]
    | some q =>
      have ht : Module_listsSymbolName st symbolName m = true := by rw [hlists]; rfl
      simp only [hrest, List.filter_cons, ht, if_true, List.map_cons, hname, File_writeLines,
        List.foldl_cons, File_writeChar, File_writeString, File_writeCharArray,
        String_push_newline, String.append_assoc]

/-- The pairs of an undefined symbol and a module that lists a symbol of its
name, in the order of the report. -/
theorem Symbol__checkSymbols_spec (st : Linker)
    (hvalid : ∀ mr ∈ st.Module__list, ∀ p ∈ mr.symbolList, p < st.Symbol__list.length) :
    ∀ (symbols : List Nat) (file : File_Type),
      (∀ s ∈ symbols, s < st.Symbol__list.length) →
      Symbol__checkSymbols st symbols file
        = some (File_writeLines file
            ((symbols.flatMap (fun s =>
                ((List.range st.Module__list.length).filter
                  (Module_listsSymbolName st (Symbol_nameOf st s))).map (fun m => (s, m)))).map
              (Symbol_undefinedLine st))) := by
  intro symbols
  induction symbols with
  | nil => intro file _; simp [Symbol__checkSymbols, File_writeLines]
  | cons s rest ih =>
    intro file hsyms
    have hs : s < st.Symbol__list.length := hsyms s (List.mem_cons_self _ _)
    obtain ⟨r, hr⟩ : ∃ r, st.Symbol__list[s]? = some r :=
      ⟨st.Symbol__list[s], List.getElem?_eq_getElem hs⟩
    have hname : Symbol_nameOf st s = r.name := by simp [Symbol_nameOf, hr]
    have hmods := Symbol__checkModules_spec st r.name hvalid
      (List.range st.Module__list.length) file (fun m hm => List.mem_range.mp hm)
    simp only [Symbol__checkSymbols, hr, hmods,
      ih _ (fun q hq => hsyms q (List.mem_cons_of_mem _ hq)), List.flatMap_cons, List.map_append,
      hname, File_writeLines, List.foldl_append, List.map_map]
    congr 3
    apply List.map_congr_left
    intro m _
    simp [Symbol_undefinedLine, hname, Function.comp]

/-- C18: when every entry of a module symbol list is a valid symbol pointer,
`Symbol_checkForUndefinedSymbols` returns, and what it writes are the lines
"Undefined Global <symbol> referenced by module <module>" of a list of pairs of
a symbol and a module without repetition; a pair is in that list if and only
if the symbol is not defined and the symbol list of the module holds a symbol
of the same name.  So there is exactly one line for every such pair and no
other text. -/
theorem C18_undefined_report (st : Linker) (file : File_Type)
    (hvalid : ∀ mr ∈ st.Module__list, ∀ p ∈ mr.symbolList, p < st.Symbol__list.length) :
    ∃ pairs : List (Nat × Nat), pairs.Nodup ∧
      (∀ (s m : Nat), (s, m) ∈ pairs ↔
        ∃ r mr, st.Symbol__list[s]? = some r ∧
          Set_isElement r.attributes Symbol__Attribute_isDefined = false ∧
          st.Module__list[m]? = some mr ∧
          ∃ p ∈ mr.symbolList, ∃ rp, st.Symbol__list[p]? = some rp ∧ rp.name = r.name) ∧
      Symbol_checkForUndefinedSymbols st file
        = some (File_writeLines file (pairs.map (Symbol_undefinedLine st))) := by
  refine ⟨(Symbol_getUndefinedSymbolList st).flatMap (fun s =>
      ((List.range st.Module__list.length).filter
        (Module_listsSymbolName st (Symbol_nameOf st s))).map (fun m => (s, m))), ?_, ?_, ?_⟩
  · rw [List.nodup_flatMap]
    constructor
    · intro s _
      exact (List.Nodup.filter _ (List.nodup_range _)).map (fun a b h => (Prod.mk.inj h).2)
    · have hnd : (Symbol_getUndefinedSymbolList st).Nodup :=
        List.Nodup.filter _ (List.nodup_range _)
      refine List.Pairwise.imp ?_ hnd
      intro a b hab x hxa hxb
      obtain ⟨m1, _, h1⟩ := List.mem_map.mp hxa
      obtain ⟨m2, _, h2⟩ := List.mem_map.mp hxb
      rw [← h1] at h2
      exact hab (Prod.mk.inj h2).1.symm
  · intro s m
    simp only [List.mem_flatMap, List.mem_map, List.mem_filter, List.mem_range,
      Symbol_getUndefinedSymbolList, Prod.mk.injEq]
    constructor
    · rintro ⟨s', ⟨hs', hund⟩, m', ⟨hm', hlists⟩, rfl, rfl⟩
      obtain ⟨r, hr⟩ : ∃ r, st.Symbol__list[s']? = some r :=
        ⟨st.Symbol__list[s'], List.getElem?_eq_getElem hs'⟩
      obtain ⟨mr, hmr⟩ : ∃ mr, st.Module__list[m']? = some mr :=
        ⟨st.Module__list[m'], List.getElem?_eq_getElem hm'⟩
      simp only [hr, Bool.not_eq_true'] at hund
      simp only [Module_listsSymbolName, hmr, Symbol_nameOf, hr, List.any_eq_true] at hlists
      obtain ⟨p, hp, hpk⟩ := hlists
      refine ⟨r, mr, hr, hund, hmr, p, hp, ?_⟩
      cases hrp : st.Symbol__list[p]? with
      | none => simp [hrp] at hpk
      | some rp =>
        simp only [hrp, beq_iff_eq] at hpk
        exact ⟨rp, rfl, hpk⟩
    · rintro ⟨r, mr, hr, hund, hmr, p, hp, rp, hrp, hname⟩
      refine ⟨s, ⟨(List.getElem?_eq_some.mp hr).1, by simp [hr, hund]⟩, m,
        ⟨(List.getElem?_eq_some.mp hmr).1, ?_⟩, rfl, rfl⟩
      simp only [Module_listsSymbolName, hmr, Symbol_nameOf, hr, List.any_eq_true]
      exact ⟨p, hp, by simp [hrp, hname]⟩
  · unfold Symbol_checkForUndefinedSymbols
    apply Symbol__checkSymbols_spec st hvalid
    intro s hs
    exact List.mem_range.mp (List.mem_filter.mp hs).1

/-- Witness of `C18_undefined_report`: in `libraryExample` the symbol "foo" is
referenced by the module "B" alone and defined nowhere; the report is the one
line that names "foo" and "B". -/
theorem C18_undefined_report_witness :
    Symbol_checkForUndefinedSymbols libraryExample ""
      = some "Undefined Global foo referenced by module B\n" ∧
    ∃ pairs : List (Nat × Nat), pairs.Nodup ∧
      (∀ (s m : Nat), (s, m) ∈ pairs ↔
        ∃ r mr, libraryExample.Symbol__list[s]? = some r ∧
          Set_isElement r.attributes Symbol__Attribute_isDefined = false ∧
          libraryExample.Module__list[m]? = some mr ∧
          ∃ p ∈ mr.symbolList, ∃ rp, libraryExample.Symbol__list[p]? = some rp ∧
            rp.name = r.name) ∧
      Symbol_checkForUndefinedSymbols libraryExample ""
        = some (File_writeLines "" (pairs.map (Symbol_undefinedLine libraryExample))) :=
  ⟨by decide, C18_undefined_report libraryExample "" (by decide)⟩

/-! ### The life cycle of a code output stream -/

theorem CodeOutput__writeToStream_spec (state : CodeOutput_State)
    (sequence : CodeSequence_Type) (m : CodeOutput_Module) (i : Nat) :
    (∀ j, ((CodeOutput__writeToStream state sequence m i).CodeOutput__streamList j).isInUse
      = ((m.CodeOutput__streamList j).isInUse
          && !(decide (j = i) && decide (state = CodeOutput_State.atEnd)))) ∧
    (CodeOutput__writeToStream state sequence m i).calls
      = m.calls ++ (if (m.CodeOutput__streamList i).isInUse = true
          then [{ stream := i, state := state, sequence := sequence }] else []) := by
  unfold CodeOutput__writeToStream
  by_cases hu : (m.CodeOutput__streamList i).isInUse = true
  · by_cases hs : state = CodeOutput_State.atEnd
    · simp only [hu, hs, if_true]
      refine ⟨?_, by simp [CodeOutput_Module.setStream, CodeOutput_Module.callEncoder]⟩
      intro j
      by_cases hj : j = i
      · subst hj
        simp [CodeOutput_Module.setStream, CodeOutput_Module.callEncoder]
      · simp [CodeOutput_Module.setStream, CodeOutput_Module.callEncoder, hj]
    · simp only [hu, hs, if_true, if_false]
      refine ⟨?_, by simp [CodeOutput_Module.setStream, CodeOutput_Module.callEncoder]⟩
      intro j
      by_cases hj : j = i
      · subst hj
        simp [CodeOutput_Module.setStream, CodeOutput_Module.callEncoder, hu]
      · simp [CodeOutput_Module.setStream, CodeOutput_Module.callEncoder, hj]
  · have hf : (m.CodeOutput__streamList i).isInUse = false := by simpa using hu
    simp only [hf, Bool.false_eq_true, if_false, List.append_nil]
    refine ⟨?_, trivial⟩
    intro j
    by_cases hj : j = i
    · subst hj
      simp [hf]
    · simp [hj]

theorem CodeOutput__writeToStreams_fold (state : CodeOutput_State)
    (sequence : CodeSequence_Type) :
    ∀ (idxs : List Nat) (m : CodeOutput_Module), idxs.Nodup →
      (∀ j, ((idxs.foldl (CodeOutput__writeToStream state sequence) m).CodeOutput__streamList
            j).isInUse
        = ((m.CodeOutput__streamList j).isInUse
            && !(decide (j ∈ idxs) && decide (state = CodeOutput_State.atEnd)))) ∧
      (idxs.foldl (CodeOutput__writeToStream state sequence) m).calls
        = m.calls ++ (idxs.filter (fun j => (m.CodeOutput__streamList j).isInUse)).map
            (fun j => { stream := j, state := state, sequence := sequence }) := by
  intro idxs
  induction idxs with
  | nil => intro m _; simp
  | cons i rest ih =>
    intro m hnd
    obtain ⟨hi, hrest⟩ := List.nodup_cons.mp hnd
    obtain ⟨hu1, hc1⟩ := CodeOutput__writeToStream_spec state sequence m i
    obtain ⟨hu2, hc2⟩ := ih (CodeOutput__writeToStream state sequence m i) hrest
    simp only [List.foldl_cons]
    constructor
    · intro j
      rw [hu2 j, hu1 j]
      by_cases hji : j = i
      · subst hji
        simp [hi]
      · simp [hji]
    · rw [hc2, hc1]
      have hfilter : rest.filter (fun j =>
            ((CodeOutput__writeToStream state sequence m i).CodeOutput__streamList j).isInUse)
          = rest.filter (fun j => (m.CodeOutput__streamList j).isInUse) := by
        apply List.filter_congr
        intro j hj
        have hji : j ≠ i := fun e => hi (e ▸ hj)
        rw [hu1 j]
        simp [hji]
      rw [hfilter, List.filter_cons]
      split_ifs <;> simp

theorem CodeOutput_callsOf_append (a b : List CodeOutput_Call) (i : Nat) :
    CodeOutput_callsOf (a ++ b) i = CodeOutput_callsOf a i ++ CodeOutput_callsOf b i := by
  simp [CodeOutput_callsOf]

theorem CodeOutput_callsOf_map (idxs : List Nat) (hnd : idxs.Nodup)
    (state : CodeOutput_State) (sequence : CodeSequence_Type) (i : Nat) :
    CodeOutput_callsOf
        (idxs.map (fun j => ({ stream := j, state := state, sequence := sequence }
          : CodeOutput_Call))) i
      = if i ∈ idxs then [{ stream := i, state := state, sequence := sequence }] else [] := by
  induction idxs with
  | nil => simp [CodeOutput_callsOf]
  | cons j rest ih =>
    obtain ⟨hj, hrest⟩ := List.nodup_cons.mp hnd
    have ih' := ih hrest
    simp only [CodeOutput_callsOf] at ih' ⊢
    simp only [List.map_cons, List.filter_cons, ih', List.mem_cons]
    by_cases hji : j = i
    · subst hji
      simp [hj]
    · have hij : ¬ i = j := fun e => hji e.symm
      simp [hji, hij]

/-- The effect of `CodeOutput__writeToAllStreams` on the flags `isInUse` and on
the record of calls. -/
theorem CodeOutput__writeToAllStreams_spec (m : CodeOutput_Module)
    (state : CodeOutput_State) (sequence : CodeSequence_Type) :
    (∀ j, ((CodeOutput__writeToAllStreams m state sequence).CodeOutput__streamList j).isInUse
      = ((m.CodeOutput__streamList j).isInUse
          && !(decide (j < CodeOutput__maxStreamCount)
                && decide (state = CodeOutput_State.atEnd)))) ∧
    ∃ new, (CodeOutput__writeToAllStreams m state sequence).calls = m.calls ++ new ∧
      ∀ i, CodeOutput_callsOf new i
        = if i < CodeOutput__maxStreamCount ∧ (m.CodeOutput__streamList i).isInUse = true
          then [{ stream := i, state := state, sequence := sequence }] else [] := by
  obtain ⟨hu, hc⟩ := CodeOutput__writeToStreams_fold state sequence
    (List.range CodeOutput__maxStreamCount) m (List.nodup_range _)
  unfold CodeOutput__writeToAllStreams
  refine ⟨?_, _, hc, ?_⟩
  · intro j
    rw [hu j]
    simp [List.mem_range]
  · intro i
    rw [CodeOutput_callsOf_map _ (List.Nodup.filter _ (List.nodup_range _))]
    simp only [List.mem_filter, List.mem_range]

theorem CodeOutput_create_spec (m : CodeOutput_Module) (fileName : String_Type)
    (outputProc : CodeOutput_Proc) (fileIsOpened : Bool) (junk : CodeSequence_Type) :
    ((CodeOutput_create m fileName outputProc fileIsOpened junk).2 = true →
      ∃ i, i < CodeOutput__maxStreamCount ∧ (m.CodeOutput__streamList i).isInUse = false ∧
        (∀ j, (((CodeOutput_create m fileName outputProc fileIsOpened
              junk).1).CodeOutput__streamList j).isInUse
            = ((m.CodeOutput__streamList j).isInUse || decide (j = i))) ∧
        (CodeOutput_create m fileName outputProc fileIsOpened junk).1.calls
          = m.calls ++ [{ stream := i, state := CodeOutput_State.atBegin,
                          sequence := { junk with length := 0 } }]) ∧
    ((CodeOutput_create m fileName outputProc fileIsOpened junk).2 = false →
      (CodeOutput_create m fileName outputProc fileIsOpened junk).1 = m) := by
  unfold CodeOutput_create
  cases hfind : (List.range CodeOutput__maxStreamCount).find?
      (fun i => !(m.CodeOutput__streamList i).isInUse) with
  | none => simp
  | some i =>
    have hfree : (m.CodeOutput__streamList i).isInUse = false := by
      have := List.find?_some hfind
      simpa using this
    have hlt : i < CodeOutput__maxStreamCount :=
      List.mem_range.mp (List.mem_of_find?_eq_some hfind)
    cases fileIsOpened with
    | false => simp
    | true =>
      simp only [if_true, forall_true_left, Bool.true_eq_false, false_implies, and_true]
      refine ⟨i, hlt, hfree, ?_, ?_⟩
      · intro j
        by_cases hj : j = i
        · subst hj
          simp [CodeOutput_Module.setStream, CodeOutput_Module.callEncoder]
        · simp [CodeOutput_Module.setStream, CodeOutput_Module.callEncoder, hj]
      · simp [CodeOutput_Module.setStream, CodeOutput_Module.callEncoder]

theorem CodeOutput_lifeCycle_append :
    ∀ (l1 l2 : List CodeOutput_State) (isOpen : Bool),
      CodeOutput_lifeCycle isOpen (l1 ++ l2)
        = (CodeOutput_lifeCycle isOpen l1).bind (fun b => CodeOutput_lifeCycle b l2) := by
  intro l1
  induction l1 with
  | nil => intro l2 isOpen; cases isOpen <;> simp [CodeOutput_lifeCycle]
  | cons s rest ih =>
    intro l2 isOpen
    cases isOpen <;> cases s <;> simp [CodeOutput_lifeCycle, ih]

theorem CodeOutput_statesOf_append (m m' : CodeOutput_Module) (new : List CodeOutput_Call)
    (h : m'.calls = m.calls ++ new) (i : Nat) :
    CodeOutput_statesOf m' i
      = CodeOutput_statesOf m i ++ (CodeOutput_callsOf new i).map (fun c => c.state) := by
  simp [CodeOutput_statesOf, h, CodeOutput_callsOf_append]

theorem CodeOutput_lifeCycle_writeToAllStreams (m : CodeOutput_Module)
    (state : CodeOutput_State) (sequence : CodeSequence_Type)
    (hstate : state ≠ CodeOutput_State.atBegin)
    (hinv : ∀ i, CodeOutput_lifeCycle false (CodeOutput_statesOf m i)
      = some (m.CodeOutput__streamList i).isInUse) :
    ∀ i, CodeOutput_lifeCycle false
        (CodeOutput_statesOf (CodeOutput__writeToAllStreams m state sequence) i)
      = some ((CodeOutput__writeToAllStreams m state sequence).CodeOutput__streamList
          i).isInUse := by
  obtain ⟨hu, new, hc, hnew⟩ := CodeOutput__writeToAllStreams_spec m state sequence
  intro i
  rw [CodeOutput_statesOf_append m _ new hc i, CodeOutput_lifeCycle_append, hinv i, hu i,
    hnew i]
  by_cases hlt : i < CodeOutput__maxStreamCount
  · cases huse : (m.CodeOutput__streamList i).isInUse
    · simp [CodeOutput_lifeCycle]
    · cases state with
      | atBegin => exact absurd rfl hstate
      | inCode => simp [hlt, CodeOutput_lifeCycle]
      | atEnd => simp [hlt, CodeOutput_lifeCycle]
  · simp [hlt, CodeOutput_lifeCycle]

theorem CodeOutput_lifeCycle_step (m : CodeOutput_Module) (op : CodeOutput_Operation)
    (hinv : ∀ i, CodeOutput_lifeCycle false (CodeOutput_statesOf m i)
      = some (m.CodeOutput__streamList i).isInUse) :
    ∀ i, CodeOutput_lifeCycle false (CodeOutput_statesOf (CodeOutput_step m op) i)
      = some ((CodeOutput_step m op).CodeOutput__streamList i).isInUse := by
  cases op with
  | writeLine sequence =>
    exact CodeOutput_lifeCycle_writeToAllStreams m _ sequence (by decide) hinv
  | closeStreams junk =>
    exact CodeOutput_lifeCycle_writeToAllStreams m _ _ (by decide) hinv
  | create fileName outputProc fileIsOpened junk =>
    obtain ⟨hok, hfail⟩ := CodeOutput_create_spec m fileName outputProc fileIsOpened junk
    intro i
    simp only [CodeOutput_step]
    cases hres : (CodeOutput_create m fileName outputProc fileIsOpened junk).2 with
    | false =>
      rw [hfail hres]
      exact hinv i
    | true =>
      obtain ⟨k, _, hfree, hu, hc⟩ := hok hres
      rw [CodeOutput_statesOf_append m _ _ hc i, CodeOutput_lifeCycle_append, hinv i, hu i]
      by_cases hik : i = k
      · subst hik
        simp [CodeOutput_callsOf, hfree, CodeOutput_lifeCycle]
      · have hki : ¬ k = i := fun e => hik e.symm
        simp [CodeOutput_callsOf, hik, hki, CodeOutput_lifeCycle]

theorem CodeOutput_lifeCycle_run :
    ∀ (ops : List CodeOutput_Operation) (m : CodeOutput_Module),
      (∀ i, CodeOutput_lifeCycle false (CodeOutput_statesOf m i)
        = some (m.CodeOutput__streamList i).isInUse) →
      ∀ i, CodeOutput_lifeCycle false (CodeOutput_statesOf (CodeOutput_run m ops) i)
        = some ((CodeOutput_run m ops).CodeOutput__streamList i).isInUse := by
  intro ops
  induction ops with
  | nil => intro m h; exact h
  | cons op rest ih =>
    intro m h
    exact ih (CodeOutput_step m op) (CodeOutput_lifeCycle_step m op h)

/-- While a stream is open and `CodeOutput_closeStreams` is not called, the
stream stays open and its encoder gets one `inCode` call for every code
sequence written, in the order written. -/
theorem CodeOutput_run_open (i : Nat) (hi : i < CodeOutput__maxStreamCount) :
    ∀ (ops : List CodeOutput_Operation) (m : CodeOutput_Module),
      (m.CodeOutput__streamList i).isInUse = true →
      (∀ op ∈ ops, op.isClose = false) →
      ((CodeOutput_run m ops).CodeOutput__streamList i).isInUse = true ∧
      ∃ new, (CodeOutput_run m ops).calls = m.calls ++ new ∧
        (CodeOutput_callsOf new i).map (fun c => (c.state, c.sequence))
          = (CodeOutput_writtenSequences ops).map (fun s => (CodeOutput_State.inCode, s)) := by
  intro ops
  induction ops with
  | nil => intro m hu _; exact ⟨hu, [], by simp [CodeOutput_run], rfl⟩
  | cons op rest ih =>
    intro m hu hops
    have hrest : ∀ o ∈ rest, o.isClose = false :=
      fun o ho => hops o (List.mem_cons_of_mem _ ho)
    have hop := hops op (List.mem_cons_self _ _)
    cases op with
    | closeStreams junk => cases hop
    | writeLine sequence =>
      obtain ⟨hu1, new1, hc1, hnew1⟩ :=
        CodeOutput__writeToAllStreams_spec m CodeOutput_State.inCode sequence
      have hu1' : ((CodeOutput_step m (.writeLine sequence)).CodeOutput__streamList
          i).isInUse = true := by
        simp only [CodeOutput_step, CodeOutput_writeLine]
        rw [hu1 i, hu]
        simp
      obtain ⟨hu2, new2, hc2, hnew2⟩ := ih _ hu1' hrest
      refine ⟨hu2, new1 ++ new2, ?_, ?_⟩
      · show (CodeOutput_run (CodeOutput_step m (.writeLine sequence)) rest).calls = _
        rw [hc2]
        simp only [CodeOutput_step, CodeOutput_writeLine]
        rw [hc1, List.append_assoc]
      · rw [CodeOutput_callsOf_append, List.map_append, hnew2, hnew1 i]
        simp [hi, hu, CodeOutput_writtenSequences]
    | create fileName outputProc fileIsOpened junk =>
      obtain ⟨hok, hfail⟩ := CodeOutput_create_spec m fileName outputProc fileIsOpened junk
      cases hres : (CodeOutput_create m fileName outputProc fileIsOpened junk).2 with
      | false =>
        have hm : CodeOutput_step m (.create fileName outputProc fileIsOpened junk) = m := by
          simp only [CodeOutput_step]
          exact hfail hres
        obtain ⟨hu2, new2, hc2, hnew2⟩ := ih m hu hrest
        refine ⟨?_, new2, ?_, ?_⟩
        · show ((CodeOutput_run (CodeOutput_step m _) rest).CodeOutput__streamList i).isInUse
            = true
          rw [hm]
          exact hu2
        · show (CodeOutput_run (CodeOutput_step m _) rest).calls = _
          rw [hm]
          exact hc2
        · simpa [CodeOutput_writtenSequences] using hnew2
      | true =>
        obtain ⟨k, _, hfree, hu1, hc1⟩ := hok hres
        have hki : k ≠ i := by
          intro e
          rw [e, hu] at hfree
          cases hfree
        have hu1' : ((CodeOutput_step m (.create fileName outputProc fileIsOpened
            junk)).CodeOutput__streamList i).isInUse = true := by
          simp only [CodeOutput_step]
          rw [hu1 i, hu]
          simp
        obtain ⟨hu2, new2, hc2, hnew2⟩ := ih _ hu1' hrest
        refine ⟨hu2, [{ stream := k, state := CodeOutput_State.atBegin,
                        sequence := { junk with length := 0 } }] ++ new2, ?_, ?_⟩
        · show (CodeOutput_run (CodeOutput_step m _) rest).calls = _
          rw [hc2]
          simp only [CodeOutput_step]
          rw [hc1, List.append_assoc]
        · rw [CodeOutput_callsOf_append, List.map_append, hnew2]
          simp [CodeOutput_callsOf, hki, CodeOutput_writtenSequences]

/-- C20: the life cycle of a code output stream.  (1) Over any run of
`CodeOutput_create`, `CodeOutput_writeLine` and `CodeOutput_closeStreams`
from the initialized module, the states of the encoder calls of every table
entry are accepted by the life cycle automaton (`atBegin` only when not open,
`inCode` and `atEnd` only when open, so no `inCode` before `atBegin` or after
`atEnd`), and the entry is in use exactly when the automaton ends open.
(2) When `CodeOutput_create` succeeds in any module state, it takes an entry
`i` of the table that was free, and over the run of the create, any further
operations other than `CodeOutput_closeStreams`, and `CodeOutput_closeStreams`,
the calls made for `i` are exactly: `atBegin` with an empty sequence, `inCode`
with each sequence passed to `CodeOutput_writeLine` in the order written,
`atEnd` with an empty sequence, once.  (3) After `CodeOutput_closeStreams` no
entry of the table is in use. -/
theorem C20_stream_life_cycle :
    (∀ (targetIsBigEndian : Bool) (ops : List CodeOutput_Operation) (i : Nat),
      CodeOutput_lifeCycle false
          (CodeOutput_statesOf (CodeOutput_run ( CodeOutput_initialize targetIsBigEndian) ops) i)
        = some ((CodeOutput_run ( CodeOutput_initialize targetIsBigEndian)
            ops).CodeOutput__streamList i).isInUse) ∧
    (∀ (m : CodeOutput_Module) (fileName : String_Type) (outputProc : CodeOutput_Proc)
        (fileIsOpened : Bool) (junk junkEnd : CodeSequence_Type)
        (more : List CodeOutput_Operation),
      (CodeOutput_create m fileName outputProc fileIsOpened junk).2 = true →
      (∀ op ∈ more, op.isClose = false) →
      ∃ i new, i < CodeOutput__maxStreamCount ∧
        (m.CodeOutput__streamList i).isInUse = false ∧
        (CodeOutput_run m (CodeOutput_Operation.create fileName outputProc fileIsOpened junk
            :: (more ++ [CodeOutput_Operation.closeStreams junkEnd]))).calls
          = m.calls ++ new ∧
        (CodeOutput_callsOf new i).map (fun c => (c.state, c.sequence))
          = (CodeOutput_State.atBegin, { junk with length := 0 })
            :: ((CodeOutput_writtenSequences more).map
                  (fun s => (CodeOutput_State.inCode, s))
                ++ [(CodeOutput_State.atEnd, { junkEnd with length := 0 })])) ∧
    (∀ (m : CodeOutput_Module) (junk : CodeSequence_Type) (i : Nat),
      i < CodeOutput__maxStreamCount →
      ((CodeOutput_closeStreams m junk).CodeOutput__streamList i).isInUse = false) := by
  refine ⟨?_, ?_, ?_⟩
  · intro b ops i
    exact CodeOutput_lifeCycle_run ops ( CodeOutput_initialize b)
      (fun _ => by simp [CodeOutput_statesOf, CodeOutput_callsOf, CodeOutput_initialize,
        CodeOutput_lifeCycle]) i
  · intro m fileName outputProc fileIsOpened junk junkEnd more hok hmore
    obtain ⟨i, hi, hfree, hu, hc⟩ :=
      (CodeOutput_create_spec m fileName outputProc fileIsOpened junk).1 hok
    have hu1 : (((CodeOutput_create m fileName outputProc fileIsOpened
        junk).1).CodeOutput__streamList i).isInUse = true := by
      rw [hu i]
      simp
    obtain ⟨hu2, new2, hc2, hnew2⟩ := CodeOutput_run_open i hi more _ hu1 hmore
    obtain ⟨_, new3, hc3, hnew3⟩ := CodeOutput__writeToAllStreams_spec
      (CodeOutput_run (CodeOutput_create m fileName outputProc fileIsOpened junk).1 more)
      CodeOutput_State.atEnd { junkEnd with length := 0 }
    refine ⟨i, [{ stream := i, state := CodeOutput_State.atBegin,
                  sequence := { junk with length := 0 } }] ++ (new2 ++ new3), hi, hfree, ?_, ?_⟩
    · have hrun : CodeOutput_run m
          (CodeOutput_Operation.create fileName outputProc fileIsOpened junk
            :: (more ++ [CodeOutput_Operation.closeStreams junkEnd]))
          = CodeOutput__writeToAllStreams
              (CodeOutput_run (CodeOutput_create m fileName outputProc fileIsOpened junk).1
                more)
              CodeOutput_State.atEnd { junkEnd with length := 0 } := by
        simp [CodeOutput_run, CodeOutput_step, CodeOutput_closeStreams, List.foldl_append]
      rw [hrun, hc3, hc2, hc]
      simp [List.append_assoc]
    · rw [CodeOutput_callsOf_append, CodeOutput_callsOf_append, List.map_append,
        List.map_append, hnew2, hnew3 i]
      simp [CodeOutput_callsOf, hi, hu2]
  · intro m junk i hi
    obtain ⟨hu, _⟩ := CodeOutput__writeToAllStreams_spec m CodeOutput_State.atEnd
      { junk with length := 0 }
    simp only [CodeOutput_closeStreams]
    rw [hu i]
    simp [hi]

/-- Witness for C20: in the initialized module a stream for the Intel HEX
encoder is created, the three byte sequence is written and the streams are
closed. -/
theorem C20_stream_life_cycle_witness :
    (CodeOutput_create ( CodeOutput_initialize false) "a.ihx" CodeOutput_writeIHXLine true
        helloSequence).2 = true ∧
    (∀ op ∈ [CodeOutput_Operation.writeLine helloSequence], op.isClose = false) ∧
    ∃ i new, i < CodeOutput__maxStreamCount ∧
      (( CodeOutput_initialize false).CodeOutput__streamList i).isInUse = false ∧
      (CodeOutput_run ( CodeOutput_initialize false)
          (CodeOutput_Operation.create "a.ihx" CodeOutput_writeIHXLine true helloSequence
            :: ([CodeOutput_Operation.writeLine helloSequence]
                ++ [CodeOutput_Operation.closeStreams helloSequence]))).calls
        = ( CodeOutput_initialize false).calls ++ new ∧
      (CodeOutput_callsOf new i).map (fun c => (c.state, c.sequence))
        = (CodeOutput_State.atBegin, { helloSequence with length := 0 })
          :: ((CodeOutput_writtenSequences
                [CodeOutput_Operation.writeLine helloSequence]).map
                (fun s => (CodeOutput_State.inCode, s))
              ++ [(CodeOutput_State.atEnd, { helloSequence with length := 0 })]) :=
  ⟨rfl, by simp [CodeOutput_Operation.isClose],
    C20_stream_life_cycle.2.1 ( CodeOutput_initialize false) "a.ihx" CodeOutput_writeIHXLine
      true helloSequence helloSequence [CodeOutput_Operation.writeLine helloSequence] rfl
      (by simp [CodeOutput_Operation.isClose])⟩

/-! ### Relocation kinds bit by bit -/

theorem Nat_and_two_pow_ne_zero (b i : Nat) : ((b &&& 2 ^ i) != 0) = b.testBit i := by
  rw [Nat.and_two_pow]
  cases b.testBit i <;> simp

/-- C25: for every byte `b` (every number, in fact) and whatever the record
held before, the relocation kind that `CodeSequence_makeKindFromInteger`
decodes from `b` has `mostSignificantByteIsUsed` exactly when bit 7 (0x80) of
`b` is set, `pageIsReferenced` exactly when bit 6 (0x40) is set,
`zeroPageIsReferenced` for bit 5 (0x20), `dataIsSigned` for bit 4 (0x10),
`slotWidthIsTwo` for bit 3 (0x08), `isRelocatedPCRelative` for bit 2 (0x04),
`isSymbol` for bit 1 (0x02) and `elementsAreBytes` for bit 0 (0x01). -/
theorem C25_kind_bits (kind : CodeSequence_RelocationKind) (b : Nat) :
    (CodeSequence_makeKindFromInteger kind b).mostSignificantByteIsUsed = b.testBit 7 ∧
    (CodeSequence_makeKindFromInteger kind b).pageIsReferenced = b.testBit 6 ∧
    (CodeSequence_makeKindFromInteger kind b).zeroPageIsReferenced = b.testBit 5 ∧
    (CodeSequence_makeKindFromInteger kind b).dataIsSigned = b.testBit 4 ∧
    (CodeSequence_makeKindFromInteger kind b).slotWidthIsTwo = b.testBit 3 ∧
    (CodeSequence_makeKindFromInteger kind b).isRelocatedPCRelative = b.testBit 2 ∧
    (CodeSequence_makeKindFromInteger kind b).isSymbol = b.testBit 1 ∧
    (CodeSequence_makeKindFromInteger kind b).elementsAreBytes = b.testBit 0 := by
  refine ⟨Nat_and_two_pow_ne_zero b 7, Nat_and_two_pow_ne_zero b 6,
    Nat_and_two_pow_ne_zero b 5, Nat_and_two_pow_ne_zero b 4, Nat_and_two_pow_ne_zero b 3,
    Nat_and_two_pow_ne_zero b 2, Nat_and_two_pow_ne_zero b 1, Nat_and_two_pow_ne_zero b 0⟩

/-! ### The cartridge size codes of the Gameboy platform -/

/-- C22 (the code as it is): `Gameboy__romCountCode` returns its argument (as
a `UINT8`) for every ROM bank count, so 2, 4, 8, 16, 32, 64 and 128 give 2, 4,
8, 16, 32, 64 and 128 instead of the codes 0 to 6, and an unsupported count
such as 3 gives 3 instead of 0xFF; `Gameboy__ramCountCode` returns its argument
for the RAM bank counts 0, 1, 4 and 16, so 1, 4 and 16 give 1, 4 and 16 instead
of the codes 2, 3 and 4, and 0xFF for every other count. -/
theorem C22_count_codes_return_count (value : Nat) :
    Gameboy__romCountCode value = value % 256 ∧
    Gameboy__ramCountCode value
      = (if value % 256 = 0 ∨ value % 256 = 1 ∨ value % 256 = 4 ∨ value % 256 = 16
         then value % 256 else 0xFF) ∧
    Gameboy__romCountCode 2 = 2 ∧ Gameboy__romCountCode 128 = 128 ∧
    Gameboy__romCountCode 3 = 3 ∧ Gameboy__ramCountCode 1 = 1 ∧
    Gameboy__ramCountCode 16 = 16 := by
  refine ⟨rfl, ?_, rfl, rfl, rfl, rfl, rfl⟩
  unfold Gameboy__ramCountCode
  have hlt : value % 256 < 256 := Nat.mod_lt _ (by decide)
  generalize value % 256 = v at hlt
  interval_cases v <;> rfl

/-! ### Single relocation records -/

theorem CodeSequence__wordBytes (M A x : Nat) (hM : 65536 ∣ M) :
    CodeSequence__leastSignificantByte ((A + x % M) % M) = ((x + A) % 65536) % 256 ∧
    CodeSequence__mostSignificantByte ((A + x % M) % M) = ((x + A) % 65536) / 256 := by
  have h1 : (A + x % M) % M = (x + A) % M := by
    rw [Nat.add_mod, Nat.mod_mod, ← Nat.add_mod, Nat.add_comm]
  have h2 : ((x + A) % M) % 65536 = (x + A) % 65536 := Nat.mod_mod_of_dvd _ hM
  have hand : ∀ y : Nat, y &&& 0xFF = y % 256 := fun y => Nat.and_pow_two_sub_one_eq_mod y 8
  unfold CodeSequence__leastSignificantByte CodeSequence__mostSignificantByte
  rw [h1, hand]
  generalize (x + A) % M = r at h2
  omega

theorem CodeSequence__resolveTarget_missing (M : Nat) (st : Linker)
    (r : CodeSequence_Relocation) (m : Nat) (mr : Module__Record)
    (hcur : st.Module__currentModule = some m) (hmod : st.Module__list[m]? = some mr)
    (hmissing : (if r.kind.isSymbol
        then List_getElement mr.symbolList ((r.value + 1) % M)
        else List_getElement mr.segmentList ((r.value + 2) % M)) = none) :
    CodeSequence__resolveTarget M st r = some none := by
  unfold CodeSequence__resolveTarget
  cases hs : r.kind.isSymbol
  · simp only [hs, Bool.false_eq_true, if_false] at hmissing ⊢
    simp [Module_getSegment, hcur, hmod, hmissing]
  · simp only [hs, if_true] at hmissing ⊢
    simp [Module_getSymbol, hcur, hmod, hmissing]

/-- C28: let the current module be valid and let a relocation record name a
symbol index (`value + 1`) or a segment index (`value + 2`) that the symbol
list, or the segment list, of the current module does not have.  Then
`CodeSequence__processOneRelocation` returns with the warning "R symbol error"
or "R area error" raised and with the bytes of the code sequence, the flags
of `isSignificantList` and `offsetByRelaxation` as they were, and the
relocation loop goes on with the remaining records of the list in that state;
before it does, the test `errorKind != CodeSequence__RelocError_none` of the
loop sees the `errorKind` left over from the record before, so a relocation
error pending from that record is reported again. -/
theorem C28_missing_target (target : Target_Type) (M : Nat) (st : Linker)
    (codeSequenceBaseAddress : Nat) (r : CodeSequence_Relocation)
    (work : CodeSequence__Work) (m : Nat) (mr : Module__Record)
    (hcur : st.Module__currentModule = some m) (hmod : st.Module__list[m]? = some mr)
    (hmissing : (if r.kind.isSymbol
        then List_getElement mr.symbolList ((r.value + 1) % M)
        else List_getElement mr.segmentList ((r.value + 2) % M)) = none) :
    ∃ st' work',
      CodeSequence__processOneRelocation target M st codeSequenceBaseAddress r work
        = some (st', work') ∧
      st'.warnings = st.warnings
        ++ [if r.kind.isSymbol then Warning.rSymbolError else Warning.rAreaError] ∧
      work'.byteList = work.byteList ∧
      work'.isSignificantList = work.isSignificantList ∧
      work'.offsetByRelaxation = work.offsetByRelaxation ∧
      (∀ rest, CodeSequence__relocationLoop target M codeSequenceBaseAddress (r :: rest)
          st work
        = (CodeSequence__reportRelocationError st' work.errorKind work.errorRecord).bind
            (fun st2 => CodeSequence__relocationLoop target M codeSequenceBaseAddress rest
              st2 work')) ∧
      (work.errorKind = CodeSequence__RelocError_none →
        ∀ rest, CodeSequence__relocationLoop target M codeSequenceBaseAddress (r :: rest)
            st work
          = CodeSequence__relocationLoop target M codeSequenceBaseAddress rest st' work') := by
  have hres := CodeSequence__resolveTarget_missing M st r m mr hcur hmod hmissing
  have hproc : CodeSequence__processOneRelocation target M st codeSequenceBaseAddress r work
      = some (Error_raiseWarning st
          (if r.kind.isSymbol then Warning.rSymbolError else Warning.rAreaError), work) := by
    unfold CodeSequence__processOneRelocation
    simp only [hres]
  refine ⟨_, _, hproc, ?_, rfl, rfl, rfl, ?_, ?_⟩
  · simp [Error_raiseWarning]
  · intro rest
    rw [CodeSequence__relocationLoop, hproc]
    simp only
    cases CodeSequence__reportRelocationError (Error_raiseWarning st
        (if r.kind.isSymbol then Warning.rSymbolError else Warning.rAreaError))
        work.errorKind work.errorRecord <;> rfl
  · intro hnone rest
    rw [CodeSequence__relocationLoop, hproc]
    simp only
    have hrep : CodeSequence__reportRelocationError (Error_raiseWarning st
        (if r.kind.isSymbol then Warning.rSymbolError else Warning.rAreaError))
        work.errorKind work.errorRecord
        = some (Error_raiseWarning st
          (if r.kind.isSymbol then Warning.rSymbolError else Warning.rAreaError)) := by
      unfold CodeSequence__reportRelocationError
      rw [hnone]
      simp
    rw [hrep]

/-! ### The unsigned byte error -/

theorem CodeSequence__checkRelocation_ne_uByteError (M : Nat)
    (kind : CodeSequence_RelocationKind) (relocatedValue : Nat)
    (h : kind.elementsAreBytes = true → relocatedValue < 256) :
    CodeSequence__checkRelocation M kind relocatedValue
      ≠ CodeSequence__RelocError_uByteError := by
  unfold CodeSequence__checkRelocation
  cases hb : kind.elementsAreBytes
  · simp only [Bool.and_false, Bool.false_and, Bool.false_eq_true, if_false]
    split_ifs <;> decide
  · have hlt := h hb
    have hmsb : CodeSequence__mostSignificantByte relocatedValue = 0 := by
      unfold CodeSequence__mostSignificantByte
      omega
    simp only [hmsb, bne_self_eq_false, Bool.and_false, Bool.false_eq_true, if_false]
    split_ifs <;> decide

theorem Nat_and_255_lt (x : Nat) : x &&& 0xFF < 256 := by
  rw [Nat.and_pow_two_sub_one_eq_mod x 8]
  exact Nat.mod_lt _ (by decide)

theorem CodeSequence__processOneRelocation_errorKind (target : Target_Type) (M : Nat)
    (st st' : Linker) (base : Nat) (r : CodeSequence_Relocation)
    (work work' : CodeSequence__Work)
    (hkind : work.errorKind ≠ CodeSequence__RelocError_uByteError)
    (h : CodeSequence__processOneRelocation target M st base r work = some (st', work')) :
    work'.errorKind ≠ CodeSequence__RelocError_uByteError ∧
    ∃ ws, st' = st.addWarnings ws ∧
      Warning.relocationError CodeSequence__RelocError_uByteError ∉ ws := by
  unfold CodeSequence__processOneRelocation at h
  cases hres : CodeSequence__resolveTarget M st r with
  | none => simp [hres] at h
  | some o =>
    cases o with
    | none =>
      simp only [hres, Option.some.injEq, Prod.mk.injEq] at h
      obtain ⟨h1, h2⟩ := h
      subst h2
      refine ⟨hkind, ⟨_, h1.symm, ?_⟩⟩
      cases r.kind.isSymbol <;> simp
    | some t =>
      obtain ⟨addr, sym, seg⟩ := t
      simp only [hres] at h
      by_cases hpage : (r.kind.pageIsReferenced || r.kind.zeroPageIsReferenced) = true
      · simp [hpage] at h
      · simp only [hpage, Bool.false_eq_true, if_false, Option.some.injEq,
          Prod.mk.injEq] at h
        obtain ⟨h1, h2⟩ := h
        subst h1
        refine ⟨?_, ⟨[], (Linker.addWarnings_nil _).symm, List.not_mem_nil _⟩⟩
        subst h2
        apply CodeSequence__checkRelocation_ne_uByteError
        intro hb
        cases hs : r.kind.slotWidthIsTwo <;> cases hm : r.kind.mostSignificantByteIsUsed <;>
          simp only [hb, hs, hm, if_true, Bool.not_false, Bool.not_true, Bool.false_eq_true,
            if_false, CodeSequence__addByteToByte, CodeSequence__addWordToWord]
        · exact Nat.mod_lt _ (by decide)
        · exact Nat.mod_lt _ (by decide)
        · split <;> exact Nat_and_255_lt _
        · split <;> exact Nat_and_255_lt _

theorem CodeSequence__reportRelocationError_other (st st' : Linker)
    (errorKind : Nat) (errorRecord : CodeSequence__ErrorRecord)
    (hkind : errorKind ≠ CodeSequence__RelocError_uByteError)
    (h : CodeSequence__reportRelocationError st errorKind errorRecord = some st') :
    ∃ ws, st' = st.addWarnings ws ∧
      Warning.relocationError CodeSequence__RelocError_uByteError ∉ ws := by
  have hmem : Warning.relocationError CodeSequence__RelocError_uByteError
      ∉ [Warning.relocationError errorKind] := by
    simp only [List.mem_singleton, Warning.relocationError.injEq]
    exact fun e => hkind e.symm
  unfold CodeSequence__reportRelocationError at h
  by_cases hk : (errorKind != CodeSequence__RelocError_none) = true
  · rw [if_pos hk] at h
    dsimp only at h
    split_ifs at h
    all_goals
      first
      | (split at h
         · cases h
         · split_ifs at h
           simp only [Option.some.injEq] at h
           exact ⟨_, h.symm, hmem⟩)
  · rw [if_neg hk] at h
    simp only [Option.some.injEq] at h
    exact ⟨[], by rw [← h, Linker.addWarnings_nil], List.not_mem_nil _⟩

theorem CodeSequence__relocationLoop_errorKind (target : Target_Type) (M : Nat) (base : Nat) :
    ∀ (rs : List CodeSequence_Relocation) (st st' : Linker)
      (work work' : CodeSequence__Work),
      work.errorKind ≠ CodeSequence__RelocError_uByteError →
      CodeSequence__relocationLoop target M base rs st work = some (st', work') →
      ∃ ws, st' = st.addWarnings ws ∧
        Warning.relocationError CodeSequence__RelocError_uByteError ∉ ws := by
  intro rs
  induction rs with
  | nil =>
    intro st st' work work' _ h
    simp only [CodeSequence__relocationLoop, Option.some.injEq, Prod.mk.injEq] at h
    exact ⟨[], by rw [← h.1, Linker.addWarnings_nil], List.not_mem_nil _⟩
  | cons r rest ih =>
    intro st st' work work' hkind h
    rw [CodeSequence__relocationLoop] at h
    cases hp : CodeSequence__processOneRelocation target M st base r work with
    | none => simp [hp] at h
    | some p =>
      obtain ⟨st1, work1⟩ := p
      simp only [hp] at h
      obtain ⟨hkind1, ws1, hst1, hws1⟩ :=
        CodeSequence__processOneRelocation_errorKind target M st st1 base r work work1 hkind hp
      cases hrep : CodeSequence__reportRelocationError st1 work1.errorKind
          work1.errorRecord with
      | none => simp [hrep] at h
      | some st2 =>
        simp only [hrep] at h
        obtain ⟨ws2, hst2, hws2⟩ :=
          CodeSequence__reportRelocationError_other st1 st2 _ _ hkind1 hrep
        obtain ⟨ws3, hst3, hws3⟩ := ih st2 st' work1 work' hkind1 h
        refine ⟨ws1 ++ ws2 ++ ws3, ?_, ?_⟩
        · rw [hst3, hst2, hst1, Linker.addWarnings_addWarnings,
            Linker.addWarnings_addWarnings, List.append_assoc]
        · simp only [List.mem_append, not_or]
          exact ⟨⟨hws1, hws2⟩, hws3⟩

/-- C29 (the code as it is): when the `errorKind` variable does not hold the
unsigned byte error before the first record, `CodeSequence_relocate` never
reports an "Unsigned Byte error", whatever the relocation records and the
bytes are: for byte elements the relocated value that is checked is the sum
already cut to one byte (`CodeSequence__addByteToByte` returns a `UINT8`
result, and for a slot of width two the value is masked with 0xFF), so its
most significant byte is 0 also when the high byte of the 16-bit sum of slot
content and target address is not 0. -/
theorem C29_unsigned_byte_error_unreachable (target : Target_Type) (M : Nat)
    (st st' : Linker) (errorKind0 : Nat) (errorRecord0 : CodeSequence__ErrorRecord)
    (sequence sequence' : CodeSequence_Type) (areaMode : Nat)
    (relocationList : CodeSequence_RelocationList)
    (hkind : errorKind0 ≠ CodeSequence__RelocError_uByteError)
    (hret : CodeSequence_relocate target M st errorKind0 errorRecord0 sequence areaMode
      relocationList = some (st', sequence')) :
    ∃ ws, st'.warnings = st.warnings ++ ws ∧
      Warning.relocationError CodeSequence__RelocError_uByteError ∉ ws := by
  unfold CodeSequence_relocate at hret
  split_ifs at hret
  dsimp only at hret
  split at hret
  · cases hret
  · split at hret
    · cases hret
    · split at hret
      · cases hret
      · split at hret
        · cases hret
        · split at hret
          · cases hret
          · rename_i stw workw hloop
            simp only [Option.some.injEq, Prod.mk.injEq] at hret
            obtain ⟨ws, hst, hws⟩ := CodeSequence__relocationLoop_errorKind target M _
              relocationList.list st stw _ workw hkind hloop
            refine ⟨ws, ?_, hws⟩
            rw [← hret.1, hst]
            rfl

/-- Witness of `C29_unsigned_byte_error_unreachable`, at an input on which the
code leaves the claim: the record of `relaxRelocationList` has byte elements
and `dataIsSigned` clear, the slot holds 0x1234 and the symbol "ext" has the
address 5, so the high byte of the 16-bit sum 0x1239 is 0x12; the relocation
returns without any warning. -/
theorem C29_unsigned_byte_error_unreachable_witness :
    (0 : Nat) ≠ CodeSequence__RelocError_uByteError ∧
    relaxRelocationList.list.map (fun r => (r.kind.elementsAreBytes, r.kind.dataIsSigned))
      = [(true, false)] ∧
    Symbol_absoluteAddress 65536 relaxExample (some 0) = some 5 ∧
    CodeSequence__mostSignificantByte ((0x34 + 256 * 0x12 + 5) % 65536) = 0x12 ∧
    ∃ st' sequence',
      CodeSequence_relocate (Gameboy_targetInfo (fun _ => 0)) 65536 relaxExample 0
        default relaxSequence 0 relaxRelocationList = some (st', sequence') ∧
      st'.warnings = [] ∧
      ∃ ws, st'.warnings = relaxExample.warnings ++ ws ∧
        Warning.relocationError CodeSequence__RelocError_uByteError ∉ ws :=
  ⟨by decide, by decide, by decide, by decide, _, _, rfl, by decide,
    C29_unsigned_byte_error_unreachable (Gameboy_targetInfo (fun _ => 0)) 65536
      relaxExample _ 0 default relaxSequence _ 0 relaxRelocationList (by decide) rfl⟩

/-- Witness of `C28_missing_target`: in the state `layoutExample` the current
module "B" has no symbol, and the record of `relaxRelocationList` names the
symbol number 1. -/
theorem C28_missing_target_witness :
    ∃ st' work',
      CodeSequence__processOneRelocation (Gameboy_targetInfo (fun _ => 0)) 65536
        layoutExample 0 { kind := CodeSequence_makeKindFromInteger default 0x0B,
                          index := 0, value := 0 }
        { byteList := [0x34, 0x12], isSignificantList := [true, true],
          offsetByRelaxation := 0, errorKind := 0, errorRecord := default }
        = some (st', work') ∧
      st'.warnings = [Warning.rSymbolError] ∧ work'.byteList = [0x34, 0x12] ∧
      work'.isSignificantList = [true, true] ∧ work'.offsetByRelaxation = 0 :=
  let ⟨st', work', h1, h2, h3, h4, h5, _⟩ :=
    C28_missing_target (Gameboy_targetInfo (fun _ => 0)) 65536 layoutExample 0
      { kind := CodeSequence_makeKindFromInteger default 0x0B, index := 0, value := 0 }
      { byteList := [0x34, 0x12], isSignificantList := [true, true],
        offsetByRelaxation := 0, errorKind := 0, errorRecord := default }
      1 { name := "B", segmentCount := 2, symbolCount := 0, associatedFileName := "b.o",
          segmentList := [5, 2, 4], symbolList := [] }
      rfl rfl (by decide)
  ⟨st', work', h1, h2, h3, h4, h5⟩

/-! ### Word elements -/

theorem List_getD_set_set (l : List Nat) (i x y : Nat) (h : i + 1 < l.length) :
    ((l.set i x).set (i + 1) y).getD i 0 = x ∧
    ((l.set i x).set (i + 1) y).getD (i + 1) 0 = y ∧
    ((l.set i x).set (i + 1) y).length = l.length ∧
    ∀ j, j ≠ i → j ≠ i + 1 → ((l.set i x).set (i + 1) y).getD j 0 = l.getD j 0 := by
  refine ⟨?_, ?_, by simp, ?_⟩
  · rw [List.getD_eq_getElem?_getD, List.getElem?_set_ne (by omega),
      List.getElem?_set_self (by omega)]
    rfl
  · rw [List.getD_eq_getElem?_getD, List.getElem?_set_self (by simp; omega)]
    rfl
  · intro j h1 h2
    rw [List.getD_eq_getElem?_getD, List.getD_eq_getElem?_getD,
      List.getElem?_set_ne (fun e => h2 e.symm), List.getElem?_set_ne (fun e => h1 e.symm)]

theorem List_getD_set_set4 (l : List Nat) (i a b x y : Nat) (h : i + 1 < l.length) :
    ((((l.set i a).set (i + 1) b).set i x).set (i + 1) y).getD i 0 = x ∧
    ((((l.set i a).set (i + 1) b).set i x).set (i + 1) y).getD (i + 1) 0 = y ∧
    ((((l.set i a).set (i + 1) b).set i x).set (i + 1) y).length = l.length ∧
    ∀ j, j ≠ i → j ≠ i + 1 →
      ((((l.set i a).set (i + 1) b).set i x).set (i + 1) y).getD j 0 = l.getD j 0 := by
  have h' : i + 1 < ((l.set i a).set (i + 1) b).length := by simpa using h
  obtain ⟨h1, h2, h3, h4⟩ := List_getD_set_set ((l.set i a).set (i + 1) b) i x y h'
  refine ⟨h1, h2, by simp, ?_⟩
  intro j hj1 hj2
  rw [h4 j hj1 hj2]
  exact (List_getD_set_set l i a b h).2.2.2 j hj1 hj2

/-- Counterexample to C27 as stated: in the state `relaxExample` the symbol
"ext" has the address 5; a record of kind 0x0A (word elements, symbol,
`slotWidthIsTwo` set) at index 0 on the bytes 34 12 of a little-endian target
leaves the bytes 39 00, not the 16-bit sum 0x1239 as 39 12. -/
theorem C27_counterexample :
    ∃ st' work',
      CodeSequence__processOneRelocation (Gameboy_targetInfo (fun _ => 0)) 65536
        relaxExample 0 { kind := CodeSequence_makeKindFromInteger default 0x0A,
                         index := 0, value := 0 }
        { byteList := [0x34, 0x12], isSignificantList := [true, true],
          offsetByRelaxation := 0, errorKind := 0, errorRecord := default }
        = some (st', work') ∧
      (CodeSequence_makeKindFromInteger default 0x0A).elementsAreBytes = false ∧
      (CodeSequence_makeKindFromInteger default 0x0A).slotWidthIsTwo = true ∧
      (0x34 + 256 * 0x12 + 5) % 65536 = 0x1239 ∧
      work'.byteList = [0x39, 0x00] ∧ work'.byteList ≠ [0x39, 0x12] := by
  refine ⟨_, _, rfl, ?_, ?_, ?_, ?_, ?_⟩ <;> decide

/-- C27 (amended): let a relocation record have word elements
(`elementsAreBytes` clear), no PC-relative and no paged addressing, the index
`i` with both bytes of the slot inside the byte array, and let its symbol or
segment resolve to the address `A`; let the word size `M` of the host be a
multiple of 65536, and `w` be the 16-bit sum of the word in the slot (read
in the byte order of the target) and `A`.  Then
`CodeSequence__processOneRelocation` returns without a warning, changes no
other byte, no flag of `isSignificantList` and not `offsetByRelaxation`, and
afterwards: when `slotWidthIsTwo` is clear, the slot holds `w` in the byte
order of the target; when `slotWidthIsTwo` is set, the low-order position of
the slot holds the low byte of `w` (the high byte of `w` when
`mostSignificantByteIsUsed` is set) and the other position holds 0. -/
theorem C27_word_elements (target : Target_Type) (M : Nat) (st : Linker)
    (codeSequenceBaseAddress : Nat) (r : CodeSequence_Relocation)
    (work : CodeSequence__Work) (A : Nat) (symbol segment : Option Nat)
    (hM : 65536 ∣ M)
    (hres : CodeSequence__resolveTarget M st r = some (some (A, symbol, segment)))
    (hword : r.kind.elementsAreBytes = false)
    (hpcr : r.kind.isRelocatedPCRelative = false)
    (hpage : r.kind.pageIsReferenced = false)
    (hzero : r.kind.zeroPageIsReferenced = false)
    (hslot : r.index + 1 < work.byteList.length) :
    ∃ work',
      CodeSequence__processOneRelocation target M st codeSequenceBaseAddress r work
        = some (st, work') ∧
      work'.isSignificantList = work.isSignificantList ∧
      work'.offsetByRelaxation = work.offsetByRelaxation ∧
      work'.byteList.length = work.byteList.length ∧
      (∀ j, j ≠ r.index → j ≠ r.index + 1 →
        work'.byteList.getD j 0 = work.byteList.getD j 0) ∧
      (r.kind.slotWidthIsTwo = false →
        work'.byteList.getD (if target.isBigEndian then r.index + 1 else r.index) 0
          = ((work.byteList.getD (if target.isBigEndian then r.index + 1 else r.index) 0
              + 256 * work.byteList.getD (if target.isBigEndian then r.index
                  else r.index + 1) 0 + A) % 65536) % 256 ∧
        work'.byteList.getD (if target.isBigEndian then r.index else r.index + 1) 0
          = ((work.byteList.getD (if target.isBigEndian then r.index + 1 else r.index) 0
              + 256 * work.byteList.getD (if target.isBigEndian then r.index
                  else r.index + 1) 0 + A) % 65536) / 256) ∧
      (r.kind.slotWidthIsTwo = true →
        work'.byteList.getD (if target.isBigEndian then r.index + 1 else r.index) 0
          = (if r.kind.mostSignificantByteIsUsed
             then ((work.byteList.getD (if target.isBigEndian then r.index + 1
                      else r.index) 0
                    + 256 * work.byteList.getD (if target.isBigEndian then r.index
                        else r.index + 1) 0 + A) % 65536) / 256
             else ((work.byteList.getD (if target.isBigEndian then r.index + 1
                      else r.index) 0
                    + 256 * work.byteList.getD (if target.isBigEndian then r.index
                        else r.index + 1) 0 + A) % 65536) % 256) ∧
        work'.byteList.getD (if target.isBigEndian then r.index else r.index + 1) 0 = 0) := by
  have hb : ∀ b0 b1, CodeSequence__leastSignificantByte ((A + (b1 * 256 + b0) % M) % M)
        = ((b0 + 256 * b1 + A) % 65536) % 256 ∧
      CodeSequence__mostSignificantByte ((A + (b1 * 256 + b0) % M) % M)
        = ((b0 + 256 * b1 + A) % 65536) / 256 := by
    intro b0 b1
    have h := CodeSequence__wordBytes M A (b1 * 256 + b0) hM
    have e : b1 * 256 + b0 + A = b0 + 256 * b1 + A := by omega
    rw [e] at h
    exact h
  unfold CodeSequence__processOneRelocation
  simp only [hres, hword, hpcr, hpage, hzero, Bool.or_self, Bool.false_eq_true, if_false,
    Bool.false_and, CodeSequence__addWordToWord, CodeSequence__makeWord,
    CodeSequence__setCodeWordToByte]
  cases hbig : target.isBigEndian <;> cases hs : r.kind.slotWidthIsTwo <;>
    cases hm : r.kind.mostSignificantByteIsUsed <;>
    simp only [Bool.false_eq_true, if_false, if_true] <;>
    refine ⟨_, rfl, rfl, rfl, ?_, ?_, ?_, ?_⟩ <;> dsimp only
  all_goals first
    | (intro h; exact absurd h (by decide))
    | simp only [List.length_set]
    | (intro j h1 h2
       first
       | exact (List_getD_set_set _ _ _ _ hslot).2.2.2 j h1 h2
       | exact (List_getD_set_set4 _ _ _ _ _ _ hslot).2.2.2 j h1 h2)
    | (intro _
       first
       | (rw [(List_getD_set_set _ _ _ _ hslot).1, (List_getD_set_set _ _ _ _ hslot).2.1,
            (hb _ _).1, (hb _ _).2]
          exact ⟨rfl, rfl⟩)
       | (rw [(List_getD_set_set4 _ _ _ _ _ _ hslot).1,
            (List_getD_set_set4 _ _ _ _ _ _ hslot).2.1, (hb _ _).1]
          exact ⟨rfl, rfl⟩)
       | (rw [(List_getD_set_set4 _ _ _ _ _ _ hslot).1,
            (List_getD_set_set4 _ _ _ _ _ _ hslot).2.1, (hb _ _).2]
          exact ⟨rfl, rfl⟩))

/-- Witness of `C27_word_elements`: in the state `relaxExample` a record of
kind 0x02 (word elements, symbol, `slotWidthIsTwo` clear) at index 0 for the
symbol "ext" (address 5) turns the bytes 34 12 into 39 12, the sum 0x1239. -/
theorem C27_word_elements_witness :
    ∃ work',
      CodeSequence__processOneRelocation (Gameboy_targetInfo (fun _ => 0)) 65536
        relaxExample 0 { kind := CodeSequence_makeKindFromInteger default 0x02,
                         index := 0, value := 0 }
        { byteList := [0x34, 0x12], isSignificantList := [true, true],
          offsetByRelaxation := 0, errorKind := 0, errorRecord := default }
        = some (relaxExample, work') ∧
      work'.byteList.getD 0 0 = 0x39 ∧ work'.byteList.getD 1 0 = 0x12 :=
  let ⟨work', h1, _, _, _, _, h6, _⟩ :=
    C27_word_elements (Gameboy_targetInfo (fun _ => 0)) 65536 relaxExample 0
      { kind := CodeSequence_makeKindFromInteger default 0x02, index := 0, value := 0 }
      { byteList := [0x34, 0x12], isSignificantList := [true, true],
        offsetByRelaxation := 0, errorKind := 0, errorRecord := default }
      5 (some 0) none (dvd_refl _) rfl rfl rfl rfl rfl (by decide)
  ⟨work', h1, (h6 rfl).1, (h6 rfl).2⟩

/-! ### Byte elements in a slot of two bytes -/

theorem CodeSequence__condense_after (flags : List Bool) :
    ∀ (count i j n : Nat) (bytes : List Nat), j < i → i + count ≤ bytes.length →
      (∀ k, i ≤ k → flags.getD k true = true) →
      (∀ k, k < j →
        (CodeSequence__condense flags count i j n bytes).1.getD k 0 = bytes.getD k 0) ∧
      (∀ t, t < count →
        (CodeSequence__condense flags count i j n bytes).1.getD (j + t) 0
          = bytes.getD (i + t) 0) := by
  intro count
  induction count with
  | zero =>
    intro i j n bytes _ _ _
    simp [CodeSequence__condense]
  | succ c ih =>
    intro i j n bytes hji hlen hflags
    have hne : (i != j) = true := by simp; omega
    rw [CodeSequence__condense]
    simp only [hflags i (Nat.le_refl i), Bool.not_true, Bool.false_eq_true, if_false, hne,
      if_true]
    obtain ⟨ih1, ih2⟩ := ih (i + 1) (j + 1) n (bytes.set j (bytes.getD i 0)) (by omega)
      (by rw [List.length_set]; omega) (fun k hk => hflags k (by omega))
    have hset : ∀ k, (bytes.set j (bytes.getD i 0)).getD k 0
        = if k = j then bytes.getD i 0 else bytes.getD k 0 := by
      intro k
      rw [List.getD_eq_getElem?_getD, List.getElem?_set]
      by_cases hk : j = k
      · subst hk
        rw [if_pos rfl, if_pos (by omega), if_pos rfl]
        rfl
      · rw [if_neg hk, if_neg (fun e => hk e.symm), List.getD_eq_getElem?_getD]
    refine ⟨?_, ?_⟩
    · intro k hk
      rw [ih1 k (by omega), hset, if_neg (by omega)]
    · intro t ht
      cases t with
      | zero =>
        show (CodeSequence__condense flags c (i + 1) (j + 1) n
            (bytes.set j (bytes.getD i 0))).1.getD j 0 = bytes.getD i 0
        rw [ih1 j (by omega), hset, if_pos rfl]
      | succ u =>
        have e1 : j + (u + 1) = j + 1 + u := by omega
        have e2 : i + (u + 1) = i + 1 + u := by omega
        rw [e1, e2, ih2 u (by omega), hset, if_neg (by omega)]

theorem CodeSequence__condense_single (flags : List Bool) (p : Nat)
    (hflags : ∀ k, flags.getD k true = decide (k ≠ p)) :
    ∀ (count i n : Nat) (bytes : List Nat), i ≤ p → p < i + count →
      i + count ≤ bytes.length →
      (∀ k, k < p →
        (CodeSequence__condense flags count i i n bytes).1.getD k 0 = bytes.getD k 0) ∧
      (∀ k, p ≤ k → k + 1 < i + count →
        (CodeSequence__condense flags count i i n bytes).1.getD k 0
          = bytes.getD (k + 1) 0) := by
  intro count
  induction count with
  | zero => intro i n bytes h1 h2 _; omega
  | succ c ih =>
    intro i n bytes hip hpc hlen
    rw [CodeSequence__condense]
    by_cases hi : i = p
    · subst hi
      have hf : flags.getD i true = false := by rw [hflags]; simp
      simp only [hf, Bool.not_false, if_true]
      obtain ⟨a1, a2⟩ := CodeSequence__condense_after flags c (i + 1) i ((n + 255) % 256)
        bytes (by omega) (by omega)
        (fun k hk => by rw [hflags]; simp; omega)
      refine ⟨a1, ?_⟩
      intro k hk1 hk2
      have := a2 (k - i) (by omega)
      rw [show i + (k - i) = k by omega, show i + 1 + (k - i) = k + 1 by omega] at this
      exact this
    · have hf : flags.getD i true = true := by rw [hflags]; simp [hi]
      simp only [hf, Bool.not_true, Bool.false_eq_true, if_false, bne_self_eq_false]
      obtain ⟨b1, b2⟩ := ih (i + 1) n bytes (by omega) (by omega) (by omega)
      exact ⟨b1, fun k hk1 hk2 => b2 k hk1 (by omega)⟩

theorem CodeSequence__checkRelocation_none (M : Nat)
    (kind : CodeSequence_RelocationKind) (relocatedValue : Nat)
    (hvalue : relocatedValue < 256) (hpcr : kind.isRelocatedPCRelative = false)
    (hpage : kind.pageIsReferenced = false) (hzero : kind.zeroPageIsReferenced = false) :
    CodeSequence__checkRelocation M kind relocatedValue = CodeSequence__RelocError_none := by
  have hmsb : CodeSequence__mostSignificantByte relocatedValue = 0 := by
    unfold CodeSequence__mostSignificantByte
    omega
  unfold CodeSequence__checkRelocation
  simp [hmsb, hpcr, hpage, hzero]

theorem CodeSequence__processOneRelocation_byteSlotTwo (target : Target_Type) (M : Nat)
    (st : Linker) (base : Nat) (r : CodeSequence_Relocation) (work : CodeSequence__Work)
    (A : Nat) (symbol segment : Option Nat)
    (hres : CodeSequence__resolveTarget M st r = some (some (A, symbol, segment)))
    (hbytes : r.kind.elementsAreBytes = true) (hslot2 : r.kind.slotWidthIsTwo = true)
    (hpcr : r.kind.isRelocatedPCRelative = false)
    (hpage : r.kind.pageIsReferenced = false)
    (hzero : r.kind.zeroPageIsReferenced = false) :
    CodeSequence__processOneRelocation target M st base r work
      = some (st,
          { byteList := (CodeSequence__addWordToWord target M A work.byteList r.index).2,
            isSignificantList := CodeSequence__resetByteFlag target work.isSignificantList
              r.index r.kind.mostSignificantByteIsUsed,
            offsetByRelaxation := (work.offsetByRelaxation + 1) % M,
            errorKind := CodeSequence__RelocError_none,
            errorRecord := work.errorRecord }) := by
  unfold CodeSequence__processOneRelocation
  simp only [hres, hbytes, hslot2, hpcr, hpage, hzero, Bool.or_self, Bool.false_eq_true,
    if_false, Bool.not_true, Bool.and_self, if_true]
  cases hm : r.kind.mostSignificantByteIsUsed
  · simp only [Bool.false_eq_true, if_false]
    have hc := CodeSequence__checkRelocation_none M r.kind
      ((CodeSequence__addWordToWord target M A work.byteList r.index).1 &&& 0xFF)
      (Nat_and_255_lt _) hpcr hpage hzero
    simp only [hc, bne_self_eq_false, Bool.false_eq_true, if_false]
  · simp only [if_true]
    have hc := CodeSequence__checkRelocation_none M r.kind
      ((((CodeSequence__addWordToWord target M A work.byteList r.index).1 / 256) % M)
        &&& 0xFF)
      (Nat_and_255_lt _) hpcr hpage hzero
    simp only [hc, bne_self_eq_false, Bool.false_eq_true, if_false]

/-- Counterexample to C26 as stated: in the state `relaxExample` the symbol
"ext" resolves to the address 5; for the single record of kind 0x0F (byte
elements, symbol, PC-relative, slot width two) at index 0 on the bytes 34 12
the claim gives w = 0x1239 and the low byte 0x39, but the relocated sequence
holds 0x38, because the PC-relative step subtracts the index and 1 from the
address before the addition. -/
theorem C26_counterexample :
    ∃ st' sequence',
      CodeSequence_relocate (Gameboy_targetInfo (fun _ => 0)) 65536 relaxExample 0
        default relaxSequence 0
        { segment := some 2,
          list := [{ kind := CodeSequence_makeKindFromInteger default 0x0F, index := 0,
                     value := 0 }] } = some (st', sequence') ∧
      CodeSequence__resolveTarget 65536 relaxExample
        { kind := CodeSequence_makeKindFromInteger default 0x0F, index := 0, value := 0 }
        = some (some (5, some 0, none)) ∧
      (relaxSequence.byteList.getD 0 0 + 256 * relaxSequence.byteList.getD 1 0 + 5) % 65536
        % 256 = 0x39 ∧
      sequence'.length = 1 ∧ sequence'.byteList.getD 0 0 = 0x38 := by
  refine ⟨_, _, rfl, ?_, ?_, ?_, ?_⟩ <;> decide

/-- C26 (amended): on a little-endian target let the relocation list of a
code sequence hold a single record with byte elements and slot width two, not
PC-relative and not paged, at an index `i` whose slot (the bytes `i` and
`i + 1`) lies inside the sequence, and let its symbol or segment resolve to
the address `A`; the segment of the list is valid, the length is a `UINT8`
value, and the word size `M` of the host is a multiple of 65536.  With
w = (byte[i] + 256 * byte[i+1] + A) mod 65536, `CodeSequence_relocate`
returns without a warning, the relocated sequence is one byte shorter, its
bytes before `i` are unchanged, its byte at `i` is the high byte of w when
`mostSignificantByteIsUsed` is set and the low byte of w otherwise, and the
bytes that followed the slot are moved down by one position. -/
theorem C26_byte_slot_two (target : Target_Type) (M : Nat) (st : Linker)
    (errorKind0 : Nat) (errorRecord0 : CodeSequence__ErrorRecord)
    (sequence : CodeSequence_Type) (relocationList : CodeSequence_RelocationList)
    (r : CodeSequence_Relocation) (A : Nat) (symbol segment : Option Nat)
    (s a : Nat) (sr : Area__SegmentRecord) (ar : Area__Record)
    (hM : 65536 ∣ M) (hlittle : target.isBigEndian = false)
    (hlist : relocationList.list = [r])
    (hseg : relocationList.segment = some s) (hsr : st.segmentHeap[s]? = some sr)
    (hpa : sr.parentArea = some a) (har : st.Area__list[a]? = some ar)
    (hres : CodeSequence__resolveTarget M st r = some (some (A, symbol, segment)))
    (hbytes : r.kind.elementsAreBytes = true) (hslot2 : r.kind.slotWidthIsTwo = true)
    (hpcr : r.kind.isRelocatedPCRelative = false)
    (hpage : r.kind.pageIsReferenced = false)
    (hzero : r.kind.zeroPageIsReferenced = false)
    (hlen : sequence.length < 256) (hslot : r.index + 1 < sequence.length)
    (hsize : sequence.length ≤ sequence.byteList.length) :
    ∃ sequence',
      CodeSequence_relocate target M st errorKind0 errorRecord0 sequence 0 relocationList
        = some (st, sequence') ∧
      sequence'.length = sequence.length - 1 ∧
      (∀ j, j < r.index → sequence'.byteList.getD j 0 = sequence.byteList.getD j 0) ∧
      sequence'.byteList.getD r.index 0
        = (if r.kind.mostSignificantByteIsUsed
           then ((sequence.byteList.getD r.index 0
                  + 256 * sequence.byteList.getD (r.index + 1) 0 + A) % 65536) / 256
           else ((sequence.byteList.getD r.index 0
                  + 256 * sequence.byteList.getD (r.index + 1) 0 + A) % 65536) % 256) ∧
      (∀ j, r.index < j → j < sequence.length - 1 →
        sequence'.byteList.getD j 0 = sequence.byteList.getD (j + 1) 0) := by
  have hb := CodeSequence__wordBytes M A
    (sequence.byteList.getD (r.index + 1) 0 * 256 + sequence.byteList.getD r.index 0) hM
  have e : sequence.byteList.getD (r.index + 1) 0 * 256 + sequence.byteList.getD r.index 0 + A
      = sequence.byteList.getD r.index 0 + 256 * sequence.byteList.getD (r.index + 1) 0 + A := by
    omega
  rw [e] at hb
  have hslot' : r.index + 1 < sequence.byteList.length := by omega
  -- the position whose flag is cleared
  obtain ⟨p, hp, hflagsEq⟩ : ∃ p, p = (if r.kind.mostSignificantByteIsUsed then r.index
        else r.index + 1) ∧
      CodeSequence__resetByteFlag target (List.replicate 256 true) r.index
        r.kind.mostSignificantByteIsUsed = (List.replicate 256 true).set p false := by
    refine ⟨_, rfl, ?_⟩
    unfold CodeSequence__resetByteFlag
    cases r.kind.mostSignificantByteIsUsed <;>
      simp only [hlittle, Bool.false_eq_true, if_false, if_true, Nat.add_zero]
  have hpn : p < sequence.length := by
    rw [hp]; split <;> omega
  have hflags : ∀ k, ((List.replicate 256 true).set p false).getD k true = decide (k ≠ p) := by
    intro k
    rw [List_getD_set_false, List_getD_replicate_true, List.length_replicate]
    by_cases hk : k = p
    · subst hk
      simp
      omega
    · simp [hk]
      exact Or.inl (fun h => hk h.symm)
  have hbl : (CodeSequence__addWordToWord target M A sequence.byteList r.index).2
      = (sequence.byteList.set r.index
          (((sequence.byteList.getD r.index 0
            + 256 * sequence.byteList.getD (r.index + 1) 0 + A) % 65536) % 256)).set
          (r.index + 1)
          (((sequence.byteList.getD r.index 0
            + 256 * sequence.byteList.getD (r.index + 1) 0 + A) % 65536) / 256) := by
    simp only [CodeSequence__addWordToWord, CodeSequence__makeWord, hlittle,
      Bool.false_eq_true, if_false, hb.1, hb.2]
  obtain ⟨g1, g2, g3, g4⟩ := List_getD_set_set sequence.byteList r.index
    (((sequence.byteList.getD r.index 0
      + 256 * sequence.byteList.getD (r.index + 1) 0 + A) % 65536) % 256)
    (((sequence.byteList.getD r.index 0
      + 256 * sequence.byteList.getD (r.index + 1) 0 + A) % 65536) / 256) hslot'
  have hproc := CodeSequence__processOneRelocation_byteSlotTwo target M st
    (sequence.offsetAddress + sr.startAddress) r
    { byteList := sequence.byteList, isSignificantList := List.replicate 256 true,
      offsetByRelaxation := 0, errorKind := errorKind0, errorRecord := errorRecord0 }
    A symbol segment hres hbytes hslot2 hpcr hpage hzero
  simp only [hbl, hflagsEq] at hproc
  obtain ⟨c1, c2⟩ := CodeSequence__condense_single _ p hflags sequence.length 0
    sequence.length
    ((sequence.byteList.set r.index
      (((sequence.byteList.getD r.index 0
        + 256 * sequence.byteList.getD (r.index + 1) 0 + A) % 65536) % 256)).set
      (r.index + 1)
      (((sequence.byteList.getD r.index 0
        + 256 * sequence.byteList.getD (r.index + 1) 0 + A) % 65536) / 256))
    (Nat.zero_le _) (by omega) (by rw [g3]; omega)
  have hlength := CodeSequence__condense_length ((List.replicate 256 true).set p false)
    sequence.length 0 0 sequence.length
    ((sequence.byteList.set r.index
      (((sequence.byteList.getD r.index 0
        + 256 * sequence.byteList.getD (r.index + 1) 0 + A) % 65536) % 256)).set
      (r.index + 1)
      (((sequence.byteList.getD r.index 0
        + 256 * sequence.byteList.getD (r.index + 1) 0 + A) % 65536) / 256))
    (Nat.le_refl _) hlen
  have hcount : ((List.range sequence.length).filter
      (fun k => !((List.replicate 256 true).set p false).getD (0 + k) true)).length = 1 := by
    simp only [Nat.zero_add]
    rw [cleared_count_set_lt (List.replicate 256 true) p
      (by rw [List.length_replicate]; omega) (List_getD_replicate_true 256 p)
      sequence.length hpn]
    have hzero' : ((List.range sequence.length).filter
        (fun k => !(List.replicate 256 true).getD k true)).length = 0 := by
      rw [List.length_eq_zero, List.filter_eq_nil_iff]
      intro k _
      rw [List_getD_replicate_true]
      decide
    rw [hzero']
  rw [hcount] at hlength
  unfold CodeSequence_relocate
  simp only [bne_self_eq_false, Bool.false_eq_true, if_false, hseg, hsr, hpa, har, hlist,
    CodeSequence__relocationLoop, hproc]
  have hrep : ∀ e, CodeSequence__reportRelocationError st CodeSequence__RelocError_none e
      = some st := by
    intro e
    unfold CodeSequence__reportRelocationError
    simp
  simp only [hrep]
  refine ⟨_, rfl, hlength, ?_, ?_, ?_⟩
  · intro j hj
    show (CodeSequence__condense _ _ _ _ _ _).1.getD j 0 = _
    rw [c1 j (by rw [hp]; split <;> omega), g4 j (by omega) (by omega)]
  · show (CodeSequence__condense _ _ _ _ _ _).1.getD r.index 0 = _
    cases hm : r.kind.mostSignificantByteIsUsed
    · simp only [hm, Bool.false_eq_true, if_false] at hp ⊢
      rw [c1 r.index (by omega), g1]
    · simp only [hm, if_true] at hp ⊢
      rw [c2 r.index (by omega) (by omega), g2]
  · intro j hj1 hj2
    show (CodeSequence__condense _ _ _ _ _ _).1.getD j 0 = _
    rw [c2 j (by rw [hp]; split <;> omega) (by omega), g4 (j + 1) (by omega) (by omega)]

/-- Witness of `C26_byte_slot_two`: in the state `relaxExample` the record of
`relaxRelocationList` (kind 0x0B: byte elements, symbol, slot width two) at
index 0 refers to the symbol "ext" at the address 5; the bytes 34 12 give
w = 0x1239, and the relocated sequence is the one byte 39. -/
theorem C26_byte_slot_two_witness :
    ∃ sequence',
      CodeSequence_relocate (Gameboy_targetInfo (fun _ => 0)) 65536 relaxExample 0
        default relaxSequence 0 relaxRelocationList = some (relaxExample, sequence') ∧
      sequence'.length = 1 ∧ sequence'.byteList.getD 0 0 = 0x39 :=
  let ⟨sequence', h1, h2, _, h4, _⟩ :=
    C26_byte_slot_two (Gameboy_targetInfo (fun _ => 0)) 65536 relaxExample 0 default
      relaxSequence relaxRelocationList
      { kind := CodeSequence_makeKindFromInteger default 0x0B, index := 0, value := 0 }
      5 (some 0) none 2 1
      { parentArea := some 1, parentModule := some 1, startAddress := 0,
        totalSize := 0x20, symbolList := [] }
      { name := "CODE", attributes := 0, startAddress := 0x100, totalSize := 0,
        segmentList := [1, 2] }
      (dvd_refl _) rfl rfl rfl rfl rfl rfl rfl rfl rfl rfl rfl rfl (by decide) (by decide)
      (by
        show 2 ≤ ([0x34, 0x12] ++ List.replicate 254 0).length
        rw [List.length_append, List.length_replicate]
        decide)
  ⟨sequence', h1, h2, h4⟩

/-! ### The defining segment of the symbols made by `Area_link` -/

/-- Counterexample to C30 as stated: after `Area_link` on `layoutExample` the
symbols "s_CODE" and "l_CODE" have a defining segment, the segment 6 that
`Area_makeAbsoluteSegment` has made in area ".ABS.". -/
theorem C30_counterexample :
    ∃ st',
      Area_link 65536 layoutExample = some st' ∧
      Symbol_getSegment st' (Symbol_lookup st' "s_CODE") = some (some 6) ∧
      Symbol_getSegment st' (Symbol_lookup st' "l_CODE") = some (some 6) ∧
      Symbol_getSegment st' (Symbol_lookup st' "s_CODE") ≠ some none ∧
      Symbol_getSegment st' (Symbol_lookup st' "l_CODE") ≠ some none := by
  refine ⟨_, rfl, ?_, ?_, ?_, ?_⟩ <;> decide

/-- C30 (amended): on the case sensitive platform of this repository, let
`Area_link` return for a state whose area list starts from `Area_initialize`
(the area ".ABS." behind `Area__absoluteArea` is absolute and overlayed, area
names are distinct, segment pointers are valid, the name index leads to
records of the indexed name).  Then the segment that
`Area_makeAbsoluteSegment` makes at the start of `Area_link` is a segment of
area ".ABS.", and for every area X other than ".ABS." the symbols "s_"+X and
"l_"+X have this segment as their defining segment and X's `startAddress` and
`totalSize` as their offsets. -/
theorem C30_auto_symbols_segment (M : Nat) (st st' : Linker) (abs : Area__Record)
    (hcase : st.Symbol__platformIsCaseSensitive = true)
    (habs : st.Area__list[st.Area__absoluteArea]? = some abs)
    (habsName : abs.name = Area__absoluteAreaName)
    (habsAbsolute : Set_isElement abs.attributes Area_Attribute_isAbsolute = true)
    (habsOverlayed : Set_isElement abs.attributes Area_Attribute_hasOverlayedSegments = true)
    (hnames : (st.Area__list.map (fun r => r.name)).Nodup)
    (hsegments : ∀ r ∈ st.Area__list, ∀ s ∈ r.segmentList, s < st.segmentHeap.length)
    (hindex : Symbol_indexIsConsistent st)
    (hlink : Area_link M st = some st') :
    ∃ a g, st'.Area__list[st.Area__absoluteArea]? = some a ∧
      a.name = Area__absoluteAreaName ∧ st.segmentHeap.length ∈ a.segmentList ∧
      st'.segmentHeap[st.segmentHeap.length]? = some g ∧
      ∀ x ∈ st'.Area__list, x.name ≠ Area__absoluteAreaName →
        ∃ s l rs rl, Symbol_lookup st' ("s_" ++ x.name) = some s ∧
          Symbol_lookup st' ("l_" ++ x.name) = some l ∧
          st'.Symbol__list[s]? = some rs ∧ st'.Symbol__list[l]? = some rl ∧
          rs.startAddress = x.startAddress ∧ rl.startAddress = x.totalSize ∧
          Symbol_getSegment st' (some s) = some (some st.segmentHeap.length) ∧
          Symbol_getSegment st' (some l) = some (some st.segmentHeap.length) := by
  unfold Area_link at hlink
  cases h1 : Area_makeAbsoluteSegment st with
  | none => simp only [h1] at hlink; cases hlink
  | some st1 =>
    simp only [h1] at hlink
    have hinv1 := Area_makeAbsoluteSegment_invariant st st1 abs hcase habs habsName
      habsAbsolute habsOverlayed hnames hsegments hindex h1
    have hinv := Area_linkLoop_invariant M _ hnames _ _ _ _ 0 0 st1 st'
      (by simp [List.range_eq_range']) hinv1 hlink
    simp only [Nat.zero_add, List.length_range] at hinv
    obtain ⟨ar, har, harName, _, _, harSeg⟩ := hinv.absRecord
    obtain ⟨g, hg, _⟩ := hinv.absSegment
    have hlen : st1.Area__list.length = st'.Area__list.length := by
      have e1 := congrArg List.length hinv1.areaNames
      have e2 := congrArg List.length hinv.areaNames
      simp only [List.length_map] at e1 e2
      omega
    refine ⟨ar, g, har, harName, harSeg, hg, ?_⟩
    intro x hx hxn
    obtain ⟨i, hi⟩ := List.getElem?_of_mem hx
    have hilt : i < st1.Area__list.length := by
      rw [hlen]
      exact (List.getElem?_eq_some.mp hi).1
    obtain ⟨⟨s, rs, hsIdx, hsRec, hsName, hsDef, hsStart, hsSeg⟩,
      ⟨l, rl, hlIdx, hlRec, hlName, hlDef, hlStart, hlSeg⟩⟩ := hinv.symbols i x hilt hi hxn
    have hnorm : ∀ n, Symbol__normalizedName st' n = n := by
      intro n
      simp [Symbol__normalizedName, hinv.caseSensitive]
    refine ⟨s, l, rs, rl, ?_, ?_, hsRec, hlRec, hsStart, hlStart, ?_, ?_⟩
    · rw [Symbol_lookup_eq, hnorm]; exact hsIdx
    · rw [Symbol_lookup_eq, hnorm]; exact hlIdx
    · simp [Symbol_getSegment, hsRec, hsSeg]
    · simp [Symbol_getSegment, hlRec, hlSeg]

/-- Witness of `C30_auto_symbols_segment`: the state `layoutExample`, whose
segment heap has six records, so that the absolute segment made by `Area_link`
is segment 6. -/
theorem C30_auto_symbols_segment_witness :
    ∃ st', Area_link 65536 layoutExample = some st' ∧
      ∃ a g, st'.Area__list[0]? = some a ∧
        a.name = Area__absoluteAreaName ∧ 6 ∈ a.segmentList ∧
        st'.segmentHeap[6]? = some g ∧
        ∀ x ∈ st'.Area__list, x.name ≠ Area__absoluteAreaName →
          ∃ s l rs rl, Symbol_lookup st' ("s_" ++ x.name) = some s ∧
            Symbol_lookup st' ("l_" ++ x.name) = some l ∧
            st'.Symbol__list[s]? = some rs ∧ st'.Symbol__list[l]? = some rl ∧
            rs.startAddress = x.startAddress ∧ rl.startAddress = x.totalSize ∧
            Symbol_getSegment st' (some s) = some (some 6) ∧
            Symbol_getSegment st' (some l) = some (some 6) :=
  ⟨_, rfl,
    C30_auto_symbols_segment 65536 layoutExample _
      { name := ".ABS.", attributes := 3, startAddress := 0, totalSize := 0,
        segmentList := [0, 5] }
      rfl rfl rfl (by decide) (by decide) (by decide) (by decide)
      (fun _ _ h => Option.noConfusion h) rfl⟩

theorem Gameboy__getCartridgeByte_set (g g' : Gameboy_Module) (address value : Nat)
    (h : Gameboy__setCartridgeByte g address value = some g') (a : Nat) :
    Gameboy__getCartridgeByte g' a
      = if (a / Gameboy__bankSize) % 256 = (address / Gameboy__bankSize) % 256 ∧
          a % Gameboy__bankSize = address % Gameboy__bankSize
        then some (value % 256) else Gameboy__getCartridgeByte g a := by
  unfold Gameboy__setCartridgeByte at h
  cases hd : g.Gameboy__data ((address / Gameboy__bankSize) % 256) with
  | none => simp [hd] at h
  | some data =>
    simp only [hd] at h
    by_cases hlt : address % Gameboy__bankSize < data.length
    · rw [if_pos hlt] at h
      simp only [Option.some.injEq] at h
      subst h
      unfold Gameboy__getCartridgeByte
      by_cases hb : (a / Gameboy__bankSize) % 256 = (address / Gameboy__bankSize) % 256
      · simp only [hb, if_true, true_and, hd]
        by_cases hr : a % Gameboy__bankSize = address % Gameboy__bankSize
        · rw [if_pos hr, hr, List.getElem?_set_self hlt]
        · rw [if_neg hr, List.getElem?_set_ne (fun e => hr e.symm)]
      · simp only [hb, if_false, false_and]
    · rw [if_neg hlt] at h
      cases h

theorem Gameboy__setCartridgeByte_frame (g g' : Gameboy_Module) (address value : Nat)
    (h : Gameboy__setCartridgeByte g address value = some g') :
    g'.Gameboy__cartridgeTitle = g.Gameboy__cartridgeTitle ∧
    g'.Gameboy__romBankCount = g.Gameboy__romBankCount ∧
    g'.Gameboy__ramBankCount = g.Gameboy__ramBankCount ∧
    g'.Gameboy__cartridgeType = g.Gameboy__cartridgeType ∧
    g'.Gameboy__patchList = g.Gameboy__patchList ∧
    ∀ b, Gameboy_bankIsAllocated g b → Gameboy_bankIsAllocated g' b := by
  unfold Gameboy__setCartridgeByte at h
  cases hd : g.Gameboy__data ((address / Gameboy__bankSize) % 256) with
  | none => simp [hd] at h
  | some data =>
    simp only [hd] at h
    by_cases hlt : address % Gameboy__bankSize < data.length
    · rw [if_pos hlt] at h
      simp only [Option.some.injEq] at h
      subst h
      refine ⟨rfl, rfl, rfl, rfl, rfl, ?_⟩
      intro b ⟨d, hbd, hlen⟩
      by_cases hb : b = (address / Gameboy__bankSize) % 256
      · subst hb
        rw [hd] at hbd
        simp only [Option.some.injEq] at hbd
        subst hbd
        exact ⟨data.set (address % Gameboy__bankSize) (value % 256), by simp,
          by simpa using hlen⟩
      · exact ⟨d, by simp [hb, hbd], hlen⟩
    · rw [if_neg hlt] at h
      cases h

theorem Gameboy__setCartridgeByte_total (g : Gameboy_Module) (address value : Nat)
    (h : Gameboy_bankIsAllocated g ((address / Gameboy__bankSize) % 256)) :
    ∃ g', Gameboy__setCartridgeByte g address value = some g' := by
  obtain ⟨data, hd, hlen⟩ := h
  unfold Gameboy__setCartridgeByte
  have hlt : address % Gameboy__bankSize < data.length := by
    rw [hlen]
    exact Nat.mod_lt _ (by decide)
  simp only [hd, hlt, if_true]
  exact ⟨_, rfl⟩

theorem Gameboy_isKept_refl (g : Gameboy_Module) : Gameboy_isKept g g :=
  ⟨rfl, rfl, rfl, rfl, rfl, fun _ h => h⟩

theorem Gameboy_isKept_trans (g1 g2 g3 : Gameboy_Module) (h12 : Gameboy_isKept g1 g2)
    (h23 : Gameboy_isKept g2 g3) : Gameboy_isKept g1 g3 :=
  ⟨h23.1.trans h12.1, h23.2.1.trans h12.2.1, h23.2.2.1.trans h12.2.2.1,
    h23.2.2.2.1.trans h12.2.2.2.1, h23.2.2.2.2.1.trans h12.2.2.2.2.1,
    fun b h => h23.2.2.2.2.2 b (h12.2.2.2.2.2 b h)⟩

theorem Gameboy__setCartridgeByte_isKept (g : Gameboy_Module) (address value : Nat)
    (h : Gameboy_bankIsAllocated g ((address / Gameboy__bankSize) % 256)) :
    ∃ g', Gameboy__setCartridgeByte g address value = some g' ∧ Gameboy_isKept g g' := by
  obtain ⟨g', hg'⟩ := Gameboy__setCartridgeByte_total g address value h
  exact ⟨g', hg', Gameboy__setCartridgeByte_frame g g' address value hg'⟩

theorem Gameboy_bank_zero (address : Nat) (h : address < Gameboy__bankSize) :
    (address / Gameboy__bankSize) % 256 = 0 := by
  rw [Nat.div_eq_of_lt h]

theorem Gameboy__putTitle_total :
    ∀ (count : Nat) (g : Gameboy_Module) (pos i : Nat),
      Gameboy_bankIsAllocated g 0 → pos + count ≤ Gameboy__bankSize →
      i + count ≤ g.Gameboy__cartridgeTitle.length →
      ∃ g' pos', Gameboy__putTitle count g pos i = some (g', pos') ∧
        Gameboy_isKept g g' ∧ pos ≤ pos' ∧ pos' ≤ pos + count := by
  intro count
  induction count with
  | zero =>
    intro g pos i _ _ _
    exact ⟨g, pos, rfl, Gameboy_isKept_refl g, Nat.le_refl _, Nat.le_refl _⟩
  | succ c ih =>
    intro g pos i halloc hpos hi
    rw [Gameboy__putTitle]
    have hilt : i < g.Gameboy__cartridgeTitle.length := by omega
    rw [List.getElem?_eq_getElem hilt]
    simp only
    by_cases hch : g.Gameboy__cartridgeTitle[i] = 0
    · rw [if_pos hch]
      exact ⟨g, pos, rfl, Gameboy_isKept_refl g, Nat.le_refl _, by omega⟩
    · rw [if_neg hch]
      have hbank : (pos / Gameboy__bankSize) % 256 = 0 := Gameboy_bank_zero pos (by omega)
      obtain ⟨g1, hg1, hk1⟩ := Gameboy__setCartridgeByte_isKept g pos
        g.Gameboy__cartridgeTitle[i] (by rw [hbank]; exact halloc)
      simp only [hg1]
      obtain ⟨g2, pos2, hg2, hk2, hle1, hle2⟩ := ih g1 (pos + 1) (i + 1)
        (hk1.2.2.2.2.2 0 halloc) (by omega) (by rw [hk1.1]; omega)
      exact ⟨g2, pos2, hg2, Gameboy_isKept_trans g g1 g2 hk1 hk2, by omega, by omega⟩

theorem Gameboy__fillTitle_total :
    ∀ (count : Nat) (g : Gameboy_Module) (pos : Nat),
      Gameboy_bankIsAllocated g 0 → pos + count ≤ Gameboy__bankSize →
      ∃ g', Gameboy__fillTitle count g pos = some g' ∧ Gameboy_isKept g g' := by
  intro count
  induction count with
  | zero =>
    intro g pos _ _
    exact ⟨g, rfl, Gameboy_isKept_refl g⟩
  | succ c ih =>
    intro g pos halloc hpos
    rw [Gameboy__fillTitle]
    have hbank : (pos / Gameboy__bankSize) % 256 = 0 := Gameboy_bank_zero pos (by omega)
    obtain ⟨g1, hg1, hk1⟩ := Gameboy__setCartridgeByte_isKept g pos 0
      (by rw [hbank]; exact halloc)
    simp only [hg1]
    obtain ⟨g2, hg2, hk2⟩ := ih g1 (pos + 1) (hk1.2.2.2.2.2 0 halloc) (by omega)
    exact ⟨g2, hg2, Gameboy_isKept_trans g g1 g2 hk1 hk2⟩

theorem Gameboy__applyPatches_total :
    ∀ (patches : List Gameboy__PatchRecord) (g : Gameboy_Module),
      (∀ p ∈ patches,
        Gameboy_bankIsAllocated g ((p.address / Gameboy__bankSize) % 256)) →
      ∃ g', Gameboy__applyPatches patches g = some g' ∧ Gameboy_isKept g g' := by
  intro patches
  induction patches with
  | nil =>
    intro g _
    exact ⟨g, rfl, Gameboy_isKept_refl g⟩
  | cons p rest ih =>
    intro g hall
    rw [Gameboy__applyPatches]
    obtain ⟨g1, hg1, hk1⟩ := Gameboy__setCartridgeByte_isKept g p.address p.value
      (hall p (List.mem_cons_self _ _))
    simp only [hg1]
    obtain ⟨g2, hg2, hk2⟩ := ih g1
      (fun q hq => hk1.2.2.2.2.2 _ (hall q (List.mem_cons_of_mem _ hq)))
    exact ⟨g2, hg2, Gameboy_isKept_trans g g1 g2 hk1 hk2⟩

theorem Gameboy__addCartridgeBytes_total (M : Nat) (g : Gameboy_Module)
    (halloc : Gameboy_bankIsAllocated g 0) :
    ∀ (positions : List Nat) (checkSum : Nat),
      (∀ pos ∈ positions, pos < Gameboy__bankSize) →
      ∃ c, Gameboy__addCartridgeBytes M g positions checkSum = some c := by
  obtain ⟨data, hd, hlen⟩ := halloc
  intro positions
  induction positions with
  | nil => intro c _; exact ⟨c, rfl⟩
  | cons pos rest ih =>
    intro c hall
    have hpos := hall pos (List.mem_cons_self _ _)
    rw [Gameboy__addCartridgeBytes]
    have hget : Gameboy__getCartridgeByte g pos = some (data.getD pos 0) := by
      unfold Gameboy__getCartridgeByte
      simp only [Gameboy_bank_zero pos hpos, hd, Nat.mod_eq_of_lt hpos]
      rw [List.getD_eq_getElem?_getD, List.getElem?_eq_getElem (by omega)]
      rfl
    simp only [hget]
    exact ih _ (fun q hq => hall q (List.mem_cons_of_mem _ hq))

theorem Gameboy__addBankBytes_total (M : Nat) (data : List Nat) :
    ∀ (positions : List Nat) (checkSum : Nat),
      (∀ pos ∈ positions, pos < data.length) →
      ∃ c, Gameboy__addBankBytes M data positions checkSum = some c := by
  intro positions
  induction positions with
  | nil => intro c _; exact ⟨c, rfl⟩
  | cons pos rest ih =>
    intro c hall
    rw [Gameboy__addBankBytes, List.getElem?_eq_getElem (hall pos (List.mem_cons_self _ _))]
    exact ih _ (fun q hq => hall q (List.mem_cons_of_mem _ hq))

theorem Gameboy__addBanks_total (M : Nat) (g : Gameboy_Module) (positions : List Nat)
    (hpositions : ∀ pos ∈ positions, pos < Gameboy__bankSize) :
    ∀ (banks : List Nat) (checkSum : Nat),
      (∀ i ∈ banks, Gameboy_bankIsAllocated g i) →
      ∃ c, Gameboy__addBanks M g positions banks checkSum = some c := by
  intro banks
  induction banks with
  | nil => intro c _; exact ⟨c, rfl⟩
  | cons i rest ih =>
    intro c hall
    obtain ⟨data, hd, hlen⟩ := hall i (List.mem_cons_self _ _)
    rw [Gameboy__addBanks]
    obtain ⟨c1, hc1⟩ := Gameboy__addBankBytes_total M data positions c
      (fun pos hpos => by rw [hlen]; exact hpositions pos hpos)
    simp only [hd, hc1]
    exact ih _ (fun q hq => hall q (List.mem_cons_of_mem _ hq))

theorem Gameboy__addCartridgeBytes_spec (M : Nat) (g : Gameboy_Module) :
    ∀ (positions : List Nat) (c c' : Nat),
      Gameboy__addCartridgeBytes M g positions c = some c' →
      ∃ bytes : List Nat, positions.map (Gameboy__getCartridgeByte g) = bytes.map some ∧
        c' % M = (c + bytes.sum) % M := by
  intro positions
  induction positions with
  | nil =>
    intro c c' h
    simp only [Gameboy__addCartridgeBytes, Option.some.injEq] at h
    subst h
    exact ⟨[], rfl, rfl⟩
  | cons pos rest ih =>
    intro c c' h
    rw [Gameboy__addCartridgeBytes] at h
    cases hget : Gameboy__getCartridgeByte g pos with
    | none => simp [hget] at h
    | some byte =>
      simp only [hget] at h
      obtain ⟨bytes, hb, hc⟩ := ih _ _ h
      refine ⟨byte :: bytes, by simp [hget, hb], ?_⟩
      rw [hc, List.sum_cons, Nat.add_mod, Nat.mod_mod, ← Nat.add_mod, Nat.add_assoc]

theorem Gameboy__titleCopy_length :
    ∀ (count : Nat) (title : List Nat) (i pos : Nat) (t : List Nat) (p : Nat),
      Gameboy__titleCopy count title i pos = some (t, p) → t.length = title.length := by
  intro count
  induction count with
  | zero =>
    intro title i pos t p h
    simp only [Gameboy__titleCopy, Option.some.injEq, Prod.mk.injEq] at h
    rw [← h.1]
  | succ c ih =>
    intro title i pos t p h
    rw [Gameboy__titleCopy] at h
    cases hch : title[i]? with
    | none => simp [hch] at h
    | some ch =>
      simp only [hch] at h
      by_cases hdot : ch = 46
      · rw [if_pos hdot] at h
        simp only [Option.some.injEq, Prod.mk.injEq] at h
        rw [← h.1]
      · rw [if_neg hdot] at h
        rw [ih _ _ _ _ _ h, List.length_set]

theorem Gameboy__finalizeTitle_length (title t : List Nat)
    (h : Gameboy__finalizeTitle title = some t) : t.length = title.length := by
  unfold Gameboy__finalizeTitle at h
  cases hlen : STRING_strlen title with
  | none => simp [hlen] at h
  | some n =>
    simp only [hlen] at h
    cases hcopy : Gameboy__titleCopy Gameboy__maxTitleLength title
        (Gameboy__titleStart title n) 0 with
    | none => simp [hcopy] at h
    | some r =>
      obtain ⟨t1, p⟩ := r
      simp only [hcopy] at h
      have h1 := Gameboy__titleCopy_length _ _ _ _ _ _ hcopy
      split_ifs at h <;> simp only [Option.some.injEq] at h <;> rw [← h]
      · rw [List.length_set, h1]
      · exact h1

theorem Gameboy__finalizeData_checksum (M : Nat) (g g' : Gameboy_Module) (hM : 256 ∣ M)
    (hret : Gameboy__finalizeData M g = some g') :
    ∃ header : List Nat,
      (List.range' 0x134 25).map (Gameboy__getCartridgeByte g') = header.map some ∧
      Gameboy__getCartridgeByte g' 0x14D = some ((0xE7 + 256 - header.sum % 256) % 256) := by
  unfold Gameboy__finalizeData at hret
  obtain ⟨title, h1⟩ : ∃ x, Gameboy__finalizeTitle g.Gameboy__cartridgeTitle = some x := by
    cases h : Gameboy__finalizeTitle g.Gameboy__cartridgeTitle with
    | none => simp [h] at hret
    | some x => exact ⟨x, rfl⟩
  simp only [h1] at hret
  obtain ⟨⟨g2, pos⟩, h2⟩ : ∃ x, Gameboy__putTitle Gameboy__maxTitleLength
      { g with Gameboy__cartridgeTitle := title } 0x134 0 = some x := by
    cases h : Gameboy__putTitle Gameboy__maxTitleLength
        { g with Gameboy__cartridgeTitle := title } 0x134 0 with
    | none => simp [h] at hret
    | some x => exact ⟨x, rfl⟩
  simp only [h2] at hret
  obtain ⟨g3, h3⟩ : ∃ x, Gameboy__fillTitle (0x134 + Gameboy__maxTitleLength - pos) g2 pos
      = some x := by
    cases h : Gameboy__fillTitle (0x134 + Gameboy__maxTitleLength - pos) g2 pos with
    | none => simp [h] at hret
    | some x => exact ⟨x, rfl⟩
  simp only [h3] at hret
  obtain ⟨g4, h4⟩ : ∃ x, Gameboy__setCartridgeByte g3 0x147 g3.Gameboy__cartridgeType
      = some x := by
    cases h : Gameboy__setCartridgeByte g3 0x147 g3.Gameboy__cartridgeType with
    | none => simp [h] at hret
    | some x => exact ⟨x, rfl⟩
  simp only [h4] at hret
  obtain ⟨g5, h5⟩ : ∃ x, Gameboy__setCartridgeByte g4 0x148
      (Gameboy__romCountCode g4.Gameboy__romBankCount) = some x := by
    cases h : Gameboy__setCartridgeByte g4 0x148
        (Gameboy__romCountCode g4.Gameboy__romBankCount) with
    | none => simp [h] at hret
    | some x => exact ⟨x, rfl⟩
  simp only [h5] at hret
  obtain ⟨g6, h6⟩ : ∃ x, Gameboy__setCartridgeByte g5 0x149
      (Gameboy__ramCountCode g5.Gameboy__ramBankCount) = some x := by
    cases h : Gameboy__setCartridgeByte g5 0x149
        (Gameboy__ramCountCode g5.Gameboy__ramBankCount) with
    | none => simp [h] at hret
    | some x => exact ⟨x, rfl⟩
  simp only [h6] at hret
  obtain ⟨g7, h7⟩ : ∃ x, Gameboy__applyPatches g6.Gameboy__patchList g6 = some x := by
    cases h : Gameboy__applyPatches g6.Gameboy__patchList g6 with
    | none => simp [h] at hret
    | some x => exact ⟨x, rfl⟩
  simp only [h7] at hret
  obtain ⟨checkSum, h8⟩ : ∃ x, Gameboy__addCartridgeBytes M g7
      (List.range' 0x134 (0x14D - 0x134)) 0 = some x := by
    cases h : Gameboy__addCartridgeBytes M g7 (List.range' 0x134 (0x14D - 0x134)) 0 with
    | none => simp [h] at hret
    | some x => exact ⟨x, rfl⟩
  simp only [h8] at hret
  obtain ⟨g9, h9⟩ : ∃ x, Gameboy__setCartridgeByte g7 0x14D
      ((0xE7 + 256 - (checkSum &&& 0xFF) % 256) % 256) = some x := by
    cases h : Gameboy__setCartridgeByte g7 0x14D
        ((0xE7 + 256 - (checkSum &&& 0xFF) % 256) % 256) with
    | none => simp [h] at hret
    | some x => exact ⟨x, rfl⟩
  simp only [h9] at hret
  obtain ⟨g10, h10⟩ : ∃ x, Gameboy__setCartridgeByte g9 0x14E 0 = some x := by
    cases h : Gameboy__setCartridgeByte g9 0x14E 0 with
    | none => simp [h] at hret
    | some x => exact ⟨x, rfl⟩
  simp only [h10] at hret
  obtain ⟨g11, h11⟩ : ∃ x, Gameboy__setCartridgeByte g10 (0x14E + 1) 0 = some x := by
    cases h : Gameboy__setCartridgeByte g10 (0x14E + 1) 0 with
    | none => simp [h] at hret
    | some x => exact ⟨x, rfl⟩
  simp only [h11] at hret
  obtain ⟨checkSum2, h12⟩ : ∃ x, Gameboy__addBanks M g11 (List.range Gameboy__bankSize)
      (List.range g11.Gameboy__romBankCount) 0 = some x := by
    cases h : Gameboy__addBanks M g11 (List.range Gameboy__bankSize)
        (List.range g11.Gameboy__romBankCount) 0 with
    | none => simp [h] at hret
    | some x => exact ⟨x, rfl⟩
  simp only [h12] at hret
  obtain ⟨g13, h13⟩ : ∃ x, Gameboy__setCartridgeByte g11 0x14E
      (((checkSum2 >>> 8) &&& 0xFF) % 256) = some x := by
    cases h : Gameboy__setCartridgeByte g11 0x14E (((checkSum2 >>> 8) &&& 0xFF) % 256) with
    | none => simp [h] at hret
    | some x => exact ⟨x, rfl⟩
  simp only [h13] at hret
  -- the bytes of the header after the last write
  have hkeep : ∀ a, 0x134 ≤ a → a ≤ 0x14D →
      Gameboy__getCartridgeByte g' a = Gameboy__getCartridgeByte g9 a := by
    intro a ha1 ha2
    have hne : ∀ b, 0x14E ≤ b → b ≤ 0x14F →
        ¬((a / Gameboy__bankSize) % 256 = (b / Gameboy__bankSize) % 256 ∧
          a % Gameboy__bankSize = b % Gameboy__bankSize) := by
      intro b hb1 hb2
      simp only [Gameboy__bankSize]
      omega
    rw [Gameboy__getCartridgeByte_set g13 g' _ _ hret a, if_neg (hne _ (by omega) (by omega)),
      Gameboy__getCartridgeByte_set g11 g13 _ _ h13 a, if_neg (hne _ (by omega) (by omega)),
      Gameboy__getCartridgeByte_set g10 g11 _ _ h11 a, if_neg (hne _ (by omega) (by omega)),
      Gameboy__getCartridgeByte_set g9 g10 _ _ h10 a, if_neg (hne _ (by omega) (by omega))]
  obtain ⟨header, hheader, hsum⟩ := Gameboy__addCartridgeBytes_spec M g7 _ _ _ h8
  refine ⟨header, ?_, ?_⟩
  · rw [← hheader]
    apply List.map_congr_left
    intro a ha
    have hmem := List.mem_range'_1.mp ha
    rw [hkeep a (by omega) (by omega), Gameboy__getCartridgeByte_set g7 g9 _ _ h9 a,
      if_neg]
    simp only [Gameboy__bankSize]
    omega
  · rw [hkeep 0x14D (by omega) (by omega), Gameboy__getCartridgeByte_set g7 g9 _ _ h9 0x14D,
      if_pos ⟨rfl, rfl⟩]
    have hand : checkSum &&& 0xFF = checkSum % 256 := Nat.and_pow_two_sub_one_eq_mod checkSum 8
    have h256 : checkSum % 256 = header.sum % 256 := by
      rw [← Nat.mod_mod_of_dvd checkSum hM, hsum, Nat.zero_add, Nat.mod_mod_of_dvd _ hM]
    rw [hand, Nat.mod_mod, Nat.mod_mod, h256]

theorem Gameboy__finalizeData_total (M : Nat) (g : Gameboy_Module)
    (hlength : g.Gameboy__cartridgeTitle.length = Gameboy__maxTitleLength)
    (htitle : ∃ title, Gameboy__finalizeTitle g.Gameboy__cartridgeTitle = some title)
    (hzero : Gameboy_bankIsAllocated g 0)
    (hpatches : ∀ p ∈ g.Gameboy__patchList,
      Gameboy_bankIsAllocated g ((p.address / Gameboy__bankSize) % 256))
    (hbanks : ∀ i, i < g.Gameboy__romBankCount → Gameboy_bankIsAllocated g i) :
    ∃ g', Gameboy__finalizeData M g = some g' := by
  have hbank : ∀ a, a < 0x4000 → (a / Gameboy__bankSize) % 256 = 0 :=
    fun a ha => Gameboy_bank_zero a ha
  obtain ⟨title, h1⟩ := htitle
  have hk0 : Gameboy_isKept { g with Gameboy__cartridgeTitle := title }
      { g with Gameboy__cartridgeTitle := title } := Gameboy_isKept_refl _
  have hzero1 : Gameboy_bankIsAllocated { g with Gameboy__cartridgeTitle := title } 0 := hzero
  obtain ⟨g2, pos, h2, hk2, hpos1, hpos2⟩ := Gameboy__putTitle_total Gameboy__maxTitleLength
    { g with Gameboy__cartridgeTitle := title } 0x134 0 hzero1 (by decide)
    (by
      show 0 + Gameboy__maxTitleLength ≤ title.length
      rw [Gameboy__finalizeTitle_length _ _ h1, hlength]
      omega)
  have hmax : Gameboy__maxTitleLength = 16 := rfl
  obtain ⟨g3, h3, hk3⟩ := Gameboy__fillTitle_total
    (0x134 + Gameboy__maxTitleLength - pos) g2 pos (hk2.2.2.2.2.2 0 hzero1)
    (by simp only [Gameboy__bankSize]; omega)
  have hk03 := Gameboy_isKept_trans _ _ _ hk2 hk3
  obtain ⟨g4, h4, hk4⟩ := Gameboy__setCartridgeByte_isKept g3 0x147
    g3.Gameboy__cartridgeType (by rw [hbank _ (by decide)]; exact hk03.2.2.2.2.2 0 hzero1)
  have hk04 := Gameboy_isKept_trans _ _ _ hk03 hk4
  obtain ⟨g5, h5, hk5⟩ := Gameboy__setCartridgeByte_isKept g4 0x148
    (Gameboy__romCountCode g4.Gameboy__romBankCount)
    (by rw [hbank _ (by decide)]; exact hk04.2.2.2.2.2 0 hzero1)
  have hk05 := Gameboy_isKept_trans _ _ _ hk04 hk5
  obtain ⟨g6, h6, hk6⟩ := Gameboy__setCartridgeByte_isKept g5 0x149
    (Gameboy__ramCountCode g5.Gameboy__ramBankCount)
    (by rw [hbank _ (by decide)]; exact hk05.2.2.2.2.2 0 hzero1)
  have hk06 := Gameboy_isKept_trans _ _ _ hk05 hk6
  obtain ⟨g7, h7, hk7⟩ := Gameboy__applyPatches_total g6.Gameboy__patchList g6
    (by
      rw [hk06.2.2.2.2.1]
      intro p hp
      exact hk06.2.2.2.2.2 _ (hpatches p hp))
  have hk07 := Gameboy_isKept_trans _ _ _ hk06 hk7
  obtain ⟨checkSum, h8⟩ := Gameboy__addCartridgeBytes_total M g7
    (hk07.2.2.2.2.2 0 hzero1) (List.range' 0x134 (0x14D - 0x134)) 0
    (by
      intro a ha
      have := List.mem_range'_1.mp ha
      simp only [Gameboy__bankSize]
      omega)
  obtain ⟨g9, h9, hk9⟩ := Gameboy__setCartridgeByte_isKept g7 0x14D
    ((0xE7 + 256 - (checkSum &&& 0xFF) % 256) % 256)
    (by rw [hbank _ (by decide)]; exact hk07.2.2.2.2.2 0 hzero1)
  have hk09 := Gameboy_isKept_trans _ _ _ hk07 hk9
  obtain ⟨g10, h10, hk10⟩ := Gameboy__setCartridgeByte_isKept g9 0x14E 0
    (by rw [hbank _ (by decide)]; exact hk09.2.2.2.2.2 0 hzero1)
  have hk010 := Gameboy_isKept_trans _ _ _ hk09 hk10
  obtain ⟨g11, h11, hk11⟩ := Gameboy__setCartridgeByte_isKept g10 (0x14E + 1) 0
    (by rw [hbank _ (by decide)]; exact hk010.2.2.2.2.2 0 hzero1)
  have hk011 := Gameboy_isKept_trans _ _ _ hk010 hk11
  obtain ⟨checkSum2, h12⟩ := Gameboy__addBanks_total M g11 (List.range Gameboy__bankSize)
    (fun pos hp => List.mem_range.mp hp) (List.range g11.Gameboy__romBankCount) 0
    (by
      intro i hi
      have hi' := List.mem_range.mp hi
      rw [hk011.2.1] at hi'
      exact hk011.2.2.2.2.2 i (hbanks i hi'))
  obtain ⟨g13, h13, hk13⟩ := Gameboy__setCartridgeByte_isKept g11 0x14E
    (((checkSum2 >>> 8) &&& 0xFF) % 256)
    (by rw [hbank _ (by decide)]; exact hk011.2.2.2.2.2 0 hzero1)
  have hk013 := Gameboy_isKept_trans _ _ _ hk011 hk13
  obtain ⟨g14, h14, _⟩ := Gameboy__setCartridgeByte_isKept g13 (0x14E + 1)
    ((checkSum2 &&& 0xFF) % 256)
    (by rw [hbank _ (by decide)]; exact hk013.2.2.2.2.2 0 hzero1)
  refine ⟨g14, ?_⟩
  unfold Gameboy__finalizeData
  simp only [h1, h2, h3, h4, h5, h6, h7, h8, h9, h10, h11, h12, h13, h14]

/-- C21: for every module state (cartridge content, title, type, bank counts
and patch list) and every word size `M` of the host that is a multiple of
256: whenever `Gameboy__finalizeData` returns, the byte of the image at the
address 0x014D is (0xE7 minus the sum of the image bytes at the addresses
0x0134 to 0x014C) modulo 256; and it does return when the title array has its
16 characters and its processing stays inside the array, and bank 0, the
banks of the patch addresses and the banks below the ROM bank count are
allocated. -/
theorem C21_header_checksum (M : Nat) (g : Gameboy_Module) (hM : 256 ∣ M) :
    (∀ g', Gameboy__finalizeData M g = some g' →
      ∃ header : List Nat,
        (List.range' 0x134 25).map (Gameboy__getCartridgeByte g') = header.map some ∧
        Gameboy__getCartridgeByte g' 0x14D
          = some ((0xE7 + 256 - header.sum % 256) % 256)) ∧
    (g.Gameboy__cartridgeTitle.length = Gameboy__maxTitleLength →
      (∃ title, Gameboy__finalizeTitle g.Gameboy__cartridgeTitle = some title) →
      Gameboy_bankIsAllocated g 0 →
      (∀ p ∈ g.Gameboy__patchList,
        Gameboy_bankIsAllocated g ((p.address / Gameboy__bankSize) % 256)) →
      (∀ i, i < g.Gameboy__romBankCount → Gameboy_bankIsAllocated g i) →
      ∃ g', Gameboy__finalizeData M g = some g') :=
  ⟨fun g' hret => Gameboy__finalizeData_checksum M g g' hM hret,
    Gameboy__finalizeData_total M g⟩

theorem cartridgeExample_isAllocated (i : Nat) (hi : i < 2) :
    Gameboy_bankIsAllocated cartridgeExample i :=
  ⟨List.replicate Gameboy__bankSize 0xFF,
    by
      show (if i < 2 then some (List.replicate Gameboy__bankSize 0xFF) else none) = some _
      rw [if_pos hi],
    List.length_replicate _ _⟩

/-- Witness of `C21_header_checksum`: the state `cartridgeExample` with two
allocated ROM banks, the title "game.gb" and a patch at the address 0x140. -/
theorem C21_header_checksum_witness :
    256 ∣ 65536 ∧
    Gameboy__finalizeTitle cartridgeExample.Gameboy__cartridgeTitle
      = some [71, 65, 77, 69, 0, 103, 98, 0, 0, 0, 0, 0, 0, 0, 0, 0] ∧
    ∃ g', Gameboy__finalizeData 65536 cartridgeExample = some g' ∧
      ∃ header : List Nat,
        (List.range' 0x134 25).map (Gameboy__getCartridgeByte g') = header.map some ∧
        Gameboy__getCartridgeByte g' 0x14D
          = some ((0xE7 + 256 - header.sum % 256) % 256) :=
  ⟨⟨256, rfl⟩, rfl,
    let ⟨g', hg'⟩ := (C21_header_checksum 65536 cartridgeExample ⟨256, rfl⟩).2 rfl ⟨_, rfl⟩
      (cartridgeExample_isAllocated 0 (by decide))
      (fun p hp => List.mem_singleton.mp hp ▸ cartridgeExample_isAllocated 0 (by decide))
      (fun i hi => cartridgeExample_isAllocated i hi)
    ⟨g', hg', (C21_header_checksum 65536 cartridgeExample ⟨256, rfl⟩).1 g' hg'⟩⟩

/-! ### Integer maps -/

theorem IntegerMap__bucketLookup_set_self (key value : Int) (b : List (Int × Int)) :
    IntegerMap__bucketLookup key (IntegerMap__bucketSet key value b) = value := by
  induction b with
  | nil => simp [IntegerMap__bucketSet, IntegerMap__bucketLookup]
  | cons p rest ih =>
    obtain ⟨k, v⟩ := p
    by_cases hk : key = k
    · simp [IntegerMap__bucketSet, IntegerMap__bucketLookup, hk]
    · simp [IntegerMap__bucketSet, IntegerMap__bucketLookup, hk, ih]

theorem IntegerMap__bucketLookup_set_other (key key' value : Int) (b : List (Int × Int))
    (h : key' ≠ key) :
    IntegerMap__bucketLookup key' (IntegerMap__bucketSet key value b)
      = IntegerMap__bucketLookup key' b := by
  induction b with
  | nil => simp [IntegerMap__bucketSet, IntegerMap__bucketLookup, h]
  | cons p rest ih =>
    obtain ⟨k, v⟩ := p
    by_cases hk : key = k
    · subst hk
      simp [IntegerMap__bucketSet, IntegerMap__bucketLookup, h]
    · by_cases hk' : key' = k
      · simp [IntegerMap__bucketSet, IntegerMap__bucketLookup, hk, hk']
      · simp [IntegerMap__bucketSet, IntegerMap__bucketLookup, hk, hk', ih]

theorem IntegerMap__mapLookup_set_self (map : IntegerMap_Type) (key value : Int) :
    IntegerMap__mapLookup (IntegerMap__mapSet map key value) key = value := by
  simp [IntegerMap__mapLookup, IntegerMap__mapSet, IntegerMap__bucketLookup_set_self]

theorem IntegerMap__mapLookup_set_other (map : IntegerMap_Type) (key key' value : Int)
    (h : key' ≠ key) :
    IntegerMap__mapLookup (IntegerMap__mapSet map key value) key'
      = IntegerMap__mapLookup map key' := by
  unfold IntegerMap__mapLookup IntegerMap__mapSet
  by_cases hh : IntegerMap__hashValue key' = IntegerMap__hashValue key
  · simp [hh, IntegerMap__bucketLookup_set_other key key' value _ h]
  · simp [hh]

theorem IntegerMap_lookup_make (key : Int) :
    IntegerMap_lookup IntegerMap__make key = IntegerMap_notFound := by
  simp [IntegerMap_lookup, IntegerMap__mapLookup, IntegerMap__make, IntegerMap__bucketLookup]

theorem IntegerMap_set_ne_notFound (map map' : IntegerMap_Type) (key value : Int)
    (h : IntegerMap_set map key value = some map') : value ≠ IntegerMap_notFound := by
  intro hv
  simp [IntegerMap_set, hv] at h

theorem IntegerMap_lookup_set_self (map map' : IntegerMap_Type) (key value : Int)
    (h : IntegerMap_set map key value = some map') :
    IntegerMap_lookup map' key = value := by
  have hv := IntegerMap_set_ne_notFound map map' key value h
  unfold IntegerMap_set at h
  rw [if_neg hv] at h
  have hm := (Option.some.inj h).symm
  subst hm
  unfold IntegerMap_lookup
  rw [IntegerMap__mapLookup_set_self]
  by_cases h0 : value = 0
  · subst h0
    simp [SizeType_max, IntegerMap_notFound]
  · have hmax : value ≠ SizeType_max := hv
    simp [h0, hmax]

theorem IntegerMap_lookup_set_other (map map' : IntegerMap_Type) (key key' value : Int)
    (h : IntegerMap_set map key value = some map') (hk : key' ≠ key) :
    IntegerMap_lookup map' key' = IntegerMap_lookup map key' := by
  have hv := IntegerMap_set_ne_notFound map map' key value h
  unfold IntegerMap_set at h
  rw [if_neg hv] at h
  have hm := (Option.some.inj h).symm
  subst hm
  unfold IntegerMap_lookup
  rw [IntegerMap__mapLookup_set_other _ _ _ _ hk]

/-! ### The banks of the jump labels -/

theorem Banking_labelBanks_append (banks : List Target_Bank) (b : Target_Bank) :
    Banking_labelBanks (banks ++ [b])
      = if b ∈ Banking_labelBanks banks then Banking_labelBanks banks
        else Banking_labelBanks banks ++ [b] := by
  simp [Banking_labelBanks, List.foldl_append]

theorem Banking_labelBanks_mem (banks : List Target_Bank) :
    ∀ b : Target_Bank, b ∈ Banking_labelBanks banks ↔ b ∈ banks := by
  induction banks using List.reverseRecOn with
  | nil => simp [Banking_labelBanks]
  | append_singleton l x ih =>
    intro b
    rw [Banking_labelBanks_append]
    by_cases hx : x ∈ Banking_labelBanks l
    · rw [if_pos hx, List.mem_append, List.mem_singleton, ih]
      constructor
      · intro h; exact Or.inl h
      · rintro (h | h)
        · exact h
        · subst h
          exact (ih b).mp hx
    · rw [if_neg hx, List.mem_append, List.mem_append, ih]

theorem Banking_labelBanks_nodup (banks : List Target_Bank) :
    (Banking_labelBanks banks).Nodup := by
  induction banks using List.reverseRecOn with
  | nil => simp [Banking_labelBanks]
  | append_singleton l x ih =>
    rw [Banking_labelBanks_append]
    by_cases hx : x ∈ Banking_labelBanks l
    · rw [if_pos hx]; exact ih
    · rw [if_neg hx]
      exact List.Nodup.append ih (List.nodup_singleton x)
        (by
          intro a ha hax
          rw [List.mem_singleton] at hax
          subst hax
          exact hx ha)

theorem Banking_labelBanks_length (banks : List Target_Bank) :
    (Banking_labelBanks banks).length = banks.dedup.length := by
  rw [← List.toFinset_card_of_nodup (Banking_labelBanks_nodup banks),
    ← List.toFinset_card_of_nodup (List.nodup_dedup banks)]
  congr 1
  ext b
  simp [Banking_labelBanks_mem]

theorem Banking_labelBanks_length_le (banks : List Target_Bank) :
    (Banking_labelBanks banks).length ≤ banks.length := by
  rw [Banking_labelBanks_length]
  exact (List.dedup_sublist banks).length_le

/-! ### The lists made by `Banking__collectInterbankReferences` -/

theorem Banking__noReferences_invariant (c : Banking_Configuration) :
    Banking_referencesInvariant c Banking__noReferences := by
  refine ⟨rfl, rfl, rfl, by decide, ?_, ?_, rfl⟩
  · intro b
    simp [Banking__noReferences, IntegerMap_lookup_make]
  · intro i hi
    simp [Banking__noReferences] at hi


theorem Banking_labelBanks_indexOf_append (banks : List Target_Bank) (b x : Target_Bank)
    (hx : x ∈ banks) :
    (Banking_labelBanks (banks ++ [b])).indexOf x = (Banking_labelBanks banks).indexOf x := by
  rw [Banking_labelBanks_append]
  by_cases hb : b ∈ Banking_labelBanks banks
  · rw [if_pos hb]
  · rw [if_neg hb]
    exact List.indexOf_append_of_mem ((Banking_labelBanks_mem banks x).mpr hx)

theorem Banking_labelBanks_indexOf_new (banks : List Target_Bank) (b : Target_Bank)
    (hb : b ∉ banks) :
    (Banking_labelBanks (banks ++ [b])).indexOf b = (Banking_labelBanks banks).length := by
  have hb' : b ∉ Banking_labelBanks banks := fun h => hb ((Banking_labelBanks_mem banks b).mp h)
  rw [Banking_labelBanks_append, if_neg hb', List.indexOf_append_of_not_mem hb']
  simp

theorem List_getD_append_length (banks : List Target_Bank) (b : Target_Bank) :
    (banks ++ [b]).getD banks.length 0 = b := by
  simp [List.getD_eq_getElem?_getD]

theorem List_getD_append_lt (banks : List Target_Bank) (b : Target_Bank) (i : Nat)
    (hi : i < banks.length) :
    (banks ++ [b]).getD i 0 = banks.getD i 0 := by
  simp [List.getD_eq_getElem?_getD, List.getElem?_append_left hi]

theorem List_getD_mem (banks : List Target_Bank) (i : Nat) (hi : i < banks.length) :
    banks.getD i 0 ∈ banks := by
  rw [List.getD_eq_getElem?_getD, List.getElem?_eq_getElem hi]
  exact List.getElem_mem hi

/-- The invariant after one more split: the proof needs the new label index,
the new maps and the new list of jump labels only through the facts listed
as hypotheses. -/
theorem Banking_referencesInvariant_step (c : Banking_Configuration)
    (refs : Banking__References) (hinv : Banking_referencesInvariant c refs)
    (symbolName : String_Type) (targetBank : Target_Bank)
    (jumpLabelNameList : List String_Type) (bankToLabelIndexMap : IntegerMap_Type)
    (symbolIndexToLabelIndexMap : IntegerMap_Type) (labelIndex : Int)
    (hlabel : labelIndex
      = (((Banking_labelBanks (refs.targetBankList ++ [targetBank])).indexOf targetBank : Nat)
          : Int))
    (hlist : jumpLabelNameList
      = (Banking_labelBanks (refs.targetBankList ++ [targetBank])).map c.makeJumpLabelName)
    (hsmall : ((Banking_labelBanks (refs.targetBankList ++ [targetBank])).length : Int)
      ≤ IntegerMap_notFound)
    (hbank : ∀ b : Target_Bank, IntegerMap_lookup bankToLabelIndexMap b
      = if b ∈ refs.targetBankList ++ [targetBank]
        then (((Banking_labelBanks (refs.targetBankList ++ [targetBank])).indexOf b : Nat) : Int)
        else IntegerMap_notFound)
    (hset : IntegerMap_set refs.symbolIndexToLabelIndexMap
      (((refs.symbolNameList ++ [symbolName]).length : Nat) : Int) labelIndex
        = some symbolIndexToLabelIndexMap) :
    Banking_referencesInvariant c
      { jumpLabelNameList := jumpLabelNameList,
        surrogateNameList := refs.surrogateNameList ++ [c.makeSurrogateSymbolName symbolName],
        symbolNameList := refs.symbolNameList ++ [symbolName],
        symbolIndexToLabelIndexMap := symbolIndexToLabelIndexMap,
        interbankReferenceIsFound := true,
        bankToLabelIndexMap := bankToLabelIndexMap,
        targetBankList := refs.targetBankList ++ [targetBank] } := by
  have hlen : (refs.symbolNameList ++ [symbolName]).length = refs.targetBankList.length + 1 := by
    rw [List.length_append, hinv.hsym]; rfl
  refine ⟨?_, ?_, hlist, hsmall, hbank, ?_, ?_⟩
  · show (refs.symbolNameList ++ [symbolName]).length = (refs.targetBankList ++ [targetBank]).length
    rw [hlen, List.length_append]; rfl
  · show refs.surrogateNameList ++ [c.makeSurrogateSymbolName symbolName]
      = (refs.symbolNameList ++ [symbolName]).map c.makeSurrogateSymbolName
    rw [List.map_append, hinv.hsur]; rfl
  · intro i hi
    show IntegerMap_lookup symbolIndexToLabelIndexMap ((i + 1 : Nat) : Int)
      = (((Banking_labelBanks (refs.targetBankList ++ [targetBank])).indexOf
            ((refs.targetBankList ++ [targetBank]).getD i 0) : Nat) : Int)
    have hi' : i < refs.targetBankList.length + 1 := by
      have : (refs.targetBankList ++ [targetBank]).length = refs.targetBankList.length + 1 := by
        rw [List.length_append]; rfl
      exact this ▸ hi
    by_cases hlast : i = refs.targetBankList.length
    · subst hlast
      rw [List_getD_append_length, ← hlabel, ← hlen]
      exact IntegerMap_lookup_set_self _ _ _ _ hset
    · have hlt : i < refs.targetBankList.length := by omega
      rw [List_getD_append_lt _ _ _ hlt,
        Banking_labelBanks_indexOf_append _ _ _ (List_getD_mem _ _ hlt), ← hinv.hidx i hlt]
      refine IntegerMap_lookup_set_other _ _ _ _ _ hset ?_
      rw [hlen]
      intro h
      have := Int.ofNat_inj.mp h
      omega
  · show true = decide (0 < (refs.targetBankList ++ [targetBank]).length)
    simp

theorem Banking__addReference_invariant (c : Banking_Configuration) (st st' : Linker)
    (refs refs' : Banking__References) (symbol : Nat) (symbolName : String_Type)
    (targetBank : Target_Bank) (hinv : Banking_referencesInvariant c refs)
    (h : Banking__addReference c st refs symbol symbolName targetBank = some (st', refs')) :
    Banking_referencesInvariant c refs' := by
  unfold Banking__addReference at h
  cases hsplit : Symbol_makeBySplit st symbol (c.makeSurrogateSymbolName symbolName) with
  | none => simp [hsplit] at h
  | some p =>
    obtain ⟨st1, returned⟩ := p
    simp only [hsplit] at h
    by_cases hnew : IntegerMap_lookup refs.bankToLabelIndexMap targetBank = IntegerMap_notFound
    · -- the target bank has no jump label yet
      have hnot : targetBank ∉ refs.targetBankList := by
        intro hmem
        have hb := hinv.hbank targetBank
        rw [if_pos hmem, hnew] at hb
        have hlt : (Banking_labelBanks refs.targetBankList).indexOf targetBank
            < (Banking_labelBanks refs.targetBankList).length :=
          List.indexOf_lt_length.mpr ((Banking_labelBanks_mem _ _).mpr hmem)
        have hs := hinv.hsmall
        rw [hb] at hs
        have := Int.ofNat_le.mp hs
        omega
      have hnot' : targetBank ∉ Banking_labelBanks refs.targetBankList :=
        fun hm => hnot ((Banking_labelBanks_mem _ _).mp hm)
      have hjl : refs.jumpLabelNameList.length = (Banking_labelBanks refs.targetBankList).length := by
        rw [hinv.hlab, List.length_map]
      rw [if_pos hnew] at h
      cases hset1 : IntegerMap_set refs.bankToLabelIndexMap targetBank
          ((refs.jumpLabelNameList.length : Nat) : Int) with
      | none => simp [hset1] at h
      | some bm =>
        simp only [hset1] at h
        cases hset2 : IntegerMap_set refs.symbolIndexToLabelIndexMap
            (((refs.symbolNameList ++ [symbolName]).length : Nat) : Int)
            ((refs.jumpLabelNameList.length : Nat) : Int) with
        | none => simp only [hset2, reduceCtorEq] at h
        | some im =>
          simp only [hset2, Option.some.injEq, Prod.mk.injEq] at h
          rw [← h.2]
          have hne := IntegerMap_set_ne_notFound _ _ _ _ hset1
          refine Banking_referencesInvariant_step c refs hinv symbolName targetBank _ bm im _
            ?_ ?_ ?_ ?_ hset2
          · rw [Banking_labelBanks_indexOf_new _ _ hnot, hjl]
          · rw [Banking_labelBanks_append, if_neg hnot', List.map_append, hinv.hlab]; rfl
          · rw [Banking_labelBanks_append, if_neg hnot', List.length_append]
            have hs := hinv.hsmall
            rw [hjl] at hne
            have : ((Banking_labelBanks refs.targetBankList).length : Int) < IntegerMap_notFound :=
              lt_of_le_of_ne hs hne
            simp only [List.length_singleton, Nat.cast_add, Nat.cast_one]
            omega
          · intro b
            by_cases hb : b = targetBank
            · subst hb
              rw [IntegerMap_lookup_set_self _ _ _ _ hset1, if_pos (by simp),
                Banking_labelBanks_indexOf_new _ _ hnot, hjl]
            · rw [IntegerMap_lookup_set_other _ _ _ _ _ hset1 hb, hinv.hbank b]
              by_cases hmem : b ∈ refs.targetBankList
              · rw [if_pos hmem, if_pos (List.mem_append_left _ hmem),
                  Banking_labelBanks_indexOf_append _ _ _ hmem]
              · rw [if_neg hmem, if_neg (by simp [hmem, hb])]
    · -- the target bank has a jump label
      have hmem : targetBank ∈ refs.targetBankList := by
        by_contra hmem
        have hb := hinv.hbank targetBank
        rw [if_neg hmem] at hb
        exact hnew hb
      have hmem' : targetBank ∈ Banking_labelBanks refs.targetBankList :=
        (Banking_labelBanks_mem _ _).mpr hmem
      have hval := hinv.hbank targetBank
      rw [if_pos hmem] at hval
      rw [if_neg hnew] at h
      simp only at h
      cases hset2 : IntegerMap_set refs.symbolIndexToLabelIndexMap
          (((refs.symbolNameList ++ [symbolName]).length : Nat) : Int)
          (IntegerMap_lookup refs.bankToLabelIndexMap targetBank) with
      | none => simp only [hset2, reduceCtorEq] at h
      | some im =>
        simp only [hset2, Option.some.injEq, Prod.mk.injEq] at h
        rw [← h.2]
        refine Banking_referencesInvariant_step c refs hinv symbolName targetBank _ _ im _
          ?_ ?_ ?_ ?_ hset2
        · rw [Banking_labelBanks_indexOf_append _ _ _ hmem, hval]
        · rw [Banking_labelBanks_append, if_pos hmem', hinv.hlab]
        · rw [Banking_labelBanks_append, if_pos hmem']
          exact hinv.hsmall
        · intro b
          rw [hinv.hbank b]
          by_cases hb : b ∈ refs.targetBankList
          · rw [if_pos hb, if_pos (List.mem_append_left _ hb),
              Banking_labelBanks_indexOf_append _ _ _ hb]
          · have hne : b ≠ targetBank := fun e => hb (e ▸ hmem)
            rw [if_neg hb, if_neg (by simp [hb, hne])]


theorem Banking__checkSymbol_tail (c : Banking_Configuration) (st st' : Linker)
    (refs refs' : Banking__References) (symbol : Nat) (symbolName : String_Type)
    (targetBank : Target_Bank) (isRelevant : Option Bool)
    (hinv : Banking_referencesInvariant c refs)
    (h : (match isRelevant with
          | none => none
          | some isRelevant =>
            if isRelevant
            then Banking__addReference c st refs symbol symbolName targetBank
            else some (st, refs)) = some (st', refs')) :
    Banking_referencesInvariant c refs' := by
  cases isRelevant with
  | none => exact Option.noConfusion h
  | some r =>
    cases r with
    | true => exact Banking__addReference_invariant _ _ _ _ _ _ _ _ hinv h
    | false =>
      simp only [Bool.false_eq_true, if_false, Option.some.injEq, Prod.mk.injEq] at h
      rw [← h.2]
      exact hinv

theorem Banking__checkSymbol_invariant (M : Nat) (c : Banking_Configuration)
    (moduleNameToBankMap : Map_Type Int) (currentBank : Target_Bank) (st st' : Linker)
    (refs refs' : Banking__References) (symbol : Nat)
    (hinv : Banking_referencesInvariant c refs)
    (h : Banking__checkSymbol M c moduleNameToBankMap currentBank st refs symbol
      = some (st', refs')) :
    Banking_referencesInvariant c refs' := by
  unfold Banking__checkSymbol at h
  cases h1 : Symbol_getSegment st (some symbol) with
  | none => simp only [h1, reduceCtorEq] at h
  | some segment =>
    cases h2 : Symbol_isSurrogate st (some symbol) with
    | none => simp only [h1, h2, reduceCtorEq] at h
    | some isSurrogate =>
      simp only [h1, h2] at h
      split at h
      · simp only [Option.some.injEq, Prod.mk.injEq] at h
        rw [← h.2]
        exact hinv
      · cases h3 : Area_getSegmentModule st segment with
        | none => simp only [h3, reduceCtorEq] at h
        | some targetModule =>
          cases h4 : Banking__getBank M moduleNameToBankMap st targetModule with
          | none => simp only [h3, h4, reduceCtorEq] at h
          | some targetBank =>
            cases h5 : Symbol_getName st (some symbol) with
            | none => simp only [h3, h4, h5, reduceCtorEq] at h
            | some symbolName =>
              simp only [h3, h4, h5] at h
              exact Banking__checkSymbol_tail c st st' refs refs' symbol symbolName targetBank _
                hinv h

theorem Banking__checkSymbols_invariant (M : Nat) (c : Banking_Configuration)
    (moduleNameToBankMap : Map_Type Int) (currentBank : Target_Bank)
    (symbolList : List Nat) :
    ∀ (st st' : Linker) (refs refs' : Banking__References),
      Banking_referencesInvariant c refs →
      Banking__checkSymbols M c moduleNameToBankMap currentBank st refs symbolList
        = some (st', refs') →
      Banking_referencesInvariant c refs' := by
  induction symbolList with
  | nil =>
    intro st st' refs refs' hinv h
    simp only [Banking__checkSymbols, Option.some.injEq, Prod.mk.injEq] at h
    rw [← h.2]
    exact hinv
  | cons symbol rest ih =>
    intro st st' refs refs' hinv h
    unfold Banking__checkSymbols at h
    cases hstep : Banking__checkSymbol M c moduleNameToBankMap currentBank st refs symbol with
    | none => simp only [hstep, reduceCtorEq] at h
    | some p =>
      obtain ⟨st1, refs1⟩ := p
      simp only [hstep] at h
      exact ih st1 st' refs1 refs' (Banking__checkSymbol_invariant _ _ _ _ _ _ _ _ _ hinv hstep) h

theorem Banking__checkModules_invariant (M : Nat) (c : Banking_Configuration)
    (moduleNameToBankMap : Map_Type Int) (moduleList : List Nat) :
    ∀ (st st' : Linker) (refs refs' : Banking__References),
      Banking_referencesInvariant c refs →
      Banking__checkModules M c moduleNameToBankMap st refs moduleList = some (st', refs') →
      Banking_referencesInvariant c refs' := by
  induction moduleList with
  | nil =>
    intro st st' refs refs' hinv h
    simp only [Banking__checkModules, Option.some.injEq, Prod.mk.injEq] at h
    rw [← h.2]
    exact hinv
  | cons module rest ih =>
    intro st st' refs refs' hinv h
    unfold Banking__checkModules at h
    cases hbank : Banking__getBank M moduleNameToBankMap st (some module) with
    | none => simp only [hbank, reduceCtorEq] at h
    | some currentBank =>
      simp only [hbank] at h
      cases hlist : Module_getSymbolList st (some module) with
      | none => simp only [hlist, reduceCtorEq] at h
      | some moduleSymbolList =>
        simp only [hlist] at h
        cases hstep : Banking__checkSymbols M c moduleNameToBankMap currentBank st refs
            moduleSymbolList with
        | none => simp only [hstep, reduceCtorEq] at h
        | some p =>
          obtain ⟨st1, refs1⟩ := p
          simp only [hstep] at h
          exact ih st1 st' refs1 refs'
            (Banking__checkSymbols_invariant _ _ _ _ _ _ _ _ _ hinv hstep) h

theorem Banking__collectInterbankReferences_invariant (M : Nat) (c : Banking_Configuration)
    (moduleNameToBankMap : Map_Type Int) (st st' : Linker) (refs' : Banking__References)
    (h : Banking__collectInterbankReferences M c moduleNameToBankMap st Banking__noReferences
      = some (st', refs')) :
    Banking_referencesInvariant c refs' :=
  Banking__checkModules_invariant M c moduleNameToBankMap _ _ _ _ _
    (Banking__noReferences_invariant c) h

/-! ### The text of the stub file -/

theorem String_join_foldl (lines : List String) :
    ∀ text : String, lines.foldl (fun r s => r ++ s) text = text ++ String.join lines := by
  induction lines with
  | nil => intro text; simp [String.join]
  | cons line rest ih =>
    intro text
    have hjoin : String.join (line :: rest) = line ++ String.join rest := by
      show List.foldl (fun r s => r ++ s) "" (line :: rest) = _
      rw [List.foldl_cons, ih]
      simp
    rw [List.foldl_cons, ih, hjoin, String.append_assoc]

theorem String_join_cons (line : String) (lines : List String) :
    String.join (line :: lines) = line ++ String.join lines := by
  rw [String.join, List.foldl_cons, String_join_foldl]
  simp

theorem File_writeHex_append (file : File_Type) (value digitCount : Nat) :
    File_writeHex file value digitCount = file ++ File_writeHex "" value digitCount := by
  simp [File_writeHex]

theorem Banking__writeExternalNames_eq (names : List String_Type) :
    ∀ file : File_Type, Banking__writeExternalNames file names
      = file ++ String.join (names.map (fun name => "S " ++ name ++ " Ref0000\n")) := by
  induction names with
  | nil => intro file; simp [Banking__writeExternalNames, String.join]
  | cons name rest ih =>
    intro file
    rw [Banking__writeExternalNames, ih, List.map_cons, String_join_cons]
    simp only [File_writeCharArray, File_writeString, String.append_assoc]

theorem Banking__writeSurrogateNames_eq (s : Nat) (names : List String_Type) :
    ∀ (file : File_Type) (offset : Nat),
      Banking__writeSurrogateNames s file offset names
        = file ++ String.join ((List.range names.length).map (fun i =>
            "S " ++ names.getD i "" ++ " Def" ++ File_writeHex "" (offset + i * s) 4 ++ "\n")) := by
  induction names with
  | nil => intro file offset; simp [Banking__writeSurrogateNames, String.join]
  | cons name rest ih =>
    intro file offset
    rw [Banking__writeSurrogateNames, ih, List.length_cons, List.range_succ_eq_map,
      List.map_cons, String_join_cons, List.map_map]
    simp only [File_writeCharArray, File_writeString, String.append_assoc, String_push_newline,
      File_writeChar, File_writeHex_append (file ++ ("S " ++ (name ++ " Def")))]
    simp only [String.append_assoc, List.getD_cons_zero, Nat.zero_mul, Nat.add_zero]
    congr 6
    apply congrArg
    apply List.map_congr_left
    intro i _
    simp only [Function.comp, Nat.succ_eq_add_one, List.getD_cons_succ]
    congr 4
    rw [Nat.add_mul, Nat.one_mul, Nat.add_assoc, Nat.add_comm s]

theorem Banking__writeTrampolineCalls_eq (M : Nat) (c : Banking_Configuration)
    (map : IntegerMap_Type) (count : Nat) :
    ∀ (file : File_Type) (targetSymbolIndex offset first : Nat),
      Banking__writeTrampolineCalls M c map file targetSymbolIndex offset
          (List.range' first count)
        = file ++ String.join ((List.range count).map (fun i =>
            c.makeTrampolineCallCode ((offset + i * c.offsetPerTrampolineCall) % M) 0
              ((targetSymbolIndex + i) % M)
              (IntegerMap_lookup map ((first + i : Nat) : Int) % (M : Int)).toNat)) := by
  induction count with
  | zero => intro file t offset first; simp [Banking__writeTrampolineCalls, String.join]
  | succ n ih =>
    intro file t offset first
    rw [List.range'_succ, Banking__writeTrampolineCalls, ih, List.range_succ_eq_map,
      List.map_cons, String_join_cons, List.map_map]
    simp only [File_writeString, String.append_assoc, Nat.zero_mul, Nat.add_zero]
    congr 3
    apply List.map_congr_left
    intro i _
    simp only [Function.comp, Nat.succ_eq_add_one]
    have h1 : offset + c.offsetPerTrampolineCall + i * c.offsetPerTrampolineCall
        = offset + (i + 1) * c.offsetPerTrampolineCall := by
      rw [Nat.add_mul, Nat.one_mul]; omega
    have h2 : t + 1 + i = t + (i + 1) := by omega
    have h3 : first + 1 + i = first + (i + 1) := by omega
    rw [h1, h2, h3]


theorem Gameboy__makeTrampolineCallCode_eq (startAddress targetSymbolIndex
    jumpLabelSymbolIndex : Nat) :
    Gameboy__makeTrampolineCallCode startAddress 0 targetSymbolIndex jumpLabelSymbolIndex
      = "T " ++ Gameboy__makeAddressBytes startAddress ++ " 01 00 00 C3 00 00\n"
          ++ "R 00 00 00 00 02 03 " ++ Gameboy__makeAddressBytes targetSymbolIndex
          ++ " 02 06 " ++ Gameboy__makeAddressBytes jumpLabelSymbolIndex ++ "\n" := by
  have h0 : Gameboy__makeAddressBytes 0 = "00 00" := by decide
  have h1 : ("R 00 00 00 00 02 03 " : String) = "R " ++ ("00 00" ++ (" " ++ ("00 00" ++ " 02 03 "))) := by
    decide
  simp only [Gameboy__makeTrampolineCallCode, h0, h1, String.append_assoc]

theorem Banking__writeStubFile_eq (M L : Nat) (refs : Banking__References)
    (labelBanks : List Target_Bank)
    (hJ : 0 < refs.jumpLabelNameList.length)
    (hJN : refs.jumpLabelNameList.length ≤ refs.symbolNameList.length)
    (hsur : refs.surrogateNameList.length = refs.symbolNameList.length)
    (hidx : ∀ i : Nat, i < refs.symbolNameList.length →
      IntegerMap_lookup refs.symbolIndexToLabelIndexMap ((1 + i : Nat) : Int)
        = ((labelBanks.indexOf (refs.targetBankList.getD i 0) : Nat) : Int) ∧
      labelBanks.indexOf (refs.targetBankList.getD i 0) < refs.jumpLabelNameList.length)
    (hsize : refs.symbolNameList.length * 6 < M) :
    Banking__writeStubFile M (Gameboy__bankingConfiguration L) true refs.jumpLabelNameList
        refs.surrogateNameList refs.symbolNameList refs.symbolIndexToLabelIndexMap
      = some (Banking_stubText "_CODE" 6 refs.jumpLabelNameList refs.symbolNameList
          refs.surrogateNameList
          (fun i => labelBanks.indexOf (refs.targetBankList.getD i 0))) := by
  unfold Banking__writeStubFile
  simp only [hJ, hsur, gt_iff_lt, decide_True, Bool.not_true, Bool.false_eq_true, if_false,
    Banking__writeExternalNames_eq, Banking__writeSurrogateNames_eq,
    Banking__writeTrampolineCalls_eq]
  refine congrArg some ?_
  have hcalls : (List.range refs.symbolNameList.length).map (fun i =>
        (Gameboy__bankingConfiguration L).makeTrampolineCallCode
          ((0 + i * (Gameboy__bankingConfiguration L).offsetPerTrampolineCall) % M) 0
          ((refs.jumpLabelNameList.length + i) % M)
          (IntegerMap_lookup refs.symbolIndexToLabelIndexMap ((1 + i : Nat) : Int)
            % (M : Int)).toNat)
      = (List.range refs.symbolNameList.length).map (fun i =>
         "T " ++ Gameboy__makeAddressBytes (i * 6) ++ " 01 00 00 C3 00 00\n"
           ++ "R 00 00 00 00 02 03 "
           ++ Gameboy__makeAddressBytes (refs.jumpLabelNameList.length + i)
           ++ " 02 06 "
           ++ Gameboy__makeAddressBytes
                (labelBanks.indexOf (refs.targetBankList.getD i 0)) ++ "\n") := by
    apply List.map_congr_left
    intro i hi
    have hi' : i < refs.symbolNameList.length := List.mem_range.mp hi
    obtain ⟨hv, hlt⟩ := hidx i hi'
    have e1 : (0 + i * (Gameboy__bankingConfiguration L).offsetPerTrampolineCall) % M = i * 6 := by
      show (0 + i * 6) % M = i * 6
      rw [Nat.zero_add]
      exact Nat.mod_eq_of_lt (by omega)
    have e2 : (refs.jumpLabelNameList.length + i) % M = refs.jumpLabelNameList.length + i :=
      Nat.mod_eq_of_lt (by omega)
    have e3 : (IntegerMap_lookup refs.symbolIndexToLabelIndexMap ((1 + i : Nat) : Int)
          % (M : Int)).toNat = labelBanks.indexOf (refs.targetBankList.getD i 0) := by
      rw [hv, ← Int.natCast_mod, Int.toNat_natCast]
      exact Nat.mod_eq_of_lt (by omega)
    rw [e1, e2, e3]
    exact Gameboy__makeTrampolineCallCode_eq _ _ _
  rw [hcalls]
  have e4 : (refs.surrogateNameList.length * (Gameboy__bankingConfiguration L).offsetPerTrampolineCall) % M
      = refs.symbolNameList.length * 6 := by
    show (refs.surrogateNameList.length * 6) % M = _
    rw [hsur]
    exact Nat.mod_eq_of_lt hsize
  have e5 : ("X\nH 1 areas " : String) = "X\nH " ++ "1 areas " := by decide
  have e6 : ((Gameboy__bankingConfiguration L).nonbankedCodeAreaName : String) = "_CODE" := rfl
  have e7 : (Gameboy__bankingConfiguration L).offsetPerTrampolineCall = 6 := rfl
  simp only [Banking_stubText, e4, e5, e6, e7, hsur, File_writeCharArray, File_writeString,
    String.append_assoc, File_writeHex_append ("" ++ ("X\nH " ++ "1 areas ")), Nat.zero_add]
  rw [File_writeHex_append, Nat.mod_eq_of_lt hsize]
  simp only [String.append_assoc]
  simp


/-- C24: let the banking rewriter `Banking__collectInterbankReferences` of the
Gameboy target return after it has split `N` symbols, the `i`-th of them with
the target bank `targetBankList[i]`, and let `N` trampolines of 6 bytes fit the
address range.  Then the list of jump labels holds one label per distinct
target bank, `J` labels in all, every surrogate name belongs to the symbol
name at the same position, and `Banking__writeStubFile` returns the text
`Banking_stubText`: a header that declares `J + 2N` global symbols, the
references to the `J` jump labels and the `N` symbols, the area "_CODE" of size
`6N`, the `N` surrogate definitions at the offsets 0, 6, 12, ... and `N` pairs
of a T line and an R line, the `i`-th pair for the symbol `J + i` and the jump
label of its target bank. -/
theorem C24_banking_stub (M L : Nat) (moduleNameToBankMap : Map_Type Int)
    (st st' : Linker) (refs : Banking__References)
    (hrun : Banking__collectInterbankReferences M (Gameboy__bankingConfiguration L)
      moduleNameToBankMap st Banking__noReferences = some (st', refs))
    (hfound : refs.interbankReferenceIsFound = true)
    (hsize : refs.symbolNameList.length * 6 < M) :
    ∃ labelBanks : List Target_Bank,
      labelBanks.Nodup ∧ (∀ b, b ∈ labelBanks ↔ b ∈ refs.targetBankList) ∧
      refs.targetBankList.length = refs.symbolNameList.length ∧
      refs.jumpLabelNameList = labelBanks.map (Gameboy__makeJumpLabelName L) ∧
      refs.jumpLabelNameList.length = refs.targetBankList.dedup.length ∧
      refs.surrogateNameList = refs.symbolNameList.map Gameboy__makeSurrogateSymbolName ∧
      Banking__writeStubFile M (Gameboy__bankingConfiguration L) true refs.jumpLabelNameList
          refs.surrogateNameList refs.symbolNameList refs.symbolIndexToLabelIndexMap
        = some (Banking_stubText "_CODE" 6 refs.jumpLabelNameList refs.symbolNameList
            refs.surrogateNameList
            (fun i => labelBanks.indexOf (refs.targetBankList.getD i 0))) := by
  have hinv := Banking__collectInterbankReferences_invariant M _ _ _ _ _ hrun
  have hJ : refs.jumpLabelNameList.length = (Banking_labelBanks refs.targetBankList).length := by
    rw [hinv.hlab, List.length_map]
  have hpos : 0 < refs.targetBankList.length := by
    have := hinv.hfound
    rw [hfound] at this
    exact of_decide_eq_true this.symm
  refine ⟨Banking_labelBanks refs.targetBankList, Banking_labelBanks_nodup _,
    Banking_labelBanks_mem _, hinv.hsym.symm, hinv.hlab, ?_, hinv.hsur, ?_⟩
  · rw [hJ, Banking_labelBanks_length]
  · refine Banking__writeStubFile_eq M L refs _ ?_ ?_ ?_ ?_ hsize
    · rw [hJ]
      cases hb : refs.targetBankList with
      | nil => rw [hb] at hpos; exact absurd hpos (by simp)
      | cons b rest =>
        have hmem : b ∈ Banking_labelBanks (b :: rest) :=
          (Banking_labelBanks_mem _ b).mpr (List.mem_cons_self b rest)
        exact List.length_pos_of_mem hmem
    · rw [hJ, hinv.hsym]
      exact Banking_labelBanks_length_le _
    · rw [hinv.hsur, List.length_map]
    · intro i hi
      rw [hinv.hsym] at hi
      constructor
      · rw [Nat.add_comm 1 i]
        exact hinv.hidx i hi
      · rw [hJ]
        exact List.indexOf_lt_length.mpr
          ((Banking_labelBanks_mem _ _).mpr (List_getD_mem _ _ hi))

theorem bankingExampleRun_isSome : bankingExampleRun.isSome = true := by
  decide!

/-- Witness of `C24_banking_stub` in the state `bankingExample` with the
modules "M1" in bank 1, "M2" in bank 2 and "M0" without a bank: the symbols
"g", "f" and "h" are split with the target banks 2, 1 and 1, so there are two
jump labels, and the stub file declares 8 global symbols and an area of
0x12 bytes. -/
theorem C24_banking_stub_witness :
    bankingExampleRun.map (fun p => p.2.jumpLabelNameList)
      = some ["Banking__switchTo2", "Banking__switchTo1"] ∧
    bankingExampleRun.map (fun p => p.2.surrogateNameList) = some ["_BCg", "_BCf", "_BCh"] ∧
    bankingExampleRun.map (fun p => p.2.symbolNameList) = some ["g", "f", "h"] ∧
    bankingExampleRun.map (fun p => p.2.targetBankList) = some [2, 1, 1] ∧
    bankingExampleRun.bind (fun p =>
        Banking__writeStubFile 65536 (Gameboy__bankingConfiguration 4294967296) true
          p.2.jumpLabelNameList p.2.surrogateNameList p.2.symbolNameList
          p.2.symbolIndexToLabelIndexMap)
      = some ("X\nH 1 areas 0008 global symbols\nM generatedBanking\n"
            ++ "S Banking__switchTo2 Ref0000\nS Banking__switchTo1 Ref0000\n"
            ++ "S g Ref0000\nS f Ref0000\nS h Ref0000\n"
            ++ "A _CODE size 0012 flags 0\n"
            ++ "S _BCg Def0000\nS _BCf Def0006\nS _BCh Def000c\n"
            ++ "T 00 00 01 00 00 C3 00 00\nR 00 00 00 00 02 03 02 00 02 06 00 00\n"
            ++ "T 06 00 01 00 00 C3 00 00\nR 00 00 00 00 02 03 03 00 02 06 01 00\n"
            ++ "T 0C 00 01 00 00 C3 00 00\nR 00 00 00 00 02 03 04 00 02 06 01 00\n") ∧
    ∃ (st' : Linker) (refs : Banking__References) (labelBanks : List Target_Bank),
      bankingExampleRun = some (st', refs) ∧
      labelBanks.Nodup ∧ (∀ b, b ∈ labelBanks ↔ b ∈ refs.targetBankList) ∧
      refs.targetBankList.length = refs.symbolNameList.length ∧
      refs.jumpLabelNameList = labelBanks.map (Gameboy__makeJumpLabelName 4294967296) ∧
      refs.jumpLabelNameList.length = refs.targetBankList.dedup.length ∧
      refs.surrogateNameList = refs.symbolNameList.map Gameboy__makeSurrogateSymbolName ∧
      Banking__writeStubFile 65536 (Gameboy__bankingConfiguration 4294967296) true
          refs.jumpLabelNameList refs.surrogateNameList refs.symbolNameList
          refs.symbolIndexToLabelIndexMap
        = some (Banking_stubText "_CODE" 6 refs.jumpLabelNameList refs.symbolNameList
            refs.surrogateNameList
            (fun i => labelBanks.indexOf (refs.targetBankList.getD i 0))) :=
  ⟨by decide!, by decide!, by decide!, by decide!, by decide!,
    let ⟨labelBanks, h⟩ := C24_banking_stub 65536 4294967296 bankingExampleMap bankingExample
      (bankingExampleRun.get bankingExampleRun_isSome).1
      (bankingExampleRun.get bankingExampleRun_isSome).2
      (Option.some_get bankingExampleRun_isSome).symm (by decide!) (by decide!)
    ⟨_, _, labelBanks, (Option.some_get bankingExampleRun_isSome).symm, h⟩⟩

/-! ### The reader of the object files -/

theorem File_readLine_newline (file : List Char) :
    ∀ st : List Char, '\n' ∉ st → '\n' ∉ (File_readLine file st).2.dropLast := by
  induction file with
  | nil =>
    intro st hst h
    exact hst (List.dropLast_subset st h)
  | cons ch rest ih =>
    intro st hst
    unfold File_readLine
    by_cases hch : ch = '\n'
    · subst hch
      have happ : String_appendChar st '\n' = st ++ ['\n'] := by
        simp [String_appendChar]
      simp only [happ, if_true, List.dropLast_concat]
      exact hst
    · simp only [hch, if_false]
      apply ih
      unfold String_appendChar
      by_cases h0 : ch = '\x00'
      · simp only [h0, if_true]; exact hst
      · simp only [h0, if_false, List.mem_append, List.mem_singleton, not_or]
        exact ⟨hst, fun h => hch h.symm⟩

theorem List_mem_dropLast_of_getElem? (l : List Char) (i : Nat) (c : Char)
    (h : l[i]? = some c) (hi : i + 1 < l.length) : c ∈ l.dropLast := by
  rw [List.dropLast_eq_take]
  have h2 : (l.take (l.length - 1))[i]? = some c := by
    rw [List.getElem?_take_of_lt (by omega)]
    exact h
  exact List.mem_iff_getElem?.mpr ⟨i, h2⟩

theorem String_getAt_newline (line : List Char) (column : Nat)
    (hline : '\n' ∉ line.dropLast) (h : String_getAt line column = some '\n') :
    column = line.length := by
  unfold String_getAt at h
  by_cases hc : 1 ≤ column ∧ column ≤ line.length
  · rw [if_pos hc] at h
    by_contra hne
    exact hline (List_mem_dropLast_of_getElem? line (column - 1) '\n' h (by omega))
  · rw [if_neg hc] at h
    exact Option.noConfusion h

theorem Parser__getFileListCharacter_loop_spec {W : Type}
    (fileSystem : String_Type → Option (List Char)) (d : Parser_Options)
    (log0 : List Parser_TokenRecord) :
    ∀ (fuel : Nat) (s s' : Parser_Module W) (r : Option (Char × Parser_Place)),
      Parser_invariant d log0 s → s.Scanner__pushbackStack = [] →
      (s.Parser__fileSequence.index = 0 → s.Parser__fileSequence.lineLength = 0) →
      Parser__getFileListCharacter_loop fileSystem fuel s = (s', r) →
      Parser_invariant d log0 s' ∧ s'.Scanner__pushbackStack = [] ∧
      (s'.Parser__options = s.Parser__options ∨ s'.Parser__options = d) ∧
      ∀ ch, r = some ch →
        (s'.Parser__options = d ∨ ¬ Parser_placeIsFirstLine ch.2) ∧
        (ch.1 = '\n' → Parser_atLineEnd s'.Parser__fileSequence) := by
  intro fuel
  induction fuel with
  | zero =>
    intro s s' r hinv hpb h0 h
    simp only [Parser__getFileListCharacter_loop, Prod.mk.injEq] at h
    obtain ⟨h1, h2⟩ := h
    subst h1; subst h2
    exact ⟨hinv, hpb, Or.inl rfl, fun ch hch => Option.noConfusion hch⟩
  | succ fuel ih =>
    intro s s' r hinv hpb h0 h
    unfold Parser__getFileListCharacter_loop at h
    by_cases hlen : s.Parser__fileSequence.lineLength ≠ 0
    · have hidx : s.Parser__fileSequence.index ≠ 0 := fun e => hlen (h0 e)
      dsimp only at h
      rw [if_pos hlen] at h
      by_cases hcol : s.Parser__fileSequence.column ≤ s.Parser__fileSequence.lineLength
      · -- a character of the current line
        rw [if_pos hcol] at h
        obtain ⟨hlenEq, hnl, hcli⟩ := (hinv.hline.resolve_left hidx) hlen hcol
        cases hget : String_getAt s.Parser__fileSequence.currentLine
            s.Parser__fileSequence.column with
        | none =>
          simp only [hget, Prod.mk.injEq] at h
          obtain ⟨h1, h2⟩ := h
          subst h1; subst h2
          exact ⟨hinv, hpb, Or.inl rfl, fun ch hch => Option.noConfusion hch⟩
        | some result =>
          simp only [hget, Prod.mk.injEq] at h
          obtain ⟨h1, h2⟩ := h
          subst h1; subst h2
          have hsafe : s.Parser__options = d ∨ 2 ≤ s.Parser__fileSequence.currentLineIndex := by
            rcases hinv.hopt with ho | ⟨_, hr⟩
            · exact Or.inl ho
            · rcases hr with hr | hr | hr | hr
              · exact absurd hr hidx
              · exact absurd hr hlen
              · exact Or.inr hr
              · omega
          refine ⟨⟨hinv.hdef, hinv.hlog, Or.inr ?_, Or.inl hpb, ?_⟩, hpb, Or.inl rfl, ?_⟩
          · intro _ hc
            exact ⟨hlenEq, hnl, hcli⟩
          · rcases hsafe with ho | hge
            · exact Or.inl ho
            · refine Or.inr ⟨?_, Or.inr (Or.inr (Or.inl hge))⟩
              intro p hp
              rw [hpb] at hp
              exact absurd hp (List.not_mem_nil p)
          · intro ch hch
            have hch' := (Option.some.inj hch).symm
            subst hch'
            refine ⟨?_, ?_⟩
            · rcases hsafe with ho | hge
              · exact Or.inl ho
              · refine Or.inr ?_
                rintro ⟨i, hi⟩
                have := (Prod.mk.inj (Option.some.inj hi)).2
                omega
            · intro hnew
              have hnew' : result = '\n' := hnew
              subst hnew'
              have hcolEq := String_getAt_newline _ _ hnl hget
              refine ⟨hidx, hcli, ?_⟩
              show s.Parser__fileSequence.lineLength < s.Parser__fileSequence.column + 1
              omega
      · -- the line is exhausted: the next line is read
        rw [if_neg hcol] at h
        have hres := ih _ s' r ?hinv ?hpb ?h0 h
        case hpb => exact hpb
        case h0 => intro hz; exact absurd hz hidx
        case hinv =>
          refine ⟨hinv.hdef, hinv.hlog, Or.inr ?_, Or.inl hpb, ?_⟩
          · intro _ _
            exact ⟨rfl, File_readLine_newline _ [] (List.not_mem_nil _), Nat.le_add_left 1 _⟩
          · rcases hinv.hopt with ho | ⟨_, hr⟩
            · exact Or.inl ho
            · refine Or.inr ⟨?_, ?_⟩
              · intro p hp
                have hp' : p ∈ s.Scanner__pushbackStack := hp
                rw [hpb] at hp'
                exact absurd hp' (List.not_mem_nil p)
              · rcases hr with hr | hr | hr | hr
                · exact absurd hr hidx
                · exact absurd hr hlen
                · refine Or.inr (Or.inr (Or.inl ?_))
                  show 2 ≤ s.Parser__fileSequence.currentLineIndex + 1
                  omega
                · refine Or.inr (Or.inr (Or.inl ?_))
                  show 2 ≤ s.Parser__fileSequence.currentLineIndex + 1
                  omega
        exact ⟨hres.1, hres.2.1, hres.2.2.1, hres.2.2.2⟩
    · -- the end of the current file
      have hlen0 : s.Parser__fileSequence.lineLength = 0 := not_not.mp hlen
      dsimp only at h
      rw [if_neg hlen] at h
      by_cases hlast : s.Parser__fileSequence.index + 1 > s.Parser__fileSequence.count
      · rw [if_pos hlast] at h
        simp only [Prod.mk.injEq] at h
        obtain ⟨h1, h2⟩ := h
        subst h1; subst h2
        refine ⟨⟨hinv.hdef, hinv.hlog, Or.inr ?_, Or.inl hpb, ?_⟩, hpb, Or.inl rfl, ?_⟩
        · intro hne
          exact absurd hlen0 hne
        · rcases hinv.hopt with ho | _
          · exact Or.inl ho
          · refine Or.inr ⟨?_, Or.inr (Or.inl hlen0)⟩
            intro p hp
            rw [hpb] at hp
            exact absurd hp (List.not_mem_nil p)
        · intro ch hch
          have hch' := (Option.some.inj hch).symm
          subst hch'
          refine ⟨Or.inr ?_, ?_⟩
          · rintro ⟨i, hi⟩
            exact Option.noConfusion hi
          · intro hnew
            exact absurd hnew (by decide)
      · rw [if_neg hlast] at h
        have hkeep : Parser_invariant d log0
            ({ s with Parser__fileSequence :=
                { s.Parser__fileSequence with index := s.Parser__fileSequence.index + 1 } }) := by
          refine ⟨hinv.hdef, hinv.hlog, Or.inr ?_, Or.inl hpb, ?_⟩
          · intro hne
            exact absurd hlen0 hne
          · rcases hinv.hopt with ho | _
            · exact Or.inl ho
            · refine Or.inr ⟨?_, Or.inr (Or.inl hlen0)⟩
              intro p hp
              rw [hpb] at hp
              exact absurd hp (List.not_mem_nil p)
        cases hname : List_getElement s.Parser__fileSequence.nameList
            (s.Parser__fileSequence.index + 1) with
        | none =>
          simp only [hname, Prod.mk.injEq] at h
          obtain ⟨h1, h2⟩ := h
          subst h1; subst h2
          exact ⟨hkeep, hpb, Or.inl rfl, fun ch hch => Option.noConfusion hch⟩
        | some fileName =>
          simp only [hname] at h
          cases hopen : fileSystem fileName with
          | none =>
            simp only [hopen, Prod.mk.injEq] at h
            obtain ⟨h1, h2⟩ := h
            subst h1; subst h2
            exact ⟨hkeep, hpb, Or.inl rfl, fun ch hch => Option.noConfusion hch⟩
          | some content =>
            simp only [hopen] at h
            have hres := ih _ s' r ?hinv ?hpb ?h0 h
            case hpb => exact hpb
            case h0 => intro hz; exact absurd hz (Nat.succ_ne_zero _)
            case hinv =>
              refine ⟨hinv.hdef, hinv.hlog, Or.inr ?_, Or.inl hpb, Or.inl hinv.hdef⟩
              intro _ hc
              have hc' : 2 ≤ 1 := hc
              omega
            refine ⟨hres.1, hres.2.1, ?_, hres.2.2.2⟩
            rcases hres.2.2.1 with ho | ho
            · exact Or.inr (ho.trans hinv.hdef)
            · exact Or.inr ho

theorem Parser__getFileListCharacter_spec {W : Type}
    (fileSystem : String_Type → Option (List Char)) (d : Parser_Options)
    (log0 : List Parser_TokenRecord) (fuel : Nat) (s s' : Parser_Module W)
    (r : Option (Char × Parser_Place))
    (hinv : Parser_invariant d log0 s) (hpb : s.Scanner__pushbackStack = [])
    (h : Parser__getFileListCharacter fileSystem fuel s = (s', r)) :
    Parser_invariant d log0 s' ∧ s'.Scanner__pushbackStack = [] ∧
    (s'.Parser__options = s.Parser__options ∨ s'.Parser__options = d) ∧
    ∀ ch, r = some ch →
      (s'.Parser__options = d ∨ ¬ Parser_placeIsFirstLine ch.2) ∧
      (ch.1 = '\n' → Parser_atLineEnd s'.Parser__fileSequence) := by
  unfold Parser__getFileListCharacter at h
  by_cases hz : s.Parser__fileSequence.index = 0
  · simp only [hz, if_true] at h
    have hres := Parser__getFileListCharacter_loop_spec fileSystem d log0 fuel _ s' r
      ?hinv ?hpb ?h0 h
    case hpb => exact hpb
    case h0 => intro _; rfl
    case hinv =>
      refine ⟨hinv.hdef, hinv.hlog, Or.inl rfl, Or.inl hpb, ?_⟩
      rcases hinv.hopt with ho | _
      · exact Or.inl ho
      · refine Or.inr ⟨?_, Or.inl rfl⟩
        intro p hp
        have hp' : p ∈ s.Scanner__pushbackStack := hp
        rw [hpb] at hp'
        exact absurd hp' (List.not_mem_nil p)
    exact hres
  · simp only [hz, if_false] at h
    exact Parser__getFileListCharacter_loop_spec fileSystem d log0 fuel s s' r hinv hpb
      (fun e => absurd e hz) h


/-! ### The scanner -/

theorem Parser_options_trans {W : Type} (d : Parser_Options) (s s1 s2 : Parser_Module W)
    (h1 : s1.Parser__options = s.Parser__options ∨ s1.Parser__options = d)
    (h2 : s2.Parser__options = s1.Parser__options ∨ s2.Parser__options = d) :
    s2.Parser__options = s.Parser__options ∨ s2.Parser__options = d := by
  rcases h2 with h2 | h2
  · rcases h1 with h1 | h1
    · exact Or.inl (h2.trans h1)
    · exact Or.inr (h2.trans h1)
  · exact Or.inr h2

theorem Scanner__getChar_spec {W : Type} (fileSystem : String_Type → Option (List Char))
    (d : Parser_Options) (log0 : List Parser_TokenRecord) (fuel : Nat)
    (s s' : Parser_Module W) (r : Option (Char × Parser_Place))
    (hinv : Parser_invariant d log0 s)
    (h : Scanner__getChar fileSystem fuel s = (s', r)) :
    Parser_invariant d log0 s' ∧ s'.Scanner__pushbackStack = [] ∧
    (s'.Parser__options = s.Parser__options ∨ s'.Parser__options = d) ∧
    ∀ ch, r = some ch →
      (s'.Parser__options = d ∨ ¬ Parser_placeIsFirstLine ch.2) ∧
      (ch.1 = '\n' → Parser_atLineEnd s'.Parser__fileSequence) := by
  unfold Scanner__getChar at h
  cases hstack : s.Scanner__pushbackStack with
  | nil =>
    simp only [hstack] at h
    exact Parser__getFileListCharacter_spec fileSystem d log0 fuel s s' r hinv hstack h
  | cons top rest =>
    simp only [hstack, Prod.mk.injEq] at h
    obtain ⟨h1, h2⟩ := h
    subst h1; subst h2
    have hone : rest = [] ∧ (top.1 = '\n' → Parser_atLineEnd s.Parser__fileSequence) := by
      rcases hinv.hpush with hp | ⟨ch, hp, hnl⟩
      · rw [hp] at hstack
        exact List.noConfusion hstack
      · rw [hp] at hstack
        have h1 := (List.cons.inj hstack).1
        have h2 := (List.cons.inj hstack).2
        subst h1
        exact ⟨h2.symm, hnl⟩
    obtain ⟨hrest, hnl⟩ := hone
    subst hrest
    have hsafe : s.Parser__options = d ∨
        (¬ Parser_placeIsFirstLine top.2 ∧
          Parser_readerIsPastFirstLine s.Parser__fileSequence) := by
      rcases hinv.hopt with ho | ⟨hp, hr⟩
      · exact Or.inl ho
      · refine Or.inr ⟨hp top ?_, hr⟩
        rw [hstack]
        exact List.mem_singleton.mpr rfl
    refine ⟨⟨hinv.hdef, hinv.hlog, hinv.hline, Or.inl rfl, ?_⟩, rfl, Or.inl rfl, ?_⟩
    · rcases hsafe with ho | ⟨_, hr⟩
      · exact Or.inl ho
      · exact Or.inr ⟨fun p hp => absurd hp (List.not_mem_nil p), hr⟩
    · intro ch hch
      have hch' := (Option.some.inj hch).symm
      subst hch'
      refine ⟨?_, hnl⟩
      rcases hsafe with ho | ⟨hp, _⟩
      · exact Or.inl ho
      · exact Or.inr hp

theorem Parser_atLineEnd_past (fs : Parser__FileSequence) (h : Parser_atLineEnd fs) :
    Parser_readerIsPastFirstLine fs := by
  obtain ⟨_, h1, h2⟩ := h
  by_cases hc : fs.currentLineIndex = 1
  · exact Or.inr (Or.inr (Or.inr ⟨hc, h2⟩))
  · exact Or.inr (Or.inr (Or.inl (by omega)))

theorem Scanner__ungetChar_spec {W : Type} (d : Parser_Options)
    (log0 : List Parser_TokenRecord) (s s' : Parser_Module W) (ch : Char × Parser_Place)
    (hinv : Parser_invariant d log0 s) (hpb : s.Scanner__pushbackStack = [])
    (hopt : s.Parser__options = d ∨ ¬ Parser_placeIsFirstLine ch.2)
    (hnl : ch.1 = '\n' → Parser_atLineEnd s.Parser__fileSequence)
    (h : Scanner__ungetChar s ch = some s') :
    Parser_invariant d log0 s' ∧ s'.Parser__options = s.Parser__options := by
  unfold Scanner__ungetChar at h
  split at h
  · exact Option.noConfusion h
  · have h' := (Option.some.inj h).symm
    subst h'
    refine ⟨⟨hinv.hdef, hinv.hlog, hinv.hline, Or.inr ⟨ch, ?_, hnl⟩, ?_⟩, rfl⟩
    · show ch :: s.Scanner__pushbackStack = [ch]
      rw [hpb]
    · rcases hopt with ho | hp
      · exact Or.inl ho
      · rcases hinv.hopt with ho | ⟨_, hr⟩
        · exact Or.inl ho
        · refine Or.inr ⟨?_, hr⟩
          intro p hmem
          have hmem' : p ∈ ch :: s.Scanner__pushbackStack := hmem
          rw [hpb, List.mem_singleton] at hmem'
          rw [hmem']
          exact hp

/-- A character is read and pushed back at once. -/
theorem Scanner__getChar_ungetChar_spec {W : Type}
    (fileSystem : String_Type → Option (List Char)) (d : Parser_Options)
    (log0 : List Parser_TokenRecord) (fuel : Nat) (s s1 s2 : Parser_Module W)
    (ch : Char × Parser_Place) (hinv : Parser_invariant d log0 s)
    (hget : Scanner__getChar fileSystem fuel s = (s1, some ch))
    (hunget : Scanner__ungetChar s1 ch = some s2) :
    Parser_invariant d log0 s2 ∧
    (s2.Parser__options = s.Parser__options ∨ s2.Parser__options = d) ∧
    (s2.Parser__options = d ∨ ¬ Parser_placeIsFirstLine ch.2) := by
  obtain ⟨hinv1, hpb1, hmono1, hch⟩ := Scanner__getChar_spec fileSystem d log0 fuel s s1 _
    hinv hget
  obtain ⟨hfirst, hnl⟩ := hch ch rfl
  obtain ⟨hinv2, hopt2⟩ := Scanner__ungetChar_spec d log0 s1 s2 ch hinv1 hpb1 hfirst hnl hunget
  refine ⟨hinv2, ?_, ?_⟩
  · rw [hopt2]; exact hmono1
  · rw [hopt2]; exact hfirst

theorem Scanner__getIdentifier_loop_spec {W : Type}
    (fileSystem : String_Type → Option (List Char)) (d : Parser_Options)
    (log0 : List Parser_TokenRecord) :
    ∀ (fuel : Nat) (s s' : Parser_Module W) (representation : List Char)
      (r : Option (List Char)),
      Parser_invariant d log0 s →
      Scanner__getIdentifier_loop fileSystem fuel s representation = (s', r) →
      Parser_invariant d log0 s' ∧
      (s'.Parser__options = s.Parser__options ∨ s'.Parser__options = d) := by
  intro fuel
  induction fuel with
  | zero =>
    intro s s' representation r hinv h
    simp only [Scanner__getIdentifier_loop, Prod.mk.injEq] at h
    rw [← h.1]
    exact ⟨hinv, Or.inl rfl⟩
  | succ fuel ih =>
    intro s s' representation r hinv h
    unfold Scanner__getIdentifier_loop at h
    cases hget : Scanner__getChar fileSystem fuel s with
    | mk s1 r1 =>
      have hspec := Scanner__getChar_spec fileSystem d log0 fuel s s1 r1 hinv hget
      cases r1 with
      | none =>
        simp only [hget, Prod.mk.injEq] at h
        rw [← h.1]
        exact ⟨hspec.1, hspec.2.2.1⟩
      | some ch =>
        simp only [hget] at h
        split at h
        · cases hunget : Scanner__ungetChar s1 ch with
          | none =>
            simp only [hunget, Prod.mk.injEq] at h
            rw [← h.1]
            exact ⟨hspec.1, hspec.2.2.1⟩
          | some s2 =>
            simp only [hunget, Prod.mk.injEq] at h
            rw [← h.1]
            have h2 := Scanner__getChar_ungetChar_spec fileSystem d log0 fuel s s1 s2 ch hinv
              hget hunget
            exact ⟨h2.1, h2.2.1⟩
        · have h2 := ih s1 s' _ r hspec.1 h
          exact ⟨h2.1, Parser_options_trans d s s1 s' hspec.2.2.1 h2.2⟩

theorem Scanner__getNumber_loop_spec {W : Type}
    (fileSystem : String_Type → Option (List Char)) (d : Parser_Options)
    (log0 : List Parser_TokenRecord) :
    ∀ (fuel : Nat) (s s' : Parser_Module W) (representation : List Char)
      (r : Option (List Char)),
      Parser_invariant d log0 s →
      Scanner__getNumber_loop fileSystem fuel s representation = (s', r) →
      Parser_invariant d log0 s' ∧
      (s'.Parser__options = s.Parser__options ∨ s'.Parser__options = d) := by
  intro fuel
  induction fuel with
  | zero =>
    intro s s' representation r hinv h
    simp only [Scanner__getNumber_loop, Prod.mk.injEq] at h
    rw [← h.1]
    exact ⟨hinv, Or.inl rfl⟩
  | succ fuel ih =>
    intro s s' representation r hinv h
    unfold Scanner__getNumber_loop at h
    cases hget : Scanner__getChar fileSystem fuel s with
    | mk s1 r1 =>
      have hspec := Scanner__getChar_spec fileSystem d log0 fuel s s1 r1 hinv hget
      cases r1 with
      | none =>
        simp only [hget, Prod.mk.injEq] at h
        rw [← h.1]
        exact ⟨hspec.1, hspec.2.2.1⟩
      | some ch =>
        simp only [hget] at h
        split at h
        · cases hunget : Scanner__ungetChar s1 ch with
          | none =>
            simp only [hunget, Prod.mk.injEq] at h
            rw [← h.1]
            exact ⟨hspec.1, hspec.2.2.1⟩
          | some s2 =>
            simp only [hunget, Prod.mk.injEq] at h
            rw [← h.1]
            have h2 := Scanner__getChar_ungetChar_spec fileSystem d log0 fuel s s1 s2 ch hinv
              hget hunget
            exact ⟨h2.1, h2.2.1⟩
        · have h2 := ih s1 s' _ r hspec.1 h
          exact ⟨h2.1, Parser_options_trans d s s1 s' hspec.2.2.1 h2.2⟩

theorem Scanner__getAmbiguousToken_loop_spec {W : Type}
    (fileSystem : String_Type → Option (List Char)) (d : Parser_Options)
    (log0 : List Parser_TokenRecord) :
    ∀ (fuel : Nat) (s s' : Parser_Module W) (token : Scanner_Token)
      (r : Option Scanner_Token),
      Parser_invariant d log0 s → token.kind ≠ Scanner_TokenKind_newline →
      Scanner__getAmbiguousToken_loop fileSystem fuel s token = (s', r) →
      Parser_invariant d log0 s' ∧
      (s'.Parser__options = s.Parser__options ∨ s'.Parser__options = d) ∧
      ∀ t, r = some t → t.kind ≠ Scanner_TokenKind_newline := by
  intro fuel
  induction fuel with
  | zero =>
    intro s s' token r hinv hkind h
    simp only [Scanner__getAmbiguousToken_loop, Prod.mk.injEq] at h
    rw [← h.1, ← h.2]
    exact ⟨hinv, Or.inl rfl, fun t ht => Option.noConfusion ht⟩
  | succ fuel ih =>
    intro s s' token r hinv hkind h
    unfold Scanner__getAmbiguousToken_loop at h
    cases hget : Scanner__getChar fileSystem fuel s with
    | mk s1 r1 =>
      have hspec := Scanner__getChar_spec fileSystem d log0 fuel s s1 r1 hinv hget
      cases r1 with
      | none =>
        simp only [hget, Prod.mk.injEq] at h
        rw [← h.1, ← h.2]
        exact ⟨hspec.1, hspec.2.2.1, fun t ht => Option.noConfusion ht⟩
      | some ch =>
        simp only [hget] at h
        split at h
        · have h2 := ih s1 s' _ r hspec.1 ?hk h
          case hk => show Scanner_TokenKind_identifier ≠ Scanner_TokenKind_newline; decide
          exact ⟨h2.1, Parser_options_trans d s s1 s' hspec.2.2.1 h2.2.1, h2.2.2⟩
        · split at h
          · cases hunget : Scanner__ungetChar s1 ch with
            | none =>
              simp only [hunget, Prod.mk.injEq] at h
              rw [← h.1, ← h.2]
              exact ⟨hspec.1, hspec.2.2.1, fun t ht => Option.noConfusion ht⟩
            | some s2 =>
              simp only [hunget, Prod.mk.injEq] at h
              rw [← h.1, ← h.2]
              have h2 := Scanner__getChar_ungetChar_spec fileSystem d log0 fuel s s1 s2 ch hinv
                hget hunget
              refine ⟨h2.1, h2.2.1, ?_⟩
              intro t ht
              rw [← Option.some.inj ht]
              exact hkind
          · have h2 := ih s1 s' _ r hspec.1 ?hk h
            case hk => exact hkind
            exact ⟨h2.1, Parser_options_trans d s s1 s' hspec.2.2.1 h2.2.1, h2.2.2⟩


theorem Scanner__getIdentifier_spec {W : Type}
    (fileSystem : String_Type → Option (List Char)) (d : Parser_Options)
    (log0 : List Parser_TokenRecord) (fuel : Nat) (s s' : Parser_Module W)
    (r : Option Scanner_Token) (hinv : Parser_invariant d log0 s)
    (h : Scanner__getIdentifier fileSystem fuel s = (s', r)) :
    Parser_invariant d log0 s' ∧
    (s'.Parser__options = s.Parser__options ∨ s'.Parser__options = d) ∧
    ∀ t, r = some t → t.kind ≠ Scanner_TokenKind_newline := by
  unfold Scanner__getIdentifier at h
  cases hloop : Scanner__getIdentifier_loop fileSystem fuel s [] with
  | mk s1 r1 =>
    have hspec := Scanner__getIdentifier_loop_spec fileSystem d log0 fuel s s1 [] r1 hinv hloop
    cases r1 with
    | none =>
      simp only [hloop, Prod.mk.injEq] at h
      rw [← h.1, ← h.2]
      exact ⟨hspec.1, hspec.2, fun t ht => Option.noConfusion ht⟩
    | some representation =>
      simp only [hloop, Prod.mk.injEq] at h
      rw [← h.1, ← h.2]
      refine ⟨hspec.1, hspec.2, ?_⟩
      intro t ht
      rw [← Option.some.inj ht]
      exact (by decide : Scanner_TokenKind_identifier ≠ Scanner_TokenKind_newline)

theorem Scanner__getAmbiguousToken_spec {W : Type}
    (fileSystem : String_Type → Option (List Char)) (d : Parser_Options)
    (log0 : List Parser_TokenRecord) (fuel : Nat) (s s' : Parser_Module W)
    (r : Option Scanner_Token) (hinv : Parser_invariant d log0 s)
    (h : Scanner__getAmbiguousToken fileSystem fuel s = (s', r)) :
    Parser_invariant d log0 s' ∧
    (s'.Parser__options = s.Parser__options ∨ s'.Parser__options = d) ∧
    ∀ t, r = some t → t.kind ≠ Scanner_TokenKind_newline := by
  refine Scanner__getAmbiguousToken_loop_spec fileSystem d log0 fuel s s' _ r hinv ?hk h
  case hk => show Scanner_TokenKind_idOrNumber ≠ Scanner_TokenKind_newline; decide

theorem Scanner__getNumber_spec {W : Type}
    (fileSystem : String_Type → Option (List Char)) (d : Parser_Options)
    (log0 : List Parser_TokenRecord) (fuel : Nat) (s s' : Parser_Module W)
    (r : Option Scanner_Token) (hinv : Parser_invariant d log0 s)
    (h : Scanner__getNumber fileSystem fuel s = (s', r)) :
    Parser_invariant d log0 s' ∧
    (s'.Parser__options = s.Parser__options ∨ s'.Parser__options = d) ∧
    ∀ t, r = some t → t.kind ≠ Scanner_TokenKind_newline := by
  unfold Scanner__getNumber at h
  cases hget : Scanner__getChar fileSystem fuel s with
  | mk s1 r1 =>
    have hspec := Scanner__getChar_spec fileSystem d log0 fuel s s1 r1 hinv hget
    cases r1 with
    | none =>
      simp only [hget, Prod.mk.injEq] at h
      rw [← h.1, ← h.2]
      exact ⟨hspec.1, hspec.2.2.1, fun t ht => Option.noConfusion ht⟩
    | some ch =>
      simp only [hget] at h
      -- the state after the radix character
      have hradix : ∀ (s2 : Parser_Module W) (r2 : Option (List Char)),
          (if ch.1 = '0' then
            match Scanner__getChar fileSystem fuel s1 with
            | (s, none) => (s, none)
            | (s, some ch2) =>
              if (!Scanner__isRadixCharacter ch2.1) = true then
                match Scanner__ungetChar s ch2 with
                | none => (s, none)
                | some s => (s, some (String_appendChar [] ch.1))
              else
                (s, some (String_appendChar (String_appendChar [] ch.1)
                  (if ch2.1.isLower = true then ch2.1.toUpper else ch2.1)))
          else (s1, some (String_appendChar [] ch.1))) = (s2, r2) →
          Parser_invariant d log0 s2 ∧
          (s2.Parser__options = s1.Parser__options ∨ s2.Parser__options = d) := by
        intro s2 r2 hr
        split at hr
        · cases hget2 : Scanner__getChar fileSystem fuel s1 with
          | mk s3 r3 =>
            have hspec2 := Scanner__getChar_spec fileSystem d log0 fuel s1 s3 r3 hspec.1 hget2
            cases r3 with
            | none =>
              simp only [hget2, Prod.mk.injEq] at hr
              rw [← hr.1]
              exact ⟨hspec2.1, hspec2.2.2.1⟩
            | some ch2 =>
              simp only [hget2] at hr
              split at hr
              · cases hunget : Scanner__ungetChar s3 ch2 with
                | none =>
                  simp only [hunget, Prod.mk.injEq] at hr
                  rw [← hr.1]
                  exact ⟨hspec2.1, hspec2.2.2.1⟩
                | some s4 =>
                  simp only [hunget, Prod.mk.injEq] at hr
                  rw [← hr.1]
                  have h4 := Scanner__getChar_ungetChar_spec fileSystem d log0 fuel s1 s3 s4 ch2
                    hspec.1 hget2 hunget
                  exact ⟨h4.1, h4.2.1⟩
              · simp only [Prod.mk.injEq] at hr
                rw [← hr.1]
                exact ⟨hspec2.1, hspec2.2.2.1⟩
        · simp only [Prod.mk.injEq] at hr
          rw [← hr.1]
          exact ⟨hspec.1, Or.inl rfl⟩
      split at h
      · rename_i s2 hr
        have h2 := hradix s2 none hr
        simp only [Prod.mk.injEq] at h
        rw [← h.1, ← h.2]
        exact ⟨h2.1, Parser_options_trans d s s1 s2 hspec.2.2.1 h2.2,
          fun t ht => Option.noConfusion ht⟩
      · rename_i s2 representation hr
        have h2 := hradix s2 (some representation) hr
        have hmono2 := Parser_options_trans d s s1 s2 hspec.2.2.1 h2.2
        cases hloop : Scanner__getNumber_loop fileSystem fuel s2 representation with
        | mk s5 r5 =>
          have h5 := Scanner__getNumber_loop_spec fileSystem d log0 fuel s2 s5 representation r5
            h2.1 hloop
          have hmono5 := Parser_options_trans d s s2 s5 hmono2 h5.2
          cases r5 with
          | none =>
            simp only [hloop, Prod.mk.injEq] at h
            rw [← h.1, ← h.2]
            exact ⟨h5.1, hmono5, fun t ht => Option.noConfusion ht⟩
          | some representation5 =>
            simp only [hloop, Prod.mk.injEq] at h
            rw [← h.1, ← h.2]
            refine ⟨h5.1, hmono5, ?_⟩
            intro t ht
            rw [← Option.some.inj ht]
            exact (by decide : Scanner_TokenKind_number ≠ Scanner_TokenKind_newline)

theorem Scanner__getOperator_spec {W : Type}
    (fileSystem : String_Type → Option (List Char)) (d : Parser_Options)
    (log0 : List Parser_TokenRecord) (fuel : Nat) (s s' : Parser_Module W)
    (r : Option Scanner_Token) (hinv : Parser_invariant d log0 s)
    (h : Scanner__getOperator fileSystem fuel s = (s', r)) :
    Parser_invariant d log0 s' ∧
    (s'.Parser__options = s.Parser__options ∨ s'.Parser__options = d) ∧
    ∀ t, r = some t → t.kind ≠ Scanner_TokenKind_newline := by
  unfold Scanner__getOperator at h
  cases hget : Scanner__getChar fileSystem fuel s with
  | mk s1 r1 =>
    have hspec := Scanner__getChar_spec fileSystem d log0 fuel s s1 r1 hinv hget
    cases r1 with
    | none =>
      simp only [hget, Prod.mk.injEq] at h
      rw [← h.1, ← h.2]
      exact ⟨hspec.1, hspec.2.2.1, fun t ht => Option.noConfusion ht⟩
    | some ch =>
      simp only [hget] at h
      split at h
      · cases hget2 : Scanner__getChar fileSystem fuel s1 with
        | mk s3 r3 =>
          have hspec2 := Scanner__getChar_spec fileSystem d log0 fuel s1 s3 r3 hspec.1 hget2
          have hmono3 := Parser_options_trans d s s1 s3 hspec.2.2.1 hspec2.2.2.1
          cases r3 with
          | none =>
            simp only [hget2, Prod.mk.injEq] at h
            rw [← h.1, ← h.2]
            exact ⟨hspec2.1, hmono3, fun t ht => Option.noConfusion ht⟩
          | some nextChar =>
            simp only [hget2] at h
            split at h
            · simp only [Prod.mk.injEq] at h
              rw [← h.1, ← h.2]
              refine ⟨hspec2.1, hmono3, ?_⟩
              intro t ht
              rw [← Option.some.inj ht]
              exact (by decide : Scanner_TokenKind_operator ≠ Scanner_TokenKind_newline)
            · cases hunget : Scanner__ungetChar s3 nextChar with
              | none =>
                simp only [hunget, Prod.mk.injEq] at h
                rw [← h.1, ← h.2]
                exact ⟨hspec2.1, hmono3, fun t ht => Option.noConfusion ht⟩
              | some s4 =>
                simp only [hunget, Prod.mk.injEq] at h
                rw [← h.1, ← h.2]
                have h4 := Scanner__getChar_ungetChar_spec fileSystem d log0 fuel s1 s3 s4
                  nextChar hspec.1 hget2 hunget
                refine ⟨h4.1, Parser_options_trans d s s1 s4 hspec.2.2.1 h4.2.1, ?_⟩
                intro t ht
                rw [← Option.some.inj ht]
                exact (by decide : Scanner_TokenKind_other ≠ Scanner_TokenKind_newline)
      · simp only [Prod.mk.injEq] at h
        rw [← h.1, ← h.2]
        refine ⟨hspec.1, hspec.2.2.1, ?_⟩
        intro t ht
        rw [← Option.some.inj ht]
        exact (by decide : Scanner_TokenKind_operator ≠ Scanner_TokenKind_newline)


theorem Scanner__characterKind_newline (ch : Char)
    (h : Scanner__characterKind ch = .newline) : ch = '\n' := by
  unfold Scanner__characterKind at h
  repeat' split at h
  all_goals first
    | exact Scanner__CharacterKind.noConfusion h
    | assumption

/-- The part of `Scanner_getNextToken` for a token of several characters: the
first character is pushed back and the routine `getToken` collects the
token. -/
theorem Scanner_getNextToken_collect {W : Type}
    (fileSystem : String_Type → Option (List Char)) (d : Parser_Options)
    (log0 : List Parser_TokenRecord) (fuel : Nat)
    (getToken : Parser_Module W → Parser_Module W × Option Scanner_Token)
    (hgetToken : ∀ (s s' : Parser_Module W) (r : Option Scanner_Token),
      Parser_invariant d log0 s → getToken s = (s', r) →
      Parser_invariant d log0 s' ∧
      (s'.Parser__options = s.Parser__options ∨ s'.Parser__options = d) ∧
      ∀ t, r = some t → t.kind ≠ Scanner_TokenKind_newline)
    (s s1 s' : Parser_Module W) (ch : Char × Parser_Place)
    (r : Option (Scanner_Token × Parser_Place))
    (hinv : Parser_invariant d log0 s)
    (hget : Scanner__getChar fileSystem fuel s = (s1, some ch))
    (h : (match Scanner__ungetChar s1 ch with
          | none => (s1, none)
          | some s2 => ((getToken s2).1, (getToken s2).2.map (fun token => (token, ch.2))))
        = (s', r)) :
    Parser_invariant d log0 s' ∧
    ∀ token place, r = some (token, place) →
      (s'.Parser__options = d ∨ ¬ Parser_placeIsFirstLine place) ∧
      (token.kind = Scanner_TokenKind_newline →
        s'.Scanner__pushbackStack = [] ∧ Parser_atLineEnd s'.Parser__fileSequence) := by
  have hspec := Scanner__getChar_spec fileSystem d log0 fuel s s1 _ hinv hget
  cases hunget : Scanner__ungetChar s1 ch with
  | none =>
    simp only [hunget, Prod.mk.injEq] at h
    rw [← h.1, ← h.2]
    exact ⟨hspec.1, fun token place ht => Option.noConfusion ht⟩
  | some s2 =>
    simp only [hunget, Prod.mk.injEq] at h
    have h2 := Scanner__getChar_ungetChar_spec fileSystem d log0 fuel s s1 s2 ch hinv hget hunget
    have h3 := hgetToken s2 (getToken s2).1 (getToken s2).2 h2.1 rfl
    rw [← h.1, ← h.2]
    refine ⟨h3.1, ?_⟩
    intro token place ht
    cases hr : (getToken s2).2 with
    | none =>
      rw [hr] at ht
      exact Option.noConfusion ht
    | some t =>
      rw [hr] at ht
      have ht' := Prod.mk.inj (Option.some.inj ht)
      refine ⟨?_, ?_⟩
      · rw [← ht'.2]
        rcases h2.2.2 with ho | hp
        · rcases h3.2.1 with h4 | h4
          · exact Or.inl (h4.trans ho)
          · exact Or.inl h4
        · exact Or.inr hp
      · intro hk
        rw [← ht'.1] at hk
        exact absurd hk (h3.2.2 t hr)

theorem Scanner_getNextToken_loop_spec {W : Type}
    (fileSystem : String_Type → Option (List Char)) (d : Parser_Options)
    (log0 : List Parser_TokenRecord) :
    ∀ (fuel : Nat) (s s' : Parser_Module W) (r : Option (Scanner_Token × Parser_Place)),
      Parser_invariant d log0 s →
      Scanner_getNextToken_loop fileSystem fuel s = (s', r) →
      Parser_invariant d log0 s' ∧
      ∀ token place, r = some (token, place) →
        (s'.Parser__options = d ∨ ¬ Parser_placeIsFirstLine place) ∧
        (token.kind = Scanner_TokenKind_newline →
          s'.Scanner__pushbackStack = [] ∧ Parser_atLineEnd s'.Parser__fileSequence) := by
  intro fuel
  induction fuel with
  | zero =>
    intro s s' r hinv h
    simp only [Scanner_getNextToken_loop, Prod.mk.injEq] at h
    rw [← h.1, ← h.2]
    exact ⟨hinv, fun token place ht => Option.noConfusion ht⟩
  | succ fuel ih =>
    intro s s' r hinv h
    unfold Scanner_getNextToken_loop at h
    cases hget : Scanner__getChar fileSystem fuel s with
    | mk s1 r1 =>
      have hspec := Scanner__getChar_spec fileSystem d log0 fuel s s1 r1 hinv hget
      cases r1 with
      | none =>
        simp only [hget, Prod.mk.injEq] at h
        rw [← h.1, ← h.2]
        exact ⟨hspec.1, fun token place ht => Option.noConfusion ht⟩
      | some ch =>
        simp only [hget] at h
        have hsingle : ∀ kind : Nat, kind ≠ Scanner_TokenKind_newline →
            (s1, some (Scanner__makeTokenForChar ch.1 kind, ch.2)) = (s', r) →
            Parser_invariant d log0 s' ∧
            ∀ token place, r = some (token, place) →
              (s'.Parser__options = d ∨ ¬ Parser_placeIsFirstLine place) ∧
              (token.kind = Scanner_TokenKind_newline →
                s'.Scanner__pushbackStack = [] ∧
                  Parser_atLineEnd s'.Parser__fileSequence) := by
          intro kind hkind hres
          simp only [Prod.mk.injEq] at hres
          rw [← hres.1, ← hres.2]
          refine ⟨hspec.1, ?_⟩
          intro token place ht
          have ht' := Prod.mk.inj (Option.some.inj ht)
          refine ⟨?_, ?_⟩
          · rw [← ht'.2]
            exact (hspec.2.2.2 ch rfl).1
          · intro hk
            rw [← ht'.1] at hk
            exact absurd hk hkind
        split at h
        · exact ih s1 s' r hspec.1 h
        · exact Scanner_getNextToken_collect fileSystem d log0 fuel _
            (fun a b c => Scanner__getNumber_spec fileSystem d log0 fuel a b c)
            s s1 s' ch r hinv hget h
        · exact Scanner_getNextToken_collect fileSystem d log0 fuel _
            (fun a b c => Scanner__getIdentifier_spec fileSystem d log0 fuel a b c)
            s s1 s' ch r hinv hget h
        · exact Scanner_getNextToken_collect fileSystem d log0 fuel _
            (fun a b c => Scanner__getAmbiguousToken_spec fileSystem d log0 fuel a b c)
            s s1 s' ch r hinv hget h
        · exact Scanner_getNextToken_collect fileSystem d log0 fuel _
            (fun a b c => Scanner__getOperator_spec fileSystem d log0 fuel a b c)
            s s1 s' ch r hinv hget h
        · rename_i hkind
          simp only [Prod.mk.injEq] at h
          rw [← h.1, ← h.2]
          refine ⟨hspec.1, ?_⟩
          intro token place ht
          have ht' := Prod.mk.inj (Option.some.inj ht)
          refine ⟨?_, fun _ => ⟨hspec.2.1, ?_⟩⟩
          · rw [← ht'.2]
            exact (hspec.2.2.2 ch rfl).1
          · exact (hspec.2.2.2 ch rfl).2 (Scanner__characterKind_newline ch.1 hkind)
        · exact hsingle _ (by decide) h
        · exact hsingle _ (by decide) h
        · exact hsingle _ (by decide) h

theorem Scanner_getNextToken_spec {W : Type}
    (fileSystem : String_Type → Option (List Char)) (d : Parser_Options)
    (log0 : List Parser_TokenRecord) (fuel : Nat) (s s' : Parser_Module W)
    (r : Option Scanner_Token) (hinv : Parser_invariant d log0 s)
    (h : Scanner_getNextToken fileSystem fuel s = (s', r)) :
    Parser_invariant d log0 s' ∧
    ∀ token, r = some token → token.kind = Scanner_TokenKind_newline →
      s'.Scanner__pushbackStack = [] ∧ Parser_atLineEnd s'.Parser__fileSequence := by
  unfold Scanner_getNextToken at h
  cases hloop : Scanner_getNextToken_loop fileSystem fuel s with
  | mk s1 r1 =>
    have hspec := Scanner_getNextToken_loop_spec fileSystem d log0 fuel s s1 r1 hinv hloop
    cases r1 with
    | none =>
      simp only [hloop, Prod.mk.injEq] at h
      rw [← h.1, ← h.2]
      exact ⟨hspec.1, fun token ht => Option.noConfusion ht⟩
    | some p =>
      obtain ⟨token, place⟩ := p
      simp only [hloop, Prod.mk.injEq] at h
      rw [← h.1, ← h.2]
      obtain ⟨hfirst, hnl⟩ := hspec.2 token place rfl
      refine ⟨⟨hspec.1.hdef, ?_, hspec.1.hline, hspec.1.hpush, hspec.1.hopt⟩, ?_⟩
      · obtain ⟨new, hnew, hall⟩ := hspec.1.hlog
        refine ⟨new ++ [{ place := place, token := token, options := s1.Parser__options }],
          ?_, ?_⟩
        · show s1.tokenLog ++ _ = _
          rw [hnew, List.append_assoc]
        · intro e he
          rcases List.mem_append.mp he with he | he
          · exact hall e he
          · rw [List.mem_singleton.mp he]
            intro hp
            rcases hfirst with ho | hn
            · exact ho
            · exact absurd hp hn
      · intro t ht hk
        rw [← Option.some.inj ht] at hk
        exact hnl hk

theorem Parser__skipToNewline_spec {W : Type}
    (fileSystem : String_Type → Option (List Char)) (d : Parser_Options)
    (log0 : List Parser_TokenRecord) :
    ∀ (fuel : Nat) (s s' : Parser_Module W) (r : Option Scanner_Token),
      Parser_invariant d log0 s →
      Parser__skipToNewline fileSystem fuel s = (s', r) →
      Parser_invariant d log0 s' := by
  intro fuel
  induction fuel with
  | zero =>
    intro s s' r hinv h
    simp only [Parser__skipToNewline, Prod.mk.injEq] at h
    rw [← h.1]
    exact hinv
  | succ fuel ih =>
    intro s s' r hinv h
    unfold Parser__skipToNewline at h
    cases hget : Scanner_getNextToken fileSystem fuel s with
    | mk s1 r1 =>
      have hspec := Scanner_getNextToken_spec fileSystem d log0 fuel s s1 r1 hinv hget
      cases r1 with
      | none =>
        simp only [hget, Prod.mk.injEq] at h
        rw [← h.1]
        exact hspec.1
      | some token =>
        simp only [hget] at h
        split at h
        · exact ih s1 s' r hspec.1 h
        · simp only [Prod.mk.injEq] at h
          rw [← h.1]
          exact hspec.1


/-! ### The parser -/

theorem Parser_invariant_of_keep {W : Type} (d : Parser_Options)
    (log0 : List Parser_TokenRecord) (s s' : Parser_Module W)
    (hinv : Parser_invariant d log0 s)
    (hfs : s'.Parser__fileSequence = s.Parser__fileSequence)
    (hpb : s'.Scanner__pushbackStack = s.Scanner__pushbackStack)
    (hdef : s'.Parser__defaultOptions = s.Parser__defaultOptions)
    (hlog : s'.tokenLog = s.tokenLog)
    (hopt : s'.Parser__options = s.Parser__options) :
    Parser_invariant d log0 s' := by
  refine ⟨?_, ?_, ?_, ?_, ?_⟩
  · rw [hdef]; exact hinv.hdef
  · rw [hlog]; exact hinv.hlog
  · rw [hfs]; exact hinv.hline
  · rw [hfs, hpb]; exact hinv.hpush
  · rw [hfs, hpb, hopt]; exact hinv.hopt

theorem Parser_invariant_of_newline {W : Type} (d : Parser_Options)
    (log0 : List Parser_TokenRecord) (s s' : Parser_Module W)
    (hinv : Parser_invariant d log0 s)
    (hfs : s'.Parser__fileSequence = s.Parser__fileSequence)
    (hpb : s'.Scanner__pushbackStack = s.Scanner__pushbackStack)
    (hdef : s'.Parser__defaultOptions = s.Parser__defaultOptions)
    (hlog : s'.tokenLog = s.tokenLog)
    (hempty : s.Scanner__pushbackStack = [])
    (hend : Parser_atLineEnd s.Parser__fileSequence) :
    Parser_invariant d log0 s' := by
  refine ⟨?_, ?_, ?_, ?_, ?_⟩
  · rw [hdef]; exact hinv.hdef
  · rw [hlog]; exact hinv.hlog
  · rw [hfs]; exact hinv.hline
  · rw [hfs, hpb]; exact hinv.hpush
  · refine Or.inr ⟨?_, ?_⟩
    · rw [hpb, hempty]
      intro p hp
      exact absurd hp (List.not_mem_nil p)
    · rw [hfs]
      exact Parser_atLineEnd_past _ hend

theorem Parser__worldProc_keepsReader {W : Type}
    (proc : Parser_Options → Parser__FileSequence → Bool → Scanner_Token → Nat →
      Set_Type → W → Option (Nat × Set_Type × W)) :
    Parser_procKeepsReader (Parser__worldProc proc) := by
  intro isFirstPass token state expected s
  unfold Parser__worldProc
  cases proc s.Parser__options s.Parser__fileSequence isFirstPass token state expected
    s.world with
  | none => exact ⟨rfl, rfl, rfl, rfl⟩
  | some p => exact ⟨rfl, rfl, rfl, rfl⟩

theorem Parser__worldProc_keepsOptions {W : Type}
    (proc : Parser_Options → Parser__FileSequence → Bool → Scanner_Token → Nat →
      Set_Type → W → Option (Nat × Set_Type × W)) :
    Parser_procKeepsOptions (Parser__worldProc proc) := by
  intro isFirstPass token state expected s
  unfold Parser__worldProc
  cases proc s.Parser__options s.Parser__fileSequence isFirstPass token state expected
    s.world with
  | none => rfl
  | some p => rfl

theorem Parser__doRadixStateTransition_keepsReader {W : Type} :
    Parser_procKeepsReader (Parser__doRadixStateTransition : Parser__StateTransitionProc W) := by
  intro isFirstPass token state expected s
  unfold Parser__doRadixStateTransition
  dsimp only
  split
  · exact ⟨rfl, rfl, rfl, rfl⟩
  · split
    · exact ⟨rfl, rfl, rfl, rfl⟩
    · exact ⟨rfl, rfl, rfl, rfl⟩

theorem Parser__doRadixStateTransition_isRadixLike {W : Type} :
    Parser_procIsRadixLike (Parser__doRadixStateTransition : Parser__StateTransitionProc W) := by
  constructor
  · intro isFirstPass token state expected s
    unfold Parser__doRadixStateTransition
    dsimp only
    split
    · exact Or.inl rfl
    · split
      · rename_i h
        exact Or.inr h
      · exact Or.inl rfl
  · intro isFirstPass token state expected s state' expected' h hs
    unfold Parser__doRadixStateTransition at h
    dsimp only at h
    split at h
    · have h' := Prod.mk.inj (Option.some.inj h)
      exact h'.2.symm
    · split at h
      · have h' := Prod.mk.inj (Option.some.inj h)
        rw [← h'.1] at hs
        exact absurd hs (by decide)
      · rename_i h1 h2
        have h' := Prod.mk.inj (Option.some.inj h)
        rw [← h'.1] at hs
        exact absurd hs h2

theorem Parser__ensureKind_newline (token : Scanner_Token)
    (h : Parser__ensureKind token Parser__TokenKindSet_newline = true) :
    token.kind = Scanner_TokenKind_newline := by
  unfold Parser__ensureKind Parser__TokenKindSet_newline at h
  rw [Set_isElement_eq_testBit, Set_make, Nat.one_shiftLeft, Nat.testBit_two_pow] at h
  exact (of_decide_eq_true h).symm


/-- A call of a state transition procedure keeps the invariant: either it
leaves the options as they are, or it is called in the state
`Parser__State_atNewline` where a newline token was expected and has been
read, so that the pushback stack is empty and the reader is at the end of a
line. -/
theorem Parser_transition_spec {W : Type} (d : Parser_Options)
    (log0 : List Parser_TokenRecord) (proc : Parser__StateTransitionProc W)
    (hkeep : Parser_procKeepsReader proc)
    (hsafe : Parser_procKeepsOptions proc ∨ Parser_procIsRadixLike proc)
    (isFirstPass : Bool) (token : Scanner_Token) (state : Nat) (expected : Set_Type)
    (s : Parser_Module W) (hinv : Parser_invariant d log0 s)
    (hnewline : state = Parser__State_atNewline →
      Parser_procKeepsOptions proc ∨
        (s.Scanner__pushbackStack = [] ∧ Parser_atLineEnd s.Parser__fileSequence)) :
    Parser_invariant d log0 (proc isFirstPass token state expected s).1 := by
  obtain ⟨hfs, hpb, hdef, hlog⟩ := hkeep isFirstPass token state expected s
  rcases hsafe with hsame | hradix
  · exact Parser_invariant_of_keep d log0 s _ hinv hfs hpb hdef hlog
      (hsame isFirstPass token state expected s)
  · rcases hradix.1 isFirstPass token state expected s with hsame | hstate
    · exact Parser_invariant_of_keep d log0 s _ hinv hfs hpb hdef hlog hsame
    · rcases hnewline hstate with hsame | ⟨hempty, hend⟩
      · exact Parser_invariant_of_keep d log0 s _ hinv hfs hpb hdef hlog
          (hsame isFirstPass token state expected s)
      · exact Parser_invariant_of_newline d log0 s _ hinv hfs hpb hdef hlog hempty hend

theorem Parser__executeFiniteStateAutomaton_loop_spec {W : Type}
    (fileSystem : String_Type → Option (List Char)) (d : Parser_Options)
    (log0 : List Parser_TokenRecord) (isFirstPass : Bool)
    (proc : Parser__StateTransitionProc W) (hkeep : Parser_procKeepsReader proc)
    (hsafe : Parser_procKeepsOptions proc ∨ Parser_procIsRadixLike proc) :
    ∀ (fuel : Nat) (s s' : Parser_Module W) (token : Scanner_Token) (state : Nat)
      (expected : Set_Type) (r : Option Scanner_Token),
      Parser_invariant d log0 s →
      (Parser_procKeepsOptions proc ∨
        (state = Parser__State_atNewline → expected = Parser__TokenKindSet_newline)) →
      Parser__executeFiniteStateAutomaton_loop fileSystem isFirstPass proc fuel s token state
        expected = (s', r) →
      Parser_invariant d log0 s' := by
  intro fuel
  induction fuel with
  | zero =>
    intro s s' token state expected r hinv hexp h
    simp only [Parser__executeFiniteStateAutomaton_loop, Prod.mk.injEq] at h
    rw [← h.1]
    exact hinv
  | succ fuel ih =>
    intro s s' token state expected r hinv hexp h
    unfold Parser__executeFiniteStateAutomaton_loop at h
    by_cases hdone : state ≠ Parser__State_done
    · rw [if_pos hdone] at h
      cases hget : Scanner_getNextToken fileSystem fuel s with
      | mk s1 r1 =>
        have hspec := Scanner_getNextToken_spec fileSystem d log0 fuel s s1 r1 hinv hget
        cases r1 with
        | none =>
          simp only [hget, Prod.mk.injEq] at h
          rw [← h.1]
          exact hspec.1
        | some token1 =>
          simp only [hget] at h
          generalize hst : (if state ≠ Parser__State_inError then
              if (!Parser__ensureKind token1 expected) = true
              then Parser__State_inError else state
            else state) = state1 at h
          by_cases herr : state1 = Parser__State_inError
          · -- the error state: the rest of the line is skipped
            rw [if_pos herr] at h
            cases hskip : Parser__skipToNewline fileSystem fuel s1 with
            | mk s2 r2 =>
              have hinv2 := Parser__skipToNewline_spec fileSystem d log0 fuel s1 s2 r2 hspec.1
                hskip
              cases r2 with
              | none =>
                simp only [hskip, Prod.mk.injEq] at h
                rw [← h.1]
                exact hinv2
              | some token2 =>
                simp only [hskip] at h
                refine ih s2 s' token2 Parser__State_done expected r hinv2 (Or.inr ?_) h
                intro hs
                exact absurd hs (by decide)
          · -- the state is not the error state, so the token is of an expected kind
            rw [if_neg herr] at h
            have hstate : state1 = state ∧ Parser__ensureKind token1 expected = true := by
              by_cases he : state ≠ Parser__State_inError
              · rw [if_pos he] at hst
                by_cases hk : (!Parser__ensureKind token1 expected) = true
                · rw [if_pos hk] at hst
                  exact absurd hst.symm herr
                · rw [if_neg hk] at hst
                  refine ⟨hst.symm, ?_⟩
                  cases hb : Parser__ensureKind token1 expected
                  · rw [hb] at hk
                    exact absurd rfl hk
                  · rfl
              · rw [if_neg he] at hst
                exact absurd (hst.symm.trans (not_not.mp he)) herr
            rw [hstate.1] at h
            have hinv2 := Parser_transition_spec d log0 proc hkeep hsafe isFirstPass token1 state
              expected s1 hspec.1 (by
                intro hs
                rcases hexp with hsame | hexp
                · exact Or.inl hsame
                · refine Or.inr (hspec.2 token1 rfl ?_)
                  have hkind := hstate.2
                  rw [hexp hs] at hkind
                  exact Parser__ensureKind_newline token1 hkind)
            cases hcall : proc isFirstPass token1 state expected s1 with
            | mk s2 r2 =>
              rw [hcall] at hinv2
              cases r2 with
              | none =>
                simp only [hcall, Prod.mk.injEq] at h
                rw [← h.1]
                exact hinv2
              | some p =>
                obtain ⟨state2, expected2⟩ := p
                simp only [hcall] at h
                refine ih s2 s' token1 state2 expected2 r hinv2 ?_ h
                rcases hsafe with hsame | hradix
                · exact Or.inl hsame
                · refine Or.inr ?_
                  intro hs
                  exact hradix.2 isFirstPass token1 state expected s1 state2 expected2
                    (by rw [hcall]) hs
    · rw [if_neg hdone] at h
      simp only [Prod.mk.injEq] at h
      rw [← h.1]
      exact hinv

theorem Parser__executeFiniteStateAutomaton_spec {W : Type}
    (fileSystem : String_Type → Option (List Char)) (d : Parser_Options)
    (log0 : List Parser_TokenRecord) (fuel : Nat) (isFirstPass : Bool)
    (token : Scanner_Token) (proc : Parser__StateTransitionProc W)
    (hkeep : Parser_procKeepsReader proc)
    (hsafe : Parser_procKeepsOptions proc ∨ Parser_procIsRadixLike proc)
    (s s' : Parser_Module W) (r : Option Scanner_Token)
    (hinv : Parser_invariant d log0 s)
    (h : Parser__executeFiniteStateAutomaton fileSystem fuel isFirstPass token proc s
      = (s', r)) :
    Parser_invariant d log0 s' := by
  unfold Parser__executeFiniteStateAutomaton at h
  have hinv1 := Parser_transition_spec d log0 proc hkeep hsafe isFirstPass token
    Parser__State_firstState 0 s hinv (fun hs => absurd hs (by decide))
  cases hcall : proc isFirstPass token Parser__State_firstState 0 s with
  | mk s1 r1 =>
    rw [hcall] at hinv1
    cases r1 with
    | none =>
      simp only [hcall, Prod.mk.injEq] at h
      rw [← h.1]
      exact hinv1
    | some p =>
      obtain ⟨state1, expected1⟩ := p
      simp only [hcall] at h
      refine Parser__executeFiniteStateAutomaton_loop_spec fileSystem d log0 isFirstPass proc
        hkeep hsafe fuel s1 s' token state1 expected1 r hinv1 ?_ h
      rcases hsafe with hsame | hradix
      · exact Or.inl hsame
      · refine Or.inr ?_
        intro hs
        exact hradix.2 isFirstPass token Parser__State_firstState 0 s state1 expected1
          (by rw [hcall]) hs

theorem Parser__selectProc_spec {W : Type} (procs : Parser_TransitionProcs W)
    (commandCharacter : Char) (proc : Parser__StateTransitionProc W)
    (h : Parser__selectProc procs commandCharacter = some proc) :
    Parser_procKeepsReader proc ∧
      (Parser_procKeepsOptions proc ∨ Parser_procIsRadixLike proc) := by
  unfold Parser__selectProc at h
  repeat' split at h
  all_goals first
    | exact Option.noConfusion h
    | (rw [← Option.some.inj h]
       exact ⟨Parser__doRadixStateTransition_keepsReader,
         Or.inr Parser__doRadixStateTransition_isRadixLike⟩)
    | (rw [← Option.some.inj h]
       exact ⟨Parser__worldProc_keepsReader _, Or.inl (Parser__worldProc_keepsOptions _)⟩)

theorem Parser_invariant_world {W : Type} (d : Parser_Options)
    (log0 : List Parser_TokenRecord) (s : Parser_Module W) (w : W)
    (hinv : Parser_invariant d log0 s) :
    Parser_invariant d log0 { s with world := w } :=
  Parser_invariant_of_keep d log0 s _ hinv rfl rfl rfl rfl rfl

theorem Parser_parseObjectFiles_loop_spec {W : Type} (procs : Parser_TransitionProcs W)
    (fileSystem : String_Type → Option (List Char)) (d : Parser_Options)
    (log0 : List Parser_TokenRecord) (isFirstPass : Bool) :
    ∀ (fuel : Nat) (s s' : Parser_Module W) (r : Option Unit),
      Parser_invariant d log0 s →
      Parser_parseObjectFiles_loop procs fileSystem isFirstPass fuel s = (s', r) →
      Parser_invariant d log0 s' := by
  intro fuel
  induction fuel with
  | zero =>
    intro s s' r hinv h
    simp only [Parser_parseObjectFiles_loop, Prod.mk.injEq] at h
    rw [← h.1]
    exact hinv
  | succ fuel ih =>
    intro s s' r hinv h
    unfold Parser_parseObjectFiles_loop at h
    cases hget : Scanner_getNextToken fileSystem fuel s with
    | mk s1 r1 =>
      have hspec := Scanner_getNextToken_spec fileSystem d log0 fuel s s1 r1 hinv hget
      cases r1 with
      | none =>
        simp only [hget, Prod.mk.injEq] at h
        rw [← h.1]
        exact hspec.1
      | some token =>
        simp only [hget] at h
        have hskip : ∀ (s2 : Parser_Module W), Parser_invariant d log0 s2 →
            (match Parser__skipToNewline fileSystem fuel s2 with
              | (s, none) => (s, none)
              | (s, some _) => Parser_parseObjectFiles_loop procs fileSystem isFirstPass fuel s)
              = (s', r) →
            Parser_invariant d log0 s' := by
          intro s2 hinv2 hres
          cases hsk : Parser__skipToNewline fileSystem fuel s2 with
          | mk s3 r3 =>
            have hinv3 := Parser__skipToNewline_spec fileSystem d log0 fuel s2 s3 r3 hinv2 hsk
            cases r3 with
            | none =>
              simp only [hsk, Prod.mk.injEq] at hres
              rw [← hres.1]
              exact hinv3
            | some t3 =>
              simp only [hsk] at hres
              exact ih s3 s' r hinv3 hres
        split at h
        · simp only [Prod.mk.injEq] at h
          rw [← h.1]
          exact hspec.1
        · split at h
          · refine hskip _ ?_ h
            split
            · exact Parser_invariant_world d log0 s1 _ hspec.1
            · exact hspec.1
          · split at h
            · exact hskip s1 hspec.1 h
            · split at h
              · cases hsel : Parser__selectProc procs
                    (String_getCharacter token.representation 1) with
                | none =>
                  simp only [hsel] at h
                  exact hskip s1 hspec.1 h
                | some proc =>
                  simp only [hsel] at h
                  obtain ⟨hkeep, hsafe⟩ := Parser__selectProc_spec procs _ proc hsel
                  cases hauto : Parser__executeFiniteStateAutomaton fileSystem fuel isFirstPass
                      token proc s1 with
                  | mk s2 r2 =>
                    have hinv2 := Parser__executeFiniteStateAutomaton_spec fileSystem d log0 fuel
                      isFirstPass token proc hkeep hsafe s1 s2 r2 hspec.1 hauto
                    cases r2 with
                    | none =>
                      simp only [hauto, Prod.mk.injEq] at h
                      rw [← h.1]
                      exact hinv2
                    | some t2 =>
                      simp only [hauto] at h
                      exact ih s2 s' r hinv2 h
              · exact ih s1 s' r hspec.1 h

/-- C23: for every list of object files, every content of the files, every
state of the parser at the call and every number of steps of
`Parser_parseObjectFiles`, every token that the scanner returns during the
call and whose first character is in the first line of a file is returned
while `Parser__options`, the default radix and the endianness override, equal
the default options of the parser, whatever radix lines were read before.  The
state transition procedures get the token under these options, because the
options change only in `Parser__doRadixStateTransition`, which is called
after the token was returned. -/
theorem C23_first_line_options {W : Type} (procs : Parser_TransitionProcs W)
    (fileSystem : String_Type → Option (List Char)) (fuel : Nat) (isFirstPass : Bool)
    (fileNameList : List String_Type) (s : Parser_Module W) :
    ∃ new : List Parser_TokenRecord,
      (Parser_parseObjectFiles procs fileSystem fuel isFirstPass fileNameList s).1.tokenLog
        = s.tokenLog ++ new ∧
      (Parser_parseObjectFiles procs fileSystem fuel isFirstPass fileNameList s).1.Parser__defaultOptions
        = s.Parser__defaultOptions ∧
      ∀ e ∈ new, ∀ fileIndex : Nat, e.place = some (fileIndex, 1) →
        e.options = s.Parser__defaultOptions := by
  have hstart : Parser_invariant s.Parser__defaultOptions s.tokenLog
      ({ Scanner_redirectInput s with
          Parser__fileSequence :=
            { (Scanner_redirectInput s).Parser__fileSequence with
                nameList := fileNameList, index := 0, count := fileNameList.length } }) := by
    refine ⟨rfl, ⟨[], (List.append_nil _).symm, fun e he => absurd he (List.not_mem_nil e)⟩,
      Or.inl rfl, Or.inl rfl, Or.inr ⟨?_, Or.inl rfl⟩⟩
    intro p hp
    exact absurd hp (List.not_mem_nil p)
  have hinv := Parser_parseObjectFiles_loop_spec procs fileSystem s.Parser__defaultOptions
    s.tokenLog isFirstPass fuel _
    (Parser_parseObjectFiles procs fileSystem fuel isFirstPass fileNameList s).1
    (Parser_parseObjectFiles procs fileSystem fuel isFirstPass fileNameList s).2 hstart rfl
  obtain ⟨new, hnew, hall⟩ := hinv.hlog
  exact ⟨new, hnew, hinv.hdef, fun e he fileIndex hplace => hall e he ⟨fileIndex, hplace⟩⟩

/-- The run of `Parser_parseObjectFiles` on the files "a.o" and "b.o" of
`parserExampleFiles` ends at the end of the stream.  The tokens of the first
line of "a.o" and the newline token of the first line of "b.o" are returned
under the default options; the token "Q" of the second line of "b.o" is
returned under the options of the radix line "XH" that ends "a.o". -/
theorem parserExample_tokenLog :
    (Parser_parseObjectFiles parserExampleProcs parserExampleFiles 50 true ["a.o", "b.o"]
        parserExampleStart).2 = some () ∧
    (Parser_parseObjectFiles parserExampleProcs parserExampleFiles 50 true ["a.o", "b.o"]
        parserExampleStart).1.tokenLog.map
        (fun e => (e.place, String.mk e.token.representation, e.options.defaultBase,
          e.options.endianness))
      = [(some (1, 1), "XL", 10, .unknown), (some (1, 1), "\n", 10, .unknown),
         (some (1, 2), ";", 16, .littleEndian), (some (1, 2), "text", 16, .littleEndian),
         (some (1, 2), "\n", 16, .littleEndian), (some (1, 3), "XH", 10, .unknown),
         (some (2, 1), "\n", 10, .unknown), (some (2, 2), "Q", 16, .bigEndian),
         (some (2, 2), "\n", 16, .bigEndian), (none, "\xff", 8, .bigEndian)] := by
  constructor <;> decide!

/-- The banked code area name of a bank that is a small natural number does
not depend on the width of `long`. -/
theorem Gameboy__makeBankedCodeAreaName_nat (L : Nat) (nonbanked : String_Type) (b : Nat)
    (hL : 2 * b < L) :
    Gameboy__makeBankedCodeAreaName L nonbanked (b : Int)
      = "_CODE_" ++ String.mk (String__unsignedIToA String__maxNumberOfIToADigits b 16) := by
  have hb : b < L := by omega
  have hne : ¬ ((b : Int) = Target_undefinedBank) := by
    unfold Target_undefinedBank; omega
  have h1 : ((b : Int) % (L : Int)).toNat = b := by
    rw [Int.emod_eq_of_lt (by omega) (by exact_mod_cast hb)]; simp
  have h2 : b % L = b := Nat.mod_eq_of_lt hb
  have h3 : ¬ ((b : Int) < 0 ∧ (16 : Nat) = 10) := by omega
  unfold Gameboy__makeBankedCodeAreaName String_appendInteger String_copyInteger
    String__itoa Int32_ofUnsigned
  rw [if_neg hne, h1, h2, if_pos hL, if_neg h3, h1]

/-- The bank analysis on the name built from the digits of a bank below 256. -/
theorem Gameboy__getBankFromSegmentName_digits :
    ∀ b : Fin 256, Gameboy__getBankFromSegmentName
        ("_CODE_" ++ String.mk (String__unsignedIToA String__maxNumberOfIToADigits b.val 16))
      = (Gameboy_analysedBank b.val : Int) := by
  decide!


theorem Gameboy_analysedBank_ne (b : Nat) (h10 : 10 ≤ b) : Gameboy_analysedBank b ≠ b := by
  unfold Gameboy_analysedBank
  split
  · omega
  · split
    · omega
    · split
      · omega
      · omega

/-- Claim C39 (code defect): the bank analysis reads one decimal digit after
the last underscore, while the banked code area name holds the bank in base 16
without leading zero.  For every bank `b` below 256 the analysis of the name
built for `b` gives `Gameboy_analysedBank b`: this is `b` for the banks 0 to 9
and a different bank for every bank from 10 on (0 for the banks 10 to 15, the
first hexadecimal digit or 0 for the banks from 16 on). -/
theorem C39_bank_analysis_reads_one_digit (L : Nat) (nonbanked : String_Type) (b : Nat)
    (hb : b < 256) (hL : 512 ≤ L) :
    Gameboy__getBankFromSegmentName (Gameboy__makeBankedCodeAreaName L nonbanked (b : Int))
        = (Gameboy_analysedBank b : Int) ∧
    (b < 10 →
      Gameboy__getBankFromSegmentName (Gameboy__makeBankedCodeAreaName L nonbanked (b : Int))
        = (b : Int)) ∧
    (10 ≤ b →
      Gameboy__getBankFromSegmentName (Gameboy__makeBankedCodeAreaName L nonbanked (b : Int))
        ≠ (b : Int)) := by
  have h : Gameboy__getBankFromSegmentName
      (Gameboy__makeBankedCodeAreaName L nonbanked (b : Int))
        = (Gameboy_analysedBank b : Int) := by
    rw [Gameboy__makeBankedCodeAreaName_nat L nonbanked b (by omega)]
    exact Gameboy__getBankFromSegmentName_digits ⟨b, hb⟩
  refine ⟨h, ?_, ?_⟩
  · intro h10
    rw [h]
    unfold Gameboy_analysedBank
    rw [if_pos h10]
  · intro h10
    rw [h]
    exact_mod_cast Gameboy_analysedBank_ne b h10

/-- Witness of `C39_bank_analysis_reads_one_digit`: with a `long` of 32 bits
the name built for bank 10 is analysed as bank 0, not as bank 10. -/
theorem C39_bank_analysis_reads_one_digit_witness :
    Gameboy__makeBankedCodeAreaName 4294967296 "_CODE" ((10 : Nat) : Int) = "_CODE_A" ∧
    Gameboy__getBankFromSegmentName
      (Gameboy__makeBankedCodeAreaName 4294967296 "_CODE" ((10 : Nat) : Int)) = 0 ∧
    Gameboy__getBankFromSegmentName
      (Gameboy__makeBankedCodeAreaName 4294967296 "_CODE" ((10 : Nat) : Int)) ≠ 10 :=
  ⟨by decide!,
    (C39_bank_analysis_reads_one_digit 4294967296 "_CODE" 10 (by decide) (by decide)).1.trans
      (by decide),
    (C39_bank_analysis_reads_one_digit 4294967296 "_CODE" 10 (by decide) (by decide)).2.2
      (by decide)⟩

/-! ### The checks of `Gameboy__processCodeSequence` -/

theorem Gameboy__getCartridgeByte_isSome (g : Gameboy_Module) (address : Nat)
    (h : Gameboy_bankIsAllocated g ((address / Gameboy__bankSize) % 256)) :
    ∃ v, Gameboy__getCartridgeByte g address = some v := by
  obtain ⟨data, hd, hlen⟩ := h
  unfold Gameboy__getCartridgeByte
  have hlt : address % Gameboy__bankSize < data.length := by
    rw [hlen]
    exact Nat.mod_lt _ (by decide)
  simp only [hd]
  exact ⟨data[address % Gameboy__bankSize], List.getElem?_eq_getElem hlt⟩

theorem Gameboy_address_split (a b : Nat) (ha : a < 256 * Gameboy__bankSize)
    (hb : b < 256 * Gameboy__bankSize)
    (h1 : (a / Gameboy__bankSize) % 256 = (b / Gameboy__bankSize) % 256)
    (h2 : a % Gameboy__bankSize = b % Gameboy__bankSize) : a = b := by
  have hpos : 0 < Gameboy__bankSize := by decide
  have ha2 : a / Gameboy__bankSize < 256 := by
    rw [Nat.div_lt_iff_lt_mul hpos]; exact ha
  have hb2 : b / Gameboy__bankSize < 256 := by
    rw [Nat.div_lt_iff_lt_mul hpos]; exact hb
  rw [Nat.mod_eq_of_lt ha2, Nat.mod_eq_of_lt hb2] at h1
  rw [← Nat.div_add_mod a Gameboy__bankSize, ← Nat.div_add_mod b Gameboy__bankSize, h1, h2]

theorem Gameboy__writeSequenceBytes_spec (M : Nat) (byteList : List Nat) :
    ∀ (count i : Nat) (r : Gameboy_Run) (address : Nat),
      (∀ b, b < r.g.Gameboy__romBankCount → Gameboy_bankIsAllocated r.g b) →
      r.g.Gameboy__romBankCount ≤ 256 →
      (0 < count → address + count ≤ Gameboy__cartridgeSize r.g) →
      (0 < count → address + count ≤ M) →
      ∃ r', Gameboy__writeSequenceBytes M byteList count i r address = some r' ∧
        r'.fatalError = r.fatalError ∧ Gameboy_isKept r.g r'.g ∧
        ∀ a, a < 256 * Gameboy__bankSize →
          Gameboy__getCartridgeByte r'.g a
            = if address ≤ a ∧ a < address + count
              then some (byteList.getD (i + (a - address)) 0 % 256)
              else Gameboy__getCartridgeByte r.g a := by
  intro count
  induction count with
  | zero =>
    intro i r address _ _ _ _
    refine ⟨r, rfl, rfl, Gameboy_isKept_refl _, ?_⟩
    intro a _
    rw [if_neg (by omega)]
  | succ c ih =>
    intro i r address halloc hcount hsize hM
    have hsize := hsize (Nat.succ_pos c)
    have hM := hM (Nat.succ_pos c)
    have hpos : 0 < Gameboy__bankSize := by decide
    have hlt : address < Gameboy__cartridgeSize r.g := by omega
    have hcs : Gameboy__cartridgeSize r.g ≤ 256 * Gameboy__bankSize := by
      unfold Gameboy__cartridgeSize
      exact Nat.mul_le_mul_right _ hcount
    have hbank : address / Gameboy__bankSize < r.g.Gameboy__romBankCount := by
      rw [Nat.div_lt_iff_lt_mul hpos]; exact hlt
    have hbank2 : (address / Gameboy__bankSize) % 256 = address / Gameboy__bankSize :=
      Nat.mod_eq_of_lt (by omega)
    have hal : Gameboy_bankIsAllocated r.g ((address / Gameboy__bankSize) % 256) := by
      rw [hbank2]; exact halloc _ hbank
    obtain ⟨old, hold⟩ := Gameboy__getCartridgeByte_isSome r.g address hal
    obtain ⟨g1, hg1, hkept1⟩ :=
      Gameboy__setCartridgeByte_isKept r.g address (byteList.getD i 0) hal
    have hcount1 : g1.Gameboy__romBankCount = r.g.Gameboy__romBankCount := hkept1.2.1
    have hcs1 : Gameboy__cartridgeSize g1 = Gameboy__cartridgeSize r.g := by
      unfold Gameboy__cartridgeSize; rw [hcount1]
    obtain ⟨r', hr', hfatal, hkept, hget⟩ := ih (i + 1)
      { r with
        g := g1,
        warnings :=
          if old ≠ Gameboy__defaultCartridgeValue then r.warnings ++ [address]
          else r.warnings }
      ((address + 1) % M)
      (fun b hb => hkept1.2.2.2.2.2 b (halloc b (by rw [← hcount1]; exact hb)))
      (by show g1.Gameboy__romBankCount ≤ 256; omega)
      (by
        intro hc
        show (address + 1) % M + c ≤ Gameboy__cartridgeSize g1
        rw [hcs1, Nat.mod_eq_of_lt (by omega)]
        omega)
      (by
        intro hc
        rw [Nat.mod_eq_of_lt (by omega)]
        omega)
    refine ⟨r', ?_, hfatal, Gameboy_isKept_trans _ _ _ hkept1 hkept, ?_⟩
    · unfold Gameboy__writeSequenceBytes
      rw [if_neg (by omega)]
      simp only [hold, hg1]
      exact hr'
    · intro a ha
      rw [hget a ha]
      have hset := Gameboy__getCartridgeByte_set r.g g1 address (byteList.getD i 0) hg1 a
      by_cases hc : c = 0
      · subst hc
        rw [if_neg (by omega)]
        show Gameboy__getCartridgeByte g1 a = _
        rw [hset]
        by_cases haa : a = address
        · subst haa
          rw [if_pos ⟨rfl, rfl⟩, if_pos (by omega)]
          simp
        · have hsplit : ¬ ((a / Gameboy__bankSize) % 256 = (address / Gameboy__bankSize) % 256 ∧
              a % Gameboy__bankSize = address % Gameboy__bankSize) := fun ⟨h1, h2⟩ =>
            haa (Gameboy_address_split a address ha (by omega) h1 h2)
          have hrange : ¬ (address ≤ a ∧ a < address + (0 + 1)) := by omega
          rw [if_neg hsplit, if_neg hrange]
      · have hmod : (address + 1) % M = address + 1 := Nat.mod_eq_of_lt (by omega)
        rw [hmod]
        by_cases hin : address + 1 ≤ a ∧ a < address + 1 + c
        · rw [if_pos hin, if_pos (by omega)]
          have : i + 1 + (a - (address + 1)) = i + (a - address) := by omega
          rw [this]
        · rw [if_neg hin]
          show Gameboy__getCartridgeByte g1 a = _
          rw [hset]
          by_cases haa : a = address
          · subst haa
            rw [if_pos ⟨rfl, rfl⟩, if_pos (by omega)]
            simp
          · have hsplit : ¬ ((a / Gameboy__bankSize) % 256
                  = (address / Gameboy__bankSize) % 256 ∧
                a % Gameboy__bankSize = address % Gameboy__bankSize) := fun ⟨h1, h2⟩ =>
              haa (Gameboy_address_split a address ha (by omega) h1 h2)
            have hrange : ¬ (address ≤ a ∧ a < address + (c + 1)) := by omega
            rw [if_neg hsplit, if_neg hrange]



theorem fourBankExample_isAllocated (b : Nat) (hb : b < 4) :
    Gameboy_bankIsAllocated fourBankExample b := by
  refine ⟨List.replicate Gameboy__bankSize 0xFF, ?_, List.length_replicate _ _⟩
  show (if b < 4 then some (List.replicate Gameboy__bankSize 0xFF) else none) = _
  rw [if_pos hb]

/-- Claim C32 (code defect): the address test of the raw-image encoder looks
at the start address of the sequence only.  A non-empty sequence whose start
address is above 0x7FFF or whose bank is not below the ROM bank count ends the
program with a fatal error before any byte is written.  A sequence that
passes the four tests on the start address and the bank, and whose bytes fit
into the cartridge size, is written without a fatal error, wherever its last
byte lies: all its bytes are in the image afterwards, at consecutive positions
from the image position of its start address. -/
theorem C32_overflow_test_on_start_address (M : Nat) (g : Gameboy_Module)
    (sequence : CodeSequence_Type) (hlen : 0 < sequence.length) :
    ((Gameboy__maxRomAddress < sequence.offsetAddress % M ∨
        (g.Gameboy__romBankCount : Int) ≤ sequence.romBank) →
      ∃ e, Gameboy__processCodeSequence M g sequence
        = some { g := g, warnings := [], fatalError := some e }) ∧
    ((∀ b, b < g.Gameboy__romBankCount → Gameboy_bankIsAllocated g b) →
      g.Gameboy__romBankCount ≤ 256 →
      sequence.offsetAddress % M ≤ Gameboy__maxRomAddress →
      sequence.romBank < (g.Gameboy__romBankCount : Int) →
      ¬ (0 < sequence.romBank ∧ sequence.offsetAddress % M < Gameboy__bankStartAddress) →
      ¬ (g.Gameboy__romBankCount = 2 ∧ 0 < sequence.romBank) →
      Gameboy_imageAddress sequence.romBank (sequence.offsetAddress % M) + sequence.length
        ≤ Gameboy__cartridgeSize g →
      Gameboy_imageAddress sequence.romBank (sequence.offsetAddress % M) + sequence.length
        ≤ M →
      ∃ r, Gameboy__processCodeSequence M g sequence = some r ∧ r.fatalError = none ∧
        ∀ i, i < sequence.length →
          Gameboy__getCartridgeByte r.g
              (Gameboy_imageAddress sequence.romBank (sequence.offsetAddress % M) + i)
            = some (sequence.byteList.getD i 0 % 256)) := by
  constructor
  · intro h
    unfold Gameboy__processCodeSequence
    dsimp only
    rw [if_pos hlen]
    by_cases h1 : Gameboy__maxRomAddress < sequence.offsetAddress % M
    · rw [if_pos h1]
      exact ⟨_, rfl⟩
    · rw [if_neg h1]
      have h2 : (g.Gameboy__romBankCount : Int) ≤ sequence.romBank := by
        cases h with
        | inl h => exact absurd h h1
        | inr h => exact h
      rw [if_pos h2]
      exact ⟨_, rfl⟩
  · intro halloc hcount h1 h2 h3 h4 hsize hM
    have haddr : (if 1 < sequence.romBank
          then (sequence.offsetAddress % M
            + (sequence.romBank - 1).toNat * Gameboy__bankSize) % M
          else sequence.offsetAddress % M)
        = Gameboy_imageAddress sequence.romBank (sequence.offsetAddress % M) := by
      unfold Gameboy_imageAddress at hM ⊢
      by_cases hb : 1 < sequence.romBank
      · rw [if_pos hb] at hM
        rw [if_pos hb, if_pos hb]
        exact Nat.mod_eq_of_lt (by omega)
      · rw [if_neg hb, if_neg hb]
    obtain ⟨r, hr, hfatal, _, hget⟩ := Gameboy__writeSequenceBytes_spec M sequence.byteList
      sequence.length 0 { g := g, warnings := [], fatalError := none }
      (Gameboy_imageAddress sequence.romBank (sequence.offsetAddress % M))
      halloc hcount (fun _ => hsize) (fun _ => hM)
    refine ⟨r, ?_, hfatal, ?_⟩
    · unfold Gameboy__processCodeSequence
      dsimp only
      rw [if_pos hlen, if_neg (by omega), if_neg (by omega), if_neg h3, if_neg h4, haddr]
      exact hr
    · intro i hi
      have hcs : Gameboy__cartridgeSize g ≤ 256 * Gameboy__bankSize := by
        unfold Gameboy__cartridgeSize
        exact Nat.mul_le_mul_right _ hcount
      rw [hget _ (by omega), if_pos (by omega)]
      have : 0 + (Gameboy_imageAddress sequence.romBank (sequence.offsetAddress % M) + i
          - Gameboy_imageAddress sequence.romBank (sequence.offsetAddress % M)) = i := by
        omega
      rw [this]

/-- Witness of `C32_overflow_test_on_start_address`: with four ROM banks the
sequence of four bytes at 0x7FFE of bank 1, whose last byte has the address
0x8001, raises no fatal error, and its last two bytes are written to the
positions 0x8000 and 0x8001 of the image, which are the first bytes of
bank 2. -/
theorem C32_overflow_test_on_start_address_witness :
    Gameboy__maxRomAddress
      < crossingSequence.offsetAddress + crossingSequence.length - 1 ∧
    ∃ r, Gameboy__processCodeSequence 65536 fourBankExample crossingSequence = some r ∧
      r.fatalError = none ∧
      Gameboy__getCartridgeByte r.g 0x8000 = some 3 ∧
      Gameboy__getCartridgeByte r.g 0x8001 = some 4 :=
  ⟨by decide,
    let ⟨r, hr, hfatal, hget⟩ :=
      (C32_overflow_test_on_start_address 65536 fourBankExample crossingSequence
        (by decide)).2 (fun b hb => fourBankExample_isAllocated b hb) (by decide) (by decide)
        (by decide) (by decide) (by decide) (by decide) (by decide)
    ⟨r, hr, hfatal, hget 2 (by decide), hget 3 (by decide)⟩⟩

theorem StdLib_strtolDigits_all (base : Nat) :
    ∀ (st : List Char) (acc count : Nat),
      (∀ ch ∈ st, StdLib_digitValue ch < base) →
      StdLib_strtolDigits base st acc count
        = ((st.map StdLib_digitValue).foldl (fun acc d => acc * base + d) acc,
            count + st.length) := by
  intro st
  induction st with
  | nil => intro acc count _; rfl
  | cons ch rest ih =>
    intro acc count h
    unfold StdLib_strtolDigits
    rw [if_pos (h ch (List.mem_cons_self _ _)),
      ih _ _ (fun c hc => h c (List.mem_cons_of_mem _ hc))]
    simp only [List.map_cons, List.foldl_cons, List.length_cons]
    congr 1
    omega

/-- The selectors of the table of `String_convertToLong`. -/
theorem String_convertToLong_selected (L : Nat) (selector : Char) (digits : List Char)
    (defaultBase : Nat) (k : Nat) (base : Nat)
    (hk : STRING_strchr "@oOqQxXhH".data selector = some k)
    (h0 : selector ≠ '\x00')
    (hbase : (if "88888GGGG".data.getD k '\x00' = '2' then 2
        else if "88888GGGG".data.getD k '\x00' = '8' then 8
        else if "88888GGGG".data.getD k '\x00' = 'A' then 10 else 16) = base) :
    String_convertToLong L (String.mk ('0' :: selector :: digits)) defaultBase
      = StdLib_strtol L digits base := by
  unfold String_convertToLong
  simp only [List.head?_cons, List.getD_cons_succ, List.getD_cons_zero, if_true, ne_eq, h0,
    not_false_eq_true, hk, hbase, List.drop_succ_cons, List.drop_zero]

theorem String_convertToLong_unselected (L : Nat) (selector : Char) (digits : List Char)
    (defaultBase : Nat)
    (hk : STRING_strchr "@oOqQxXhH".data selector = none) :
    String_convertToLong L (String.mk ('0' :: selector :: digits)) defaultBase
      = StdLib_strtol L ('0' :: selector :: digits) (defaultBase % 256) := by
  unfold String_convertToLong
  simp only [List.head?_cons, List.getD_cons_succ, List.getD_cons_zero, if_true, hk,
    ite_self]


/-- Counterexample to claim C34: in the default base 16 the text "0B101" has
the value 0xB101, not the binary value 5, and "0D12" has the value 0xD12, not
the decimal value 12.  The letters `B` and `D` are hexadecimal digits: the
bytes "0B" and "0D" of a `T` or `R` line have the values 11 and 13. -/
theorem C34_counterexample :
    Parser__evaluateNumber 4294967296 16 "0B101" = some (45313, false) ∧
    Parser__evaluateNumber 4294967296 16 "0B101" ≠ some (5, false) ∧
    Parser__evaluateNumber 4294967296 16 "0D12" = some (3346, false) ∧
    Parser__evaluateNumber 4294967296 16 "0D12" ≠ some (12, false) ∧
    Parser__evaluateNumber 4294967296 16 "0B" = some (11, false) ∧
    Parser__evaluateNumber 4294967296 16 "0D" = some (13, false) := by
  refine ⟨?_, ?_, ?_, ?_, ?_, ?_⟩ <;> decide!

/-- Claim C34 (amended): the table of `String_convertToLong` holds the
selectors `@ o O q Q` (base 8) and `x X h H` (base 16) only.  For these the
digits after the selector are converted in the base of the selector, whatever
the default base is.  The letters `b B d D` after a leading `0` are no
selectors of the evaluation, since they are hexadecimal digits: the whole
text, that letter included, is converted in the default base.  A text that
does not start with `0` is converted in the default base. -/
theorem C34_selectors_of_number_evaluation (L : Nat) (selector : Char) (digits : List Char)
    (defaultBase : Nat) (st : String_Type) :
    (selector ∈ "@oOqQ".data →
      Parser__evaluateNumber L defaultBase (String.mk ('0' :: selector :: digits))
        = (StdLib_strtol L digits 8).map (fun r => (r.1, !r.2))) ∧
    (selector ∈ "xXhH".data →
      Parser__evaluateNumber L defaultBase (String.mk ('0' :: selector :: digits))
        = (StdLib_strtol L digits 16).map (fun r => (r.1, !r.2))) ∧
    (selector ∈ "bBdD".data →
      Parser__evaluateNumber L defaultBase (String.mk ('0' :: selector :: digits))
        = (StdLib_strtol L ('0' :: selector :: digits) (defaultBase % 256)).map
            (fun r => (r.1, !r.2))) ∧
    (st.data.head? ≠ some '0' →
      Parser__evaluateNumber L defaultBase st
        = (StdLib_strtol L st.data (defaultBase % 256)).map (fun r => (r.1, !r.2))) := by
  have hmap : ∀ o : Option (Int × Bool),
      (match o with
        | none => none
        | some (result, isOkay) => some (result, !isOkay))
      = o.map (fun r => (r.1, !r.2)) := by
    intro o
    cases o with
    | none => rfl
    | some r => rfl
  refine ⟨?_, ?_, ?_, ?_⟩
  · intro h
    unfold Parser__evaluateNumber
    rw [hmap]
    refine congrArg _ ?_
    simp only [String.data, List.mem_cons, List.mem_singleton, List.not_mem_nil,
      or_false] at h
    rcases h with h | h | h | h | h <;> subst h
    · exact String_convertToLong_selected L _ digits defaultBase 0 8 (by decide) (by decide)
        (by decide)
    · exact String_convertToLong_selected L _ digits defaultBase 1 8 (by decide) (by decide)
        (by decide)
    · exact String_convertToLong_selected L _ digits defaultBase 2 8 (by decide) (by decide)
        (by decide)
    · exact String_convertToLong_selected L _ digits defaultBase 3 8 (by decide) (by decide)
        (by decide)
    · exact String_convertToLong_selected L _ digits defaultBase 4 8 (by decide) (by decide)
        (by decide)
  · intro h
    unfold Parser__evaluateNumber
    rw [hmap]
    refine congrArg _ ?_
    simp only [String.data, List.mem_cons, List.mem_singleton, List.not_mem_nil,
      or_false] at h
    rcases h with h | h | h | h <;> subst h
    · exact String_convertToLong_selected L _ digits defaultBase 5 16 (by decide) (by decide)
        (by decide)
    · exact String_convertToLong_selected L _ digits defaultBase 6 16 (by decide) (by decide)
        (by decide)
    · exact String_convertToLong_selected L _ digits defaultBase 7 16 (by decide) (by decide)
        (by decide)
    · exact String_convertToLong_selected L _ digits defaultBase 8 16 (by decide) (by decide)
        (by decide)
  · intro h
    unfold Parser__evaluateNumber
    rw [hmap]
    refine congrArg _ ?_
    simp only [String.data, List.mem_cons, List.mem_singleton, List.not_mem_nil,
      or_false] at h
    rcases h with h | h | h | h <;> subst h <;>
      exact String_convertToLong_unselected L _ digits defaultBase (by decide)
  · intro h
    unfold Parser__evaluateNumber
    rw [hmap]
    refine congrArg _ ?_
    unfold String_convertToLong
    simp only [h, if_false]

/-- Witness of `C34_selectors_of_number_evaluation`: with a `long` of 32 bits
the text "0B101" has the value 0 in the default base 10 and 0xB101 in the
default base 16, and "0D12" has the value 0xD12 in the default base 16; "0Q17"
is 15 and "0H1F" is 31 in the default base 10, and "17" is 17, 15 or 23 in the
default bases 10, 8 and 16. -/
theorem C34_selectors_of_number_evaluation_witness :
    Parser__evaluateNumber 4294967296 10 "0B101" = some (0, false) ∧
    Parser__evaluateNumber 4294967296 16 "0B101" = some (45313, false) ∧
    Parser__evaluateNumber 4294967296 16 "0D12" = some (3346, false) ∧
    Parser__evaluateNumber 4294967296 10 "0Q17" = some (15, false) ∧
    Parser__evaluateNumber 4294967296 10 "0H1F" = some (31, false) ∧
    Parser__evaluateNumber 4294967296 10 "17" = some (17, false) ∧
    Parser__evaluateNumber 4294967296 8 "17" = some (15, false) ∧
    Parser__evaluateNumber 4294967296 16 "17" = some (23, false) :=
  ⟨((C34_selectors_of_number_evaluation 4294967296 'B' "101".data 10 "").2.2.1
      (by decide)).trans (by decide!),
    ((C34_selectors_of_number_evaluation 4294967296 'B' "101".data 16 "").2.2.1
      (by decide)).trans (by decide!),
    ((C34_selectors_of_number_evaluation 4294967296 'D' "12".data 16 "").2.2.1
      (by decide)).trans (by decide!),
    ((C34_selectors_of_number_evaluation 4294967296 'Q' "17".data 10 "").1
      (by decide)).trans (by decide!),
    ((C34_selectors_of_number_evaluation 4294967296 'H' "1F".data 10 "").2.1
      (by decide)).trans (by decide!),
    ((C34_selectors_of_number_evaluation 4294967296 'x' [] 10 "17").2.2.2
      (by decide)).trans (by decide!),
    ((C34_selectors_of_number_evaluation 4294967296 'x' [] 8 "17").2.2.2
      (by decide)).trans (by decide!),
    ((C34_selectors_of_number_evaluation 4294967296 'x' [] 16 "17").2.2.2
      (by decide)).trans (by decide!)⟩

theorem CodeOutput_create_full (m : CodeOutput_Module) (fileName : String_Type)
    (outputProc : CodeOutput_Proc) (fileIsOpened : Bool) (junk : CodeSequence_Type)
    (hfull : ∀ i, i < CodeOutput__maxStreamCount →
      (m.CodeOutput__streamList i).isInUse = true) :
    CodeOutput_create m fileName outputProc fileIsOpened junk = (m, false) := by
  unfold CodeOutput_create
  have hfind : (List.range CodeOutput__maxStreamCount).find?
      (fun i => !(m.CodeOutput__streamList i).isInUse) = none := by
    rw [List.find?_eq_none]
    intro i hi
    rw [hfull i (List.mem_range.mp hi)]
    decide
  rw [hfind]

theorem fullStreamTableExample_isFull :
    ∀ i, i < CodeOutput__maxStreamCount →
      (fullStreamTableExample.CodeOutput__streamList i).isInUse = true := by
  decide

theorem fullMapFileTableExample_count :
    fullMapFileTableExample.MapFile__count = 10 := by
  decide

/-- Counterexample to claim C33: after ten successful calls of
`CodeOutput_create` every entry of the table is in use, and a further call
whose file could be opened returns `false` to its caller; the table and the
record of the encoder calls are as before. -/
theorem C33_counterexample :
    (∀ i, i < CodeOutput__maxStreamCount →
      (fullStreamTableExample.CodeOutput__streamList i).isInUse = true) ∧
    (CodeOutput_create fullStreamTableExample "k" CodeOutput_writeIHXLine true
      helloSequence).2 = false ∧
    (CodeOutput_create fullStreamTableExample "k" CodeOutput_writeIHXLine true
      helloSequence).1.calls.length = 10 := by
  refine ⟨fullStreamTableExample_isFull, ?_, ?_⟩
  · rw [CodeOutput_create_full _ _ _ _ _ fullStreamTableExample_isFull]
  · rw [CodeOutput_create_full _ _ _ _ _ fullStreamTableExample_isFull]
    decide

/-- Claim C33 (amended): when all 10 entries of the code-output table are in
use, a further `CodeOutput_create` returns `false` and leaves the table and the
encoder calls as they are; the fatal error for a full table is the one of
`MapFile_registerForOutput`, raised when 10 map files are registered. -/
theorem C33_full_table_returns_false (m : CodeOutput_Module) (fileName : String_Type)
    (outputProc : CodeOutput_Proc) (fileIsOpened : Bool) (junk : CodeSequence_Type)
    (mapFiles : MapFile_Module) (fileNameSuffix : String_Type) (routines : Nat)
    (hfull : ∀ i, i < CodeOutput__maxStreamCount →
      (m.CodeOutput__streamList i).isInUse = true)
    (hcount : MapFile__maxCount ≤ mapFiles.MapFile__count) :
    CodeOutput_create m fileName outputProc fileIsOpened junk = (m, false) ∧
    MapFile_registerForOutput mapFiles fileNameSuffix routines = none := by
  refine ⟨CodeOutput_create_full m fileName outputProc fileIsOpened junk hfull, ?_⟩
  unfold MapFile_registerForOutput
  rw [if_pos hcount]

/-- Witness of `C33_full_table_returns_false`: the two tables after ten
successful calls each. -/
theorem C33_full_table_returns_false_witness :
    CodeOutput_create fullStreamTableExample "k" CodeOutput_writeIHXLine true helloSequence
      = (fullStreamTableExample, false) ∧
    MapFile_registerForOutput fullMapFileTableExample "k" 10 = none :=
  C33_full_table_returns_false fullStreamTableExample "k" CodeOutput_writeIHXLine true
    helloSequence fullMapFileTableExample "k" 10 fullStreamTableExample_isFull
    (by decide)

theorem List_lookupIndex_sound {α : Type} (hasKey : α → Bool) :
    ∀ (l : List α) (i : Nat) (x : α), List_lookupIndex hasKey l = some (i, x) →
      l[i]? = some x ∧ hasKey x = true := by
  intro l
  induction l with
  | nil => intro i x h; simp [List_lookupIndex] at h
  | cons a rest ih =>
    intro i x h
    unfold List_lookupIndex at h
    by_cases ha : hasKey a = true
    · rw [if_pos ha] at h
      simp only [Option.some.injEq, Prod.mk.injEq] at h
      obtain ⟨h1, h2⟩ := h
      subst h1; subst h2
      exact ⟨by simp, ha⟩
    · rw [if_neg ha] at h
      cases hr : List_lookupIndex hasKey rest with
      | none => rw [hr] at h; cases h
      | some p =>
        obtain ⟨j, y⟩ := p
        rw [hr] at h
        simp only [Option.some.injEq, Prod.mk.injEq] at h
        obtain ⟨h1, h2⟩ := h
        subst h1; subst h2
        obtain ⟨h3, h4⟩ := ih j y hr
        exact ⟨by simpa using h3, h4⟩

theorem Area_make_named (st : Linker) (n : String_Type) (A : Set_Type) :
    ∃ ar, (Area_make st n A).1.Area__list[(Area_make st n A).2]? = some ar ∧ ar.name = n := by
  unfold Area_make
  cases hl : List_lookupIndex (fun a => a.name == n) st.Area__list with
  | none =>
    simp only [Area__init, Linker.setAreaList_Area__list]
    exact ⟨{ name := n, attributes := A, startAddress := 0, totalSize := 0,
             segmentList := [] }, by simp, rfl⟩
  | some p =>
    obtain ⟨area, x⟩ := p
    obtain ⟨h1, h2⟩ := List_lookupIndex_sound _ _ _ _ hl
    have hname : x.name = n := by simpa using h2
    simp only
    split_ifs
    · exact ⟨x, by simpa using h1, hname⟩
    · exact ⟨x, h1, hname⟩

theorem Linker_keepsSegments_refl (st : Linker) : Linker_keepsSegments st st :=
  ⟨fun _ seg h => ⟨seg, h, rfl, rfl, rfl⟩, fun _ ar h => ⟨ar, h, rfl⟩⟩

theorem Linker_keepsSegments_of_eq (st st' : Linker) (h1 : st'.segmentHeap = st.segmentHeap)
    (h2 : st'.Area__list = st.Area__list) : Linker_keepsSegments st st' :=
  ⟨fun _ seg h => ⟨seg, by rw [h1]; exact h, rfl, rfl, rfl⟩,
    fun _ ar h => ⟨ar, by rw [h2]; exact h, rfl⟩⟩

theorem Area_segmentIsOf_keep (st st' : Linker) (hk : Linker_keepsSegments st st')
    (s m : Nat) (n : String_Type) (size : Nat) (h : Area_segmentIsOf st s m n size) :
    Area_segmentIsOf st' s m n size := by
  obtain ⟨seg, a, ar, h1, h2, h3, h4, h5, h6⟩ := h
  obtain ⟨seg', g1, g2, g3, g4⟩ := hk.1 s seg h1
  obtain ⟨ar', g5, g6⟩ := hk.2 a ar h5
  exact ⟨seg', a, ar', g1, g3.trans h2, g4.trans h3, g2.trans h4, g5, g6.trans h6⟩

/-- The effect of `Area_makeSegment` on the segment list of the current
module. -/
theorem Area_makeSegment_spec (st st' : Linker) (n : String_Type) (size : Nat) (A : Set_Type)
    (h : Area_makeSegment st n size A = some st') :
    Linker_keepsSegments st st' ∧
    st'.Module__currentModule = st.Module__currentModule ∧
    ∃ m r, st.Module__currentModule = some m ∧ st.Module__list[m]? = some r ∧
      ∃ r' s, st'.Module__list[m]? = some r' ∧ r'.segmentList = r.segmentList ++ [s] ∧
        Area_segmentIsOf st' s m n size := by
  unfold Area_makeSegment at h
  obtain ⟨hfh, hfc, hfm, hfa⟩ := Area_make_frame st n A
  obtain ⟨ar, har, harn⟩ := Area_make_named st n A
  rcases hm : Area_make st n A with ⟨stA, area⟩
  rw [hm] at h hfh hfc hfm hfa har
  simp only at h hfh hfc hfm hfa har
  simp only [Area__makeSegment] at h
  cases hmod : stA.Module__currentModule with
  | none => simp only [hmod] at h; cases h
  | some m =>
    simp only [hmod, Module_addSegment, Linker.updateSegment_Module__currentModule,
      Linker.updateArea_Module__currentModule, Linker.setSegmentHeap_Module__currentModule,
      Linker.updateSegment_Module__list, Linker.updateArea_Module__list,
      Linker.setSegmentHeap_Module__list] at h
    cases hmr : stA.Module__list[m]? with
    | none => simp only [hmr] at h; cases h
    | some r =>
      simp only [hmr, Option.some.injEq] at h
      subst h
      have hlen : stA.segmentHeap.length = st.segmentHeap.length := by rw [hfh]
      refine ⟨⟨?_, ?_⟩, ?_, m, r, ?_, ?_, ?_⟩
      · intro s seg hs
        have hlt : s < st.segmentHeap.length := (List.getElem?_eq_some.mp hs).1
        refine ⟨seg, ?_, rfl, rfl, rfl⟩
        simp only [Linker.setCurrentSegment_segmentHeap, Linker.updateModule_segmentHeap,
          Linker.updateSegment_segmentHeap, Linker.updateArea_segmentHeap,
          Linker.setSegmentHeap_segmentHeap]
        rw [getElem?_heapUpdate_ne _ _ _ _ (by omega), hfh,
          List.getElem?_append_left hlt]
        exact hs
      · intro a x ha
        have hx := hfa a x ha
        simp only [Linker.setCurrentSegment_Area__list, Linker.updateModule_Area__list,
          Linker.updateSegment_Area__list, Linker.updateArea_Area__list,
          Linker.setSegmentHeap_Area__list]
        rw [getElem?_heapUpdate]
        by_cases hax : area = a
        · rw [if_pos hax, hx]
          exact ⟨_, rfl, rfl⟩
        · rw [if_neg hax]
          exact ⟨x, hx, rfl⟩
      · simp only [Linker.setCurrentSegment_Module__currentModule,
          Linker.updateModule_Module__currentModule,
          Linker.updateSegment_Module__currentModule,
          Linker.updateArea_Module__currentModule,
          Linker.setSegmentHeap_Module__currentModule]
        rw [hmod, ← hfc, hmod]
      · rw [← hfc]; exact hmod
      · rw [← hfm]; exact hmr
      · refine ⟨{ r with segmentList := r.segmentList ++ [stA.segmentHeap.length] },
          stA.segmentHeap.length, ?_, rfl, ?_⟩
        · simp only [Linker.setCurrentSegment_Module__list, Linker.updateModule_Module__list,
            Linker.updateSegment_Module__list, Linker.updateArea_Module__list,
            Linker.setSegmentHeap_Module__list]
          rw [getElem?_heapUpdate_self _ _ _ r hmr]
        · refine ⟨{ parentArea := some area, parentModule := some m, startAddress := 0,
                    totalSize := size, symbolList := [] }, area,
            { ar with segmentList := ar.segmentList ++ [stA.segmentHeap.length] },
            ?_, rfl, rfl, rfl, ?_, harn⟩
          · simp only [Linker.setCurrentSegment_segmentHeap, Linker.updateModule_segmentHeap,
              Linker.updateSegment_segmentHeap, Linker.updateArea_segmentHeap,
              Linker.setSegmentHeap_segmentHeap]
            rw [getElem?_heapUpdate_self _ _ _
              { parentArea := none, parentModule := some m, startAddress := 0,
                totalSize := 0, symbolList := [] } (by simp)]
          · simp only [Linker.setCurrentSegment_Area__list, Linker.updateModule_Area__list,
              Linker.updateSegment_Area__list, Linker.updateArea_Area__list,
              Linker.setSegmentHeap_Area__list]
            rw [getElem?_heapUpdate_self _ _ _ ar har]


theorem Linker_keepsSegments_trans (st1 st2 st3 : Linker) (h12 : Linker_keepsSegments st1 st2)
    (h23 : Linker_keepsSegments st2 st3) : Linker_keepsSegments st1 st3 := by
  constructor
  · intro s seg h
    obtain ⟨seg2, g1, g2, g3, g4⟩ := h12.1 s seg h
    obtain ⟨seg3, k1, k2, k3, k4⟩ := h23.1 s seg2 g1
    exact ⟨seg3, k1, k2.trans g2, k3.trans g3, k4.trans g4⟩
  · intro a ar h
    obtain ⟨ar2, g1, g2⟩ := h12.2 a ar h
    obtain ⟨ar3, k1, k2⟩ := h23.2 a ar2 g1
    exact ⟨ar3, k1, k2.trans g2⟩

theorem Linker_keepsGraph_of_eq (st st' : Linker) (h1 : st'.segmentHeap = st.segmentHeap)
    (h2 : st'.Area__list = st.Area__list) (h3 : st'.Module__list = st.Module__list)
    (h4 : st'.Module__currentModule = st.Module__currentModule) : Linker_keepsGraph st st' :=
  ⟨Linker_keepsSegments_of_eq st st' h1 h2, h4, fun _ r h => ⟨r, by rw [h3]; exact h, rfl⟩⟩

theorem Linker_keepsGraph_refl (st : Linker) : Linker_keepsGraph st st :=
  Linker_keepsGraph_of_eq st st rfl rfl rfl rfl

theorem Linker_keepsGraph_trans (st1 st2 st3 : Linker) (h12 : Linker_keepsGraph st1 st2)
    (h23 : Linker_keepsGraph st2 st3) : Linker_keepsGraph st1 st3 := by
  refine ⟨Linker_keepsSegments_trans _ _ _ h12.1 h23.1, h23.2.1.trans h12.2.1, ?_⟩
  intro i r h
  obtain ⟨r2, g1, g2⟩ := h12.2.2 i r h
  obtain ⟨r3, k1, k2⟩ := h23.2.2 i r2 g1
  exact ⟨r3, k1, k2.trans g2⟩

theorem Linker_keepsGraph_ite_warning (c : Prop) [Decidable c] (st : Linker) (w : Warning) :
    Linker_keepsGraph st (if c then Error_raiseWarning st w else st) := by
  split_ifs
  · exact Linker_keepsGraph_of_eq _ _ rfl rfl rfl rfl
  · exact Linker_keepsGraph_refl st

theorem Linker_keepsGraph_updateSymbol (st : Linker) (s : Nat)
    (f : Symbol__Record → Symbol__Record) : Linker_keepsGraph st (st.updateSymbol s f) :=
  Linker_keepsGraph_of_eq _ _ (by simp) (by simp) (by simp) (by simp)

theorem Module_addSymbol_keepsGraph (st st' : Linker) (module : Option Nat) (symbol : Nat)
    (h : Module_addSymbol st module symbol = some st') : Linker_keepsGraph st st' := by
  unfold Module_addSymbol at h
  split at h
  · cases h
  · rename_i m
    split at h
    · cases h
    · simp only [Option.some.injEq] at h
      subst h
      refine ⟨Linker_keepsSegments_of_eq _ _ (by simp) (by simp), by simp, ?_⟩
      intro i r hr
      simp only [Linker.updateModule_Module__list]
      rw [getElem?_heapUpdate]
      by_cases hmi : m = i
      · rw [if_pos hmi, hr]
        exact ⟨_, rfl, rfl⟩
      · rw [if_neg hmi]
        exact ⟨r, hr, rfl⟩

theorem Area_addSymbolToSegment_keepsGraph (st st' : Linker) (segment : Option Nat)
    (symbol : Nat) (h : Area_addSymbolToSegment st segment symbol = some st') :
    Linker_keepsGraph st st' := by
  unfold Area_addSymbolToSegment at h
  split at h
  · cases h
  · rename_i s
    split at h
    · cases h
    · simp only [Option.some.injEq] at h
      subst h
      refine ⟨⟨?_, ?_⟩, by simp, ?_⟩
      · intro i seg hseg
        simp only [Linker.updateSegment_segmentHeap]
        rw [getElem?_heapUpdate]
        by_cases hsi : s = i
        · rw [if_pos hsi, hseg]
          exact ⟨_, rfl, rfl, rfl, rfl⟩
        · rw [if_neg hsi]
          exact ⟨seg, hseg, rfl, rfl, rfl⟩
      · intro a ar har
        exact ⟨ar, by simpa using har, rfl⟩
      · intro i r hr
        exact ⟨r, by simpa using hr, rfl⟩

theorem Symbol_make_keepsGraph (st st' : Linker) (name : String_Type) (isDefinition : Bool)
    (v s : Nat) (h : Symbol_make st name isDefinition v = some (st', s)) :
    Linker_keepsGraph st st' := by
  unfold Symbol_make at h
  obtain ⟨f1, f2, f3, f4, _, _⟩ := Symbol__lookup_frame st name true
  rcases hl : Symbol__lookup st name true with ⟨st1, nm, _ | s1⟩
  · rw [hl] at h
    cases h
  · rw [hl] at h f1 f2 f3 f4
    simp only at h f1 f2 f3 f4
    have hk1 : Linker_keepsGraph st st1 := Linker_keepsGraph_of_eq _ _ f2 f1 f3 f4
    split at h
    · cases h
    · rename_i stB hB
      split at h
      · cases h
      · rename_i stC hC
        simp only [Option.some.injEq, Prod.mk.injEq] at h
        obtain ⟨h1, _⟩ := h
        subst h1
        refine Linker_keepsGraph_trans _ _ _ hk1 ?_
        refine Linker_keepsGraph_trans _ _ _ ?_
          (Linker_keepsGraph_trans _ _ _ (Linker_keepsGraph_updateSymbol stB s1 _)
            (Module_addSymbol_keepsGraph _ _ _ _ hC))
        cases isDefinition with
        | false =>
          simp only [Bool.false_eq_true, if_false, Option.some.injEq] at hB
          subst hB
          exact Linker_keepsGraph_ite_warning _ _ _
        | true =>
          simp only [if_true] at hB
          split at hB
          · cases hB
          · rename_i isDefined hD
            refine Linker_keepsGraph_trans _ _ _ ?_
              (Area_addSymbolToSegment_keepsGraph _ _ _ _ hB)
            exact Linker_keepsGraph_trans _ _ _ (Linker_keepsGraph_ite_warning _ _ _)
              (Linker_keepsGraph_trans _ _ _ (Linker_keepsGraph_updateSymbol _ _ _)
                (Linker_keepsGraph_updateSymbol _ _ _))

theorem Module_setName_keepsGraph (st st' : Linker) (name : String_Type)
    (h : Module_setName st name = some st') : Linker_keepsGraph st st' := by
  unfold Module_setName at h
  split at h
  · cases h
  · rename_i m _
    simp only [Option.some.injEq] at h
    subst h
    refine ⟨Linker_keepsSegments_of_eq _ _ (by simp) (by simp), by simp, ?_⟩
    intro i r hr
    simp only [Linker.updateModule_Module__list]
    rw [getElem?_heapUpdate]
    by_cases hmi : m = i
    · rw [if_pos hmi, hr]
      exact ⟨_, rfl, rfl⟩
    · rw [if_neg hmi]
      exact ⟨r, hr, rfl⟩



theorem Parser_firstPassInvariant_keep (st st' : Linker) (m : Nat)
    (areas : List (String_Type × Nat)) (hk : Linker_keepsGraph st st')
    (h : Parser_firstPassInvariant st m areas) : Parser_firstPassInvariant st' m areas := by
  obtain ⟨hcur, r, s0, ss, hr, hsl, h0, hlen, hss⟩ := h
  obtain ⟨r', hr', hsl'⟩ := hk.2.2 m r hr
  refine ⟨hk.2.1.trans hcur, r', s0, ss, hr', hsl'.trans hsl,
    Area_segmentIsOf_keep _ _ hk.1 _ _ _ _ h0, hlen, ?_⟩
  intro k s hks
  obtain ⟨x, hx, hof⟩ := hss k s hks
  exact ⟨x, hx, Area_segmentIsOf_keep _ _ hk.1 _ _ _ _ hof⟩

theorem Parser_firstPassInvariant_area (st st' : Linker) (m : Nat)
    (areas : List (String_Type × Nat)) (n : String_Type) (size : Nat) (A : Set_Type)
    (hrun : Area_makeSegment st n size A = some st')
    (h : Parser_firstPassInvariant st m areas) :
    Parser_firstPassInvariant st' m (areas ++ [(n, size)]) := by
  obtain ⟨hcur, r, s0, ss, hr, hsl, h0, hlen, hss⟩ := h
  obtain ⟨hkeep, hcur', m2, r2, hm2, hr2, r', s, hr', hsl', hnew⟩ :=
    Area_makeSegment_spec st st' n size A hrun
  rw [hcur] at hm2
  simp only [Option.some.injEq] at hm2
  subst hm2
  rw [hr] at hr2
  simp only [Option.some.injEq] at hr2
  subst hr2
  refine ⟨hcur'.trans hcur, r', s0, ss ++ [s], hr', ?_,
    Area_segmentIsOf_keep _ _ hkeep _ _ _ _ h0, ?_, ?_⟩
  · rw [hsl', hsl]; rfl
  · simp [hlen]
  · intro k s1 hks
    by_cases hlt : k < ss.length
    · rw [List.getElem?_append_left hlt] at hks
      obtain ⟨x, hx, hof⟩ := hss k s1 hks
      refine ⟨x, ?_, Area_segmentIsOf_keep _ _ hkeep _ _ _ _ hof⟩
      rw [List.getElem?_append_left (by omega)]
      exact hx
    · have hk2 : k < (ss ++ [s]).length := (List.getElem?_eq_some.mp hks).1
      have hke : k = ss.length := by
        simp only [List.length_append, List.length_singleton] at hk2
        omega
      subst hke
      have hs1 : s1 = s := by
        simpa using hks.symm
      subst hs1
      refine ⟨(n, size), ?_, hnew⟩
      rw [hlen]
      simp

theorem Parser_firstPassLine_invariant (fileName : String_Type) (st st' : Linker) (m : Nat)
    (areas : List (String_Type × Nat)) (line : Parser_FirstPassLine)
    (hline : line.isHeader = false)
    (hrun : Parser_firstPassLine fileName st line = some st')
    (h : Parser_firstPassInvariant st m areas) :
    Parser_firstPassInvariant st' m (areas ++ (Parser_areaLines [line])) := by
  cases line with
  | header a b => cases hline
  | moduleName name =>
    have : Parser_areaLines [Parser_FirstPassLine.moduleName name] = [] := rfl
    rw [this, List.append_nil]
    exact Parser_firstPassInvariant_keep _ _ _ _ (Module_setName_keepsGraph _ _ _ hrun) h
  | area n size A =>
    have : Parser_areaLines [Parser_FirstPassLine.area n size A] = [(n, size)] := rfl
    rw [this]
    exact Parser_firstPassInvariant_area _ _ _ _ _ _ _ hrun h
  | symbol name isDefinition address =>
    have : Parser_areaLines [Parser_FirstPassLine.symbol name isDefinition address] = [] := rfl
    rw [this, List.append_nil]
    simp only [Parser_firstPassLine] at hrun
    cases hs : Symbol_make st name isDefinition address with
    | none => rw [hs] at hrun; cases hrun
    | some p =>
      obtain ⟨st2, s⟩ := p
      rw [hs] at hrun
      simp only [Option.some.injEq] at hrun
      subst hrun
      exact Parser_firstPassInvariant_keep _ _ _ _ (Symbol_make_keepsGraph _ _ _ _ _ _ hs) h
  | other =>
    have : Parser_areaLines [Parser_FirstPassLine.other] = [] := rfl
    rw [this, List.append_nil]
    simp only [Parser_firstPassLine, Option.some.injEq] at hrun
    subst hrun
    exact h

theorem Parser_firstPass_invariant (fileName : String_Type) :
    ∀ (lines : List Parser_FirstPassLine) (st st' : Linker) (m : Nat)
      (areas : List (String_Type × Nat)),
      (∀ l ∈ lines, l.isHeader = false) →
      Parser_firstPass fileName st lines = some st' →
      Parser_firstPassInvariant st m areas →
      Parser_firstPassInvariant st' m (areas ++ Parser_areaLines lines) := by
  intro lines
  induction lines with
  | nil =>
    intro st st' m areas _ hrun h
    simp only [Parser_firstPass, Option.some.injEq] at hrun
    subst hrun
    simpa [Parser_areaLines] using h
  | cons line rest ih =>
    intro st st' m areas hlines hrun h
    unfold Parser_firstPass at hrun
    cases h1 : Parser_firstPassLine fileName st line with
    | none => rw [h1] at hrun; cases hrun
    | some st1 =>
      rw [h1] at hrun
      have hinv1 := Parser_firstPassLine_invariant fileName st st1 m areas line
        (hlines line (List.mem_cons_self _ _)) h1 h
      have hinv2 := ih st1 st' m _ (fun l hl => hlines l (List.mem_cons_of_mem _ hl)) hrun hinv1
      have hsplit : Parser_areaLines (line :: rest)
          = Parser_areaLines [line] ++ Parser_areaLines rest := by
        unfold Parser_areaLines
        rw [← List.filterMap_append]
        rfl
      rw [hsplit, ← List.append_assoc]
      exact hinv2

theorem Parser_firstPass_header (fileName : String_Type) (st st' : Linker)
    (segmentCount symbolCount : Nat)
    (hrun : Parser_firstPassLine fileName st
      (Parser_FirstPassLine.header segmentCount symbolCount) = some st') :
    Parser_firstPassInvariant st' st.Module__list.length [] := by
  simp only [Parser_firstPassLine] at hrun
  unfold Area_makeAbsoluteSegment at hrun
  split at hrun
  · cases hrun
  · rename_i abs habs
    obtain ⟨_, hcur', m2, r2, hm2, hr2, r', s, hr', hsl', hnew⟩ :=
      Area_makeSegment_spec _ st' _ _ _ hrun
    have hmm : m2 = st.Module__list.length := by
      simp only [Module_make, Linker.setCurrentModule_Module__currentModule,
        Option.some.injEq] at hm2
      exact hm2.symm
    subst hmm
    have hrr : r2.segmentList = [] := by
      simp only [Module_make, Linker.setCurrentModule_Module__list,
        Linker.setModuleList_Module__list] at hr2
      rw [List.getElem?_append_right (Nat.le_refl _)] at hr2
      simp only [Nat.sub_self, List.getElem?_cons_zero, Option.some.injEq] at hr2
      rw [← hr2]
    refine ⟨hcur'.trans hm2, r', s, [], hr', ?_, hnew, rfl, ?_⟩
    · rw [hsl', hrr]; rfl
    · intro k s1 h
      simp at h

/-- Claim C31: the first pass over an object file whose first line is its
header line and which has no further header line makes a new module, which is
the current module afterwards.  The first entry of the segment list of that
module is a segment of the module with an area named ".ABS." as parent, and
for every `v` the segment at the 1-based index `v + 2` is the segment of the
`(v+1)`-th `A` line: a segment of the module whose parent area has the name
and which has the size given in that line.  An area reference with the value
`v` in a relocation record resolves to that segment. -/
theorem C31_segment_list_after_first_pass (M : Nat) (fileName : String_Type)
    (st st' : Linker) (segmentCount symbolCount : Nat) (lines : List Parser_FirstPassLine)
    (hlines : ∀ l ∈ lines, l.isHeader = false)
    (hrun : Parser_firstPass fileName st
      (Parser_FirstPassLine.header segmentCount symbolCount :: lines) = some st') :
    st'.Module__currentModule = some st.Module__list.length ∧
    (∃ s0, Module_getSegment st' (some st.Module__list.length) 1 = some (some s0) ∧
      Area_segmentIsOf st' s0 st.Module__list.length Area__absoluteAreaName 0) ∧
    ∀ (v : Nat) (x : String_Type × Nat), (Parser_areaLines lines)[v]? = some x →
      ∃ s, Module_getSegment st' (some st.Module__list.length) (v + 2) = some (some s) ∧
        Area_segmentIsOf st' s st.Module__list.length x.1 x.2 ∧
        ∀ (relocation : CodeSequence_Relocation),
          relocation.kind.isSymbol = false → relocation.value = v → v + 2 < M →
          ∃ address, CodeSequence__resolveTarget M st' relocation
            = some (some (address, none, some s)) := by
  unfold Parser_firstPass at hrun
  cases h1 : Parser_firstPassLine fileName st
      (Parser_FirstPassLine.header segmentCount symbolCount) with
  | none => rw [h1] at hrun; cases hrun
  | some st1 =>
    rw [h1] at hrun
    have hinv := Parser_firstPass_invariant fileName lines st1 st' st.Module__list.length []
      hlines hrun (Parser_firstPass_header fileName st st1 segmentCount symbolCount h1)
    rw [List.nil_append] at hinv
    obtain ⟨hcur, r, s0, ss, hr, hsl, h0, hlen, hss⟩ := hinv
    refine ⟨hcur, ⟨s0, ?_, h0⟩, ?_⟩
    · simp only [Module_getSegment, hr, List_getElement, hsl]
      rw [if_pos (by omega)]
      simp
    · intro v x hx
      have hv : v < ss.length := by
        rw [hlen]; exact (List.getElem?_eq_some.mp hx).1
      obtain ⟨x2, hx2, hof⟩ := hss v ss[v] (List.getElem?_eq_getElem hv)
      rw [hx] at hx2
      simp only [Option.some.injEq] at hx2
      subst hx2
      have hget : Module_getSegment st' (some st.Module__list.length) (v + 2)
          = some (some ss[v]) := by
        simp only [Module_getSegment, hr, List_getElement, hsl]
        rw [if_pos (by omega)]
        have hidx : v + 2 - 1 = v + 1 := by omega
        rw [hidx, List.getElem?_cons_succ, List.getElem?_eq_getElem hv]
      refine ⟨ss[v], hget, hof, ?_⟩
      intro relocation hkind hvalue hM
      obtain ⟨seg, a, ar, hseg, _⟩ := hof
      refine ⟨seg.startAddress, ?_⟩
      unfold CodeSequence__resolveTarget
      simp only [hkind, Bool.false_eq_true, if_false, hvalue, Nat.mod_eq_of_lt hM, hcur, hget,
        Area_getSegmentAddress, hseg]

theorem firstPassExample_isSome :
    (Parser_firstPass "m.o" (Linker_initialState true) firstPassExample).isSome = true := by
  decide!

/-- Witness of `C31_segment_list_after_first_pass`: the first pass over the
file `firstPassExample` from the initial state ends without a fatal error, and
the area reference 1 resolves to the segment of its second `A` line, a segment
of size 4 of the area "_DATA". -/
theorem C31_segment_list_after_first_pass_witness :
    ∃ st', Parser_firstPass "m.o" (Linker_initialState true) firstPassExample = some st' ∧
      ∃ s, Module_getSegment st' (some 0) 3 = some (some s) ∧
        Area_segmentIsOf st' s 0 "_DATA" 4 :=
  ⟨Option.get _ firstPassExample_isSome, (Option.some_get firstPassExample_isSome).symm,
    let ⟨s, h1, h2, _⟩ :=
      (C31_segment_list_after_first_pass 65536 "m.o" (Linker_initialState true)
        (Option.get _ firstPassExample_isSome) 2 3 firstPassExample.tail (by decide)
        (Option.some_get firstPassExample_isSome).symm).2.2 1 ("_DATA", 4) (by decide)
    ⟨s, h1, h2⟩⟩

theorem Banking__getBank_congr (M : Nat) (map : Map_Type Int) (st st' : Linker)
    (h : st'.Module__list = st.Module__list) (module : Option Nat) :
    Banking__getBank M map st' module = Banking__getBank M map st module := by
  unfold Banking__getBank Module_getName
  rw [h]

theorem Banking_keepsGraph_refl (st : Linker) : Banking_keepsGraph st st :=
  ⟨rfl, rfl, fun _ seg h => ⟨seg, h, rfl⟩, fun _ ar h => ⟨ar, h, rfl, fun _ hx => hx⟩⟩

theorem Banking_keepsGraph_trans (st1 st2 st3 : Linker) (h12 : Banking_keepsGraph st1 st2)
    (h23 : Banking_keepsGraph st2 st3) : Banking_keepsGraph st1 st3 := by
  refine ⟨h23.1.trans h12.1, h23.2.1.trans h12.2.1, ?_, ?_⟩
  · intro s seg h
    obtain ⟨seg2, g1, g2⟩ := h12.2.2.1 s seg h
    obtain ⟨seg3, k1, k2⟩ := h23.2.2.1 s seg2 g1
    exact ⟨seg3, k1, k2.trans g2⟩
  · intro a ar h
    obtain ⟨ar2, g1, g2, g3⟩ := h12.2.2.2 a ar h
    obtain ⟨ar3, k1, k2, k3⟩ := h23.2.2.2 a ar2 g1
    exact ⟨ar3, k1, k2.trans g2, fun x hx => k3 x (g3 x hx)⟩

/-- One iteration of the loop of `Banking__relocateBankedSegments`. -/
theorem Banking__relocateSegment_spec (M : Nat) (c : Banking_Configuration)
    (map : Map_Type Int) (A : Set_Type) (st st' : Linker) (s : Nat)
    (h : Banking__relocateSegment M c map A st s = some st') :
    Banking_keepsGraph st st' ∧ Banking_segmentIsMoved M c map st' s ∧
    ∀ s2, Banking_segmentIsMoved M c map st s2 → Banking_segmentIsMoved M c map st' s2 := by
  unfold Banking__relocateSegment at h
  cases hmod : Area_getSegmentModule st (some s) with
  | none => rw [hmod] at h; cases h
  | some module =>
    rw [hmod] at h
    simp only at h
    cases hbank : Banking__getBank M map st module with
    | none => rw [hbank] at h; cases h
    | some bank =>
      rw [hbank] at h
      simp only at h
      obtain ⟨hfh, _, hfm, hfa⟩ := Area_make_frame st (c.makeBankedCodeAreaName bank) A
      obtain ⟨ar, har, harn⟩ := Area_make_named st (c.makeBankedCodeAreaName bank) A
      rcases hm : Area_make st (c.makeBankedCodeAreaName bank) A with ⟨stA, area⟩
      rw [hm] at h hfh hfm hfa har
      simp only at h hfh hfm hfa har
      unfold Area_getSegmentModule at hmod
      simp only at hmod
      cases hseg : st.segmentHeap[s]? with
      | none => rw [hseg] at hmod; cases hmod
      | some seg =>
        rw [hseg] at hmod
        simp only [Option.some.injEq] at hmod
        unfold Area_setSegmentArea at h
        simp only [hfh, hseg, har, Option.some.injEq] at h
        subst h
        have hml : ((stA.updateArea area
            (fun r => { r with segmentList := r.segmentList ++ [s] })).updateSegment s
            (fun r => { r with parentArea := some area })).Module__list = st.Module__list := by
          simp only [Linker.updateSegment_Module__list, Linker.updateArea_Module__list]
          exact hfm
        have hnew : Banking_segmentIsMoved M c map
            ((stA.updateArea area
              (fun r => { r with segmentList := r.segmentList ++ [s] })).updateSegment s
              (fun r => { r with parentArea := some area })) s := by
          refine ⟨{ seg with parentArea := some area }, bank, area,
            { ar with segmentList := ar.segmentList ++ [s] }, ?_, ?_, rfl, ?_, harn, ?_⟩
          · simp only [Linker.updateSegment_segmentHeap, Linker.updateArea_segmentHeap]
            rw [hfh, getElem?_heapUpdate_self _ _ _ seg hseg]
          · rw [Banking__getBank_congr M map st _ hml]
            show Banking__getBank M map st seg.parentModule = some bank
            rw [hmod]
            exact hbank
          · simp only [Linker.updateSegment_Area__list, Linker.updateArea_Area__list]
            rw [getElem?_heapUpdate_self _ _ _ ar har]
          · simp
        refine ⟨⟨hml, ?_, ?_, ?_⟩, hnew, ?_⟩
        · simp only [Linker.updateSegment_segmentHeap, Linker.updateArea_segmentHeap]
          rw [heapUpdate_length, hfh]
        · intro i segi hi
          simp only [Linker.updateSegment_segmentHeap, Linker.updateArea_segmentHeap]
          rw [hfh, getElem?_heapUpdate]
          by_cases hsi : s = i
          · rw [if_pos hsi, hi]
            exact ⟨_, rfl, rfl⟩
          · rw [if_neg hsi]
            exact ⟨segi, hi, rfl⟩
        · intro a x ha
          have hx := hfa a x ha
          simp only [Linker.updateSegment_Area__list, Linker.updateArea_Area__list]
          rw [getElem?_heapUpdate]
          by_cases hax : area = a
          · rw [if_pos hax, hx]
            exact ⟨_, rfl, rfl, fun y hy => by simp [hy]⟩
          · rw [if_neg hax]
            exact ⟨x, hx, rfl, fun _ hy => hy⟩
        · intro s2 hmoved
          by_cases hs2 : s2 = s
          · subst hs2
            exact hnew
          · obtain ⟨seg2, bank2, a2, ar2, g1, g2, g3, g4, g5, g6⟩ := hmoved
            have hx := hfa a2 ar2 g4
            by_cases hax : area = a2
            · refine ⟨seg2, bank2, a2, { ar2 with segmentList := ar2.segmentList ++ [s] },
                ?_, ?_, g3, ?_, g5, ?_⟩
              · simp only [Linker.updateSegment_segmentHeap, Linker.updateArea_segmentHeap]
                rw [hfh, getElem?_heapUpdate_ne _ _ _ _ (fun e => hs2 e.symm)]
                exact g1
              · rw [Banking__getBank_congr M map st _ hml]
                exact g2
              · simp only [Linker.updateSegment_Area__list, Linker.updateArea_Area__list]
                rw [getElem?_heapUpdate, if_pos hax, hx]
                rfl
              · simp [g6]
            · refine ⟨seg2, bank2, a2, ar2, ?_, ?_, g3, ?_, g5, g6⟩
              · simp only [Linker.updateSegment_segmentHeap, Linker.updateArea_segmentHeap]
                rw [hfh, getElem?_heapUpdate_ne _ _ _ _ (fun e => hs2 e.symm)]
                exact g1
              · rw [Banking__getBank_congr M map st _ hml]
                exact g2
              · simp only [Linker.updateSegment_Area__list, Linker.updateArea_Area__list]
                rw [getElem?_heapUpdate, if_neg hax]
                exact hx

theorem Banking__relocateSegments_spec (M : Nat) (c : Banking_Configuration)
    (map : Map_Type Int) (A : Set_Type) :
    ∀ (l : List Nat) (st st' : Linker),
      Banking__relocateSegments M c map A st l = some st' →
      Banking_keepsGraph st st' ∧
      (∀ s ∈ l, Banking_segmentIsMoved M c map st' s) ∧
      ∀ s2, Banking_segmentIsMoved M c map st s2 → Banking_segmentIsMoved M c map st' s2 := by
  intro l
  induction l with
  | nil =>
    intro st st' h
    simp only [Banking__relocateSegments, Option.some.injEq] at h
    subst h
    exact ⟨Banking_keepsGraph_refl _, fun _ hs => absurd hs (List.not_mem_nil _),
      fun _ hm => hm⟩
  | cons s rest ih =>
    intro st st' h
    unfold Banking__relocateSegments at h
    cases h1 : Banking__relocateSegment M c map A st s with
    | none => rw [h1] at h; cases h
    | some st1 =>
      rw [h1] at h
      obtain ⟨k1, m1, p1⟩ := Banking__relocateSegment_spec M c map A st st1 s h1
      obtain ⟨k2, m2, p2⟩ := ih st1 st' h
      refine ⟨Banking_keepsGraph_trans _ _ _ k1 k2, ?_, fun s2 hm => p2 s2 (p1 s2 hm)⟩
      intro x hx
      rcases List.mem_cons.mp hx with hxs | hxr
      · subst hxs
        exact p2 _ m1
      · exact m2 x hxr


theorem Banking_bankedAreaNameOf_keep (M : Nat) (c : Banking_Configuration)
    (map : Map_Type Int) (st st' : Linker) (hk : Banking_keepsGraph st st') (s : Nat) :
    Banking_bankedAreaNameOf M c map st' s = Banking_bankedAreaNameOf M c map st s := by
  unfold Banking_bankedAreaNameOf
  cases hs : st.segmentHeap[s]? with
  | none =>
    have hlen : st.segmentHeap.length ≤ s := by
      by_contra hc
      rw [List.getElem?_eq_getElem (by omega)] at hs
      cases hs
    rw [List.getElem?_eq_none (by rw [hk.2.1]; exact hlen)]
  | some seg =>
    obtain ⟨seg', h1, h2⟩ := hk.2.2.1 s seg hs
    rw [h1]
    simp only
    rw [h2, Banking__getBank_congr M map st st' hk.1]

/-- Claim C35 (amended): when the generic banked code area exists and no
segment of it belongs to a module whose bank has the name of the generic area
itself as banked area name, the relocation raises no warning; afterwards the
generic area has an empty segment list, and every segment that was in it has
as parent an area that holds it in its segment list and that is named by the
banked area name for the bank `Banking__getBank` gives for the module of the
segment, which is the undefined bank for a module with the assigned bank 0. -/
theorem C35_relocated_segments (M : Nat) (c : Banking_Configuration) (map : Map_Type Int)
    (st st' : Linker) (warned : Bool) (g : Nat) (ga : Area__Record)
    (hg : Area_lookup st c.genericBankedCodeAreaName = some g)
    (hga : st.Area__list[g]? = some ga)
    (hnames : ∀ s ∈ ga.segmentList,
      Banking_bankedAreaNameOf M c map st s ≠ some c.genericBankedCodeAreaName)
    (hrun : Banking__relocateBankedSegments M c map st = some (st', warned)) :
    warned = false ∧
    (∃ ga' : Area__Record, st'.Area__list[g]? = some ga' ∧
      ga'.name = c.genericBankedCodeAreaName ∧ ga'.segmentList = []) ∧
    ∀ s ∈ ga.segmentList, Banking_segmentIsMoved M c map st' s ∧
      Banking_bankedAreaNameOf M c map st' s = Banking_bankedAreaNameOf M c map st s := by
  have hgname : ga.name = c.genericBankedCodeAreaName := by
    unfold Area_lookup at hg
    cases hl : List_lookupIndex (fun a => a.name == c.genericBankedCodeAreaName)
        st.Area__list with
    | none => rw [hl] at hg; cases hg
    | some p =>
      obtain ⟨i, x⟩ := p
      rw [hl] at hg
      simp only [Option.some.injEq] at hg
      subst hg
      obtain ⟨h1, h2⟩ := List_lookupIndex_sound _ _ _ _ hl
      rw [hga] at h1
      simp only [Option.some.injEq] at h1
      subst h1
      simpa using h2
  unfold Banking__relocateBankedSegments at hrun
  simp only [hg, Area_getAttributes, Area_getListOfSegments, hga] at hrun
  cases hloop : Banking__relocateSegments M c map ga.attributes st ga.segmentList with
  | none => rw [hloop] at hrun; cases hrun
  | some stL =>
    rw [hloop] at hrun
    obtain ⟨hkeep, hmoved, _⟩ :=
      Banking__relocateSegments_spec M c map ga.attributes ga.segmentList st stL hloop
    obtain ⟨ga2, hga2, hname2, _⟩ := hkeep.2.2.2 g ga hga
    simp only [Area_clearListOfSegments, hga2, Option.some.injEq, Prod.mk.injEq] at hrun
    obtain ⟨hst, hw⟩ := hrun
    subst hst
    have hname' : ∀ s, Banking_bankedAreaNameOf M c map
        (stL.updateArea g (fun r => { r with segmentList := [] })) s
        = Banking_bankedAreaNameOf M c map st s := by
      intro s
      rw [← Banking_bankedAreaNameOf_keep M c map st stL hkeep s]
      unfold Banking_bankedAreaNameOf
      simp only [Linker.updateArea_segmentHeap]
      cases stL.segmentHeap[s]? with
      | none => rfl
      | some seg =>
        simp only
        rw [Banking__getBank_congr M map stL _ (by simp)]
    refine ⟨hw.symm, ⟨{ ga2 with segmentList := [] }, ?_, hname2.trans hgname, rfl⟩, ?_⟩
    · simp only [Linker.updateArea_Area__list]
      rw [getElem?_heapUpdate_self _ _ _ ga2 hga2]
    · intro s hs
      refine ⟨?_, hname' s⟩
      obtain ⟨seg, bank, a, ar, g1, g2, g3, g4, g5, g6⟩ := hmoved s hs
      have hnameL : Banking_bankedAreaNameOf M c map stL s
          = some (c.makeBankedCodeAreaName bank) := by
        unfold Banking_bankedAreaNameOf
        rw [g1]
        simp only
        rw [g2]
      have hne : g ≠ a := by
        intro hax
        subst hax
        rw [hga2] at g4
        simp only [Option.some.injEq] at g4
        subst g4
        apply hnames s hs
        rw [← Banking_bankedAreaNameOf_keep M c map st stL hkeep s, hnameL, ← g5, hname2,
          hgname]
      refine ⟨seg, bank, a, ar, by simpa using g1, ?_, g3, ?_, g5, g6⟩
      · rw [Banking__getBank_congr M map stL _ (by simp)]
        exact g2
      · simp only [Linker.updateArea_Area__list]
        rw [getElem?_heapUpdate_ne _ _ _ _ hne]
        exact g4

theorem relocationExample_run_isSome :
    (Banking__relocateBankedSegments 65536 (Gameboy__bankingConfiguration 4294967296)
      relocationExampleMap relocationExample).isSome = true := by
  decide!

/-- Counterexample to claim C35: the module "M1" has the assigned bank 0 and a
segment in the generic area "_CODE_0".  The banked code area name of the
Gameboy target for bank 0 is "_CODE_0", but after the relocation the parent of
that segment is the area "_CODE".  The segment of "M2", which has the bank 2,
is in "_CODE_2". -/
theorem C35_counterexample :
    Map_lookup relocationExampleMap "M1" = some 0 ∧
    Gameboy__makeBankedCodeAreaName 4294967296 "_CODE" 0 = "_CODE_0" ∧
    (Banking__relocateBankedSegments 65536 (Gameboy__bankingConfiguration 4294967296)
      relocationExampleMap relocationExample).bind
        (fun r => Area_getSegmentName r.1 (some 1)) = some "_CODE" ∧
    (Banking__relocateBankedSegments 65536 (Gameboy__bankingConfiguration 4294967296)
      relocationExampleMap relocationExample).bind
        (fun r => Area_getSegmentName r.1 (some 3)) = some "_CODE_2" := by
  refine ⟨?_, ?_, ?_, ?_⟩ <;> decide!

/-- Witness of `C35_relocated_segments`: the relocation in the state
`relocationExample` with the Gameboy configuration. -/
theorem C35_relocated_segments_witness :
    ∃ st', Banking__relocateBankedSegments 65536 (Gameboy__bankingConfiguration 4294967296)
        relocationExampleMap relocationExample = some (st', false) ∧
      (∃ ga' : Area__Record, st'.Area__list[1]? = some ga' ∧ ga'.name = "_CODE_0" ∧
        ga'.segmentList = []) ∧
      Banking_segmentIsMoved 65536 (Gameboy__bankingConfiguration 4294967296)
        relocationExampleMap st' 1 ∧
      Banking_segmentIsMoved 65536 (Gameboy__bankingConfiguration 4294967296)
        relocationExampleMap st' 3 :=
  have h := C35_relocated_segments 65536 (Gameboy__bankingConfiguration 4294967296)
    relocationExampleMap relocationExample
    (Option.get _ relocationExample_run_isSome).1
    (Option.get _ relocationExample_run_isSome).2 1
    { name := "_CODE_0", attributes := 0, startAddress := 0, totalSize := 0,
      segmentList := [1, 3] }
    (by decide!) rfl (by decide!) (Option.some_get relocationExample_run_isSome).symm
  ⟨(Option.get _ relocationExample_run_isSome).1,
    (Option.some_get relocationExample_run_isSome).symm.trans
      (congrArg (fun w => some ((Option.get _ relocationExample_run_isSome).1, w)) h.1),
    h.2.1, (h.2.2 1 (by decide)).1, (h.2.2 3 (by decide)).1⟩

theorem CodeSequence__condense_allSignificant (flags : List Bool)
    (hflags : ∀ k, flags.getD k true = true) :
    ∀ (count i n : Nat) (bytes : List Nat),
      CodeSequence__condense flags count i i n bytes = (bytes, n) := by
  intro count
  induction count with
  | zero => intro i n bytes; rfl
  | succ c ih =>
    intro i n bytes
    unfold CodeSequence__condense
    simp only [hflags i, Bool.not_true, Bool.false_eq_true, if_false, bne_self_eq_false]
    exact ih (i + 1) n bytes

theorem CodeSequence__reportRelocationError_none (st : Linker)
    (errorRecord : CodeSequence__ErrorRecord) :
    CodeSequence__reportRelocationError st CodeSequence__RelocError_none errorRecord
      = some st := by
  unfold CodeSequence__reportRelocationError
  simp

/-- A record of the kind 0x02 (symbol, word elements) on a little-endian
target adds the address of the symbol to the word in the slot. -/
theorem CodeSequence__processOneRelocation_symbolWord (target : Target_Type) (M : Nat)
    (st : Linker) (base : Nat) (kind0 : CodeSequence_RelocationKind)
    (indexByte value : Nat) (work : CodeSequence__Work) (A : Nat)
    (symbol segment : Option Nat)
    (hlittle : target.isBigEndian = false)
    (hres : CodeSequence__resolveTarget M st (Parser__makeRelocation kind0 0x02 indexByte value)
      = some (some (A, symbol, segment))) :
    CodeSequence__processOneRelocation target M st base
        (Parser__makeRelocation kind0 0x02 indexByte value) work
      = some (st,
          { byteList :=
              (work.byteList.set ((indexByte + 254) % 256)
                (CodeSequence__leastSignificantByte
                  ((A + (work.byteList.getD ((indexByte + 254) % 256 + 1) 0 * 256
                    + work.byteList.getD ((indexByte + 254) % 256) 0) % M) % M))).set
                ((indexByte + 254) % 256 + 1)
                (CodeSequence__mostSignificantByte
                  ((A + (work.byteList.getD ((indexByte + 254) % 256 + 1) 0 * 256
                    + work.byteList.getD ((indexByte + 254) % 256) 0) % M) % M)),
            isSignificantList := work.isSignificantList,
            offsetByRelaxation := work.offsetByRelaxation,
            errorKind := CodeSequence__RelocError_none,
            errorRecord := work.errorRecord }) := by
  have hk : (Parser__makeRelocation kind0 0x02 indexByte value).kind
      = CodeSequence_makeKindFromInteger kind0 0x02 := rfl
  have h1 : (CodeSequence_makeKindFromInteger kind0 0x02).elementsAreBytes = false := rfl
  have h2 : (CodeSequence_makeKindFromInteger kind0 0x02).isRelocatedPCRelative = false := rfl
  have h3 : (CodeSequence_makeKindFromInteger kind0 0x02).pageIsReferenced = false := rfl
  have h4 : (CodeSequence_makeKindFromInteger kind0 0x02).zeroPageIsReferenced = false := rfl
  have h5 : (CodeSequence_makeKindFromInteger kind0 0x02).slotWidthIsTwo = false := rfl
  have h6 : (CodeSequence_makeKindFromInteger kind0 0x02).dataIsSigned = false := rfl
  have hcheck : ∀ v, CodeSequence__checkRelocation M
      (CodeSequence_makeKindFromInteger kind0 0x02) v = CodeSequence__RelocError_none := by
    intro v
    unfold CodeSequence__checkRelocation
    simp [h1, h2, h3, h4, h6]
  unfold CodeSequence__processOneRelocation
  simp only [hres, hk, h1, h2, h3, h4, h5, hcheck, Bool.or_self, Bool.false_eq_true, if_false,
    Bool.false_and, CodeSequence__addWordToWord, CodeSequence__makeWord, hlittle,
    bne_self_eq_false]
  rfl


/-- Claim C36: on the little-endian Gameboy target the relocation of a code
sequence of length 6 with the bytes 01 00 00 C3 00 00, with the two records an
`R` line with the entries "02 03 t" and "02 06 j" gives (kind 0x02, byte
indices 1 and 4), returns without a warning when the symbols `t + 1` and
`j + 1` of the current module exist with the absolute addresses `T` and `J`:
the bytes are then 01, low(T), high(T), C3, low(J), high(J), and the length is
6, the trampoline size of the banking configuration of the target. -/
theorem C36_trampoline_relocation (M L : Nat) (getBank : String_Type → Int) (st : Linker)
    (errorKind0 : Nat) (errorRecord0 : CodeSequence__ErrorRecord)
    (sequence : CodeSequence_Type) (rest : List Nat) (s : Nat)
    (kind1 kind2 : CodeSequence_RelocationKind) (t j symT symJ T J : Nat)
    (hM : 65536 ∣ M)
    (hlen : sequence.length = 6)
    (hbytes : sequence.byteList = 0x01 :: 0 :: 0 :: 0xC3 :: 0 :: 0 :: rest)
    (hseg : (Area_getSegmentName st (some s)).isSome = true)
    (hsymT : Module_getSymbol st st.Module__currentModule ((t + 1) % M) = some (some symT))
    (hT : Symbol_absoluteAddress M st (some symT) = some T)
    (hsymJ : Module_getSymbol st st.Module__currentModule ((j + 1) % M) = some (some symJ))
    (hJ : Symbol_absoluteAddress M st (some symJ) = some J) :
    ∃ sequence', CodeSequence_relocate (Gameboy_targetInfo getBank) M st errorKind0
        errorRecord0 sequence 0
        { segment := some s,
          list := [Parser__makeRelocation kind1 0x02 3 t,
                   Parser__makeRelocation kind2 0x02 6 j] } = some (st, sequence') ∧
      sequence'.length = 6 ∧
      sequence'.length = (Gameboy__bankingConfiguration L).offsetPerTrampolineCall ∧
      sequence'.byteList
        = 0x01 :: (T % 65536) % 256 :: (T % 65536) / 256 :: 0xC3 ::
            (J % 65536) % 256 :: (J % 65536) / 256 :: rest := by
  have hresT : CodeSequence__resolveTarget M st (Parser__makeRelocation kind1 0x02 3 t)
      = some (some (T, some symT, none)) := by
    unfold CodeSequence__resolveTarget
    have hk : (Parser__makeRelocation kind1 0x02 3 t).kind.isSymbol = true := rfl
    have hv : (Parser__makeRelocation kind1 0x02 3 t).value = t := rfl
    simp only [hk, hv, if_true, hsymT, hT]
  have hresJ : CodeSequence__resolveTarget M st (Parser__makeRelocation kind2 0x02 6 j)
      = some (some (J, some symJ, none)) := by
    unfold CodeSequence__resolveTarget
    have hk : (Parser__makeRelocation kind2 0x02 6 j).kind.isSymbol = true := rfl
    have hv : (Parser__makeRelocation kind2 0x02 6 j).value = j := rfl
    simp only [hk, hv, if_true, hsymJ, hJ]
  have hflags : ∀ k, (List.replicate 256 true).getD k true = true :=
    fun k => List_getD_replicate_true 256 k
  have hwT := CodeSequence__wordBytes M T 0 hM
  have hwJ := CodeSequence__wordBytes M J 0 hM
  simp only [Nat.zero_add] at hwT hwJ
  -- the segment of the relocation list
  unfold Area_getSegmentName at hseg
  simp only at hseg
  cases hs : st.segmentHeap[s]? with
  | none => rw [hs] at hseg; cases hseg
  | some r =>
    rw [hs] at hseg
    simp only at hseg
    cases hpa : r.parentArea with
    | none => rw [hpa] at hseg; cases hseg
    | some a =>
      rw [hpa] at hseg
      simp only at hseg
      cases har : st.Area__list[a]? with
      | none => rw [har] at hseg; cases hseg
      | some area =>
        unfold CodeSequence_relocate
        simp only [bne_self_eq_false, Bool.false_eq_true, if_false, hs, hpa, har,
          CodeSequence__relocationLoop]
        rw [CodeSequence__processOneRelocation_symbolWord _ M st _ kind1 3 t _ T (some symT)
          none rfl hresT]
        simp only [CodeSequence__reportRelocationError_none]
        rw [CodeSequence__processOneRelocation_symbolWord _ M st _ kind2 6 j _ J (some symJ)
          none rfl hresJ]
        simp only [CodeSequence__reportRelocationError_none,
          CodeSequence__condense_allSignificant _ hflags]
        refine ⟨_, rfl, hlen, hlen, ?_⟩
        simp only [hbytes]
        have e1 : (3 + 254) % 256 = 1 := rfl
        have e2 : (6 + 254) % 256 = 4 := rfl
        simp only [e1, e2, List.getD_cons_succ, List.getD_cons_zero, List.set_cons_succ,
          List.set_cons_zero, Nat.zero_mul, Nat.add_zero, hwT.1, hwT.2, hwJ.1, hwJ.2]


/-- Witness of `C36_trampoline_relocation`: in the state `trampolineExample`
the trampoline for the symbol "f" (index 0, address 0x4000) with the jump label
"h" (index 1, address 0x4008) becomes 01 00 40 C3 08 40. -/
theorem C36_trampoline_relocation_witness :
    ∃ sequence', CodeSequence_relocate (Gameboy_targetInfo Gameboy__getBankFromSegmentName)
        65536 trampolineExample 0 default
        { segment := some 5, romBank := 0, offsetAddress := 0, length := 6,
          byteList := [0x01, 0, 0, 0xC3, 0, 0] } 0
        { segment := some 5,
          list := [Parser__makeRelocation default 0x02 3 0,
                   Parser__makeRelocation default 0x02 6 1] }
        = some (trampolineExample, sequence') ∧
      sequence'.length = 6 ∧
      sequence'.byteList = [0x01, 0x00, 0x40, 0xC3, 0x08, 0x40] :=
  let ⟨sequence', h1, h2, _, h4⟩ :=
    C36_trampoline_relocation 65536 4294967296 Gameboy__getBankFromSegmentName
      trampolineExample 0 default
      { segment := some 5, romBank := 0, offsetAddress := 0, length := 6,
        byteList := [0x01, 0, 0, 0xC3, 0, 0] } [] 5 default default 0 1 0 2 0x4000 0x4008
      (dvd_refl _) rfl rfl (by decide!) (by decide!) (by decide!) (by decide!) (by decide!)
  ⟨sequence', h1, h2, h4⟩

theorem StdLib_strtol_isSome (L : Nat) (st : List Char) (base : Nat)
    (h : ¬ (base = 1 ∨ 36 < base)) : (StdLib_strtol L st base).isSome = true := by
  have key : ∀ (c1 c2 : Prop) [Decidable c1] [Decidable c2] (a b c : Int × Bool),
      (if c1 then some a else if c2 then some b else some c).isSome = true := by
    intro c1 c2 _ _ a b c
    split
    · rfl
    · split <;> rfl
  unfold StdLib_strtol
  rw [if_neg h]
  exact key _ _ _ _ _

theorem String_convertToLong_isSome (L : Nat) (st : String_Type) :
    (String_convertToLong L st 16).isSome = true := by
  unfold String_convertToLong
  dsimp only
  split
  · rename_i base hsel
    apply StdLib_strtol_isSome
    split at hsel
    · split at hsel
      · split at hsel
        · simp only [Option.some.injEq] at hsel
          rw [← hsel]
          split_ifs <;> decide
        · cases hsel
      · cases hsel
    · cases hsel
  · exact StdLib_strtol_isSome L _ _ (by decide)


theorem Parser__setMappingStep_calls (L : Nat) (m : Parser__MappingState)
    (token : Scanner_Token)
    (hinv : (m.state ≤ 3 → m.calls = []) ∧ m.calls.length ≤ 1) :
    ∃ m', Parser__setMappingStep L m token = some m' ∧
      (m'.state ≤ 3 → m'.calls = []) ∧ m'.calls.length ≤ 1 := by
  unfold Parser__setMappingStep
  dsimp only
  by_cases h0 : m.state = 0
  · rw [if_pos h0]
    split
    · exact ⟨_, rfl, fun h => absurd (show 4 ≤ 3 from h) (by decide), hinv.2⟩
    · exact ⟨_, rfl, fun _ => hinv.1 (by omega), hinv.2⟩
  · rw [if_neg h0]
    by_cases h1 : m.state = 1
    · rw [if_pos h1]
      exact ⟨_, rfl, fun _ => hinv.1 (by omega), hinv.2⟩
    · rw [if_neg h1]
      by_cases h2 : m.state = 2
      · rw [if_pos h2]
        split
        · exact ⟨_, rfl, fun _ => hinv.1 (by omega), hinv.2⟩
        · cases hc : String_convertToLong L (String.mk token.representation) 16 with
          | none =>
            have := String_convertToLong_isSome L (String.mk token.representation)
            rw [hc] at this
            cases this
          | some converted =>
            exact ⟨_, rfl, fun _ => hinv.1 (by omega), hinv.2⟩
      · rw [if_neg h2]
        by_cases h3 : m.state = 3
        · rw [if_pos h3]
          refine ⟨_, rfl, fun h => absurd (show 4 ≤ 3 from h) (by decide), ?_⟩
          dsimp only
          have hnil := hinv.1 (by omega)
          rw [hnil]
          split <;> simp
        · rw [if_neg h3]
          exact ⟨_, rfl, fun h => absurd (show m.state ≤ 3 from h) (by omega), hinv.2⟩

theorem Parser__setMappingLoop_calls (L : Nat) :
    ∀ (tokenList : List Scanner_Token) (m : Parser__MappingState),
      (m.state ≤ 3 → m.calls = []) ∧ m.calls.length ≤ 1 →
      ∃ m', Parser__setMappingLoop L m tokenList = some m' ∧ m'.calls.length ≤ 1 := by
  intro tokenList
  induction tokenList with
  | nil => intro m hinv; exact ⟨m, rfl, hinv.2⟩
  | cons token rest ih =>
    intro m hinv
    obtain ⟨m1, h1, hinv1⟩ := Parser__setMappingStep_calls L m token hinv
    obtain ⟨m', h', hlen⟩ := ih m1 hinv1
    refine ⟨m', ?_, hlen⟩
    unfold Parser__setMappingLoop
    rw [h1]
    exact h'


theorem Parser__setMappingLoop_done (L : Nat) :
    ∀ (rest : List Scanner_Token) (m : Parser__MappingState), m.state = 4 →
      Parser__setMappingLoop L m rest
        = some { m with
            lineIsBad := m.lineIsBad
              || rest.any (fun t => decide (t.kind ≠ Scanner_TokenKind_streamEnd)) } := by
  intro rest
  induction rest with
  | nil =>
    intro m _
    simp [Parser__setMappingLoop]
  | cons token rest ih =>
    intro m hm
    unfold Parser__setMappingLoop
    have hstep : Parser__setMappingStep L m token
        = some { m with
            lineIsBad := m.lineIsBad || decide (token.kind ≠ Scanner_TokenKind_streamEnd) } := by
      unfold Parser__setMappingStep
      simp [hm]
    rw [hstep]
    simp only
    rw [ih { m with
      lineIsBad := m.lineIsBad || decide (token.kind ≠ Scanner_TokenKind_streamEnd) } hm]
    simp [Bool.or_assoc]

/-- Claim C40 (code defect): for every token list of a line
`Parser__setMappingFromLine` returns and calls `setElementValueProc` at most
once.  The call is made at the fourth token, whatever that token is, when the
first three tokens are a name, the operator `=` and a number that
`String_convertToLong` accepts; the tokens after the fourth decide alone
whether the line is reported as parsed successfully.  So a line with a fifth
token that is not the end of the stream is reported as a bad definition after
its name has got its value. -/
theorem C40_callback_before_line_end (L : Nat) (tokenList rest : List Scanner_Token)
    (t1 t2 t3 t4 : Scanner_Token) (value : Int) :
    (∃ result, Parser__setMappingFromLine L tokenList = some result ∧
      result.2.length ≤ 1) ∧
    ((t1.kind = Scanner_TokenKind_identifier ∨ t1.kind = Scanner_TokenKind_idOrNumber) →
      t2.kind = Scanner_TokenKind_operator → Scanner_tokenIsAssignment t2 = true →
      (t3.kind = Scanner_TokenKind_number ∨ t3.kind = Scanner_TokenKind_idOrNumber) →
      String_convertToLong L (String.mk t3.representation) 16 = some (value, true) →
      Parser__setMappingFromLine L (t1 :: t2 :: t3 :: t4 :: rest)
        = some (rest.all (fun t => decide (t.kind = Scanner_TokenKind_streamEnd)),
            [(t1.representation, value)])) := by
  constructor
  · obtain ⟨m', h, hlen⟩ := Parser__setMappingLoop_calls L tokenList
      { state := 0, lineIsBad := false, elementName := [], elementValue := 0, calls := [] }
      ⟨fun _ => rfl, by decide⟩
    refine ⟨(!m'.lineIsBad, m'.calls), ?_, hlen⟩
    unfold Parser__setMappingFromLine
    rw [h]
  · intro h1 h2 h2' h3 h4
    have hk1 : t1.kind ≠ Scanner_TokenKind_streamEnd := by
      rcases h1 with h | h <;> rw [h] <;> decide
    have hb1 : decide (t1.kind ≠ Scanner_TokenKind_identifier
        ∧ t1.kind ≠ Scanner_TokenKind_idOrNumber) = false := by
      rcases h1 with h | h <;> simp [h]
    have hb3 : decide (t3.kind ≠ Scanner_TokenKind_number
        ∧ t3.kind ≠ Scanner_TokenKind_idOrNumber) = false := by
      rcases h3 with h | h <;> simp [h]
    have s1 : Parser__setMappingStep L
        { state := 0, lineIsBad := false, elementName := [], elementValue := 0, calls := [] }
        t1 = some { state := 1, lineIsBad := false, elementName := t1.representation,
                    elementValue := 0, calls := [] } := by
      unfold Parser__setMappingStep
      simp only [if_true, if_neg hk1, hb1, Bool.not_false, if_true]
    have s2 : Parser__setMappingStep L
        { state := 1, lineIsBad := false, elementName := t1.representation,
          elementValue := 0, calls := [] }
        t2 = some { state := 2, lineIsBad := false, elementName := t1.representation,
                    elementValue := 0, calls := [] } := by
      unfold Parser__setMappingStep
      simp [h2, h2']
    have s3 : Parser__setMappingStep L
        { state := 2, lineIsBad := false, elementName := t1.representation,
          elementValue := 0, calls := [] }
        t3 = some { state := 3, lineIsBad := false, elementName := t1.representation,
                    elementValue := value, calls := [] } := by
      unfold Parser__setMappingStep
      simp only [hb3, h4]
      simp
    have s4 : Parser__setMappingStep L
        { state := 3, lineIsBad := false, elementName := t1.representation,
          elementValue := value, calls := [] }
        t4 = some { state := 4, lineIsBad := false, elementName := t1.representation,
                    elementValue := value, calls := [(t1.representation, value)] } := by
      unfold Parser__setMappingStep
      simp
    unfold Parser__setMappingFromLine
    simp only [Parser__setMappingLoop, s1, s2, s3, s4]
    rw [Parser__setMappingLoop_done L rest _ rfl]
    simp only [Bool.false_or, Option.some.injEq, Prod.mk.injEq, and_true]
    rw [List.all_eq_not_any_not]
    congr 2
    funext t
    simp

/-- Witness of `C40_callback_before_line_end`: for the token list of the line
"x=1 y z" the procedure is called once with the name "x" and the value 1, and
the line is reported as a bad definition. -/
theorem C40_callback_before_line_end_witness :
    Parser__setMappingFromLine 4294967296 mappingExampleTokens
      = some (false, [(['x'], 1)]) ∧
    Parser_setMappingFromString 4294967296 mappingExampleTokens
      = some ([(['x'], 1)], true) :=
  have h := (C40_callback_before_line_end 4294967296 []
    [{ kind := Scanner_TokenKind_identifier, representation := ['z'] },
     { kind := Scanner_TokenKind_streamEnd, representation := [Scanner_endOfStreamChar] }]
    { kind := Scanner_TokenKind_identifier, representation := ['x'] }
    { kind := Scanner_TokenKind_operator, representation := ['='] }
    { kind := Scanner_TokenKind_number, representation := ['1'] }
    { kind := Scanner_TokenKind_identifier, representation := ['y'] } 1).2
      (Or.inl rfl) rfl rfl (Or.inl rfl) (by decide!)
  ⟨h, by
    unfold Parser_setMappingFromString
    rw [show Parser__setMappingFromLine 4294967296 mappingExampleTokens
      = some (false, [(['x'], 1)]) from h]
    rfl⟩

/-! ## Claim C37 : a token that is pushed back is scanned again -/

theorem Scanner__getChar_withStack {W : Type} (fileSystem : String_Type → Option (List Char))
    (fuel : Nat) (s : Parser_Module W) (c : Char × Parser_Place)
    (stack : List (Char × Parser_Place)) :
    Scanner__getChar fileSystem fuel (s.withStack (c :: stack)) =
      (s.withStack stack, some c) := rfl

theorem Scanner__ungetChar_withStack {W : Type} (s : Parser_Module W) (c : Char × Parser_Place)
    (stack : List (Char × Parser_Place)) (h : stack.length < Scanner_pushbackStackSize) :
    Scanner__ungetChar (s.withStack stack) c = some (s.withStack (c :: stack)) := by
  unfold Scanner__ungetChar
  have h1 : ¬ (s.withStack stack).Scanner__pushbackStack.length = Scanner_pushbackStackSize := by
    show ¬ stack.length = Scanner_pushbackStackSize
    omega
  rw [if_neg h1]
  rfl

theorem Scanner__ungetChar_push {W : Type} (s s' : Parser_Module W) (c : Char × Parser_Place)
    (h : Scanner__ungetChar s c = some s') :
    s' = s.withStack (c :: s.Scanner__pushbackStack) ∧
    s.Scanner__pushbackStack.length ≠ Scanner_pushbackStackSize := by
  unfold Scanner__ungetChar at h
  by_cases h1 : s.Scanner__pushbackStack.length = Scanner_pushbackStackSize
  · rw [if_pos h1] at h
    cases h
  · rw [if_neg h1] at h
    exact ⟨(Option.some.inj h).symm, h1⟩

theorem Scanner_stateIsValid_withStack {W : Type} (s : Parser_Module W)
    (stack : List (Char × Parser_Place)) (hs : Scanner_stateIsValid s)
    (hlen : stack.length ≤ Scanner_pushbackStackSize) (hz : ∀ c ∈ stack, c.1 ≠ '\x00') :
    Scanner_stateIsValid (s.withStack stack) :=
  ⟨hlen, hz, hs.2.2⟩

theorem Scanner__ungetChar_valid {W : Type} (s s' : Parser_Module W) (c : Char × Parser_Place)
    (hs : Scanner_stateIsValid s) (hc : c.1 ≠ '\x00')
    (h : Scanner__ungetChar s c = some s') :
    Scanner_stateIsValid s' ∧ s'.Scanner__pushbackStack = c :: s.Scanner__pushbackStack := by
  obtain ⟨h1, h2⟩ := Scanner__ungetChar_push s s' c h
  subst h1
  refine ⟨Scanner_stateIsValid_withStack s _ hs ?_ ?_, rfl⟩
  · have := hs.1
    simp only [List.length_cons]
    omega
  · intro x hx
    rcases List.mem_cons.mp hx with hx | hx
    · rw [hx]
      exact hc
    · exact hs.2.1 x hx

theorem String_appendChar_of_ne (st : List Char) (ch : Char) (h : ch ≠ '\x00') :
    String_appendChar st ch = st ++ [ch] := by
  unfold String_appendChar
  rw [if_neg h]

theorem String_appendChar_noTerminator (st : List Char) (ch : Char)
    (h : ∀ c ∈ st, c ≠ '\x00') : ∀ c ∈ String_appendChar st ch, c ≠ '\x00' := by
  unfold String_appendChar
  by_cases hc : ch = '\x00'
  · rw [if_pos hc]
    exact h
  · rw [if_neg hc]
    intro c hmem
    rcases List.mem_append.mp hmem with h1 | h1
    · exact h c h1
    · rw [List.mem_singleton.mp h1]
      exact hc

theorem File_readLine_noTerminator : ∀ (file st : List Char),
    (∀ c ∈ st, c ≠ '\x00') → ∀ c ∈ (File_readLine file st).2, c ≠ '\x00'
  | [], st, h => h
  | ch :: rest, st, h => by
    unfold File_readLine
    by_cases hn : ch = '\n'
    · simp only [hn, if_true]
      exact String_appendChar_noTerminator st '\n' h
    · simp only [hn, if_false]
      exact File_readLine_noTerminator rest _ (String_appendChar_noTerminator st ch h)

theorem Parser__getFileListCharacter_loop_valid {W : Type}
    (fileSystem : String_Type → Option (List Char)) :
    ∀ (fuel : Nat) (s s' : Parser_Module W) (c : Char × Parser_Place),
      Scanner_stateIsValid s →
      Parser__getFileListCharacter_loop fileSystem fuel s = (s', some c) →
      Scanner_stateIsValid s' ∧ c.1 ≠ '\x00' ∧
        s'.Scanner__pushbackStack = s.Scanner__pushbackStack
  | 0, s, s', c, _, h => by
    unfold Parser__getFileListCharacter_loop at h
    cases (Prod.mk.inj h).2
  | fuel + 1, s, s', c, hs, h => by
    unfold Parser__getFileListCharacter_loop at h
    dsimp only at h
    split_ifs at h with h1 h2 h3
    · cases hget : String_getAt s.Parser__fileSequence.currentLine
          s.Parser__fileSequence.column with
      | none =>
        rw [hget] at h
        cases (Prod.mk.inj h).2
      | some result =>
        rw [hget] at h
        obtain ⟨hs', hc⟩ := Prod.mk.inj h
        subst hs'
        have hc' := Option.some.inj hc
        subst hc'
        refine ⟨⟨hs.1, hs.2.1, hs.2.2⟩, ?_, rfl⟩
        unfold String_getAt at hget
        split_ifs at hget
        exact hs.2.2 result (List.mem_iff_getElem?.mpr ⟨_, hget⟩)
    · have hv := fun hval =>
        Parser__getFileListCharacter_loop_valid fileSystem fuel _ s' c hval h
      exact hv ⟨hs.1, hs.2.1,
        File_readLine_noTerminator _ [] (fun _ hx => absurd hx (List.not_mem_nil _))⟩
    · obtain ⟨hs', hc⟩ := Prod.mk.inj h
      subst hs'
      have hc' := Option.some.inj hc
      subst hc'
      exact ⟨⟨hs.1, hs.2.1, hs.2.2⟩, by decide, rfl⟩
    · cases hname : List_getElement s.Parser__fileSequence.nameList
          (s.Parser__fileSequence.index + 1) with
      | none =>
        rw [hname] at h
        cases (Prod.mk.inj h).2
      | some fileName =>
        rw [hname] at h
        dsimp only at h
        cases hfile : fileSystem fileName with
        | none =>
          rw [hfile] at h
          cases (Prod.mk.inj h).2
        | some content =>
          rw [hfile] at h
          dsimp only at h
          have hv := fun hval =>
            Parser__getFileListCharacter_loop_valid fileSystem fuel _ s' c hval h
          exact hv ⟨hs.1, hs.2.1, hs.2.2⟩

theorem Scanner__getChar_valid {W : Type} (fileSystem : String_Type → Option (List Char))
    (fuel : Nat) (s s' : Parser_Module W) (c : Char × Parser_Place)
    (hs : Scanner_stateIsValid s) (h : Scanner__getChar fileSystem fuel s = (s', some c)) :
    Scanner_stateIsValid s' ∧ c.1 ≠ '\x00' ∧
    ∀ c0 st0, s.Scanner__pushbackStack = c0 :: st0 → c = c0 ∧ s' = s.withStack st0 := by
  unfold Scanner__getChar at h
  cases hstack : s.Scanner__pushbackStack with
  | nil =>
    simp only [hstack] at h
    unfold Parser__getFileListCharacter at h
    have hv := fun hval =>
      Parser__getFileListCharacter_loop_valid fileSystem fuel _ s' c hval h
    have hv2 := hv (by
      split_ifs
      · exact ⟨hs.1, hs.2.1, hs.2.2⟩
      · exact hs)
    exact ⟨hv2.1, hv2.2.1, fun c0 st0 h0 => List.noConfusion h0⟩
  | cons top rest =>
    simp only [hstack, Prod.mk.injEq] at h
    obtain ⟨h1, h2⟩ := h
    have h2' := Option.some.inj h2
    subst h1; subst h2'
    have htop : top.1 ≠ '\x00' := hs.2.1 top (by rw [hstack]; exact List.mem_cons_self _ _)
    refine ⟨⟨?_, ?_, hs.2.2⟩, htop, ?_⟩
    · have := hs.1
      rw [hstack] at this
      simp only [List.length_cons] at this
      show rest.length ≤ _
      omega
    · intro x hx
      exact hs.2.1 x (by rw [hstack]; exact List.mem_cons_of_mem _ hx)
    · intro c0 st0 h0
      obtain ⟨h3, h4⟩ := List.cons.inj h0
      subst h3; subst h4
      exact ⟨rfl, rfl⟩

theorem Scanner_pushedBack_append (cs : List Char) (x : Char)
    (stack : List (Char × Parser_Place)) :
    Scanner_pushedBack (cs ++ [x]) ++ stack = Scanner_pushedBack cs ++ (x, none) :: stack := by
  unfold Scanner_pushedBack
  rw [List.map_append, List.append_assoc]
  rfl

theorem Scanner_ungetToken_loop_spec {W : Type} (representation : List Char) :
    ∀ (i : Nat) (s s2 : Parser_Module W),
      i ≤ representation.length →
      s.Scanner__pushbackStack.length ≤ Scanner_pushbackStackSize →
      Scanner_ungetToken_loop representation i s = some s2 →
      s2 = s.withStack (Scanner_pushedBack (representation.take i) ++ s.Scanner__pushbackStack) ∧
      i + s.Scanner__pushbackStack.length ≤ Scanner_pushbackStackSize
  | 0, s, s2, _, hlen, h => by
    unfold Scanner_ungetToken_loop at h
    have h1 := Option.some.inj h
    subst h1
    exact ⟨rfl, by omega⟩
  | i + 1, s, s2, hi, hlen, h => by
    unfold Scanner_ungetToken_loop at h
    cases hu : Scanner__ungetChar s (String_getCharacter representation (i + 1), none) with
    | none =>
      rw [hu] at h
      cases h
    | some s' =>
      rw [hu] at h
      dsimp only at h
      obtain ⟨h1, h2⟩ := Scanner__ungetChar_push s s' _ hu
      subst h1
      have hlen' : (s.withStack ((String_getCharacter representation (i + 1), none) ::
          s.Scanner__pushbackStack)).Scanner__pushbackStack.length ≤
          Scanner_pushbackStackSize := by
        show (_ :: s.Scanner__pushbackStack).length ≤ _
        simp only [List.length_cons]
        omega
      obtain ⟨h3, h4⟩ := Scanner_ungetToken_loop_spec representation i _ s2 (by omega) hlen' h
      have h5 : (s.withStack ((String_getCharacter representation (i + 1), none) ::
          s.Scanner__pushbackStack)).Scanner__pushbackStack.length =
          s.Scanner__pushbackStack.length + 1 := rfl
      refine ⟨?_, by omega⟩
      rw [h3]
      have hget : String_getCharacter representation (i + 1) =
          representation.get ⟨i, by omega⟩ := by
        unfold String_getCharacter
        simp [List.getD_eq_getElem?_getD, List.getElem?_eq_getElem (show i < representation.length by omega)]
      have htake : representation.take (i + 1) =
          representation.take i ++ [representation.get ⟨i, by omega⟩] := by
        rw [List.take_succ, List.getElem?_eq_getElem (show i < representation.length by omega)]
        rfl
      rw [htake, hget]
      have hp : Scanner_pushedBack (representation.take i ++ [representation.get ⟨i, by omega⟩]) ++
          s.Scanner__pushbackStack =
          Scanner_pushedBack (representation.take i) ++
            (representation.get ⟨i, by omega⟩, none) :: s.Scanner__pushbackStack := by
        exact Scanner_pushedBack_append _ _ _
      rw [hp]
      rfl

theorem Scanner__getIdentifier_loop_shape {W : Type}
    (fileSystem : String_Type → Option (List Char)) :
    ∀ (fuel : Nat) (s s' : Parser_Module W) (acc r : List Char),
      Scanner_stateIsValid s →
      Scanner__getIdentifier_loop fileSystem fuel s acc = (s', some r) →
      ∃ (cs : List Char) (la : Char × Parser_Place) (stack : List (Char × Parser_Place)),
        r = acc ++ cs ∧ (∀ c ∈ cs, ¬ Scanner_endsIdentifier c ∧ c ≠ '\x00') ∧
        Scanner_endsIdentifier la.1 ∧ s'.Scanner__pushbackStack = la :: stack ∧
        Scanner_stateIsValid s' ∧
        ∀ c0 st0, s.Scanner__pushbackStack = c0 :: st0 → (cs ++ [la.1]).head? = some c0.1
  | 0, s, s', acc, r, _, h => by
    unfold Scanner__getIdentifier_loop at h
    cases (Prod.mk.inj h).2
  | fuel + 1, s, s', acc, r, hs, h => by
    unfold Scanner__getIdentifier_loop at h
    cases hg : Scanner__getChar fileSystem fuel s with
    | mk sA oc =>
      cases oc with
      | none =>
        rw [hg] at h
        cases (Prod.mk.inj h).2
      | some ch =>
        rw [hg] at h
        dsimp only at h
        obtain ⟨hvA, hne, hhead⟩ := Scanner__getChar_valid fileSystem fuel s sA ch hs hg
        by_cases hend : Scanner_endsIdentifier ch.1
        · rw [if_pos hend] at h
          cases hu : Scanner__ungetChar sA ch with
          | none =>
            rw [hu] at h
            cases (Prod.mk.inj h).2
          | some sB =>
            rw [hu] at h
            obtain ⟨h1, h2⟩ := Prod.mk.inj h
            have h2' := Option.some.inj h2
            subst h1; subst h2'
            obtain ⟨hvB, hstack⟩ := Scanner__ungetChar_valid sA sB ch hvA hne hu
            refine ⟨[], ch, sA.Scanner__pushbackStack, (List.append_nil _).symm, ?_, hend,
              hstack, hvB, ?_⟩
            · intro c hc
              cases hc
            · intro c0 st0 h0
              rw [(hhead c0 st0 h0).1]
              rfl
        · rw [if_neg hend] at h
          obtain ⟨cs, la, stack, hr, hcs, hla, hstack, hv, _⟩ :=
            Scanner__getIdentifier_loop_shape fileSystem fuel sA s' _ r hvA h
          refine ⟨ch.1 :: cs, la, stack, ?_, ?_, hla, hstack, hv, ?_⟩
          · rw [hr, String_appendChar_of_ne _ _ hne, List.append_assoc]
            rfl
          · intro c hc
            rcases List.mem_cons.mp hc with hc | hc
            · rw [hc]
              exact ⟨hend, hne⟩
            · exact hcs c hc
          · intro c0 st0 h0
            rw [(hhead c0 st0 h0).1]
            rfl

theorem Scanner__getIdentifier_loop_replay {W : Type}
    (fileSystem : String_Type → Option (List Char)) (s : Parser_Module W)
    (la : Char × Parser_Place) (stack : List (Char × Parser_Place))
    (hla : Scanner_endsIdentifier la.1) (hstack : stack.length < Scanner_pushbackStackSize) :
    ∀ (cs : List Char) (fuel : Nat) (acc : List Char),
      (∀ c ∈ cs, ¬ Scanner_endsIdentifier c ∧ c ≠ '\x00') → cs.length + 1 ≤ fuel →
      Scanner__getIdentifier_loop fileSystem fuel
          (s.withStack (Scanner_pushedBack cs ++ la :: stack)) acc =
        (s.withStack (la :: stack), some (acc ++ cs))
  | [], fuel, acc, _, hfuel => by
    obtain ⟨f, rfl⟩ : ∃ f, fuel = f + 1 := ⟨fuel - 1, by simp only [List.length_nil] at hfuel; omega⟩
    show Scanner__getIdentifier_loop fileSystem (f + 1) (s.withStack (la :: stack)) acc = _
    rw [Scanner__getIdentifier_loop, Scanner__getChar_withStack]
    dsimp only
    rw [if_pos hla, Scanner__ungetChar_withStack s la stack hstack, List.append_nil]
  | c :: cs, fuel, acc, hcs, hfuel => by
    obtain ⟨f, rfl⟩ : ∃ f, fuel = f + 1 := ⟨fuel - 1, by simp only [List.length_cons] at hfuel; omega⟩
    show Scanner__getIdentifier_loop fileSystem (f + 1)
      (s.withStack ((c, none) :: (Scanner_pushedBack cs ++ la :: stack))) acc = _
    rw [Scanner__getIdentifier_loop, Scanner__getChar_withStack]
    dsimp only
    have hc := hcs c (List.mem_cons_self _ _)
    rw [if_neg hc.1, String_appendChar_of_ne _ _ hc.2,
      Scanner__getIdentifier_loop_replay fileSystem s la stack hla hstack cs f _
        (fun x hx => hcs x (List.mem_cons_of_mem _ hx))
        (by simp only [List.length_cons] at hfuel; omega),
      List.append_assoc]
    rfl

theorem Scanner__getNumber_loop_shape {W : Type}
    (fileSystem : String_Type → Option (List Char)) :
    ∀ (fuel : Nat) (s s' : Parser_Module W) (acc r : List Char),
      Scanner_stateIsValid s →
      Scanner__getNumber_loop fileSystem fuel s acc = (s', some r) →
      ∃ (cs : List Char) (la : Char × Parser_Place) (stack : List (Char × Parser_Place)),
        r = acc ++ cs ∧ (∀ c ∈ cs, ¬ Scanner_endsNumber c ∧ c ≠ '\x00') ∧
        Scanner_endsNumber la.1 ∧ s'.Scanner__pushbackStack = la :: stack ∧
        Scanner_stateIsValid s' ∧
        ∀ c0 st0, s.Scanner__pushbackStack = c0 :: st0 → (cs ++ [la.1]).head? = some c0.1
  | 0, s, s', acc, r, _, h => by
    unfold Scanner__getNumber_loop at h
    cases (Prod.mk.inj h).2
  | fuel + 1, s, s', acc, r, hs, h => by
    unfold Scanner__getNumber_loop at h
    cases hg : Scanner__getChar fileSystem fuel s with
    | mk sA oc =>
      cases oc with
      | none =>
        rw [hg] at h
        cases (Prod.mk.inj h).2
      | some ch =>
        rw [hg] at h
        dsimp only at h
        obtain ⟨hvA, hne, hhead⟩ := Scanner__getChar_valid fileSystem fuel s sA ch hs hg
        by_cases hend : Scanner_endsNumber ch.1
        · rw [if_pos hend] at h
          cases hu : Scanner__ungetChar sA ch with
          | none =>
            rw [hu] at h
            cases (Prod.mk.inj h).2
          | some sB =>
            rw [hu] at h
            obtain ⟨h1, h2⟩ := Prod.mk.inj h
            have h2' := Option.some.inj h2
            subst h1; subst h2'
            obtain ⟨hvB, hstack⟩ := Scanner__ungetChar_valid sA sB ch hvA hne hu
            refine ⟨[], ch, sA.Scanner__pushbackStack, (List.append_nil _).symm, ?_, hend,
              hstack, hvB, ?_⟩
            · intro c hc
              cases hc
            · intro c0 st0 h0
              rw [(hhead c0 st0 h0).1]
              rfl
        · rw [if_neg hend] at h
          obtain ⟨cs, la, stack, hr, hcs, hla, hstack, hv, _⟩ :=
            Scanner__getNumber_loop_shape fileSystem fuel sA s' _ r hvA h
          refine ⟨ch.1 :: cs, la, stack, ?_, ?_, hla, hstack, hv, ?_⟩
          · rw [hr, String_appendChar_of_ne _ _ hne, List.append_assoc]
            rfl
          · intro c hc
            rcases List.mem_cons.mp hc with hc | hc
            · rw [hc]
              exact ⟨hend, hne⟩
            · exact hcs c hc
          · intro c0 st0 h0
            rw [(hhead c0 st0 h0).1]
            rfl

theorem Scanner__getNumber_loop_replay {W : Type}
    (fileSystem : String_Type → Option (List Char)) (s : Parser_Module W)
    (la : Char × Parser_Place) (stack : List (Char × Parser_Place))
    (hla : Scanner_endsNumber la.1) (hstack : stack.length < Scanner_pushbackStackSize) :
    ∀ (cs : List Char) (fuel : Nat) (acc : List Char),
      (∀ c ∈ cs, ¬ Scanner_endsNumber c ∧ c ≠ '\x00') → cs.length + 1 ≤ fuel →
      Scanner__getNumber_loop fileSystem fuel
          (s.withStack (Scanner_pushedBack cs ++ la :: stack)) acc =
        (s.withStack (la :: stack), some (acc ++ cs))
  | [], fuel, acc, _, hfuel => by
    obtain ⟨f, rfl⟩ : ∃ f, fuel = f + 1 := ⟨fuel - 1, by simp only [List.length_nil] at hfuel; omega⟩
    show Scanner__getNumber_loop fileSystem (f + 1) (s.withStack (la :: stack)) acc = _
    rw [Scanner__getNumber_loop, Scanner__getChar_withStack]
    dsimp only
    rw [if_pos hla, Scanner__ungetChar_withStack s la stack hstack, List.append_nil]
  | c :: cs, fuel, acc, hcs, hfuel => by
    obtain ⟨f, rfl⟩ : ∃ f, fuel = f + 1 := ⟨fuel - 1, by simp only [List.length_cons] at hfuel; omega⟩
    show Scanner__getNumber_loop fileSystem (f + 1)
      (s.withStack ((c, none) :: (Scanner_pushedBack cs ++ la :: stack))) acc = _
    rw [Scanner__getNumber_loop, Scanner__getChar_withStack]
    dsimp only
    have hc := hcs c (List.mem_cons_self _ _)
    rw [if_neg hc.1, String_appendChar_of_ne _ _ hc.2,
      Scanner__getNumber_loop_replay fileSystem s la stack hla hstack cs f _
        (fun x hx => hcs x (List.mem_cons_of_mem _ hx))
        (by simp only [List.length_cons] at hfuel; omega),
      List.append_assoc]
    rfl

theorem Scanner_ambiguousKind_nil (kind : Nat) : Scanner_ambiguousKind kind [] = kind := rfl

theorem Scanner_ambiguousKind_letter (kind : Nat) (c : Char) (cs : List Char)
    (h : Scanner__characterKind c = .letter) :
    Scanner_ambiguousKind kind (c :: cs) =
      Scanner_ambiguousKind Scanner_TokenKind_identifier cs := by
  unfold Scanner_ambiguousKind
  simp [h]

theorem Scanner_ambiguousKind_other (kind : Nat) (c : Char) (cs : List Char)
    (h : Scanner__characterKind c ≠ .letter) :
    Scanner_ambiguousKind kind (c :: cs) = Scanner_ambiguousKind kind cs := by
  unfold Scanner_ambiguousKind
  simp [h]

theorem Scanner__getAmbiguousToken_loop_shape {W : Type}
    (fileSystem : String_Type → Option (List Char)) :
    ∀ (fuel : Nat) (s s' : Parser_Module W) (token result : Scanner_Token),
      Scanner_stateIsValid s →
      Scanner__getAmbiguousToken_loop fileSystem fuel s token = (s', some result) →
      ∃ (cs : List Char) (la : Char × Parser_Place) (stack : List (Char × Parser_Place)),
        result = { kind := Scanner_ambiguousKind token.kind cs,
                   representation := token.representation ++ cs } ∧
        (∀ c ∈ cs, ¬ Scanner_endsIdentifier c ∧ c ≠ '\x00') ∧
        Scanner_endsIdentifier la.1 ∧ s'.Scanner__pushbackStack = la :: stack ∧
        Scanner_stateIsValid s' ∧
        ∀ c0 st0, s.Scanner__pushbackStack = c0 :: st0 → (cs ++ [la.1]).head? = some c0.1
  | 0, s, s', token, result, _, h => by
    unfold Scanner__getAmbiguousToken_loop at h
    cases (Prod.mk.inj h).2
  | fuel + 1, s, s', token, result, hs, h => by
    unfold Scanner__getAmbiguousToken_loop at h
    cases hg : Scanner__getChar fileSystem fuel s with
    | mk sA oc =>
      cases oc with
      | none =>
        rw [hg] at h
        cases (Prod.mk.inj h).2
      | some ch =>
        rw [hg] at h
        dsimp only at h
        obtain ⟨hvA, hne, hhead⟩ := Scanner__getChar_valid fileSystem fuel s sA ch hs hg
        by_cases hl : Scanner__characterKind ch.1 = .letter
        · rw [if_pos hl] at h
          obtain ⟨cs, la, stack, hr, hcs, hla, hstack, hv, _⟩ :=
            Scanner__getAmbiguousToken_loop_shape fileSystem fuel sA s' _ result hvA h
          refine ⟨ch.1 :: cs, la, stack, ?_, ?_, hla, hstack, hv, ?_⟩
          · rw [hr, Scanner_ambiguousKind_letter _ _ _ hl]
            dsimp only
            rw [String_appendChar_of_ne _ _ hne, List.append_assoc]
            rfl
          · intro c hc
            rcases List.mem_cons.mp hc with hc | hc
            · rw [hc]
              exact ⟨fun hx => hx.1 hl, hne⟩
            · exact hcs c hc
          · intro c0 st0 h0
            rw [(hhead c0 st0 h0).1]
            rfl
        · rw [if_neg hl] at h
          by_cases hend : Scanner_endsNumber ch.1
          · rw [if_pos hend] at h
            cases hu : Scanner__ungetChar sA ch with
            | none =>
              rw [hu] at h
              cases (Prod.mk.inj h).2
            | some sB =>
              rw [hu] at h
              obtain ⟨h1, h2⟩ := Prod.mk.inj h
              have h2' := Option.some.inj h2
              subst h1; subst h2'
              obtain ⟨hvB, hstack⟩ := Scanner__ungetChar_valid sA sB ch hvA hne hu
              refine ⟨[], ch, sA.Scanner__pushbackStack, ?_, ?_, ⟨hl, hend.2, hend.1⟩,
                hstack, hvB, ?_⟩
              · rw [Scanner_ambiguousKind_nil, List.append_nil]
              · intro c hc
                cases hc
              · intro c0 st0 h0
                rw [(hhead c0 st0 h0).1]
                rfl
          · rw [if_neg hend] at h
            obtain ⟨cs, la, stack, hr, hcs, hla, hstack, hv, _⟩ :=
              Scanner__getAmbiguousToken_loop_shape fileSystem fuel sA s' _ result hvA h
            refine ⟨ch.1 :: cs, la, stack, ?_, ?_, hla, hstack, hv, ?_⟩
            · rw [hr, Scanner_ambiguousKind_other _ _ _ hl]
              dsimp only
              rw [String_appendChar_of_ne _ _ hne, List.append_assoc]
              rfl
            · intro c hc
              rcases List.mem_cons.mp hc with hc | hc
              · rw [hc]
                exact ⟨fun hx => hend ⟨hx.2.2, hx.2.1⟩, hne⟩
              · exact hcs c hc
            · intro c0 st0 h0
              rw [(hhead c0 st0 h0).1]
              rfl

theorem Scanner__getAmbiguousToken_loop_replay {W : Type}
    (fileSystem : String_Type → Option (List Char)) (s : Parser_Module W)
    (la : Char × Parser_Place) (stack : List (Char × Parser_Place))
    (hla : Scanner_endsIdentifier la.1) (hstack : stack.length < Scanner_pushbackStackSize) :
    ∀ (cs : List Char) (fuel : Nat) (token : Scanner_Token),
      (∀ c ∈ cs, ¬ Scanner_endsIdentifier c ∧ c ≠ '\x00') → cs.length + 1 ≤ fuel →
      Scanner__getAmbiguousToken_loop fileSystem fuel
          (s.withStack (Scanner_pushedBack cs ++ la :: stack)) token =
        (s.withStack (la :: stack),
          some { kind := Scanner_ambiguousKind token.kind cs,
                 representation := token.representation ++ cs })
  | [], fuel, token, _, hfuel => by
    obtain ⟨f, rfl⟩ : ∃ f, fuel = f + 1 := ⟨fuel - 1, by simp only [List.length_nil] at hfuel; omega⟩
    show Scanner__getAmbiguousToken_loop fileSystem (f + 1) (s.withStack (la :: stack)) token = _
    rw [Scanner__getAmbiguousToken_loop, Scanner__getChar_withStack]
    dsimp only
    rw [if_neg hla.1, if_pos ⟨hla.2.2, hla.2.1⟩, Scanner__ungetChar_withStack s la stack hstack,
      Scanner_ambiguousKind_nil, List.append_nil]
  | c :: cs, fuel, token, hcs, hfuel => by
    obtain ⟨f, rfl⟩ : ∃ f, fuel = f + 1 := ⟨fuel - 1, by simp only [List.length_cons] at hfuel; omega⟩
    show Scanner__getAmbiguousToken_loop fileSystem (f + 1)
      (s.withStack ((c, none) :: (Scanner_pushedBack cs ++ la :: stack))) token = _
    rw [Scanner__getAmbiguousToken_loop, Scanner__getChar_withStack]
    dsimp only
    have hc := hcs c (List.mem_cons_self _ _)
    by_cases hl : Scanner__characterKind c = .letter
    · rw [if_pos hl, String_appendChar_of_ne _ _ hc.2,
        Scanner__getAmbiguousToken_loop_replay fileSystem s la stack hla hstack cs f _
          (fun x hx => hcs x (List.mem_cons_of_mem _ hx))
          (by simp only [List.length_cons] at hfuel; omega),
        Scanner_ambiguousKind_letter _ _ _ hl]
      dsimp only
      rw [List.append_assoc]
      rfl
    · have hend : ¬ Scanner_endsNumber c := fun hx => hc.1 ⟨hl, hx.2, hx.1⟩
      rw [if_neg hl, if_neg hend, String_appendChar_of_ne _ _ hc.2,
        Scanner__getAmbiguousToken_loop_replay fileSystem s la stack hla hstack cs f _
          (fun x hx => hcs x (List.mem_cons_of_mem _ hx))
          (by simp only [List.length_cons] at hfuel; omega),
        Scanner_ambiguousKind_other _ _ _ hl]
      dsimp only
      rw [List.append_assoc]
      rfl

theorem Scanner__getChar_cons {W : Type} (fileSystem : String_Type → Option (List Char))
    (fuel : Nat) (s : Parser_Module W) (ch : Char × Parser_Place)
    (st0 : List (Char × Parser_Place)) (hstack : s.Scanner__pushbackStack = ch :: st0) :
    Scanner__getChar fileSystem fuel s = (s.withStack st0, some ch) := by
  unfold Scanner__getChar
  rw [hstack]
  rfl

theorem Scanner_getNextToken_loop_letter {W : Type}
    (fileSystem : String_Type → Option (List Char)) (f : Nat) (s : Parser_Module W)
    (c : Char × Parser_Place) (rest : List (Char × Parser_Place))
    (hk : Scanner__characterKind c.1 = .letter)
    (hlen : rest.length < Scanner_pushbackStackSize) :
    Scanner_getNextToken_loop fileSystem (f + 1) (s.withStack (c :: rest)) =
      ((Scanner__getIdentifier fileSystem f (s.withStack (c :: rest))).1,
       (Scanner__getIdentifier fileSystem f (s.withStack (c :: rest))).2.map
         (fun token => (token, c.2))) := by
  rw [Scanner_getNextToken_loop, Scanner__getChar_withStack]
  dsimp only
  rw [hk]
  dsimp only
  rw [Scanner__ungetChar_withStack s c rest hlen]

theorem Scanner_getNextToken_loop_digit {W : Type}
    (fileSystem : String_Type → Option (List Char)) (f : Nat) (s : Parser_Module W)
    (c : Char × Parser_Place) (rest : List (Char × Parser_Place))
    (hk : Scanner__characterKind c.1 = .digit)
    (hlen : rest.length < Scanner_pushbackStackSize) :
    Scanner_getNextToken_loop fileSystem (f + 1) (s.withStack (c :: rest)) =
      ((Scanner__getNumber fileSystem f (s.withStack (c :: rest))).1,
       (Scanner__getNumber fileSystem f (s.withStack (c :: rest))).2.map
         (fun token => (token, c.2))) := by
  rw [Scanner_getNextToken_loop, Scanner__getChar_withStack]
  dsimp only
  rw [hk]
  dsimp only
  rw [Scanner__ungetChar_withStack s c rest hlen]

theorem Scanner_getNextToken_loop_digitOrLetter {W : Type}
    (fileSystem : String_Type → Option (List Char)) (f : Nat) (s : Parser_Module W)
    (c : Char × Parser_Place) (rest : List (Char × Parser_Place))
    (hk : Scanner__characterKind c.1 = .digitOrLetter)
    (hlen : rest.length < Scanner_pushbackStackSize) :
    Scanner_getNextToken_loop fileSystem (f + 1) (s.withStack (c :: rest)) =
      ((Scanner__getAmbiguousToken fileSystem f (s.withStack (c :: rest))).1,
       (Scanner__getAmbiguousToken fileSystem f (s.withStack (c :: rest))).2.map
         (fun token => (token, c.2))) := by
  rw [Scanner_getNextToken_loop, Scanner__getChar_withStack]
  dsimp only
  rw [hk]
  dsimp only
  rw [Scanner__ungetChar_withStack s c rest hlen]

theorem Scanner_getNextToken_loop_operator {W : Type}
    (fileSystem : String_Type → Option (List Char)) (f : Nat) (s : Parser_Module W)
    (c : Char × Parser_Place) (rest : List (Char × Parser_Place))
    (hk : Scanner__characterKind c.1 = .operator)
    (hlen : rest.length < Scanner_pushbackStackSize) :
    Scanner_getNextToken_loop fileSystem (f + 1) (s.withStack (c :: rest)) =
      ((Scanner__getOperator fileSystem f (s.withStack (c :: rest))).1,
       (Scanner__getOperator fileSystem f (s.withStack (c :: rest))).2.map
         (fun token => (token, c.2))) := by
  rw [Scanner_getNextToken_loop, Scanner__getChar_withStack]
  dsimp only
  rw [hk]
  dsimp only
  rw [Scanner__ungetChar_withStack s c rest hlen]

theorem Scanner_pushedBack_length (cs : List Char) :
    (Scanner_pushedBack cs).length = cs.length := by
  unfold Scanner_pushedBack
  exact List.length_map _ _

theorem Scanner__getIdentifier_replays {W : Type}
    (fileSystem : String_Type → Option (List Char)) (fuel : Nat) (s s1 : Parser_Module W)
    (t : Scanner_Token) (ch : Char × Parser_Place) (st0 : List (Char × Parser_Place))
    (hs : Scanner_stateIsValid s) (hstack : s.Scanner__pushbackStack = ch :: st0)
    (hk : Scanner__characterKind ch.1 = .letter)
    (h : Scanner__getIdentifier fileSystem fuel s = (s1, some t)) :
    Scanner_stateIsValid s1 ∧ Scanner_replays (W := W) fileSystem t s1.Scanner__pushbackStack := by
  unfold Scanner__getIdentifier at h
  cases hl : Scanner__getIdentifier_loop fileSystem fuel s [] with
  | mk sX r0 =>
    cases r0 with
    | none =>
      rw [hl] at h
      cases (Prod.mk.inj h).2
    | some r =>
      rw [hl] at h
      obtain ⟨h1, h2⟩ := Prod.mk.inj h
      have h2' := Option.some.inj h2
      subst h1; subst h2'
      obtain ⟨cs, la, stack, hr, hcs, hla, hpb, hv, hhead⟩ :=
        Scanner__getIdentifier_loop_shape fileSystem fuel s sX [] r hs hl
      refine ⟨hv, ?_⟩
      have hh := hhead ch st0 hstack
      rw [List.nil_append] at hr
      subst hr
      cases r with
      | nil =>
        have : la.1 = ch.1 := Option.some.inj hh
        rw [this] at hla
        exact absurd hk hla.1
      | cons c cs =>
        have hc : c = ch.1 := Option.some.inj hh
        rw [hpb]
        intro s' fuel2 hfuel hlen
        obtain ⟨f, rfl⟩ : ∃ f, fuel2 = f + 1 := ⟨fuel2 - 1, by omega⟩
        dsimp only [List.length_cons] at hfuel hlen
        have hrest : (Scanner_pushedBack cs ++ la :: stack).length <
            Scanner_pushbackStackSize := by
          rw [List.length_append, Scanner_pushedBack_length, List.length_cons]
          omega
        show Scanner_getNextToken_loop fileSystem (f + 1)
          (s'.withStack ((c, none) :: (Scanner_pushedBack cs ++ la :: stack))) = _
        rw [Scanner_getNextToken_loop_letter fileSystem f s' (c, none) _ (by rw [hc]; exact hk)
          hrest]
        unfold Scanner__getIdentifier
        have hloop := Scanner__getIdentifier_loop_replay fileSystem s' la stack hla
          (by omega) (c :: cs) f [] hcs (by simp only [List.length_cons]; omega)
        have hloop2 : Scanner__getIdentifier_loop fileSystem f
            (s'.withStack ((c, none) :: (Scanner_pushedBack cs ++ la :: stack))) [] =
            (s'.withStack (la :: stack), some (c :: cs)) := hloop
        rw [hloop2]
        rfl

theorem Scanner__getAmbiguousToken_replays {W : Type}
    (fileSystem : String_Type → Option (List Char)) (fuel : Nat) (s s1 : Parser_Module W)
    (t : Scanner_Token) (ch : Char × Parser_Place) (st0 : List (Char × Parser_Place))
    (hs : Scanner_stateIsValid s) (hstack : s.Scanner__pushbackStack = ch :: st0)
    (hk : Scanner__characterKind ch.1 = .digitOrLetter)
    (h : Scanner__getAmbiguousToken fileSystem fuel s = (s1, some t)) :
    Scanner_stateIsValid s1 ∧ Scanner_replays (W := W) fileSystem t s1.Scanner__pushbackStack := by
  unfold Scanner__getAmbiguousToken at h
  obtain ⟨cs, la, stack, hr, hcs, hla, hpb, hv, hhead⟩ :=
    Scanner__getAmbiguousToken_loop_shape fileSystem fuel s s1 _ t hs h
  refine ⟨hv, ?_⟩
  have hh := hhead ch st0 hstack
  dsimp only at hr
  rw [List.nil_append] at hr
  subst hr
  cases cs with
  | nil =>
    have : la.1 = ch.1 := Option.some.inj hh
    rw [this] at hla
    exact absurd hk hla.2.1
  | cons c cs =>
    have hc : c = ch.1 := Option.some.inj hh
    rw [hpb]
    intro s' fuel2 hfuel hlen
    obtain ⟨f, rfl⟩ : ∃ f, fuel2 = f + 1 := ⟨fuel2 - 1, by omega⟩
    dsimp only [List.length_cons] at hfuel hlen
    have hrest : (Scanner_pushedBack cs ++ la :: stack).length <
        Scanner_pushbackStackSize := by
      rw [List.length_append, Scanner_pushedBack_length, List.length_cons]
      omega
    show Scanner_getNextToken_loop fileSystem (f + 1)
      (s'.withStack ((c, none) :: (Scanner_pushedBack cs ++ la :: stack))) = _
    rw [Scanner_getNextToken_loop_digitOrLetter fileSystem f s' (c, none) _
      (by rw [hc]; exact hk) hrest]
    unfold Scanner__getAmbiguousToken
    have hloop := Scanner__getAmbiguousToken_loop_replay fileSystem s' la stack hla
      (by omega) (c :: cs) f { kind := Scanner_TokenKind_idOrNumber, representation := [] }
      hcs (by simp only [List.length_cons]; omega)
    have hloop2 : Scanner__getAmbiguousToken_loop fileSystem f
        (s'.withStack ((c, none) :: (Scanner_pushedBack cs ++ la :: stack)))
        { kind := Scanner_TokenKind_idOrNumber, representation := [] } =
        (s'.withStack (la :: stack),
          some { kind := Scanner_ambiguousKind Scanner_TokenKind_idOrNumber (c :: cs),
                 representation := c :: cs }) := hloop
    rw [hloop2]
    rfl

theorem Scanner__isRadixCharacter_upper (c : Char)
    (h : Scanner__isRadixCharacter c = true) (hne : c ≠ '\x00') :
    (if c.isLower then c.toUpper else c) ≠ '\x00' ∧
    Scanner__isRadixCharacter (if c.isLower then c.toUpper else c) = true ∧
    (if (if c.isLower then c.toUpper else c).isLower
      then (if c.isLower then c.toUpper else c).toUpper
      else (if c.isLower then c.toUpper else c)) = (if c.isLower then c.toUpper else c) := by
  have hm : c ∈ ['b', 'B', '@', 'o', 'O', 'q', 'Q', 'd', 'D', 'x', 'X', 'h', 'H'] := by
    unfold Scanner__isRadixCharacter at h
    rcases Bool.or_eq_true _ _ |>.mp h with h1 | h1
    · exact of_decide_eq_true h1
    · exact absurd (of_decide_eq_true h1) hne
  simp only [List.mem_cons, List.mem_singleton, List.not_mem_nil, or_false] at hm
  rcases hm with rfl | rfl | rfl | rfl | rfl | rfl | rfl | rfl | rfl | rfl | rfl | rfl | rfl <;>
    decide

theorem Scanner__getNumber_replay_plain {W : Type}
    (fileSystem : String_Type → Option (List Char)) (s : Parser_Module W) (f : Nat)
    (ch : Char) (ds : List Char) (la : Char × Parser_Place)
    (stack : List (Char × Parser_Place))
    (h0 : ch ≠ '0') (hne : ch ≠ '\x00')
    (hds : ∀ c ∈ ds, ¬ Scanner_endsNumber c ∧ c ≠ '\x00')
    (hla : Scanner_endsNumber la.1) (hstack : stack.length < Scanner_pushbackStackSize)
    (hfuel : ds.length + 1 ≤ f) :
    Scanner__getNumber fileSystem f
        (s.withStack ((ch, none) :: (Scanner_pushedBack ds ++ la :: stack))) =
      (s.withStack (la :: stack),
        some { kind := Scanner_TokenKind_number, representation := ch :: ds }) := by
  unfold Scanner__getNumber
  rw [Scanner__getChar_withStack]
  dsimp only
  rw [if_neg h0, String_appendChar_of_ne [] ch hne]
  dsimp only
  rw [Scanner__getNumber_loop_replay fileSystem s la stack hla hstack ds f _ hds hfuel]
  rfl

theorem Scanner__getNumber_replay_zero {W : Type}
    (fileSystem : String_Type → Option (List Char)) (s : Parser_Module W) (f : Nat)
    (x : Char) (ds : List Char) (la : Char × Parser_Place)
    (stack : List (Char × Parser_Place))
    (hhead : (ds ++ [la.1]).head? = some x) (hx : Scanner__isRadixCharacter x = false)
    (hds : ∀ c ∈ ds, ¬ Scanner_endsNumber c ∧ c ≠ '\x00')
    (hla : Scanner_endsNumber la.1)
    (hstack : ds.length + stack.length < Scanner_pushbackStackSize)
    (hfuel : ds.length + 1 ≤ f) :
    Scanner__getNumber fileSystem f
        (s.withStack (('0', none) :: (Scanner_pushedBack ds ++ la :: stack))) =
      (s.withStack (la :: stack),
        some { kind := Scanner_TokenKind_number, representation := '0' :: ds }) := by
  have hX : ∃ (y : Char × Parser_Place) (rest : List (Char × Parser_Place)),
      Scanner_pushedBack ds ++ la :: stack = y :: rest ∧ y.1 = x ∧
      rest.length < Scanner_pushbackStackSize := by
    cases ds with
    | nil =>
      refine ⟨la, stack, rfl, Option.some.inj hhead, ?_⟩
      simp only [List.length_nil] at hstack
      omega
    | cons d ds =>
      refine ⟨(d, none), Scanner_pushedBack ds ++ la :: stack, rfl, Option.some.inj hhead, ?_⟩
      rw [List.length_append, Scanner_pushedBack_length, List.length_cons]
      simp only [List.length_cons] at hstack
      omega
  obtain ⟨y, rest, hX, hy, hrest⟩ := hX
  unfold Scanner__getNumber
  rw [Scanner__getChar_withStack]
  dsimp only
  rw [if_pos rfl, hX, Scanner__getChar_withStack]
  dsimp only
  rw [hy, hx]
  simp only [Bool.not_false, if_true]
  rw [Scanner__ungetChar_withStack s y rest hrest]
  dsimp only
  rw [← hX, String_appendChar_of_ne [] '0' (by decide),
    Scanner__getNumber_loop_replay fileSystem s la stack hla (by omega) ds f _ hds hfuel]
  rfl

theorem Scanner__getNumber_replay_radix {W : Type}
    (fileSystem : String_Type → Option (List Char)) (s : Parser_Module W) (f : Nat)
    (u : Char) (ds : List Char) (la : Char × Parser_Place)
    (stack : List (Char × Parser_Place))
    (hu : Scanner__isRadixCharacter u = true) (hne : u ≠ '\x00')
    (hup : (if u.isLower then u.toUpper else u) = u)
    (hds : ∀ c ∈ ds, ¬ Scanner_endsNumber c ∧ c ≠ '\x00')
    (hla : Scanner_endsNumber la.1) (hstack : stack.length < Scanner_pushbackStackSize)
    (hfuel : ds.length + 1 ≤ f) :
    Scanner__getNumber fileSystem f
        (s.withStack (('0', none) :: (u, none) :: (Scanner_pushedBack ds ++ la :: stack))) =
      (s.withStack (la :: stack),
        some { kind := Scanner_TokenKind_number, representation := '0' :: u :: ds }) := by
  unfold Scanner__getNumber
  rw [Scanner__getChar_withStack]
  dsimp only
  rw [if_pos rfl, Scanner__getChar_withStack]
  dsimp only
  rw [hu]
  simp only [Bool.not_true, Bool.false_eq_true, if_false]
  rw [hup, String_appendChar_of_ne [] '0' (by decide), String_appendChar_of_ne _ u hne]
  rw [Scanner__getNumber_loop_replay fileSystem s la stack hla hstack ds f _ hds hfuel]
  rfl

theorem Scanner__getNumber_replays {W : Type}
    (fileSystem : String_Type → Option (List Char)) (fuel : Nat) (s s1 : Parser_Module W)
    (t : Scanner_Token) (ch : Char × Parser_Place) (st0 : List (Char × Parser_Place))
    (hs : Scanner_stateIsValid s) (hstack : s.Scanner__pushbackStack = ch :: st0)
    (hk : Scanner__characterKind ch.1 = .digit)
    (h : Scanner__getNumber fileSystem fuel s = (s1, some t)) :
    Scanner_stateIsValid s1 ∧ Scanner_replays (W := W) fileSystem t s1.Scanner__pushbackStack := by
  have hg := Scanner__getChar_cons fileSystem fuel s ch st0 hstack
  obtain ⟨hvA, hne, _⟩ := Scanner__getChar_valid fileSystem fuel s _ ch hs hg
  unfold Scanner__getNumber at h
  rw [hg] at h
  dsimp only at h
  rw [String_appendChar_of_ne [] ch.1 hne, List.nil_append] at h
  by_cases h0 : ch.1 = '0'
  · rw [if_pos h0] at h
    cases hg2 : Scanner__getChar fileSystem fuel (s.withStack st0) with
    | mk sB oc =>
      rw [hg2] at h
      cases oc with
      | none =>
        simp at h
      | some ch2 =>
        dsimp only at h
        obtain ⟨hvB, hne2, _⟩ := Scanner__getChar_valid fileSystem fuel _ sB ch2 hvA hg2
        cases hr : Scanner__isRadixCharacter ch2.1 with
        | false =>
          rw [hr] at h
          simp only [Bool.not_false, if_true] at h
          cases hu : Scanner__ungetChar sB ch2 with
          | none =>
            rw [hu] at h
            simp at h
          | some sC =>
            rw [hu] at h
            dsimp only at h
            obtain ⟨hvC, hpC⟩ := Scanner__ungetChar_valid sB sC ch2 hvB hne2 hu
            cases hl : Scanner__getNumber_loop fileSystem fuel sC [ch.1] with
            | mk sX r0 =>
              rw [hl] at h
              cases r0 with
              | none =>
                simp at h
              | some r =>
                obtain ⟨h1, h2⟩ := Prod.mk.inj h
                have h2' := Option.some.inj h2
                subst h1; subst h2'
                obtain ⟨ds, la, stack, hr2, hds, hla, hpb, hv, hhead⟩ :=
                  Scanner__getNumber_loop_shape fileSystem fuel sC sX _ r hvC hl
                refine ⟨hv, ?_⟩
                have hh := hhead ch2 _ hpC
                subst hr2
                rw [hpb, h0]
                intro s' fuel2 hfuel hlen
                obtain ⟨f, rfl⟩ : ∃ f, fuel2 = f + 1 := ⟨fuel2 - 1, by omega⟩
                simp only [List.length_cons, List.length_append, List.length_nil,
                  List.singleton_append] at hfuel hlen
                have hrest : (Scanner_pushedBack ds ++ la :: stack).length <
                    Scanner_pushbackStackSize := by
                  rw [List.length_append, Scanner_pushedBack_length, List.length_cons]
                  omega
                show Scanner_getNextToken_loop fileSystem (f + 1)
                  (s'.withStack (('0', none) :: (Scanner_pushedBack ds ++ la :: stack))) = _
                rw [Scanner_getNextToken_loop_digit fileSystem f s' ('0', none) _
                  (by decide) hrest,
                  Scanner__getNumber_replay_zero fileSystem s' f ch2.1 ds la stack hh hr hds hla
                    (by omega) (by omega)]
                rfl
        | true =>
          rw [hr] at h
          simp only [Bool.not_true, Bool.false_eq_true, if_false] at h
          obtain ⟨hune, huradix, hup⟩ := Scanner__isRadixCharacter_upper ch2.1 hr hne2
          rw [String_appendChar_of_ne _ _ hune] at h
          cases hl : Scanner__getNumber_loop fileSystem fuel sB
              ([ch.1] ++ [if ch2.1.isLower then ch2.1.toUpper else ch2.1]) with
          | mk sX r0 =>
            rw [hl] at h
            cases r0 with
            | none =>
              simp at h
            | some r =>
              obtain ⟨h1, h2⟩ := Prod.mk.inj h
              have h2' := Option.some.inj h2
              subst h1; subst h2'
              obtain ⟨ds, la, stack, hr2, hds, hla, hpb, hv, _⟩ :=
                Scanner__getNumber_loop_shape fileSystem fuel sB sX _ r hvB hl
              refine ⟨hv, ?_⟩
              subst hr2
              rw [hpb, h0]
              intro s' fuel2 hfuel hlen
              obtain ⟨f, rfl⟩ : ∃ f, fuel2 = f + 1 := ⟨fuel2 - 1, by omega⟩
              simp only [List.length_cons, List.length_append, List.length_nil,
                List.singleton_append] at hfuel hlen
              have hrest : ((((if ch2.1.isLower then ch2.1.toUpper else ch2.1), none) :
                  Char × Parser_Place) :: (Scanner_pushedBack ds ++ la :: stack)).length <
                  Scanner_pushbackStackSize := by
                rw [List.length_cons, List.length_append, Scanner_pushedBack_length,
                  List.length_cons]
                omega
              show Scanner_getNextToken_loop fileSystem (f + 1)
                (s'.withStack (('0', none) ::
                  ((if ch2.1.isLower then ch2.1.toUpper else ch2.1), none) ::
                  (Scanner_pushedBack ds ++ la :: stack))) = _
              rw [Scanner_getNextToken_loop_digit fileSystem f s' ('0', none) _
                (by decide) hrest,
                Scanner__getNumber_replay_radix fileSystem s' f _ ds la stack huradix hune hup
                  hds hla (by omega) (by omega)]
              rfl
  · rw [if_neg h0] at h
    dsimp only at h
    cases hl : Scanner__getNumber_loop fileSystem fuel (s.withStack st0) [ch.1] with
    | mk sX r0 =>
      rw [hl] at h
      cases r0 with
      | none =>
        simp at h
      | some r =>
        obtain ⟨h1, h2⟩ := Prod.mk.inj h
        have h2' := Option.some.inj h2
        subst h1; subst h2'
        obtain ⟨ds, la, stack, hr2, hds, hla, hpb, hv, _⟩ :=
          Scanner__getNumber_loop_shape fileSystem fuel _ sX _ r hvA hl
        refine ⟨hv, ?_⟩
        subst hr2
        rw [hpb]
        intro s' fuel2 hfuel hlen
        obtain ⟨f, rfl⟩ : ∃ f, fuel2 = f + 1 := ⟨fuel2 - 1, by omega⟩
        simp only [List.length_cons, List.length_append, List.length_nil,
          List.singleton_append] at hfuel hlen
        have hrest : (Scanner_pushedBack ds ++ la :: stack).length <
            Scanner_pushbackStackSize := by
          rw [List.length_append, Scanner_pushedBack_length, List.length_cons]
          omega
        show Scanner_getNextToken_loop fileSystem (f + 1)
          (s'.withStack ((ch.1, none) :: (Scanner_pushedBack ds ++ la :: stack))) = _
        rw [Scanner_getNextToken_loop_digit fileSystem f s' (ch.1, none) _ hk hrest,
          Scanner__getNumber_replay_plain fileSystem s' f ch.1 ds la stack h0 hne hds hla
            (by omega) (by omega)]
        rfl

theorem Scanner__getOperator_replays {W : Type}
    (fileSystem : String_Type → Option (List Char)) (fuel : Nat) (s s1 : Parser_Module W)
    (t : Scanner_Token) (ch : Char × Parser_Place) (st0 : List (Char × Parser_Place))
    (hs : Scanner_stateIsValid s) (hstack : s.Scanner__pushbackStack = ch :: st0)
    (hk : Scanner__characterKind ch.1 = .operator)
    (h : Scanner__getOperator fileSystem fuel s = (s1, some t)) :
    Scanner_stateIsValid s1 ∧ Scanner_replays (W := W) fileSystem t s1.Scanner__pushbackStack := by
  have hg := Scanner__getChar_cons fileSystem fuel s ch st0 hstack
  obtain ⟨hvA, hne, _⟩ := Scanner__getChar_valid fileSystem fuel s _ ch hs hg
  unfold Scanner__getOperator at h
  rw [hg] at h
  dsimp only at h
  rw [String_appendChar_of_ne [] ch.1 hne, List.nil_append] at h
  by_cases hlt : ch.1 = '<' ∨ ch.1 = '>'
  · rw [if_pos hlt] at h
    cases hg2 : Scanner__getChar fileSystem fuel (s.withStack st0) with
    | mk sB oc =>
      rw [hg2] at h
      cases oc with
      | none =>
        simp at h
      | some next =>
        dsimp only at h
        obtain ⟨hvB, hne2, _⟩ := Scanner__getChar_valid fileSystem fuel _ sB next hvA hg2
        by_cases heq : next.1 = ch.1
        · rw [if_pos heq, String_appendChar_of_ne _ _ hne2] at h
          obtain ⟨h1, h2⟩ := Prod.mk.inj h
          have h2' := Option.some.inj h2
          subst h1; subst h2'
          refine ⟨hvB, ?_⟩
          intro s' fuel2 hfuel hlen
          obtain ⟨f, rfl⟩ : ∃ f, fuel2 = f + 1 := ⟨fuel2 - 1, by omega⟩
          simp only [List.length_cons, List.length_append, List.length_nil] at hlen
          show Scanner_getNextToken_loop fileSystem (f + 1)
            (s'.withStack ((ch.1, none) :: (next.1, none) :: sB.Scanner__pushbackStack)) = _
          rw [Scanner_getNextToken_loop_operator fileSystem f s' (ch.1, none) _ hk
            (by simp only [List.length_cons]; omega)]
          unfold Scanner__getOperator
          rw [Scanner__getChar_withStack]
          dsimp only
          rw [if_pos hlt, Scanner__getChar_withStack]
          dsimp only
          rw [if_pos heq, String_appendChar_of_ne [] ch.1 hne, String_appendChar_of_ne _ _ hne2]
          rfl
        · rw [if_neg heq] at h
          cases hu : Scanner__ungetChar sB next with
          | none =>
            rw [hu] at h
            simp at h
          | some sC =>
            rw [hu] at h
            dsimp only at h
            obtain ⟨hvC, hpC⟩ := Scanner__ungetChar_valid sB sC next hvB hne2 hu
            obtain ⟨h1, h2⟩ := Prod.mk.inj h
            have h2' := Option.some.inj h2
            subst h1; subst h2'
            refine ⟨hvC, ?_⟩
            rw [hpC]
            intro s' fuel2 hfuel hlen
            obtain ⟨f, rfl⟩ : ∃ f, fuel2 = f + 1 := ⟨fuel2 - 1, by omega⟩
            simp only [List.length_cons, List.length_nil] at hlen
            show Scanner_getNextToken_loop fileSystem (f + 1)
              (s'.withStack ((ch.1, none) :: next :: sB.Scanner__pushbackStack)) = _
            rw [Scanner_getNextToken_loop_operator fileSystem f s' (ch.1, none) _ hk
              (by simp only [List.length_cons]; omega)]
            unfold Scanner__getOperator
            rw [Scanner__getChar_withStack]
            dsimp only
            rw [if_pos hlt, Scanner__getChar_withStack]
            dsimp only
            rw [if_neg heq, Scanner__ungetChar_withStack s' next _ (by omega),
              String_appendChar_of_ne [] ch.1 hne]
            rfl
  · rw [if_neg hlt] at h
    obtain ⟨h1, h2⟩ := Prod.mk.inj h
    have h2' := Option.some.inj h2
    subst h1; subst h2'
    refine ⟨hvA, ?_⟩
    intro s' fuel2 hfuel hlen
    obtain ⟨f, rfl⟩ : ∃ f, fuel2 = f + 1 := ⟨fuel2 - 1, by omega⟩
    have hlen2 : [ch.1].length + st0.length ≤ Scanner_pushbackStackSize := hlen
    simp only [List.length_cons, List.length_nil] at hlen2
    show Scanner_getNextToken_loop fileSystem (f + 1)
      (s'.withStack ((ch.1, none) :: st0)) = _
    rw [Scanner_getNextToken_loop_operator fileSystem f s' (ch.1, none) _ hk (by omega)]
    unfold Scanner__getOperator
    rw [Scanner__getChar_withStack]
    dsimp only
    rw [if_neg hlt, String_appendChar_of_ne [] ch.1 hne]
    rfl

theorem Scanner__makeTokenForChar_replays {W : Type}
    (fileSystem : String_Type → Option (List Char)) (ch : Char) (kind : Nat)
    (stack : List (Char × Parser_Place)) (hne : ch ≠ '\x00')
    (hk : (Scanner__characterKind ch = .newline ∧ kind = Scanner_TokenKind_newline) ∨
      (Scanner__characterKind ch = .streamEnd ∧ kind = Scanner_TokenKind_streamEnd) ∨
      (Scanner__characterKind ch = .comment ∧ kind = Scanner_TokenKind_comment) ∨
      (Scanner__characterKind ch = .other ∧ kind = Scanner_TokenKind_other)) :
    Scanner_replays (W := W) fileSystem (Scanner__makeTokenForChar ch kind) stack := by
  intro s' fuel2 hfuel _
  obtain ⟨f, rfl⟩ : ∃ f, fuel2 = f + 1 := ⟨fuel2 - 1, by omega⟩
  have hrep : (Scanner__makeTokenForChar ch kind).representation = [ch] := by
    unfold Scanner__makeTokenForChar
    exact String_appendChar_of_ne [] ch hne
  rw [hrep]
  show Scanner_getNextToken_loop fileSystem (f + 1) (s'.withStack ((ch, none) :: stack)) = _
  rw [Scanner_getNextToken_loop, Scanner__getChar_withStack]
  dsimp only
  rcases hk with ⟨h1, rfl⟩ | ⟨h1, rfl⟩ | ⟨h1, rfl⟩ | ⟨h1, rfl⟩ <;> rw [h1]

theorem Scanner_getNextToken_loop_replays {W : Type}
    (fileSystem : String_Type → Option (List Char)) :
    ∀ (fuel : Nat) (s s1 : Parser_Module W) (t : Scanner_Token) (p : Parser_Place),
      Scanner_stateIsValid s →
      Scanner_getNextToken_loop fileSystem fuel s = (s1, some (t, p)) →
      Scanner_stateIsValid s1 ∧
        Scanner_replays (W := W) fileSystem t s1.Scanner__pushbackStack
  | 0, s, s1, t, p, _, h => by
    unfold Scanner_getNextToken_loop at h
    cases (Prod.mk.inj h).2
  | fuel + 1, s, s1, t, p, hs, h => by
    unfold Scanner_getNextToken_loop at h
    cases hg : Scanner__getChar fileSystem fuel s with
    | mk sA oc =>
      rw [hg] at h
      cases oc with
      | none =>
        simp at h
      | some ch =>
        dsimp only at h
        obtain ⟨hvA, hne, _⟩ := Scanner__getChar_valid fileSystem fuel s sA ch hs hg
        cases hk : Scanner__characterKind ch.1 with
        | whiteSpace =>
          rw [hk] at h
          exact Scanner_getNextToken_loop_replays fileSystem fuel sA s1 t p hvA h
        | digit =>
          rw [hk] at h
          dsimp only at h
          cases hu : Scanner__ungetChar sA ch with
          | none =>
            rw [hu] at h
            simp at h
          | some sB =>
            rw [hu] at h
            dsimp only at h
            obtain ⟨hvB, hpB⟩ := Scanner__ungetChar_valid sA sB ch hvA hne hu
            cases hR : Scanner__getNumber fileSystem fuel sB with
            | mk sX ot =>
              rw [hR] at h
              cases ot with
              | none =>
                simp at h
              | some tok =>
                simp only [Option.map_some', Prod.mk.injEq, Option.some.injEq] at h
                obtain ⟨h1, h2, _⟩ := h
                subst h1; subst h2
                exact Scanner__getNumber_replays fileSystem fuel sB sX tok ch _ hvB hpB hk hR
        | digitOrLetter =>
          rw [hk] at h
          dsimp only at h
          cases hu : Scanner__ungetChar sA ch with
          | none =>
            rw [hu] at h
            simp at h
          | some sB =>
            rw [hu] at h
            dsimp only at h
            obtain ⟨hvB, hpB⟩ := Scanner__ungetChar_valid sA sB ch hvA hne hu
            cases hR : Scanner__getAmbiguousToken fileSystem fuel sB with
            | mk sX ot =>
              rw [hR] at h
              cases ot with
              | none =>
                simp at h
              | some tok =>
                simp only [Option.map_some', Prod.mk.injEq, Option.some.injEq] at h
                obtain ⟨h1, h2, _⟩ := h
                subst h1; subst h2
                exact Scanner__getAmbiguousToken_replays fileSystem fuel sB sX tok ch _ hvB hpB
                  hk hR
        | letter =>
          rw [hk] at h
          dsimp only at h
          cases hu : Scanner__ungetChar sA ch with
          | none =>
            rw [hu] at h
            simp at h
          | some sB =>
            rw [hu] at h
            dsimp only at h
            obtain ⟨hvB, hpB⟩ := Scanner__ungetChar_valid sA sB ch hvA hne hu
            cases hR : Scanner__getIdentifier fileSystem fuel sB with
            | mk sX ot =>
              rw [hR] at h
              cases ot with
              | none =>
                simp at h
              | some tok =>
                simp only [Option.map_some', Prod.mk.injEq, Option.some.injEq] at h
                obtain ⟨h1, h2, _⟩ := h
                subst h1; subst h2
                exact Scanner__getIdentifier_replays fileSystem fuel sB sX tok ch _ hvB hpB
                  hk hR
        | operator =>
          rw [hk] at h
          dsimp only at h
          cases hu : Scanner__ungetChar sA ch with
          | none =>
            rw [hu] at h
            simp at h
          | some sB =>
            rw [hu] at h
            dsimp only at h
            obtain ⟨hvB, hpB⟩ := Scanner__ungetChar_valid sA sB ch hvA hne hu
            cases hR : Scanner__getOperator fileSystem fuel sB with
            | mk sX ot =>
              rw [hR] at h
              cases ot with
              | none =>
                simp at h
              | some tok =>
                simp only [Option.map_some', Prod.mk.injEq, Option.some.injEq] at h
                obtain ⟨h1, h2, _⟩ := h
                subst h1; subst h2
                exact Scanner__getOperator_replays fileSystem fuel sB sX tok ch _ hvB hpB
                  hk hR
        | newline =>
          rw [hk] at h
          simp only [Prod.mk.injEq, Option.some.injEq] at h
          obtain ⟨h1, h2, _⟩ := h
          subst h1; subst h2
          exact ⟨hvA, Scanner__makeTokenForChar_replays fileSystem ch.1 _ _ hne
            (Or.inl ⟨hk, rfl⟩)⟩
        | streamEnd =>
          rw [hk] at h
          simp only [Prod.mk.injEq, Option.some.injEq] at h
          obtain ⟨h1, h2, _⟩ := h
          subst h1; subst h2
          exact ⟨hvA, Scanner__makeTokenForChar_replays fileSystem ch.1 _ _ hne
            (Or.inr (Or.inl ⟨hk, rfl⟩))⟩
        | comment =>
          rw [hk] at h
          simp only [Prod.mk.injEq, Option.some.injEq] at h
          obtain ⟨h1, h2, _⟩ := h
          subst h1; subst h2
          exact ⟨hvA, Scanner__makeTokenForChar_replays fileSystem ch.1 _ _ hne
            (Or.inr (Or.inr (Or.inl ⟨hk, rfl⟩)))⟩
        | other =>
          rw [hk] at h
          simp only [Prod.mk.injEq, Option.some.injEq] at h
          obtain ⟨h1, h2, _⟩ := h
          subst h1; subst h2
          exact ⟨hvA, Scanner__makeTokenForChar_replays fileSystem ch.1 _ _ hne
            (Or.inr (Or.inr (Or.inr ⟨hk, rfl⟩)))⟩

/-- Claim C37: when `Scanner_getNextToken` has returned the token `t` and
`Scanner_ungetToken` pushes `t` back without an overflow of the pushback
stack, the next call of `Scanner_getNextToken` returns `t` again, with the
same kind and the same representation, for every fuel that covers the
characters of `t`, and it leaves all variables of the scanner and of the
reader as they were after the first call: only the log of the returned tokens
has one more entry.  The variables before the first call are those of a
reachable state (`Scanner_stateIsValid`). -/
theorem C37_unget_then_get_returns_same_token {W : Type}
    (fileSystem : String_Type → Option (List Char)) (fuel fuel2 : Nat)
    (s s1 s2 : Parser_Module W) (t : Scanner_Token)
    (hvalid : Scanner_stateIsValid s)
    (hget : Scanner_getNextToken fileSystem fuel s = (s1, some t))
    (hunget : Scanner_ungetToken s1 t = some s2)
    (hfuel : t.representation.length + 2 ≤ fuel2) :
    Scanner_getNextToken fileSystem fuel2 s2 =
      ({ s1 with tokenLog := s1.tokenLog ++
           [{ place := none, token := t, options := s1.Parser__options }] },
        some t) := by
  unfold Scanner_getNextToken at hget
  cases hl : Scanner_getNextToken_loop fileSystem fuel s with
  | mk sL o =>
    rw [hl] at hget
    cases o with
    | none =>
      simp at hget
    | some tp =>
      obtain ⟨tok, pl⟩ := tp
      dsimp only at hget
      obtain ⟨h1, h2⟩ := Prod.mk.inj hget
      have h2' := Option.some.inj h2
      subst h2'
      obtain ⟨hvL, hrep⟩ := Scanner_getNextToken_loop_replays fileSystem fuel s sL tok pl hvalid hl
      have hstack : s1.Scanner__pushbackStack = sL.Scanner__pushbackStack := by
        rw [← h1]
      have hlen1 : s1.Scanner__pushbackStack.length ≤ Scanner_pushbackStackSize := by
        rw [hstack]
        exact hvL.1
      unfold Scanner_ungetToken at hunget
      obtain ⟨h3, h4⟩ := Scanner_ungetToken_loop_spec tok.representation
        tok.representation.length s1 s2 (Nat.le_refl _) hlen1 hunget
      rw [List.take_length] at h3
      subst h3
      unfold Scanner_getNextToken
      rw [hstack, hrep s1 fuel2 hfuel (by rw [← hstack]; exact h4)]
      dsimp only
      rw [← hstack]
      rfl

/-- Witness of `C37_unget_then_get_returns_same_token`: on the line "0x1F+A"
the scanner returns the number "0X1F"; after `Scanner_ungetToken` it returns
the number "0X1F" again and the variables are those after the first call, the
log of tokens apart. -/
theorem C37_unget_then_get_returns_same_token_witness :
    Scanner_stateIsValid ungetExampleStart ∧
    Scanner_getNextToken parserExampleFiles 8 ungetExampleStart =
      (ungetExampleScanned, some ungetExampleToken) ∧
    ∃ s2, Scanner_ungetToken ungetExampleScanned ungetExampleToken = some s2 ∧
      Scanner_getNextToken parserExampleFiles 6 s2 =
        ({ ungetExampleScanned with tokenLog := ungetExampleScanned.tokenLog ++
             [{ place := none, token := ungetExampleToken,
                options := ungetExampleScanned.Parser__options }] },
          some ungetExampleToken) := by
  have hv : Scanner_stateIsValid ungetExampleStart := ⟨by decide, by decide, by decide⟩
  have h2 : (Scanner_getNextToken parserExampleFiles 8 ungetExampleStart).2 =
      some ungetExampleToken := by decide!
  have hget : Scanner_getNextToken parserExampleFiles 8 ungetExampleStart =
      (ungetExampleScanned, some ungetExampleToken) := Prod.ext rfl h2
  have hsome : (Scanner_ungetToken ungetExampleScanned ungetExampleToken).isSome = true := by
    decide!
  exact ⟨hv, hget, _, (Option.some_get hsome).symm,
    C37_unget_then_get_returns_same_token parserExampleFiles 8 6 ungetExampleStart
      ungetExampleScanned _ ungetExampleToken hv hget (Option.some_get hsome).symm
      (by decide)⟩

end Aslink
